import Mathlib

/-! A FAT-style in-memory filesystem: shallow embedding of `filesystem_logic.go`.

The Go package keeps two exported globals, `Disk [][]byte` and `FAT []BlockID`.
They are modelled by the record `FSState`; every operation takes the state and
returns the state it leaves behind together with its result.

* bytes are natural numbers below 256, `BlockID`/`int64` values are integers
  (two's complement wrapping is explicit in the codec);
* `time.Now().UnixNano()` is an argument of the operation that calls it;
* output written with `fmt.Printf` is not part of the state, but the evaluation
  of its arguments is modelled, because slicing `Name[:bytes.IndexByte(Name[:], 0)]`
  aborts with a run-time error when the name holds no zero byte;
* loops that follow the FAT are bounded by `walkFuel`; a walk that has not ended
  after `TOTAL_BLOCKS + 1` blocks has come back to a block it already visited.
-/

namespace FS

/-! ## Constants -/

def BLOCK_SIZE : Nat := 256
def TOTAL_BLOCKS : Nat := 256
def FAT_FREE : Int := -2
def FAT_EOF : Int := -1
def ROOT_DIR_BLOCK : Int := 1
def MAX_FILENAME_LEN : Nat := 28
def DIRECTORY_ENTRY_SIZE : Nat := 49

def TYPE_FILE : Int := 0
def TYPE_DIRECTORY : Int := 1

/-- Error values returned by the package, one constructor per kind of failure. -/
inductive FsError where
  | serializationError
  | insufficientData
  | invalidBlock
  | corruptChain
  | invalidParent
  | directoryFull
  | noSlotFound
  | diskFull
  | nameEmpty
  | nameTooLong
  | duplicateName
  | entryNotFound
  | notAFile
  | notADirectory
  | directoryNotEmpty
  | inconsistentMetadata
  | reservedName
  | unknownType
  | invalidTarget
  | blockTooSmall
  | nilFileSystem
  | invalidateFailed (inner : FsError)
  deriving DecidableEq, Repr

/-- Result of running an operation: a normal return, a returned error, a run-time
abort (Go `panic`), or a loop that never ends. -/
inductive Res (α : Type) where
  | ok (a : α)
  | err (e : FsError)
  | panic
  | diverge
  deriving DecidableEq, Repr

/-! ## Directory entries and their codec -/

/-- The Go struct `DirectoryEntry`: `Name [28]byte`, `Type int8` (field `EntryType`), `StartBlock int32`,
`Size int64`, `ModTime int64`. -/
structure DirectoryEntry where
  Name : List Nat
  EntryType : Int
  StartBlock : Int
  Size : Int
  ModTime : Int
  deriving DecidableEq, Repr

/-- The values a Go `DirectoryEntry` can hold: 28 name bytes and fields inside the
range of their machine type. -/
def DirectoryEntry.WF (de : DirectoryEntry) : Prop :=
  de.Name.length = MAX_FILENAME_LEN ∧ (∀ b ∈ de.Name, b < 256) ∧
  (-128 ≤ de.EntryType ∧ de.EntryType < 128) ∧
  (-2147483648 ≤ de.StartBlock ∧ de.StartBlock < 2147483648) ∧
  (-9223372036854775808 ≤ de.Size ∧ de.Size < 9223372036854775808) ∧
  (-9223372036854775808 ≤ de.ModTime ∧ de.ModTime < 9223372036854775808)

instance (de : DirectoryEntry) : Decidable de.WF := by
  unfold DirectoryEntry.WF; infer_instance

/-- Two's complement image of `x` in `w` bytes, as an unsigned number. -/
def toUnsigned (w : Nat) (x : Int) : Nat := (x % (2 ^ (8 * w) : Int)).toNat

/-- Signed reading of a `w`-byte unsigned number. -/
def toSigned (w : Nat) (n : Nat) : Int :=
  if n < 2 ^ (8 * w - 1) then (n : Int) else (n : Int) - (2 ^ (8 * w) : Int)

/-- The `w` little-endian bytes of `n`, least significant first. -/
def leBytes : Nat → Nat → List Nat
  | 0, _ => []
  | w + 1, n => (n % 256) :: leBytes w (n / 256)

/-- Value of a little-endian byte sequence. -/
def ofLE : List Nat → Nat
  | [] => 0
  | b :: bs => b + 256 * ofLE bs

/-- The bytes written by `binary.Write(buf, binary.LittleEndian, x)` for a signed integer of `w` bytes. -/
def putInt (w : Nat) (x : Int) : List Nat := leBytes w (toUnsigned w x)

/-- The value read by `binary.Read(buf, binary.LittleEndian, &x)` from the `w` bytes at `off`. -/
def getInt (w : Nat) (data : List Nat) (off : Nat) : Int :=
  toSigned w (ofLE ((data.drop off).take w))

/-- The buffer `Serialize` fills: the name, then the four fields in little-endian order. -/
def entryBytes (de : DirectoryEntry) : List Nat :=
  de.Name ++ putInt 1 de.EntryType ++ putInt 4 de.StartBlock ++ putInt 8 de.Size
    ++ putInt 8 de.ModTime

/-- Go `(de *DirectoryEntry) Serialize`. -/
def DirectoryEntry.Serialize (de : DirectoryEntry) : Res (List Nat) :=
  let serializedData := entryBytes de
  if serializedData.length ≠ DIRECTORY_ENTRY_SIZE then .err .serializationError
  else .ok serializedData

/-- Go `DeserializeEntry`. -/
def DeserializeEntry (data : List Nat) : Res DirectoryEntry :=
  if data.length < DIRECTORY_ENTRY_SIZE then .err .insufficientData
  else .ok {
    Name := data.take MAX_FILENAME_LEN
    EntryType := getInt 1 data 28
    StartBlock := getInt 4 data 29
    Size := getInt 8 data 33
    ModTime := getInt 8 data 41 }

/-! ## Byte-slice helpers -/

/-- Go `copy(dst, src)`: overwrite the first `min(len(dst), len(src))` bytes of `dst`. -/
def copy (dst src : List Nat) : List Nat := src.take dst.length ++ dst.drop src.length

/-- Go `copy(dst[off:], src)` seen from the whole of `dst`. -/
def copyAt (dst : List Nat) (off : Nat) (src : List Nat) : List Nat :=
  dst.take off ++ copy (dst.drop off) src

/-- The loop `for i := lo; i < hi; i++ { blk[i] = 0 }`. -/
def zeroFill (blk : List Nat) (lo hi : Nat) : List Nat :=
  blk.take lo ++ List.replicate (hi - lo) 0 ++ blk.drop hi

/-- Go `var n [28]byte; copy(n[:], name)`: the name, cut to 28 bytes and padded with zeros. -/
def mkName (name : List Nat) : List Nat := copy (List.replicate MAX_FILENAME_LEN 0) name

/-- Go `Name[:bytes.IndexByte(Name[:], 0)]`: the bytes before the first zero byte. When the
array holds no zero byte `IndexByte` is -1 and the slice expression aborts: `none`. -/
def nameOf (name : List Nat) : Option (List Nat) :=
  if 0 ∈ name then some (name.takeWhile (fun b => b ≠ 0)) else none

/-- The offsets visited by `for offset := 0; offset+49 <= BLOCK_SIZE; offset += 49`. -/
def slotOffsets : List Nat :=
  (List.range (BLOCK_SIZE / DIRECTORY_ENTRY_SIZE)).map (fun k => k * DIRECTORY_ENTRY_SIZE)

/-- Go `blockData[offset : offset+DIRECTORY_ENTRY_SIZE]`. -/
def slotData (blockData : List Nat) (offset : Nat) : List Nat :=
  (blockData.drop offset).take DIRECTORY_ENTRY_SIZE

/-! ## State -/

/-- The two package globals. -/
structure FSState where
  Disk : List (List Nat)
  FAT : List Int
  deriving DecidableEq, Repr

/-- The shape `FormatDisk` gives the globals and every operation keeps: `TOTAL_BLOCKS` blocks of
`BLOCK_SIZE` bytes and `TOTAL_BLOCKS` FAT entries. The operations are modelled for such states:
every index the source guards with `0 <= b < TOTAL_BLOCKS` is then inside the slices. -/
def FSState.WF (s : FSState) : Prop :=
  s.Disk.length = TOTAL_BLOCKS ∧ (∀ blk ∈ s.Disk, blk.length = BLOCK_SIZE) ∧
  s.FAT.length = TOTAL_BLOCKS

instance (s : FSState) : Decidable s.WF := by
  unfold FSState.WF; infer_instance

/-- Go `FAT[b]`. -/
def fatAt (s : FSState) (b : Int) : Int := s.FAT.getD b.toNat FAT_FREE

/-- Go `Disk[b]`. -/
def blockAt (s : FSState) (b : Int) : List Nat := s.Disk.getD b.toNat []

/-- Go `FAT[b] = v`. -/
def setFat (s : FSState) (b v : Int) : FSState := { s with FAT := s.FAT.set b.toNat v }

/-- Go `Disk[b]` overwritten with `blk`. -/
def setBlock (s : FSState) (b : Int) (blk : List Nat) : FSState :=
  { s with Disk := s.Disk.set b.toNat blk }

/-- Bound on the number of loop tests of a walk along the FAT. -/
def walkFuel : Nat := TOTAL_BLOCKS + 2

/-- The Go struct `FileSystem`. -/
structure FileSystem where
  CurrentDirectoryBlock : Int
  deriving DecidableEq, Repr

/-! ## FormatDisk, NewFileSystem -/

/-- Go `FormatDisk`; `t1`, `t2` are the two readings of the clock. The prior contents of the
globals are discarded. -/
def FormatDisk (_prior : FSState) (t1 t2 : Int) : FSState × Res Unit :=
  let s0 : FSState :=
    { Disk := List.replicate TOTAL_BLOCKS (List.replicate BLOCK_SIZE 0)
      FAT := List.replicate TOTAL_BLOCKS FAT_FREE }
  if ROOT_DIR_BLOCK ≥ (TOTAL_BLOCKS : Int) ∨ ROOT_DIR_BLOCK < 0 then (s0, .err .invalidBlock)
  else
    let s1 := setFat s0 ROOT_DIR_BLOCK FAT_EOF
    let dotEntry : DirectoryEntry :=
      { Name := mkName [46], EntryType := TYPE_DIRECTORY, StartBlock := ROOT_DIR_BLOCK,
        Size := 0, ModTime := t1 }
    let dotDotEntry : DirectoryEntry :=
      { Name := mkName [46, 46], EntryType := TYPE_DIRECTORY, StartBlock := ROOT_DIR_BLOCK,
        Size := 0, ModTime := t2 }
    match dotEntry.Serialize with
    | .ok dotBytes =>
      match dotDotEntry.Serialize with
      | .ok dotDotBytes =>
        if 0 + dotBytes.length > BLOCK_SIZE then (s1, .err .blockTooSmall)
        else
          let s2 := setBlock s1 ROOT_DIR_BLOCK (copyAt (blockAt s1 ROOT_DIR_BLOCK) 0 dotBytes)
          let offset := 0 + dotBytes.length
          if offset + dotDotBytes.length > BLOCK_SIZE then (s2, .err .blockTooSmall)
          else
            (setBlock s2 ROOT_DIR_BLOCK (copyAt (blockAt s2 ROOT_DIR_BLOCK) offset dotDotBytes),
              .ok ())
      | _ => (s1, .err .serializationError)
    | _ => (s1, .err .serializationError)

/-- Go `NewFileSystem`. -/
def NewFileSystem (prior : FSState) (t1 t2 : Int) : FSState × Res FileSystem :=
  match FormatDisk prior t1 t2 with
  | (s, .ok _) => (s, .ok { CurrentDirectoryBlock := ROOT_DIR_BLOCK })
  | (s, .err e) => (s, .err e)
  | (s, .panic) => (s, .panic)
  | (s, .diverge) => (s, .diverge)

/-! ## ListEntries, findFreeBlock -/

/-- The inner loop of `ListEntries` over the slots of one block. -/
def scanSlots (blockData : List Nat) : List Nat → List DirectoryEntry
  | [] => []
  | offset :: rest =>
    let entryData := slotData blockData offset
    if entryData.getD 0 0 = 0 then scanSlots blockData rest
    else
      match DeserializeEntry entryData with
      | .ok entry => entry :: scanSlots blockData rest
      | _ => scanSlots blockData rest

/-- The outer loop of `ListEntries`: the entries of the blocks from `currentBlock` on. -/
def listLoop (s : FSState) : Nat → Int → Res (List DirectoryEntry)
  | 0, _ => .diverge
  | fuel + 1, currentBlock =>
    if currentBlock = FAT_EOF ∨ currentBlock = FAT_FREE then .ok []
    else if currentBlock < 0 ∨ currentBlock ≥ (TOTAL_BLOCKS : Int) then .err .corruptChain
    else
      match listLoop s fuel (fatAt s currentBlock) with
      | .ok rest => .ok (scanSlots (blockAt s currentBlock) slotOffsets ++ rest)
      | r => r

/-- Go `ListEntries`. -/
def ListEntries (s : FSState) (directoryStartBlock : Int) : Res (List DirectoryEntry) :=
  if directoryStartBlock = FAT_FREE then .ok []
  else if directoryStartBlock < 0 ∨ directoryStartBlock ≥ (TOTAL_BLOCKS : Int) then
    .err .invalidBlock
  else listLoop s walkFuel directoryStartBlock

/-- Go `findFreeBlock`. -/
def findFreeBlock (s : FSState) : Res Int :=
  match (List.range TOTAL_BLOCKS).find? (fun (i : Nat) => decide (fatAt s (i : Int) = FAT_FREE)) with
  | some i => .ok (i : Int)
  | none => .err .diskFull

/-! ## addEntryToDirectory -/

/-- The first slot offset of the block whose first byte is zero. -/
def firstFreeSlot (blockData : List Nat) : List Nat → Option Nat
  | [] => none
  | offset :: rest =>
    if (slotData blockData offset).getD 0 0 = 0 then some offset
    else firstFreeSlot blockData rest

/-- The loop of `addEntryToDirectory` along the chain of the parent directory. -/
def addLoop (s : FSState) (newEntry : DirectoryEntry) (entryBytes : List Nat) :
    Nat → Int → FSState × Res Unit
  | 0, _ => (s, .diverge)
  | fuel + 1, currentBlock =>
    if currentBlock = FAT_EOF ∨ currentBlock = FAT_FREE then (s, .err .noSlotFound)
    else if currentBlock < 0 ∨ currentBlock ≥ (TOTAL_BLOCKS : Int) then (s, .err .corruptChain)
    else
      match firstFreeSlot (blockAt s currentBlock) slotOffsets with
      | some offset =>
        let s1 := setBlock s currentBlock (copyAt (blockAt s currentBlock) offset entryBytes)
        match nameOf newEntry.Name with
        | none => (s1, .panic)
        | some _ => (s1, .ok ())
      | none =>
        let next := fatAt s currentBlock
        if next = FAT_EOF then (s, .err .directoryFull)
        else addLoop s newEntry entryBytes fuel next

/-- Go `addEntryToDirectory`. -/
def addEntryToDirectory (s : FSState) (parentDirStartBlock : Int) (newEntry : DirectoryEntry) :
    FSState × Res Unit :=
  if parentDirStartBlock < 0 ∨ parentDirStartBlock ≥ (TOTAL_BLOCKS : Int)
      ∨ fatAt s parentDirStartBlock = FAT_FREE then (s, .err .invalidParent)
  else
    match newEntry.Serialize with
    | .ok entryBytes =>
      if entryBytes.length ≠ DIRECTORY_ENTRY_SIZE then (s, .err .serializationError)
      else addLoop s newEntry entryBytes walkFuel parentDirStartBlock
    | _ => (s, .err .serializationError)

/-- The loop `for _, entry := range parentEntries` of `CreateFile` and `CreateDirectory`:
is `newName` the name of a listed entry? -/
def nameTaken (newName : List Nat) : List DirectoryEntry → Res Bool
  | [] => .ok false
  | entry :: rest =>
    match nameOf entry.Name with
    | none => .panic
    | some entryName => if entryName = newName then .ok true else nameTaken newName rest

/-- What `dotBytes, _ := dotEntry.Serialize()` leaves in `dotBytes`. -/
def bytesOrNil : Res (List Nat) → List Nat
  | .ok b => b
  | _ => []

/-! ## CreateDirectory, CreateFile -/

/-- Go `CreateDirectory`; `t1`, `t2`, `t3` are the three readings of the clock. -/
def CreateDirectory (s : FSState) (parentDirStartBlock : Int) (newDirName : List Nat)
    (t1 t2 t3 : Int) : FSState × Res Unit :=
  if newDirName.length = 0 then (s, .err .nameEmpty)
  else if newDirName.length > MAX_FILENAME_LEN then (s, .err .nameTooLong)
  else
    match ListEntries s parentDirStartBlock with
    | .ok parentEntries =>
      match nameTaken newDirName parentEntries with
      | .ok true => (s, .err .duplicateName)
      | .ok false =>
        match findFreeBlock s with
        | .ok newDirDataBlock =>
          let s1 := setFat s newDirDataBlock FAT_EOF
          let dotEntry : DirectoryEntry :=
            { Name := mkName [46], EntryType := TYPE_DIRECTORY, StartBlock := newDirDataBlock,
              Size := 2 * DIRECTORY_ENTRY_SIZE, ModTime := t1 }
          let dotBytes := bytesOrNil dotEntry.Serialize
          let dotDotEntry : DirectoryEntry :=
            { Name := mkName [46, 46], EntryType := TYPE_DIRECTORY,
              StartBlock := parentDirStartBlock, Size := 0, ModTime := t2 }
          let dotDotBytes := bytesOrNil dotDotEntry.Serialize
          let s2 := setBlock s1 newDirDataBlock (copyAt (blockAt s1 newDirDataBlock) 0 dotBytes)
          let offset := 0 + dotBytes.length
          let s3 := setBlock s2 newDirDataBlock
            (copyAt (blockAt s2 newDirDataBlock) offset dotDotBytes)
          let offset2 := offset + dotDotBytes.length
          let s4 :=
            if offset2 < BLOCK_SIZE then
              setBlock s3 newDirDataBlock (zeroFill (blockAt s3 newDirDataBlock) offset2 BLOCK_SIZE)
            else s3
          let dirEntryForParent : DirectoryEntry :=
            { Name := mkName newDirName, EntryType := TYPE_DIRECTORY,
              StartBlock := newDirDataBlock, Size := 2 * DIRECTORY_ENTRY_SIZE, ModTime := t3 }
          match addEntryToDirectory s4 parentDirStartBlock dirEntryForParent with
          | (s5, .ok _) => (s5, .ok ())
          | (s5, .err e) => (setFat s5 newDirDataBlock FAT_FREE, .err e)
          | (s5, r) => (s5, r)
        | _ => (s, .err .diskFull)
      | .err e => (s, .err e)
      | .panic => (s, .panic)
      | .diverge => (s, .diverge)
    | .err e => (s, .err e)
    | .panic => (s, .panic)
    | .diverge => (s, .diverge)

/-- Go `CreateFile`; `now` is the reading of the clock. -/
def CreateFile (s : FSState) (parentDirStartBlock : Int) (newFileName : List Nat) (now : Int) :
    FSState × Res Unit :=
  if newFileName.length = 0 then (s, .err .nameEmpty)
  else if newFileName.length > MAX_FILENAME_LEN then (s, .err .nameTooLong)
  else
    match ListEntries s parentDirStartBlock with
    | .ok parentEntries =>
      match nameTaken newFileName parentEntries with
      | .ok true => (s, .err .duplicateName)
      | .ok false =>
        match findFreeBlock s with
        | .ok newFileDataBlock =>
          let s1 := setFat s newFileDataBlock FAT_EOF
          let fileEntryForParent : DirectoryEntry :=
            { Name := mkName newFileName, EntryType := TYPE_FILE, StartBlock := newFileDataBlock,
              Size := 0, ModTime := now }
          match addEntryToDirectory s1 parentDirStartBlock fileEntryForParent with
          | (s2, .ok _) => (s2, .ok ())
          | (s2, .err e) => (setFat s2 newFileDataBlock FAT_FREE, .err e)
          | (s2, r) => (s2, r)
        | _ => (s, .err .diskFull)
      | .err e => (s, .err e)
      | .panic => (s, .panic)
      | .diverge => (s, .diverge)
    | .err e => (s, .err e)
    | .panic => (s, .panic)
    | .diverge => (s, .diverge)

/-! ## freeBlockChain -/

/-- The loop of `freeBlockChain`. -/
def freeLoop : Nat → FSState → Int → FSState × Res Unit
  | 0, s, _ => (s, .diverge)
  | fuel + 1, s, currentBlock =>
    if currentBlock = FAT_EOF ∨ currentBlock = FAT_FREE then (s, .ok ())
    else if currentBlock < 0 ∨ currentBlock ≥ (TOTAL_BLOCKS : Int) then (s, .err .corruptChain)
    else freeLoop fuel (setFat s currentBlock FAT_FREE) (fatAt s currentBlock)

/-- Go `freeBlockChain`. -/
def freeBlockChain (s : FSState) (startBlock : Int) : FSState × Res Unit :=
  if startBlock < 0 ∨ startBlock ≥ (TOTAL_BLOCKS : Int) then
    if startBlock = FAT_EOF ∨ startBlock = FAT_FREE then (s, .ok ())
    else (s, .err .corruptChain)
  else freeLoop walkFuel s startBlock

/-! ## updateEntryInDirectory -/

/-- Outcome of looking for a name among the slots of one block. -/
inductive SlotSearch where
  | found (offset : Nat)
  | notHere
  | abort
  deriving DecidableEq, Repr

/-- The inner loop of `updateEntryInDirectory`: a slot whose first byte is zero ends the
search in this block (`goto nextBlockInUpdate`). -/
def updateScan (blockData : List Nat) (updatedEntryName : List Nat) : List Nat → SlotSearch
  | [] => .notHere
  | offset :: rest =>
    let entryData := slotData blockData offset
    if entryData.getD 0 0 = 0 then .notHere
    else
      match DeserializeEntry entryData with
      | .ok existingEntry =>
        match nameOf existingEntry.Name with
        | none => .abort
        | some existingEntryName =>
          if existingEntryName = updatedEntryName then .found offset
          else updateScan blockData updatedEntryName rest
      | _ => updateScan blockData updatedEntryName rest

/-- The outer loop of `updateEntryInDirectory`. -/
def updateLoop (s : FSState) (updatedEntryBytes updatedEntryName : List Nat) :
    Nat → Int → FSState × Res Unit
  | 0, _ => (s, .diverge)
  | fuel + 1, currentBlock =>
    if currentBlock = FAT_EOF ∨ currentBlock = FAT_FREE then (s, .err .entryNotFound)
    else if currentBlock < 0 ∨ currentBlock ≥ (TOTAL_BLOCKS : Int) then (s, .err .corruptChain)
    else
      match updateScan (blockAt s currentBlock) updatedEntryName slotOffsets with
      | .found offset =>
        (setBlock s currentBlock (copyAt (blockAt s currentBlock) offset updatedEntryBytes),
          .ok ())
      | .abort => (s, .panic)
      | .notHere => updateLoop s updatedEntryBytes updatedEntryName fuel (fatAt s currentBlock)

/-- Go `updateEntryInDirectory`. -/
def updateEntryInDirectory (s : FSState) (parentDirStartBlock : Int)
    (updatedEntry : DirectoryEntry) : FSState × Res Unit :=
  if parentDirStartBlock < 0 ∨ parentDirStartBlock ≥ (TOTAL_BLOCKS : Int)
      ∨ fatAt s parentDirStartBlock = FAT_FREE then (s, .err .invalidParent)
  else
    match updatedEntry.Serialize with
    | .ok updatedEntryBytes =>
      match nameOf updatedEntry.Name with
      | none => (s, .panic)
      | some updatedEntryName =>
        updateLoop s updatedEntryBytes updatedEntryName walkFuel parentDirStartBlock
    | _ => (s, .err .serializationError)

/-! ## WriteToFile -/

/-- The roll-back loop `for _, allocatedBlock := range allocatedBlocks { FAT[allocatedBlock] = FAT_FREE }`. -/
def releaseBlocks (s : FSState) (allocatedBlocks : List Int) : FSState :=
  allocatedBlocks.foldl (fun st b => setFat st b FAT_FREE) s

/-- Go `dataToWrite[i*BLOCK_SIZE : min((i+1)*BLOCK_SIZE, len(dataToWrite))]`. -/
def dataChunk (dataToWrite : List Nat) (i : Nat) : List Nat :=
  let startByte := i * BLOCK_SIZE
  let endByte := if (i + 1) * BLOCK_SIZE > dataToWrite.length then dataToWrite.length
    else (i + 1) * BLOCK_SIZE
  (dataToWrite.drop startByte).take (endByte - startByte)

/-- The block after `copy(Disk[newBlock][:len(chunk)], chunk)` and the zeroing of its tail. -/
def storeChunk (blk chunk : List Nat) : List Nat :=
  let copied := copy (blk.take chunk.length) chunk ++ blk.drop chunk.length
  if chunk.length < BLOCK_SIZE then zeroFill copied chunk.length BLOCK_SIZE else copied

/-- The writes of one iteration of the allocation loop of `WriteToFile`:
`FAT[newBlock] = FAT_EOF`, the link from the previously allocated block, and the chunk stored
in the new block. -/
def allocStep (s : FSState) (previousAllocatedBlock newBlock : Int) (chunk : List Nat) :
    FSState :=
  let s1 := setFat s newBlock FAT_EOF
  let s2 := if previousAllocatedBlock ≠ FAT_EOF then setFat s1 previousAllocatedBlock newBlock
    else s1
  setBlock s2 newBlock (storeChunk (blockAt s2 newBlock) chunk)

/-- The allocation loop of `WriteToFile`, `todo` iterations from index `i` on. It returns the
allocated blocks and the first block of the file, or `none` when `findFreeBlock` failed (the
blocks allocated so far are then released). -/
def allocLoop (dataToWrite : List Nat) :
    Nat → Nat → FSState → List Int → Int → Int → FSState × Option (List Int × Int)
  | 0, _, s, allocatedBlocks, firstBlockOfFile, _ => (s, some (allocatedBlocks, firstBlockOfFile))
  | todo + 1, i, s, allocatedBlocks, firstBlockOfFile, previousAllocatedBlock =>
    match findFreeBlock s with
    | .ok newBlock =>
      let first := if i = 0 then newBlock else firstBlockOfFile
      allocLoop dataToWrite todo (i + 1)
        (allocStep s previousAllocatedBlock newBlock (dataChunk dataToWrite i))
        (allocatedBlocks ++ [newBlock]) first newBlock
    | _ => (releaseBlocks s allocatedBlocks, none)

/-- The state after step 2 of `WriteToFile`: the old chain of the file released. -/
def releasedOld (s : FSState) (fileEntry : DirectoryEntry) : FSState × Res Unit :=
  if fileEntry.StartBlock ≠ FAT_FREE ∧ fileEntry.StartBlock ≠ FAT_EOF then
    freeBlockChain s fileEntry.StartBlock
  else (s, .ok ())

/-- Go `WriteToFile`; the second component is the entry behind the pointer `fileEntry` as the
call leaves it, `now` is the reading of the clock. -/
def WriteToFile (s : FSState) (fileEntry : DirectoryEntry) (parentDirStartBlock : Int)
    (dataToWrite : List Nat) (now : Int) : FSState × DirectoryEntry × Res Unit :=
  if fileEntry.EntryType ≠ TYPE_FILE then (s, fileEntry, .err .notAFile)
  else if parentDirStartBlock < 0 ∨ parentDirStartBlock ≥ (TOTAL_BLOCKS : Int)
      ∨ fatAt s parentDirStartBlock = FAT_FREE then (s, fileEntry, .err .invalidParent)
  else
    match nameOf fileEntry.Name with
    | none => (s, fileEntry, .panic)
    | some _ =>
      match releasedOld s fileEntry with
      | (s1, .ok _) =>
        let e1 : DirectoryEntry := { fileEntry with StartBlock := FAT_EOF, Size := 0 }
        if dataToWrite.length = 0 then
          let e2 : DirectoryEntry := { e1 with ModTime := now }
          match updateEntryInDirectory s1 parentDirStartBlock e2 with
          | (s2, r) => (s2, e2, r)
        else
          let numBlocksNeeded := (dataToWrite.length + BLOCK_SIZE - 1) / BLOCK_SIZE
          match allocLoop dataToWrite numBlocksNeeded 0 s1 [] FAT_EOF FAT_EOF with
          | (s2, none) => (s2, e1, .err .diskFull)
          | (s2, some (allocatedBlocks, firstBlockOfFile)) =>
            let e2 : DirectoryEntry :=
              { e1 with StartBlock := firstBlockOfFile, Size := dataToWrite.length, ModTime := now }
            match updateEntryInDirectory s2 parentDirStartBlock e2 with
            | (s3, .ok _) => (s3, e2, .ok ())
            | (s3, .err e) => (releaseBlocks s3 allocatedBlocks, e2, .err e)
            | (s3, r) => (s3, e2, r)
      | (s1, r) => (s1, fileEntry, r)

/-! ## ReadFromFile -/

/-- The loop of `ReadFromFile`: the bytes collected from `currentBlock` on. -/
def readLoop (s : FSState) : Nat → Int → Int → Res (List Nat)
  | 0, _, _ => .diverge
  | fuel + 1, bytesToRead, currentBlock =>
    if bytesToRead > 0 ∧ currentBlock ≠ FAT_EOF ∧ currentBlock ≠ FAT_FREE then
      if currentBlock < 0 ∨ currentBlock ≥ (TOTAL_BLOCKS : Int) then .err .corruptChain
      else
        let chunkSize : Int := if bytesToRead < (BLOCK_SIZE : Int) then bytesToRead else BLOCK_SIZE
        match readLoop s fuel (bytesToRead - chunkSize) (fatAt s currentBlock) with
        | .ok rest => .ok ((blockAt s currentBlock).take chunkSize.toNat ++ rest)
        | r => r
    else .ok []

/-- Go `ReadFromFile`. Every iteration of its loop lowers `bytesToRead`, so `Size + 1` loop
tests are enough. -/
def ReadFromFile (s : FSState) (fileEntry : DirectoryEntry) : Res (List Nat) :=
  if fileEntry.EntryType ≠ TYPE_FILE then .err .notAFile
  else
    match nameOf fileEntry.Name with
    | none => .panic
    | some _ =>
      if fileEntry.Size = 0 then .ok []
      else if fileEntry.StartBlock = FAT_EOF ∨ fileEntry.StartBlock = FAT_FREE
          ∨ fileEntry.StartBlock < 0 ∨ fileEntry.StartBlock ≥ (TOTAL_BLOCKS : Int) then
        if fileEntry.Size > 0 then .err .inconsistentMetadata else .ok []
      else readLoop s (fileEntry.Size.toNat + 1) fileEntry.Size fileEntry.StartBlock

/-! ## invalidateEntryInParent, DeleteEntry -/

/-- The inner loop of `invalidateEntryInParent`: slots whose first byte is zero are skipped. -/
def invalidateScan (blockData : List Nat) (entryNameToInvalidate : List Nat) :
    List Nat → SlotSearch
  | [] => .notHere
  | offset :: rest =>
    let entryDataSlice := slotData blockData offset
    if entryDataSlice.getD 0 0 = 0 then invalidateScan blockData entryNameToInvalidate rest
    else
      match DeserializeEntry entryDataSlice with
      | .ok tempEntry =>
        match nameOf tempEntry.Name with
        | none => .abort
        | some currentEntryName =>
          if currentEntryName = entryNameToInvalidate then .found offset
          else invalidateScan blockData entryNameToInvalidate rest
      | _ => invalidateScan blockData entryNameToInvalidate rest

/-- The outer loop of `invalidateEntryInParent`. -/
def invalidateLoop (s : FSState) (entryNameToInvalidate : List Nat) :
    Nat → Int → FSState × Res Unit
  | 0, _ => (s, .diverge)
  | fuel + 1, currentBlock =>
    if currentBlock = FAT_EOF ∨ currentBlock = FAT_FREE then (s, .err .entryNotFound)
    else if currentBlock < 0 ∨ currentBlock ≥ (TOTAL_BLOCKS : Int) then (s, .err .corruptChain)
    else
      match invalidateScan (blockAt s currentBlock) entryNameToInvalidate slotOffsets with
      | .found offset =>
        (setBlock s currentBlock ((blockAt s currentBlock).set offset 0), .ok ())
      | .abort => (s, .panic)
      | .notHere => invalidateLoop s entryNameToInvalidate fuel (fatAt s currentBlock)

/-- Go `invalidateEntryInParent`. -/
def invalidateEntryInParent (s : FSState) (parentDirStartBlock : Int)
    (entryNameToInvalidate : List Nat) : FSState × Res Unit :=
  if parentDirStartBlock < 0 ∨ parentDirStartBlock ≥ (TOTAL_BLOCKS : Int)
      ∨ fatAt s parentDirStartBlock = FAT_FREE then (s, .err .invalidParent)
  else invalidateLoop s entryNameToInvalidate walkFuel parentDirStartBlock

/-- The search loop of `DeleteEntry` over the listed entries. -/
def findEntry (entryName : List Nat) : List DirectoryEntry → Res (Option DirectoryEntry)
  | [] => .ok none
  | entry :: rest =>
    match nameOf entry.Name with
    | none => .panic
    | some currentEntryName =>
      if currentEntryName = entryName then .ok (some entry) else findEntry entryName rest

/-- The name `DeleteEntry` compares with "." and "..": the bytes before the first zero, or
the whole array when there is none. -/
def safeName (name : List Nat) : List Nat :=
  match nameOf name with
  | some n => n
  | none => name

/-- The count `realEntryCount` of `DeleteEntry`. -/
def realEntryCount (subEntries : List DirectoryEntry) : Nat :=
  (subEntries.filter (fun e => decide (safeName e.Name ≠ [46] ∧ safeName e.Name ≠ [46, 46]))).length

/-- The last step of `DeleteEntry`. -/
def finishDelete (s : FSState) (parentDirStartBlock : Int) (entryName : List Nat) :
    FSState × Res Unit :=
  match invalidateEntryInParent s parentDirStartBlock entryName with
  | (s1, .ok _) => (s1, .ok ())
  | (s1, .err e) => (s1, .err (.invalidateFailed e))
  | (s1, r) => (s1, r)

/-- Go `DeleteEntry`. -/
def DeleteEntry (s : FSState) (parentDirStartBlock : Int) (entryName : List Nat) :
    FSState × Res Unit :=
  if entryName.length = 0 then (s, .err .nameEmpty)
  else if entryName = [46] ∨ entryName = [46, 46] then (s, .err .reservedName)
  else
    match ListEntries s parentDirStartBlock with
    | .ok parentEntries =>
      match findEntry entryName parentEntries with
      | .ok none => (s, .err .entryNotFound)
      | .ok (some entryToDelete) =>
        if entryToDelete.EntryType = TYPE_FILE then
          match freeBlockChain s entryToDelete.StartBlock with
          | (s1, .ok _) => finishDelete s1 parentDirStartBlock entryName
          | (s1, r) => (s1, r)
        else if entryToDelete.EntryType = TYPE_DIRECTORY then
          let checked : Res Unit :=
            if entryToDelete.StartBlock = FAT_FREE ∨ entryToDelete.StartBlock = FAT_EOF
                ∨ entryToDelete.StartBlock < 0
                ∨ entryToDelete.StartBlock ≥ (TOTAL_BLOCKS : Int) then .ok ()
            else
              match ListEntries s entryToDelete.StartBlock with
              | .ok subEntries =>
                if realEntryCount subEntries > 0 then .err .directoryNotEmpty else .ok ()
              | .err e => .err e
              | .panic => .panic
              | .diverge => .diverge
          match checked with
          | .ok _ =>
            match freeBlockChain s entryToDelete.StartBlock with
            | (s1, .ok _) => finishDelete s1 parentDirStartBlock entryName
            | (s1, r) => (s1, r)
          | r => (s, r)
        else (s, .err .unknownType)
      | .err e => (s, .err e)
      | .panic => (s, .panic)
      | .diverge => (s, .diverge)
    | .err e => (s, .err e)
    | .panic => (s, .panic)
    | .diverge => (s, .diverge)

/-! ## Chains -/

/-- A block id that ends a walk along the FAT: `FAT_EOF`, `FAT_FREE`, or an id outside the
disk. -/
def endsWalk (b : Int) : Prop :=
  b = FAT_EOF ∨ b = FAT_FREE ∨ b < 0 ∨ b ≥ (TOTAL_BLOCKS : Int)

instance (b : Int) : Decidable (endsWalk b) := by
  unfold endsWalk; infer_instance

/-- The blocks a walk along the FAT visits from `cur` on, in order. -/
def chainOf (s : FSState) : Nat → Int → List Int
  | 0, _ => []
  | fuel + 1, cur => if endsWalk cur then [] else cur :: chainOf s fuel (fatAt s cur)

/-- The walk from `cur` ends after exactly `k` blocks. -/
def endsIn (s : FSState) : Nat → Int → Prop
  | 0, cur => endsWalk cur
  | k + 1, cur => ¬ endsWalk cur ∧ endsIn s k (fatAt s cur)

/-- The first block of a new directory as `CreateDirectory` fills it. -/
def newDirBlock (b p t1 t2 : Int) : List Nat :=
  entryBytes ⟨mkName [46], TYPE_DIRECTORY, b, 2 * DIRECTORY_ENTRY_SIZE, t1⟩ ++
    entryBytes ⟨mkName [46, 46], TYPE_DIRECTORY, p, 0, t2⟩ ++ List.replicate 158 0

/-- Every entry of the list has a zero-terminated name different from `n`. -/
def otherNames (n : List Nat) (l : List DirectoryEntry) : Prop :=
  ∀ e ∈ l, ∃ nm, nameOf e.Name = some nm ∧ nm ≠ n

/-- The chain of blocks `bs` that starts at `cur` holds `data`: every block but the last holds
the next `BLOCK_SIZE` bytes and is linked to the next block of the list; the last block holds
the remaining bytes, between 1 and `BLOCK_SIZE` of them, at its start. -/
def holdsData (s : FSState) : Int → List Nat → List Int → Prop
  | _, _, [] => False
  | cur, data, [b] =>
    cur = b ∧ ¬ endsWalk b ∧ 0 < data.length ∧ data.length ≤ BLOCK_SIZE ∧
    (blockAt s b).take data.length = data
  | cur, data, b :: b2 :: rest =>
    cur = b ∧ ¬ endsWalk b ∧ BLOCK_SIZE < data.length ∧
    (blockAt s b).take BLOCK_SIZE = data.take BLOCK_SIZE ∧ fatAt s b = b2 ∧
    holdsData s b2 (data.drop BLOCK_SIZE) (b2 :: rest)


/-! ## ChangeDirectory -/

/-- The search loop of `ChangeDirectory` over the listed entries: the first entry named
`targetName` decides, unless `targetName` is ".." and the entry is not a directory. -/
def cdSearch (targetName : List Nat) : List DirectoryEntry → Res (Option DirectoryEntry)
  | [] => .ok none
  | entry :: rest =>
    match nameOf entry.Name with
    | none => .panic
    | some entryNameStr =>
      if entryNameStr = targetName then
        if entry.EntryType = TYPE_DIRECTORY then .ok (some entry)
        else if targetName ≠ [46, 46] then .err .notADirectory
        else cdSearch targetName rest
      else cdSearch targetName rest

/-- Go `ChangeDirectory`; the pointer `fs` is `none` when it is nil. The second component is the
session as the call leaves it. -/
def ChangeDirectory (s : FSState) (fs : Option FileSystem) (targetName : List Nat) :
    FSState × Option FileSystem × Res Unit :=
  match fs with
  | none => (s, none, .err .nilFileSystem)
  | some fs0 =>
    if targetName = [47] then (s, some { fs0 with CurrentDirectoryBlock := ROOT_DIR_BLOCK }, .ok ())
    else if targetName = [46] then (s, some fs0, .ok ())
    else
      match ListEntries s fs0.CurrentDirectoryBlock with
      | .ok currentEntries =>
        match cdSearch targetName currentEntries with
        | .ok none => (s, some fs0, .err .entryNotFound)
        | .ok (some targetEntry) =>
          if targetEntry.StartBlock < 0 ∨ targetEntry.StartBlock ≥ (TOTAL_BLOCKS : Int)
              ∨ fatAt s targetEntry.StartBlock = FAT_FREE then (s, some fs0, .err .invalidTarget)
          else (s, some { fs0 with CurrentDirectoryBlock := targetEntry.StartBlock }, .ok ())
        | .err e => (s, some fs0, .err e)
        | .panic => (s, some fs0, .panic)
        | .diverge => (s, some fs0, .diverge)
      | .err e => (s, some fs0, .err e)
      | .panic => (s, some fs0, .panic)
      | .diverge => (s, some fs0, .diverge)

/-- The block id a walk along the FAT reaches from `cur` after `k` steps. -/
def nthBlock (s : FSState) : Nat → Int → Int
  | 0, cur => cur
  | k + 1, cur => nthBlock s k (fatAt s cur)

/-- The bytes of the blocks `bs`, one block after the other. -/
def blocksBytes (s : FSState) : List Int → List Nat
  | [] => []
  | b :: rest => blockAt s b ++ blocksBytes s rest

instance decEndsIn (s : FSState) : (k : Nat) → (cur : Int) → Decidable (endsIn s k cur)
  | 0, cur => inferInstanceAs (Decidable (endsWalk cur))
  | k + 1, cur =>
    @instDecidableAnd (¬ endsWalk cur) (endsIn s k (fatAt s cur)) inferInstance
      (decEndsIn s k (fatAt s cur))

/-- The chain of blocks `bs` that starts at `cur` stores `data` and nothing else: every block
but the last holds the next `BLOCK_SIZE` bytes and is linked to the next block of the list; the
last block holds the remaining bytes, between 1 and `BLOCK_SIZE` of them, followed by zeros up
to the end of the block, and its FAT entry is `FAT_EOF`. -/
def storesData (s : FSState) : Int → List Nat → List Int → Prop
  | _, _, [] => False
  | cur, data, [b] =>
    cur = b ∧ ¬ endsWalk b ∧ 0 < data.length ∧ data.length ≤ BLOCK_SIZE ∧
    blockAt s b = data ++ List.replicate (BLOCK_SIZE - data.length) 0 ∧ fatAt s b = FAT_EOF
  | cur, data, b :: b2 :: rest =>
    cur = b ∧ ¬ endsWalk b ∧ BLOCK_SIZE < data.length ∧
    blockAt s b = data.take BLOCK_SIZE ∧ fatAt s b = b2 ∧
    storesData s b2 (data.drop BLOCK_SIZE) (b2 :: rest)

/-- The first `j` of the five slots of a directory block are taken (non-zero first byte) and
the others are free. -/
def slotsTaken (blk : List Nat) (j : Nat) : Prop :=
  ∀ i, i < 5 → ((slotData blk (i * DIRECTORY_ENTRY_SIZE)).getD 0 0 ≠ 0 ↔ i < j)

/-- The root directory after `j` creations: a single block whose first `j + 2` slots are
taken, listing entries with zero-terminated names among ".", ".." and `names`. -/
def rootHolds (s : FSState) (j : Nat) (names : List (List Nat)) : Prop :=
  s.WF ∧ fatAt s ROOT_DIR_BLOCK = FAT_EOF ∧ slotsTaken (blockAt s ROOT_DIR_BLOCK) (j + 2) ∧
  ∃ L, ListEntries s ROOT_DIR_BLOCK = .ok L ∧
    ∀ e ∈ L, ∃ nm, nameOf e.Name = some nm ∧ nm ∈ [46] :: [46, 46] :: names

/-- A creation in the root directory: `CreateDirectory` when `isDir`, `CreateFile` (with the
clock reading `t1`) otherwise. -/
def createInRoot (s : FSState) (isDir : Bool) (n : List Nat) (t1 t2 t3 : Int) :
    FSState × Res Unit :=
  if isDir then CreateDirectory s ROOT_DIR_BLOCK n t1 t2 t3 else CreateFile s ROOT_DIR_BLOCK n t1

/-- The listing of a directory as the specification words it: the blocks of the chain in chain
order, in each block the slots at the offsets 0, 49, 98, 147, 196 in increasing order, the
slots whose first byte is zero skipped, every other slot deserialized. -/
def slotsListing (s : FSState) (blocks : List Int) : List (Res DirectoryEntry) :=
  blocks.flatMap (fun b =>
    ([0, 49, 98, 147, 196].filter (fun off => decide ((blockAt s b).getD off 0 ≠ 0))).map
      (fun off => DeserializeEntry (((blockAt s b).drop off).take 49)))

/-- The name the slot at `off` bears: the bytes of its name field before the first zero byte,
`none` when the 28 bytes of the field hold no zero byte. -/
def slotName (blk : List Nat) (off : Nat) : Option (List Nat) :=
  nameOf ((blk.drop off).take MAX_FILENAME_LEN)

/-- The slot at `off` is in use (its first byte is not zero) and bears a name other than `n`. -/
def slotLive (blk : List Nat) (n : List Nat) (off : Nat) : Prop :=
  blk.getD off 0 ≠ 0 ∧ ∃ nm, slotName blk off = some nm ∧ nm ≠ n

/-- The slot at `off` does not match the name `n`: it is a tombstone (first byte zero) or it
is in use and bears another name. -/
def slotOther (blk : List Nat) (n : List Nat) (off : Nat) : Prop :=
  blk.getD off 0 = 0 ∨ slotLive blk n off

/-- The slot at `off` is in use and bears the name `n`. -/
def slotNamed (blk : List Nat) (n : List Nat) (off : Nat) : Prop :=
  blk.getD off 0 ≠ 0 ∧ slotName blk off = some n

/-- The slot at `off` is in use and its name field holds no zero byte. -/
def slotOpen (blk : List Nat) (off : Nat) : Prop :=
  blk.getD off 0 ≠ 0 ∧ slotName blk off = none

/-- The search of `updateEntryInDirectory` passes the block `blk` without a match for `n`: every
slot in use that no tombstone precedes in the block bears a name other than `n`. -/
def updatePasses (blk : List Nat) (n : List Nat) : Prop :=
  ∀ o ∈ slotOffsets, (∀ o2 ∈ slotOffsets, o2 ≤ o → blk.getD o2 0 ≠ 0) → slotLive blk n o

/-! ## Sequences of public operations -/

/-- One call of a public operation that can write the disk or the FAT, with its arguments
and the clock readings it takes. `write_file` takes the entry the caller holds. -/
inductive Op where
  | newFileSystem (t1 t2 : Int)
  | createFile (p : Int) (n : List Nat) (now : Int)
  | createDirectory (p : Int) (n : List Nat) (t1 t2 t3 : Int)
  | writeFile (f : DirectoryEntry) (p : Int) (data : List Nat) (now : Int)
  | deleteEntry (p : Int) (n : List Nat)
  | changeDirectory (fs : Option FileSystem) (target : List Nat)
  deriving DecidableEq, Repr

/-- The disk and the FAT after one call. -/
def applyOp (s : FSState) : Op → FSState
  | .newFileSystem t1 t2 => (NewFileSystem s t1 t2).1
  | .createFile p n now => (CreateFile s p n now).1
  | .createDirectory p n t1 t2 t3 => (CreateDirectory s p n t1 t2 t3).1
  | .writeFile f p data now => (WriteToFile s f p data now).1
  | .deleteEntry p n => (DeleteEntry s p n).1
  | .changeDirectory fs target => (ChangeDirectory s fs target).1

/-- The disk and the FAT after a sequence of calls, the first of the list first. -/
def runOps (s : FSState) : List Op → FSState
  | [] => s
  | op :: rest => runOps (applyOp s op) rest

/-- The walk along the FAT from `b` comes to `FAT_EOF` or `FAT_FREE`. -/
def Ends (s : FSState) (b : Int) : Prop :=
  ∃ k, endsIn s k b ∧ (nthBlock s k b = FAT_EOF ∨ nthBlock s k b = FAT_FREE)

/-- The FAT has `TOTAL_BLOCKS` entries and the walk from every block of the disk comes to
`FAT_EOF` or `FAT_FREE`. -/
def FatOK (s : FSState) : Prop :=
  s.FAT.length = TOTAL_BLOCKS ∧
  ∀ b : Int, 0 ≤ b → b < (TOTAL_BLOCKS : Int) → Ends s b

/-- The call does not release a chain through the root block: a `write_file` is applied to an
entry whose chain does not hold `ROOT_DIR_BLOCK`, and the entry a `delete_entry` finds has a
chain that does not hold it. -/
def sparesRoot (s : FSState) : Op → Prop
  | .writeFile f _ _ _ => ROOT_DIR_BLOCK ∉ chainOf s walkFuel f.StartBlock
  | .deleteEntry p n =>
    match ListEntries s p with
    | .ok L =>
      match findEntry n L with
      | .ok (some e) => ROOT_DIR_BLOCK ∉ chainOf s walkFuel e.StartBlock
      | _ => True
    | _ => True
  | _ => True

instance (s : FSState) (op : Op) : Decidable (sparesRoot s op) := by
  unfold sparesRoot
  split
  · infer_instance
  · split
    · split <;> infer_instance
    · infer_instance
  · infer_instance

/-- Every call of the sequence, run from `s`, spares the root block. -/
def allSpareRoot (s : FSState) : List Op → Prop
  | [] => True
  | op :: rest => sparesRoot s op ∧ allSpareRoot (applyOp s op) rest

instance decAllSpareRoot : (s : FSState) → (ops : List Op) → Decidable (allSpareRoot s ops)
  | _, [] => isTrue trivial
  | s, op :: rest =>
    @instDecidableAnd (sparesRoot s op) (allSpareRoot (applyOp s op) rest) inferInstance
      (decAllSpareRoot (applyOp s op) rest)

/-! ## The directory tree -/

/-- The entry the slot at `off` of block `d` holds, `none` when its first byte is zero. -/
def entryAt (s : FSState) (d : Int) (off : Nat) : Option DirectoryEntry :=
  if (blockAt s d).getD off 0 = 0 then none
  else
    match DeserializeEntry (slotData (blockAt s d) off) with
    | .ok e => some e
    | _ => none

/-- The start blocks of the directories reachable from the root: the root block, and the
StartBlock of every DIRECTORY entry that `ListEntries` returns for a reachable directory. -/
inductive Reach (s : FSState) : Int → Prop
  | root : Reach s ROOT_DIR_BLOCK
  | sub (d : Int) (L : List DirectoryEntry) (e : DirectoryEntry) :
      Reach s d → ListEntries s d = .ok L → e ∈ L → e.EntryType = TYPE_DIRECTORY →
      Reach s e.StartBlock

/-- The block `b` lies on the chain of the root directory or on the chain of an entry listed
in a directory reachable from the root. -/
def Reachable (s : FSState) (b : Int) : Prop :=
  b ∈ chainOf s walkFuel ROOT_DIR_BLOCK ∨
  ∃ d L e, Reach s d ∧ ListEntries s d = .ok L ∧ e ∈ L ∧ b ∈ chainOf s walkFuel e.StartBlock

/-- The slots of a directory block behind those of "." and "..". -/
def ownSlots : List Nat := [98, 147, 196]

/-- The start blocks of the directories reached from the root through the DIRECTORY entries
in the slots behind "." and "..". -/
inductive RDir (s : FSState) : Int → Prop
  | root : RDir s ROOT_DIR_BLOCK
  | sub (d : Int) (off : Nat) (e : DirectoryEntry) :
      RDir s d → off ∈ ownSlots → entryAt s d off = some e → e.EntryType = TYPE_DIRECTORY →
      RDir s e.StartBlock

/-- The entry `e` is held by the slot at `off`, behind "." and "..", of the reachable
directory `d`. -/
def Owned (s : FSState) (d : Int) (off : Nat) (e : DirectoryEntry) : Prop :=
  RDir s d ∧ off ∈ ownSlots ∧ entryAt s d off = some e

/-- The chain of the entry a slot holds, empty when the slot holds none. -/
def slotChain (s : FSState) : Option DirectoryEntry → List Int
  | none => []
  | some e => chainOf s walkFuel e.StartBlock

/-- The shape of the disk and the FAT that the operations keep when they are used on the
directories of the tree: every directory is one block that starts with "." (the directory
itself) and ".." (the directory that holds its entry, the root for the root), the other
entries of a directory bear different names, the chains of different entries share no block
and avoid the root block, and the allocated blocks are the root block and the blocks of these
chains. -/
structure Tree (s : FSState) : Prop where
  wf : s.WF
  fat : FatOK s
  dir : ∀ d, RDir s d → 0 ≤ d ∧ d < (TOTAL_BLOCKS : Int) ∧ fatAt s d = FAT_EOF ∧
    (∃ e0, entryAt s d 0 = some e0 ∧ nameOf e0.Name = some [46] ∧
      e0.EntryType = TYPE_DIRECTORY ∧ e0.StartBlock = d) ∧
    (∃ e1, entryAt s d 49 = some e1 ∧ nameOf e1.Name = some [46, 46] ∧
      e1.EntryType = TYPE_DIRECTORY ∧
      ((d = ROOT_DIR_BLOCK ∧ e1.StartBlock = ROOT_DIR_BLOCK) ∨
        ∃ off e, Owned s e1.StartBlock off e ∧ e.EntryType = TYPE_DIRECTORY ∧
          e.StartBlock = d))
  entry : ∀ d off e, Owned s d off e →
    ∃ nm, nameOf e.Name = some nm ∧ nm ≠ [46] ∧ nm ≠ [46, 46]
  names : ∀ d o1 o2 e1 e2, Owned s d o1 e1 → Owned s d o2 e2 →
    nameOf e1.Name = nameOf e2.Name → o1 = o2
  disjoint : ∀ d1 o1 e1 d2 o2 e2 b, Owned s d1 o1 e1 → Owned s d2 o2 e2 →
    b ∈ chainOf s walkFuel e1.StartBlock → b ∈ chainOf s walkFuel e2.StartBlock →
    d1 = d2 ∧ o1 = o2
  rootFree : ∀ d off e, Owned s d off e → ROOT_DIR_BLOCK ∉ chainOf s walkFuel e.StartBlock
  alloc : ∀ d off e, Owned s d off e →
    ∀ b ∈ chainOf s walkFuel e.StartBlock, fatAt s b ≠ FAT_FREE
  owned : ∀ b : Int, 0 ≤ b → b < (TOTAL_BLOCKS : Int) → fatAt s b ≠ FAT_FREE →
    b = ROOT_DIR_BLOCK ∨ ∃ d off e, Owned s d off e ∧ b ∈ chainOf s walkFuel e.StartBlock

/-- A name without a zero byte and not of the full `MAX_FILENAME_LEN` bytes: `create_file` and
`create_directory` store it with a terminating zero, or refuse it for its length. -/
def nameOK (n : List Nat) : Prop := 0 ∉ n ∧ n.length ≠ MAX_FILENAME_LEN

/-- The call is made on the tree: its parent block is the start block of a directory
reachable from the root, a created name has no zero byte and not the full length, and
`write_file` is given an entry that `list_entries` returns for the parent and, when that
entry is a file, succeeds. -/
def onTree (s : FSState) : Op → Prop
  | .newFileSystem _ _ => True
  | .createFile p n _ => Reach s p ∧ nameOK n
  | .createDirectory p n _ _ _ => Reach s p ∧ nameOK n
  | .writeFile f p data now =>
    Reach s p ∧ (∃ L, ListEntries s p = .ok L ∧ f ∈ L) ∧
      (f.EntryType = TYPE_FILE → (WriteToFile s f p data now).2.2 = .ok ())
  | .deleteEntry p _ => Reach s p
  | .changeDirectory _ _ => True

/-- Every call of the sequence, run from `s`, is made on the tree. -/
def allOnTree (s : FSState) : List Op → Prop
  | [] => True
  | op :: rest => onTree s op ∧ allOnTree (applyOp s op) rest

/-! ## The walk of freeBlockChain -/

/-- The values the variable `currentBlock` of `freeBlockChain` takes at the tests of its loop,
in order: every value but the last is a block whose FAT entry the loop reads and sets to
`FAT_FREE`. -/
def freeTrace : Nat → FSState → Int → List Int
  | 0, _, _ => []
  | fuel + 1, s, currentBlock =>
    if currentBlock = FAT_EOF ∨ currentBlock = FAT_FREE then [currentBlock]
    else if currentBlock < 0 ∨ currentBlock ≥ (TOTAL_BLOCKS : Int) then [currentBlock]
    else currentBlock :: freeTrace fuel (setFat s currentBlock FAT_FREE) (fatAt s currentBlock)

/-- The number of times the body of the loop of `freeBlockChain` is entered: the loop tests
at which `currentBlock` is neither `FAT_EOF` nor `FAT_FREE`. -/
def freeIterations (fuel : Nat) (s : FSState) (startBlock : Int) : Nat :=
  ((freeTrace fuel s startBlock).filter
    (fun y => decide (¬ (y = FAT_EOF ∨ y = FAT_FREE)))).length

/-- The indices below `TOTAL_BLOCKS` whose FAT entry is not `FAT_FREE`. -/
def allocSet (s : FSState) : Finset Nat :=
  (Finset.range TOTAL_BLOCKS).filter (fun i => fatAt s (i : Int) ≠ FAT_FREE)

/-- The result a call returns, without the value of `NewFileSystem`. -/
def resultOp (s : FSState) : Op → Res Unit
  | .newFileSystem t1 t2 =>
    match (NewFileSystem s t1 t2).2 with
    | .ok _ => .ok ()
    | .err e => .err e
    | .panic => .panic
    | .diverge => .diverge
  | .createFile p n now => (CreateFile s p n now).2
  | .createDirectory p n t1 t2 t3 => (CreateDirectory s p n t1 t2 t3).2
  | .writeFile f p data now => (WriteToFile s f p data now).2.2
  | .deleteEntry p n => (DeleteEntry s p n).2
  | .changeDirectory fs target => (ChangeDirectory s fs target).2.2

/-- The results of the calls of a sequence, each run in the state the calls before it left. -/
def runResults (s : FSState) : List Op → List (Res Unit)
  | [] => []
  | op :: rest => resultOp s op :: runResults (applyOp s op) rest

/-- Five calls that all return success after `NewFileSystem` and leave `bytes` (at most one
block of them, followed by zeros) in the root block. `create_file(1, "a")` is given block 0;
`write_file` of the listed entry of "a" stores in block 0 the 49 bytes of an entry "r" (FILE,
StartBlock 1); `delete_entry(0, "r")` reads block 0 as a directory and releases block 1, the
root block; `create_file(0, "q")` is given block 1; `write_file` of the listed entry of "q"
releases block 1, is given it again and stores `bytes` in it. -/
def rewriteRoot (bytes : List Nat) : List Op :=
  [.createFile 1 [97] 0,
   .writeFile ⟨mkName [97], TYPE_FILE, 0, 0, 0⟩ 1 (entryBytes ⟨mkName [114], TYPE_FILE, 1, 0, 0⟩) 0,
   .deleteEntry 0 [114],
   .createFile 0 [113] 0,
   .writeFile ⟨mkName [113], TYPE_FILE, 1, 0, 0⟩ 0 bytes 0]

/-- The bytes of a root block that lists ".", "..", a file whose 28 name bytes are all "x" (no
zero byte), the empty file "b" and the directory "d" with start block 0. -/
def openNameBlock : List Nat :=
  entryBytes ⟨mkName [46], TYPE_DIRECTORY, 1, 0, 0⟩ ++
  entryBytes ⟨mkName [46, 46], TYPE_DIRECTORY, 1, 0, 0⟩ ++
  entryBytes ⟨List.replicate 28 120, TYPE_FILE, FAT_EOF, 0, 0⟩ ++
  entryBytes ⟨mkName [98], TYPE_FILE, FAT_EOF, 0, 0⟩ ++
  entryBytes ⟨mkName [100], TYPE_DIRECTORY, 0, 0, 0⟩

/-! # Theorems -/

/-! ## Codec lemmas -/

theorem leBytes_length (w n : Nat) : (leBytes w n).length = w := by
  induction w generalizing n with
  | zero => rfl
  | succ w ih => simp [leBytes, ih]

theorem leBytes_lt (w n : Nat) : ∀ b ∈ leBytes w n, b < 256 := by
  induction w generalizing n with
  | zero => simp [leBytes]
  | succ w ih =>
    intro b hb
    simp only [leBytes, List.mem_cons] at hb
    rcases hb with rfl | hb
    · exact Nat.mod_lt _ (by decide)
    · exact ih _ b hb

theorem ofLE_leBytes (w n : Nat) : ofLE (leBytes w n) = n % 256 ^ w := by
  induction w generalizing n with
  | zero => simp [leBytes, ofLE, Nat.mod_one]
  | succ w ih =>
    simp only [leBytes, ofLE, ih]
    rw [pow_succ, Nat.mul_comm (256 ^ w) 256, Nat.mod_mul]

theorem ofLE_lt (bs : List Nat) (h : ∀ b ∈ bs, b < 256) : ofLE bs < 256 ^ bs.length := by
  induction bs with
  | nil => simp [ofLE]
  | cons b bs ih =>
    have hb : b < 256 := h b (List.mem_cons_self _ _)
    have := ih (fun x hx => h x (List.mem_cons_of_mem _ hx))
    simp only [ofLE, List.length_cons, pow_succ]
    omega

theorem leBytes_ofLE (bs : List Nat) (h : ∀ b ∈ bs, b < 256) :
    leBytes bs.length (ofLE bs) = bs := by
  induction bs with
  | nil => rfl
  | cons b bs ih =>
    have hb : b < 256 := h b (List.mem_cons_self _ _)
    have := ih (fun x hx => h x (List.mem_cons_of_mem _ hx))
    simp only [List.length_cons, leBytes, ofLE]
    have h1 : (b + 256 * ofLE bs) % 256 = b := by omega
    have h2 : (b + 256 * ofLE bs) / 256 = ofLE bs := by omega
    rw [h1, h2, this]

theorem leBytes_getD (w n k : Nat) (hk : k < w) :
    (leBytes w n).getD k 0 = n / 256 ^ k % 256 := by
  induction w generalizing n k with
  | zero => omega
  | succ w ih =>
    cases k with
    | zero => simp [leBytes]
    | succ k =>
      simp only [leBytes, List.getD_cons_succ]
      rw [ih _ _ (by omega), Nat.div_div_eq_div_mul, pow_succ, Nat.mul_comm]

theorem toSigned_toUnsigned_1 (x : Int) (h : -128 ≤ x ∧ x < 128) :
    toSigned 1 (toUnsigned 1 x) = x := by
  unfold toSigned toUnsigned
  norm_num
  split <;> omega

theorem toSigned_toUnsigned_4 (x : Int) (h : -2147483648 ≤ x ∧ x < 2147483648) :
    toSigned 4 (toUnsigned 4 x) = x := by
  unfold toSigned toUnsigned
  norm_num
  split <;> omega

theorem toSigned_toUnsigned_8 (x : Int)
    (h : -9223372036854775808 ≤ x ∧ x < 9223372036854775808) :
    toSigned 8 (toUnsigned 8 x) = x := by
  unfold toSigned toUnsigned
  norm_num
  split <;> omega

theorem toUnsigned_toSigned (w n : Nat) (hw : 0 < w) (h : n < 256 ^ w) :
    toUnsigned w (toSigned w n) = n := by
  have e : (256 : Nat) ^ w = 2 ^ (8 * w) := by rw [pow_mul]; norm_num
  have e2 : (2 : Nat) ^ (8 * w) = 2 * 2 ^ (8 * w - 1) := by
    rw [← pow_succ']; congr 1; omega
  have hc : ((2 : Int) ^ (8 * w)) = ((2 ^ (8 * w) : Nat) : Int) := by push_cast; rfl
  unfold toSigned toUnsigned
  rw [hc]
  generalize (2 : Nat) ^ (8 * w) = M at *
  generalize (2 : Nat) ^ (8 * w - 1) = H at *
  split
  · rw [Int.emod_eq_of_lt (by omega) (by omega)]; simp
  · rw [show ((n : Int) - (M : Int)) % (M : Int) = (n : Int) from by
      rw [Int.sub_emod, Int.emod_self, sub_zero, Int.emod_emod_of_dvd _ (dvd_refl _)]
      exact Int.emod_eq_of_lt (by omega) (by omega)]
    simp

theorem putInt_length (w : Nat) (x : Int) : (putInt w x).length = w := leBytes_length _ _

theorem putInt_lt (w : Nat) (x : Int) : ∀ b ∈ putInt w x, b < 256 := leBytes_lt _ _

theorem putInt_getInt_seg (w : Nat) (hw : 0 < w) (seg : List Nat) (hl : seg.length = w)
    (hb : ∀ b ∈ seg, b < 256) : putInt w (toSigned w (ofLE seg)) = seg := by
  unfold putInt
  rw [toUnsigned_toSigned w _ hw (hl ▸ ofLE_lt seg hb)]
  rw [← hl]; exact leBytes_ofLE seg hb

theorem toUnsigned_lt (w : Nat) (x : Int) : toUnsigned w x < 256 ^ w := by
  have e : (256 : Nat) ^ w = 2 ^ (8 * w) := by rw [pow_mul]; norm_num
  unfold toUnsigned
  rw [e]
  have hpos : (0 : Int) < 2 ^ (8 * w) := by positivity
  have h1 := Int.emod_lt_of_pos x hpos
  have h0 := Int.emod_nonneg x (ne_of_gt hpos)
  zify
  rw [Int.toNat_of_nonneg h0]
  exact_mod_cast h1

theorem ofLE_putInt (w : Nat) (x : Int) : ofLE (putInt w x) = toUnsigned w x := by
  unfold putInt
  rw [ofLE_leBytes, Nat.mod_eq_of_lt (toUnsigned_lt w x)]

theorem entryBytes_length (de : DirectoryEntry) (h : de.Name.length = MAX_FILENAME_LEN) :
    (entryBytes de).length = 49 := by
  simp [entryBytes, putInt_length, h, MAX_FILENAME_LEN]

theorem serialize_eq (de : DirectoryEntry) (h : de.Name.length = MAX_FILENAME_LEN) :
    de.Serialize = .ok (entryBytes de) := by
  have := entryBytes_length de h
  unfold DirectoryEntry.Serialize
  simp only [DIRECTORY_ENTRY_SIZE]
  rw [if_neg]
  · simp [this]

theorem getInt_at (w : Nat) (pre seg post : List Nat) (off : Nat) (hp : pre.length = off)
    (hs : seg.length = w) : getInt w (pre ++ seg ++ post) off = toSigned w (ofLE seg) := by
  unfold getInt
  subst hp hs
  simp

theorem deserialize_entryBytes (de : DirectoryEntry) (h : de.Name.length = MAX_FILENAME_LEN) :
    DeserializeEntry (entryBytes de) =
      .ok { Name := de.Name, EntryType := toSigned 1 (toUnsigned 1 de.EntryType),
            StartBlock := toSigned 4 (toUnsigned 4 de.StartBlock),
            Size := toSigned 8 (toUnsigned 8 de.Size),
            ModTime := toSigned 8 (toUnsigned 8 de.ModTime) } := by
  have hl := entryBytes_length de h
  unfold DeserializeEntry
  rw [if_neg (by rw [hl]; decide)]
  have h1 : getInt 1 (entryBytes de) 28 = toSigned 1 (toUnsigned 1 de.EntryType) := by
    have := getInt_at 1 de.Name (putInt 1 de.EntryType)
      (putInt 4 de.StartBlock ++ putInt 8 de.Size ++ putInt 8 de.ModTime) 28 h (putInt_length _ _)
    rw [ofLE_putInt] at this
    rw [← this]; simp [entryBytes]
  have h2 : getInt 4 (entryBytes de) 29 = toSigned 4 (toUnsigned 4 de.StartBlock) := by
    have := getInt_at 4 (de.Name ++ putInt 1 de.EntryType) (putInt 4 de.StartBlock)
      (putInt 8 de.Size ++ putInt 8 de.ModTime) 29
      (by simp [putInt_length, h, MAX_FILENAME_LEN]) (putInt_length _ _)
    rw [ofLE_putInt] at this
    rw [← this]; simp [entryBytes]
  have h3 : getInt 8 (entryBytes de) 33 = toSigned 8 (toUnsigned 8 de.Size) := by
    have := getInt_at 8 (de.Name ++ putInt 1 de.EntryType ++ putInt 4 de.StartBlock)
      (putInt 8 de.Size) (putInt 8 de.ModTime) 33
      (by simp [putInt_length, h, MAX_FILENAME_LEN]) (putInt_length _ _)
    rw [ofLE_putInt] at this
    rw [← this]; simp [entryBytes]
  have h4 : getInt 8 (entryBytes de) 41 = toSigned 8 (toUnsigned 8 de.ModTime) := by
    have := getInt_at 8
      (de.Name ++ putInt 1 de.EntryType ++ putInt 4 de.StartBlock ++ putInt 8 de.Size)
      (putInt 8 de.ModTime) [] 41
      (by simp [putInt_length, h, MAX_FILENAME_LEN]) (putInt_length _ _)
    rw [ofLE_putInt] at this
    rw [← this]; simp [entryBytes]
  have h0 : (entryBytes de).take MAX_FILENAME_LEN = de.Name := by
    unfold entryBytes
    rw [List.append_assoc, List.append_assoc, List.append_assoc, ← h]
    exact List.take_left' rfl
  rw [h0, h1, h2, h3, h4]

theorem deserialize_serialize (de : DirectoryEntry) (h : de.WF) :
    DeserializeEntry (entryBytes de) = .ok de := by
  obtain ⟨hn, _, ht, hs, hz, hm⟩ := h
  rw [deserialize_entryBytes de hn, toSigned_toUnsigned_1 _ ht, toSigned_toUnsigned_4 _ hs,
    toSigned_toUnsigned_8 _ hz, toSigned_toUnsigned_8 _ hm]

theorem split49 (b : List Nat) (hl : b.length = 49) :
    b = b.take 28 ++ (b.drop 28).take 1 ++ (b.drop 29).take 4 ++ (b.drop 33).take 8
      ++ (b.drop 41).take 8 := by
  have e5 : (b.drop 41).take 8 = b.drop 41 := List.take_of_length_le (by simp [hl])
  have a4 : (b.drop 33).take 8 ++ b.drop 41 = b.drop 33 := by
    have := List.take_append_drop 8 (b.drop 33); simpa using this
  have a3 : (b.drop 29).take 4 ++ b.drop 33 = b.drop 29 := by
    have := List.take_append_drop 4 (b.drop 29); simpa using this
  have a2 : (b.drop 28).take 1 ++ b.drop 29 = b.drop 28 := by
    have := List.take_append_drop 1 (b.drop 28); simpa using this
  rw [e5, List.append_assoc, List.append_assoc, List.append_assoc, a4, a3, a2,
    List.take_append_drop]

theorem serialize_deserialize (b : List Nat) (hl : b.length = 49) (hb : ∀ x ∈ b, x < 256) :
    ∃ d, DeserializeEntry b = .ok d ∧ d.Serialize = .ok b := by
  refine ⟨_, by unfold DeserializeEntry; rw [if_neg (by rw [hl]; decide)], ?_⟩
  have hseg : ∀ off w, off + w ≤ 49 → 0 < w →
      putInt w (getInt w b off) = (b.drop off).take w := by
    intro off w how hw
    unfold getInt
    apply putInt_getInt_seg w hw
    · simp [hl]; omega
    · intro x hx; exact hb x (List.mem_of_mem_drop (List.mem_of_mem_take hx))
  rw [serialize_eq _ (by simp [MAX_FILENAME_LEN, hl])]
  unfold entryBytes
  simp only [MAX_FILENAME_LEN]
  rw [hseg 28 1 (by omega) (by omega), hseg 29 4 (by omega) (by omega),
    hseg 33 8 (by omega) (by omega), hseg 41 8 (by omega) (by omega), ← split49 b hl]

/-! ## Lists and states -/

theorem getD_set_self {α : Type} (L : List α) (i : Nat) (a d : α) (h : i < L.length) :
    (L.set i a).getD i d = a := by
  rw [List.getD_eq_getElem?_getD, List.getElem?_set_self h]; rfl

theorem getD_set_ne {α : Type} (L : List α) (i j : Nat) (a d : α) (h : i ≠ j) :
    (L.set i a).getD j d = L.getD j d := by
  rw [List.getD_eq_getElem?_getD, List.getD_eq_getElem?_getD, List.getElem?_set_ne h]

theorem fatAt_setFat_self (s : FSState) (b v : Int) (h : b.toNat < s.FAT.length) :
    fatAt (setFat s b v) b = v := getD_set_self _ _ _ _ h

theorem fatAt_setFat_ne (s : FSState) (b c v : Int) (h : b.toNat ≠ c.toNat) :
    fatAt (setFat s b v) c = fatAt s c := getD_set_ne _ _ _ _ _ h

theorem blockAt_setBlock_self (s : FSState) (b : Int) (blk : List Nat)
    (h : b.toNat < s.Disk.length) : blockAt (setBlock s b blk) b = blk :=
  getD_set_self _ _ _ _ h

theorem blockAt_setBlock_ne (s : FSState) (b c : Int) (blk : List Nat)
    (h : b.toNat ≠ c.toNat) : blockAt (setBlock s b blk) c = blockAt s c :=
  getD_set_ne _ _ _ _ _ h

@[simp] theorem fatAt_setBlock (s : FSState) (b c : Int) (blk : List Nat) :
    fatAt (setBlock s b blk) c = fatAt s c := rfl

@[simp] theorem blockAt_setFat (s : FSState) (b c v : Int) :
    blockAt (setFat s b v) c = blockAt s c := rfl

@[simp] theorem setFat_Disk (s : FSState) (b v : Int) : (setFat s b v).Disk = s.Disk := rfl

@[simp] theorem setBlock_FAT (s : FSState) (b : Int) (blk : List Nat) :
    (setBlock s b blk).FAT = s.FAT := rfl

theorem WF_setFat (s : FSState) (b v : Int) (h : s.WF) : (setFat s b v).WF := by
  obtain ⟨h1, h2, h3⟩ := h
  exact ⟨h1, h2, by simp [setFat, h3]⟩

theorem WF_setBlock (s : FSState) (b : Int) (blk : List Nat) (h : s.WF)
    (hb : blk.length = BLOCK_SIZE) : (setBlock s b blk).WF := by
  obtain ⟨h1, h2, h3⟩ := h
  refine ⟨by simp [setBlock, h1], ?_, h3⟩
  intro x hx
  rcases List.mem_or_eq_of_mem_set hx with hx | rfl
  · exact h2 x hx
  · exact hb

theorem blockAt_length (s : FSState) (h : s.WF) (b : Int) (h0 : 0 ≤ b)
    (h1 : b < (TOTAL_BLOCKS : Int)) : (blockAt s b).length = BLOCK_SIZE := by
  obtain ⟨hd, hb, _⟩ := h
  have hlt : b.toNat < s.Disk.length := by rw [hd]; omega
  unfold blockAt
  rw [List.getD_eq_getElem?_getD, List.getElem?_eq_getElem hlt]
  exact hb _ (List.getElem_mem hlt)

theorem toNat_ne {b c : Int} (hb : 0 ≤ b) (hc : 0 ≤ c) (h : b ≠ c) : b.toNat ≠ c.toNat := by
  omega

/-! ## Claims on the codec -/

/-- C2: for every `DirectoryEntry` value `e`, `Serialize` succeeds and `DeserializeEntry` of its
output succeeds and returns `e` (all five fields); and every 49-byte slice `b` is given back by
`DeserializeEntry` followed by `Serialize`. -/
theorem C2_codec_roundtrip (e : DirectoryEntry) (he : e.WF) (b : List Nat)
    (hl : b.length = DIRECTORY_ENTRY_SIZE) (hb : ∀ x ∈ b, x < 256) :
    (∃ bs, e.Serialize = .ok bs ∧ DeserializeEntry bs = .ok e) ∧
    (∃ d, DeserializeEntry b = .ok d ∧ d.Serialize = .ok b) :=
  ⟨⟨entryBytes e, serialize_eq e he.1, deserialize_serialize e he⟩,
    serialize_deserialize b hl hb⟩

/-- C2 at a concrete entry and a concrete slice. -/
theorem C2_codec_roundtrip_witness :
    (DirectoryEntry.mk (mkName [97, 46, 116]) 0 5 300 (-7)).WF ∧
    (List.range 49).length = DIRECTORY_ENTRY_SIZE ∧ (∀ x ∈ List.range 49, x < 256) ∧
    ((∃ bs, (DirectoryEntry.mk (mkName [97, 46, 116]) 0 5 300 (-7)).Serialize = .ok bs ∧
        DeserializeEntry bs = .ok (DirectoryEntry.mk (mkName [97, 46, 116]) 0 5 300 (-7))) ∧
      (∃ d, DeserializeEntry (List.range 49) = .ok d ∧ d.Serialize = .ok (List.range 49))) :=
  ⟨by decide, by decide, by decide,
    C2_codec_roundtrip _ (by decide) _ (by decide) (by decide)⟩

/-- C3: for every `DirectoryEntry` value `e`, `Serialize` returns a buffer (never the length
error) of exactly 49 = 28 + 1 + 4 + 8 + 8 bytes: bytes 0..27 are `Name`, byte 28 is `Type`,
bytes 29..32 are `StartBlock`, bytes 33..40 `Size` and bytes 41..48 `ModTime`, each the
little-endian two's complement image of the field (byte `k` of a field is
`(value mod 2^(8w) / 256^k) mod 256`, and reading the bytes back as a signed number gives the
field). -/
theorem C3_serialize_layout (e : DirectoryEntry) (he : e.WF) :
    ∃ bs, e.Serialize = .ok bs ∧ e.Serialize ≠ .err .serializationError ∧
      bs.length = 49 ∧ DIRECTORY_ENTRY_SIZE = 28 + 1 + 4 + 8 + 8 ∧
      (∀ x ∈ bs, x < 256) ∧
      bs.take 28 = e.Name ∧
      bs.getD 28 0 = toUnsigned 1 e.EntryType ∧
      (∀ k, k < 4 → bs.getD (29 + k) 0 = toUnsigned 4 e.StartBlock / 256 ^ k % 256) ∧
      (∀ k, k < 8 → bs.getD (33 + k) 0 = toUnsigned 8 e.Size / 256 ^ k % 256) ∧
      (∀ k, k < 8 → bs.getD (41 + k) 0 = toUnsigned 8 e.ModTime / 256 ^ k % 256) ∧
      toSigned 1 (ofLE ((bs.drop 28).take 1)) = e.EntryType ∧
      toSigned 4 (ofLE ((bs.drop 29).take 4)) = e.StartBlock ∧
      toSigned 8 (ofLE ((bs.drop 33).take 8)) = e.Size ∧
      toSigned 8 (ofLE ((bs.drop 41).take 8)) = e.ModTime := by
  have hn := he.1
  have hd := deserialize_serialize e he
  have hl := entryBytes_length e hn
  unfold DeserializeEntry at hd
  rw [if_neg (by rw [hl]; decide)] at hd
  injection hd with hd
  have h1 : getInt 1 (entryBytes e) 28 = e.EntryType := congrArg DirectoryEntry.EntryType hd
  have h2 : getInt 4 (entryBytes e) 29 = e.StartBlock := congrArg DirectoryEntry.StartBlock hd
  have h3 : getInt 8 (entryBytes e) 33 = e.Size := congrArg DirectoryEntry.Size hd
  have h4 : getInt 8 (entryBytes e) 41 = e.ModTime := congrArg DirectoryEntry.ModTime hd
  have h0 : (entryBytes e).take MAX_FILENAME_LEN = e.Name := congrArg DirectoryEntry.Name hd
  have g : ∀ (pre seg post : List Nat) (k : Nat), k < seg.length →
      (pre ++ seg ++ post).getD (pre.length + k) 0 = seg.getD k 0 := by
    intro pre seg post k hk
    rw [List.append_assoc, List.getD_eq_getElem?_getD, List.getD_eq_getElem?_getD,
      List.getElem?_append_right (by omega), Nat.add_sub_cancel_left,
      List.getElem?_append_left hk]
  refine ⟨entryBytes e, serialize_eq e hn, by rw [serialize_eq e hn]; simp, hl, rfl, ?_, h0,
    ?_, ?_, ?_, ?_, h1, h2, h3, h4⟩
  · intro x hx
    simp only [entryBytes, List.mem_append] at hx
    rcases hx with (((hx | hx) | hx) | hx) | hx
    · exact he.2.1 x hx
    all_goals exact putInt_lt _ _ x hx
  · have := g e.Name (putInt 1 e.EntryType)
      (putInt 4 e.StartBlock ++ putInt 8 e.Size ++ putInt 8 e.ModTime) 0
      (by rw [putInt_length]; omega)
    rw [hn] at this
    simp only [MAX_FILENAME_LEN, Nat.add_zero] at this
    rw [show entryBytes e = e.Name ++ putInt 1 e.EntryType ++
      (putInt 4 e.StartBlock ++ putInt 8 e.Size ++ putInt 8 e.ModTime) by simp [entryBytes],
      this, putInt, leBytes_getD _ _ _ (by omega)]
    have := toUnsigned_lt 1 e.EntryType
    simp at this ⊢
    omega
  · intro k hk
    have := g (e.Name ++ putInt 1 e.EntryType) (putInt 4 e.StartBlock)
      (putInt 8 e.Size ++ putInt 8 e.ModTime) k (by rw [putInt_length]; omega)
    rw [List.length_append, hn, putInt_length] at this
    simp only [MAX_FILENAME_LEN] at this
    rw [show entryBytes e = e.Name ++ putInt 1 e.EntryType ++ putInt 4 e.StartBlock ++
      (putInt 8 e.Size ++ putInt 8 e.ModTime) by simp [entryBytes],
      this, putInt, leBytes_getD _ _ _ hk]
  · intro k hk
    have := g (e.Name ++ putInt 1 e.EntryType ++ putInt 4 e.StartBlock) (putInt 8 e.Size)
      (putInt 8 e.ModTime) k (by rw [putInt_length]; omega)
    rw [List.length_append, List.length_append, hn, putInt_length, putInt_length] at this
    simp only [MAX_FILENAME_LEN] at this
    rw [show entryBytes e = e.Name ++ putInt 1 e.EntryType ++ putInt 4 e.StartBlock ++
      putInt 8 e.Size ++ putInt 8 e.ModTime by simp [entryBytes],
      this, putInt, leBytes_getD _ _ _ hk]
  · intro k hk
    have := g (e.Name ++ putInt 1 e.EntryType ++ putInt 4 e.StartBlock ++ putInt 8 e.Size)
      (putInt 8 e.ModTime) [] k (by rw [putInt_length]; omega)
    rw [List.length_append, List.length_append, List.length_append, hn, putInt_length,
      putInt_length, putInt_length, List.append_nil] at this
    simp only [MAX_FILENAME_LEN] at this
    rw [show entryBytes e = e.Name ++ putInt 1 e.EntryType ++ putInt 4 e.StartBlock ++
      putInt 8 e.Size ++ putInt 8 e.ModTime by simp [entryBytes],
      this, putInt, leBytes_getD _ _ _ hk]

/-- C3 at a concrete entry. -/
theorem C3_serialize_layout_witness :
    (DirectoryEntry.mk (mkName [97]) 1 (-1) 98 1700000000000000000).WF ∧
    ∃ bs, (DirectoryEntry.mk (mkName [97]) 1 (-1) 98 1700000000000000000).Serialize = .ok bs ∧
      bs.length = 49 ∧ bs.getD 29 0 = 255 :=
  ⟨by decide, by
    obtain ⟨bs, h1, _, h3, _, _, _, _, h8, _⟩ :=
      C3_serialize_layout (DirectoryEntry.mk (mkName [97]) 1 (-1) 98 1700000000000000000)
        (by decide)
    exact ⟨bs, h1, h3, by have := h8 0 (by omega); simpa [toUnsigned] using this⟩⟩

theorem copy_length (dst src : List Nat) : (copy dst src).length = dst.length := by
  unfold copy; simp; omega

theorem copyAt_length (dst : List Nat) (off : Nat) (src : List Nat) :
    (copyAt dst off src).length = dst.length := by
  unfold copyAt; simp [copy_length]; omega

theorem copyAt_eq (dst : List Nat) (off : Nat) (src : List Nat)
    (h : off + src.length ≤ dst.length) :
    copyAt dst off src = dst.take off ++ src ++ dst.drop (off + src.length) := by
  unfold copyAt copy
  have h1 : src.take (dst.drop off).length = src :=
    List.take_of_length_le (by simp; omega)
  rw [h1, List.drop_drop, List.append_assoc]

theorem mkName_length (n : List Nat) : (mkName n).length = MAX_FILENAME_LEN := by
  unfold mkName; rw [copy_length]; simp

theorem two_entries_block (Z d dd : List Nat) (hz : Z.length = 256) (h1 : d.length = 49)
    (h2 : dd.length = 49) : copyAt (copyAt Z 0 d) 49 dd = d ++ dd ++ Z.drop 98 := by
  rw [copyAt_eq Z 0 d (by omega)]
  rw [copyAt_eq _ 49 dd (by simp; omega)]
  simp only [List.take_zero, List.nil_append, Nat.zero_add, h1, h2]
  rw [List.take_left' h1, List.drop_append_eq_append_drop, h1, List.drop_drop]
  have : List.drop (49 + 49) d = [] := List.drop_of_length_le (by omega)
  rw [this]
  simp

theorem formatted_state (prior : FSState) (t1 t2 : Int) :
    FormatDisk prior t1 t2 =
      ({ Disk := (List.replicate TOTAL_BLOCKS (List.replicate BLOCK_SIZE 0)).set 1
            (entryBytes ⟨mkName [46], TYPE_DIRECTORY, ROOT_DIR_BLOCK, 0, t1⟩ ++
              entryBytes ⟨mkName [46, 46], TYPE_DIRECTORY, ROOT_DIR_BLOCK, 0, t2⟩ ++
              List.replicate 158 0)
         FAT := (List.replicate TOTAL_BLOCKS FAT_FREE).set 1 FAT_EOF }, .ok ()) := by
  have l1 := entryBytes_length ⟨mkName [46], TYPE_DIRECTORY, ROOT_DIR_BLOCK, 0, t1⟩
    (mkName_length _)
  have l2 := entryBytes_length ⟨mkName [46, 46], TYPE_DIRECTORY, ROOT_DIR_BLOCK, 0, t2⟩
    (mkName_length _)
  have e1 := serialize_eq ⟨mkName [46], TYPE_DIRECTORY, ROOT_DIR_BLOCK, 0, t1⟩
    (mkName_length _)
  have e2 := serialize_eq ⟨mkName [46, 46], TYPE_DIRECTORY, ROOT_DIR_BLOCK, 0, t2⟩
    (mkName_length _)
  unfold FormatDisk
  rw [if_neg (by decide)]
  simp only [e1, e2, l1, l2]
  rw [if_neg (by decide), if_neg (by decide)]
  have hZ : (List.replicate TOTAL_BLOCKS (List.replicate BLOCK_SIZE 0)).getD 1 []
      = List.replicate BLOCK_SIZE 0 := by
    rw [List.getD_eq_getElem?_getD, List.getElem?_replicate, if_pos (by decide)]; rfl
  have hd : (List.replicate BLOCK_SIZE 0).drop 98 = List.replicate 158 0 := by
    rw [List.drop_replicate]; rfl
  simp only [setBlock, setFat, blockAt, ROOT_DIR_BLOCK, Int.toNat_one, Nat.zero_add]
  rw [getD_set_self _ _ _ _ (by rw [List.length_replicate]; decide), hZ, List.set_set,
    two_entries_block _ _ _ (by rw [List.length_replicate]; rfl)
      (entryBytes_length _ (mkName_length _)) (entryBytes_length _ (mkName_length _)), hd]

theorem slotOffsets_eq : slotOffsets = [0, 49, 98, 147, 196] := by decide

theorem slotData_getD_zero (blk : List Nat) (off : Nat) :
    (slotData blk off).getD 0 0 = blk.getD off 0 := by
  simp [slotData, List.getD_eq_getElem?_getD, List.getElem?_take, List.getElem?_drop,
    DIRECTORY_ENTRY_SIZE]

theorem slotData_append (pre seg post : List Nat) (h : seg.length = DIRECTORY_ENTRY_SIZE) :
    slotData (pre ++ seg ++ post) pre.length = seg := by
  unfold slotData
  rw [List.append_assoc, List.drop_left, ← h, List.take_left]

theorem entryBytes_head (de : DirectoryEntry) (h : de.Name ≠ []) :
    (entryBytes de).getD 0 0 = de.Name.getD 0 0 := by
  unfold entryBytes
  cases hn : de.Name with
  | nil => exact absurd hn h
  | cons a l => simp

theorem walkFuel_eq : walkFuel = 256 + 1 + 1 := rfl

theorem listLoop_single (s : FSState) (fuel : Nat) (b : Int) (h0 : 0 ≤ b)
    (h1 : b < (TOTAL_BLOCKS : Int)) (h : fatAt s b = FAT_EOF ∨ fatAt s b = FAT_FREE) :
    listLoop s (fuel + 2) b = .ok (scanSlots (blockAt s b) slotOffsets) := by
  have hb : ¬ (b = FAT_EOF ∨ b = FAT_FREE) := by simp only [FAT_EOF, FAT_FREE]; omega
  have hr : ¬ (b < 0 ∨ b ≥ (TOTAL_BLOCKS : Int)) := by omega
  rw [listLoop, if_neg hb, if_neg hr, listLoop, if_pos h]
  simp

theorem format_root_block_tail (d dd : List Nat) (h1 : d.length = 49) (h2 : dd.length = 49)
    (i : Nat) (hi : 98 ≤ i) (v : Nat) (hlt : i < 256) :
    (d ++ dd ++ List.replicate 158 0).getD i v = 0 := by
  rw [List.getD_eq_getElem?_getD, List.getElem?_append_right (by simp; omega),
    List.getElem?_replicate, if_pos (by simp; omega)]
  rfl

theorem format_root_scan (e1 e2 : DirectoryEntry) (h1 : e1.Name.length = MAX_FILENAME_LEN)
    (h2 : e2.Name.length = MAX_FILENAME_LEN) (n1 : e1.Name.getD 0 0 ≠ 0)
    (n2 : e2.Name.getD 0 0 ≠ 0) (r1 r2 : DirectoryEntry)
    (d1 : DeserializeEntry (entryBytes e1) = .ok r1)
    (d2 : DeserializeEntry (entryBytes e2) = .ok r2) :
    scanSlots (entryBytes e1 ++ entryBytes e2 ++ List.replicate 158 0) slotOffsets
      = [r1, r2] := by
  have l1 := entryBytes_length e1 h1
  have l2 := entryBytes_length e2 h2
  have ne1 : e1.Name ≠ [] := by intro h; rw [h] at h1; exact absurd h1 (by decide)
  have ne2 : e2.Name ≠ [] := by intro h; rw [h] at h2; exact absurd h2 (by decide)
  have s0 : slotData (entryBytes e1 ++ entryBytes e2 ++ List.replicate 158 0) 0
      = entryBytes e1 := by
    have := slotData_append [] (entryBytes e1) (entryBytes e2 ++ List.replicate 158 0) l1
    simpa using this
  have s1 : slotData (entryBytes e1 ++ entryBytes e2 ++ List.replicate 158 0) 49
      = entryBytes e2 := by
    have := slotData_append (entryBytes e1) (entryBytes e2) (List.replicate 158 0) l2
    rw [l1] at this; exact this
  have z : ∀ off, 98 ≤ off → off < 256 →
      (slotData (entryBytes e1 ++ entryBytes e2 ++ List.replicate 158 0) off).getD 0 0 = 0 := by
    intro off h hlt
    rw [slotData_getD_zero]; exact format_root_block_tail _ _ l1 l2 off h 0 hlt
  rw [slotOffsets_eq]
  simp only [scanSlots]
  rw [s0, s1, entryBytes_head e1 ne1, entryBytes_head e2 ne2, if_neg n1, if_neg n2, d1, d2,
    z 98 (by omega) (by omega), z 147 (by omega) (by omega), z 196 (by omega) (by omega)]
  simp

/-- C4: after `FormatDisk` (and so after `NewFileSystem`, which returns a session at the root)
every FAT entry is `FAT_FREE` except `FAT[ROOT_DIR_BLOCK] = FAT_EOF`, every block other than
block 1 is all zero, `ListEntries(ROOT_DIR_BLOCK)` returns exactly the two entries "." and ".."
in that order, both of type directory with `StartBlock = 1`, and bytes 98..255 of block 1 are
zero. -/
theorem C4_format_initial_state (prior : FSState) (t1 t2 : Int) :
    (FormatDisk prior t1 t2).2 = .ok () ∧
    NewFileSystem prior t1 t2 =
      ((FormatDisk prior t1 t2).1, .ok { CurrentDirectoryBlock := ROOT_DIR_BLOCK }) ∧
    (FormatDisk prior t1 t2).1.WF ∧
    (∀ i : Nat, i < TOTAL_BLOCKS → fatAt (FormatDisk prior t1 t2).1 (i : Int) =
      if (i : Int) = ROOT_DIR_BLOCK then FAT_EOF else FAT_FREE) ∧
    (∀ i : Nat, i < TOTAL_BLOCKS → (i : Int) ≠ ROOT_DIR_BLOCK →
      blockAt (FormatDisk prior t1 t2).1 (i : Int) = List.replicate BLOCK_SIZE 0) ∧
    ListEntries (FormatDisk prior t1 t2).1 ROOT_DIR_BLOCK =
      .ok [{ Name := mkName [46], EntryType := TYPE_DIRECTORY, StartBlock := 1, Size := 0,
             ModTime := toSigned 8 (toUnsigned 8 t1) },
           { Name := mkName [46, 46], EntryType := TYPE_DIRECTORY, StartBlock := 1, Size := 0,
             ModTime := toSigned 8 (toUnsigned 8 t2) }] ∧
    nameOf (mkName [46]) = some [46] ∧ nameOf (mkName [46, 46]) = some [46, 46] ∧
    (blockAt (FormatDisk prior t1 t2).1 ROOT_DIR_BLOCK).length = BLOCK_SIZE ∧
    (∀ i : Nat, 98 ≤ i → i < BLOCK_SIZE →
      (blockAt (FormatDisk prior t1 t2).1 ROOT_DIR_BLOCK).getD i 1 = 0) := by
  have hf := formatted_state prior t1 t2
  have l1 := entryBytes_length ⟨mkName [46], TYPE_DIRECTORY, ROOT_DIR_BLOCK, 0, t1⟩
    (mkName_length _)
  have l2 := entryBytes_length ⟨mkName [46, 46], TYPE_DIRECTORY, ROOT_DIR_BLOCK, 0, t2⟩
    (mkName_length _)
  have hroot : blockAt (FormatDisk prior t1 t2).1 ROOT_DIR_BLOCK =
      entryBytes ⟨mkName [46], TYPE_DIRECTORY, ROOT_DIR_BLOCK, 0, t1⟩ ++
        entryBytes ⟨mkName [46, 46], TYPE_DIRECTORY, ROOT_DIR_BLOCK, 0, t2⟩ ++
        List.replicate 158 0 := by
    rw [hf]
    exact getD_set_self _ _ _ _ (by rw [List.length_replicate]; decide)
  have hfat : ∀ i : Nat, i < TOTAL_BLOCKS → fatAt (FormatDisk prior t1 t2).1 (i : Int) =
      if (i : Int) = ROOT_DIR_BLOCK then FAT_EOF else FAT_FREE := by
    intro i hi
    rw [hf]
    unfold fatAt
    simp only [Int.toNat_ofNat, ROOT_DIR_BLOCK]
    by_cases h : i = 1
    · subst h
      rw [getD_set_self _ _ _ _ (by rw [List.length_replicate]; decide)]; rfl
    · rw [getD_set_ne _ _ _ _ _ (fun e => h e.symm), if_neg (by omega),
        List.getD_eq_getElem?_getD, List.getElem?_replicate, if_pos hi]
      rfl
  refine ⟨by rw [hf], by unfold NewFileSystem; rw [hf], ?_, hfat, ?_, ?_, by decide, by decide,
    ?_, ?_⟩
  · rw [hf]
    refine ⟨by simp only [List.length_set, List.length_replicate], ?_,
      by simp only [List.length_set, List.length_replicate]⟩
    intro blk hb
    rcases List.mem_or_eq_of_mem_set hb with hb | rfl
    · rw [List.eq_of_mem_replicate hb, List.length_replicate]
    · rw [List.length_append, List.length_append, l1, l2, List.length_replicate]; rfl
  · intro i hi hne
    rw [hf]
    unfold blockAt
    simp only [Int.toNat_ofNat, ROOT_DIR_BLOCK] at hne ⊢
    rw [getD_set_ne _ _ _ _ _ (by omega), List.getD_eq_getElem?_getD, List.getElem?_replicate,
      if_pos hi]
    rfl
  · have hroot1 : fatAt (FormatDisk prior t1 t2).1 ROOT_DIR_BLOCK = FAT_EOF := by
      have := hfat 1 (by decide)
      simpa [ROOT_DIR_BLOCK] using this
    unfold ListEntries
    rw [if_neg (by decide), if_neg (by decide), walkFuel_eq,
      listLoop_single _ _ _ (by decide) (by decide) (Or.inl hroot1), hroot]
    rw [format_root_scan _ _ (mkName_length _) (mkName_length _)
      (show (mkName [46]).getD 0 0 ≠ 0 by decide) (show (mkName [46, 46]).getD 0 0 ≠ 0 by decide) _ _
      (deserialize_entryBytes _ (mkName_length _)) (deserialize_entryBytes _ (mkName_length _))]
    rfl
  · rw [hroot, List.length_append, List.length_append, l1, l2, List.length_replicate]; rfl
  · intro i hi hlt
    rw [hroot]
    exact format_root_block_tail _ _ l1 l2 i hi 1 hlt

/-! ## Names -/

theorem mkName_full (n : List Nat) (h : n.length = MAX_FILENAME_LEN) : mkName n = n := by
  unfold mkName copy
  rw [List.length_replicate, ← h, List.take_length, List.drop_replicate, h, Nat.sub_self]
  simp

theorem nameOf_none (n : List Nat) (h : 0 ∉ n) : nameOf n = none := by
  unfold nameOf; rw [if_neg h]

theorem addLoop_not_ok (s : FSState) (e : DirectoryEntry) (bytes : List Nat)
    (h : nameOf e.Name = none) (fuel : Nat) (cur : Int) :
    (addLoop s e bytes fuel cur).2 ≠ .ok () := by
  induction fuel generalizing cur with
  | zero => simp [addLoop]
  | succ fuel ih =>
    unfold addLoop
    split
    · simp
    · split
      · simp
      · split
        · rw [h]; simp
        · dsimp only
          split
          · simp
          · exact ih _

theorem addEntry_not_ok (s : FSState) (p : Int) (e : DirectoryEntry)
    (h : nameOf e.Name = none) : (addEntryToDirectory s p e).2 ≠ .ok () := by
  unfold addEntryToDirectory
  split
  · simp
  · split
    · split
      · simp
      · exact addLoop_not_ok _ _ _ h _ _
    · simp

/-- What `CreateFile` has done when it returns success. -/
theorem createFile_ok_inv (s s2 : FSState) (p : Int) (n : List Nat) (now : Int)
    (h : CreateFile s p n now = (s2, .ok ())) :
    n.length ≠ 0 ∧ n.length ≤ MAX_FILENAME_LEN ∧
    ∃ entries b, ListEntries s p = .ok entries ∧ nameTaken n entries = .ok false ∧
      findFreeBlock s = .ok b ∧
      addEntryToDirectory (setFat s b FAT_EOF) p ⟨mkName n, TYPE_FILE, b, 0, now⟩
        = (s2, .ok ()) := by
  unfold CreateFile at h
  split at h
  · simp at h
  split at h
  · simp at h
  rename_i h0 h1
  refine ⟨h0, by omega, ?_⟩
  split at h
  · rename_i entries hl
    split at h
    · simp at h
    · rename_i ht
      split at h
      · rename_i b hb
        refine ⟨entries, b, hl, ht, hb, ?_⟩
        dsimp only at h
        generalize addEntryToDirectory (setFat s b FAT_EOF) p ⟨mkName n, TYPE_FILE, b, 0, now⟩
          = r at h
        obtain ⟨s3, res⟩ := r
        cases res <;> simp_all
      · simp at h
    · simp at h
    · simp at h
    · simp at h
  · simp at h
  · simp at h
  · simp at h

/-- A name of 28 bytes without a zero byte is never created: `CreateFile` returns an error,
aborts or does not end. -/
theorem createFile_full_name_not_ok (s : FSState) (p : Int) (n : List Nat) (now : Int)
    (hl : n.length = MAX_FILENAME_LEN) (hz : 0 ∉ n) : (CreateFile s p n now).2 ≠ .ok () := by
  have hn : nameOf (mkName n) = none := by rw [mkName_full n hl]; exact nameOf_none n hz
  intro h
  obtain ⟨_, _, entries, b, _, _, _, ha⟩ :=
    createFile_ok_inv s (CreateFile s p n now).1 p n now (Prod.ext rfl h)
  exact addEntry_not_ok _ p _ hn (by rw [ha])

theorem nameTaken_of_mem (n : List Nat) (entries : List DirectoryEntry)
    (hall : ∀ e ∈ entries, nameOf e.Name ≠ none)
    (hex : ∃ e ∈ entries, nameOf e.Name = some n) : nameTaken n entries = .ok true := by
  induction entries with
  | nil => obtain ⟨e, he, _⟩ := hex; cases he
  | cons a l ih =>
    unfold nameTaken
    cases hn : nameOf a.Name with
    | none => exact absurd hn (hall a (List.mem_cons_self _ _))
    | some nm =>
      dsimp only
      by_cases hnm : nm = n
      · rw [if_pos hnm]
      · rw [if_neg hnm]
        apply ih (fun e he => hall e (List.mem_cons_of_mem _ he))
        obtain ⟨e, he, hen⟩ := hex
        rcases List.mem_cons.1 he with rfl | he
        · rw [hn] at hen; exact absurd (Option.some.inj hen) hnm
        · exact ⟨e, he, hen⟩

/-- Duplicate names are rejected without touching the state, as long as the search through
the listing reaches the duplicate (every listed name has its terminating zero byte). -/
theorem create_duplicate_rejected (s : FSState) (p : Int) (n : List Nat) (now t1 t2 t3 : Int)
    (entries : List DirectoryEntry) (h0 : n.length ≠ 0) (h1 : n.length ≤ MAX_FILENAME_LEN)
    (hl : ListEntries s p = .ok entries) (hall : ∀ e ∈ entries, nameOf e.Name ≠ none)
    (hex : ∃ e ∈ entries, nameOf e.Name = some n) :
    CreateFile s p n now = (s, .err .duplicateName) ∧
    CreateDirectory s p n t1 t2 t3 = (s, .err .duplicateName) := by
  have ht := nameTaken_of_mem n entries hall hex
  constructor
  · unfold CreateFile
    rw [if_neg h0, if_neg (by omega), hl]
    simp only [ht]
  · unfold CreateDirectory
    rw [if_neg h0, if_neg (by omega), hl]
    simp only [ht]

/-! ## Claims on name validation -/

set_option maxRecDepth 1000000 in
/-- C5 (the code aborts): on the freshly formatted disk the root has a free slot (offset 98)
and the disk a free block (block 0), yet `CreateFile` and `CreateDirectory` with a 28-byte name
without zero byte do not return success: they abort in the log line of `addEntryToDirectory`
(`Name[:-1]`) after the entry has been written; a following `DeleteEntry` of that name aborts
as well instead of finding the entry. -/
theorem C5_create_28_byte_name_aborts :
    (FormatDisk ⟨[], []⟩ 0 0).2 = .ok () ∧
    firstFreeSlot (blockAt (FormatDisk ⟨[], []⟩ 0 0).1 ROOT_DIR_BLOCK) slotOffsets = some 98 ∧
    findFreeBlock (FormatDisk ⟨[], []⟩ 0 0).1 = .ok 0 ∧
    (List.replicate 28 97).length = MAX_FILENAME_LEN ∧ 0 ∉ List.replicate 28 97 ∧
    (CreateFile (FormatDisk ⟨[], []⟩ 0 0).1 ROOT_DIR_BLOCK (List.replicate 28 97) 0).2
      = .panic ∧
    (CreateDirectory (FormatDisk ⟨[], []⟩ 0 0).1 ROOT_DIR_BLOCK (List.replicate 28 97) 0 0 0).2
      = .panic ∧
    (DeleteEntry
      (CreateFile (FormatDisk ⟨[], []⟩ 0 0).1 ROOT_DIR_BLOCK (List.replicate 28 97) 0).1
      ROOT_DIR_BLOCK (List.replicate 28 97)).2 = .panic := by
  decide

/-- C6: for every state, parent block and name, `CreateFile` and `CreateDirectory` return an
error and the unchanged state (same FAT, same disk bytes) when the name is empty
(`nameEmpty`) or longer than 28 bytes (`nameTooLong`). -/
theorem C6_create_rejects_invalid_name (s : FSState) (p : Int) (n : List Nat)
    (now t1 t2 t3 : Int) (h : n.length = 0 ∨ MAX_FILENAME_LEN < n.length) :
    CreateFile s p n now
      = (s, .err (if n.length = 0 then .nameEmpty else .nameTooLong)) ∧
    CreateDirectory s p n t1 t2 t3
      = (s, .err (if n.length = 0 then .nameEmpty else .nameTooLong)) := by
  unfold CreateFile CreateDirectory
  by_cases h0 : n.length = 0
  · simp only [h0, if_true, and_self]
  · have h1 : n.length > MAX_FILENAME_LEN := by
      rcases h with h | h
      · exact absurd h h0
      · exact h
    simp only [h0, h1, if_true, if_false, and_self]

/-- C6 at the empty name and at a 29-byte name on the formatted disk. -/
theorem C6_create_rejects_invalid_name_witness :
    (([] : List Nat).length = 0 ∨ MAX_FILENAME_LEN < ([] : List Nat).length) ∧
    ((List.replicate 29 97).length = 0 ∨ MAX_FILENAME_LEN < (List.replicate 29 97).length) ∧
    (CreateFile (FormatDisk ⟨[], []⟩ 0 0).1 1 [] 5).2 = .err .nameEmpty ∧
    (CreateDirectory (FormatDisk ⟨[], []⟩ 0 0).1 1 (List.replicate 29 97) 5 6 7).2
      = .err .nameTooLong :=
  ⟨by decide, by decide,
    by rw [(C6_create_rejects_invalid_name _ 1 [] 5 5 6 7 (by decide)).1]; rfl,
    by rw [(C6_create_rejects_invalid_name _ 1 (List.replicate 29 97) 5 5 6 7 (by decide)).2]
       rfl⟩

set_option maxRecDepth 1000000 in
/-- C7 (the code aborts): in the state whose root lists ".", ".." and an entry with the
28-byte name `n`, the name `n` is the name of a listed entry, but `CreateFile(1, n)` and
`CreateDirectory(1, n)` do not return the duplicate-name error: the search through the
listing aborts on `Name[:-1]`. The state is left unchanged. -/
theorem C7_duplicate_check_aborts :
    ListEntries (CreateFile (FormatDisk ⟨[], []⟩ 0 0).1 1 (List.replicate 28 97) 0).1 1
      = .ok [⟨mkName [46], 1, 1, 0, 0⟩, ⟨mkName [46, 46], 1, 1, 0, 0⟩,
             ⟨List.replicate 28 97, 0, 0, 0, 0⟩] ∧
    safeName (List.replicate 28 97) = List.replicate 28 97 ∧
    CreateFile (CreateFile (FormatDisk ⟨[], []⟩ 0 0).1 1 (List.replicate 28 97) 0).1 1
        (List.replicate 28 97) 1
      = ((CreateFile (FormatDisk ⟨[], []⟩ 0 0).1 1 (List.replicate 28 97) 0).1, .panic) ∧
    CreateDirectory (CreateFile (FormatDisk ⟨[], []⟩ 0 0).1 1 (List.replicate 28 97) 0).1 1
        (List.replicate 28 97) 1 2 3
      = ((CreateFile (FormatDisk ⟨[], []⟩ 0 0).1 1 (List.replicate 28 97) 0).1, .panic) := by
  decide

/-! ## Slots of a directory block -/

theorem copyAt_getElem?_lt (blk : List Nat) (off : Nat) (bytes : List Nat) (i : Nat)
    (h : off + bytes.length ≤ blk.length) (hi : i < off) :
    (copyAt blk off bytes)[i]? = blk[i]? := by
  rw [copyAt_eq blk off bytes h, List.append_assoc,
    List.getElem?_append_left (by rw [List.length_take]; omega), List.getElem?_take_of_lt hi]

theorem copyAt_getElem?_ge (blk : List Nat) (off : Nat) (bytes : List Nat) (i : Nat)
    (h : off + bytes.length ≤ blk.length) (hi : off + bytes.length ≤ i) :
    (copyAt blk off bytes)[i]? = blk[i]? := by
  have hl : (blk.take off ++ bytes).length = off + bytes.length := by
    rw [List.length_append, List.length_take]; omega
  rw [copyAt_eq blk off bytes h, List.getElem?_append_right (by omega), hl, List.getElem?_drop]
  congr 1; omega

theorem slotData_getElem? (blk : List Nat) (off j : Nat) :
    (slotData blk off)[j]? = if j < DIRECTORY_ENTRY_SIZE then blk[off + j]? else none := by
  unfold slotData
  by_cases hj : j < DIRECTORY_ENTRY_SIZE
  · rw [if_pos hj, List.getElem?_take_of_lt hj, List.getElem?_drop]
  · rw [if_neg hj, List.getElem?_eq_none]
    rw [List.length_take]; omega

theorem slotData_copyAt_same (blk : List Nat) (off : Nat) (bytes : List Nat)
    (hb : bytes.length = DIRECTORY_ENTRY_SIZE) (h : off + DIRECTORY_ENTRY_SIZE ≤ blk.length) :
    slotData (copyAt blk off bytes) off = bytes := by
  rw [copyAt_eq blk off bytes (by omega)]
  have := slotData_append (blk.take off) bytes (blk.drop (off + bytes.length)) hb
  rw [List.length_take, Nat.min_eq_left (by omega)] at this
  exact this

theorem slotData_copyAt_other (blk : List Nat) (off off2 : Nat) (bytes : List Nat)
    (hb : bytes.length = DIRECTORY_ENTRY_SIZE) (h : off + DIRECTORY_ENTRY_SIZE ≤ blk.length)
    (hsep : off2 + DIRECTORY_ENTRY_SIZE ≤ off ∨ off + DIRECTORY_ENTRY_SIZE ≤ off2) :
    slotData (copyAt blk off bytes) off2 = slotData blk off2 := by
  apply List.ext_getElem?
  intro j
  rw [slotData_getElem?, slotData_getElem?]
  by_cases hj : j < DIRECTORY_ENTRY_SIZE
  · rw [if_pos hj, if_pos hj]
    rcases hsep with hs | hs
    · exact copyAt_getElem?_lt blk off bytes _ (by omega) (by omega)
    · exact copyAt_getElem?_ge blk off bytes _ (by omega) (by omega)
  · rw [if_neg hj, if_neg hj]

/-- Distinct slot offsets are at least one entry apart, and every slot lies inside the block. -/
theorem slotOffsets_sep : ∀ a ∈ slotOffsets, ∀ b ∈ slotOffsets,
    a + DIRECTORY_ENTRY_SIZE ≤ BLOCK_SIZE ∧
    (a = b ∨ a + DIRECTORY_ENTRY_SIZE ≤ b ∨ b + DIRECTORY_ENTRY_SIZE ≤ a) := by decide

theorem scanSlots_append (blk : List Nat) (a b : List Nat) :
    scanSlots blk (a ++ b) = scanSlots blk a ++ scanSlots blk b := by
  induction a with
  | nil => rfl
  | cons o a ih =>
    show scanSlots blk (o :: (a ++ b)) = _
    simp only [scanSlots, ih]
    split
    · rfl
    · split <;> simp

theorem scanSlots_congr (blk blk2 : List Nat) (offs : List Nat)
    (h : ∀ o ∈ offs, slotData blk2 o = slotData blk o) :
    scanSlots blk2 offs = scanSlots blk offs := by
  induction offs with
  | nil => rfl
  | cons o offs ih =>
    simp only [scanSlots]
    rw [h o (List.mem_cons_self _ _), ih (fun x hx => h x (List.mem_cons_of_mem _ hx))]

theorem firstFreeSlot_some (blk : List Nat) (offs : List Nat) (off : Nat)
    (h : firstFreeSlot blk offs = some off) :
    ∃ pre post, offs = pre ++ off :: post ∧ (slotData blk off).getD 0 0 = 0 ∧
      off ∉ pre ∧ ∀ o ∈ pre, (slotData blk o).getD 0 0 ≠ 0 := by
  induction offs with
  | nil => simp [firstFreeSlot] at h
  | cons o offs ih =>
    unfold firstFreeSlot at h
    by_cases hz : (slotData blk o).getD 0 0 = 0
    · rw [if_pos hz] at h
      cases h
      exact ⟨[], offs, rfl, hz, by simp, by simp⟩
    · rw [if_neg hz] at h
      obtain ⟨pre, post, he, h0, hnm, hpre⟩ := ih h
      refine ⟨o :: pre, post, by rw [he]; rfl, h0, ?_, ?_⟩
      · intro hm
        rcases List.mem_cons.1 hm with rfl | hm
        · exact hz h0
        · exact hnm hm
      · intro x hx
        rcases List.mem_cons.1 hx with rfl | hx
        · exact hz
        · exact hpre x hx

theorem firstFreeSlot_none (blk : List Nat) (offs : List Nat)
    (h : firstFreeSlot blk offs = none) : ∀ o ∈ offs, (slotData blk o).getD 0 0 ≠ 0 := by
  induction offs with
  | nil => simp
  | cons o offs ih =>
    unfold firstFreeSlot at h
    by_cases hz : (slotData blk o).getD 0 0 = 0
    · rw [if_pos hz] at h; cases h
    · rw [if_neg hz] at h
      intro x hx
      rcases List.mem_cons.1 hx with rfl | hx
      · exact hz
      · exact ih h x hx

/-- Writing an entry into the first free slot of a block adds that entry to the listing of the
block and leaves the other listed entries in place. -/
theorem scanSlots_insert (blk bytes : List Nat) (off : Nat) (e2 : DirectoryEntry)
    (hblk : blk.length = BLOCK_SIZE) (hb : bytes.length = DIRECTORY_ENTRY_SIZE)
    (hhead : bytes.getD 0 0 ≠ 0) (hd : DeserializeEntry bytes = .ok e2)
    (hf : firstFreeSlot blk slotOffsets = some off) :
    ∃ l1 l2, scanSlots blk slotOffsets = l1 ++ l2 ∧
      scanSlots (copyAt blk off bytes) slotOffsets = l1 ++ e2 :: l2 := by
  obtain ⟨pre, post, he, h0, hnm, _⟩ := firstFreeSlot_some blk slotOffsets off hf
  have hmem : off ∈ slotOffsets := by rw [he]; simp
  have hin := (slotOffsets_sep off hmem off hmem).1
  have hnd : slotOffsets.Nodup := by decide
  rw [he] at hnd
  have hnpost : off ∉ post := by
    have := List.nodup_append.1 hnd
    exact (List.nodup_cons.1 this.2.1).1
  have hother : ∀ o ∈ slotOffsets, o ≠ off →
      slotData (copyAt blk off bytes) o = slotData blk o := by
    intro o ho hne
    have := (slotOffsets_sep o ho off hmem).2
    apply slotData_copyAt_other blk off o bytes hb (by rw [hblk]; exact hin)
    rcases this with h | h | h
    · exact absurd h hne
    · exact Or.inl h
    · exact Or.inr h
  have hpre : scanSlots (copyAt blk off bytes) pre = scanSlots blk pre :=
    scanSlots_congr _ _ _ (fun o ho => hother o (by rw [he]; simp [ho])
      (fun h => hnm (h ▸ ho)))
  have hpost : scanSlots (copyAt blk off bytes) post = scanSlots blk post :=
    scanSlots_congr _ _ _ (fun o ho => hother o (by rw [he]; simp [ho])
      (fun h => hnpost (h ▸ ho)))
  refine ⟨scanSlots blk pre, scanSlots blk post, ?_, ?_⟩
  · rw [he, scanSlots_append]
    congr 1
    simp only [scanSlots]
    rw [if_pos h0]
  · rw [he, scanSlots_append, hpre]
    congr 1
    simp only [scanSlots]
    rw [slotData_copyAt_same blk off bytes hb (by rw [hblk]; exact hin), if_neg hhead, hd,
      hpost]

/-! ## Walks along the FAT -/

theorem endsWalk_iff (b : Int) :
    endsWalk b ↔ ((b = FAT_EOF ∨ b = FAT_FREE) ∨ (b < 0 ∨ b ≥ (TOTAL_BLOCKS : Int))) := by
  unfold endsWalk; tauto

theorem not_endsWalk (b : Int) (h : ¬ endsWalk b) :
    ¬ (b = FAT_EOF ∨ b = FAT_FREE) ∧ ¬ (b < 0 ∨ b ≥ (TOTAL_BLOCKS : Int)) ∧
    0 ≤ b ∧ b < (TOTAL_BLOCKS : Int) := by
  rw [endsWalk_iff] at h
  push_neg at h
  refine ⟨by tauto, by omega, by omega, by omega⟩

theorem inRange_not_endsWalk (b : Int) (h0 : 0 ≤ b) (h1 : b < (TOTAL_BLOCKS : Int)) :
    ¬ endsWalk b := by
  unfold endsWalk FAT_EOF FAT_FREE; omega

theorem listLoop_step (s : FSState) (fuel : Nat) (cur : Int) (h : ¬ endsWalk cur) :
    listLoop s (fuel + 1) cur =
      match listLoop s fuel (fatAt s cur) with
      | .ok rest => .ok (scanSlots (blockAt s cur) slotOffsets ++ rest)
      | r => r := by
  obtain ⟨h1, h2, _, _⟩ := not_endsWalk cur h
  rw [listLoop, if_neg h1, if_neg h2]

theorem listLoop_step_ok (s : FSState) (fuel : Nat) (cur : Int) (h : ¬ endsWalk cur)
    (r : List DirectoryEntry) (hr : listLoop s (fuel + 1) cur = .ok r) :
    ∃ rest, listLoop s fuel (fatAt s cur) = .ok rest ∧
      r = scanSlots (blockAt s cur) slotOffsets ++ rest := by
  rw [listLoop_step s fuel cur h] at hr
  cases hl : listLoop s fuel (fatAt s cur) with
  | ok rest => rw [hl] at hr; simp at hr; exact ⟨rest, rfl, hr.symm⟩
  | err e => rw [hl] at hr; simp at hr
  | panic => rw [hl] at hr; simp at hr
  | diverge => rw [hl] at hr; simp at hr

theorem listLoop_ok_endsIn (s : FSState) (fuel : Nat) (cur : Int) (r : List DirectoryEntry)
    (h : listLoop s fuel cur = .ok r) : ∃ k, k < fuel ∧ endsIn s k cur := by
  induction fuel generalizing cur r with
  | zero => simp [listLoop] at h
  | succ fuel ih =>
    by_cases ht : endsWalk cur
    · exact ⟨0, by omega, ht⟩
    · obtain ⟨rest, hrest, _⟩ := listLoop_step_ok s fuel cur ht r h
      obtain ⟨k, hk, he⟩ := ih _ _ hrest
      exact ⟨k + 1, by omega, ht, he⟩

theorem endsIn_unique (s : FSState) (k j : Nat) (cur : Int) (h1 : endsIn s k cur)
    (h2 : endsIn s j cur) : k = j := by
  induction k generalizing j cur with
  | zero =>
    cases j with
    | zero => rfl
    | succ j => exact absurd h1 h2.1
  | succ k ih =>
    cases j with
    | zero => exact absurd h2 h1.1
    | succ j => rw [ih j _ h1.2 h2.2]

theorem chainOf_mem_endsIn (s : FSState) (fuel k : Nat) (cur y : Int) (h : endsIn s k cur)
    (hy : y ∈ chainOf s fuel cur) : ∃ j, 0 < j ∧ j ≤ k ∧ endsIn s j y := by
  induction fuel generalizing k cur with
  | zero => simp [chainOf] at hy
  | succ fuel ih =>
    unfold chainOf at hy
    by_cases ht : endsWalk cur
    · rw [if_pos ht] at hy; cases hy
    · rw [if_neg ht] at hy
      cases k with
      | zero => exact absurd h ht
      | succ k =>
        rcases List.mem_cons.1 hy with rfl | hy
        · exact ⟨k + 1, by omega, le_refl _, h⟩
        · obtain ⟨j, hj0, hjk, hj⟩ := ih k _ h.2 hy
          exact ⟨j, hj0, by omega, hj⟩

/-- A walk that ends does not come back to the block it started from. -/
theorem not_mem_chainOf_next (s : FSState) (k fuel : Nat) (cur : Int)
    (h : endsIn s (k + 1) cur) : cur ∉ chainOf s fuel (fatAt s cur) := by
  intro hm
  obtain ⟨j, _, hjk, hj⟩ := chainOf_mem_endsIn s fuel k _ cur h.2 hm
  have := endsIn_unique s _ _ cur h hj
  omega

theorem chainOf_mem_not_endsWalk (s : FSState) (fuel : Nat) (cur y : Int)
    (hy : y ∈ chainOf s fuel cur) : ¬ endsWalk y := by
  induction fuel generalizing cur with
  | zero => simp [chainOf] at hy
  | succ fuel ih =>
    unfold chainOf at hy
    by_cases ht : endsWalk cur
    · rw [if_pos ht] at hy; cases hy
    · rw [if_neg ht] at hy
      rcases List.mem_cons.1 hy with rfl | hy
      · exact ht
      · exact ih _ hy

theorem chainOf_setBlock (s : FSState) (q : Int) (blk : List Nat) (fuel : Nat) (cur : Int) :
    chainOf (setBlock s q blk) fuel cur = chainOf s fuel cur := by
  induction fuel generalizing cur with
  | zero => rfl
  | succ fuel ih => simp only [chainOf, fatAt_setBlock, ih]

/-- The listing of a chain does not depend on blocks outside the chain. -/
theorem listLoop_setBlock_frame (s : FSState) (q : Int) (blk : List Nat) (fuel : Nat)
    (cur : Int) (hq : 0 ≤ q) (h : q ∉ chainOf s fuel cur) :
    listLoop (setBlock s q blk) fuel cur = listLoop s fuel cur := by
  induction fuel generalizing cur with
  | zero => rfl
  | succ fuel ih =>
    by_cases ht : endsWalk cur
    · rw [endsWalk_iff] at ht
      unfold listLoop
      rcases ht with ht | ht
      · rw [if_pos ht, if_pos ht]
      · by_cases h1 : cur = FAT_EOF ∨ cur = FAT_FREE
        · rw [if_pos h1, if_pos h1]
        · rw [if_neg h1, if_neg h1, if_pos ht, if_pos ht]
    · unfold chainOf at h
      rw [if_neg ht] at h
      have hne : q ≠ cur := fun e => h (e ▸ List.mem_cons_self _ _)
      have hnm : q ∉ chainOf s fuel (fatAt s cur) := fun e => h (List.mem_cons_of_mem _ e)
      rw [listLoop_step _ _ _ ht, listLoop_step _ _ _ ht, fatAt_setBlock, ih _ hnm,
        blockAt_setBlock_ne _ _ _ _ (toNat_ne hq (not_endsWalk cur ht).2.2.1 hne)]

/-- Turning a free FAT entry into `FAT_EOF` does not change any listing. -/
theorem listLoop_setFat_alloc (s : FSState) (b : Int) (fuel : Nat) (cur : Int)
    (hb0 : 0 ≤ b) (hb1 : b.toNat < s.FAT.length) (hfree : fatAt s b = FAT_FREE) :
    listLoop (setFat s b FAT_EOF) fuel cur = listLoop s fuel cur := by
  induction fuel generalizing cur with
  | zero => rfl
  | succ fuel ih =>
    by_cases ht : endsWalk cur
    · rw [endsWalk_iff] at ht
      unfold listLoop
      rcases ht with ht | ht
      · rw [if_pos ht, if_pos ht]
      · by_cases h1 : cur = FAT_EOF ∨ cur = FAT_FREE
        · rw [if_pos h1, if_pos h1]
        · rw [if_neg h1, if_neg h1, if_pos ht, if_pos ht]
    · rw [listLoop_step _ _ _ ht, listLoop_step _ _ _ ht, blockAt_setFat]
      by_cases hc : cur = b
      · subst hc
        rw [fatAt_setFat_self _ _ _ hb1, hfree]
        cases fuel with
        | zero => rfl
        | succ fuel =>
          rw [listLoop, listLoop, if_pos (Or.inl rfl), if_pos (Or.inr rfl)]
      · rw [fatAt_setFat_ne _ _ _ _ (toNat_ne hb0 (not_endsWalk cur ht).2.2.1 (Ne.symm hc)),
          ih]

/-! ## findFreeBlock -/

theorem find?_range_some (p : Nat → Bool) (n i : Nat)
    (h : (List.range n).find? p = some i) : i < n ∧ p i = true ∧ ∀ j, j < i → p j = false := by
  induction n with
  | zero => simp at h
  | succ n ih =>
    rw [List.range_succ, List.find?_append] at h
    cases hf : (List.range n).find? p with
    | some a =>
      rw [hf] at h
      simp only [Option.or] at h
      cases h
      obtain ⟨h1, h2, h3⟩ := ih hf
      exact ⟨by omega, h2, h3⟩
    | none =>
      rw [hf] at h
      simp only [Option.or, List.find?_cons, List.find?_nil] at h
      by_cases hp : p n = true
      · rw [hp] at h
        cases h
        refine ⟨by omega, hp, ?_⟩
        intro j hj
        have := List.find?_eq_none.1 hf j (List.mem_range.2 hj)
        simpa using this
      · simp only [Bool.not_eq_true] at hp
        rw [hp] at h
        cases h

theorem find?_range_none (p : Nat → Bool) (n : Nat) (h : (List.range n).find? p = none) :
    ∀ j, j < n → p j = false := by
  intro j hj
  have := List.find?_eq_none.1 h j (List.mem_range.2 hj)
  simpa using this

/-- `findFreeBlock` returns the smallest free index. -/
theorem findFreeBlock_ok (s : FSState) (b : Int) (h : findFreeBlock s = .ok b) :
    0 ≤ b ∧ b < (TOTAL_BLOCKS : Int) ∧ fatAt s b = FAT_FREE ∧
    ∀ i : Nat, (i : Int) < b → fatAt s (i : Int) ≠ FAT_FREE := by
  unfold findFreeBlock at h
  cases hf : (List.range TOTAL_BLOCKS).find? (fun (i : Nat) => decide (fatAt s (i : Int) = FAT_FREE)) with
  | none => rw [hf] at h; simp at h
  | some i =>
    rw [hf] at h
    simp only [Res.ok.injEq] at h
    subst h
    obtain ⟨h1, h2, h3⟩ := find?_range_some _ _ _ hf
    refine ⟨by omega, by omega, by simpa using h2, ?_⟩
    intro j hj
    have := h3 j (by omega)
    simpa using this

theorem findFreeBlock_cases (s : FSState) :
    (∃ b, findFreeBlock s = .ok b) ∨ findFreeBlock s = .err .diskFull := by
  unfold findFreeBlock
  cases (List.range TOTAL_BLOCKS).find? (fun (i : Nat) => decide (fatAt s (i : Int) = FAT_FREE)) with
  | none => exact Or.inr rfl
  | some i => exact Or.inl ⟨_, rfl⟩

/-! ## addEntryToDirectory -/

theorem addLoop_FAT (s : FSState) (e : DirectoryEntry) (bytes : List Nat) (fuel : Nat)
    (cur : Int) : (addLoop s e bytes fuel cur).1.FAT = s.FAT := by
  induction fuel generalizing cur with
  | zero => rfl
  | succ fuel ih =>
    unfold addLoop
    split
    · rfl
    · split
      · rfl
      · split
        · split <;> rfl
        · dsimp only
          split
          · rfl
          · exact ih _

theorem addLoop_ok_inv (s s2 : FSState) (e : DirectoryEntry) (bytes : List Nat) (fuel : Nat)
    (cur : Int) (h : addLoop s e bytes (fuel + 1) cur = (s2, .ok ())) :
    ¬ endsWalk cur ∧
    ((∃ off, firstFreeSlot (blockAt s cur) slotOffsets = some off ∧
        s2 = setBlock s cur (copyAt (blockAt s cur) off bytes)) ∨
      (firstFreeSlot (blockAt s cur) slotOffsets = none ∧ fatAt s cur ≠ FAT_EOF ∧
        addLoop s e bytes fuel (fatAt s cur) = (s2, .ok ()))) := by
  unfold addLoop at h
  split at h
  · simp at h
  split at h
  · simp at h
  rename_i h1 h2
  refine ⟨by rw [endsWalk_iff]; tauto, ?_⟩
  split at h
  · rename_i off hoff
    left
    refine ⟨off, hoff, ?_⟩
    dsimp only at h
    split at h
    · simp at h
    · simp only [Prod.mk.injEq, and_true] at h; exact h.symm
  · rename_i hnone
    right
    dsimp only at h
    split at h
    · simp at h
    · rename_i hne
      exact ⟨hnone, hne, h⟩

/-- Where a successful `addEntryToDirectory` loop has written and what the listing of the
chain shows afterwards. -/
theorem listLoop_after_add (s : FSState) (hwf : s.WF) (e e2 : DirectoryEntry)
    (bytes : List Nat) (hb : bytes.length = DIRECTORY_ENTRY_SIZE) (hhead : bytes.getD 0 0 ≠ 0)
    (hd : DeserializeEntry bytes = .ok e2) (fuel : Nat) (cur : Int) (old : List DirectoryEntry)
    (s2 : FSState) (hl : listLoop s fuel cur = .ok old)
    (ha : addLoop s e bytes fuel cur = (s2, .ok ())) :
    (∃ q off, ¬ endsWalk q ∧ q ∈ chainOf s fuel cur ∧
      firstFreeSlot (blockAt s q) slotOffsets = some off ∧
      s2 = setBlock s q (copyAt (blockAt s q) off bytes)) ∧
    ∃ l1 l2, old = l1 ++ l2 ∧ listLoop s2 fuel cur = .ok (l1 ++ e2 :: l2) := by
  induction fuel generalizing cur old with
  | zero => simp [listLoop] at hl
  | succ fuel ih =>
    obtain ⟨ht, hcase⟩ := addLoop_ok_inv s s2 e bytes fuel cur ha
    obtain ⟨hr0, hr1, hc0, hc1⟩ := not_endsWalk cur ht
    obtain ⟨rest, hrest, hold⟩ := listLoop_step_ok s fuel cur ht old hl
    have hlen : cur.toNat < s.Disk.length := by rw [hwf.1]; omega
    rcases hcase with ⟨off, hoff, hs2⟩ | ⟨hnone, _, hrec⟩
    · obtain ⟨k, _, hk⟩ := listLoop_ok_endsIn s _ cur old hl
      cases k with
      | zero => exact absurd hk ht
      | succ k =>
        have hnm := not_mem_chainOf_next s k fuel cur hk
        obtain ⟨l1, l2, hsc, hsc2⟩ := scanSlots_insert (blockAt s cur) bytes off e2
          (blockAt_length s hwf cur hc0 hc1) hb hhead hd hoff
        refine ⟨⟨cur, off, ht, ?_, hoff, hs2⟩, l1, l2 ++ rest, ?_, ?_⟩
        · unfold chainOf; rw [if_neg ht]; exact List.mem_cons_self _ _
        · rw [hold, hsc, List.append_assoc]
        · have ht2 : ¬ endsWalk cur := ht
          rw [listLoop_step _ _ _ ht2, hs2, fatAt_setBlock,
            listLoop_setBlock_frame s cur _ fuel _ hc0 hnm, hrest,
            blockAt_setBlock_self _ _ _ hlen, hsc2]
          simp
    · obtain ⟨⟨q, off, hqt, hqm, hqf, hs2⟩, l1, l2, hl12, hl2⟩ := ih _ rest hrest hrec
      have hq0 := (not_endsWalk q hqt).2.2.1
      have hne : q ≠ cur := by
        intro heq
        rw [heq, hnone] at hqf
        cases hqf
      refine ⟨⟨q, off, hqt, ?_, hqf, hs2⟩, scanSlots (blockAt s cur) slotOffsets ++ l1, l2, ?_,
        ?_⟩
      · unfold chainOf; rw [if_neg ht]; exact List.mem_cons_of_mem _ hqm
      · rw [hold, hl12, List.append_assoc]
      · rw [listLoop_step _ _ _ ht]
        have hf : fatAt s2 cur = fatAt s cur := by rw [hs2]; rfl
        have hbk : blockAt s2 cur = blockAt s cur := by
          rw [hs2]; exact blockAt_setBlock_ne _ _ _ _ (toNat_ne hq0 hc0 hne)
        rw [hf, hl2, hbk]
        simp

theorem mkName_eq (n : List Nat) (h : n.length ≤ MAX_FILENAME_LEN) :
    mkName n = n ++ List.replicate (MAX_FILENAME_LEN - n.length) 0 := by
  unfold mkName copy
  rw [List.length_replicate, List.take_of_length_le h, List.drop_replicate]

theorem takeWhile_append_zero (n rest : List Nat) (hz : 0 ∉ n) :
    (n ++ 0 :: rest).takeWhile (fun b => b ≠ 0) = n := by
  induction n with
  | nil => simp
  | cons a l ih =>
    have ha : a ≠ 0 := fun h => hz (h ▸ List.mem_cons_self _ _)
    have hl : 0 ∉ l := fun h => hz (List.mem_cons_of_mem _ h)
    have := ih hl
    simp only [List.cons_append, List.takeWhile_cons, ne_eq, ha, not_false_eq_true,
      decide_True, ite_true]
    rw [this]

/-- A name shorter than 28 bytes without a zero byte is read back from the name array. -/
theorem nameOf_mkName (n : List Nat) (h : n.length < MAX_FILENAME_LEN) (hz : 0 ∉ n) :
    nameOf (mkName n) = some n := by
  rw [mkName_eq n (le_of_lt h)]
  obtain ⟨k, hk⟩ : ∃ k, MAX_FILENAME_LEN - n.length = k + 1 := ⟨MAX_FILENAME_LEN - n.length - 1, by omega⟩
  rw [hk, List.replicate_succ]
  unfold nameOf
  rw [if_pos (by simp), takeWhile_append_zero n _ hz]

theorem mkName_head (n : List Nat) (h0 : n.length ≠ 0) (h : n.length ≤ MAX_FILENAME_LEN)
    (hz : 0 ∉ n) : (mkName n).getD 0 0 ≠ 0 := by
  rw [mkName_eq n h]
  cases n with
  | nil => simp at h0
  | cons a l =>
    simp only [List.cons_append, List.getD_cons_zero]
    exact fun h => hz (h ▸ List.mem_cons_self _ _)

theorem addEntry_ok_inv (s s2 : FSState) (p : Int) (e : DirectoryEntry)
    (hn : e.Name.length = MAX_FILENAME_LEN)
    (h : addEntryToDirectory s p e = (s2, .ok ())) :
    0 ≤ p ∧ p < (TOTAL_BLOCKS : Int) ∧ fatAt s p ≠ FAT_FREE ∧
    addLoop s e (entryBytes e) walkFuel p = (s2, .ok ()) := by
  unfold addEntryToDirectory at h
  split at h
  · simp at h
  rename_i hp
  rw [serialize_eq e hn] at h
  dsimp only at h
  rw [if_neg (by rw [entryBytes_length e hn]; decide)] at h
  push_neg at hp
  exact ⟨by omega, by omega, hp.2.2, h⟩

theorem listEntries_inRange (s : FSState) (p : Int) (h0 : 0 ≤ p)
    (h1 : p < (TOTAL_BLOCKS : Int)) : ListEntries s p = listLoop s walkFuel p := by
  unfold ListEntries
  rw [if_neg (by unfold FAT_FREE; omega), if_neg (by omega)]

/-- The entry a directory block shows for the 49 bytes of a file entry whose start block is a
block of the disk. -/
theorem deserialize_new_entry (name : List Nat) (ty b size now : Int)
    (hn : name.length = MAX_FILENAME_LEN) (hty : 0 ≤ ty ∧ ty < 128)
    (hb : 0 ≤ b ∧ b < (TOTAL_BLOCKS : Int)) (hs : 0 ≤ size ∧ size < 256) :
    DeserializeEntry (entryBytes ⟨name, ty, b, size, now⟩)
      = .ok ⟨name, ty, b, size, toSigned 8 (toUnsigned 8 now)⟩ := by
  rw [deserialize_entryBytes _ hn]
  simp only [TOTAL_BLOCKS] at hb
  dsimp only
  rw [toSigned_toUnsigned_1 _ (by omega), toSigned_toUnsigned_4 _ (by omega),
    toSigned_toUnsigned_8 _ (by omega)]

/-- C8: when `CreateFile(p, n)` succeeds for a name of 1..27 bytes without zero byte, the block
`b` it allocated is the smallest index that was free, the FAT afterwards is the FAT before with
`FAT[b] = FAT_EOF`, and the listing of `p` is the previous listing with exactly one entry
added: name `n`, type file, `StartBlock = b`, `Size = 0` (`ModTime` is the clock reading as an
`int64`). -/
theorem C8_create_file_effect (s s2 : FSState) (p : Int) (n : List Nat) (now : Int)
    (hwf : s.WF) (hlen : 1 ≤ n.length ∧ n.length ≤ 27) (hz : 0 ∉ n)
    (h : CreateFile s p n now = (s2, .ok ())) :
    ∃ b : Int, 0 ≤ b ∧ b < (TOTAL_BLOCKS : Int) ∧ fatAt s b = FAT_FREE ∧
      (∀ i : Nat, (i : Int) < b → fatAt s (i : Int) ≠ FAT_FREE) ∧
      s2.FAT = s.FAT.set b.toNat FAT_EOF ∧
      nameOf (mkName n) = some n ∧
      ∃ l1 l2, ListEntries s p = .ok (l1 ++ l2) ∧
        ListEntries s2 p = .ok (l1 ++
          { Name := mkName n, EntryType := TYPE_FILE, StartBlock := b, Size := 0,
            ModTime := toSigned 8 (toUnsigned 8 now) } :: l2) := by
  obtain ⟨h0, h1, entries, b, hle, _, hfb, hadd⟩ := createFile_ok_inv s s2 p n now h
  obtain ⟨hb0, hb1, hbfree, hbmin⟩ := findFreeBlock_ok s b hfb
  obtain ⟨hp0, hp1, _, hloop⟩ := addEntry_ok_inv _ s2 p _ (mkName_length n) hadd
  have hwf1 : (setFat s b FAT_EOF).WF := WF_setFat s b FAT_EOF hwf
  have hbl : b.toNat < s.FAT.length := by rw [hwf.2.2]; omega
  have hfat : s2.FAT = s.FAT.set b.toNat FAT_EOF := by
    have := addLoop_FAT (setFat s b FAT_EOF) ⟨mkName n, TYPE_FILE, b, 0, now⟩
      (entryBytes ⟨mkName n, TYPE_FILE, b, 0, now⟩) walkFuel p
    rw [hloop] at this
    exact this
  rw [listEntries_inRange s p hp0 hp1] at hle
  have hl1 : listLoop (setFat s b FAT_EOF) walkFuel p = .ok entries := by
    rw [listLoop_setFat_alloc s b walkFuel p hb0 hbl hbfree]; exact hle
  have hhead : (entryBytes ⟨mkName n, TYPE_FILE, b, 0, now⟩).getD 0 0 ≠ 0 := by
    rw [entryBytes_head _ (by
      intro hnil
      have := mkName_length n
      rw [show (DirectoryEntry.mk (mkName n) TYPE_FILE b 0 now).Name = mkName n from rfl] at hnil
      rw [hnil] at this
      exact absurd this (by decide))]
    exact mkName_head n h0 h1 hz
  obtain ⟨_, l1, l2, hold, hnew⟩ := listLoop_after_add (setFat s b FAT_EOF) hwf1
    ⟨mkName n, TYPE_FILE, b, 0, now⟩ _ _ (entryBytes_length _ (mkName_length n)) hhead
    (deserialize_new_entry (mkName n) TYPE_FILE b 0 now (mkName_length n) (by decide)
      ⟨hb0, hb1⟩ (by decide)) walkFuel p entries s2 hl1 hloop
  refine ⟨b, hb0, hb1, hbfree, hbmin, hfat,
    nameOf_mkName n (by unfold MAX_FILENAME_LEN; omega) hz, l1, l2, ?_, ?_⟩
  · rw [listEntries_inRange s p hp0 hp1, hle, hold]
  · rw [listEntries_inRange s2 p hp0 hp1, hnew]

set_option maxRecDepth 1000000 in
/-- C8 on the formatted disk: creating "a" in the root. -/
theorem C8_create_file_effect_witness :
    (FormatDisk ⟨[], []⟩ 0 0).1.WF ∧ (1 ≤ [97].length ∧ [97].length ≤ 27) ∧ 0 ∉ [97] ∧
    (CreateFile (FormatDisk ⟨[], []⟩ 0 0).1 1 [97] 7).2 = .ok () ∧
    ∃ b : Int, 0 ≤ b ∧ b < (TOTAL_BLOCKS : Int) ∧
      fatAt (FormatDisk ⟨[], []⟩ 0 0).1 b = FAT_FREE ∧
      (∀ i : Nat, (i : Int) < b → fatAt (FormatDisk ⟨[], []⟩ 0 0).1 (i : Int) ≠ FAT_FREE) ∧
      (CreateFile (FormatDisk ⟨[], []⟩ 0 0).1 1 [97] 7).1.FAT
        = (FormatDisk ⟨[], []⟩ 0 0).1.FAT.set b.toNat FAT_EOF ∧
      nameOf (mkName [97]) = some [97] ∧
      ∃ l1 l2, ListEntries (FormatDisk ⟨[], []⟩ 0 0).1 1 = .ok (l1 ++ l2) ∧
        ListEntries (CreateFile (FormatDisk ⟨[], []⟩ 0 0).1 1 [97] 7).1 1 = .ok (l1 ++
          { Name := mkName [97], EntryType := TYPE_FILE, StartBlock := b, Size := 0,
            ModTime := toSigned 8 (toUnsigned 8 7) } :: l2) :=
  ⟨by decide, by decide, by decide, by decide,
    C8_create_file_effect (FormatDisk ⟨[], []⟩ 0 0).1 _ 1 [97] 7 (by decide) (by decide)
      (by decide) (Prod.ext rfl (by decide))⟩

/-! ## CreateDirectory -/

theorem zeroFill_eq (X : List Nat) (lo hi : Nat) (h : X.length = hi) :
    zeroFill X lo hi = X.take lo ++ List.replicate (hi - lo) 0 := by
  unfold zeroFill
  rw [List.drop_of_length_le (by omega), List.append_nil]

theorem newDirBlock_length (b p t1 t2 : Int) : (newDirBlock b p t1 t2).length = BLOCK_SIZE := by
  unfold newDirBlock
  rw [List.length_append, List.length_append, entryBytes_length _ (mkName_length _),
    entryBytes_length _ (mkName_length _), List.length_replicate]
  rfl

/-- The state in which `CreateDirectory` calls `addEntryToDirectory`. -/
theorem createDirectory_prepared (s : FSState) (hwf : s.WF) (b p t1 t2 : Int) (hb0 : 0 ≤ b)
    (hb1 : b < (TOTAL_BLOCKS : Int)) :
    (let s1 := setFat s b FAT_EOF
     let dotBytes := bytesOrNil
       (DirectoryEntry.Serialize ⟨mkName [46], TYPE_DIRECTORY, b, 2 * DIRECTORY_ENTRY_SIZE, t1⟩)
     let dotDotBytes := bytesOrNil
       (DirectoryEntry.Serialize ⟨mkName [46, 46], TYPE_DIRECTORY, p, 0, t2⟩)
     let s2 := setBlock s1 b (copyAt (blockAt s1 b) 0 dotBytes)
     let offset := 0 + dotBytes.length
     let s3 := setBlock s2 b (copyAt (blockAt s2 b) offset dotDotBytes)
     let offset2 := offset + dotDotBytes.length
     if offset2 < BLOCK_SIZE then
       setBlock s3 b (zeroFill (blockAt s3 b) offset2 BLOCK_SIZE)
     else s3) = setBlock (setFat s b FAT_EOF) b (newDirBlock b p t1 t2) := by
  have hlen : b.toNat < s.Disk.length := by rw [hwf.1]; omega
  have hZ : (blockAt s b).length = 256 := blockAt_length s hwf b hb0 hb1
  have l1 := entryBytes_length ⟨mkName [46], TYPE_DIRECTORY, b, 2 * DIRECTORY_ENTRY_SIZE, t1⟩
    (mkName_length _)
  have l2 := entryBytes_length ⟨mkName [46, 46], TYPE_DIRECTORY, p, 0, t2⟩ (mkName_length _)
  have hd1 : bytesOrNil (DirectoryEntry.Serialize
      ⟨mkName [46], TYPE_DIRECTORY, b, 2 * DIRECTORY_ENTRY_SIZE, t1⟩) =
      entryBytes ⟨mkName [46], TYPE_DIRECTORY, b, 2 * DIRECTORY_ENTRY_SIZE, t1⟩ := by
    rw [serialize_eq _ (mkName_length _)]; rfl
  have hd2 : bytesOrNil (DirectoryEntry.Serialize ⟨mkName [46, 46], TYPE_DIRECTORY, p, 0, t2⟩) =
      entryBytes ⟨mkName [46, 46], TYPE_DIRECTORY, p, 0, t2⟩ := by
    rw [serialize_eq _ (mkName_length _)]; rfl
  simp only [hd1, hd2, l1, l2, Nat.zero_add]
  rw [if_pos (by decide)]
  have e1 : ∀ (st : FSState) (A : List Nat), b.toNat < st.Disk.length →
      blockAt (setBlock st b A) b = A := fun st A h => blockAt_setBlock_self st b A h
  have e2 : ∀ (st : FSState) (A B : List Nat),
      setBlock (setBlock st b A) b B = setBlock st b B := by
    intro st A B
    simp only [setBlock, List.set_set]
  rw [e1 _ _ (by simpa using hlen)]
  rw [e1 _ _ (by simpa [setBlock] using hlen)]
  rw [e2, e2, blockAt_setFat, two_entries_block _ _ _ hZ l1 l2]
  rw [zeroFill_eq _ _ _ (by
    rw [List.length_append, List.length_append, l1, l2, List.length_drop, hZ]; rfl)]
  congr 1

/-- What `CreateDirectory` has done when it returns success. -/
theorem createDirectory_ok_inv (s s2 : FSState) (hwf : s.WF) (p : Int) (n : List Nat)
    (t1 t2 t3 : Int) (h : CreateDirectory s p n t1 t2 t3 = (s2, .ok ())) :
    n.length ≠ 0 ∧ n.length ≤ MAX_FILENAME_LEN ∧
    ∃ entries b, ListEntries s p = .ok entries ∧ nameTaken n entries = .ok false ∧
      findFreeBlock s = .ok b ∧
      addEntryToDirectory (setBlock (setFat s b FAT_EOF) b (newDirBlock b p t1 t2)) p
        ⟨mkName n, TYPE_DIRECTORY, b, 2 * DIRECTORY_ENTRY_SIZE, t3⟩ = (s2, .ok ()) := by
  unfold CreateDirectory at h
  split at h
  · simp at h
  split at h
  · simp at h
  rename_i h0 h1
  refine ⟨h0, by omega, ?_⟩
  split at h
  · rename_i entries hl
    split at h
    · simp at h
    · rename_i ht
      split at h
      · rename_i b hb
        obtain ⟨hb0, hb1, _, _⟩ := findFreeBlock_ok s b hb
        refine ⟨entries, b, hl, ht, hb, ?_⟩
        have hprep := createDirectory_prepared s hwf b p t1 t2 hb0 hb1
        dsimp only at h hprep
        rw [hprep] at h
        generalize addEntryToDirectory (setBlock (setFat s b FAT_EOF) b (newDirBlock b p t1 t2))
          p ⟨mkName n, TYPE_DIRECTORY, b, 2 * DIRECTORY_ENTRY_SIZE, t3⟩ = r at h
        obtain ⟨s3, res⟩ := r
        cases res <;> simp_all
      · simp at h
    · simp at h
    · simp at h
    · simp at h
  · simp at h
  · simp at h
  · simp at h

/-- A name of 28 bytes without a zero byte is never created as a directory either. -/
theorem createDirectory_full_name_not_ok (s : FSState) (hwf : s.WF) (p : Int) (n : List Nat)
    (t1 t2 t3 : Int) (hl : n.length = MAX_FILENAME_LEN) (hz : 0 ∉ n) :
    (CreateDirectory s p n t1 t2 t3).2 ≠ .ok () := by
  have hn : nameOf (mkName n) = none := by rw [mkName_full n hl]; exact nameOf_none n hz
  intro h
  obtain ⟨_, _, entries, b, _, _, _, ha⟩ :=
    createDirectory_ok_inv s (CreateDirectory s p n t1 t2 t3).1 hwf p n t1 t2 t3
      (Prod.ext rfl h)
  exact addEntry_not_ok _ p _ hn (by rw [ha])

/-- A successful `addEntryToDirectory` loop has written the entry into the first free slot of
a block of the chain and nothing else. -/
theorem addLoop_ok_shape (s s2 : FSState) (e : DirectoryEntry) (bytes : List Nat) (fuel : Nat)
    (cur : Int) (ha : addLoop s e bytes fuel cur = (s2, .ok ())) :
    ∃ q off, q ∈ chainOf s fuel cur ∧ firstFreeSlot (blockAt s q) slotOffsets = some off ∧
      s2 = setBlock s q (copyAt (blockAt s q) off bytes) := by
  induction fuel generalizing cur with
  | zero => simp [addLoop] at ha
  | succ fuel ih =>
    obtain ⟨ht, hcase⟩ := addLoop_ok_inv s s2 e bytes fuel cur ha
    rcases hcase with ⟨off, hoff, hs2⟩ | ⟨_, _, hrec⟩
    · refine ⟨cur, off, ?_, hoff, hs2⟩
      unfold chainOf; rw [if_neg ht]; exact List.mem_cons_self _ _
    · obtain ⟨q, off, hq, hoff, hs2⟩ := ih _ hrec
      refine ⟨q, off, ?_, hoff, hs2⟩
      unfold chainOf; rw [if_neg ht]; exact List.mem_cons_of_mem _ hq

/-- The blocks of a chain are determined by the FAT entries of these blocks. -/
theorem chainOf_agree (s t : FSState) (fuel : Nat) (cur : Int)
    (h : ∀ y ∈ chainOf s fuel cur, fatAt t y = fatAt s y) :
    chainOf t fuel cur = chainOf s fuel cur := by
  induction fuel generalizing cur with
  | zero => rfl
  | succ fuel ih =>
    unfold chainOf at h ⊢
    by_cases ht : endsWalk cur
    · rw [if_pos ht, if_pos ht]
    · rw [if_neg ht] at h ⊢
      rw [if_neg ht, h cur (List.mem_cons_self _ _),
        ih _ (fun y hy => h y (List.mem_cons_of_mem _ hy))]

theorem setBlock_Disk_length (s : FSState) (b : Int) (blk : List Nat) :
    (setBlock s b blk).Disk.length = s.Disk.length := by
  simp only [setBlock, List.length_set]

theorem firstFreeSlot_mem (blk : List Nat) (offs : List Nat) (off : Nat)
    (h : firstFreeSlot blk offs = some off) : off ∈ offs := by
  obtain ⟨pre, post, he, _⟩ := firstFreeSlot_some blk offs off h
  rw [he]; simp

theorem WF_blockAt_lt (s : FSState) (hwf : s.WF) (b : Int) (h1 : b < (TOTAL_BLOCKS : Int)) :
    b.toNat < s.Disk.length := by
  rw [hwf.1]; unfold TOTAL_BLOCKS at *; omega

theorem WF_fatAt_lt (s : FSState) (hwf : s.WF) (b : Int) (h1 : b < (TOTAL_BLOCKS : Int)) :
    b.toNat < s.FAT.length := by
  rw [hwf.2.2]; unfold TOTAL_BLOCKS at *; omega

/-- The facts behind a successful `CreateDirectory` in a state where every block of the chain
of the parent is allocated. -/
theorem createDirectory_ok_facts (s s2 : FSState) (p : Int) (n : List Nat) (t1 t2 t3 : Int)
    (hwf : s.WF) (halloc : ∀ y ∈ chainOf s walkFuel p, fatAt s y ≠ FAT_FREE)
    (h : CreateDirectory s p n t1 t2 t3 = (s2, .ok ())) :
    ∃ (b : Int) (entries : List DirectoryEntry) (q : Int) (off : Nat),
      findFreeBlock s = .ok b ∧ ListEntries s p = .ok entries ∧
      nameTaken n entries = .ok false ∧ n.length ≠ 0 ∧ n.length ≤ MAX_FILENAME_LEN ∧
      0 ≤ p ∧ p < (TOTAL_BLOCKS : Int) ∧
      chainOf (setBlock (setFat s b FAT_EOF) b (newDirBlock b p t1 t2)) walkFuel p
        = chainOf s walkFuel p ∧
      q ∈ chainOf s walkFuel p ∧ q ≠ b ∧
      firstFreeSlot (blockAt s q) slotOffsets = some off ∧
      addLoop (setBlock (setFat s b FAT_EOF) b (newDirBlock b p t1 t2))
        ⟨mkName n, TYPE_DIRECTORY, b, 2 * DIRECTORY_ENTRY_SIZE, t3⟩
        (entryBytes ⟨mkName n, TYPE_DIRECTORY, b, 2 * DIRECTORY_ENTRY_SIZE, t3⟩) walkFuel p
        = (s2, .ok ()) ∧
      s2 = setBlock (setBlock (setFat s b FAT_EOF) b (newDirBlock b p t1 t2)) q
        (copyAt (blockAt s q) off
          (entryBytes ⟨mkName n, TYPE_DIRECTORY, b, 2 * DIRECTORY_ENTRY_SIZE, t3⟩)) ∧
      blockAt s2 b = newDirBlock b p t1 t2 ∧ fatAt s2 b = FAT_EOF ∧
      ListEntries s2 b = .ok
        [{ Name := mkName [46], EntryType := TYPE_DIRECTORY, StartBlock := b,
           Size := 2 * DIRECTORY_ENTRY_SIZE, ModTime := toSigned 8 (toUnsigned 8 t1) },
         { Name := mkName [46, 46], EntryType := TYPE_DIRECTORY, StartBlock := p,
           Size := 0, ModTime := toSigned 8 (toUnsigned 8 t2) }] := by
  obtain ⟨hn0, hn1, entries, b, hle, hnt, hfb, hadd⟩ :=
    createDirectory_ok_inv s s2 hwf p n t1 t2 t3 h
  obtain ⟨hb0, hb1, hbfree, _⟩ := findFreeBlock_ok s b hfb
  obtain ⟨hp0, hp1, _, hloop⟩ := addEntry_ok_inv _ s2 p _ (mkName_length n) hadd
  obtain ⟨q, off, hq, hoff, hs2⟩ := addLoop_ok_shape _ s2 _ _ _ _ hloop
  have hbl := WF_blockAt_lt s hwf b hb1
  have hfl := WF_fatAt_lt s hwf b hb1
  have hchain : chainOf (setBlock (setFat s b FAT_EOF) b (newDirBlock b p t1 t2)) walkFuel p
      = chainOf s walkFuel p := by
    apply chainOf_agree
    intro y hy
    have hyt := (not_endsWalk y (chainOf_mem_not_endsWalk s _ _ y hy)).2.2.1
    have hne : b ≠ y := fun e => halloc y hy (e ▸ hbfree)
    rw [fatAt_setBlock, fatAt_setFat_ne _ _ _ _ (toNat_ne hb0 hyt hne)]
  rw [hchain] at hq
  have hqt := not_endsWalk q (chainOf_mem_not_endsWalk s _ _ q hq)
  have hqb : q ≠ b := fun e => halloc q hq (e ▸ hbfree)
  have hblock : blockAt s2 b = newDirBlock b p t1 t2 := by
    rw [hs2, blockAt_setBlock_ne _ _ _ _ (toNat_ne hqt.2.2.1 hb0 hqb)]
    exact blockAt_setBlock_self _ _ _ (by rw [setFat_Disk]; exact hbl)
  have hfat : fatAt s2 b = FAT_EOF := by
    rw [hs2, fatAt_setBlock, fatAt_setBlock]
    exact fatAt_setFat_self _ _ _ hfl
  have hqblk : blockAt (setBlock (setFat s b FAT_EOF) b (newDirBlock b p t1 t2)) q
      = blockAt s q := by
    rw [blockAt_setBlock_ne _ _ _ _ (toNat_ne hb0 hqt.2.2.1 (Ne.symm hqb)), blockAt_setFat]
  rw [hqblk] at hoff hs2
  refine ⟨b, entries, q, off, hfb, hle, hnt, hn0, hn1, hp0, hp1, hchain, hq, hqb, hoff, hloop,
    hs2, hblock, hfat, ?_⟩
  rw [listEntries_inRange s2 b hb0 hb1, walkFuel_eq,
    listLoop_single s2 _ b hb0 hb1 (Or.inl hfat), hblock]
  unfold newDirBlock
  rw [format_root_scan _ _ (mkName_length _) (mkName_length _)
    (show (mkName [46]).getD 0 0 ≠ 0 by decide) (show (mkName [46, 46]).getD 0 0 ≠ 0 by decide)
    _ _
    (deserialize_new_entry (mkName [46]) TYPE_DIRECTORY b (2 * DIRECTORY_ENTRY_SIZE) t1
      (mkName_length _) (by decide) ⟨hb0, hb1⟩ (by decide))
    (deserialize_new_entry (mkName [46, 46]) TYPE_DIRECTORY p 0 t2
      (mkName_length _) (by decide) ⟨hp0, hp1⟩ (by decide))]

/-- C9, where the parent directory is allocated: when `CreateDirectory(p, n)` succeeds in a
state where every block of the chain of `p` is allocated, the allocated block `b` (the smallest free index) lists exactly "."
with `StartBlock = b` and ".." with `StartBlock = p`, both of type directory; the bytes of block
`b` from offset 98 on are zero; `FAT[b] = FAT_EOF`; and the entry written into a slot of the
chain of `p` has type directory, `StartBlock = b` and `Size = 98`. -/
theorem C9_create_directory_effect (s s2 : FSState) (p : Int) (n : List Nat) (t1 t2 t3 : Int)
    (hwf : s.WF) (halloc : ∀ y ∈ chainOf s walkFuel p, fatAt s y ≠ FAT_FREE)
    (h : CreateDirectory s p n t1 t2 t3 = (s2, .ok ())) :
    ∃ b : Int, findFreeBlock s = .ok b ∧
      ListEntries s2 b = .ok
        [{ Name := mkName [46], EntryType := TYPE_DIRECTORY, StartBlock := b,
           Size := 2 * DIRECTORY_ENTRY_SIZE, ModTime := toSigned 8 (toUnsigned 8 t1) },
         { Name := mkName [46, 46], EntryType := TYPE_DIRECTORY, StartBlock := p,
           Size := 0, ModTime := toSigned 8 (toUnsigned 8 t2) }] ∧
      (blockAt s2 b).length = BLOCK_SIZE ∧
      (∀ i : Nat, 98 ≤ i → i < BLOCK_SIZE → (blockAt s2 b).getD i 1 = 0) ∧
      fatAt s2 b = FAT_EOF ∧
      ∃ q off, q ∈ chainOf s walkFuel p ∧ off ∈ slotOffsets ∧
        (slotData (blockAt s q) off).getD 0 0 = 0 ∧
        DeserializeEntry (slotData (blockAt s2 q) off) = .ok
          { Name := mkName n, EntryType := TYPE_DIRECTORY, StartBlock := b, Size := 98,
            ModTime := toSigned 8 (toUnsigned 8 t3) } := by
  obtain ⟨b, entries, q, off, hfb, _, _, _, _, _, _, _, hq, _, hoff, _, hs2, hblock, hfat, hlist⟩
    := createDirectory_ok_facts s s2 p n t1 t2 t3 hwf halloc h
  obtain ⟨hb0, hb1, _, _⟩ := findFreeBlock_ok s b hfb
  have hqt := not_endsWalk q (chainOf_mem_not_endsWalk s _ _ q hq)
  have hoffm := firstFreeSlot_mem _ _ _ hoff
  obtain ⟨_, _, _, hzero, _, _⟩ := firstFreeSlot_some _ _ _ hoff
  refine ⟨b, hfb, hlist, by rw [hblock]; exact newDirBlock_length _ _ _ _, ?_, hfat, q, off, hq,
    hoffm, hzero, ?_⟩
  · intro i hi hlt
    rw [hblock]
    exact format_root_block_tail _ _ (entryBytes_length _ (mkName_length _))
      (entryBytes_length _ (mkName_length _)) i hi 1 hlt
  · rw [hs2, blockAt_setBlock_self _ _ _ (by
      rw [setBlock_Disk_length, setFat_Disk]; exact WF_blockAt_lt s hwf q hqt.2.2.2)]
    rw [slotData_copyAt_same _ _ _ (entryBytes_length _ (mkName_length n)) (by
      rw [blockAt_length s hwf q hqt.2.2.1 hqt.2.2.2]
      exact (slotOffsets_sep off hoffm off hoffm).1)]
    exact deserialize_new_entry (mkName n) TYPE_DIRECTORY b (2 * DIRECTORY_ENTRY_SIZE) t3
      (mkName_length n) (by decide) ⟨hb0, hb1⟩ (by decide)

set_option maxRecDepth 1000000 in
/-- The input on which C9 fails: on the formatted disk block 0 is free; `CreateDirectory(0, "d")`
succeeds, because the block it allocates is the parent block itself and is marked `FAT_EOF`
before `addEntryToDirectory` looks at the parent; it writes the entry "d" into the new
directory block, so block 0 lists three entries and its byte 98 is not zero. -/
theorem create_directory_in_free_parent :
    (CreateDirectory (FormatDisk ⟨[], []⟩ 0 0).1 0 [100] 1 2 3).2 = .ok () ∧
    findFreeBlock (FormatDisk ⟨[], []⟩ 0 0).1 = .ok 0 ∧
    ListEntries (CreateDirectory (FormatDisk ⟨[], []⟩ 0 0).1 0 [100] 1 2 3).1 0 = .ok
      [⟨mkName [46], 1, 0, 98, 1⟩, ⟨mkName [46, 46], 1, 0, 0, 2⟩, ⟨mkName [100], 1, 0, 98, 3⟩] ∧
    (blockAt (CreateDirectory (FormatDisk ⟨[], []⟩ 0 0).1 0 [100] 1 2 3).1 0).getD 98 0
      = 100 := by
  decide

set_option maxRecDepth 1000000 in
/-- C9 on the formatted disk: creating "d" in the root. -/
theorem C9_create_directory_effect_witness :
    (FormatDisk ⟨[], []⟩ 0 0).1.WF ∧
    (∀ y ∈ chainOf (FormatDisk ⟨[], []⟩ 0 0).1 walkFuel 1,
      fatAt (FormatDisk ⟨[], []⟩ 0 0).1 y ≠ FAT_FREE) ∧
    (CreateDirectory (FormatDisk ⟨[], []⟩ 0 0).1 1 [100] 1 2 3).2 = .ok () ∧
    ∃ b : Int, findFreeBlock (FormatDisk ⟨[], []⟩ 0 0).1 = .ok b ∧
      ListEntries (CreateDirectory (FormatDisk ⟨[], []⟩ 0 0).1 1 [100] 1 2 3).1 b = .ok
        [{ Name := mkName [46], EntryType := TYPE_DIRECTORY, StartBlock := b,
           Size := 2 * DIRECTORY_ENTRY_SIZE, ModTime := toSigned 8 (toUnsigned 8 1) },
         { Name := mkName [46, 46], EntryType := TYPE_DIRECTORY, StartBlock := 1,
           Size := 0, ModTime := toSigned 8 (toUnsigned 8 2) }] ∧
      fatAt (CreateDirectory (FormatDisk ⟨[], []⟩ 0 0).1 1 [100] 1 2 3).1 b = FAT_EOF := by
  refine ⟨by decide, by decide, by decide, ?_⟩
  obtain ⟨b, h1, h2, _, _, h5, _⟩ :=
    C9_create_directory_effect (FormatDisk ⟨[], []⟩ 0 0).1 _ 1 [100] 1 2 3 (by decide)
      (by decide) (Prod.ext rfl (by decide))
  exact ⟨b, h1, h2, h5⟩

/-! ## Names in a listing -/

theorem findEntry_skip (n : List Nat) (A B : List DirectoryEntry) (h : otherNames n A) :
    findEntry n (A ++ B) = findEntry n B := by
  induction A with
  | nil => rfl
  | cons a A ih =>
    obtain ⟨nm, hnm, hne⟩ := h a (List.mem_cons_self _ _)
    show findEntry n (a :: (A ++ B)) = _
    rw [findEntry]
    simp only [hnm, if_neg hne]
    exact ih (fun x hx => h x (List.mem_cons_of_mem _ hx))

/-- The search of `DeleteEntry` aborts when it comes to a listed name without a zero byte
before it has found the name. -/
theorem deleteEntry_aborts (s : FSState) (p : Int) (name : List Nat)
    (entries l1 l2 : List DirectoryEntry) (x : DirectoryEntry) (h0 : name ≠ [])
    (h1 : name ≠ [46]) (h2 : name ≠ [46, 46]) (hl : ListEntries s p = .ok entries)
    (he : entries = l1 ++ x :: l2) (hl1 : otherNames name l1) (hx : nameOf x.Name = none) :
    DeleteEntry s p name = (s, .panic) := by
  have hlen : name.length ≠ 0 := fun h => h0 (List.length_eq_zero.mp h)
  have hdots : ¬ (name = [46] ∨ name = [46, 46]) := by
    rintro (h | h)
    · exact h1 h
    · exact h2 h
  have hf : findEntry name entries = .panic := by
    rw [he, findEntry_skip name l1 _ hl1, findEntry, hx]
  unfold DeleteEntry
  rw [if_neg hlen, if_neg hdots]
  simp only [hl, hf]

theorem nameTaken_false (n : List Nat) (l : List DirectoryEntry)
    (h : nameTaken n l = .ok false) : otherNames n l := by
  induction l with
  | nil => intro e he; cases he
  | cons a l ih =>
    unfold nameTaken at h
    cases hn : nameOf a.Name with
    | none => rw [hn] at h; simp at h
    | some nm =>
      rw [hn] at h
      dsimp only at h
      by_cases hnm : nm = n
      · rw [if_pos hnm] at h; simp at h
      · rw [if_neg hnm] at h
        intro e he
        rcases List.mem_cons.1 he with rfl | he
        · exact ⟨nm, hn, hnm⟩
        · exact ih h e he

theorem findEntry_append (n : List Nat) (l1 l2 : List DirectoryEntry) (e : DirectoryEntry)
    (h1 : otherNames n l1) (he : nameOf e.Name = some n) :
    findEntry n (l1 ++ e :: l2) = .ok (some e) := by
  induction l1 with
  | nil => simp [findEntry, he]
  | cons a l ih =>
    obtain ⟨nm, hnm, hne⟩ := h1 a (List.mem_cons_self _ _)
    show findEntry n (a :: (l ++ e :: l2)) = _
    unfold findEntry
    rw [hnm]
    dsimp only
    rw [if_neg hne]
    exact ih (fun x hx => h1 x (List.mem_cons_of_mem _ hx))

/-! ## invalidateEntryInParent after addEntryToDirectory -/

theorem invalidateScan_skip (blk : List Nat) (n : List Nat) (pre rest : List Nat)
    (h : otherNames n (scanSlots blk pre)) :
    invalidateScan blk n (pre ++ rest) = invalidateScan blk n rest := by
  induction pre with
  | nil => rfl
  | cons o pre ih =>
    show invalidateScan blk n (o :: (pre ++ rest)) = _
    rw [invalidateScan]
    unfold scanSlots at h
    dsimp only at h ⊢
    by_cases hz : (slotData blk o).getD 0 0 = 0
    · rw [if_pos hz] at h ⊢
      exact ih h
    · rw [if_neg hz] at h ⊢
      cases hd : DeserializeEntry (slotData blk o) with
      | ok e =>
        rw [hd] at h
        dsimp only at h ⊢
        obtain ⟨nm, hnm, hne⟩ := h e (List.mem_cons_self _ _)
        rw [hnm]
        dsimp only
        rw [if_neg hne]
        exact ih (fun x hx => h x (List.mem_cons_of_mem _ hx))
      | err e => rw [hd] at h; exact ih h
      | panic => rw [hd] at h; exact ih h
      | diverge => rw [hd] at h; exact ih h

theorem invalidateScan_hit (blk : List Nat) (n : List Nat) (off : Nat) (post : List Nat)
    (e : DirectoryEntry) (hz : (slotData blk off).getD 0 0 ≠ 0)
    (hd : DeserializeEntry (slotData blk off) = .ok e) (hn : nameOf e.Name = some n) :
    invalidateScan blk n (off :: post) = .found off := by
  unfold invalidateScan
  dsimp only
  rw [if_neg hz, hd]
  dsimp only
  rw [hn]
  dsimp only
  rw [if_pos rfl]

theorem invalidateLoop_FAT (s : FSState) (n : List Nat) (fuel : Nat) (cur : Int) :
    (invalidateLoop s n fuel cur).1.FAT = s.FAT := by
  induction fuel generalizing cur with
  | zero => rfl
  | succ fuel ih =>
    unfold invalidateLoop
    split
    · rfl
    · split
      · rfl
      · split
        · rfl
        · rfl
        · exact ih _

theorem invalidateLoop_step (s : FSState) (n : List Nat) (fuel : Nat) (cur : Int)
    (h : ¬ endsWalk cur) :
    invalidateLoop s n (fuel + 1) cur =
      match invalidateScan (blockAt s cur) n slotOffsets with
      | .found offset => (setBlock s cur ((blockAt s cur).set offset 0), .ok ())
      | .abort => (s, .panic)
      | .notHere => invalidateLoop s n fuel (fatAt s cur) := by
  obtain ⟨h1, h2, _, _⟩ := not_endsWalk cur h
  rw [invalidateLoop, if_neg h1, if_neg h2]

theorem scanSlots_sublist_mem (blk : List Nat) (pre post : List Nat) (e : DirectoryEntry)
    (h : e ∈ scanSlots blk pre) : e ∈ scanSlots blk (pre ++ post) := by
  rw [scanSlots_append]; exact List.mem_append_left _ h

/-- After a successful `addEntryToDirectory` loop for an entry named `n` in a chain that held
no entry named `n`, the loop of `invalidateEntryInParent` finds the entry, in every state that
shows the same chain. -/
theorem invalidate_after_add (sA s2 t : FSState) (hwf : sA.WF) (e e2 : DirectoryEntry)
    (n bytes : List Nat) (hb : bytes.length = DIRECTORY_ENTRY_SIZE)
    (hhead : bytes.getD 0 0 ≠ 0) (hd : DeserializeEntry bytes = .ok e2)
    (hn : nameOf e2.Name = some n) (fuel : Nat) (cur : Int) (old : List DirectoryEntry)
    (hl : listLoop sA fuel cur = .ok old) (hold : otherNames n old)
    (ha : addLoop sA e bytes fuel cur = (s2, .ok ()))
    (hag : ∀ y ∈ chainOf sA fuel cur, fatAt t y = fatAt sA y ∧ blockAt t y = blockAt s2 y) :
    (invalidateLoop t n fuel cur).2 = .ok () := by
  induction fuel generalizing cur old with
  | zero => simp [listLoop] at hl
  | succ fuel ih =>
    obtain ⟨ht, hcase⟩ := addLoop_ok_inv sA s2 e bytes fuel cur ha
    obtain ⟨_, _, hc0, hc1⟩ := not_endsWalk cur ht
    obtain ⟨rest, hrest, holdeq⟩ := listLoop_step_ok sA fuel cur ht old hl
    have hcm : cur ∈ chainOf sA (fuel + 1) cur := by
      unfold chainOf; rw [if_neg ht]; exact List.mem_cons_self _ _
    have hsub : ∀ y ∈ chainOf sA fuel (fatAt sA cur), y ∈ chainOf sA (fuel + 1) cur := by
      intro y hy
      unfold chainOf; rw [if_neg ht]; exact List.mem_cons_of_mem _ hy
    obtain ⟨hfc, hbc⟩ := hag cur hcm
    have hscan : otherNames n (scanSlots (blockAt sA cur) slotOffsets) := by
      intro x hx; exact hold x (by rw [holdeq]; exact List.mem_append_left _ hx)
    rw [invalidateLoop_step t n fuel cur ht, hbc]
    rcases hcase with ⟨off, hoff, hs2⟩ | ⟨hnone, _, hrec⟩
    · obtain ⟨pre, post, he, h0, hnm, _⟩ := firstFreeSlot_some _ _ _ hoff
      have hmem : off ∈ slotOffsets := by rw [he]; simp
      have hin := (slotOffsets_sep off hmem off hmem).1
      have hblen := blockAt_length sA hwf cur hc0 hc1
      have hnew : blockAt s2 cur = copyAt (blockAt sA cur) off bytes := by
        rw [hs2]; exact blockAt_setBlock_self _ _ _ (WF_blockAt_lt sA hwf cur hc1)
      have hpre : scanSlots (copyAt (blockAt sA cur) off bytes) pre
          = scanSlots (blockAt sA cur) pre := by
        apply scanSlots_congr
        intro o ho
        have hos : o ∈ slotOffsets := by rw [he]; simp [ho]
        apply slotData_copyAt_other _ _ _ _ hb (by rw [hblen]; exact hin)
        rcases (slotOffsets_sep o hos off hmem).2 with h | h | h
        · exact absurd (h ▸ ho) hnm
        · exact Or.inl h
        · exact Or.inr h
      have hsame := slotData_copyAt_same (blockAt sA cur) off bytes hb
        (by rw [hblen]; exact hin)
      rw [hnew, he, invalidateScan_skip _ n pre (off :: post) (by
          rw [hpre]
          intro x hx
          exact hscan x (by rw [he]; exact scanSlots_sublist_mem _ _ _ _ hx)),
        invalidateScan_hit _ n off post e2 (by rw [hsame]; exact hhead)
          (by rw [hsame]; exact hd) hn]
    · obtain ⟨q, off, hq, hqf, hs2⟩ := addLoop_ok_shape sA s2 e bytes fuel _ hrec
      have hq0 := (not_endsWalk q (chainOf_mem_not_endsWalk sA _ _ q hq)).2.2.1
      have hne : q ≠ cur := by
        intro heq; rw [heq, hnone] at hqf; cases hqf
      have hsame : blockAt s2 cur = blockAt sA cur := by
        rw [hs2]; exact blockAt_setBlock_ne _ _ _ _ (toNat_ne hq0 hc0 hne)
      have hnot : invalidateScan (blockAt sA cur) n slotOffsets = .notHere := by
        have := invalidateScan_skip (blockAt sA cur) n slotOffsets [] hscan
        rw [List.append_nil] at this
        rw [this]; rfl
      rw [hsame, hnot]
      dsimp only
      rw [hfc]
      exact ih _ rest hrest
        (fun x hx => hold x (by rw [holdeq]; exact List.mem_append_right _ hx)) hrec
        (fun y hy => hag y (hsub y hy))

/-! ## DeleteEntry -/

theorem list_set_getD_self {α : Type} (L : List α) (i : Nat) (a d : α) (hi : i < L.length)
    (h : L.getD i d = a) : L.set i a = L := by
  apply List.ext_getElem?
  intro j
  by_cases hj : i = j
  · subst hj
    rw [List.getElem?_set_self hi]
    rw [List.getD_eq_getElem?_getD, List.getElem?_eq_getElem hi] at h
    rw [List.getElem?_eq_getElem hi]
    simp at h
    rw [h]
  · rw [List.getElem?_set_ne hj]

theorem freeBlockChain_single (s : FSState) (b : Int) (h0 : 0 ≤ b)
    (h1 : b < (TOTAL_BLOCKS : Int)) (hf : fatAt s b = FAT_EOF ∨ fatAt s b = FAT_FREE) :
    freeBlockChain s b = (setFat s b FAT_FREE, .ok ()) := by
  have hnt := not_endsWalk b (inRange_not_endsWalk b h0 h1)
  unfold freeBlockChain
  rw [if_neg hnt.2.1, walkFuel_eq, freeLoop, if_neg hnt.1, if_neg hnt.2.1, freeLoop, if_pos hf]

theorem finishDelete_ok (s : FSState) (p : Int) (n : List Nat)
    (h : (invalidateEntryInParent s p n).2 = .ok ()) :
    (finishDelete s p n).2 = .ok () ∧ (finishDelete s p n).1 = (invalidateEntryInParent s p n).1
    := by
  unfold finishDelete
  generalize invalidateEntryInParent s p n = r at h
  obtain ⟨s1, res⟩ := r
  cases res <;> simp_all

theorem invalidateEntryInParent_FAT (s : FSState) (p : Int) (n : List Nat) :
    (invalidateEntryInParent s p n).1.FAT = s.FAT := by
  unfold invalidateEntryInParent
  split
  · rfl
  · exact invalidateLoop_FAT _ _ _ _

theorem deleteEntry_file (s s1 : FSState) (p : Int) (n : List Nat) (L : List DirectoryEntry)
    (e : DirectoryEntry) (hn0 : n.length ≠ 0) (hdot : n ≠ [46] ∧ n ≠ [46, 46])
    (hl : ListEntries s p = .ok L) (hf : findEntry n L = .ok (some e))
    (ht : e.EntryType = TYPE_FILE) (hfree : freeBlockChain s e.StartBlock = (s1, .ok ())) :
    DeleteEntry s p n = finishDelete s1 p n := by
  unfold DeleteEntry
  rw [if_neg hn0, if_neg (by tauto), hl]
  dsimp only
  rw [hf]
  dsimp only
  rw [if_pos ht, hfree]

theorem deleteEntry_emptyDir (s s1 : FSState) (p : Int) (n : List Nat)
    (L subs : List DirectoryEntry) (e : DirectoryEntry) (hn0 : n.length ≠ 0)
    (hdot : n ≠ [46] ∧ n ≠ [46, 46]) (hl : ListEntries s p = .ok L)
    (hf : findEntry n L = .ok (some e)) (ht : e.EntryType = TYPE_DIRECTORY)
    (hb0 : 0 ≤ e.StartBlock) (hb1 : e.StartBlock < (TOTAL_BLOCKS : Int))
    (hsub : ListEntries s e.StartBlock = .ok subs) (hcount : realEntryCount subs = 0)
    (hfree : freeBlockChain s e.StartBlock = (s1, .ok ())) :
    DeleteEntry s p n = finishDelete s1 p n := by
  have hnt := not_endsWalk _ (inRange_not_endsWalk _ hb0 hb1)
  unfold DeleteEntry
  rw [if_neg hn0, if_neg (by tauto), hl]
  dsimp only
  rw [hf]
  dsimp only
  rw [if_neg (by rw [ht]; decide), if_pos ht, if_neg (by
    intro h
    rcases h with h | h | h | h
    · exact hnt.1 (Or.inr h)
    · exact hnt.1 (Or.inl h)
    · omega
    · omega), hsub]
  dsimp only
  rw [if_neg (by omega)]
  dsimp only
  rw [hfree]

theorem fatAt_congr (s t : FSState) (h : t.FAT = s.FAT) (y : Int) : fatAt t y = fatAt s y := by
  unfold fatAt; rw [h]

/-- Deleting an entry right after it has been added to a directory whose chain is allocated:
the common part of the two cases of C10. -/
theorem delete_after_add (s sA s2 : FSState) (hwf : s.WF) (hwfA : sA.WF) (b p : Int)
    (n : List Nat) (hn0 : n.length ≠ 0) (hdot : n ≠ [46] ∧ n ≠ [46, 46])
    (hb0 : 0 ≤ b) (hb1 : b < (TOTAL_BLOCKS : Int)) (hbfree : fatAt s b = FAT_FREE)
    (hp0 : 0 ≤ p) (hp1 : p < (TOTAL_BLOCKS : Int))
    (halloc : ∀ y ∈ chainOf s walkFuel p, fatAt s y ≠ FAT_FREE)
    (hAfat : sA.FAT = s.FAT.set b.toNat FAT_EOF)
    (hAchain : chainOf sA walkFuel p = chainOf s walkFuel p)
    (entries : List DirectoryEntry) (hAlist : listLoop sA walkFuel p = .ok entries)
    (hother : otherNames n entries) (e e2 : DirectoryEntry) (bytes : List Nat)
    (hb : bytes.length = DIRECTORY_ENTRY_SIZE) (hhead : bytes.getD 0 0 ≠ 0)
    (hd : DeserializeEntry bytes = .ok e2) (hname : nameOf e2.Name = some n)
    (hstart : e2.StartBlock = b)
    (hadd : addLoop sA e bytes walkFuel p = (s2, .ok ()))
    (hty : e2.EntryType = TYPE_FILE ∨
      (e2.EntryType = TYPE_DIRECTORY ∧ ∃ subs, ListEntries s2 b = .ok subs ∧
        realEntryCount subs = 0)) :
    (DeleteEntry s2 p n).2 = .ok () ∧ (DeleteEntry s2 p n).1.FAT = s.FAT := by
  have hfl := WF_fatAt_lt s hwf b hb1
  have h2fat : s2.FAT = sA.FAT := by
    have := addLoop_FAT sA e bytes walkFuel p
    rw [hadd] at this; exact this
  have hfb2 : fatAt s2 b = FAT_EOF := by
    rw [fatAt_congr sA s2 h2fat]
    unfold fatAt
    rw [hAfat]
    exact getD_set_self _ _ _ _ hfl
  obtain ⟨_, l1, l2, hsplit, hnew⟩ := listLoop_after_add sA hwfA e e2 bytes hb hhead hd walkFuel
    p entries s2 hAlist hadd
  have hlist2 : ListEntries s2 p = .ok (l1 ++ e2 :: l2) := by
    rw [listEntries_inRange s2 p hp0 hp1, hnew]
  have hfind : findEntry n (l1 ++ e2 :: l2) = .ok (some e2) :=
    findEntry_append n l1 l2 e2
      (fun x hx => hother x (by rw [hsplit]; exact List.mem_append_left _ hx)) hname
  have hfree : freeBlockChain s2 e2.StartBlock = (setFat s2 b FAT_FREE, .ok ()) := by
    rw [hstart]; exact freeBlockChain_single s2 b hb0 hb1 (Or.inl hfb2)
  have hdel : DeleteEntry s2 p n = finishDelete (setFat s2 b FAT_FREE) p n := by
    rcases hty with hty | ⟨hty, subs, hsubs, hcount⟩
    · exact deleteEntry_file s2 _ p n _ e2 hn0 hdot hlist2 hfind hty hfree
    · exact deleteEntry_emptyDir s2 _ p n _ subs e2 hn0 hdot hlist2 hfind hty
        (by rw [hstart]; exact hb0) (by rw [hstart]; exact hb1) (by rw [hstart]; exact hsubs)
        hcount hfree
  -- the chain of the parent does not contain `b`
  have hpm : p ∈ chainOf s walkFuel p := by
    rw [walkFuel_eq]; unfold chainOf
    rw [if_neg (inRange_not_endsWalk p hp0 hp1)]; exact List.mem_cons_self _ _
  have hyb : ∀ y ∈ chainOf s walkFuel p, 0 ≤ y ∧ y ≠ b := by
    intro y hy
    exact ⟨(not_endsWalk y (chainOf_mem_not_endsWalk s _ _ y hy)).2.2.1,
      fun e => halloc y hy (e ▸ hbfree)⟩
  have htfat : ∀ y ∈ chainOf s walkFuel p, fatAt (setFat s2 b FAT_FREE) y = fatAt sA y := by
    intro y hy
    obtain ⟨hy0, hyne⟩ := hyb y hy
    rw [fatAt_setFat_ne _ _ _ _ (toNat_ne hb0 hy0 (Ne.symm hyne)), fatAt_congr sA s2 h2fat]
  have hAp : fatAt sA p = fatAt s p := by
    obtain ⟨hy0, hyne⟩ := hyb p hpm
    unfold fatAt
    rw [hAfat]
    exact getD_set_ne _ _ _ _ _ (toNat_ne hb0 hy0 (Ne.symm hyne))
  have hinv : (invalidateEntryInParent (setFat s2 b FAT_FREE) p n).2 = .ok () := by
    unfold invalidateEntryInParent
    rw [if_neg (by
      rw [htfat p hpm, hAp]
      have := halloc p hpm
      push_neg
      exact ⟨hp0, hp1, this⟩)]
    apply invalidate_after_add sA s2 _ hwfA e e2 n bytes hb hhead hd hname walkFuel p entries
      hAlist hother hadd
    intro y hy
    rw [hAchain] at hy
    exact ⟨htfat y hy, rfl⟩
  obtain ⟨hok, hst⟩ := finishDelete_ok _ p n hinv
  rw [hdel]
  refine ⟨hok, ?_⟩
  rw [hst, invalidateEntryInParent_FAT]
  show s2.FAT.set b.toNat FAT_FREE = s.FAT
  rw [h2fat, hAfat, List.set_set]
  exact list_set_getD_self _ _ _ FAT_FREE hfl hbfree

theorem mem_chainOf_self (s : FSState) (fuel : Nat) (p : Int) (hp0 : 0 ≤ p)
    (hp1 : p < (TOTAL_BLOCKS : Int)) : p ∈ chainOf s (fuel + 1) p := by
  unfold chainOf
  rw [if_neg (inRange_not_endsWalk p hp0 hp1)]; exact List.mem_cons_self _ _

theorem chainOf_setFat_alloc (s : FSState) (b p : Int) (hb0 : 0 ≤ b)
    (hbfree : fatAt s b = FAT_FREE)
    (halloc : ∀ y ∈ chainOf s walkFuel p, fatAt s y ≠ FAT_FREE) :
    chainOf (setFat s b FAT_EOF) walkFuel p = chainOf s walkFuel p := by
  apply chainOf_agree
  intro y hy
  have hyt := (not_endsWalk y (chainOf_mem_not_endsWalk s _ _ y hy)).2.2.1
  have hne : b ≠ y := fun e => halloc y hy (e ▸ hbfree)
  rw [fatAt_setFat_ne _ _ _ _ (toNat_ne hb0 hyt hne)]

theorem name_short_of_add_ok (sA s2 : FSState) (e : DirectoryEntry) (bytes : List Nat)
    (fuel : Nat) (p : Int) (n : List Nat) (hn : e.Name = mkName n)
    (hl : n.length ≤ MAX_FILENAME_LEN) (hz : 0 ∉ n)
    (hadd : addLoop sA e bytes fuel p = (s2, .ok ())) : n.length < MAX_FILENAME_LEN := by
  by_contra hc
  have hfull : n.length = MAX_FILENAME_LEN := by omega
  have hnone : nameOf e.Name = none := by
    rw [hn, mkName_full n hfull]; exact nameOf_none n hz
  exact addLoop_not_ok sA e bytes hnone fuel p (by rw [hadd])

/-- C10 (as amended): in a state where every block of the chain of `p` is allocated, for a
name `n` without zero byte other than "." and "..": if `CreateFile(p, n)` (respectively
`CreateDirectory(p, n)`) succeeds, then `DeleteEntry(p, n)` executed immediately afterwards
succeeds and leaves the FAT identical, entry for entry, to the FAT before the create. -/
theorem C10_create_then_delete_restores_fat (s s2 : FSState) (p : Int) (n : List Nat)
    (now t1 t2 t3 : Int) (hwf : s.WF)
    (halloc : ∀ y ∈ chainOf s walkFuel p, fatAt s y ≠ FAT_FREE)
    (hz : 0 ∉ n) (hdot : n ≠ [46] ∧ n ≠ [46, 46])
    (h : CreateFile s p n now = (s2, .ok ()) ∨
      CreateDirectory s p n t1 t2 t3 = (s2, .ok ())) :
    (DeleteEntry s2 p n).2 = .ok () ∧ (DeleteEntry s2 p n).1.FAT = s.FAT := by
  rcases h with h | h
  · obtain ⟨hn0, hn1, entries, b, hle, hnt, hfb, hadd⟩ := createFile_ok_inv s s2 p n now h
    obtain ⟨hb0, hb1, hbfree, _⟩ := findFreeBlock_ok s b hfb
    obtain ⟨hp0, hp1, _, hloop⟩ := addEntry_ok_inv _ s2 p _ (mkName_length n) hadd
    have hshort := name_short_of_add_ok _ s2 _ _ _ p n rfl hn1 hz hloop
    rw [listEntries_inRange s p hp0 hp1] at hle
    have hhead : (entryBytes ⟨mkName n, TYPE_FILE, b, 0, now⟩).getD 0 0 ≠ 0 := by
      rw [entryBytes_head _ (by
        intro hnil
        have := mkName_length n
        rw [show (DirectoryEntry.mk (mkName n) TYPE_FILE b 0 now).Name = mkName n from rfl]
          at hnil
        rw [hnil] at this
        exact absurd this (by decide))]
      exact mkName_head n hn0 hn1 hz
    exact delete_after_add s (setFat s b FAT_EOF) s2 hwf (WF_setFat s b FAT_EOF hwf) b p n hn0
      hdot hb0 hb1 hbfree hp0 hp1 halloc rfl (chainOf_setFat_alloc s b p hb0 hbfree halloc)
      entries (by rw [listLoop_setFat_alloc s b walkFuel p hb0 (WF_fatAt_lt s hwf b hb1) hbfree]
                  exact hle)
      (nameTaken_false n entries hnt) _ _ _ (entryBytes_length _ (mkName_length n)) hhead
      (deserialize_new_entry (mkName n) TYPE_FILE b 0 now (mkName_length n) (by decide)
        ⟨hb0, hb1⟩ (by decide))
      (nameOf_mkName n hshort hz) rfl hloop (Or.inl rfl)
  · obtain ⟨b, entries, q, off, hfb, hle, hnt, hn0, hn1, hp0, hp1, hchain, hq, hqb, hoff, hloop,
      hs2, hblock, hfat, hlist⟩ := createDirectory_ok_facts s s2 p n t1 t2 t3 hwf halloc h
    obtain ⟨hb0, hb1, hbfree, _⟩ := findFreeBlock_ok s b hfb
    have hshort := name_short_of_add_ok _ s2 _ _ _ p n rfl hn1 hz hloop
    rw [listEntries_inRange s p hp0 hp1] at hle
    have hhead : (entryBytes
        ⟨mkName n, TYPE_DIRECTORY, b, 2 * DIRECTORY_ENTRY_SIZE, t3⟩).getD 0 0 ≠ 0 := by
      rw [entryBytes_head _ (by
        intro hnil
        have := mkName_length n
        rw [show (DirectoryEntry.mk (mkName n) TYPE_DIRECTORY b (2 * DIRECTORY_ENTRY_SIZE)
          t3).Name = mkName n from rfl] at hnil
        rw [hnil] at this
        exact absurd this (by decide))]
      exact mkName_head n hn0 hn1 hz
    have hbnot : b ∉ chainOf (setFat s b FAT_EOF) walkFuel p := by
      rw [chainOf_setFat_alloc s b p hb0 hbfree halloc]
      exact fun hm => halloc b hm hbfree
    exact delete_after_add s (setBlock (setFat s b FAT_EOF) b (newDirBlock b p t1 t2)) s2 hwf
      (WF_setBlock _ b _ (WF_setFat s b FAT_EOF hwf) (newDirBlock_length _ _ _ _)) b p n hn0
      hdot hb0 hb1 hbfree hp0 hp1 halloc rfl hchain entries
      (by rw [listLoop_setBlock_frame _ b _ walkFuel p hb0 hbnot,
            listLoop_setFat_alloc s b walkFuel p hb0 (WF_fatAt_lt s hwf b hb1) hbfree]
          exact hle)
      (nameTaken_false n entries hnt) _ _ _ (entryBytes_length _ (mkName_length n)) hhead
      (deserialize_new_entry (mkName n) TYPE_DIRECTORY b (2 * DIRECTORY_ENTRY_SIZE) t3
        (mkName_length n) (by decide) ⟨hb0, hb1⟩ (by decide))
      (nameOf_mkName n hshort hz) rfl hloop (Or.inr ⟨rfl, _, hlist, rfl⟩)

set_option maxRecDepth 1000000 in
/-- C10 as stated fails. On the formatted disk `CreateFile(1, "a\x00b")` succeeds, but the
entry it wrote is listed under the name "a", so `DeleteEntry(1, "a\x00b")` fails with
`entryNotFound` and block 0 stays allocated. With the unallocated parent block 0,
`CreateFile(0, "x")` succeeds and `DeleteEntry(0, "x")` fails after it has freed the block.
In the allocated block 0 that lists no ".", `CreateFile(0, ".")` succeeds and
`DeleteEntry(0, ".")` is refused. -/
theorem C10_counterexample :
    ((CreateFile (FormatDisk ⟨[], []⟩ 0 0).1 1 [97, 0, 98] 5).2 = .ok () ∧
      (DeleteEntry (CreateFile (FormatDisk ⟨[], []⟩ 0 0).1 1 [97, 0, 98] 5).1 1 [97, 0, 98]).2
        = .err .entryNotFound ∧
      fatAt (FormatDisk ⟨[], []⟩ 0 0).1 0 = FAT_FREE ∧
      fatAt (DeleteEntry (CreateFile (FormatDisk ⟨[], []⟩ 0 0).1 1 [97, 0, 98] 5).1 1
        [97, 0, 98]).1 0 = FAT_EOF) ∧
    ((CreateFile (FormatDisk ⟨[], []⟩ 0 0).1 0 [120] 5).2 = .ok () ∧
      (DeleteEntry (CreateFile (FormatDisk ⟨[], []⟩ 0 0).1 0 [120] 5).1 0 [120]).2
        = .err (.invalidateFailed .invalidParent)) ∧
    ((CreateFile (FormatDisk ⟨[], []⟩ 0 0).1 1 [97] 5).2 = .ok () ∧
      fatAt (CreateFile (FormatDisk ⟨[], []⟩ 0 0).1 1 [97] 5).1 0 = FAT_EOF ∧
      (CreateFile (CreateFile (FormatDisk ⟨[], []⟩ 0 0).1 1 [97] 5).1 0 [46] 6).2 = .ok () ∧
      (DeleteEntry (CreateFile (CreateFile (FormatDisk ⟨[], []⟩ 0 0).1 1 [97] 5).1 0 [46] 6).1
        0 [46]).2 = .err .reservedName) := by
  decide

set_option maxRecDepth 1000000 in
/-- C10 (as amended) on the formatted disk: creating and deleting "a" in the root. -/
theorem C10_create_then_delete_restores_fat_witness :
    (FormatDisk ⟨[], []⟩ 0 0).1.WF ∧
    (∀ y ∈ chainOf (FormatDisk ⟨[], []⟩ 0 0).1 walkFuel 1,
      fatAt (FormatDisk ⟨[], []⟩ 0 0).1 y ≠ FAT_FREE) ∧
    0 ∉ [97] ∧ ([97] ≠ [46] ∧ [97] ≠ [46, 46]) ∧
    (CreateFile (FormatDisk ⟨[], []⟩ 0 0).1 1 [97] 5).2 = .ok () ∧
    (DeleteEntry (CreateFile (FormatDisk ⟨[], []⟩ 0 0).1 1 [97] 5).1 1 [97]).2 = .ok () ∧
    (DeleteEntry (CreateFile (FormatDisk ⟨[], []⟩ 0 0).1 1 [97] 5).1 1 [97]).1.FAT
      = (FormatDisk ⟨[], []⟩ 0 0).1.FAT :=
  ⟨by decide, by decide, by decide, by decide, by decide,
    C10_create_then_delete_restores_fat (FormatDisk ⟨[], []⟩ 0 0).1 _ 1 [97] 5 0 0 0 (by decide)
      (by decide) (by decide) (by decide) (Or.inl (Prod.ext rfl (by decide)))⟩

/-! ## freeBlockChain -/

theorem freeLoop_Disk (fuel : Nat) (s : FSState) (cur : Int) :
    (freeLoop fuel s cur).1.Disk = s.Disk := by
  induction fuel generalizing s cur with
  | zero => rfl
  | succ fuel ih =>
    unfold freeLoop
    split
    · rfl
    · split
      · rfl
      · rw [ih]; rfl

theorem freeLoop_WF (fuel : Nat) (s : FSState) (cur : Int) (h : s.WF) :
    (freeLoop fuel s cur).1.WF := by
  induction fuel generalizing s cur with
  | zero => exact h
  | succ fuel ih =>
    unfold freeLoop
    split
    · exact h
    · split
      · exact h
      · exact ih _ _ (WF_setFat s cur FAT_FREE h)

/-- `freeBlockChain` changes the FAT only at blocks of the chain it walks. The walk runs in a
state `s2` that differs from `s` by entries already set to `FAT_FREE`. -/
theorem freeLoop_frame (fuel : Nat) (s s2 : FSState) (cur q : Int) (hq : 0 ≤ q)
    (hrel : ∀ i : Int, fatAt s2 i = fatAt s i ∨ fatAt s2 i = FAT_FREE)
    (h : q ∉ chainOf s fuel cur) : fatAt (freeLoop fuel s2 cur).1 q = fatAt s2 q := by
  induction fuel generalizing s2 cur with
  | zero => rfl
  | succ fuel ih =>
    unfold freeLoop
    by_cases ht : endsWalk cur
    · rw [endsWalk_iff] at ht
      rcases ht with ht | ht
      · rw [if_pos ht]
      · by_cases h1 : cur = FAT_EOF ∨ cur = FAT_FREE
        · rw [if_pos h1]
        · rw [if_neg h1, if_pos ht]
    · obtain ⟨h1, h2, hc0, _⟩ := not_endsWalk cur ht
      rw [if_neg h1, if_neg h2]
      unfold chainOf at h
      rw [if_neg ht] at h
      have hne : q ≠ cur := fun e => h (e ▸ List.mem_cons_self _ _)
      have hnm : q ∉ chainOf s fuel (fatAt s cur) := fun e => h (List.mem_cons_of_mem _ e)
      have hrel2 : ∀ i : Int, fatAt (setFat s2 cur FAT_FREE) i = fatAt s i ∨
          fatAt (setFat s2 cur FAT_FREE) i = FAT_FREE := by
        intro i
        by_cases hi : cur.toNat = i.toNat
        · by_cases hl : cur.toNat < s2.FAT.length
          · right
            unfold fatAt setFat
            dsimp only
            rw [← hi]
            exact getD_set_self _ _ _ _ hl
          · have : fatAt (setFat s2 cur FAT_FREE) i = fatAt s2 i := by
              unfold fatAt setFat
              dsimp only
              rw [List.set_eq_of_length_le (by omega)]
            rw [this]; exact hrel i
        · rw [fatAt_setFat_ne _ _ _ _ hi]; exact hrel i
      have hstep : fatAt (setFat s2 cur FAT_FREE) q = fatAt s2 q :=
        fatAt_setFat_ne _ _ _ _ (toNat_ne hc0 hq (Ne.symm hne))
      rcases hrel cur with hc | hc
      · rw [hc, ih _ _ hrel2 hnm, hstep]
      · rw [hc]
        cases fuel with
        | zero => exact hstep
        | succ fuel => rw [freeLoop, if_pos (Or.inr rfl)]; exact hstep

theorem freeBlockChain_frame (s : FSState) (start q : Int) (hq : 0 ≤ q)
    (h : q ∉ chainOf s walkFuel start) :
    fatAt (freeBlockChain s start).1 q = fatAt s q := by
  unfold freeBlockChain
  split
  · split <;> rfl
  · exact freeLoop_frame walkFuel s s start q hq (fun _ => Or.inl rfl) h

theorem freeBlockChain_Disk (s : FSState) (start : Int) :
    (freeBlockChain s start).1.Disk = s.Disk := by
  unfold freeBlockChain
  split
  · split <;> rfl
  · exact freeLoop_Disk _ _ _

theorem freeBlockChain_WF (s : FSState) (start : Int) (h : s.WF) :
    (freeBlockChain s start).1.WF := by
  unfold freeBlockChain
  split
  · split <;> exact h
  · exact freeLoop_WF _ _ _ h

/-! ## ReadFromFile on a chain that holds the data -/

theorem readLoop_holdsData (s : FSState) (bs : List Int) (cur : Int) (data : List Nat)
    (fuel : Nat) (h : holdsData s cur data bs) (hfuel : data.length + 1 ≤ fuel) :
    readLoop s fuel (data.length : Int) cur = .ok data := by
  induction bs generalizing cur data fuel with
  | nil => exact absurd h (by simp [holdsData])
  | cons b rest ih =>
    cases rest with
    | nil =>
      obtain ⟨hc, hnt, hpos, hle, hcontent⟩ := h
      subst hc
      obtain ⟨h1, h2, _, _⟩ := not_endsWalk cur hnt
      obtain ⟨f, rfl⟩ : ∃ f, fuel = f + 1 := ⟨fuel - 1, by omega⟩
      obtain ⟨f2, rfl⟩ : ∃ f2, f = f2 + 1 := ⟨f - 1, by omega⟩
      unfold BLOCK_SIZE at hle
      rw [readLoop, if_pos ⟨by omega, fun e => h1 (Or.inl e), fun e => h1 (Or.inr e)⟩,
        if_neg h2]
      have hchunk : (if (data.length : Int) < (BLOCK_SIZE : Int) then (data.length : Int)
          else (BLOCK_SIZE : Int)) = (data.length : Int) := by
        unfold BLOCK_SIZE
        split
        · rfl
        · omega
      simp only [hchunk, sub_self, Int.toNat_ofNat]
      rw [readLoop, if_neg (by omega)]
      simp only [List.append_nil, hcontent]
    | cons b2 rest =>
      obtain ⟨hc, hnt, hlt, hcontent, hlink, hrest⟩ := h
      subst hc
      obtain ⟨h1, h2, _, _⟩ := not_endsWalk cur hnt
      obtain ⟨f, rfl⟩ : ∃ f, fuel = f + 1 := ⟨fuel - 1, by omega⟩
      unfold BLOCK_SIZE at hlt
      rw [readLoop, if_pos ⟨by omega, fun e => h1 (Or.inl e), fun e => h1 (Or.inr e)⟩,
        if_neg h2]
      have hchunk : (if (data.length : Int) < (BLOCK_SIZE : Int) then (data.length : Int)
          else (BLOCK_SIZE : Int)) = (BLOCK_SIZE : Int) := by
        unfold BLOCK_SIZE
        split
        · omega
        · rfl
      have hlen : (data.length : Int) - (BLOCK_SIZE : Int)
          = ((data.drop BLOCK_SIZE).length : Int) := by
        rw [List.length_drop]; unfold BLOCK_SIZE; omega
      simp only [hchunk, Int.toNat_ofNat]
      rw [hlink, hlen, ih b2 (data.drop BLOCK_SIZE) f hrest (by
        rw [List.length_drop]; unfold BLOCK_SIZE; omega)]
      simp only [hcontent, List.take_append_drop]

/-- A chain holds its data in every state that shows the same blocks and links. -/
theorem holdsData_agree (s t : FSState) (bs : List Int) (cur : Int) (data : List Nat)
    (hag : ∀ y ∈ bs, fatAt t y = fatAt s y ∧ blockAt t y = blockAt s y)
    (h : holdsData s cur data bs) : holdsData t cur data bs := by
  induction bs generalizing cur data with
  | nil => exact absurd h (by simp [holdsData])
  | cons b rest ih =>
    cases rest with
    | nil =>
      obtain ⟨hc, hnt, hpos, hle, hcontent⟩ := h
      exact ⟨hc, hnt, hpos, hle, by rw [(hag b (List.mem_cons_self _ _)).2]; exact hcontent⟩
    | cons b2 rest =>
      obtain ⟨hc, hnt, hlt, hcontent, hlink, hrest⟩ := h
      obtain ⟨hf, hb⟩ := hag b (List.mem_cons_self _ _)
      exact ⟨hc, hnt, hlt, by rw [hb]; exact hcontent, by rw [hf]; exact hlink,
        ih b2 _ (fun y hy => hag y (List.mem_cons_of_mem _ hy)) hrest⟩

/-! ## Chunks -/

theorem storeChunk_length (blk chunk : List Nat) (hb : blk.length = BLOCK_SIZE)
    (hc : chunk.length ≤ BLOCK_SIZE) : (storeChunk blk chunk).length = BLOCK_SIZE := by
  unfold storeChunk zeroFill copy
  dsimp only
  split
  · simp only [List.length_append, List.length_take, List.length_drop, List.length_replicate]
    omega
  · simp only [List.length_append, List.length_take, List.length_drop]
    omega

theorem storeChunk_take (blk chunk : List Nat) (hb : blk.length = BLOCK_SIZE)
    (hc : chunk.length ≤ BLOCK_SIZE) : (storeChunk blk chunk).take chunk.length = chunk := by
  have h1 : copy (blk.take chunk.length) chunk = chunk := by
    unfold copy
    rw [List.length_take, Nat.min_eq_left (by omega), List.take_length,
      List.drop_of_length_le (by rw [List.length_take]; omega), List.append_nil]
  unfold storeChunk
  dsimp only
  rw [h1]
  split
  · unfold zeroFill
    rw [List.take_left' rfl, List.append_assoc, List.take_left' rfl]
  · rw [List.take_left' rfl]

theorem dataChunk_full (data : List Nat) (i : Nat)
    (h : (i + 1) * BLOCK_SIZE ≤ data.length) :
    dataChunk data i = (data.drop (i * BLOCK_SIZE)).take BLOCK_SIZE := by
  unfold dataChunk
  dsimp only
  rw [if_neg (by omega)]
  congr 1
  rw [Nat.add_mul, Nat.one_mul, Nat.add_sub_cancel_left]

theorem dataChunk_last (data : List Nat) (i : Nat)
    (h : data.length ≤ (i + 1) * BLOCK_SIZE) :
    dataChunk data i = data.drop (i * BLOCK_SIZE) := by
  unfold dataChunk
  dsimp only
  by_cases hlt : (i + 1) * BLOCK_SIZE > data.length
  · rw [if_pos hlt]
    exact List.take_of_length_le (by rw [List.length_drop])
  · rw [if_neg hlt]
    exact List.take_of_length_le (by rw [List.length_drop]; omega)

/-! ## The allocation loop of WriteToFile -/

theorem allocStep_facts (s : FSState) (hwf : s.WF) (prev nb : Int) (chunk : List Nat)
    (hc : chunk.length ≤ BLOCK_SIZE) (hnb0 : 0 ≤ nb) (hnb1 : nb < (TOTAL_BLOCKS : Int))
    (hfree : fatAt s nb = FAT_FREE)
    (hprev : prev = FAT_EOF ∨ (0 ≤ prev ∧ prev < (TOTAL_BLOCKS : Int) ∧ fatAt s prev ≠ FAT_FREE)) :
    (allocStep s prev nb chunk).WF ∧
    fatAt (allocStep s prev nb chunk) nb = FAT_EOF ∧
    (prev ≠ FAT_EOF → fatAt (allocStep s prev nb chunk) prev = nb) ∧
    (∀ y, 0 ≤ y → y ≠ nb → y ≠ prev → fatAt (allocStep s prev nb chunk) y = fatAt s y) ∧
    blockAt (allocStep s prev nb chunk) nb = storeChunk (blockAt s nb) chunk ∧
    (∀ y, 0 ≤ y → y ≠ nb → blockAt (allocStep s prev nb chunk) y = blockAt s y) := by
  have hfl := WF_fatAt_lt s hwf nb hnb1
  have hdl := WF_blockAt_lt s hwf nb hnb1
  have hblen := blockAt_length s hwf nb hnb0 hnb1
  by_cases hp : prev = FAT_EOF
  · have hstep : allocStep s prev nb chunk
        = setBlock (setFat s nb FAT_EOF) nb (storeChunk (blockAt s nb) chunk) := by
      unfold allocStep
      simp only [hp, ne_eq, not_true_eq_false, if_false, blockAt_setFat]
    rw [hstep]
    refine ⟨WF_setBlock _ _ _ (WF_setFat _ _ _ hwf) (storeChunk_length _ _ hblen hc), ?_,
      fun h => absurd hp h, ?_, ?_, ?_⟩
    · rw [fatAt_setBlock]; exact fatAt_setFat_self _ _ _ hfl
    · intro y hy hne _
      rw [fatAt_setBlock, fatAt_setFat_ne _ _ _ _ (toNat_ne hnb0 hy (Ne.symm hne))]
    · exact blockAt_setBlock_self _ _ _ (by rw [setFat_Disk]; exact hdl)
    · intro y hy hne
      rw [blockAt_setBlock_ne _ _ _ _ (toNat_ne hnb0 hy (Ne.symm hne)), blockAt_setFat]
  · obtain ⟨hp0, hp1, hpf⟩ := hprev.resolve_left hp
    have hne : nb ≠ prev := fun e => hpf (e ▸ hfree)
    have hstep : allocStep s prev nb chunk
        = setBlock (setFat (setFat s nb FAT_EOF) prev nb) nb
            (storeChunk (blockAt s nb) chunk) := by
      unfold allocStep
      simp only [hp, ne_eq, not_false_eq_true, if_true, blockAt_setFat]
    rw [hstep]
    refine ⟨WF_setBlock _ _ _ (WF_setFat _ _ _ (WF_setFat _ _ _ hwf))
      (storeChunk_length _ _ hblen hc), ?_, ?_, ?_, ?_, ?_⟩
    · rw [fatAt_setBlock, fatAt_setFat_ne _ _ _ _ (toNat_ne hp0 hnb0 (Ne.symm hne))]
      exact fatAt_setFat_self _ _ _ hfl
    · intro _
      rw [fatAt_setBlock]
      exact fatAt_setFat_self _ _ _ (by
        have := WF_fatAt_lt s hwf prev hp1
        simpa [setFat] using this)
    · intro y hy hne1 hne2
      rw [fatAt_setBlock, fatAt_setFat_ne _ _ _ _ (toNat_ne hp0 hy (Ne.symm hne2)),
        fatAt_setFat_ne _ _ _ _ (toNat_ne hnb0 hy (Ne.symm hne1))]
    · exact blockAt_setBlock_self _ _ _ (by rw [setFat_Disk, setFat_Disk]; exact hdl)
    · intro y hy hne1
      rw [blockAt_setBlock_ne _ _ _ _ (toNat_ne hnb0 hy (Ne.symm hne1)), blockAt_setFat,
        blockAt_setFat]

theorem dataChunk_length_le (data : List Nat) (i : Nat) :
    (dataChunk data i).length ≤ BLOCK_SIZE := by
  unfold dataChunk
  dsimp only
  rw [List.length_take, List.length_drop, Nat.add_mul, Nat.one_mul]
  split <;> omega

theorem allocLoop_step (data : List Nat) (todo i : Nat) (s : FSState) (alloc : List Int)
    (first prev : Int) (blocks : List Int)
    (first2 : Int) (s2 : FSState)
    (h : allocLoop data (todo + 1) i s alloc first prev = (s2, some (blocks, first2))) :
    ∃ nb, findFreeBlock s = .ok nb ∧
      allocLoop data todo (i + 1) (allocStep s prev nb (dataChunk data i)) (alloc ++ [nb])
        (if i = 0 then nb else first) nb = (s2, some (blocks, first2)) := by
  unfold allocLoop at h
  split at h
  · rename_i nb hnb
    exact ⟨nb, hnb, h⟩
  · simp at h

/-- The allocation loop of `WriteToFile`, when it does not run out of blocks, leaves a chain
that holds the data from chunk `i` on; it changes only blocks that were free, and the link of
the previously allocated block. -/
theorem allocLoop_holds (data : List Nat) (todo : Nat) :
    ∀ (i : Nat) (s s2 : FSState) (alloc blocks : List Int) (first prev first2 : Int),
    s.WF →
    (prev = FAT_EOF ∨ (0 ≤ prev ∧ prev < (TOTAL_BLOCKS : Int) ∧ fatAt s prev ≠ FAT_FREE)) →
    i * BLOCK_SIZE < data.length → data.length ≤ (i + todo) * BLOCK_SIZE →
    (i + todo - 1) * BLOCK_SIZE < data.length →
    allocLoop data todo i s alloc first prev = (s2, some (blocks, first2)) →
    ∃ nb rest, blocks = alloc ++ nb :: rest ∧
      holdsData s2 nb (data.drop (i * BLOCK_SIZE)) (nb :: rest) ∧
      (prev ≠ FAT_EOF → fatAt s2 prev = nb) ∧
      first2 = (if i = 0 then nb else first) ∧ s2.WF ∧
      (∀ y ∈ nb :: rest, fatAt s y = FAT_FREE ∧ 0 ≤ y) ∧
      (∀ y, 0 ≤ y → fatAt s y ≠ FAT_FREE →
        blockAt s2 y = blockAt s y ∧ (y ≠ prev → fatAt s2 y = fatAt s y)) := by
  induction todo with
  | zero =>
    intro i s s2 alloc blocks first prev first2 _ _ h1 h2
    simp only [BLOCK_SIZE] at h1 h2
    omega
  | succ k ih =>
    intro i s s2 alloc blocks first prev first2 hwf hprev hlo hhi hexact h
    have hlo' : i * 256 < data.length := hlo
    have hhi' : data.length ≤ (i + (k + 1)) * 256 := hhi
    have hexact' : (i + (k + 1) - 1) * 256 < data.length := hexact
    have e256 : BLOCK_SIZE = 256 := rfl
    obtain ⟨nb, hfb, hrec⟩ := allocLoop_step data k i s alloc first prev blocks
      first2 s2 h
    obtain ⟨hnb0, hnb1, hfree, _⟩ := findFreeBlock_ok s nb hfb
    have hnt := inRange_not_endsWalk nb hnb0 hnb1
    obtain ⟨hwf3, hf3nb, hf3prev, hf3other, hb3nb, hb3other⟩ :=
      allocStep_facts s hwf prev nb (dataChunk data i) (dataChunk_length_le data i) hnb0 hnb1
        hfree hprev
    have hblen := blockAt_length s hwf nb hnb0 hnb1
    have hnbprev : prev ≠ FAT_EOF → nb ≠ prev := by
      intro hp e
      exact (hprev.resolve_left hp).2.2 (e ▸ hfree)
    -- the frame of one step
    have hframe3 : ∀ y, 0 ≤ y → fatAt s y ≠ FAT_FREE →
        fatAt (allocStep s prev nb (dataChunk data i)) y ≠ FAT_FREE ∧
        blockAt (allocStep s prev nb (dataChunk data i)) y = blockAt s y ∧
        (y ≠ prev → fatAt (allocStep s prev nb (dataChunk data i)) y = fatAt s y) := by
      intro y hy hyf
      have hyn : y ≠ nb := fun e => hyf (e ▸ hfree)
      refine ⟨?_, hb3other y hy hyn, fun hyp => hf3other y hy hyn hyp⟩
      by_cases hyp : y = prev
      · have hpe : prev ≠ FAT_EOF := by
          intro e; rw [hyp, e] at hy; unfold FAT_EOF at hy; omega
        rw [hyp, hf3prev hpe]
        unfold FAT_FREE; omega
      · rw [hf3other y hy hyn hyp]; exact hyf
    cases k with
    | zero =>
      unfold allocLoop at hrec
      simp only [Prod.mk.injEq, Option.some.injEq] at hrec
      obtain ⟨hs, hbl, hfi⟩ := hrec
      subst hs
      have hlast := dataChunk_last data i (by rw [e256]; omega)
      have hdl : (data.drop (i * BLOCK_SIZE)).length = data.length - i * 256 :=
        List.length_drop _ _
      refine ⟨nb, [], hbl.symm, ⟨rfl, hnt, by rw [hdl]; omega, by rw [hdl, e256]; omega, ?_⟩,
        hf3prev, hfi.symm, hwf3, ?_, ?_⟩
      · rw [hb3nb, hlast]
        exact storeChunk_take _ _ hblen (by rw [hdl, e256]; omega)
      · intro y hy
        rw [List.mem_singleton] at hy
        subst hy
        exact ⟨hfree, hnb0⟩
      · intro y hy hyf
        exact (hframe3 y hy hyf).2
    | succ k =>
      have hlo2' : (i + 1) * 256 < data.length := by omega
      have hlo2 : (i + 1) * BLOCK_SIZE < data.length := hlo2'
      obtain ⟨nb2, rest2, hbl, hhold, hlink, hfi, hwf2, hnewfree, hframe⟩ :=
        ih (i + 1) _ s2 (alloc ++ [nb]) blocks (if i = 0 then nb else first) nb first2 hwf3
          (Or.inr ⟨hnb0, hnb1, by rw [hf3nb]; decide⟩) hlo2
          (by rw [show i + 1 + (k + 1) = i + (k + 1 + 1) by omega]; exact hhi)
          (by rw [show i + 1 + (k + 1) - 1 = i + (k + 1 + 1) - 1 by omega]; exact hexact)
          hrec
      have hnbeof : nb ≠ FAT_EOF := by unfold FAT_EOF; omega
      have hfull := dataChunk_full data i (le_of_lt hlo2)
      have hdl : (data.drop (i * BLOCK_SIZE)).length = data.length - i * 256 :=
        List.length_drop _ _
      have hnbblk : blockAt s2 nb = storeChunk (blockAt s nb) (dataChunk data i) := by
        rw [(hframe nb hnb0 (by rw [hf3nb]; decide)).1, hb3nb]
      have hclen : (dataChunk data i).length = BLOCK_SIZE := by
        rw [hfull, List.length_take, hdl, e256]
        omega
      refine ⟨nb, nb2 :: rest2, by rw [hbl]; simp, ⟨rfl, hnt, ?_, ?_, hlink hnbeof, ?_⟩, ?_,
        ?_, hwf2, ?_, ?_⟩
      · rw [hdl, e256]; omega
      · rw [hnbblk, ← hfull]
        have := storeChunk_take (blockAt s nb) (dataChunk data i) hblen (le_of_eq hclen)
        rw [hclen] at this
        exact this
      · rw [List.drop_drop]
        rw [show i * BLOCK_SIZE + BLOCK_SIZE = (i + 1) * BLOCK_SIZE by
          rw [Nat.add_mul, Nat.one_mul]]
        exact hhold
      · intro hp
        have hp0 := (hprev.resolve_left hp).1
        rw [(hframe prev hp0 (by rw [hf3prev hp]; unfold FAT_FREE; omega)).2
          (Ne.symm (hnbprev hp)), hf3prev hp]
      · rw [hfi]; simp
      · intro y hy
        rcases List.mem_cons.1 hy with rfl | hy
        · exact ⟨hfree, hnb0⟩
        · obtain ⟨hyf, hy0⟩ := hnewfree y hy
          refine ⟨?_, hy0⟩
          have hyn : y ≠ nb := by
            intro e; rw [e, hf3nb] at hyf; exact absurd hyf (by decide)
          have hyp : y ≠ prev := by
            intro e
            have hpe : prev ≠ FAT_EOF := by
              intro e2; rw [e, e2] at hy0; unfold FAT_EOF at hy0; omega
            rw [e, hf3prev hpe] at hyf
            unfold FAT_FREE at hyf; omega
          rw [← hf3other y hy0 hyn hyp]; exact hyf
      · intro y hy hyf
        obtain ⟨h3f, h3b, h3fat⟩ := hframe3 y hy hyf
        have hyn : y ≠ nb := fun e => hyf (e ▸ hfree)
        obtain ⟨hb2, hf2⟩ := hframe y hy h3f
        exact ⟨by rw [hb2, h3b], fun hyp => by rw [hf2 hyn, h3fat hyp]⟩

/-! ## updateEntryInDirectory -/

theorem updateLoop_ok_shape (s s2 : FSState) (bytes name : List Nat) (fuel : Nat) (cur : Int)
    (h : updateLoop s bytes name fuel cur = (s2, .ok ())) :
    ∃ q blk, q ∈ chainOf s fuel cur ∧ s2 = setBlock s q blk := by
  induction fuel generalizing cur with
  | zero => simp [updateLoop] at h
  | succ fuel ih =>
    unfold updateLoop at h
    split at h
    · simp at h
    split at h
    · simp at h
    rename_i h1 h2
    have ht : ¬ endsWalk cur := by rw [endsWalk_iff]; tauto
    split at h
    · simp only [Prod.mk.injEq, and_true] at h
      refine ⟨cur, _, ?_, h.symm⟩
      unfold chainOf; rw [if_neg ht]; exact List.mem_cons_self _ _
    · simp at h
    · obtain ⟨q, blk, hq, hs2⟩ := ih _ h
      refine ⟨q, blk, ?_, hs2⟩
      unfold chainOf; rw [if_neg ht]; exact List.mem_cons_of_mem _ hq

theorem updateEntry_ok_shape (s s2 : FSState) (p : Int) (e : DirectoryEntry)
    (h : updateEntryInDirectory s p e = (s2, .ok ())) :
    ∃ q blk, q ∈ chainOf s walkFuel p ∧ s2 = setBlock s q blk := by
  unfold updateEntryInDirectory at h
  split at h
  · simp at h
  split at h
  · split at h
    · simp at h
    · exact updateLoop_ok_shape _ _ _ _ _ _ h
  · simp at h

/-! ## WriteToFile -/

/-- What `WriteToFile` has done when it returns success. -/
theorem writeToFile_ok_inv (s s3 : FSState) (f f2 : DirectoryEntry) (p : Int)
    (data : List Nat) (now : Int) (h : WriteToFile s f p data now = (s3, f2, .ok ())) :
    f.EntryType = TYPE_FILE ∧ (∃ nm, nameOf f.Name = some nm) ∧
    (releasedOld s f).2 = .ok () ∧
    (data.length = 0 →
      f2 = { f with StartBlock := FAT_EOF, Size := 0, ModTime := now }) ∧
    (data.length ≠ 0 → ∃ s2 blocks first,
      allocLoop data ((data.length + BLOCK_SIZE - 1) / BLOCK_SIZE) 0 (releasedOld s f).1 []
        FAT_EOF FAT_EOF = (s2, some (blocks, first)) ∧
      f2 = { f with StartBlock := first, Size := data.length, ModTime := now } ∧
      updateEntryInDirectory s2 p f2 = (s3, .ok ())) := by
  unfold WriteToFile at h
  split at h
  · simp at h
  rename_i hty
  split at h
  · simp at h
  split at h
  · simp at h
  rename_i nm hnm
  have hty2 : f.EntryType = TYPE_FILE := by
    by_contra hc; exact hty hc
  refine ⟨hty2, ⟨nm, hnm⟩, ?_⟩
  dsimp only at h
  generalize releasedOld s f = rel at h ⊢
  obtain ⟨s1, r1⟩ := rel
  cases r1 with
  | err e => simp at h
  | panic => simp at h
  | diverge => simp at h
  | ok u =>
    dsimp only at h ⊢
    refine ⟨rfl, ?_, ?_⟩
    · intro hlen
      rw [if_pos hlen] at h
      simp only [Prod.mk.injEq] at h
      exact h.2.1.symm
    · intro hlen
      rw [if_neg hlen] at h
      split at h
      · simp at h
      · rename_i s2 blocks first halloc
        refine ⟨s2, blocks, first, halloc, ?_⟩
        generalize hup : updateEntryInDirectory s2 p
          { f with StartBlock := first, Size := data.length, ModTime := now } = up at h
        obtain ⟨s4, r4⟩ := up
        cases r4 with
        | ok u2 =>
          simp only [Prod.mk.injEq, and_true] at h
          obtain ⟨hs, hf⟩ := h
          subst hs
          rw [← hf]
          exact ⟨rfl, hup⟩
        | err e => simp at h
        | panic => simp at h
        | diverge => simp at h

theorem releasedOld_frame (s : FSState) (f : DirectoryEntry) (y : Int) (hy : 0 ≤ y)
    (h : y ∉ chainOf s walkFuel f.StartBlock) :
    fatAt (releasedOld s f).1 y = fatAt s y := by
  unfold releasedOld
  split
  · exact freeBlockChain_frame s _ y hy h
  · rfl

theorem releasedOld_WF (s : FSState) (f : DirectoryEntry) (h : s.WF) :
    (releasedOld s f).1.WF := by
  unfold releasedOld
  split
  · exact freeBlockChain_WF s _ h
  · exact h

/-- C1 (as amended): in a state where the blocks of the chain of directory `p` are allocated
and none of them lies on the chain of the file entry `f`, for every byte sequence `data`: if
`WriteToFile(f, p, data)` returns success, then `ReadFromFile` applied to the mutated entry
returns exactly `data`. -/
theorem C1_write_then_read (s s3 : FSState) (f f2 : DirectoryEntry) (p : Int)
    (data : List Nat) (now : Int) (hwf : s.WF)
    (hdir : ∀ y ∈ chainOf s walkFuel p,
      fatAt s y ≠ FAT_FREE ∧ y ∉ chainOf s walkFuel f.StartBlock)
    (h : WriteToFile s f p data now = (s3, f2, .ok ())) :
    ReadFromFile s3 f2 = .ok data := by
  obtain ⟨hty, ⟨nm, hnm⟩, _, hempty, hfull⟩ := writeToFile_ok_inv s s3 f f2 p data now h
  by_cases hlen : data.length = 0
  · rw [hempty hlen]
    unfold ReadFromFile
    dsimp only
    rw [if_neg (by rw [hty]; decide), hnm]
    dsimp only
    rw [if_pos rfl, List.length_eq_zero.1 hlen]
  · obtain ⟨s2, blocks, first, halloc, hf2, hup⟩ := hfull hlen
    have hwf1 := releasedOld_WF s f hwf
    have e256 : BLOCK_SIZE = 256 := rfl
    have hpos : 0 < data.length := Nat.pos_of_ne_zero hlen
    obtain ⟨nb, rest, _, hhold, _, hfirst, hwf2, hnewfree, hframe⟩ :=
      allocLoop_holds data _ 0 _ s2 [] blocks FAT_EOF FAT_EOF first hwf1 (Or.inl rfl)
        (by rw [e256]; omega) (by rw [e256]; omega) (by rw [e256]; omega) halloc
    rw [if_pos rfl] at hfirst
    rw [Nat.zero_mul, List.drop_zero] at hhold
    -- the chain of the parent directory is untouched by the release and the allocation
    have hchainfat : ∀ y ∈ chainOf s walkFuel p,
        0 ≤ y ∧ fatAt (releasedOld s f).1 y ≠ FAT_FREE ∧ fatAt s2 y = fatAt s y := by
      intro y hy
      have hy0 := (not_endsWalk y (chainOf_mem_not_endsWalk s _ _ y hy)).2.2.1
      obtain ⟨hyf, hyn⟩ := hdir y hy
      have h1 : fatAt (releasedOld s f).1 y = fatAt s y := releasedOld_frame s f y hy0 hyn
      refine ⟨hy0, by rw [h1]; exact hyf, ?_⟩
      rw [(hframe y hy0 (by rw [h1]; exact hyf)).2 (by unfold FAT_EOF; omega), h1]
    have hchain : chainOf s2 walkFuel p = chainOf s walkFuel p :=
      chainOf_agree s s2 walkFuel p (fun y hy => (hchainfat y hy).2.2)
    obtain ⟨q, blk, hq, hs3⟩ := updateEntry_ok_shape s2 s3 p f2 hup
    rw [hchain] at hq
    obtain ⟨hq0, hqf, _⟩ := hchainfat q hq
    have hhold3 : holdsData s3 nb data (nb :: rest) := by
      apply holdsData_agree s2 s3 _ _ _ _ hhold
      intro y hy
      obtain ⟨hyfree, hy0⟩ := hnewfree y hy
      have hne : q ≠ y := fun e => hqf (e ▸ hyfree)
      rw [hs3]
      exact ⟨rfl, blockAt_setBlock_ne _ _ _ _ (toNat_ne hq0 hy0 hne)⟩
    have hnt : ¬ endsWalk nb := by
      cases rest with
      | nil => exact hhold3.2.1
      | cons b2 rest => exact hhold3.2.1
    obtain ⟨hn1, hn2, _, _⟩ := not_endsWalk nb hnt
    rw [hf2, hfirst]
    unfold ReadFromFile
    dsimp only
    rw [if_neg (by rw [hty]; decide), hnm]
    dsimp only
    rw [if_neg (by omega), if_neg (by
      intro hc
      rcases hc with hc | hc | hc | hc
      · exact hn1 (Or.inl hc)
      · exact hn1 (Or.inr hc)
      · exact hn2 (Or.inl hc)
      · exact hn2 (Or.inr hc))]
    exact readLoop_holdsData s3 _ nb data _ hhold3 (by simp)

set_option maxRecDepth 1000000 in
/-- C1 as stated fails: from the formatted disk `CreateFile(0, "x")` succeeds and makes block 0
both the directory block that lists "x" and the data block of "x". Writing 49 bytes that look
like an entry named "x" succeeds, but `updateEntryInDirectory` then overwrites these bytes in
block 0 with the new entry, and `ReadFromFile` returns the overwritten bytes (bytes 33 and 41
differ). -/
theorem C1_counterexample :
    (CreateFile (FormatDisk ⟨[], []⟩ 0 0).1 0 [120] 7).2 = .ok () ∧
    ListEntries (CreateFile (FormatDisk ⟨[], []⟩ 0 0).1 0 [120] 7).1 0
      = .ok [⟨mkName [120], TYPE_FILE, 0, 0, 7⟩] ∧
    (WriteToFile (CreateFile (FormatDisk ⟨[], []⟩ 0 0).1 0 [120] 7).1
      ⟨mkName [120], TYPE_FILE, 0, 0, 7⟩ 0 (entryBytes ⟨mkName [120], TYPE_FILE, 0, 0, 0⟩)
      9).2.2 = .ok () ∧
    ReadFromFile
      (WriteToFile (CreateFile (FormatDisk ⟨[], []⟩ 0 0).1 0 [120] 7).1
        ⟨mkName [120], TYPE_FILE, 0, 0, 7⟩ 0 (entryBytes ⟨mkName [120], TYPE_FILE, 0, 0, 0⟩)
        9).1
      (WriteToFile (CreateFile (FormatDisk ⟨[], []⟩ 0 0).1 0 [120] 7).1
        ⟨mkName [120], TYPE_FILE, 0, 0, 7⟩ 0 (entryBytes ⟨mkName [120], TYPE_FILE, 0, 0, 0⟩)
        9).2.1
      = .ok (entryBytes ⟨mkName [120], TYPE_FILE, 0, 49, 9⟩) ∧
    entryBytes ⟨mkName [120], TYPE_FILE, 0, 49, 9⟩
      ≠ entryBytes ⟨mkName [120], TYPE_FILE, 0, 0, 0⟩ := by
  decide

set_option maxRecDepth 1000000 in
/-- C1 (as amended) on the formatted disk: "a" created in the root, then 300 bytes written
and read back. -/
theorem C1_write_then_read_witness :
    (CreateFile (FormatDisk ⟨[], []⟩ 0 0).1 1 [97] 7).1.WF ∧
    (∀ y ∈ chainOf (CreateFile (FormatDisk ⟨[], []⟩ 0 0).1 1 [97] 7).1 walkFuel 1,
      fatAt (CreateFile (FormatDisk ⟨[], []⟩ 0 0).1 1 [97] 7).1 y ≠ FAT_FREE ∧
      y ∉ chainOf (CreateFile (FormatDisk ⟨[], []⟩ 0 0).1 1 [97] 7).1 walkFuel
        (DirectoryEntry.mk (mkName [97]) TYPE_FILE 0 0 7).StartBlock) ∧
    (WriteToFile (CreateFile (FormatDisk ⟨[], []⟩ 0 0).1 1 [97] 7).1
      ⟨mkName [97], TYPE_FILE, 0, 0, 7⟩ 1 (List.replicate 300 171) 9).2.2 = .ok () ∧
    ReadFromFile
      (WriteToFile (CreateFile (FormatDisk ⟨[], []⟩ 0 0).1 1 [97] 7).1
        ⟨mkName [97], TYPE_FILE, 0, 0, 7⟩ 1 (List.replicate 300 171) 9).1
      (WriteToFile (CreateFile (FormatDisk ⟨[], []⟩ 0 0).1 1 [97] 7).1
        ⟨mkName [97], TYPE_FILE, 0, 0, 7⟩ 1 (List.replicate 300 171) 9).2.1
      = .ok (List.replicate 300 171) :=
  ⟨by decide, by decide, by decide,
    C1_write_then_read (CreateFile (FormatDisk ⟨[], []⟩ 0 0).1 1 [97] 7).1 _
      ⟨mkName [97], TYPE_FILE, 0, 0, 7⟩ _ 1 (List.replicate 300 171) 9 (by decide) (by decide)
      (Prod.ext rfl (Prod.ext rfl (by decide)))⟩

/-! ## C17: the refusals of DeleteEntry -/

theorem realEntryCount_pos (subs : List DirectoryEntry)
    (h : ∃ x ∈ subs, safeName x.Name ≠ [46] ∧ safeName x.Name ≠ [46, 46]) :
    realEntryCount subs > 0 := by
  obtain ⟨x, hx, h1, h2⟩ := h
  unfold realEntryCount
  apply List.length_pos_of_mem (a := x)
  simp only [List.mem_filter, decide_eq_true_eq]
  exact ⟨hx, h1, h2⟩

theorem listEntries_ok_start (s : FSState) (b : Int) (subs : List DirectoryEntry)
    (h : ListEntries s b = .ok subs) (hne : subs ≠ []) :
    ¬ (b = FAT_FREE ∨ b = FAT_EOF ∨ b < 0 ∨ b ≥ (TOTAL_BLOCKS : Int)) := by
  intro hb
  unfold ListEntries at h
  by_cases hf : b = FAT_FREE
  · rw [if_pos hf] at h
    injection h with h
    exact hne h.symm
  · rw [if_neg hf] at h
    have hr : b < 0 ∨ b ≥ (TOTAL_BLOCKS : Int) := by
      rcases hb with hb | hb | hb | hb
      · exact absurd hb hf
      · left; rw [hb]; decide
      · exact Or.inl hb
      · exact Or.inr hb
    rw [if_pos hr] at h
    cases h

/-- `DeleteEntry` returns an error and leaves the disk and the FAT as they were when the
name is empty, when it is "." or ".." (error `reservedName`), and when the entry the name
denotes (the one the search of the parent listing returns) is a directory whose own listing
holds an entry other than "." and ".." (error `directoryNotEmpty`). -/
theorem delete_refusals (s : FSState) (p : Int) (name : List Nat) :
    (name = [] → DeleteEntry s p name = (s, .err .nameEmpty)) ∧
    (name = [46] ∨ name = [46, 46] → DeleteEntry s p name = (s, .err .reservedName)) ∧
    (∀ (entries : List DirectoryEntry) (e : DirectoryEntry) (subs : List DirectoryEntry),
      name ≠ [] → name ≠ [46] → name ≠ [46, 46] →
      ListEntries s p = .ok entries → findEntry name entries = .ok (some e) →
      e.EntryType = TYPE_DIRECTORY → ListEntries s e.StartBlock = .ok subs →
      (∃ x ∈ subs, safeName x.Name ≠ [46] ∧ safeName x.Name ≠ [46, 46]) →
      DeleteEntry s p name = (s, .err .directoryNotEmpty)) := by
  refine ⟨?_, ?_, ?_⟩
  · intro h
    subst h
    rfl
  · intro h
    unfold DeleteEntry
    have h0 : name.length ≠ 0 := by
      rcases h with h | h <;> rw [h] <;> decide
    rw [if_neg h0, if_pos h]
  · intro entries e subs hne h1 h2 hl hf ht hsub hx
    have h0 : name.length ≠ 0 := by
      intro h
      exact hne (List.length_eq_zero.mp h)
    have hdots : ¬ (name = [46] ∨ name = [46, 46]) := by
      rintro (h | h)
      · exact h1 h
      · exact h2 h
    have hsne : subs ≠ [] := by
      obtain ⟨x, hx, _⟩ := hx
      exact List.ne_nil_of_mem hx
    have hstart := listEntries_ok_start s e.StartBlock subs hsub hsne
    have hcnt := realEntryCount_pos subs hx
    have htf : e.EntryType ≠ TYPE_FILE := by
      rw [ht]; decide
    unfold DeleteEntry
    rw [if_neg h0, if_neg hdots]
    simp only [hl, hf, if_neg htf, if_pos ht, if_neg hstart, hsub, if_pos hcnt]

/-! ## C15: the checks of ReadFromFile -/

theorem readLoop_err (s : FSState) (fuel : Nat) (n cur : Int) (e : FsError)
    (h : readLoop s fuel n cur = .err e) : e = .corruptChain := by
  induction fuel generalizing n cur with
  | zero => cases h
  | succ fuel ih =>
    unfold readLoop at h
    split at h
    · split at h
      · injection h with h
        exact h.symm
      · dsimp only at h
        split at h
        · cases h
        · exact ih _ _ h
    · cases h

theorem nameOf_eq_none (name : List Nat) : nameOf name = none ↔ 0 ∉ name := by
  unfold nameOf
  by_cases h : 0 ∈ name
  · simp [h]
  · simp [h]

/-- C15: `ReadFromFile` returns the error `notAFile` exactly when the entry is not a file. For a
file entry whose name holds a zero byte it returns the empty buffer when `Size` is 0, whatever
`StartBlock` is, and the error `inconsistentMetadata` when `Size` is positive and `StartBlock`
is `FAT_EOF`, `FAT_FREE` or outside the disk. For a file entry whose 28 name bytes are all
non-zero it aborts before `Size` is looked at: the slice `Name[:IndexByte(Name, 0)]` taken for
the log line has the bound -1. The function is a function of the state alone: the source
assigns neither `Disk` nor `FAT`. -/
theorem C15_read_checks (s : FSState) (e : DirectoryEntry) :
    (ReadFromFile s e = .err .notAFile ↔ e.EntryType ≠ TYPE_FILE) ∧
    (e.EntryType = TYPE_FILE → 0 ∈ e.Name → e.Size = 0 → ReadFromFile s e = .ok []) ∧
    (e.EntryType = TYPE_FILE → 0 ∈ e.Name → e.Size > 0 →
      (e.StartBlock = FAT_EOF ∨ e.StartBlock = FAT_FREE ∨ e.StartBlock < 0
        ∨ e.StartBlock ≥ (TOTAL_BLOCKS : Int)) →
      ReadFromFile s e = .err .inconsistentMetadata) ∧
    (e.EntryType = TYPE_FILE → 0 ∉ e.Name → ReadFromFile s e = .panic) := by
  refine ⟨⟨?_, ?_⟩, ?_, ?_, ?_⟩
  · intro h ht
    unfold ReadFromFile at h
    rw [if_neg (not_not.mpr ht)] at h
    split at h
    · cases h
    · split at h
      · cases h
      · split at h
        · split at h
          · cases h
          · cases h
        · have := readLoop_err _ _ _ _ _ h
          cases this
  · intro ht
    unfold ReadFromFile
    rw [if_pos ht]
  · intro ht hn hs
    unfold ReadFromFile
    rw [if_neg (not_not.mpr ht)]
    have : ∃ nm, nameOf e.Name = some nm := by
      unfold nameOf
      rw [if_pos hn]
      exact ⟨_, rfl⟩
    obtain ⟨nm, hnm⟩ := this
    simp only [hnm, if_pos hs]
  · intro ht hn hs hb
    unfold ReadFromFile
    rw [if_neg (not_not.mpr ht)]
    have : ∃ nm, nameOf e.Name = some nm := by
      unfold nameOf
      rw [if_pos hn]
      exact ⟨_, rfl⟩
    obtain ⟨nm, hnm⟩ := this
    have hs0 : e.Size ≠ 0 := by omega
    simp only [hnm, if_neg hs0, if_pos hb, if_pos hs]
  · intro ht hn
    unfold ReadFromFile
    rw [if_neg (not_not.mpr ht)]
    have : nameOf e.Name = none := (nameOf_eq_none _).mpr hn
    simp only [this]

theorem C15_read_checks_witness :
    (⟨List.replicate 28 97, TYPE_FILE, FAT_EOF, 0, 0⟩ : DirectoryEntry).WF ∧
    ReadFromFile (FormatDisk ⟨[], []⟩ 0 0).1 ⟨List.replicate 28 97, TYPE_FILE, FAT_EOF, 0, 0⟩
      = .panic :=
  ⟨by decide,
    (C15_read_checks (FormatDisk ⟨[], []⟩ 0 0).1
      ⟨List.replicate 28 97, TYPE_FILE, FAT_EOF, 0, 0⟩).2.2.2 (by decide) (by decide)⟩

/-! ## C16: ReadFromFile along a chain -/

theorem chainOf_length (s : FSState) (k : Nat) (cur : Int) (h : endsIn s k cur) :
    (chainOf s k cur).length = k := by
  induction k generalizing cur with
  | zero => rfl
  | succ k ih =>
    obtain ⟨h1, h2⟩ := h
    unfold chainOf
    rw [if_neg h1, List.length_cons, ih _ h2]

theorem blocksBytes_length (s : FSState) (hwf : s.WF) (bs : List Int)
    (h : ∀ b ∈ bs, ¬ endsWalk b) : (blocksBytes s bs).length = bs.length * BLOCK_SIZE := by
  induction bs with
  | nil => simp [blocksBytes]
  | cons b rest ih =>
    have hb := not_endsWalk b (h b (List.mem_cons_self _ _))
    have hl := blockAt_length s hwf b hb.2.2.1 hb.2.2.2
    unfold blocksBytes
    rw [List.length_append, hl, ih (fun y hy => h y (List.mem_cons_of_mem _ hy)),
      List.length_cons]
    ring

theorem readLoop_chain (s : FSState) (hwf : s.WF) (k : Nat) :
    ∀ (cur n : Int) (fuel : Nat), endsIn s k cur →
      (nthBlock s k cur = FAT_EOF ∨ nthBlock s k cur = FAT_FREE) → 0 ≤ n → n.toNat + 1 ≤ fuel →
      readLoop s fuel n cur = .ok ((blocksBytes s (chainOf s k cur)).take n.toNat) := by
  induction k with
  | zero =>
    intro cur n fuel _ hend _ hf
    obtain ⟨fuel, rfl⟩ : ∃ f, fuel = f + 1 := ⟨fuel - 1, by omega⟩
    have hc : ¬ (n > 0 ∧ cur ≠ FAT_EOF ∧ cur ≠ FAT_FREE) := by
      rintro ⟨_, h1, h2⟩
      rcases hend with h | h
      · exact h1 h
      · exact h2 h
    unfold readLoop
    rw [if_neg hc]
    simp [chainOf, blocksBytes]
  | succ k ih =>
    intro cur n fuel hk hend hn hf
    obtain ⟨fuel, rfl⟩ : ∃ f, fuel = f + 1 := ⟨fuel - 1, by omega⟩
    obtain ⟨h1, h2⟩ := hk
    have hb := not_endsWalk cur h1
    have hl : (blockAt s cur).length = 256 := blockAt_length s hwf cur hb.2.2.1 hb.2.2.2
    have hch : chainOf s (k + 1) cur = cur :: chainOf s k (fatAt s cur) := by
      rw [chainOf, if_neg h1]
    rw [hch]
    have hbb : blocksBytes s (cur :: chainOf s k (fatAt s cur))
        = blockAt s cur ++ blocksBytes s (chainOf s k (fatAt s cur)) := rfl
    unfold readLoop
    by_cases hpos : n > 0
    · have hc : n > 0 ∧ cur ≠ FAT_EOF ∧ cur ≠ FAT_FREE :=
        ⟨hpos, fun h => hb.1 (Or.inl h), fun h => hb.1 (Or.inr h)⟩
      rw [if_pos hc, if_neg hb.2.1]
      dsimp only
      have e256 : (BLOCK_SIZE : Int) = 256 := rfl
      rw [e256]
      by_cases hlt : n < 256
      · rw [if_pos hlt]
        have := ih (fatAt s cur) (n - n) fuel h2 hend (by omega) (by omega)
        have h0 : (n - n).toNat = 0 := by omega
        rw [this, h0, List.take_zero]
        dsimp only
        rw [List.append_nil, hbb]
        rw [List.take_append_of_le_length (by omega)]
      · rw [if_neg hlt]
        have := ih (fatAt s cur) (n - 256) fuel h2 hend (by omega) (by omega)
        rw [this]
        dsimp only
        rw [hbb]
        have h256 : (256 : Int).toNat = 256 := rfl
        rw [h256]
        have hge : (blockAt s cur).length ≤ n.toNat := by omega
        rw [List.take_append_eq_append_take, List.take_of_length_le hge, hl,
          List.take_of_length_le (by omega : (blockAt s cur).length ≤ 256)]
        have : (n - 256).toNat = n.toNat - 256 := by omega
        rw [this]
    · have hc : ¬ (n > 0 ∧ cur ≠ FAT_EOF ∧ cur ≠ FAT_FREE) := fun h => hpos h.1
      rw [if_neg hc]
      have h0 : n.toNat = 0 := by omega
      rw [h0, List.take_zero]

/-- C16: for a file entry with positive `Size` and a start block inside the disk whose walk
along the FAT visits `k` blocks inside the disk and then reaches `FAT_EOF` or `FAT_FREE`: when
the name holds a zero byte, `ReadFromFile` returns the first `min(Size, k * BLOCK_SIZE)` bytes
of the `k` blocks taken in chain order, so that a chain that ends before `Size` bytes were read
yields all the bytes of its blocks and no error; when the 28 name bytes are all non-zero the
call aborts in the slice `Name[:IndexByte(Name, 0)]` taken for the log line. -/
theorem C16_read_chain (s : FSState) (e : DirectoryEntry) (k : Nat) (hwf : s.WF)
    (ht : e.EntryType = TYPE_FILE) (hs : e.Size > 0)
    (hb : 0 ≤ e.StartBlock ∧ e.StartBlock < (TOTAL_BLOCKS : Int))
    (hk : endsIn s k e.StartBlock)
    (hend : nthBlock s k e.StartBlock = FAT_EOF ∨ nthBlock s k e.StartBlock = FAT_FREE) :
    (chainOf s k e.StartBlock).length = k ∧
    (0 ∈ e.Name →
      ReadFromFile s e = .ok ((blocksBytes s (chainOf s k e.StartBlock)).take
        (min e.Size.toNat (k * BLOCK_SIZE))) ∧
      (k * BLOCK_SIZE ≤ e.Size.toNat →
        ReadFromFile s e = .ok (blocksBytes s (chainOf s k e.StartBlock)))) ∧
    (0 ∉ e.Name → ReadFromFile s e = .panic) := by
  have hlen := chainOf_length s k e.StartBlock hk
  have hbl : (blocksBytes s (chainOf s k e.StartBlock)).length = k * BLOCK_SIZE := by
    rw [blocksBytes_length s hwf _ (fun b hb => chainOf_mem_not_endsWalk s _ _ _ hb), hlen]
  have hread : 0 ∈ e.Name → ReadFromFile s e
      = .ok ((blocksBytes s (chainOf s k e.StartBlock)).take e.Size.toNat) := by
    intro hn
    unfold ReadFromFile
    rw [if_neg (not_not.mpr ht)]
    have : ∃ nm, nameOf e.Name = some nm := by
      unfold nameOf
      rw [if_pos hn]
      exact ⟨_, rfl⟩
    obtain ⟨nm, hnm⟩ := this
    have hs0 : e.Size ≠ 0 := by omega
    have hnb : ¬ (e.StartBlock = FAT_EOF ∨ e.StartBlock = FAT_FREE ∨ e.StartBlock < 0
        ∨ e.StartBlock ≥ (TOTAL_BLOCKS : Int)) := by
      have := not_endsWalk _ (inRange_not_endsWalk _ hb.1 hb.2)
      rintro (h | h | h | h)
      · exact this.1 (Or.inl h)
      · exact this.1 (Or.inr h)
      · exact this.2.1 (Or.inl h)
      · exact this.2.1 (Or.inr h)
    simp only [hnm, if_neg hs0, if_neg hnb]
    exact readLoop_chain s hwf k _ _ _ hk hend (by omega) (le_refl _)
  refine ⟨hlen, ?_, ?_⟩
  · intro hn
    refine ⟨?_, ?_⟩
    · rw [hread hn]
      congr 1
      rw [← hbl]
      rcases Nat.le_total e.Size.toNat (blocksBytes s (chainOf s k e.StartBlock)).length with h | h
      · rw [Nat.min_eq_left h]
      · rw [Nat.min_eq_right h, List.take_of_length_le h, List.take_of_length_le (le_refl _)]
    · intro hle
      rw [hread hn, List.take_of_length_le (by rw [hbl]; exact hle)]
  · intro hn
    unfold ReadFromFile
    rw [if_neg (not_not.mpr ht)]
    have : nameOf e.Name = none := (nameOf_eq_none _).mpr hn
    simp only [this]

set_option maxRecDepth 1000000 in
theorem C16_read_chain_witness :
    (FormatDisk ⟨[], []⟩ 0 0).1.WF ∧
    (⟨List.replicate 28 97, TYPE_FILE, 1, 5, 0⟩ : DirectoryEntry).WF ∧
    endsIn (FormatDisk ⟨[], []⟩ 0 0).1 1 1 ∧
    nthBlock (FormatDisk ⟨[], []⟩ 0 0).1 1 1 = FAT_EOF ∧
    ReadFromFile (FormatDisk ⟨[], []⟩ 0 0).1 ⟨List.replicate 28 97, TYPE_FILE, 1, 5, 0⟩
      = .panic :=
  ⟨by decide, by decide, by decide, by decide,
    (C16_read_chain (FormatDisk ⟨[], []⟩ 0 0).1 ⟨List.replicate 28 97, TYPE_FILE, 1, 5, 0⟩ 1
      (by decide) (by decide) (by decide) (by decide) (by decide)
      (Or.inl (by decide))).2.2 (by decide)⟩

/-! ## C20: ChangeDirectory -/

theorem cdSearch_skip (target : List Nat) (l1 rest : List DirectoryEntry)
    (h : ∀ x ∈ l1, ∃ nm, nameOf x.Name = some nm ∧
      (nm ≠ target ∨ (target = [46, 46] ∧ x.EntryType ≠ TYPE_DIRECTORY))) :
    cdSearch target (l1 ++ rest) = cdSearch target rest := by
  induction l1 with
  | nil => rfl
  | cons x l1 ih =>
    obtain ⟨nm, hnm, hx⟩ := h x (List.mem_cons_self _ _)
    have ih2 := ih (fun y hy => h y (List.mem_cons_of_mem _ hy))
    show cdSearch target (x :: (l1 ++ rest)) = _
    rw [cdSearch]
    simp only [hnm]
    rcases hx with hx | ⟨h1, h2⟩
    · rw [if_neg hx, ih2]
    · by_cases hn : nm = target
      · rw [if_pos hn, if_neg h2, if_neg (not_not.mpr h1), ih2]
      · rw [if_neg hn, ih2]

theorem changeDirectory_state (s : FSState) (fs : Option FileSystem) (target : List Nat) :
    (ChangeDirectory s fs target).1 = s := by
  unfold ChangeDirectory
  repeat' split
  all_goals rfl

theorem changeDirectory_failure (s : FSState) (fs : Option FileSystem) (target : List Nat)
    (h : (ChangeDirectory s fs target).2.2 ≠ .ok ()) : (ChangeDirectory s fs target).2.1 = fs := by
  generalize hr : ChangeDirectory s fs target = r at h ⊢
  unfold ChangeDirectory at hr
  repeat' split at hr
  all_goals (subst hr; first | rfl | exact absurd rfl h)

/-- The search of `ChangeDirectory` aborts when it comes to a listed name without a zero byte
before it has met the entry that decides; the session and the state are left as they were. -/
theorem changeDirectory_aborts (s : FSState) (fs : FileSystem) (target : List Nat)
    (entries l1 l2 : List DirectoryEntry) (x : DirectoryEntry) (h1 : target ≠ [47])
    (h2 : target ≠ [46]) (hl : ListEntries s fs.CurrentDirectoryBlock = .ok entries)
    (he : entries = l1 ++ x :: l2)
    (hskip : ∀ y ∈ l1, ∃ nm, nameOf y.Name = some nm ∧
      (nm ≠ target ∨ (target = [46, 46] ∧ y.EntryType ≠ TYPE_DIRECTORY)))
    (hx : nameOf x.Name = none) :
    ChangeDirectory s (some fs) target = (s, some fs, .panic) := by
  have hsearch : cdSearch target entries = .panic := by
    rw [he, cdSearch_skip target l1 _ hskip, cdSearch, hx]
  unfold ChangeDirectory
  simp only [if_neg h1, if_neg h2, hl, hsearch]

/-- C20 (as amended): for a session `fs` and a target other than "/" and "." in a
state where the listing of the current directory succeeds. Names are read up to their first
zero byte, and in each case every entry listed before the deciding one has a name with a zero
byte. If the first listed entry named `target` is a directory (for the target "..": the first
directory among the entries named "..") and its `StartBlock` is inside the disk and not
`FAT_FREE` in the FAT, the call succeeds and the current block of the session becomes that
`StartBlock`. If the first listed entry named `target` is not a directory and the target is not
"..", the call fails with `notADirectory`. If every listed entry has a name with a zero byte,
other than `target`, it fails with `entryNotFound`. A call that does not succeed leaves the
session as it was, and no call changes the disk or the FAT. In the states left out, where an
entry whose name has no zero byte is listed before the deciding one, the call aborts (last
part). -/
theorem C20_change_directory (s : FSState) (fs : FileSystem) (target : List Nat)
    (entries : List DirectoryEntry) (h1 : target ≠ [47]) (h2 : target ≠ [46])
    (hl : ListEntries s fs.CurrentDirectoryBlock = .ok entries) :
    (∀ l1 e l2, entries = l1 ++ e :: l2 →
      (∀ x ∈ l1, ∃ nm, nameOf x.Name = some nm ∧
        (nm ≠ target ∨ (target = [46, 46] ∧ x.EntryType ≠ TYPE_DIRECTORY))) →
      nameOf e.Name = some target → e.EntryType = TYPE_DIRECTORY →
      0 ≤ e.StartBlock → e.StartBlock < (TOTAL_BLOCKS : Int) → fatAt s e.StartBlock ≠ FAT_FREE →
      ChangeDirectory s (some fs) target
        = (s, some { CurrentDirectoryBlock := e.StartBlock }, .ok ())) ∧
    (∀ l1 e l2, entries = l1 ++ e :: l2 → otherNames target l1 →
      nameOf e.Name = some target → e.EntryType ≠ TYPE_DIRECTORY → target ≠ [46, 46] →
      ChangeDirectory s (some fs) target = (s, some fs, .err .notADirectory)) ∧
    (otherNames target entries →
      ChangeDirectory s (some fs) target = (s, some fs, .err .entryNotFound)) ∧
    (∀ fs2 : Option FileSystem, (ChangeDirectory s fs2 target).2.2 ≠ .ok () →
      (ChangeDirectory s fs2 target).2.1 = fs2) ∧
    (∀ fs2 : Option FileSystem, (ChangeDirectory s fs2 target).1 = s) ∧
    (∀ l1 x l2, entries = l1 ++ x :: l2 →
      (∀ y ∈ l1, ∃ nm, nameOf y.Name = some nm ∧
        (nm ≠ target ∨ (target = [46, 46] ∧ y.EntryType ≠ TYPE_DIRECTORY))) →
      nameOf x.Name = none →
      ChangeDirectory s (some fs) target = (s, some fs, .panic)) := by
  refine ⟨?_, ?_, ?_, ?_, ?_,
    fun l1 x l2 he hskip hx =>
      changeDirectory_aborts s fs target entries l1 l2 x h1 h2 hl he hskip hx⟩
  · intro l1 e l2 he hskip hn ht hb1 hb2 hb3
    have hsearch : cdSearch target entries = .ok (some e) := by
      rw [he, cdSearch_skip target l1 _ hskip, cdSearch]
      simp only [hn, if_pos, if_pos ht]
    have hv : ¬ (e.StartBlock < 0 ∨ e.StartBlock ≥ (TOTAL_BLOCKS : Int)
        ∨ fatAt s e.StartBlock = FAT_FREE) := by
      rintro (h | h | h)
      · omega
      · omega
      · exact hb3 h
    unfold ChangeDirectory
    simp only [if_neg h1, if_neg h2, hl, hsearch, if_neg hv]
  · intro l1 e l2 he hskip hn ht hdd
    have hsearch : cdSearch target entries = .err .notADirectory := by
      rw [he, cdSearch_skip target l1 _ (fun x hx => by
        obtain ⟨nm, h1, h2⟩ := hskip x hx
        exact ⟨nm, h1, Or.inl h2⟩), cdSearch]
      simp only [hn, if_pos, if_neg ht, if_pos hdd]
    unfold ChangeDirectory
    simp only [if_neg h1, if_neg h2, hl, hsearch]
  · intro hskip
    have hsearch : cdSearch target entries = .ok none := by
      have := cdSearch_skip target entries [] (fun x hx => by
        obtain ⟨nm, h1, h2⟩ := hskip x hx
        exact ⟨nm, h1, Or.inl h2⟩)
      rw [List.append_nil] at this
      rw [this]
      rfl
    unfold ChangeDirectory
    simp only [if_neg h1, if_neg h2, hl, hsearch]
  · intro fs2 h
    exact changeDirectory_failure s fs2 target h
  · intro fs2
    exact changeDirectory_state s fs2 target

set_option maxRecDepth 1000000 in
/-- C20, counterexample to the claim as written: after `create_file(root, "a")` and
`create_directory(root, "a\x00b")` the root lists a directory entry that every reader names "a"
(the bytes before the first zero), with a start block inside the disk and allocated, and yet
`change_directory("a")` fails with `notADirectory`, because the file "a" is listed first. -/
theorem C20_counterexample :
    (CreateFile (FormatDisk ⟨[], []⟩ 0 0).1 1 [97] 0).2 = .ok () ∧
    (CreateDirectory (CreateFile (FormatDisk ⟨[], []⟩ 0 0).1 1 [97] 0).1 1 [97, 0, 98] 0 0 0).2
      = .ok () ∧
    ListEntries
      (CreateDirectory (CreateFile (FormatDisk ⟨[], []⟩ 0 0).1 1 [97] 0).1 1 [97, 0, 98] 0 0 0).1 1
      = .ok [⟨mkName [46], 1, 1, 0, 0⟩, ⟨mkName [46, 46], 1, 1, 0, 0⟩, ⟨mkName [97], 0, 0, 0, 0⟩,
          ⟨mkName [97, 0, 98], TYPE_DIRECTORY, 2, 98, 0⟩] ∧
    nameOf (mkName [97, 0, 98]) = some [97] ∧
    fatAt
      (CreateDirectory (CreateFile (FormatDisk ⟨[], []⟩ 0 0).1 1 [97] 0).1 1 [97, 0, 98] 0 0 0).1 2
      = FAT_EOF ∧
    ChangeDirectory
      (CreateDirectory (CreateFile (FormatDisk ⟨[], []⟩ 0 0).1 1 [97] 0).1 1 [97, 0, 98] 0 0 0).1
      (some ⟨1⟩) [97]
      = ((CreateDirectory (CreateFile (FormatDisk ⟨[], []⟩ 0 0).1 1 [97] 0).1 1 [97, 0, 98]
          0 0 0).1, some ⟨1⟩, .err .notADirectory) := by
  decide

set_option maxRecDepth 1000000 in
theorem C20_change_directory_witness :
    ListEntries (CreateDirectory (FormatDisk ⟨[], []⟩ 0 0).1 1 [100] 0 0 0).1 1
      = .ok ([⟨mkName [46], 1, 1, 0, 0⟩, ⟨mkName [46, 46], 1, 1, 0, 0⟩]
          ++ ⟨mkName [100], 1, 0, 98, 0⟩ :: []) ∧
    ChangeDirectory (CreateDirectory (FormatDisk ⟨[], []⟩ 0 0).1 1 [100] 0 0 0).1 (some ⟨1⟩) [100]
      = ((CreateDirectory (FormatDisk ⟨[], []⟩ 0 0).1 1 [100] 0 0 0).1, some ⟨0⟩, .ok ()) :=
  ⟨by decide,
    (C20_change_directory (CreateDirectory (FormatDisk ⟨[], []⟩ 0 0).1 1 [100] 0 0 0).1 ⟨1⟩ [100]
      ([⟨mkName [46], 1, 1, 0, 0⟩, ⟨mkName [46, 46], 1, 1, 0, 0⟩]
          ++ ⟨mkName [100], 1, 0, 98, 0⟩ :: [])
      (by decide) (by decide) (by decide)).1
      [⟨mkName [46], 1, 1, 0, 0⟩, ⟨mkName [46, 46], 1, 1, 0, 0⟩] ⟨mkName [100], 1, 0, 98, 0⟩ []
      rfl
      (by
        intro x hx
        rcases List.mem_cons.mp hx with h | h
        · exact ⟨[46], by rw [h]; decide, Or.inl (by decide)⟩
        · rcases List.mem_cons.mp h with h | h
          · exact ⟨[46, 46], by rw [h]; decide, Or.inl (by decide)⟩
          · cases h)
      (by decide) (by decide) (by decide) (by decide) (by decide)⟩

/-! ## Releasing a chain: what `freeBlockChain` leaves in the FAT -/

theorem fatAt_setFat_free_or (s : FSState) (cur i : Int) :
    fatAt (setFat s cur FAT_FREE) i = fatAt s i ∨ fatAt (setFat s cur FAT_FREE) i = FAT_FREE := by
  by_cases hi : cur.toNat = i.toNat
  · by_cases hl : cur.toNat < s.FAT.length
    · right
      unfold fatAt setFat
      dsimp only
      rw [← hi]
      exact getD_set_self _ _ _ _ hl
    · left
      unfold fatAt setFat
      dsimp only
      rw [List.set_eq_of_length_le (by omega)]
  · left
    exact fatAt_setFat_ne _ _ _ _ hi

theorem freeLoop_free_or (fuel : Nat) (s : FSState) (cur i : Int) :
    fatAt (freeLoop fuel s cur).1 i = fatAt s i ∨ fatAt (freeLoop fuel s cur).1 i = FAT_FREE := by
  induction fuel generalizing s cur with
  | zero => exact Or.inl rfl
  | succ fuel ih =>
    unfold freeLoop
    split
    · exact Or.inl rfl
    · split
      · exact Or.inl rfl
      · rcases ih (setFat s cur FAT_FREE) (fatAt s cur) with h | h
        · rw [h]
          exact fatAt_setFat_free_or s cur i
        · exact Or.inr h

theorem freeBlockChain_free_or (s : FSState) (start i : Int) :
    fatAt (freeBlockChain s start).1 i = fatAt s i
      ∨ fatAt (freeBlockChain s start).1 i = FAT_FREE := by
  unfold freeBlockChain
  split
  · split
    · exact Or.inl rfl
    · exact Or.inl rfl
  · exact freeLoop_free_or _ _ _ _

theorem releasedOld_free_or (s : FSState) (f : DirectoryEntry) (i : Int) :
    fatAt (releasedOld s f).1 i = fatAt s i ∨ fatAt (releasedOld s f).1 i = FAT_FREE := by
  unfold releasedOld
  split
  · exact freeBlockChain_free_or _ _ _
  · exact Or.inl rfl

/-- Invariant of the loop of `freeBlockChain`, relative to the FAT `s` it started from: the
successor of every block released so far ends the walk, is free, or is the current block. When
the loop returns normally, the released blocks are closed under the successor of `s`. -/
theorem freeLoop_ok_closed (s : FSState) (fuel : Nat) :
    ∀ (s2 : FSState) (cur : Int) (s3 : FSState), s2.WF →
      (∀ i : Int, fatAt s2 i = fatAt s i ∨ fatAt s2 i = FAT_FREE) →
      (∀ y : Int, 0 ≤ y → y < (TOTAL_BLOCKS : Int) → fatAt s2 y ≠ fatAt s y →
        endsWalk (fatAt s y) ∨ fatAt s2 (fatAt s y) = FAT_FREE ∨ fatAt s y = cur) →
      freeLoop fuel s2 cur = (s3, .ok ()) →
      (∀ y : Int, 0 ≤ y → y < (TOTAL_BLOCKS : Int) → fatAt s3 y ≠ fatAt s y →
        endsWalk (fatAt s y) ∨ fatAt s3 (fatAt s y) = FAT_FREE) ∧
      (endsWalk cur ∨ fatAt s3 cur = FAT_FREE) := by
  induction fuel with
  | zero =>
    intro s2 cur s3 _ _ _ h
    simp [freeLoop] at h
  | succ fuel ih =>
    intro s2 cur s3 hwf hrel hinv h
    unfold freeLoop at h
    by_cases h1 : cur = FAT_EOF ∨ cur = FAT_FREE
    · rw [if_pos h1] at h
      have hs : s3 = s2 := by
        injection h with h _
        exact h.symm
      subst hs
      have hend : endsWalk cur := by
        rw [endsWalk_iff]; exact Or.inl h1
      refine ⟨?_, Or.inl hend⟩
      intro y hy0 hy1 hne
      rcases hinv y hy0 hy1 hne with h | h | h
      · exact Or.inl h
      · exact Or.inr h
      · left; rw [h]; exact hend
    · rw [if_neg h1] at h
      by_cases h2 : cur < 0 ∨ cur ≥ (TOTAL_BLOCKS : Int)
      · rw [if_pos h2] at h
        simp at h
      · rw [if_neg h2] at h
        have hc0 : 0 ≤ cur := by omega
        have hc1 : cur < (TOTAL_BLOCKS : Int) := by omega
        have hcur : fatAt (setFat s2 cur FAT_FREE) cur = FAT_FREE :=
          fatAt_setFat_self s2 cur FAT_FREE (WF_fatAt_lt s2 hwf cur hc1)
        have hkeep : ∀ z : Int, fatAt s2 z = FAT_FREE → fatAt (setFat s2 cur FAT_FREE) z = FAT_FREE := by
          intro z hz
          rcases fatAt_setFat_free_or s2 cur z with h | h
          · rw [h, hz]
          · exact h
        have hrel2 : ∀ i : Int, fatAt (setFat s2 cur FAT_FREE) i = fatAt s i ∨
            fatAt (setFat s2 cur FAT_FREE) i = FAT_FREE := by
          intro i
          rcases fatAt_setFat_free_or s2 cur i with h | h
          · rw [h]; exact hrel i
          · exact Or.inr h
        have hinv2 : ∀ y : Int, 0 ≤ y → y < (TOTAL_BLOCKS : Int) →
            fatAt (setFat s2 cur FAT_FREE) y ≠ fatAt s y →
            endsWalk (fatAt s y) ∨ fatAt (setFat s2 cur FAT_FREE) (fatAt s y) = FAT_FREE
              ∨ fatAt s y = fatAt s2 cur := by
          intro y hy0 hy1 hne
          by_cases hyc : y = cur
          · subst hyc
            rcases hrel y with hc | hc
            · exact Or.inr (Or.inr hc.symm)
            · by_cases hsame : fatAt s2 y = fatAt s y
              · exact Or.inr (Or.inr hsame.symm)
              · rcases hinv y hy0 hy1 hsame with h | h | h
                · exact Or.inl h
                · exact Or.inr (Or.inl (hkeep _ h))
                · right; left; rw [h]; exact hcur
          · have hsame : fatAt (setFat s2 cur FAT_FREE) y = fatAt s2 y :=
              fatAt_setFat_ne _ _ _ _ (toNat_ne hc0 hy0 (Ne.symm hyc))
            rw [hsame] at hne
            rcases hinv y hy0 hy1 hne with h | h | h
            · exact Or.inl h
            · exact Or.inr (Or.inl (hkeep _ h))
            · right; left; rw [h]; exact hcur
        obtain ⟨hcl, _⟩ := ih (setFat s2 cur FAT_FREE) (fatAt s2 cur) s3
          (WF_setFat s2 cur FAT_FREE hwf) hrel2 hinv2 h
        refine ⟨hcl, Or.inr ?_⟩
        have hs3 : s3 = (freeLoop fuel (setFat s2 cur FAT_FREE) (fatAt s2 cur)).1 := by
          rw [h]
        rw [hs3]
        rcases freeLoop_free_or fuel (setFat s2 cur FAT_FREE) (fatAt s2 cur) cur with h | h
        · rw [h]; exact hcur
        · exact h

/-- In a FAT `s3` obtained from `s` by releasing a set of blocks closed under the successor of
`s`, every block of the walk from a released block is released. -/
theorem closed_chain_free (s s3 : FSState)
    (hcl : ∀ y : Int, 0 ≤ y → y < (TOTAL_BLOCKS : Int) → fatAt s3 y ≠ fatAt s y →
      endsWalk (fatAt s y) ∨ fatAt s3 (fatAt s y) = FAT_FREE)
    (fuel : Nat) (cur : Int) (hcur : endsWalk cur ∨ fatAt s3 cur = FAT_FREE) :
    ∀ y ∈ chainOf s fuel cur, fatAt s3 y = FAT_FREE := by
  induction fuel generalizing cur with
  | zero =>
    intro y hy
    simp [chainOf] at hy
  | succ fuel ih =>
    intro y hy
    unfold chainOf at hy
    by_cases ht : endsWalk cur
    · rw [if_pos ht] at hy
      cases hy
    · rw [if_neg ht] at hy
      have hfree : fatAt s3 cur = FAT_FREE := by
        rcases hcur with h | h
        · exact absurd h ht
        · exact h
      rcases List.mem_cons.mp hy with h | h
      · rw [h]; exact hfree
      · have hb := not_endsWalk cur ht
        refine ih (fatAt s cur) ?_ y h
        by_cases hsame : fatAt s3 cur = fatAt s cur
        · left
          rw [← hsame, hfree]
          unfold endsWalk
          exact Or.inr (Or.inl rfl)
        · exact hcl cur hb.2.2.1 hb.2.2.2 hsame

theorem freeBlockChain_ok_freed (s s3 : FSState) (start : Int) (hwf : s.WF)
    (h : freeBlockChain s start = (s3, .ok ())) :
    ∀ y ∈ chainOf s walkFuel start, fatAt s3 y = FAT_FREE := by
  unfold freeBlockChain at h
  by_cases hr : start < 0 ∨ start ≥ (TOTAL_BLOCKS : Int)
  · intro y hy
    have : endsWalk start := by
      rw [endsWalk_iff]; exact Or.inr hr
    rw [walkFuel_eq, chainOf, if_pos this] at hy
    cases hy
  · rw [if_neg hr] at h
    obtain ⟨hcl, hcur⟩ := freeLoop_ok_closed s walkFuel s start s3 hwf (fun _ => Or.inl rfl)
      (fun y _ _ hne => absurd rfl hne) h
    exact closed_chain_free s s3 hcl walkFuel start hcur

theorem releasedOld_ok_freed (s : FSState) (f : DirectoryEntry) (hwf : s.WF)
    (h : (releasedOld s f).2 = .ok ()) :
    ∀ y ∈ chainOf s walkFuel f.StartBlock, fatAt (releasedOld s f).1 y = FAT_FREE := by
  unfold releasedOld at h ⊢
  by_cases hc : f.StartBlock ≠ FAT_FREE ∧ f.StartBlock ≠ FAT_EOF
  · rw [if_pos hc] at h ⊢
    exact freeBlockChain_ok_freed s _ _ hwf (Prod.ext rfl h)
  · rw [if_neg hc]
    intro y hy
    have : endsWalk f.StartBlock := by
      unfold endsWalk
      by_cases h1 : f.StartBlock = FAT_FREE
      · exact Or.inr (Or.inl h1)
      · by_cases h2 : f.StartBlock = FAT_EOF
        · exact Or.inl h2
        · exact absurd ⟨h1, h2⟩ hc
    rw [walkFuel_eq, chainOf, if_pos this] at hy
    cases hy

/-! ## The FAT after the allocation loop and after a roll-back -/

theorem releaseBlocks_WF (s : FSState) (bs : List Int) (h : s.WF) : (releaseBlocks s bs).WF := by
  unfold releaseBlocks
  induction bs generalizing s with
  | nil => exact h
  | cons b bs ih => exact ih _ (WF_setFat s b FAT_FREE h)

theorem releaseBlocks_Disk (s : FSState) (bs : List Int) : (releaseBlocks s bs).Disk = s.Disk := by
  unfold releaseBlocks
  induction bs generalizing s with
  | nil => rfl
  | cons b bs ih =>
    rw [List.foldl_cons, ih]
    rfl

theorem releaseBlocks_fatAt (s : FSState) (bs : List Int) (hwf : s.WF)
    (hbs : ∀ y ∈ bs, 0 ≤ y ∧ y < (TOTAL_BLOCKS : Int)) (q : Int) (hq : 0 ≤ q) :
    fatAt (releaseBlocks s bs) q = if q ∈ bs then FAT_FREE else fatAt s q := by
  induction bs generalizing s with
  | nil => simp [releaseBlocks]
  | cons b bs ih =>
    have hb := hbs b (List.mem_cons_self _ _)
    have hrest : ∀ y ∈ bs, 0 ≤ y ∧ y < (TOTAL_BLOCKS : Int) :=
      fun y hy => hbs y (List.mem_cons_of_mem _ hy)
    have hstep : releaseBlocks s (b :: bs) = releaseBlocks (setFat s b FAT_FREE) bs := rfl
    rw [hstep, ih (setFat s b FAT_FREE) (WF_setFat s b FAT_FREE hwf) hrest]
    by_cases hqb : q = b
    · subst hqb
      rw [if_pos (List.mem_cons_self _ _),
        fatAt_setFat_self s q FAT_FREE (WF_fatAt_lt s hwf q hb.2)]
      split <;> rfl
    · rw [fatAt_setFat_ne _ _ _ _ (toNat_ne hb.1 hq (Ne.symm hqb))]
      by_cases hm : q ∈ bs
      · rw [if_pos hm, if_pos (List.mem_cons_of_mem _ hm)]
      · rw [if_neg hm, if_neg (by
          intro h
          rcases List.mem_cons.mp h with h | h
          · exact hqb h
          · exact hm h)]

/-- Two well-formed states whose FAT agree at every block of the disk have the same FAT. -/
theorem FAT_ext (s t : FSState) (hs : s.WF) (ht : t.WF)
    (h : ∀ q : Int, 0 ≤ q → q < (TOTAL_BLOCKS : Int) → fatAt t q = fatAt s q) :
    t.FAT = s.FAT := by
  apply List.ext_getElem
  · rw [ht.2.2, hs.2.2]
  · intro i h1 h2
    have hi : (i : Int) < (TOTAL_BLOCKS : Int) := by
      rw [ht.2.2] at h1
      exact_mod_cast h1
    have := h (i : Int) (by omega) hi
    unfold fatAt at this
    rw [Int.toNat_ofNat, List.getD_eq_getElem _ _ h1, List.getD_eq_getElem _ _ h2] at this
    exact this

/-- The FAT the allocation loop of `WriteToFile` leaves. `alloc` are the blocks allocated
before the loop is entered. When `findFreeBlock` fails, the roll-back restores the FAT outside
`alloc` and releases `alloc`; when the loop completes, the FAT differs from the initial one only
at the newly allocated blocks and at `prev`. -/
theorem allocLoop_FAT (data : List Nat) (todo : Nat) :
    ∀ (i : Nat) (s s2 : FSState) (alloc : List Int) (first prev : Int)
      (r : Option (List Int × Int)), s.WF →
      (∀ y ∈ alloc, 0 ≤ y ∧ y < (TOTAL_BLOCKS : Int) ∧ fatAt s y ≠ FAT_FREE) →
      (prev = FAT_EOF ∨ prev ∈ alloc) →
      allocLoop data todo i s alloc first prev = (s2, r) →
      s2.WF ∧ s2.Disk.length = s.Disk.length ∧
      (r = none → ∀ q : Int, 0 ≤ q →
        fatAt s2 q = if q ∈ alloc then FAT_FREE else fatAt s q) ∧
      (∀ blocks first2, r = some (blocks, first2) →
        ∃ new, blocks = alloc ++ new ∧
          (∀ y ∈ new, 0 ≤ y ∧ y < (TOTAL_BLOCKS : Int) ∧ fatAt s y = FAT_FREE) ∧
          ∀ q : Int, 0 ≤ q → q ∉ alloc → q ∉ new → fatAt s2 q = fatAt s q) := by
  induction todo with
  | zero =>
    intro i s s2 alloc first prev r hwf _ _ h
    unfold allocLoop at h
    injection h with h1 h2
    subst h1
    refine ⟨hwf, rfl, ?_, ?_⟩
    · intro hr
      rw [hr] at h2
      cases h2
    · intro blocks first2 hr
      rw [hr] at h2
      injection h2 with h2
      injection h2 with h2 _
      refine ⟨[], by rw [List.append_nil, h2], ?_, fun _ _ _ _ => rfl⟩
      intro y hy
      cases hy
  | succ todo ih =>
    intro i s s2 alloc first prev r hwf halloc hprev h
    unfold allocLoop at h
    rcases findFreeBlock_cases s with ⟨nb, hnb⟩ | hnone
    · rw [hnb] at h
      dsimp only at h
      obtain ⟨hn0, hn1, hnf, _⟩ := findFreeBlock_ok s nb hnb
      have hprev2 : prev = FAT_EOF ∨ 0 ≤ prev ∧ prev < (TOTAL_BLOCKS : Int) ∧
          fatAt s prev ≠ FAT_FREE := by
        rcases hprev with h | h
        · exact Or.inl h
        · exact Or.inr (halloc prev h)
      obtain ⟨hwf3, hnbeof, hlink, hframe, _, _⟩ := allocStep_facts s hwf prev nb
        (dataChunk data i) (dataChunk_length_le data i) hn0 hn1 hnf hprev2
      have hnballoc : nb ∉ alloc := fun hm => (halloc nb hm).2.2 hnf
      have halloc3 : ∀ y ∈ alloc ++ [nb], 0 ≤ y ∧ y < (TOTAL_BLOCKS : Int) ∧
          fatAt (allocStep s prev nb (dataChunk data i)) y ≠ FAT_FREE := by
        intro y hy
        rcases List.mem_append.mp hy with hy | hy
        · obtain ⟨a, b, c⟩ := halloc y hy
          refine ⟨a, b, ?_⟩
          have hyn : y ≠ nb := fun e => hnballoc (e ▸ hy)
          by_cases hyp : y = prev
          · have hpe : prev ≠ FAT_EOF := by
              intro e
              rw [hyp, e] at a
              exact absurd a (by decide)
            rw [hyp, hlink hpe]
            intro e
            rw [e] at hn0
            exact absurd hn0 (by decide)
          · rw [hframe y a hyn hyp]
            exact c
        · rw [List.mem_singleton] at hy
          subst hy
          refine ⟨hn0, hn1, ?_⟩
          rw [hnbeof]
          decide
      obtain ⟨hwf2, hdisk, hfail, hsucc⟩ := ih (i + 1) _ s2 (alloc ++ [nb])
        (if i = 0 then nb else first) nb r hwf3 halloc3
        (Or.inr (List.mem_append_right _ (List.mem_singleton_self nb))) h
      have hdisk3 : (allocStep s prev nb (dataChunk data i)).Disk.length = s.Disk.length := by
        unfold allocStep
        split <;> simp [setBlock, setFat]
      refine ⟨hwf2, by rw [hdisk, hdisk3], ?_, ?_⟩
      · intro hr q hq
        rw [hfail hr q hq]
        by_cases hqa : q ∈ alloc
        · rw [if_pos (List.mem_append_left _ hqa), if_pos hqa]
        · rw [if_neg hqa]
          by_cases hqn : q = nb
          · rw [if_pos (by rw [hqn]; exact List.mem_append_right _ (List.mem_singleton_self nb)),
              hqn, hnf]
          · rw [if_neg (by
              intro hm
              rcases List.mem_append.mp hm with hm | hm
              · exact hqa hm
              · exact hqn (List.mem_singleton.mp hm))]
            refine hframe q hq hqn ?_
            intro e
            rcases hprev with hp | hp
            · rw [e, hp] at hq
              exact absurd hq (by decide)
            · exact hqa (e ▸ hp)
      · intro blocks first2 hr
        obtain ⟨new, hb, hnew, hfr⟩ := hsucc blocks first2 hr
        refine ⟨nb :: new, by rw [hb, List.append_assoc]; rfl, ?_, ?_⟩
        · intro y hy
          rcases List.mem_cons.mp hy with hy | hy
          · rw [hy]; exact ⟨hn0, hn1, hnf⟩
          · obtain ⟨a, b, c⟩ := hnew y hy
            refine ⟨a, b, ?_⟩
            by_cases hyn : y = nb
            · rw [hyn]; exact hnf
            · by_cases hyp : y = prev
              · exfalso
                have hpe : prev ≠ FAT_EOF := by
                  intro e
                  rw [hyp, e] at a
                  exact absurd a (by decide)
                rw [hyp, hlink hpe] at c
                rw [c] at hn0
                exact absurd hn0 (by decide)
              · rw [← hframe y a hyn hyp]
                exact c
        · intro q hq hqa hqn
          have hqnb : q ≠ nb := fun e => hqn (e ▸ List.mem_cons_self _ _)
          rw [hfr q hq (by
            intro hm
            rcases List.mem_append.mp hm with hm | hm
            · exact hqa hm
            · exact hqnb (List.mem_singleton.mp hm))
            (fun hm => hqn (List.mem_cons_of_mem _ hm))]
          refine hframe q hq hqnb ?_
          intro e
          rcases hprev with hp | hp
          · rw [e, hp] at hq
            exact absurd hq (by decide)
          · exact hqa (e ▸ hp)
    · rw [hnone] at h
      dsimp only at h
      injection h with h1 h2
      subst h1
      have hin : ∀ y ∈ alloc, 0 ≤ y ∧ y < (TOTAL_BLOCKS : Int) :=
        fun y hy => ⟨(halloc y hy).1, (halloc y hy).2.1⟩
      refine ⟨releaseBlocks_WF s alloc hwf, by rw [releaseBlocks_Disk], ?_, ?_⟩
      · intro _ q hq
        exact releaseBlocks_fatAt s alloc hwf hin q hq
      · intro blocks first2 hr
        rw [hr] at h2
        cases h2

theorem updateLoop_FAT (s : FSState) (bytes name : List Nat) (fuel : Nat) (cur : Int) :
    (updateLoop s bytes name fuel cur).1.FAT = s.FAT := by
  induction fuel generalizing cur with
  | zero => rfl
  | succ fuel ih =>
    unfold updateLoop
    split
    · rfl
    · split
      · rfl
      · split
        · rfl
        · rfl
        · exact ih _

theorem updateEntry_FAT (s : FSState) (p : Int) (e : DirectoryEntry) :
    (updateEntryInDirectory s p e).1.FAT = s.FAT := by
  unfold updateEntryInDirectory
  split
  · rfl
  · split
    · split
      · rfl
      · exact updateLoop_FAT _ _ _ _ _
    · rfl

/-! ## C14: a failed write releases the blocks it allocated -/

theorem releaseBlocks_FAT_congr (s t : FSState) (bs : List Int) (h : t.FAT = s.FAT) :
    (releaseBlocks t bs).FAT = (releaseBlocks s bs).FAT := by
  unfold releaseBlocks
  induction bs generalizing s t with
  | nil => exact h
  | cons b bs ih =>
    rw [List.foldl_cons, List.foldl_cons]
    apply ih
    unfold setFat
    dsimp only
    rw [h]

/-- When `WriteToFile` returns an error after its validation (the entry is a file, the
parent block is inside the disk and allocated), in particular when `findFreeBlock` failed
during the allocation or the final `updateEntryInDirectory` returned an error: the FAT is the
FAT as the release of the old chain left it. It differs from the FAT before the call only at
blocks of the old chain of the file; no block that was free before the call is left
allocated; and when the release of the old chain succeeded, every block of the old chain is
free. -/
theorem write_failure_releases (s s3 : FSState) (f f2 : DirectoryEntry) (p : Int)
    (data : List Nat) (now : Int) (e : FsError) (hwf : s.WF)
    (ht : f.EntryType = TYPE_FILE)
    (hp : 0 ≤ p ∧ p < (TOTAL_BLOCKS : Int) ∧ fatAt s p ≠ FAT_FREE)
    (h : WriteToFile s f p data now = (s3, f2, .err e)) :
    s3.FAT = (releasedOld s f).1.FAT ∧
    (∀ y : Int, 0 ≤ y → y ∉ chainOf s walkFuel f.StartBlock → fatAt s3 y = fatAt s y) ∧
    (∀ y : Int, fatAt s y = FAT_FREE → fatAt s3 y = FAT_FREE) ∧
    ((releasedOld s f).2 = .ok () →
      ∀ y ∈ chainOf s walkFuel f.StartBlock, fatAt s3 y = FAT_FREE) := by
  have hwf1 := releasedOld_WF s f hwf
  have hfat : s3.FAT = (releasedOld s f).1.FAT := by
    unfold WriteToFile at h
    have hpn : ¬ (p < 0 ∨ p ≥ (TOTAL_BLOCKS : Int) ∨ fatAt s p = FAT_FREE) := by
      rintro (h | h | h)
      · omega
      · omega
      · exact hp.2.2 h
    rw [if_neg (not_not.mpr ht), if_neg hpn] at h
    cases hn : nameOf f.Name with
    | none =>
      rw [hn] at h
      simp at h
    | some nm =>
      rw [hn] at h
      dsimp only at h
      generalize hro : releasedOld s f = ro at h hwf1 ⊢
      obtain ⟨s1, r1⟩ := ro
      dsimp only at hwf1 ⊢
      cases r1 with
      | err e1 =>
        dsimp only at h
        injection h with h1 _
        exact congrArg FSState.FAT h1.symm
      | panic => simp at h
      | diverge => simp at h
      | ok u =>
      dsimp only at h
      by_cases hd : data.length = 0
      · rw [if_pos hd] at h
        have hu := updateEntry_FAT s1 p
          { Name := f.Name, EntryType := f.EntryType, StartBlock := FAT_EOF, Size := 0,
            ModTime := now }
        generalize updateEntryInDirectory s1 p _ = u at h hu
        obtain ⟨s2, r⟩ := u
        injection h with h1 _
        rw [← h1]
        exact hu
      · rw [if_neg hd] at h
        generalize hal : allocLoop data ((data.length + BLOCK_SIZE - 1) / BLOCK_SIZE) 0 s1 []
          FAT_EOF FAT_EOF = al at h
        obtain ⟨s2, r⟩ := al
        obtain ⟨hwf2, _, hfail, hsucc⟩ := allocLoop_FAT data _ 0 s1 s2 [] FAT_EOF FAT_EOF r hwf1
          (fun y hy => by cases hy) (Or.inl rfl) hal
        cases r with
        | none =>
          dsimp only at h
          injection h with h1 _
          rw [← h1]
          apply FAT_ext s1 s2 hwf1 hwf2
          intro q hq _
          rw [hfail rfl q hq, if_neg (List.not_mem_nil q)]
        | some bf =>
          obtain ⟨blocks, first⟩ := bf
          dsimp only at h
          obtain ⟨new, hb, hnew, hfr⟩ := hsucc blocks first rfl
          rw [List.nil_append] at hb
          subst hb
          have hu := updateEntry_FAT s2 p
            { Name := f.Name, EntryType := f.EntryType, StartBlock := first,
              Size := (data.length : Int), ModTime := now }
          generalize updateEntryInDirectory s2 p _ = u at h hu
          obtain ⟨s4, r⟩ := u
          cases r with
          | ok _ => simp at h
          | panic => simp at h
          | diverge => simp at h
          | err e2 =>
            dsimp only at h hu
            injection h with h1 _
            rw [← h1, releaseBlocks_FAT_congr s2 s4 blocks hu]
            apply FAT_ext s1 (releaseBlocks s2 blocks) hwf1 (releaseBlocks_WF s2 blocks hwf2)
            intro q hq _
            rw [releaseBlocks_fatAt s2 blocks hwf2
              (fun y hy => ⟨(hnew y hy).1, (hnew y hy).2.1⟩) q hq]
            by_cases hm : q ∈ blocks
            · rw [if_pos hm, (hnew q hm).2.2]
            · rw [if_neg hm]
              exact hfr q hq (List.not_mem_nil q) hm
  refine ⟨hfat, ?_, ?_, ?_⟩
  · intro y hy hn
    rw [fatAt_congr _ _ hfat y]
    exact releasedOld_frame s f y hy hn
  · intro y hy
    rw [fatAt_congr _ _ hfat y]
    rcases releasedOld_free_or s f y with h | h
    · rw [h, hy]
    · exact h
  · intro hold y hy
    rw [fatAt_congr _ _ hfat y]
    exact releasedOld_ok_freed s f hwf hold y hy

/-! ## C13: writing empty data -/

theorem updateScan_found (blk name : List Nat) (offs : List Nat) (off : Nat)
    (h : updateScan blk name offs = .found off) :
    off ∈ offs ∧ (slotData blk off).getD 0 0 ≠ 0 ∧
      ∃ old, DeserializeEntry (slotData blk off) = .ok old ∧ nameOf old.Name = some name := by
  induction offs with
  | nil => simp [updateScan] at h
  | cons o rest ih =>
    unfold updateScan at h
    dsimp only at h
    by_cases h0 : (slotData blk o).getD 0 0 = 0
    · rw [if_pos h0] at h
      cases h
    · rw [if_neg h0] at h
      cases hd : DeserializeEntry (slotData blk o) with
      | ok existing =>
        rw [hd] at h
        dsimp only at h
        cases hn : nameOf existing.Name with
        | none =>
          rw [hn] at h
          cases h
        | some nm =>
          rw [hn] at h
          dsimp only at h
          by_cases he : nm = name
          · rw [if_pos he] at h
            injection h with h
            subst h
            subst he
            exact ⟨List.mem_cons_self _ _, h0, existing, hd, hn⟩
          · rw [if_neg he] at h
            obtain ⟨a, b⟩ := ih h
            exact ⟨List.mem_cons_of_mem _ a, b⟩
      | err e =>
        rw [hd] at h
        obtain ⟨a, b⟩ := ih h
        exact ⟨List.mem_cons_of_mem _ a, b⟩
      | panic =>
        rw [hd] at h
        obtain ⟨a, b⟩ := ih h
        exact ⟨List.mem_cons_of_mem _ a, b⟩
      | diverge =>
        rw [hd] at h
        obtain ⟨a, b⟩ := ih h
        exact ⟨List.mem_cons_of_mem _ a, b⟩

theorem updateLoop_ok_slot (s s2 : FSState) (bytes name : List Nat) (fuel : Nat) (cur : Int)
    (h : updateLoop s bytes name fuel cur = (s2, .ok ())) :
    ∃ q off, q ∈ chainOf s fuel cur ∧ updateScan (blockAt s q) name slotOffsets = .found off ∧
      s2 = setBlock s q (copyAt (blockAt s q) off bytes) := by
  induction fuel generalizing cur with
  | zero => simp [updateLoop] at h
  | succ fuel ih =>
    unfold updateLoop at h
    split at h
    · simp at h
    split at h
    · simp at h
    rename_i h1 h2
    have ht : ¬ endsWalk cur := by rw [endsWalk_iff]; tauto
    split at h
    · rename_i off hscan
      simp only [Prod.mk.injEq, and_true] at h
      refine ⟨cur, off, ?_, hscan, h.symm⟩
      unfold chainOf; rw [if_neg ht]; exact List.mem_cons_self _ _
    · simp at h
    · obtain ⟨q, off, hq, hs2⟩ := ih _ h
      refine ⟨q, off, ?_, hs2⟩
      unfold chainOf; rw [if_neg ht]; exact List.mem_cons_of_mem _ hq

theorem updateEntry_ok_slot (s s2 : FSState) (p : Int) (e : DirectoryEntry)
    (h : updateEntryInDirectory s p e = (s2, .ok ())) :
    e.Name.length = MAX_FILENAME_LEN ∧
    ∃ q off nm, nameOf e.Name = some nm ∧ q ∈ chainOf s walkFuel p ∧
      updateScan (blockAt s q) nm slotOffsets = .found off ∧
      s2 = setBlock s q (copyAt (blockAt s q) off (entryBytes e)) := by
  unfold updateEntryInDirectory at h
  split at h
  · simp at h
  · have hlen : e.Name.length = MAX_FILENAME_LEN := by
      by_contra hne
      have : e.Serialize = .err .serializationError := by
        unfold DirectoryEntry.Serialize
        dsimp only
        rw [if_pos]
        unfold entryBytes
        simp only [List.length_append, putInt_length]
        unfold DIRECTORY_ENTRY_SIZE
        unfold MAX_FILENAME_LEN at hne
        omega
      rw [this] at h
      simp at h
    rw [serialize_eq e hlen] at h
    dsimp only at h
    refine ⟨hlen, ?_⟩
    cases hn : nameOf e.Name with
    | none =>
      rw [hn] at h
      simp at h
    | some nm =>
      rw [hn] at h
      dsimp only at h
      obtain ⟨q, off, hq, hscan, hs2⟩ := updateLoop_ok_slot _ _ _ _ _ _ h
      exact ⟨q, off, nm, rfl, hq, hscan, hs2⟩

theorem releasedOld_Disk (s : FSState) (f : DirectoryEntry) : (releasedOld s f).1.Disk = s.Disk := by
  unfold releasedOld
  split
  · exact freeBlockChain_Disk _ _
  · rfl

theorem blockAt_congr (s t : FSState) (h : t.Disk = s.Disk) (y : Int) : blockAt t y = blockAt s y := by
  unfold blockAt
  rw [h]

theorem writeToFile_empty_inv (s s3 : FSState) (f f2 : DirectoryEntry) (p : Int) (now : Int)
    (h : WriteToFile s f p [] now = (s3, f2, .ok ())) :
    f.EntryType = TYPE_FILE ∧ (releasedOld s f).2 = .ok () ∧
    f2 = { Name := f.Name, EntryType := f.EntryType, StartBlock := FAT_EOF, Size := 0,
           ModTime := now } ∧
    updateEntryInDirectory (releasedOld s f).1 p f2 = (s3, .ok ()) := by
  unfold WriteToFile at h
  split at h
  · simp at h
  rename_i ht
  split at h
  · simp at h
  split at h
  · simp at h
  generalize releasedOld s f = ro at h ⊢
  obtain ⟨s1, r1⟩ := ro
  cases r1 with
  | ok u =>
    dsimp only at h ⊢
    rw [if_pos (show ([] : List Nat).length = 0 from rfl)] at h
    injection h with h1 h2
    injection h2 with h2 h3
    subst h2
    exact ⟨not_not.mp ht, rfl, rfl, Prod.ext h1 h3⟩
  | err e => simp at h
  | panic => simp at h
  | diverge => simp at h

/-- C13: when `WriteToFile` with empty data returns success, the entry behind `fileEntry` has
`StartBlock = FAT_EOF` and `Size = 0`; every block of the walk from the old `StartBlock` is
free; every block that was free before the call is still free; and a slot of a block of the
chain of the parent that held an entry with the name of the file now holds the entry with
that name, `StartBlock = FAT_EOF` and `Size = 0`, while every other block of the disk is as
before. -/
theorem C13_write_empty (s s3 : FSState) (f f2 : DirectoryEntry) (p : Int) (now : Int)
    (hwf : s.WF) (h : WriteToFile s f p [] now = (s3, f2, .ok ())) :
    f2.StartBlock = FAT_EOF ∧ f2.Size = 0 ∧
    (∀ y ∈ chainOf s walkFuel f.StartBlock, fatAt s3 y = FAT_FREE) ∧
    (∀ y : Int, fatAt s y = FAT_FREE → fatAt s3 y = FAT_FREE) ∧
    ∃ (q : Int) (off : Nat) (nm : List Nat) (old : DirectoryEntry),
      q ∈ chainOf s3 walkFuel p ∧ off ∈ slotOffsets ∧ nameOf f.Name = some nm ∧
      (slotData (blockAt s q) off).getD 0 0 ≠ 0 ∧
      DeserializeEntry (slotData (blockAt s q) off) = .ok old ∧ nameOf old.Name = some nm ∧
      DeserializeEntry (slotData (blockAt s3 q) off)
        = .ok { Name := f.Name, EntryType := TYPE_FILE, StartBlock := FAT_EOF, Size := 0,
                ModTime := toSigned 8 (toUnsigned 8 now) } ∧
      ∀ y : Int, 0 ≤ y → y ≠ q → blockAt s3 y = blockAt s y := by
  obtain ⟨ht, hold, hf2, hu⟩ := writeToFile_empty_inv s s3 f f2 p now h
  have hwf1 := releasedOld_WF s f hwf
  have hfat : s3.FAT = (releasedOld s f).1.FAT := by
    have := updateEntry_FAT (releasedOld s f).1 p f2
    rw [hu] at this
    exact this
  obtain ⟨hlen, q, off, nm, hnm, hq, hscan, hs3⟩ := updateEntry_ok_slot _ _ _ _ hu
  have hname : f2.Name = f.Name := by rw [hf2]
  rw [hname] at hlen hnm
  obtain ⟨hoff, hhead, old, hold2, holdn⟩ := updateScan_found _ _ _ _ hscan
  have hqr := not_endsWalk q (chainOf_mem_not_endsWalk _ _ _ _ hq)
  have hb1 : blockAt (releasedOld s f).1 q = blockAt s q :=
    blockAt_congr _ _ (releasedOld_Disk s f) q
  rw [hb1] at hhead hold2 hs3
  have hblen : (blockAt s q).length = BLOCK_SIZE := blockAt_length s hwf q hqr.2.2.1 hqr.2.2.2
  have hq3 : blockAt s3 q = copyAt (blockAt s q) off (entryBytes f2) := by
    rw [hs3]
    exact blockAt_setBlock_self _ _ _ (by
      rw [releasedOld_Disk]
      exact WF_blockAt_lt s hwf q hqr.2.2.2)
  have hbytes : (entryBytes f2).length = DIRECTORY_ENTRY_SIZE :=
    entryBytes_length f2 (by rw [hname]; exact hlen)
  have hslot : slotData (blockAt s3 q) off = entryBytes f2 := by
    rw [hq3]
    apply slotData_copyAt_same _ _ _ hbytes
    rw [hblen]
    exact (slotOffsets_sep off hoff off hoff).1
  refine ⟨by rw [hf2], by rw [hf2], ?_, ?_, q, off, nm, old, ?_, hoff, hnm, hhead, hold2, holdn,
    ?_, ?_⟩
  · intro y hy
    rw [fatAt_congr _ _ hfat y]
    exact releasedOld_ok_freed s f hwf hold y hy
  · intro y hy
    rw [fatAt_congr _ _ hfat y]
    rcases releasedOld_free_or s f y with h | h
    · rw [h, hy]
    · exact h
  · rw [chainOf_agree (releasedOld s f).1 s3 walkFuel p (fun y _ => fatAt_congr _ _ hfat y)]
    exact hq
  · rw [hslot, deserialize_entryBytes f2 (by rw [hname]; exact hlen), hf2]
    dsimp only
    rw [ht]
    have e1 : toSigned 1 (toUnsigned 1 TYPE_FILE) = TYPE_FILE := by decide
    have e2 : toSigned 4 (toUnsigned 4 FAT_EOF) = FAT_EOF := by decide
    have e3 : toSigned 8 (toUnsigned 8 0) = 0 := by decide
    rw [e1, e2, e3]
  · intro y hy hne
    rw [hs3]
    rw [blockAt_setBlock_ne _ _ _ _ (toNat_ne hqr.2.2.1 hy (Ne.symm hne))]
    exact blockAt_congr _ _ (releasedOld_Disk s f) y

set_option maxRecDepth 1000000 in
theorem C13_write_empty_witness :
    (CreateFile (FormatDisk ⟨[], []⟩ 0 0).1 1 [97] 0).1.WF ∧
    (WriteToFile (CreateFile (FormatDisk ⟨[], []⟩ 0 0).1 1 [97] 0).1
      ⟨mkName [97], TYPE_FILE, 0, 0, 0⟩ 1 [] 9).2.2 = .ok () ∧
    fatAt (CreateFile (FormatDisk ⟨[], []⟩ 0 0).1 1 [97] 0).1 0 = FAT_EOF ∧
    fatAt (WriteToFile (CreateFile (FormatDisk ⟨[], []⟩ 0 0).1 1 [97] 0).1
      ⟨mkName [97], TYPE_FILE, 0, 0, 0⟩ 1 [] 9).1 0 = FAT_FREE :=
  ⟨by decide, by decide, by decide,
    (C13_write_empty (CreateFile (FormatDisk ⟨[], []⟩ 0 0).1 1 [97] 0).1 _
      ⟨mkName [97], TYPE_FILE, 0, 0, 0⟩ _ 1 9 (by decide)
      (Prod.ext rfl (Prod.ext rfl (by decide)))).2.2.1 0 (by decide)⟩

/-! ## C12: the chain written by WriteToFile -/

theorem storeChunk_eq (blk chunk : List Nat) (hb : blk.length = BLOCK_SIZE)
    (hc : chunk.length ≤ BLOCK_SIZE) :
    storeChunk blk chunk = chunk ++ List.replicate (BLOCK_SIZE - chunk.length) 0 := by
  have h1 : copy (blk.take chunk.length) chunk = chunk := by
    unfold copy
    rw [List.length_take, Nat.min_eq_left (by omega), List.take_length,
      List.drop_of_length_le (by rw [List.length_take]; omega), List.append_nil]
  unfold storeChunk
  dsimp only
  rw [h1]
  split
  · rw [zeroFill_eq _ _ _ (by rw [List.length_append, List.length_drop]; omega),
      List.take_left' rfl]
  · have hl : chunk.length = BLOCK_SIZE := by omega
    rw [List.drop_of_length_le (by omega), hl, Nat.sub_self]
    rfl

theorem storesData_agree (s t : FSState) (bs : List Int) (cur : Int) (data : List Nat)
    (hag : ∀ y ∈ bs, fatAt t y = fatAt s y ∧ blockAt t y = blockAt s y)
    (h : storesData s cur data bs) : storesData t cur data bs := by
  induction bs generalizing cur data with
  | nil => exact absurd h (by simp [storesData])
  | cons b rest ih =>
    cases rest with
    | nil =>
      obtain ⟨hc, hnt, hpos, hle, hcontent, hf⟩ := h
      obtain ⟨hf2, hb2⟩ := hag b (List.mem_cons_self _ _)
      exact ⟨hc, hnt, hpos, hle, by rw [hb2]; exact hcontent, by rw [hf2]; exact hf⟩
    | cons b2 rest =>
      obtain ⟨hc, hnt, hlt, hcontent, hlink, hrest⟩ := h
      obtain ⟨hf, hb⟩ := hag b (List.mem_cons_self _ _)
      exact ⟨hc, hnt, hlt, by rw [hb]; exact hcontent, by rw [hf]; exact hlink,
        ih b2 _ (fun y hy => hag y (List.mem_cons_of_mem _ hy)) hrest⟩

theorem storesData_head (s : FSState) (bs : List Int) (cur : Int) (data : List Nat)
    (h : storesData s cur data bs) : ∃ rest, bs = cur :: rest ∧ ¬ endsWalk cur := by
  cases bs with
  | nil => exact absurd h (by simp [storesData])
  | cons b rest =>
    cases rest with
    | nil => exact ⟨[], by rw [h.1], by rw [h.1]; exact h.2.1⟩
    | cons b2 rest => exact ⟨b2 :: rest, by rw [h.1], by rw [h.1]; exact h.2.1⟩

/-- A chain that stores `data` is what a walk along the FAT visits, and the walk then reaches
`FAT_EOF`. -/
theorem storesData_walk (s : FSState) (bs : List Int) :
    ∀ (cur : Int) (data : List Nat), storesData s cur data bs →
      bs.length = (data.length + BLOCK_SIZE - 1) / BLOCK_SIZE ∧
      endsIn s bs.length cur ∧ nthBlock s bs.length cur = FAT_EOF ∧
      ∀ fuel, bs.length ≤ fuel → chainOf s fuel cur = bs := by
  induction bs with
  | nil =>
    intro cur data h
    exact absurd h (by simp [storesData])
  | cons b rest ih =>
    intro cur data h
    have e256 : BLOCK_SIZE = 256 := rfl
    cases rest with
    | nil =>
      obtain ⟨hc, hnt, hpos, hle, _, hf⟩ := h
      subst hc
      have heof : endsWalk (fatAt s cur) := by
        rw [hf]; unfold endsWalk; exact Or.inl rfl
      refine ⟨?_, ⟨hnt, heof⟩, hf, ?_⟩
      · rw [e256] at hle ⊢
        rw [List.length_singleton]
        omega
      · intro fuel hfuel
        obtain ⟨fuel, rfl⟩ : ∃ f, fuel = f + 1 := ⟨fuel - 1, by
          rw [List.length_singleton] at hfuel; omega⟩
        rw [chainOf, if_neg hnt]
        cases fuel with
        | zero => rfl
        | succ fuel => rw [chainOf, if_pos heof]
    | cons b2 rest =>
      obtain ⟨hc, hnt, hlt, _, hlink, hrest⟩ := h
      subst hc
      obtain ⟨hlen, hends, hnth, hchain⟩ := ih b2 _ hrest
      refine ⟨?_, ⟨hnt, by rw [hlink]; exact hends⟩, ?_, ?_⟩
      · rw [List.length_cons, hlen, List.length_drop]
        rw [e256] at hlt ⊢
        omega
      · show nthBlock s (b2 :: rest).length (fatAt s cur) = FAT_EOF
        rw [hlink]
        exact hnth
      · intro fuel hfuel
        obtain ⟨fuel, rfl⟩ : ∃ f, fuel = f + 1 := ⟨fuel - 1, by
          rw [List.length_cons] at hfuel; omega⟩
        rw [chainOf, if_neg hnt, hlink, hchain fuel (by
          rw [List.length_cons] at hfuel; omega)]

theorem dataChunk_drop (data : List Nat) (i : Nat) :
    dataChunk (data.drop BLOCK_SIZE) i = dataChunk data (i + 1) := by
  have e256 : BLOCK_SIZE = 256 := rfl
  by_cases h : (i + 1 + 1) * BLOCK_SIZE ≤ data.length
  · rw [dataChunk_full _ _ h, dataChunk_full _ i (by
      rw [List.length_drop]; rw [e256] at h ⊢; omega), List.drop_drop]
    congr 2
    rw [e256]; omega
  · rw [dataChunk_last _ (i + 1) (by rw [e256] at h ⊢; omega), dataChunk_last _ i (by
      rw [List.length_drop]; rw [e256] at h ⊢; omega), List.drop_drop]
    congr 1
    rw [e256]; omega

/-- The bytes of the blocks of a chain that stores `data`: block `i` holds chunk `i` of the
data, followed by zeros. -/
theorem storesData_blocks (s : FSState) (bs : List Int) :
    ∀ (cur : Int) (data : List Nat), storesData s cur data bs →
      ∀ (i : Nat) (b : Int), bs[i]? = some b →
        blockAt s b = dataChunk data i
          ++ List.replicate (BLOCK_SIZE - (dataChunk data i).length) 0 := by
  induction bs with
  | nil =>
    intro cur data h
    exact absurd h (by simp [storesData])
  | cons b0 rest ih =>
    intro cur data h i b hb
    have e256 : BLOCK_SIZE = 256 := rfl
    cases rest with
    | nil =>
      obtain ⟨_, _, hpos, hle, hcontent, _⟩ := h
      cases i with
      | zero =>
        simp only [List.getElem?_cons_zero, Option.some.injEq] at hb
        subst hb
        have hd : dataChunk data 0 = data := by
          rw [dataChunk_last data 0 (by rw [e256] at hle ⊢; omega), Nat.zero_mul, List.drop_zero]
        rw [hd]
        exact hcontent
      | succ i => simp at hb
    | cons b2 rest =>
      obtain ⟨_, _, hlt, hcontent, _, hrest⟩ := h
      cases i with
      | zero =>
        simp only [List.getElem?_cons_zero, Option.some.injEq] at hb
        subst hb
        have hd : dataChunk data 0 = data.take BLOCK_SIZE := by
          rw [dataChunk_full data 0 (by rw [e256] at hlt ⊢; omega), Nat.zero_mul, List.drop_zero]
        rw [hd, hcontent, List.length_take, Nat.min_eq_left (le_of_lt hlt), Nat.sub_self]
        simp
      | succ i =>
        simp only [List.getElem?_cons_succ] at hb
        have := ih b2 _ hrest i b hb
        rw [dataChunk_drop] at this
        exact this

theorem allocLoop_stores (data : List Nat) (todo : Nat) :
    ∀ (i : Nat) (s s2 : FSState) (alloc blocks : List Int) (first prev first2 : Int),
    s.WF →
    (prev = FAT_EOF ∨ (0 ≤ prev ∧ prev < (TOTAL_BLOCKS : Int) ∧ fatAt s prev ≠ FAT_FREE)) →
    i * BLOCK_SIZE < data.length → data.length ≤ (i + todo) * BLOCK_SIZE →
    (i + todo - 1) * BLOCK_SIZE < data.length →
    allocLoop data todo i s alloc first prev = (s2, some (blocks, first2)) →
    ∃ nb rest, blocks = alloc ++ nb :: rest ∧
      storesData s2 nb (data.drop (i * BLOCK_SIZE)) (nb :: rest) ∧ (nb :: rest).Nodup ∧
      (prev ≠ FAT_EOF → fatAt s2 prev = nb) ∧
      first2 = (if i = 0 then nb else first) ∧ s2.WF ∧
      (∀ y ∈ nb :: rest, fatAt s y = FAT_FREE ∧ 0 ≤ y) ∧
      (∀ y, 0 ≤ y → fatAt s y ≠ FAT_FREE →
        blockAt s2 y = blockAt s y ∧ (y ≠ prev → fatAt s2 y = fatAt s y)) := by
  induction todo with
  | zero =>
    intro i s s2 alloc blocks first prev first2 _ _ h1 h2
    simp only [BLOCK_SIZE] at h1 h2
    omega
  | succ k ih =>
    intro i s s2 alloc blocks first prev first2 hwf hprev hlo hhi hexact h
    have hlo' : i * 256 < data.length := hlo
    have hhi' : data.length ≤ (i + (k + 1)) * 256 := hhi
    have hexact' : (i + (k + 1) - 1) * 256 < data.length := hexact
    have e256 : BLOCK_SIZE = 256 := rfl
    obtain ⟨nb, hfb, hrec⟩ := allocLoop_step data k i s alloc first prev blocks
      first2 s2 h
    obtain ⟨hnb0, hnb1, hfree, _⟩ := findFreeBlock_ok s nb hfb
    have hnt := inRange_not_endsWalk nb hnb0 hnb1
    obtain ⟨hwf3, hf3nb, hf3prev, hf3other, hb3nb, hb3other⟩ :=
      allocStep_facts s hwf prev nb (dataChunk data i) (dataChunk_length_le data i) hnb0 hnb1
        hfree hprev
    have hblen := blockAt_length s hwf nb hnb0 hnb1
    have hnbprev : prev ≠ FAT_EOF → nb ≠ prev := by
      intro hp e
      exact (hprev.resolve_left hp).2.2 (e ▸ hfree)
    -- the frame of one step
    have hframe3 : ∀ y, 0 ≤ y → fatAt s y ≠ FAT_FREE →
        fatAt (allocStep s prev nb (dataChunk data i)) y ≠ FAT_FREE ∧
        blockAt (allocStep s prev nb (dataChunk data i)) y = blockAt s y ∧
        (y ≠ prev → fatAt (allocStep s prev nb (dataChunk data i)) y = fatAt s y) := by
      intro y hy hyf
      have hyn : y ≠ nb := fun e => hyf (e ▸ hfree)
      refine ⟨?_, hb3other y hy hyn, fun hyp => hf3other y hy hyn hyp⟩
      by_cases hyp : y = prev
      · have hpe : prev ≠ FAT_EOF := by
          intro e; rw [hyp, e] at hy; unfold FAT_EOF at hy; omega
        rw [hyp, hf3prev hpe]
        unfold FAT_FREE; omega
      · rw [hf3other y hy hyn hyp]; exact hyf
    cases k with
    | zero =>
      unfold allocLoop at hrec
      simp only [Prod.mk.injEq, Option.some.injEq] at hrec
      obtain ⟨hs, hbl, hfi⟩ := hrec
      subst hs
      have hlast := dataChunk_last data i (by rw [e256]; omega)
      have hdl : (data.drop (i * BLOCK_SIZE)).length = data.length - i * 256 :=
        List.length_drop _ _
      refine ⟨nb, [], hbl.symm,
        ⟨rfl, hnt, by rw [hdl]; omega, by rw [hdl, e256]; omega, ?_, hf3nb⟩,
        List.nodup_singleton nb, hf3prev, hfi.symm, hwf3, ?_, ?_⟩
      · rw [hb3nb, hlast]
        exact storeChunk_eq _ _ hblen (by rw [hdl, e256]; omega)
      · intro y hy
        rw [List.mem_singleton] at hy
        subst hy
        exact ⟨hfree, hnb0⟩
      · intro y hy hyf
        exact (hframe3 y hy hyf).2
    | succ k =>
      have hlo2' : (i + 1) * 256 < data.length := by omega
      have hlo2 : (i + 1) * BLOCK_SIZE < data.length := hlo2'
      obtain ⟨nb2, rest2, hbl, hhold, hnodup, hlink, hfi, hwf2, hnewfree, hframe⟩ :=
        ih (i + 1) _ s2 (alloc ++ [nb]) blocks (if i = 0 then nb else first) nb first2 hwf3
          (Or.inr ⟨hnb0, hnb1, by rw [hf3nb]; decide⟩) hlo2
          (by rw [show i + 1 + (k + 1) = i + (k + 1 + 1) by omega]; exact hhi)
          (by rw [show i + 1 + (k + 1) - 1 = i + (k + 1 + 1) - 1 by omega]; exact hexact)
          hrec
      have hnbeof : nb ≠ FAT_EOF := by unfold FAT_EOF; omega
      have hfull := dataChunk_full data i (le_of_lt hlo2)
      have hdl : (data.drop (i * BLOCK_SIZE)).length = data.length - i * 256 :=
        List.length_drop _ _
      have hnbblk : blockAt s2 nb = storeChunk (blockAt s nb) (dataChunk data i) := by
        rw [(hframe nb hnb0 (by rw [hf3nb]; decide)).1, hb3nb]
      have hclen : (dataChunk data i).length = BLOCK_SIZE := by
        rw [hfull, List.length_take, hdl, e256]
        omega
      refine ⟨nb, nb2 :: rest2, by rw [hbl]; simp, ⟨rfl, hnt, ?_, ?_, hlink hnbeof, ?_⟩, ?_, ?_,
        ?_, hwf2, ?_, ?_⟩
      · rw [hdl, e256]; omega
      · rw [hnbblk, ← hfull, storeChunk_eq (blockAt s nb) (dataChunk data i) hblen
          (le_of_eq hclen), hclen, Nat.sub_self]
        exact List.append_nil _
      · rw [List.drop_drop]
        rw [show i * BLOCK_SIZE + BLOCK_SIZE = (i + 1) * BLOCK_SIZE by
          rw [Nat.add_mul, Nat.one_mul]]
        exact hhold
      · refine List.nodup_cons.mpr ⟨?_, hnodup⟩
        intro hm
        have := (hnewfree nb hm).1
        rw [hf3nb] at this
        exact absurd this (by decide)
      · intro hp
        have hp0 := (hprev.resolve_left hp).1
        rw [(hframe prev hp0 (by rw [hf3prev hp]; unfold FAT_FREE; omega)).2
          (Ne.symm (hnbprev hp)), hf3prev hp]
      · rw [hfi]; simp
      · intro y hy
        rcases List.mem_cons.1 hy with rfl | hy
        · exact ⟨hfree, hnb0⟩
        · obtain ⟨hyf, hy0⟩ := hnewfree y hy
          refine ⟨?_, hy0⟩
          have hyn : y ≠ nb := by
            intro e; rw [e, hf3nb] at hyf; exact absurd hyf (by decide)
          have hyp : y ≠ prev := by
            intro e
            have hpe : prev ≠ FAT_EOF := by
              intro e2; rw [e, e2] at hy0; unfold FAT_EOF at hy0; omega
            rw [e, hf3prev hpe] at hyf
            unfold FAT_FREE at hyf; omega
          rw [← hf3other y hy0 hyn hyp]; exact hyf
      · intro y hy hyf
        obtain ⟨h3f, h3b, h3fat⟩ := hframe3 y hy hyf
        have hyn : y ≠ nb := fun e => hyf (e ▸ hfree)
        obtain ⟨hb2, hf2⟩ := hframe y hy h3f
        exact ⟨by rw [hb2, h3b], fun hyp => by rw [hf2 hyn, h3fat hyp]⟩


/-- Pairwise distinct blocks inside the disk are at most `TOTAL_BLOCKS` many. -/
theorem nodup_inRange_length (bs : List Int) (hnd : bs.Nodup)
    (hr : ∀ b ∈ bs, ¬ endsWalk b) : bs.length ≤ TOTAL_BLOCKS := by
  have hmap : (bs.map Int.toNat).Nodup := by
    apply List.Nodup.map_on _ hnd
    intro x hx y hy hxy
    have h1 := (not_endsWalk x (hr x hx)).2.2.1
    have h2 := (not_endsWalk y (hr y hy)).2.2.1
    omega
  have hsub : bs.map Int.toNat ⊆ List.range TOTAL_BLOCKS := by
    intro n hn
    obtain ⟨b, hb, rfl⟩ := List.mem_map.mp hn
    have h1 := (not_endsWalk b (hr b hb)).2.2
    rw [List.mem_range]
    have : b < 256 := h1.2
    have e : TOTAL_BLOCKS = 256 := rfl
    omega
  have := (List.subperm_of_subset hmap hsub).length_le
  rw [List.length_map, List.length_range] at this
  exact this

/-- C12 (as amended): in a state where the blocks of the chain of directory `p` are allocated
and none of them lies on the chain of the file entry `f`, when `WriteToFile(f, p, data)`
succeeds with `len(data) = L > 0`: the walk along the FAT from the new `StartBlock` visits
exactly `ceil(L / BLOCK_SIZE)` pairwise distinct blocks and then reaches `FAT_EOF`, the new
`Size` is `L`, block `i` of the chain holds `data[i*BLOCK_SIZE .. min((i+1)*BLOCK_SIZE, L))`
followed by zeros up to the end of the block, and for `L = BLOCK_SIZE + 1` the chain has two
blocks, `FAT[start] = next` and `FAT[next] = FAT_EOF`. -/
theorem C12_write_chain (s s3 : FSState) (f f2 : DirectoryEntry) (p : Int)
    (data : List Nat) (now : Int) (hwf : s.WF)
    (hdir : ∀ y ∈ chainOf s walkFuel p,
      fatAt s y ≠ FAT_FREE ∧ y ∉ chainOf s walkFuel f.StartBlock)
    (hpos : 0 < data.length)
    (h : WriteToFile s f p data now = (s3, f2, .ok ())) :
    ∃ bs : List Int,
      bs.length = (data.length + BLOCK_SIZE - 1) / BLOCK_SIZE ∧ bs.Nodup ∧
      (∀ b ∈ bs, 0 ≤ b ∧ b < (TOTAL_BLOCKS : Int)) ∧
      chainOf s3 walkFuel f2.StartBlock = bs ∧
      nthBlock s3 bs.length f2.StartBlock = FAT_EOF ∧
      f2.Size = data.length ∧
      (∀ (i : Nat) (b : Int), bs[i]? = some b →
        blockAt s3 b = dataChunk data i
          ++ List.replicate (BLOCK_SIZE - (dataChunk data i).length) 0) ∧
      (data.length = BLOCK_SIZE + 1 →
        ∃ next, bs = [f2.StartBlock, next] ∧ fatAt s3 f2.StartBlock = next ∧
          fatAt s3 next = FAT_EOF) := by
  obtain ⟨hty, ⟨nm, hnm⟩, _, _, hfull⟩ := writeToFile_ok_inv s s3 f f2 p data now h
  have hlen : data.length ≠ 0 := by omega
  obtain ⟨s2, blocks, first, halloc, hf2, hup⟩ := hfull hlen
  have hwf1 := releasedOld_WF s f hwf
  have e256 : BLOCK_SIZE = 256 := rfl
  obtain ⟨nb, rest, _, hstore, hnodup, _, hfirst, hwf2, hnewfree, hframe⟩ :=
    allocLoop_stores data _ 0 _ s2 [] blocks FAT_EOF FAT_EOF first hwf1 (Or.inl rfl)
      (by rw [e256]; omega) (by rw [e256]; omega) (by rw [e256]; omega) halloc
  rw [if_pos rfl] at hfirst
  rw [Nat.zero_mul, List.drop_zero] at hstore
  have hchainfat : ∀ y ∈ chainOf s walkFuel p,
      0 ≤ y ∧ fatAt (releasedOld s f).1 y ≠ FAT_FREE ∧ fatAt s2 y = fatAt s y := by
    intro y hy
    have hy0 := (not_endsWalk y (chainOf_mem_not_endsWalk s _ _ y hy)).2.2.1
    obtain ⟨hyf, hyn⟩ := hdir y hy
    have h1 : fatAt (releasedOld s f).1 y = fatAt s y := releasedOld_frame s f y hy0 hyn
    refine ⟨hy0, by rw [h1]; exact hyf, ?_⟩
    rw [(hframe y hy0 (by rw [h1]; exact hyf)).2 (by unfold FAT_EOF; omega), h1]
  have hchain : chainOf s2 walkFuel p = chainOf s walkFuel p :=
    chainOf_agree s s2 walkFuel p (fun y hy => (hchainfat y hy).2.2)
  obtain ⟨q, blk, hq, hs3⟩ := updateEntry_ok_shape s2 s3 p f2 hup
  rw [hchain] at hq
  obtain ⟨hq0, hqf, _⟩ := hchainfat q hq
  have hstore3 : storesData s3 nb data (nb :: rest) := by
    apply storesData_agree s2 s3 _ _ _ _ hstore
    intro y hy
    obtain ⟨hyfree, hy0⟩ := hnewfree y hy
    have hne : q ≠ y := fun e => hqf (e ▸ hyfree)
    rw [hs3]
    exact ⟨rfl, blockAt_setBlock_ne _ _ _ _ (toNat_ne hq0 hy0 hne)⟩
  obtain ⟨hlen2, hends, hnth, hwalk⟩ := storesData_walk s3 _ nb data hstore3
  have hstart : f2.StartBlock = nb := by rw [hf2, hfirst]
  have hin : ∀ b ∈ nb :: rest, ¬ endsWalk b := by
    intro b hb
    rw [← hwalk (nb :: rest).length (le_refl _)] at hb
    exact chainOf_mem_not_endsWalk _ _ _ _ hb
  have hle : (nb :: rest).length ≤ walkFuel := by
    have := nodup_inRange_length _ hnodup hin
    unfold walkFuel
    omega
  refine ⟨nb :: rest, hlen2, hnodup, ?_, ?_, ?_, by rw [hf2], ?_, ?_⟩
  · intro b hb
    exact (not_endsWalk b (hin b hb)).2.2
  · rw [hstart]
    exact hwalk walkFuel hle
  · rw [hstart]
    exact hnth
  · exact storesData_blocks s3 _ nb data hstore3
  · intro hL
    rw [hstart]
    cases rest with
    | nil =>
      exfalso
      have := hstore3.2.2.2.1
      omega
    | cons b2 rest2 =>
      cases rest2 with
      | nil =>
        obtain ⟨_, _, _, _, hlink, _, _, _, _, _, heof⟩ := hstore3
        exact ⟨b2, rfl, hlink, heof⟩
      | cons b3 rest3 =>
        exfalso
        rw [hL, e256] at hlen2
        simp only [List.length_cons] at hlen2
        omega


set_option maxRecDepth 1000000 in
/-- C12 as stated fails where the parent block is a block of the file: from the formatted disk
`CreateFile(0, "x")` succeeds and makes block 0 both the block that lists "x" and the data block
of "x". Writing 49 bytes that look like an entry named "x" succeeds with a chain of the single
block 0, but `updateEntryInDirectory` then overwrites the start of block 0 with the new entry:
the block does not hold the data followed by zeros. -/
theorem C12_counterexample :
    (CreateFile (FormatDisk ⟨[], []⟩ 0 0).1 0 [120] 7).2 = .ok () ∧
    (WriteToFile (CreateFile (FormatDisk ⟨[], []⟩ 0 0).1 0 [120] 7).1
      ⟨mkName [120], TYPE_FILE, 0, 0, 7⟩ 0 (entryBytes ⟨mkName [120], TYPE_FILE, 0, 0, 0⟩)
      9).2 = (⟨mkName [120], TYPE_FILE, 0, 49, 9⟩, .ok ()) ∧
    chainOf (WriteToFile (CreateFile (FormatDisk ⟨[], []⟩ 0 0).1 0 [120] 7).1
      ⟨mkName [120], TYPE_FILE, 0, 0, 7⟩ 0 (entryBytes ⟨mkName [120], TYPE_FILE, 0, 0, 0⟩)
      9).1 walkFuel 0 = [0] ∧
    blockAt (WriteToFile (CreateFile (FormatDisk ⟨[], []⟩ 0 0).1 0 [120] 7).1
      ⟨mkName [120], TYPE_FILE, 0, 0, 7⟩ 0 (entryBytes ⟨mkName [120], TYPE_FILE, 0, 0, 0⟩)
      9).1 0
      = entryBytes ⟨mkName [120], TYPE_FILE, 0, 49, 9⟩ ++ List.replicate 207 0 ∧
    entryBytes ⟨mkName [120], TYPE_FILE, 0, 49, 9⟩ ++ List.replicate 207 0
      ≠ entryBytes ⟨mkName [120], TYPE_FILE, 0, 0, 0⟩ ++ List.replicate 207 0 := by
  decide

set_option maxRecDepth 1000000 in
/-- C12 (as amended) on the formatted disk: 257 bytes written to the file "a" of the root. -/
theorem C12_write_chain_witness :
    (CreateFile (FormatDisk ⟨[], []⟩ 0 0).1 1 [97] 7).1.WF ∧
    (∀ y ∈ chainOf (CreateFile (FormatDisk ⟨[], []⟩ 0 0).1 1 [97] 7).1 walkFuel 1,
      fatAt (CreateFile (FormatDisk ⟨[], []⟩ 0 0).1 1 [97] 7).1 y ≠ FAT_FREE ∧
      y ∉ chainOf (CreateFile (FormatDisk ⟨[], []⟩ 0 0).1 1 [97] 7).1 walkFuel
        (DirectoryEntry.mk (mkName [97]) TYPE_FILE 0 0 7).StartBlock) ∧
    (WriteToFile (CreateFile (FormatDisk ⟨[], []⟩ 0 0).1 1 [97] 7).1
      ⟨mkName [97], TYPE_FILE, 0, 0, 7⟩ 1 (List.replicate 257 171) 9).2.2 = .ok () ∧
    ∃ next,
      fatAt (WriteToFile (CreateFile (FormatDisk ⟨[], []⟩ 0 0).1 1 [97] 7).1
        ⟨mkName [97], TYPE_FILE, 0, 0, 7⟩ 1 (List.replicate 257 171) 9).1
        (WriteToFile (CreateFile (FormatDisk ⟨[], []⟩ 0 0).1 1 [97] 7).1
          ⟨mkName [97], TYPE_FILE, 0, 0, 7⟩ 1 (List.replicate 257 171) 9).2.1.StartBlock = next ∧
      fatAt (WriteToFile (CreateFile (FormatDisk ⟨[], []⟩ 0 0).1 1 [97] 7).1
        ⟨mkName [97], TYPE_FILE, 0, 0, 7⟩ 1 (List.replicate 257 171) 9).1 next = FAT_EOF := by
  refine ⟨by decide, by decide, by decide, ?_⟩
  obtain ⟨bs, _, _, _, _, _, _, _, h2⟩ :=
    C12_write_chain (CreateFile (FormatDisk ⟨[], []⟩ 0 0).1 1 [97] 7).1 _
      ⟨mkName [97], TYPE_FILE, 0, 0, 7⟩ _ 1 (List.replicate 257 171) 9 (by decide) (by decide)
      (by decide) (Prod.ext rfl (Prod.ext rfl (by decide)))
  obtain ⟨next, _, h3, h4⟩ := h2 (by decide)
  exact ⟨next, h3, h4⟩

/-! ## C18: deleting a file -/

/-- The first entry of a listing whose name is `n` or is not terminated is determined by the
listing. -/
theorem first_match_unique (n : List Nat) (A : List DirectoryEntry) :
    ∀ (l1 R l2 : List DirectoryEntry) (x e : DirectoryEntry), otherNames n A → otherNames n l1 →
      (¬ ∃ nm, nameOf x.Name = some nm ∧ nm ≠ n) → (¬ ∃ nm, nameOf e.Name = some nm ∧ nm ≠ n) →
      A ++ x :: R = l1 ++ e :: l2 → A = l1 ∧ x = e ∧ R = l2 := by
  induction A with
  | nil =>
    intro l1 R l2 x e _ hl1 hx _ h
    cases l1 with
    | nil =>
      simp only [List.nil_append, List.cons.injEq] at h
      exact ⟨rfl, h.1, h.2⟩
    | cons y l1 =>
      simp only [List.nil_append, List.cons_append, List.cons.injEq] at h
      exact absurd (h.1 ▸ hl1 y (List.mem_cons_self _ _)) hx
  | cons a A ih =>
    intro l1 R l2 x e hA hl1 hx he h
    cases l1 with
    | nil =>
      simp only [List.nil_append, List.cons_append, List.cons.injEq] at h
      exact absurd (h.1 ▸ hA a (List.mem_cons_self _ _)) he
    | cons y l1 =>
      simp only [List.cons_append, List.cons.injEq] at h
      obtain ⟨h1, h2, h3⟩ := ih l1 R l2 x e (fun z hz => hA z (List.mem_cons_of_mem _ hz))
        (fun z hz => hl1 z (List.mem_cons_of_mem _ hz)) hx he h.2
      exact ⟨by rw [h.1, h1], h2, h3⟩

/-- A prefix of the listing without the name `n` lies before the first entry named `n`. -/
theorem prefix_before_match (n : List Nat) (A : List DirectoryEntry) :
    ∀ (rest l1 l2 : List DirectoryEntry) (e : DirectoryEntry), otherNames n A →
      (¬ ∃ nm, nameOf e.Name = some nm ∧ nm ≠ n) →
      A ++ rest = l1 ++ e :: l2 → ∃ l1b, l1 = A ++ l1b ∧ rest = l1b ++ e :: l2 := by
  induction A with
  | nil =>
    intro rest l1 l2 e _ _ h
    exact ⟨l1, rfl, h⟩
  | cons a A ih =>
    intro rest l1 l2 e hA he h
    cases l1 with
    | nil =>
      simp only [List.nil_append, List.cons_append, List.cons.injEq] at h
      exact absurd (h.1 ▸ hA a (List.mem_cons_self _ _)) he
    | cons y l1 =>
      simp only [List.cons_append, List.cons.injEq] at h
      obtain ⟨l1b, h1, h2⟩ := ih rest l1 l2 e (fun z hz => hA z (List.mem_cons_of_mem _ hz)) he h.2
      exact ⟨l1b, by rw [h.1, h1]; rfl, h2⟩

theorem named_not_other (n : List Nat) (e : DirectoryEntry) (h : nameOf e.Name = some n) :
    ¬ ∃ nm, nameOf e.Name = some nm ∧ nm ≠ n := by
  rintro ⟨nm, h1, h2⟩
  rw [h] at h1
  injection h1 with h1
  exact h2 h1.symm

theorem unnamed_not_other (n : List Nat) (e : DirectoryEntry) (h : nameOf e.Name = none) :
    ¬ ∃ nm, nameOf e.Name = some nm ∧ nm ≠ n := by
  rintro ⟨nm, h1, _⟩
  rw [h] at h1
  cases h1

/-- What the inner loop of `invalidateEntryInParent` found, in terms of the entries
`ListEntries` reads from the same slots. -/
theorem invalidateScan_spec (blk n : List Nat) (offs : List Nat) :
    (invalidateScan blk n offs = .notHere ∧ otherNames n (scanSlots blk offs)) ∨
    (∃ off pre post e, offs = pre ++ off :: post ∧ otherNames n (scanSlots blk pre) ∧
      (slotData blk off).getD 0 0 ≠ 0 ∧ DeserializeEntry (slotData blk off) = .ok e ∧
      ((invalidateScan blk n offs = .found off ∧ nameOf e.Name = some n) ∨
        (invalidateScan blk n offs = .abort ∧ nameOf e.Name = none))) := by
  induction offs with
  | nil =>
    left
    refine ⟨rfl, ?_⟩
    intro x hx
    simp [scanSlots] at hx
  | cons o rest ih =>
    have hcons : ∀ pre off post, rest = pre ++ off :: post → o :: rest = (o :: pre) ++ off :: post := by
      intro pre off post h
      rw [h]; rfl
    by_cases hz : (slotData blk o).getD 0 0 = 0
    · have e1 : invalidateScan blk n (o :: rest) = invalidateScan blk n rest := by
        rw [invalidateScan]
        rw [if_pos hz]
      have e2 : ∀ l, scanSlots blk (o :: l) = scanSlots blk l := by
        intro l
        rw [scanSlots]
        rw [if_pos hz]
      rw [e1, e2]
      rcases ih with h | ⟨off, pre, post, e, h1, h2, h3⟩
      · exact Or.inl h
      · exact Or.inr ⟨off, o :: pre, post, e, hcons _ _ _ h1, by rw [e2]; exact h2, h3⟩
    · cases hd : DeserializeEntry (slotData blk o) with
      | ok e =>
        have e2 : ∀ l, scanSlots blk (o :: l) = e :: scanSlots blk l := by
          intro l
          rw [scanSlots]
          rw [if_neg hz, hd]
        cases hn : nameOf e.Name with
        | none =>
          right
          refine ⟨o, [], rest, e, rfl, ?_, hz, hd, Or.inr ⟨?_, hn⟩⟩
          · intro x hx
            simp [scanSlots] at hx
          · rw [invalidateScan]
            rw [if_neg hz, hd]
            dsimp only
            rw [hn]
        | some nm =>
          by_cases hnm : nm = n
          · right
            refine ⟨o, [], rest, e, rfl, ?_, hz, hd, Or.inl ⟨?_, by rw [hn, hnm]⟩⟩
            · intro x hx
              simp [scanSlots] at hx
            · rw [invalidateScan]
              rw [if_neg hz, hd]
              dsimp only
              rw [hn]
              dsimp only
              rw [if_pos hnm]
          · have e1 : invalidateScan blk n (o :: rest) = invalidateScan blk n rest := by
              rw [invalidateScan]
              rw [if_neg hz, hd]
              dsimp only
              rw [hn]
              dsimp only
              rw [if_neg hnm]
            have hadd : ∀ l, otherNames n (scanSlots blk l) → otherNames n (scanSlots blk (o :: l)) := by
              intro l hl x hx
              rw [e2] at hx
              rcases List.mem_cons.mp hx with h | h
              · rw [h]; exact ⟨nm, hn, hnm⟩
              · exact hl x h
            rw [e1]
            rcases ih with h | ⟨off, pre, post, e3, h1, h2, h3⟩
            · exact Or.inl ⟨h.1, hadd _ h.2⟩
            · exact Or.inr ⟨off, o :: pre, post, e3, hcons _ _ _ h1, hadd _ h2, h3⟩
      | err er =>
        have e1 : invalidateScan blk n (o :: rest) = invalidateScan blk n rest := by
          rw [invalidateScan]
          rw [if_neg hz, hd]
        have e2 : ∀ l, scanSlots blk (o :: l) = scanSlots blk l := by
          intro l
          rw [scanSlots]
          rw [if_neg hz, hd]
        rw [e1, e2]
        rcases ih with h | ⟨off, pre, post, e, h1, h2, h3⟩
        · exact Or.inl h
        · exact Or.inr ⟨off, o :: pre, post, e, hcons _ _ _ h1, by rw [e2]; exact h2, h3⟩
      | panic =>
        have e1 : invalidateScan blk n (o :: rest) = invalidateScan blk n rest := by
          rw [invalidateScan]
          rw [if_neg hz, hd]
        have e2 : ∀ l, scanSlots blk (o :: l) = scanSlots blk l := by
          intro l
          rw [scanSlots]
          rw [if_neg hz, hd]
        rw [e1, e2]
        rcases ih with h | ⟨off, pre, post, e, h1, h2, h3⟩
        · exact Or.inl h
        · exact Or.inr ⟨off, o :: pre, post, e, hcons _ _ _ h1, by rw [e2]; exact h2, h3⟩
      | diverge =>
        have e1 : invalidateScan blk n (o :: rest) = invalidateScan blk n rest := by
          rw [invalidateScan]
          rw [if_neg hz, hd]
        have e2 : ∀ l, scanSlots blk (o :: l) = scanSlots blk l := by
          intro l
          rw [scanSlots]
          rw [if_neg hz, hd]
        rw [e1, e2]
        rcases ih with h | ⟨off, pre, post, e, h1, h2, h3⟩
        · exact Or.inl h
        · exact Or.inr ⟨off, o :: pre, post, e, hcons _ _ _ h1, by rw [e2]; exact h2, h3⟩


theorem slotData_set_head (blk : List Nat) (off : Nat) (h : off < blk.length) :
    (slotData (blk.set off 0) off).getD 0 0 = 0 := by
  have h1 : (slotData (blk.set off 0) off)[0]? = some 0 := by
    rw [slotData_getElem?, if_pos (by decide), Nat.add_zero]
    exact List.getElem?_set_self h
  rw [List.getD_eq_getElem?_getD, h1]
  rfl

theorem slotData_set_other (blk : List Nat) (off off2 : Nat)
    (h : off2 + DIRECTORY_ENTRY_SIZE ≤ off ∨ off + DIRECTORY_ENTRY_SIZE ≤ off2) :
    slotData (blk.set off 0) off2 = slotData blk off2 := by
  apply List.ext_getElem?
  intro j
  rw [slotData_getElem?, slotData_getElem?]
  by_cases hj : j < DIRECTORY_ENTRY_SIZE
  · rw [if_pos hj, if_pos hj]
    apply List.getElem?_set_ne
    unfold DIRECTORY_ENTRY_SIZE at h hj
    omega
  · rw [if_neg hj, if_neg hj]

theorem slotOffsets_nodup : slotOffsets.Nodup := by decide

/-- The entries a block lists once the first byte of one slot is set to zero. -/
theorem scanSlots_tombstone (blk : List Nat) (pre post : List Nat) (off : Nat)
    (hoffs : slotOffsets = pre ++ off :: post) (hlen : blk.length = BLOCK_SIZE) :
    scanSlots (blk.set off 0) slotOffsets = scanSlots blk pre ++ scanSlots blk post := by
  have hnd := slotOffsets_nodup
  rw [hoffs] at hnd
  have hmem : off ∈ slotOffsets := by rw [hoffs]; simp
  have hin := (slotOffsets_sep off hmem off hmem).1
  have hnpre : off ∉ pre := by
    intro hm
    have := (List.nodup_append.mp hnd).2.2
    exact this hm (List.mem_cons_self _ _)
  have hnpost : off ∉ post := by
    have := (List.nodup_append.mp hnd).2.1
    exact (List.nodup_cons.mp this).1
  have hother : ∀ o ∈ slotOffsets, o ≠ off →
      slotData (blk.set off 0) o = slotData blk o := by
    intro o ho hne
    apply slotData_set_other
    rcases (slotOffsets_sep o ho off hmem).2 with h | h | h
    · exact absurd h hne
    · exact Or.inl h
    · exact Or.inr h
  have hpre : scanSlots (blk.set off 0) pre = scanSlots blk pre := by
    apply scanSlots_congr
    intro o ho
    exact hother o (by rw [hoffs]; simp [ho]) (fun e => hnpre (e ▸ ho))
  have hpost : scanSlots (blk.set off 0) post = scanSlots blk post := by
    apply scanSlots_congr
    intro o ho
    exact hother o (by rw [hoffs]; simp [ho]) (fun e => hnpost (e ▸ ho))
  have hhead : (slotData (blk.set off 0) off).getD 0 0 = 0 :=
    slotData_set_head blk off (by
      rw [hlen]
      unfold DIRECTORY_ENTRY_SIZE at hin
      omega)
  rw [hoffs, scanSlots_append, hpre]
  congr 1
  rw [scanSlots]
  rw [if_pos hhead, hpost]

theorem listLoop_agree (s t : FSState) (fuel : Nat) (cur : Int)
    (h : ∀ y ∈ chainOf s fuel cur, fatAt t y = fatAt s y ∧ blockAt t y = blockAt s y) :
    listLoop t fuel cur = listLoop s fuel cur := by
  induction fuel generalizing cur with
  | zero => rfl
  | succ fuel ih =>
    by_cases ht : endsWalk cur
    · unfold listLoop
      rw [endsWalk_iff] at ht
      rcases ht with ht | ht
      · rw [if_pos ht, if_pos ht]
      · by_cases h1 : cur = FAT_EOF ∨ cur = FAT_FREE
        · rw [if_pos h1, if_pos h1]
        · rw [if_neg h1, if_neg h1, if_pos ht, if_pos ht]
    · rw [listLoop_step s fuel cur ht, listLoop_step t fuel cur ht]
      have hc : cur ∈ chainOf s (fuel + 1) cur := by
        unfold chainOf; rw [if_neg ht]; exact List.mem_cons_self _ _
      obtain ⟨hf, hb⟩ := h cur hc
      rw [hf, hb, ih (fatAt s cur) (fun y hy => h y (by
        unfold chainOf; rw [if_neg ht]; exact List.mem_cons_of_mem _ hy))]

/-- What `invalidateEntryInParent` does to a directory whose listing holds an entry named `n`:
it sets to zero the first byte of the slot of the first such entry, and the listing loses
exactly that entry. -/
theorem invalidateLoop_spec (s : FSState) (hwf : s.WF) (n : List Nat) (fuel : Nat) :
    ∀ (cur : Int) (L l1 l2 : List DirectoryEntry) (e : DirectoryEntry),
      listLoop s fuel cur = .ok L → L = l1 ++ e :: l2 → otherNames n l1 →
      nameOf e.Name = some n →
      ∃ (q : Int) (off : Nat), q ∈ chainOf s fuel cur ∧ off ∈ slotOffsets ∧
        DeserializeEntry (slotData (blockAt s q) off) = .ok e ∧
        invalidateLoop s n fuel cur = (setBlock s q ((blockAt s q).set off 0), .ok ()) ∧
        listLoop (setBlock s q ((blockAt s q).set off 0)) fuel cur = .ok (l1 ++ l2) := by
  induction fuel with
  | zero =>
    intro cur L l1 l2 e hl
    simp [listLoop] at hl
  | succ fuel ih =>
    intro cur L l1 l2 e hl hL hl1 hn
    have ht : ¬ endsWalk cur := by
      intro ht
      unfold listLoop at hl
      rw [endsWalk_iff] at ht
      rcases ht with ht | ht
      · rw [if_pos ht] at hl
        injection hl with hl
        rw [← hl] at hL
        cases l1 <;> cases hL
      · by_cases h1 : cur = FAT_EOF ∨ cur = FAT_FREE
        · rw [if_pos h1] at hl
          injection hl with hl
          rw [← hl] at hL
          cases l1 <;> cases hL
        · rw [if_neg h1, if_pos ht] at hl
          cases hl
    obtain ⟨_, _, hc0, hc1⟩ := not_endsWalk cur ht
    obtain ⟨rest, hrest, hLeq⟩ := listLoop_step_ok s fuel cur ht L hl
    obtain ⟨k, _, hk⟩ := listLoop_ok_endsIn s (fuel + 1) cur L hl
    have hcn : cur ∉ chainOf s fuel (fatAt s cur) := by
      cases k with
      | zero => exact absurd hk ht
      | succ k => exact not_mem_chainOf_next s k fuel cur hk
    have hcm : cur ∈ chainOf s (fuel + 1) cur := by
      unfold chainOf; rw [if_neg ht]; exact List.mem_cons_self _ _
    have hblen := blockAt_length s hwf cur hc0 hc1
    have he := named_not_other n e hn
    rw [hLeq] at hL
    rcases invalidateScan_spec (blockAt s cur) n slotOffsets with
      ⟨hscan, hother⟩ | ⟨off, pre, post, e2, hoffs, hpre, hhead, hdes, hres⟩
    · -- the entry is in a later block
      obtain ⟨l1b, hl1b, hrest2⟩ := prefix_before_match n _ rest l1 l2 e hother he hL
      obtain ⟨q, off, hq, hoff, hdes, hinv, hlist⟩ := ih (fatAt s cur) rest l1b l2 e hrest hrest2
        (fun x hx => hl1 x (by rw [hl1b]; exact List.mem_append_right _ hx)) hn
      have hq0 := (not_endsWalk q (chainOf_mem_not_endsWalk s _ _ q hq)).2.2.1
      have hne : q ≠ cur := fun e => hcn (e ▸ hq)
      refine ⟨q, off, ?_, hoff, hdes, ?_, ?_⟩
      · unfold chainOf; rw [if_neg ht]; exact List.mem_cons_of_mem _ hq
      · rw [invalidateLoop_step s n fuel cur ht, hscan]
        exact hinv
      · rw [listLoop_step _ fuel cur ht]
        have hf : fatAt (setBlock s q ((blockAt s q).set off 0)) cur = fatAt s cur := rfl
        rw [hf, hlist]
        dsimp only
        rw [blockAt_setBlock_ne _ _ _ _ (toNat_ne hq0 hc0 hne), hl1b, List.append_assoc]
    · have hscanL : scanSlots (blockAt s cur) slotOffsets
          = scanSlots (blockAt s cur) pre ++ e2 :: scanSlots (blockAt s cur) post := by
        rw [hoffs, scanSlots_append]
        congr 1
        rw [scanSlots]
        rw [if_neg hhead, hdes]
      rw [hscanL, List.append_assoc] at hL
      rcases hres with ⟨hfound, hn2⟩ | ⟨_, hn2⟩
      · obtain ⟨h1, h2, h3⟩ := first_match_unique n _ l1 _ l2 e2 e hpre hl1
          (named_not_other n e2 hn2) he hL
        subst h2
        refine ⟨cur, off, hcm, by rw [hoffs]; simp, hdes, ?_, ?_⟩
        · rw [invalidateLoop_step s n fuel cur ht, hfound]
        · rw [listLoop_step _ fuel cur ht]
          have hf : fatAt (setBlock s cur ((blockAt s cur).set off 0)) cur = fatAt s cur := rfl
          rw [hf, listLoop_setBlock_frame s cur _ fuel (fatAt s cur) hc0 hcn, hrest]
          dsimp only
          rw [blockAt_setBlock_self _ _ _ (WF_blockAt_lt s hwf cur hc1),
            scanSlots_tombstone _ pre post off hoffs hblen, ← h1, ← h3, List.append_assoc]
          rfl
      · exfalso
        obtain ⟨_, h2, _⟩ := first_match_unique n _ l1 _ l2 e2 e hpre hl1
          (unnamed_not_other n e2 hn2) he hL
        rw [h2, hn] at hn2
        cases hn2


theorem chainOf_nodup (s : FSState) (fuel : Nat) :
    ∀ (k : Nat) (cur : Int), endsIn s k cur → (chainOf s fuel cur).Nodup := by
  induction fuel with
  | zero =>
    intro k cur _
    exact List.nodup_nil
  | succ fuel ih =>
    intro k cur hk
    unfold chainOf
    by_cases ht : endsWalk cur
    · rw [if_pos ht]
      exact List.nodup_nil
    · rw [if_neg ht]
      cases k with
      | zero => exact absurd hk ht
      | succ k =>
        exact List.nodup_cons.mpr ⟨not_mem_chainOf_next s k fuel cur hk, ih k _ hk.2⟩

/-- A walk along the FAT that ends visits at most `TOTAL_BLOCKS` blocks. -/
theorem endsIn_le (s : FSState) (k : Nat) (cur : Int) (h : endsIn s k cur) :
    k ≤ TOTAL_BLOCKS := by
  have := nodup_inRange_length (chainOf s k cur) (chainOf_nodup s k k cur h)
    (fun b hb => chainOf_mem_not_endsWalk s _ _ _ hb)
  rw [chainOf_length s k cur h] at this
  exact this

theorem freeLoop_ok_of_endsIn (s : FSState) (k : Nat) :
    ∀ (s2 : FSState) (cur : Int) (fuel : Nat), endsIn s k cur →
      (nthBlock s k cur = FAT_EOF ∨ nthBlock s k cur = FAT_FREE) → k < fuel →
      (∀ y ∈ chainOf s k cur, fatAt s2 y = fatAt s y) →
      (freeLoop fuel s2 cur).2 = .ok () := by
  induction k with
  | zero =>
    intro s2 cur fuel _ hend hf _
    obtain ⟨fuel, rfl⟩ : ∃ f, fuel = f + 1 := ⟨fuel - 1, by omega⟩
    have hend2 : cur = FAT_EOF ∨ cur = FAT_FREE := hend
    unfold freeLoop
    rw [if_pos hend2]
  | succ k ih =>
    intro s2 cur fuel hk hend hf hag
    obtain ⟨fuel, rfl⟩ : ∃ f, fuel = f + 1 := ⟨fuel - 1, by omega⟩
    obtain ⟨ht, hk2⟩ := hk
    obtain ⟨h1, h2, hc0, _⟩ := not_endsWalk cur ht
    have hch : chainOf s (k + 1) cur = cur :: chainOf s k (fatAt s cur) := by
      rw [chainOf, if_neg ht]
    have hcur : fatAt s2 cur = fatAt s cur := hag cur (by rw [hch]; exact List.mem_cons_self _ _)
    unfold freeLoop
    rw [if_neg h1, if_neg h2, hcur]
    apply ih _ _ _ hk2 hend (by omega)
    intro y hy
    have hy0 := (not_endsWalk y (chainOf_mem_not_endsWalk s _ _ y hy)).2.2.1
    have hne : cur ≠ y := by
      intro e
      exact not_mem_chainOf_next s k k cur ⟨ht, hk2⟩ (e ▸ hy)
    rw [fatAt_setFat_ne _ _ _ _ (toNat_ne hc0 hy0 hne)]
    exact hag y (by rw [hch]; exact List.mem_cons_of_mem _ hy)

theorem freeBlockChain_ok_of_endsIn (s : FSState) (k : Nat) (start : Int)
    (hk : endsIn s k start)
    (hend : nthBlock s k start = FAT_EOF ∨ nthBlock s k start = FAT_FREE) :
    (freeBlockChain s start).2 = .ok () := by
  unfold freeBlockChain
  by_cases hr : start < 0 ∨ start ≥ (TOTAL_BLOCKS : Int)
  · rw [if_pos hr]
    cases k with
    | zero =>
      have hend2 : start = FAT_EOF ∨ start = FAT_FREE := hend
      rw [if_pos hend2]
    | succ k =>
      have := (not_endsWalk start hk.1).2.1
      exact absurd hr this
  · rw [if_neg hr]
    have hle := endsIn_le s k start hk
    exact freeLoop_ok_of_endsIn s k s start walkFuel hk hend (by unfold walkFuel; omega)
      (fun _ _ => rfl)

theorem findEntry_none (n : List Nat) (L : List DirectoryEntry) (h : otherNames n L) :
    findEntry n L = .ok none := by
  induction L with
  | nil => rfl
  | cons x L ih =>
    obtain ⟨nm, hnm, hne⟩ := h x (List.mem_cons_self _ _)
    rw [findEntry, hnm]
    dsimp only
    rw [if_neg hne]
    exact ih (fun y hy => h y (List.mem_cons_of_mem _ hy))

/-- The tombstoning step of `DeleteEntry` in a state `s1` that agrees with `s` on the chain of
the directory `p`: it succeeds, removes the first entry named `n` from the listing and leaves
the FAT of `s1`. -/
theorem finishDelete_spec (s s1 : FSState) (hwf1 : s1.WF) (p : Int) (n : List Nat)
    (l1 l2 : List DirectoryEntry) (e : DirectoryEntry)
    (hl : ListEntries s p = .ok (l1 ++ e :: l2)) (hl1 : otherNames n l1)
    (hn : nameOf e.Name = some n) (hp : fatAt s1 p ≠ FAT_FREE)
    (hag : ∀ y ∈ chainOf s walkFuel p, fatAt s1 y = fatAt s y ∧ blockAt s1 y = blockAt s y) :
    ∃ s2, finishDelete s1 p n = (s2, .ok ()) ∧ s2.FAT = s1.FAT ∧
      ListEntries s2 p = .ok (l1 ++ l2) := by
  have hstart := listEntries_ok_start s p _ hl (by
    intro h
    cases l1 <;> cases h)
  have hp0 : 0 ≤ p := by
    by_contra hc
    exact hstart (Or.inr (Or.inr (Or.inl (by omega))))
  have hp1 : p < (TOTAL_BLOCKS : Int) := by
    by_contra hc
    exact hstart (Or.inr (Or.inr (Or.inr (by omega))))
  rw [listEntries_inRange s p hp0 hp1] at hl
  have hl1' : listLoop s1 walkFuel p = .ok (l1 ++ e :: l2) := by
    rw [listLoop_agree s s1 walkFuel p hag]
    exact hl
  obtain ⟨q, off, _, _, _, hinv, hlist⟩ := invalidateLoop_spec s1 hwf1 n walkFuel p _ l1 l2 e hl1'
    rfl hl1 hn
  have hinv2 : invalidateEntryInParent s1 p n
      = (setBlock s1 q ((blockAt s1 q).set off 0), .ok ()) := by
    unfold invalidateEntryInParent
    rw [if_neg (by
      rintro (h | h | h)
      · omega
      · omega
      · exact hp h)]
    exact hinv
  refine ⟨setBlock s1 q ((blockAt s1 q).set off 0), ?_, rfl, ?_⟩
  · unfold finishDelete
    rw [hinv2]
  · rw [listEntries_inRange _ p hp0 hp1]
    exact hlist

/-- C18 (as amended): for a name `n` other than "", "." and ".." and a state in which
listing `p` succeeds. Names are read up to their first zero byte. If the first listed entry
named `n` (every entry listed before it has a name with a zero byte, other than `n`) is a file
whose chain consists of blocks inside the disk and ends in `FAT_EOF`, the block `p` is
allocated and no block of the chain of `p` lies on the chain of the file, then
`DeleteEntry(p, n)` succeeds; afterwards every block of that chain is free, every other FAT
entry is unchanged, and the listing of `p` is the previous listing without that entry. If every
listed entry has a name with a zero byte, other than `n`, `DeleteEntry(p, n)` fails with
`entryNotFound` and changes nothing. In the states left out, where an entry whose name has no
zero byte is listed before the first entry named `n`, the call aborts (last part). -/
theorem C18_delete_file (s : FSState) (p : Int) (n : List Nat) (L : List DirectoryEntry)
    (hwf : s.WF) (hn0 : n ≠ []) (hdot : n ≠ [46] ∧ n ≠ [46, 46])
    (hl : ListEntries s p = .ok L) :
    (∀ (l1 : List DirectoryEntry) (e : DirectoryEntry) (l2 : List DirectoryEntry) (k : Nat),
      L = l1 ++ e :: l2 → otherNames n l1 → nameOf e.Name = some n →
      e.EntryType = TYPE_FILE →
      endsIn s k e.StartBlock → nthBlock s k e.StartBlock = FAT_EOF →
      fatAt s p ≠ FAT_FREE →
      (∀ y ∈ chainOf s walkFuel p, y ∉ chainOf s walkFuel e.StartBlock) →
      ∃ s2, DeleteEntry s p n = (s2, .ok ()) ∧
        (∀ y ∈ chainOf s walkFuel e.StartBlock, fatAt s2 y = FAT_FREE) ∧
        (∀ y : Int, 0 ≤ y → y ∉ chainOf s walkFuel e.StartBlock → fatAt s2 y = fatAt s y) ∧
        ListEntries s2 p = .ok (l1 ++ l2)) ∧
    (otherNames n L → DeleteEntry s p n = (s, .err .entryNotFound)) ∧
    (∀ (l1 : List DirectoryEntry) (x : DirectoryEntry) (l2 : List DirectoryEntry),
      L = l1 ++ x :: l2 → otherNames n l1 → nameOf x.Name = none →
      DeleteEntry s p n = (s, .panic)) := by
  have hlen : n.length ≠ 0 := fun h => hn0 (List.length_eq_zero.mp h)
  refine ⟨?_, ?_, fun l1 x l2 hL hl1 hx =>
    deleteEntry_aborts s p n L l1 l2 x hn0 hdot.1 hdot.2 hl hL hl1 hx⟩
  · intro l1 e l2 k hL hl1 hn ht hk hend hp hdisj
    subst hL
    have hfind := findEntry_append n l1 l2 e hl1 hn
    have hfree := freeBlockChain_ok_of_endsIn s k e.StartBlock hk (Or.inl hend)
    have hfreeq : freeBlockChain s e.StartBlock = ((freeBlockChain s e.StartBlock).1, .ok ()) :=
      Prod.ext rfl hfree
    have hdel := deleteEntry_file s _ p n _ e hlen hdot hl hfind ht hfreeq
    have hwf1 := freeBlockChain_WF s e.StartBlock hwf
    have hag : ∀ y ∈ chainOf s walkFuel p,
        fatAt (freeBlockChain s e.StartBlock).1 y = fatAt s y ∧
        blockAt (freeBlockChain s e.StartBlock).1 y = blockAt s y := by
      intro y hy
      have hy0 := (not_endsWalk y (chainOf_mem_not_endsWalk s _ _ y hy)).2.2.1
      exact ⟨freeBlockChain_frame s _ y hy0 (hdisj y hy),
        blockAt_congr _ _ (freeBlockChain_Disk s _) y⟩
    have hstart := listEntries_ok_start s p _ hl (by
      intro h
      cases l1 <;> cases h)
    have hp0 : 0 ≤ p := by
      by_contra hc
      exact hstart (Or.inr (Or.inr (Or.inl (by omega))))
    have hp1 : p < (TOTAL_BLOCKS : Int) := by
      by_contra hc
      exact hstart (Or.inr (Or.inr (Or.inr (by omega))))
    have hpm : p ∈ chainOf s walkFuel p := by
      rw [walkFuel_eq]
      exact mem_chainOf_self s _ p hp0 hp1
    have hp1' : fatAt (freeBlockChain s e.StartBlock).1 p ≠ FAT_FREE := by
      rw [(hag p hpm).1]
      exact hp
    obtain ⟨s2, hfin, hfat, hlist⟩ := finishDelete_spec s _ hwf1 p n l1 l2 e hl hl1 hn hp1' hag
    refine ⟨s2, by rw [hdel, hfin], ?_, ?_, hlist⟩
    · intro y hy
      rw [fatAt_congr _ _ hfat y]
      exact freeBlockChain_ok_freed s _ _ hwf hfreeq y hy
    · intro y hy hn
      rw [fatAt_congr _ _ hfat y]
      exact freeBlockChain_frame s _ y hy hn
  · intro hother
    unfold DeleteEntry
    have hd : ¬ (n = [46] ∨ n = [46, 46]) := by
      rintro (h | h)
      · exact hdot.1 h
      · exact hdot.2 h
    rw [if_neg hlen, if_neg hd]
    simp only [hl, findEntry_none n L hother]


set_option maxRecDepth 1000000 in
/-- C18 as stated fails. On the formatted disk `CreateFile(0, "x")` succeeds with the
unallocated parent block 0, which becomes the data block of "x": the file "x" is listed in
directory 0 and its chain is the in-range block 0 followed by `FAT_EOF`, yet
`DeleteEntry(0, "x")` frees block 0 and then fails in `invalidateEntryInParent`, and "x" is
still listed. A file entry named "." (created in the allocated block 0, which lists no ".")
is refused with `reservedName`. For the empty name, which no entry bears, the error is
`nameEmpty`, not `entryNotFound`. -/
theorem C18_counterexample :
    (ListEntries (CreateFile (FormatDisk ⟨[], []⟩ 0 0).1 0 [120] 5).1 0
        = .ok [⟨mkName [120], TYPE_FILE, 0, 0, 5⟩] ∧
      nameOf (mkName [120]) = some [120] ∧
      endsIn (CreateFile (FormatDisk ⟨[], []⟩ 0 0).1 0 [120] 5).1 1 0 ∧
      nthBlock (CreateFile (FormatDisk ⟨[], []⟩ 0 0).1 0 [120] 5).1 1 0 = FAT_EOF ∧
      (DeleteEntry (CreateFile (FormatDisk ⟨[], []⟩ 0 0).1 0 [120] 5).1 0 [120]).2
        = .err (.invalidateFailed .invalidParent) ∧
      ListEntries (DeleteEntry (CreateFile (FormatDisk ⟨[], []⟩ 0 0).1 0 [120] 5).1 0 [120]).1 0
        = .ok [⟨mkName [120], TYPE_FILE, 0, 0, 5⟩]) ∧
    (ListEntries (CreateFile (CreateFile (FormatDisk ⟨[], []⟩ 0 0).1 1 [97] 5).1 0 [46] 6).1 0
        = .ok [⟨mkName [46], TYPE_FILE, 2, 0, 6⟩] ∧
      endsIn (CreateFile (CreateFile (FormatDisk ⟨[], []⟩ 0 0).1 1 [97] 5).1 0 [46] 6).1 1 2 ∧
      nthBlock (CreateFile (CreateFile (FormatDisk ⟨[], []⟩ 0 0).1 1 [97] 5).1 0 [46] 6).1 1 2
        = FAT_EOF ∧
      (DeleteEntry (CreateFile (CreateFile (FormatDisk ⟨[], []⟩ 0 0).1 1 [97] 5).1 0 [46] 6).1
        0 [46]).2 = .err .reservedName) ∧
    DeleteEntry (FormatDisk ⟨[], []⟩ 0 0).1 1 []
      = ((FormatDisk ⟨[], []⟩ 0 0).1, .err .nameEmpty) := by
  decide

set_option maxRecDepth 1000000 in
/-- C18 (as amended) on the formatted disk: the file "a" of the root is deleted. -/
theorem C18_delete_file_witness :
    (CreateFile (FormatDisk ⟨[], []⟩ 0 0).1 1 [97] 5).1.WF ∧
    ListEntries (CreateFile (FormatDisk ⟨[], []⟩ 0 0).1 1 [97] 5).1 1
      = .ok ([⟨mkName [46], 1, 1, 0, 0⟩, ⟨mkName [46, 46], 1, 1, 0, 0⟩]
          ++ ⟨mkName [97], TYPE_FILE, 0, 0, 5⟩ :: []) ∧
    ∃ s2, DeleteEntry (CreateFile (FormatDisk ⟨[], []⟩ 0 0).1 1 [97] 5).1 1 [97] = (s2, .ok ()) ∧
      (∀ y ∈ chainOf (CreateFile (FormatDisk ⟨[], []⟩ 0 0).1 1 [97] 5).1 walkFuel
          (DirectoryEntry.mk (mkName [97]) TYPE_FILE 0 0 5).StartBlock,
        fatAt s2 y = FAT_FREE) ∧
      (∀ y : Int, 0 ≤ y →
        y ∉ chainOf (CreateFile (FormatDisk ⟨[], []⟩ 0 0).1 1 [97] 5).1 walkFuel
          (DirectoryEntry.mk (mkName [97]) TYPE_FILE 0 0 5).StartBlock →
        fatAt s2 y = fatAt (CreateFile (FormatDisk ⟨[], []⟩ 0 0).1 1 [97] 5).1 y) ∧
      ListEntries s2 1
        = .ok ([⟨mkName [46], 1, 1, 0, 0⟩, ⟨mkName [46, 46], 1, 1, 0, 0⟩] ++ []) :=
  ⟨by decide, by decide,
    (C18_delete_file (CreateFile (FormatDisk ⟨[], []⟩ 0 0).1 1 [97] 5).1 1 [97]
      ([⟨mkName [46], 1, 1, 0, 0⟩, ⟨mkName [46, 46], 1, 1, 0, 0⟩]
          ++ ⟨mkName [97], TYPE_FILE, 0, 0, 5⟩ :: [])
      (by decide) (by decide) (by decide) (by decide)).1
      [⟨mkName [46], 1, 1, 0, 0⟩, ⟨mkName [46, 46], 1, 1, 0, 0⟩]
      ⟨mkName [97], TYPE_FILE, 0, 0, 5⟩ [] 1 rfl
      (by
        intro x hx
        rcases List.mem_cons.mp hx with h | h
        · exact ⟨[46], by rw [h]; decide, by decide⟩
        · rcases List.mem_cons.mp h with h | h
          · exact ⟨[46, 46], by rw [h]; decide, by decide⟩
          · cases h)
      (by decide) (by decide) (by decide) (by decide) (by decide) (by decide)⟩

/-! ## C19: deleting a directory entry without a valid start block -/

/-- C19: for a name other than "", "." and ".." whose first listed entry in `p` is a
directory entry `e`. When `e.StartBlock` is `FAT_EOF` or `FAT_FREE` (and `p` is allocated),
`DeleteEntry` skips the emptiness check, succeeds, leaves the FAT as it is and tombstones the
entry: the listing of `p` loses exactly that entry. When `e.StartBlock` is outside the disk and
is neither `FAT_EOF` nor `FAT_FREE`, the emptiness check is skipped as well, but
`freeBlockChain` then returns an error: `DeleteEntry` fails with it and the state, the entry
included, is unchanged. -/
theorem C19_delete_directory_without_blocks (s : FSState) (p : Int) (n : List Nat)
    (l1 l2 : List DirectoryEntry) (e : DirectoryEntry) (hwf : s.WF) (hn0 : n ≠ [])
    (hdot : n ≠ [46] ∧ n ≠ [46, 46]) (hl : ListEntries s p = .ok (l1 ++ e :: l2))
    (hl1 : otherNames n l1) (hn : nameOf e.Name = some n)
    (ht : e.EntryType = TYPE_DIRECTORY) :
    ((e.StartBlock = FAT_EOF ∨ e.StartBlock = FAT_FREE) → fatAt s p ≠ FAT_FREE →
      ∃ s2, DeleteEntry s p n = (s2, .ok ()) ∧ s2.FAT = s.FAT ∧
        ListEntries s2 p = .ok (l1 ++ l2)) ∧
    ((e.StartBlock < 0 ∨ e.StartBlock ≥ (TOTAL_BLOCKS : Int)) → e.StartBlock ≠ FAT_EOF →
      e.StartBlock ≠ FAT_FREE → DeleteEntry s p n = (s, .err .corruptChain)) := by
  have hlen : n.length ≠ 0 := fun h => hn0 (List.length_eq_zero.mp h)
  have hd : ¬ (n = [46] ∨ n = [46, 46]) := by
    rintro (h | h)
    · exact hdot.1 h
    · exact hdot.2 h
  have hfind := findEntry_append n l1 l2 e hl1 hn
  have htf : e.EntryType ≠ TYPE_FILE := by rw [ht]; decide
  refine ⟨?_, ?_⟩
  · intro hs hp
    have hskip : e.StartBlock = FAT_FREE ∨ e.StartBlock = FAT_EOF ∨ e.StartBlock < 0
        ∨ e.StartBlock ≥ (TOTAL_BLOCKS : Int) := by
      rcases hs with h | h
      · exact Or.inr (Or.inl h)
      · exact Or.inl h
    have hneg : e.StartBlock < 0 ∨ e.StartBlock ≥ (TOTAL_BLOCKS : Int) := by
      rcases hs with h | h <;> (left; rw [h]; decide)
    have hfree : freeBlockChain s e.StartBlock = (s, .ok ()) := by
      unfold freeBlockChain
      rw [if_pos hneg, if_pos hs]
    obtain ⟨s2, hfin, hfat, hlist⟩ := finishDelete_spec s s hwf p n l1 l2 e hl hl1 hn hp
      (fun _ _ => ⟨rfl, rfl⟩)
    refine ⟨s2, ?_, hfat, hlist⟩
    unfold DeleteEntry
    rw [if_neg hlen, if_neg hd]
    simp only [hl, hfind, if_neg htf, if_pos ht, if_pos hskip, hfree]
    exact hfin
  · intro hr h1 h2
    have hskip : e.StartBlock = FAT_FREE ∨ e.StartBlock = FAT_EOF ∨ e.StartBlock < 0
        ∨ e.StartBlock ≥ (TOTAL_BLOCKS : Int) := Or.inr (Or.inr hr)
    have hfree : freeBlockChain s e.StartBlock = (s, .err .corruptChain) := by
      unfold freeBlockChain
      rw [if_pos hr, if_neg (by
        rintro (h | h)
        · exact h1 h
        · exact h2 h)]
    unfold DeleteEntry
    rw [if_neg hlen, if_neg hd]
    simp only [hl, hfind, if_neg htf, if_pos ht, if_pos hskip, hfree]

set_option maxRecDepth 1000000 in
/-- C19 at a state reached through the operations alone: after `CreateFile(0, "x")` on the
formatted disk, block 0 is the data block of "x" and the block that lists it; writing to "x" the
bytes of an entry named "x" followed by the bytes of a directory entry "d" with `StartBlock`
300 succeeds, and block 0 then lists "x" and "d". `DeleteEntry(0, "d")` fails with the error of
`freeBlockChain` and leaves the state as it is. With `StartBlock = FAT_EOF` in place of 300 the
same call succeeds and "d" is no longer listed. -/
theorem C19_delete_directory_without_blocks_witness :
    (WriteToFile (CreateFile (FormatDisk ⟨[], []⟩ 0 0).1 0 [120] 7).1
      ⟨mkName [120], TYPE_FILE, 0, 0, 7⟩ 0
      (entryBytes ⟨mkName [120], TYPE_FILE, 0, 0, 0⟩
        ++ entryBytes ⟨mkName [100], TYPE_DIRECTORY, 300, 0, 0⟩) 9).2.2 = .ok () ∧
    ListEntries (WriteToFile (CreateFile (FormatDisk ⟨[], []⟩ 0 0).1 0 [120] 7).1
      ⟨mkName [120], TYPE_FILE, 0, 0, 7⟩ 0
      (entryBytes ⟨mkName [120], TYPE_FILE, 0, 0, 0⟩
        ++ entryBytes ⟨mkName [100], TYPE_DIRECTORY, 300, 0, 0⟩) 9).1 0
      = .ok ([⟨mkName [120], TYPE_FILE, 0, 98, 9⟩]
          ++ ⟨mkName [100], TYPE_DIRECTORY, 300, 0, 0⟩ :: []) ∧
    DeleteEntry (WriteToFile (CreateFile (FormatDisk ⟨[], []⟩ 0 0).1 0 [120] 7).1
      ⟨mkName [120], TYPE_FILE, 0, 0, 7⟩ 0
      (entryBytes ⟨mkName [120], TYPE_FILE, 0, 0, 0⟩
        ++ entryBytes ⟨mkName [100], TYPE_DIRECTORY, 300, 0, 0⟩) 9).1 0 [100]
      = ((WriteToFile (CreateFile (FormatDisk ⟨[], []⟩ 0 0).1 0 [120] 7).1
          ⟨mkName [120], TYPE_FILE, 0, 0, 7⟩ 0
          (entryBytes ⟨mkName [120], TYPE_FILE, 0, 0, 0⟩
            ++ entryBytes ⟨mkName [100], TYPE_DIRECTORY, 300, 0, 0⟩) 9).1,
          .err .corruptChain) ∧
    ∃ s2, DeleteEntry (WriteToFile (CreateFile (FormatDisk ⟨[], []⟩ 0 0).1 0 [120] 7).1
        ⟨mkName [120], TYPE_FILE, 0, 0, 7⟩ 0
        (entryBytes ⟨mkName [120], TYPE_FILE, 0, 0, 0⟩
          ++ entryBytes ⟨mkName [100], TYPE_DIRECTORY, FAT_EOF, 0, 0⟩) 9).1 0 [100]
        = (s2, .ok ()) ∧
      s2.FAT = (WriteToFile (CreateFile (FormatDisk ⟨[], []⟩ 0 0).1 0 [120] 7).1
        ⟨mkName [120], TYPE_FILE, 0, 0, 7⟩ 0
        (entryBytes ⟨mkName [120], TYPE_FILE, 0, 0, 0⟩
          ++ entryBytes ⟨mkName [100], TYPE_DIRECTORY, FAT_EOF, 0, 0⟩) 9).1.FAT ∧
      ListEntries s2 0 = .ok ([⟨mkName [120], TYPE_FILE, 0, 98, 9⟩] ++ []) :=
  ⟨by decide, by decide,
    (C19_delete_directory_without_blocks
      (WriteToFile (CreateFile (FormatDisk ⟨[], []⟩ 0 0).1 0 [120] 7).1
        ⟨mkName [120], TYPE_FILE, 0, 0, 7⟩ 0
        (entryBytes ⟨mkName [120], TYPE_FILE, 0, 0, 0⟩
          ++ entryBytes ⟨mkName [100], TYPE_DIRECTORY, 300, 0, 0⟩) 9).1 0 [100]
      [⟨mkName [120], TYPE_FILE, 0, 98, 9⟩] [] ⟨mkName [100], TYPE_DIRECTORY, 300, 0, 0⟩
      (by decide) (by decide) (by decide) (by decide)
      (by
        intro x hx
        rcases List.mem_cons.mp hx with h | h
        · exact ⟨[120], by rw [h]; decide, by decide⟩
        · cases h)
      (by decide) (by decide)).2 (by decide) (by decide) (by decide),
    (C19_delete_directory_without_blocks
      (WriteToFile (CreateFile (FormatDisk ⟨[], []⟩ 0 0).1 0 [120] 7).1
        ⟨mkName [120], TYPE_FILE, 0, 0, 7⟩ 0
        (entryBytes ⟨mkName [120], TYPE_FILE, 0, 0, 0⟩
          ++ entryBytes ⟨mkName [100], TYPE_DIRECTORY, FAT_EOF, 0, 0⟩) 9).1 0 [100]
      [⟨mkName [120], TYPE_FILE, 0, 98, 9⟩] [] ⟨mkName [100], TYPE_DIRECTORY, FAT_EOF, 0, 0⟩
      (by decide) (by decide) (by decide) (by decide)
      (by
        intro x hx
        rcases List.mem_cons.mp hx with h | h
        · exact ⟨[120], by rw [h]; decide, by decide⟩
        · cases h)
      (by decide) (by decide)).1 (Or.inl (by decide)) (by decide)⟩

/-! ## C11: creating an entry in a full directory -/

theorem firstFreeSlot_eq_none (blk offs : List Nat)
    (h : ∀ o ∈ offs, (slotData blk o).getD 0 0 ≠ 0) : firstFreeSlot blk offs = none := by
  induction offs with
  | nil => rfl
  | cons o rest ih =>
    rw [firstFreeSlot, if_neg (h o (List.mem_cons_self _ _))]
    exact ih (fun x hx => h x (List.mem_cons_of_mem _ hx))

/-- The loop of `addEntryToDirectory` along a chain that ends in `FAT_EOF` and whose blocks
have no free slot: it changes nothing and returns `directoryFull`. -/
theorem addLoop_full (s : FSState) (e : DirectoryEntry) (bytes : List Nat) (k : Nat) :
    ∀ (cur : Int) (fuel : Nat), endsIn s (k + 1) cur → nthBlock s (k + 1) cur = FAT_EOF →
      k + 1 ≤ fuel →
      (∀ y ∈ chainOf s (k + 1) cur, firstFreeSlot (blockAt s y) slotOffsets = none) →
      addLoop s e bytes fuel cur = (s, .err .directoryFull) := by
  induction k with
  | zero =>
    intro cur fuel hk hend hf hfull
    obtain ⟨fuel, rfl⟩ : ∃ f, fuel = f + 1 := ⟨fuel - 1, by omega⟩
    obtain ⟨ht, _⟩ := hk
    obtain ⟨h1, h2, _, _⟩ := not_endsWalk cur ht
    have hnext : fatAt s cur = FAT_EOF := hend
    have hslot := hfull cur (by rw [chainOf, if_neg ht]; exact List.mem_cons_self _ _)
    unfold addLoop
    rw [if_neg h1, if_neg h2, hslot]
    dsimp only
    rw [if_pos hnext]
  | succ k ih =>
    intro cur fuel hk hend hf hfull
    obtain ⟨fuel, rfl⟩ : ∃ f, fuel = f + 1 := ⟨fuel - 1, by omega⟩
    obtain ⟨ht, hk2⟩ := hk
    obtain ⟨h1, h2, _, _⟩ := not_endsWalk cur ht
    have hch : chainOf s (k + 1 + 1) cur = cur :: chainOf s (k + 1) (fatAt s cur) := by
      rw [chainOf, if_neg ht]
    have hslot := hfull cur (by rw [hch]; exact List.mem_cons_self _ _)
    have hnext : fatAt s cur ≠ FAT_EOF := by
      intro h
      apply hk2.1
      rw [h]
      unfold endsWalk
      exact Or.inl rfl
    unfold addLoop
    rw [if_neg h1, if_neg h2, hslot]
    dsimp only
    rw [if_neg hnext]
    exact ih (fatAt s cur) fuel hk2 hend (by omega)
      (fun y hy => hfull y (by rw [hch]; exact List.mem_cons_of_mem _ hy))

theorem listLoop_ok_of_endsIn (s : FSState) (k : Nat) :
    ∀ (cur : Int) (fuel : Nat), endsIn s k cur →
      (nthBlock s k cur = FAT_EOF ∨ nthBlock s k cur = FAT_FREE) → k < fuel →
      ∃ L, listLoop s fuel cur = .ok L := by
  induction k with
  | zero =>
    intro cur fuel _ hend hf
    obtain ⟨fuel, rfl⟩ : ∃ f, fuel = f + 1 := ⟨fuel - 1, by omega⟩
    have hend2 : cur = FAT_EOF ∨ cur = FAT_FREE := hend
    exact ⟨[], by unfold listLoop; rw [if_pos hend2]⟩
  | succ k ih =>
    intro cur fuel hk hend hf
    obtain ⟨fuel, rfl⟩ : ∃ f, fuel = f + 1 := ⟨fuel - 1, by omega⟩
    obtain ⟨L, hL⟩ := ih (fatAt s cur) fuel hk.2 hend (by omega)
    exact ⟨_, by rw [listLoop_step s fuel cur hk.1, hL]⟩

theorem nameTaken_of_other (n : List Nat) (l : List DirectoryEntry) (h : otherNames n l) :
    nameTaken n l = .ok false := by
  induction l with
  | nil => rfl
  | cons x l ih =>
    obtain ⟨nm, hnm, hne⟩ := h x (List.mem_cons_self _ _)
    rw [nameTaken, hnm]
    dsimp only
    rw [if_neg hne]
    exact ih (fun y hy => h y (List.mem_cons_of_mem _ hy))

theorem findFreeBlock_of_free (s : FSState) (b : Int) (h0 : 0 ≤ b)
    (h1 : b < (TOTAL_BLOCKS : Int)) (hf : fatAt s b = FAT_FREE) :
    ∃ b2, findFreeBlock s = .ok b2 := by
  rcases findFreeBlock_cases s with h | h
  · exact h
  · exfalso
    unfold findFreeBlock at h
    split at h
    · cases h
    · rename_i hnone
      have := find?_range_none _ _ hnone b.toNat (by
        have : b < 256 := h1
        have e : TOTAL_BLOCKS = 256 := rfl
        omega)
      simp only [decide_eq_false_iff_not] at this
      apply this
      rw [Int.toNat_of_nonneg h0]
      exact hf


/-- The loop of `addEntryToDirectory` in a state `t` that agrees with `s` on a chain of `s`
that ends in `FAT_EOF` and whose blocks have no free slot. -/
theorem addLoop_full_agree (s t : FSState) (e : DirectoryEntry) (bytes : List Nat) (k : Nat)
    (cur : Int) (fuel : Nat) (hk : endsIn s (k + 1) cur) (hend : nthBlock s (k + 1) cur = FAT_EOF)
    (hf : k + 1 ≤ fuel)
    (hfull : ∀ y ∈ chainOf s (k + 1) cur, firstFreeSlot (blockAt s y) slotOffsets = none)
    (hag : ∀ y ∈ chainOf s (k + 1) cur, fatAt t y = fatAt s y ∧ blockAt t y = blockAt s y) :
    addLoop t e bytes fuel cur = (t, .err .directoryFull) := by
  have hlen := chainOf_length s (k + 1) cur hk
  have hnth : ∀ (j : Nat) (c : Int), (∀ y ∈ chainOf s j c, fatAt t y = fatAt s y) →
      endsIn s j c → endsIn t j c ∧ nthBlock t j c = nthBlock s j c ∧
        chainOf t j c = chainOf s j c := by
    intro j
    induction j with
    | zero =>
      intro c _ h
      exact ⟨h, rfl, rfl⟩
    | succ j ih =>
      intro c hc h
      have hch : chainOf s (j + 1) c = c :: chainOf s j (fatAt s c) := by
        rw [chainOf, if_neg h.1]
      have hfc := hc c (by rw [hch]; exact List.mem_cons_self _ _)
      obtain ⟨a1, a2, a3⟩ := ih (fatAt s c)
        (fun y hy => hc y (by rw [hch]; exact List.mem_cons_of_mem _ hy)) h.2
      refine ⟨⟨h.1, by rw [hfc]; exact a1⟩, ?_, ?_⟩
      · show nthBlock t j (fatAt t c) = nthBlock s j (fatAt s c)
        rw [hfc]
        exact a2
      · rw [chainOf, if_neg h.1, hfc, a3, hch]
  obtain ⟨h1, h2, h3⟩ := hnth (k + 1) cur (fun y hy => (hag y hy).1) hk
  apply addLoop_full t e bytes k cur fuel h1 (by rw [h2]; exact hend) hf
  intro y hy
  rw [h3] at hy
  rw [(hag y hy).2]
  exact hfull y hy

theorem chain_allocated (s : FSState) (k : Nat) :
    ∀ (cur : Int), endsIn s (k + 1) cur → nthBlock s (k + 1) cur = FAT_EOF →
      ∀ y ∈ chainOf s (k + 1) cur, fatAt s y ≠ FAT_FREE := by
  induction k with
  | zero =>
    intro cur hk hend y hy
    rw [chainOf, if_neg hk.1] at hy
    have hnext : fatAt s cur = FAT_EOF := hend
    rcases List.mem_cons.mp hy with h | h
    · rw [h, hnext]; decide
    · simp [chainOf] at h
  | succ k ih =>
    intro cur hk hend y hy
    rw [chainOf, if_neg hk.1] at hy
    rcases List.mem_cons.mp hy with h | h
    · rw [h]
      intro hfree
      apply hk.2.1
      rw [hfree]
      unfold endsWalk
      exact Or.inr (Or.inl rfl)
    · exact ih (fatAt s cur) hk.2 hend y h

theorem setFat_setFat_free (s : FSState) (hwf : s.WF) (b : Int) (h1 : b < (TOTAL_BLOCKS : Int))
    (hf : fatAt s b = FAT_FREE) (v : Int) : (setFat (setFat s b v) b FAT_FREE).FAT = s.FAT := by
  unfold setFat
  dsimp only
  rw [List.set_set]
  exact list_set_getD_self _ _ _ FAT_FREE (WF_fatAt_lt s hwf b h1) hf

/-- A directory whose chain ends in `FAT_EOF` and has no free slot: `CreateFile` and
`CreateDirectory` with a valid name that no listed entry bears, on a disk with a free block,
fail with `directoryFull`; `CreateFile` leaves the state as it was and `CreateDirectory`
leaves the FAT as it was. -/
theorem create_in_full_directory (s : FSState) (p : Int) (n : List Nat) (k : Nat) (hwf : s.WF)
    (hk : endsIn s (k + 1) p) (hend : nthBlock s (k + 1) p = FAT_EOF)
    (hfull : ∀ y ∈ chainOf s (k + 1) p, ∀ o ∈ slotOffsets,
      (slotData (blockAt s y) o).getD 0 0 ≠ 0)
    (hn0 : n.length ≠ 0) (hn1 : n.length ≤ MAX_FILENAME_LEN)
    (hfresh : ∀ entries, ListEntries s p = .ok entries → otherNames n entries)
    (hfree : ∃ b : Int, 0 ≤ b ∧ b < (TOTAL_BLOCKS : Int) ∧ fatAt s b = FAT_FREE)
    (now t1 t2 t3 : Int) :
    CreateFile s p n now = (s, .err .directoryFull) ∧
    ∃ s2, CreateDirectory s p n t1 t2 t3 = (s2, .err .directoryFull) ∧ s2.FAT = s.FAT := by
  obtain ⟨_, _, hp0, hp1⟩ := not_endsWalk p hk.1
  have hkle := endsIn_le s (k + 1) p hk
  have hfuel : k + 1 ≤ walkFuel := by unfold walkFuel; omega
  obtain ⟨L, hL⟩ := listLoop_ok_of_endsIn s (k + 1) p walkFuel hk (Or.inl hend)
    (by unfold walkFuel; omega)
  have hlist : ListEntries s p = .ok L := by
    rw [listEntries_inRange s p hp0 hp1]
    exact hL
  have htaken := nameTaken_of_other n L (hfresh L hlist)
  obtain ⟨b0, hb00, hb01, hb0f⟩ := hfree
  obtain ⟨b, hfb⟩ := findFreeBlock_of_free s b0 hb00 hb01 hb0f
  obtain ⟨hb0, hb1, hbf, _⟩ := findFreeBlock_ok s b hfb
  have halloc := chain_allocated s k p hk hend
  have hslots : ∀ y ∈ chainOf s (k + 1) p, firstFreeSlot (blockAt s y) slotOffsets = none :=
    fun y hy => firstFreeSlot_eq_none _ _ (hfull y hy)
  have hpm : p ∈ chainOf s (k + 1) p := by
    rw [chainOf, if_neg hk.1]
    exact List.mem_cons_self _ _
  have hne : ∀ y ∈ chainOf s (k + 1) p, 0 ≤ y ∧ b ≠ y := by
    intro y hy
    refine ⟨(not_endsWalk y (chainOf_mem_not_endsWalk s _ _ y hy)).2.2.1, ?_⟩
    intro e
    exact halloc y hy (e ▸ hbf)
  have hn2 : ¬ n.length > MAX_FILENAME_LEN := by omega
  refine ⟨?_, ?_⟩
  · have hag : ∀ y ∈ chainOf s (k + 1) p, fatAt (setFat s b FAT_EOF) y = fatAt s y ∧
        blockAt (setFat s b FAT_EOF) y = blockAt s y := by
      intro y hy
      obtain ⟨hy0, hby⟩ := hne y hy
      exact ⟨fatAt_setFat_ne _ _ _ _ (toNat_ne hb0 hy0 hby), rfl⟩
    have hloop := addLoop_full_agree s (setFat s b FAT_EOF)
      ⟨mkName n, TYPE_FILE, b, 0, now⟩ (entryBytes ⟨mkName n, TYPE_FILE, b, 0, now⟩) k p
      walkFuel hk hend hfuel hslots hag
    have hadd : addEntryToDirectory (setFat s b FAT_EOF) p ⟨mkName n, TYPE_FILE, b, 0, now⟩
        = (setFat s b FAT_EOF, .err .directoryFull) := by
      unfold addEntryToDirectory
      rw [if_neg (by
        rintro (h | h | h)
        · omega
        · omega
        · rw [(hag p hpm).1] at h
          exact halloc p hpm h), serialize_eq _ (mkName_length n)]
      dsimp only
      have hbl : (entryBytes ⟨mkName n, TYPE_FILE, b, 0, now⟩).length = DIRECTORY_ENTRY_SIZE :=
        entryBytes_length ⟨mkName n, TYPE_FILE, b, 0, now⟩ (mkName_length n)
      rw [if_neg (not_not.mpr hbl)]
      exact hloop
    unfold CreateFile
    rw [if_neg hn0, if_neg hn2]
    simp only [hlist, htaken, hfb, hadd]
    congr 1
    have h1 := setFat_setFat_free s hwf b hb1 hbf FAT_EOF
    have h2 : (setFat (setFat s b FAT_EOF) b FAT_FREE).Disk = s.Disk := rfl
    cases hs : setFat (setFat s b FAT_EOF) b FAT_FREE
    rw [hs] at h1 h2
    cases s
    simp only at h1 h2
    rw [h1, h2]
  · have hprep := createDirectory_prepared s hwf b p t1 t2 hb0 hb1
    have hag : ∀ y ∈ chainOf s (k + 1) p,
        fatAt (setBlock (setFat s b FAT_EOF) b (newDirBlock b p t1 t2)) y = fatAt s y ∧
        blockAt (setBlock (setFat s b FAT_EOF) b (newDirBlock b p t1 t2)) y = blockAt s y := by
      intro y hy
      obtain ⟨hy0, hby⟩ := hne y hy
      refine ⟨?_, ?_⟩
      · rw [fatAt_setBlock]
        exact fatAt_setFat_ne _ _ _ _ (toNat_ne hb0 hy0 hby)
      · rw [blockAt_setBlock_ne _ _ _ _ (toNat_ne hb0 hy0 hby)]
        rfl
    have hloop := addLoop_full_agree s (setBlock (setFat s b FAT_EOF) b (newDirBlock b p t1 t2))
      ⟨mkName n, TYPE_DIRECTORY, b, 2 * DIRECTORY_ENTRY_SIZE, t3⟩
      (entryBytes ⟨mkName n, TYPE_DIRECTORY, b, 2 * DIRECTORY_ENTRY_SIZE, t3⟩) k p
      walkFuel hk hend hfuel hslots hag
    have hadd : addEntryToDirectory (setBlock (setFat s b FAT_EOF) b (newDirBlock b p t1 t2)) p
        ⟨mkName n, TYPE_DIRECTORY, b, 2 * DIRECTORY_ENTRY_SIZE, t3⟩
        = (setBlock (setFat s b FAT_EOF) b (newDirBlock b p t1 t2), .err .directoryFull) := by
      unfold addEntryToDirectory
      rw [if_neg (by
        rintro (h | h | h)
        · omega
        · omega
        · rw [(hag p hpm).1] at h
          exact halloc p hpm h), serialize_eq _ (mkName_length n)]
      dsimp only
      have hbl : (entryBytes
          ⟨mkName n, TYPE_DIRECTORY, b, 2 * DIRECTORY_ENTRY_SIZE, t3⟩).length
          = DIRECTORY_ENTRY_SIZE :=
        entryBytes_length ⟨mkName n, TYPE_DIRECTORY, b, 2 * DIRECTORY_ENTRY_SIZE, t3⟩
          (mkName_length n)
      rw [if_neg (not_not.mpr hbl)]
      exact hloop
    refine ⟨setFat (setBlock (setFat s b FAT_EOF) b (newDirBlock b p t1 t2)) b FAT_FREE, ?_, ?_⟩
    · unfold CreateDirectory
      rw [if_neg hn0, if_neg hn2]
      simp only [hlist, htaken, hfb]
      rw [hprep, hadd]
    · exact setFat_setFat_free s hwf b hb1 hbf FAT_EOF


/-! ### Creations that succeed -/

theorem nameOf_mkName_some (n : List Nat) (h : n.length < MAX_FILENAME_LEN) :
    ∃ nm, nameOf (mkName n) = some nm := by
  have hz : 0 ∈ mkName n := by
    rw [mkName_eq n (le_of_lt h)]
    apply List.mem_append_right
    rw [List.mem_replicate]
    exact ⟨by omega, rfl⟩
  unfold nameOf
  rw [if_pos hz]
  exact ⟨_, rfl⟩

/-- The loop of `addEntryToDirectory` when the first block of the directory has a free slot. -/
theorem addEntry_first_block (t : FSState) (p : Int) (e : DirectoryEntry) (off : Nat)
    (hp0 : 0 ≤ p) (hp1 : p < (TOTAL_BLOCKS : Int)) (hpf : fatAt t p ≠ FAT_FREE)
    (hlen : e.Name.length = MAX_FILENAME_LEN) (hname : ∃ nm, nameOf e.Name = some nm)
    (hslot : firstFreeSlot (blockAt t p) slotOffsets = some off) :
    addEntryToDirectory t p e
      = (setBlock t p (copyAt (blockAt t p) off (entryBytes e)), .ok ()) := by
  obtain ⟨nm, hnm⟩ := hname
  have ht := not_endsWalk p (inRange_not_endsWalk p hp0 hp1)
  unfold addEntryToDirectory
  rw [if_neg (by
    rintro (h | h | h)
    · omega
    · omega
    · exact hpf h), serialize_eq e hlen]
  dsimp only
  have hbl : (entryBytes e).length = DIRECTORY_ENTRY_SIZE := entryBytes_length e hlen
  rw [if_neg (not_not.mpr hbl), walkFuel_eq]
  unfold addLoop
  rw [if_neg ht.1, if_neg ht.2.1, hslot]
  dsimp only
  rw [hnm]

/-- `CreateFile` succeeds when the name is valid and not taken, a block is free and the first
block of the parent has a free slot. -/
theorem createFile_succeeds (s : FSState) (p : Int) (n : List Nat) (now : Int)
    (entries : List DirectoryEntry) (b : Int) (off : Nat)
    (hn0 : n.length ≠ 0) (hn1 : n.length < MAX_FILENAME_LEN)
    (hl : ListEntries s p = .ok entries) (hfresh : otherNames n entries)
    (hfb : findFreeBlock s = .ok b) (hp0 : 0 ≤ p) (hp1 : p < (TOTAL_BLOCKS : Int))
    (hpf : fatAt s p ≠ FAT_FREE)
    (hslot : firstFreeSlot (blockAt s p) slotOffsets = some off) :
    CreateFile s p n now
      = (setBlock (setFat s b FAT_EOF) p
          (copyAt (blockAt s p) off (entryBytes ⟨mkName n, TYPE_FILE, b, 0, now⟩)), .ok ()) := by
  obtain ⟨hb0, _, hbf, _⟩ := findFreeBlock_ok s b hfb
  have hne : b ≠ p := fun e => hpf (e ▸ hbf)
  have hadd := addEntry_first_block (setFat s b FAT_EOF) p ⟨mkName n, TYPE_FILE, b, 0, now⟩ off
    hp0 hp1 (by rw [fatAt_setFat_ne _ _ _ _ (toNat_ne hb0 hp0 hne)]; exact hpf)
    (mkName_length n) (nameOf_mkName_some n hn1) hslot
  unfold CreateFile
  rw [if_neg hn0, if_neg (by omega)]
  simp only [hl, nameTaken_of_other n entries hfresh, hfb, hadd]
  rfl

/-- `CreateDirectory` succeeds under the same conditions. -/
theorem createDirectory_succeeds (s : FSState) (hwf : s.WF) (p : Int) (n : List Nat)
    (t1 t2 t3 : Int) (entries : List DirectoryEntry) (b : Int) (off : Nat)
    (hn0 : n.length ≠ 0) (hn1 : n.length < MAX_FILENAME_LEN)
    (hl : ListEntries s p = .ok entries) (hfresh : otherNames n entries)
    (hfb : findFreeBlock s = .ok b) (hp0 : 0 ≤ p) (hp1 : p < (TOTAL_BLOCKS : Int))
    (hpf : fatAt s p ≠ FAT_FREE)
    (hslot : firstFreeSlot (blockAt s p) slotOffsets = some off) :
    CreateDirectory s p n t1 t2 t3
      = (setBlock (setBlock (setFat s b FAT_EOF) b (newDirBlock b p t1 t2)) p
          (copyAt (blockAt s p) off
            (entryBytes ⟨mkName n, TYPE_DIRECTORY, b, 2 * DIRECTORY_ENTRY_SIZE, t3⟩)),
          .ok ()) := by
  obtain ⟨hb0, hb1, hbf, _⟩ := findFreeBlock_ok s b hfb
  have hne : b ≠ p := fun e => hpf (e ▸ hbf)
  have hblk : blockAt (setBlock (setFat s b FAT_EOF) b (newDirBlock b p t1 t2)) p
      = blockAt s p := by
    rw [blockAt_setBlock_ne _ _ _ _ (toNat_ne hb0 hp0 hne)]
    rfl
  have hadd := addEntry_first_block (setBlock (setFat s b FAT_EOF) b (newDirBlock b p t1 t2)) p
    ⟨mkName n, TYPE_DIRECTORY, b, 2 * DIRECTORY_ENTRY_SIZE, t3⟩ off
    hp0 hp1 (by
      rw [fatAt_setBlock, fatAt_setFat_ne _ _ _ _ (toNat_ne hb0 hp0 hne)]
      exact hpf)
    (mkName_length n) (nameOf_mkName_some n hn1) (by rw [hblk]; exact hslot)
  rw [hblk] at hadd
  unfold CreateDirectory
  rw [if_neg hn0, if_neg (by omega)]
  simp only [hl, nameTaken_of_other n entries hfresh, hfb]
  rw [createDirectory_prepared s hwf b p t1 t2 hb0 hb1, hadd]

/-! ### The root directory of a fresh filesystem holds three more entries -/

theorem slotsTaken_first (blk : List Nat) (j : Nat) (h : slotsTaken blk j) (hj : j < 5) :
    firstFreeSlot blk slotOffsets = some (j * DIRECTORY_ENTRY_SIZE) := by
  have h0 : (slotData blk 0).getD 0 0 ≠ 0 ↔ 0 < j := h 0 (by omega)
  have h1 : (slotData blk 49).getD 0 0 ≠ 0 ↔ 1 < j := h 1 (by omega)
  have h2 : (slotData blk 98).getD 0 0 ≠ 0 ↔ 2 < j := h 2 (by omega)
  have h3 : (slotData blk 147).getD 0 0 ≠ 0 ↔ 3 < j := h 3 (by omega)
  have h4 : (slotData blk 196).getD 0 0 ≠ 0 ↔ 4 < j := h 4 (by omega)
  have e : DIRECTORY_ENTRY_SIZE = 49 := rfl
  rw [e, slotOffsets_eq]
  interval_cases j
  · have a0 : (slotData blk 0).getD 0 0 = 0 := by
      by_contra hc; exact absurd (h0.mp hc) (by omega)
    rw [firstFreeSlot, if_pos a0]
  · have a0 : (slotData blk 0).getD 0 0 ≠ 0 := h0.mpr (by omega)
    have a1 : (slotData blk 49).getD 0 0 = 0 := by
      by_contra hc; exact absurd (h1.mp hc) (by omega)
    rw [firstFreeSlot, if_neg a0, firstFreeSlot, if_pos a1]
  · have a0 : (slotData blk 0).getD 0 0 ≠ 0 := h0.mpr (by omega)
    have a1 : (slotData blk 49).getD 0 0 ≠ 0 := h1.mpr (by omega)
    have a2 : (slotData blk 98).getD 0 0 = 0 := by
      by_contra hc; exact absurd (h2.mp hc) (by omega)
    rw [firstFreeSlot, if_neg a0, firstFreeSlot, if_neg a1, firstFreeSlot, if_pos a2]
  · have a0 : (slotData blk 0).getD 0 0 ≠ 0 := h0.mpr (by omega)
    have a1 : (slotData blk 49).getD 0 0 ≠ 0 := h1.mpr (by omega)
    have a2 : (slotData blk 98).getD 0 0 ≠ 0 := h2.mpr (by omega)
    have a3 : (slotData blk 147).getD 0 0 = 0 := by
      by_contra hc; exact absurd (h3.mp hc) (by omega)
    rw [firstFreeSlot, if_neg a0, firstFreeSlot, if_neg a1, firstFreeSlot, if_neg a2,
      firstFreeSlot, if_pos a3]
  · have a0 : (slotData blk 0).getD 0 0 ≠ 0 := h0.mpr (by omega)
    have a1 : (slotData blk 49).getD 0 0 ≠ 0 := h1.mpr (by omega)
    have a2 : (slotData blk 98).getD 0 0 ≠ 0 := h2.mpr (by omega)
    have a3 : (slotData blk 147).getD 0 0 ≠ 0 := h3.mpr (by omega)
    have a4 : (slotData blk 196).getD 0 0 = 0 := by
      by_contra hc; exact absurd (h4.mp hc) (by omega)
    rw [firstFreeSlot, if_neg a0, firstFreeSlot, if_neg a1, firstFreeSlot, if_neg a2,
      firstFreeSlot, if_neg a3, firstFreeSlot, if_pos a4]

theorem mem_slotOffsets (o : Nat) :
    o ∈ slotOffsets ↔ ∃ i, i < 5 ∧ o = i * DIRECTORY_ENTRY_SIZE := by
  rw [slotOffsets_eq]
  have e : DIRECTORY_ENTRY_SIZE = 49 := rfl
  rw [e]
  constructor
  · intro h
    simp only [List.mem_cons, List.mem_singleton, List.not_mem_nil, or_false] at h
    rcases h with h | h | h | h | h
    · exact ⟨0, by omega, by omega⟩
    · exact ⟨1, by omega, by omega⟩
    · exact ⟨2, by omega, by omega⟩
    · exact ⟨3, by omega, by omega⟩
    · exact ⟨4, by omega, by omega⟩
  · rintro ⟨i, hi, rfl⟩
    interval_cases i <;> simp

theorem slotsTaken_full (blk : List Nat) (h : slotsTaken blk 5) :
    ∀ o ∈ slotOffsets, (slotData blk o).getD 0 0 ≠ 0 := by
  intro o ho
  obtain ⟨i, hi, rfl⟩ := (mem_slotOffsets o).mp ho
  exact (h i hi).mpr hi

theorem slotsTaken_add (blk bytes : List Nat) (j : Nat) (h : slotsTaken blk j) (hj : j < 5)
    (hblk : blk.length = BLOCK_SIZE) (hb : bytes.length = DIRECTORY_ENTRY_SIZE)
    (hhead : bytes.getD 0 0 ≠ 0) :
    slotsTaken (copyAt blk (j * DIRECTORY_ENTRY_SIZE) bytes) (j + 1) := by
  intro i hi
  have e : DIRECTORY_ENTRY_SIZE = 49 := rfl
  have e2 : BLOCK_SIZE = 256 := rfl
  by_cases hij : i = j
  · subst hij
    rw [slotData_copyAt_same blk _ bytes hb (by rw [hblk, e, e2]; omega)]
    exact ⟨fun _ => by omega, fun _ => hhead⟩
  · rw [slotData_copyAt_other blk _ _ bytes hb (by rw [hblk, e, e2]; omega) (by
      rw [e]
      omega)]
    rw [h i hi]
    omega

theorem findFreeBlock_congr (s t : FSState) (h : s.FAT = t.FAT) :
    findFreeBlock s = findFreeBlock t := by
  unfold findFreeBlock fatAt
  rw [h]


theorem format_facts (prior : FSState) (t1 t2 : Int) :
    (FormatDisk prior t1 t2).1.WF ∧
    (FormatDisk prior t1 t2).1.FAT = (List.replicate TOTAL_BLOCKS FAT_FREE).set 1 FAT_EOF ∧
    blockAt (FormatDisk prior t1 t2).1 ROOT_DIR_BLOCK =
      entryBytes ⟨mkName [46], TYPE_DIRECTORY, ROOT_DIR_BLOCK, 0, t1⟩ ++
        entryBytes ⟨mkName [46, 46], TYPE_DIRECTORY, ROOT_DIR_BLOCK, 0, t2⟩ ++
        List.replicate 158 0 ∧
    ListEntries (FormatDisk prior t1 t2).1 ROOT_DIR_BLOCK =
      .ok [{ Name := mkName [46], EntryType := TYPE_DIRECTORY, StartBlock := 1, Size := 0,
             ModTime := toSigned 8 (toUnsigned 8 t1) },
           { Name := mkName [46, 46], EntryType := TYPE_DIRECTORY, StartBlock := 1, Size := 0,
             ModTime := toSigned 8 (toUnsigned 8 t2) }] := by
  have hf := formatted_state prior t1 t2
  have l1 := entryBytes_length ⟨mkName [46], TYPE_DIRECTORY, ROOT_DIR_BLOCK, 0, t1⟩
    (mkName_length _)
  have l2 := entryBytes_length ⟨mkName [46, 46], TYPE_DIRECTORY, ROOT_DIR_BLOCK, 0, t2⟩
    (mkName_length _)
  have hroot : blockAt (FormatDisk prior t1 t2).1 ROOT_DIR_BLOCK =
      entryBytes ⟨mkName [46], TYPE_DIRECTORY, ROOT_DIR_BLOCK, 0, t1⟩ ++
        entryBytes ⟨mkName [46, 46], TYPE_DIRECTORY, ROOT_DIR_BLOCK, 0, t2⟩ ++
        List.replicate 158 0 := by
    rw [hf]
    exact getD_set_self _ _ _ _ (by rw [List.length_replicate]; decide)
  have hroot1 : fatAt (FormatDisk prior t1 t2).1 ROOT_DIR_BLOCK = FAT_EOF := by
    rw [hf]
    exact getD_set_self _ _ _ _ (by rw [List.length_replicate]; decide)
  refine ⟨?_, by rw [hf], hroot, ?_⟩
  · rw [hf]
    refine ⟨by simp only [List.length_set, List.length_replicate], ?_,
      by simp only [List.length_set, List.length_replicate]⟩
    intro blk hb
    rcases List.mem_or_eq_of_mem_set hb with hb | rfl
    · rw [List.eq_of_mem_replicate hb, List.length_replicate]
    · rw [List.length_append, List.length_append, l1, l2, List.length_replicate]; rfl
  · unfold ListEntries
    rw [if_neg (by decide), if_neg (by decide), walkFuel_eq,
      listLoop_single _ _ _ (by decide) (by decide) (Or.inl hroot1), hroot]
    rw [format_root_scan _ _ (mkName_length _) (mkName_length _)
      (show (mkName [46]).getD 0 0 ≠ 0 by decide) (show (mkName [46, 46]).getD 0 0 ≠ 0 by decide) _ _
      (deserialize_entryBytes _ (mkName_length _)) (deserialize_entryBytes _ (mkName_length _))]
    rfl

theorem format_rootHolds (prior : FSState) (t1 t2 : Int) :
    rootHolds (FormatDisk prior t1 t2).1 0 [] := by
  obtain ⟨hwf, hfat, hroot, hlist⟩ := format_facts prior t1 t2
  have l1 := entryBytes_length ⟨mkName [46], TYPE_DIRECTORY, ROOT_DIR_BLOCK, 0, t1⟩
    (mkName_length _)
  have l2 := entryBytes_length ⟨mkName [46, 46], TYPE_DIRECTORY, ROOT_DIR_BLOCK, 0, t2⟩
    (mkName_length _)
  refine ⟨hwf, ?_, ?_, _, hlist, ?_⟩
  · unfold fatAt
    rw [hfat]
    exact getD_set_self _ _ _ _ (by rw [List.length_replicate]; decide)
  · rw [hroot]
    intro i hi
    have e : DIRECTORY_ENTRY_SIZE = 49 := rfl
    rw [slotData_getD_zero, e]
    by_cases h2 : i < 2
    · have hh : ∀ (d dd z : List Nat), d.length = 49 → dd.length = 49 →
          d.getD 0 0 ≠ 0 → dd.getD 0 0 ≠ 0 → (d ++ dd ++ z).getD (i * 49) 0 ≠ 0 := by
        intro d dd z hd hdd n1 n2
        interval_cases i
        · rw [List.append_assoc, List.getD_append _ _ _ _ (by omega)]
          exact n1
        · rw [List.append_assoc, List.getD_append_right _ _ _ _ (by omega),
            List.getD_append _ _ _ _ (by omega), hd]
          exact n2
      have := hh _ _ (List.replicate 158 0) l1 l2
        (by
          rw [entryBytes_head _ (show mkName [46] ≠ [] by decide)]
          exact (show (mkName [46]).getD 0 0 ≠ 0 by decide))
        (by
          rw [entryBytes_head _ (show mkName [46, 46] ≠ [] by decide)]
          exact (show (mkName [46, 46]).getD 0 0 ≠ 0 by decide))
      exact ⟨fun _ => by omega, fun _ => this⟩
    · have := format_root_block_tail _ _ l1 l2 (i * 49) (by omega) 0 (by omega)
      rw [this]
      exact ⟨fun h => absurd rfl h, fun h => by omega⟩
  · intro x hx
    simp only [List.mem_cons, List.mem_singleton, List.not_mem_nil, or_false] at hx
    rcases hx with h | h
    · exact ⟨[46], by rw [h]; exact (show nameOf (mkName [46]) = some [46] by decide),
        by simp⟩
    · exact ⟨[46, 46],
        by rw [h]; exact (show nameOf (mkName [46, 46]) = some [46, 46] by decide), by simp⟩


/-- The root directory after one more entry was written into its first free slot. -/
theorem rootHolds_after (s t : FSState) (j : Nat) (names : List (List Nat)) (n : List Nat)
    (b : Int) (bytes : List Nat) (e2 : DirectoryEntry)
    (h : rootHolds s j names) (hj : j < 3) (hwft : t.WF)
    (hfat : t.FAT = s.FAT.set b.toNat FAT_EOF) (hb0 : 0 ≤ b) (hbf : fatAt s b = FAT_FREE)
    (hbl : bytes.length = DIRECTORY_ENTRY_SIZE) (hhead : bytes.getD 0 0 ≠ 0)
    (hdes : DeserializeEntry bytes = .ok e2) (hname : nameOf e2.Name = some n) :
    rootHolds (setBlock t ROOT_DIR_BLOCK
      (copyAt (blockAt s ROOT_DIR_BLOCK) ((j + 2) * DIRECTORY_ENTRY_SIZE) bytes)) (j + 1)
      (n :: names) := by
  obtain ⟨hwf, hfat1, hslots, L, hL, hnames⟩ := h
  have hr0 : (0 : Int) ≤ ROOT_DIR_BLOCK := by decide
  have hr1 : ROOT_DIR_BLOCK < (TOTAL_BLOCKS : Int) := by decide
  have hblen := blockAt_length s hwf ROOT_DIR_BLOCK hr0 hr1
  have hne : b ≠ ROOT_DIR_BLOCK := by
    intro e
    rw [e, hfat1] at hbf
    exact absurd hbf (by decide)
  have hself : blockAt (setBlock t ROOT_DIR_BLOCK
      (copyAt (blockAt s ROOT_DIR_BLOCK) ((j + 2) * DIRECTORY_ENTRY_SIZE) bytes)) ROOT_DIR_BLOCK
      = copyAt (blockAt s ROOT_DIR_BLOCK) ((j + 2) * DIRECTORY_ENTRY_SIZE) bytes :=
    blockAt_setBlock_self _ _ _ (WF_blockAt_lt t hwft _ hr1)
  have hfat2 : fatAt (setBlock t ROOT_DIR_BLOCK
      (copyAt (blockAt s ROOT_DIR_BLOCK) ((j + 2) * DIRECTORY_ENTRY_SIZE) bytes)) ROOT_DIR_BLOCK
      = FAT_EOF := by
    rw [fatAt_setBlock]
    unfold fatAt
    rw [hfat, getD_set_ne _ _ _ _ _ (toNat_ne hb0 hr0 hne)]
    exact hfat1
  have hLs : L = scanSlots (blockAt s ROOT_DIR_BLOCK) slotOffsets := by
    rw [listEntries_inRange s _ hr0 hr1, walkFuel_eq,
      listLoop_single s _ _ hr0 hr1 (Or.inl hfat1)] at hL
    injection hL with hL
    exact hL.symm
  obtain ⟨l1, l2, hold, hnew⟩ := scanSlots_insert (blockAt s ROOT_DIR_BLOCK) bytes
    ((j + 2) * DIRECTORY_ENTRY_SIZE) e2 hblen hbl hhead hdes
    (slotsTaken_first _ (j + 2) hslots (by omega))
  refine ⟨WF_setBlock t _ _ hwft (by rw [copyAt_length]; exact hblen), hfat2, ?_,
    l1 ++ e2 :: l2, ?_, ?_⟩
  · rw [hself]
    exact slotsTaken_add _ bytes (j + 2) hslots (by omega) hblen hbl hhead
  · rw [listEntries_inRange _ _ hr0 hr1, walkFuel_eq,
      listLoop_single _ _ _ hr0 hr1 (Or.inl hfat2), hself, hnew]
  · intro x hx
    rcases List.mem_append.mp hx with hx | hx
    · obtain ⟨nm, h1, h2⟩ := hnames x (by rw [hLs, hold]; exact List.mem_append_left _ hx)
      refine ⟨nm, h1, ?_⟩
      simp only [List.mem_cons] at h2 ⊢
      tauto
    · rcases List.mem_cons.mp hx with hx | hx
      · exact ⟨n, by rw [hx]; exact hname, by simp⟩
      · obtain ⟨nm, h1, h2⟩ := hnames x (by rw [hLs, hold]; exact List.mem_append_right _ hx)
        refine ⟨nm, h1, ?_⟩
        simp only [List.mem_cons] at h2 ⊢
        tauto

/-- One creation in a root directory that still has a free slot succeeds and takes the next
slot and the block found by `findFreeBlock`. -/
theorem rootHolds_step (s : FSState) (j : Nat) (names : List (List Nat)) (isDir : Bool)
    (n : List Nat) (t1 t2 t3 : Int) (b : Int) (h : rootHolds s j names) (hj : j < 3)
    (hn0 : n.length ≠ 0) (hn1 : n.length < MAX_FILENAME_LEN) (hz : 0 ∉ n)
    (hnew : n ∉ [46] :: [46, 46] :: names) (hfb : findFreeBlock s = .ok b) :
    ∃ s2, createInRoot s isDir n t1 t2 t3 = (s2, .ok ()) ∧ rootHolds s2 (j + 1) (n :: names) ∧
      s2.FAT = s.FAT.set b.toNat FAT_EOF := by
  have h' := h
  obtain ⟨hwf, hfat1, hslots, L, hL, hnames⟩ := h'
  obtain ⟨hb0, hb1, hbf, _⟩ := findFreeBlock_ok s b hfb
  have hr0 : (0 : Int) ≤ ROOT_DIR_BLOCK := by decide
  have hr1 : ROOT_DIR_BLOCK < (TOTAL_BLOCKS : Int) := by decide
  have hpf : fatAt s ROOT_DIR_BLOCK ≠ FAT_FREE := by
    rw [hfat1]; decide
  have hslot := slotsTaken_first _ (j + 2) hslots (by omega)
  have hfresh : otherNames n L := by
    intro x hx
    obtain ⟨nm, h1, h2⟩ := hnames x hx
    exact ⟨nm, h1, fun e => hnew (e ▸ h2)⟩
  have hnle : n.length ≤ MAX_FILENAME_LEN := le_of_lt hn1
  have hmk : (mkName n) ≠ [] := by
    intro e
    have := mkName_length n
    rw [e] at this
    exact absurd this (by decide)
  cases isDir with
  | false =>
    have hc := createFile_succeeds s ROOT_DIR_BLOCK n t1 L b _ hn0 hn1 hL hfresh hfb hr0 hr1
      hpf hslot
    refine ⟨_, by unfold createInRoot; rw [if_neg (by decide)]; exact hc, ?_, rfl⟩
    exact rootHolds_after s (setFat s b FAT_EOF) j names n b _
      ⟨mkName n, TYPE_FILE, b, 0, toSigned 8 (toUnsigned 8 t1)⟩ h hj
      (WF_setFat s b FAT_EOF hwf) rfl hb0 hbf
      (entryBytes_length ⟨mkName n, TYPE_FILE, b, 0, t1⟩ (mkName_length n))
      (by rw [entryBytes_head ⟨mkName n, TYPE_FILE, b, 0, t1⟩ hmk]; exact mkName_head n hn0 hnle hz)
      (deserialize_new_entry (mkName n) TYPE_FILE b 0 t1 (mkName_length n) (by decide)
        ⟨hb0, hb1⟩ (by decide))
      (nameOf_mkName n hn1 hz)
  | true =>
    have hc := createDirectory_succeeds s hwf ROOT_DIR_BLOCK n t1 t2 t3 L b _ hn0 hn1 hL hfresh
      hfb hr0 hr1 hpf hslot
    refine ⟨_, by unfold createInRoot; rw [if_pos rfl]; exact hc, ?_, rfl⟩
    exact rootHolds_after s (setBlock (setFat s b FAT_EOF) b (newDirBlock b ROOT_DIR_BLOCK t1 t2))
      j names n b _
      ⟨mkName n, TYPE_DIRECTORY, b, 2 * DIRECTORY_ENTRY_SIZE, toSigned 8 (toUnsigned 8 t3)⟩ h hj
      (WF_setBlock _ b _ (WF_setFat s b FAT_EOF hwf) (newDirBlock_length _ _ _ _)) rfl hb0 hbf
      (entryBytes_length ⟨mkName n, TYPE_DIRECTORY, b, 2 * DIRECTORY_ENTRY_SIZE, t3⟩
        (mkName_length n))
      (by
        rw [entryBytes_head ⟨mkName n, TYPE_DIRECTORY, b, 2 * DIRECTORY_ENTRY_SIZE, t3⟩ hmk]
        exact mkName_head n hn0 hnle hz)
      (deserialize_new_entry (mkName n) TYPE_DIRECTORY b (2 * DIRECTORY_ENTRY_SIZE) t3
        (mkName_length n) (by decide) ⟨hb0, hb1⟩ (by decide))
      (nameOf_mkName n hn1 hz)


theorem nameTaken_total (n : List Nat) (L : List DirectoryEntry)
    (h : ∀ e ∈ L, ∃ nm, nameOf e.Name = some nm) :
    nameTaken n L = .ok true ∨ (nameTaken n L = .ok false ∧ otherNames n L) := by
  induction L with
  | nil =>
    right
    exact ⟨rfl, fun x hx => by cases hx⟩
  | cons x L ih =>
    obtain ⟨nm, hnm⟩ := h x (List.mem_cons_self _ _)
    rw [nameTaken, hnm]
    dsimp only
    by_cases hc : nm = n
    · left
      rw [if_pos hc]
    · rw [if_neg hc]
      rcases ih (fun y hy => h y (List.mem_cons_of_mem _ hy)) with h1 | ⟨h1, h2⟩
      · exact Or.inl h1
      · right
        refine ⟨h1, ?_⟩
        intro y hy
        rcases List.mem_cons.mp hy with e | e
        · rw [e]; exact ⟨nm, hnm, hc⟩
        · exact h2 y e

/-- Every creation in a root directory whose five slots are taken fails and leaves the FAT as
it is, with `directoryFull` when the name is valid and not listed and a block is free. -/
theorem rootHolds_full (s : FSState) (names : List (List Nat)) (h : rootHolds s 3 names)
    (hfree : ∃ b : Int, 0 ≤ b ∧ b < (TOTAL_BLOCKS : Int) ∧ fatAt s b = FAT_FREE)
    (isDir : Bool) (n : List Nat) (t1 t2 t3 : Int) :
    (∃ e, (createInRoot s isDir n t1 t2 t3).2 = .err e) ∧
    (createInRoot s isDir n t1 t2 t3).1.FAT = s.FAT ∧
    (n.length ≠ 0 → n.length ≤ MAX_FILENAME_LEN → n ∉ [46] :: [46, 46] :: names →
      (createInRoot s isDir n t1 t2 t3).2 = .err .directoryFull) := by
  obtain ⟨hwf, hfat1, hslots, L, hL, hnames⟩ := h
  have hr : ¬ endsWalk ROOT_DIR_BLOCK := by decide
  have hk : endsIn s (0 + 1) ROOT_DIR_BLOCK := by
    refine ⟨hr, ?_⟩
    show endsWalk (fatAt s ROOT_DIR_BLOCK)
    rw [hfat1]
    decide
  have hend : nthBlock s (0 + 1) ROOT_DIR_BLOCK = FAT_EOF := hfat1
  have hfull : ∀ y ∈ chainOf s (0 + 1) ROOT_DIR_BLOCK, ∀ o ∈ slotOffsets,
      (slotData (blockAt s y) o).getD 0 0 ≠ 0 := by
    intro y hy
    have hyr : y = ROOT_DIR_BLOCK := by
      rw [chainOf, if_neg hr] at hy
      rcases List.mem_cons.mp hy with e | e
      · exact e
      · simp [chainOf] at e
    rw [hyr]
    exact slotsTaken_full _ hslots
  have hmain : ∀ (hn0 : n.length ≠ 0) (hn1 : n.length ≤ MAX_FILENAME_LEN)
      (hfr : otherNames n L),
      (createInRoot s isDir n t1 t2 t3).2 = .err .directoryFull ∧
      (createInRoot s isDir n t1 t2 t3).1.FAT = s.FAT := by
    intro hn0 hn1 hfr
    obtain ⟨hf, s2, hd, hs2⟩ := create_in_full_directory s ROOT_DIR_BLOCK n 0 hwf hk hend hfull
      hn0 hn1 (fun entries he => by
        rw [hL] at he
        injection he with he
        rw [← he]
        exact hfr) hfree t1 t1 t2 t3
    unfold createInRoot
    cases isDir with
    | false =>
      rw [if_neg (by decide), hf]
      exact ⟨rfl, rfl⟩
    | true =>
      rw [if_pos rfl, hd]
      exact ⟨rfl, hs2⟩
  have hall : (∃ e, (createInRoot s isDir n t1 t2 t3).2 = .err e) ∧
      (createInRoot s isDir n t1 t2 t3).1.FAT = s.FAT := by
    by_cases hn0 : n.length = 0
    · unfold createInRoot CreateDirectory CreateFile
      cases isDir with
      | false =>
        rw [if_neg (by decide), if_pos hn0]
        exact ⟨⟨_, rfl⟩, rfl⟩
      | true =>
        rw [if_pos rfl, if_pos hn0]
        exact ⟨⟨_, rfl⟩, rfl⟩
    · by_cases hn1 : n.length > MAX_FILENAME_LEN
      · unfold createInRoot CreateDirectory CreateFile
        cases isDir with
        | false =>
          rw [if_neg (by decide), if_neg hn0, if_pos hn1]
          exact ⟨⟨_, rfl⟩, rfl⟩
        | true =>
          rw [if_pos rfl, if_neg hn0, if_pos hn1]
          exact ⟨⟨_, rfl⟩, rfl⟩
      · rcases nameTaken_total n L (fun e he => by
          obtain ⟨nm, h1, _⟩ := hnames e he
          exact ⟨nm, h1⟩) with ht | ⟨_, hfr⟩
        · unfold createInRoot CreateDirectory CreateFile
          cases isDir with
          | false =>
            rw [if_neg (by decide), if_neg hn0, if_neg hn1]
            simp only [hL, ht]
            exact ⟨⟨_, rfl⟩, trivial⟩
          | true =>
            rw [if_pos rfl, if_neg hn0, if_neg hn1]
            simp only [hL, ht]
            exact ⟨⟨_, rfl⟩, trivial⟩
        · obtain ⟨h1, h2⟩ := hmain hn0 (by omega) hfr
          exact ⟨⟨_, h1⟩, h2⟩
  refine ⟨hall.1, hall.2, ?_⟩
  intro hn0 hn1 hnew
  refine (hmain hn0 hn1 ?_).1
  intro x hx
  obtain ⟨nm, h1, h2⟩ := hnames x hx
  exact ⟨nm, h1, fun e => hnew (e ▸ h2)⟩


set_option maxRecDepth 1000000 in
theorem findFreeBlock_after_format :
    findFreeBlock ⟨[], (List.replicate TOTAL_BLOCKS FAT_FREE).set 1 FAT_EOF⟩ = .ok 0 ∧
    findFreeBlock ⟨[], ((List.replicate TOTAL_BLOCKS FAT_FREE).set 1 FAT_EOF).set
      (Int.toNat 0) FAT_EOF⟩ = .ok 2 ∧
    findFreeBlock ⟨[], (((List.replicate TOTAL_BLOCKS FAT_FREE).set 1 FAT_EOF).set
      (Int.toNat 0) FAT_EOF).set (Int.toNat 2) FAT_EOF⟩ = .ok 3 ∧
    (((((List.replicate TOTAL_BLOCKS FAT_FREE).set 1 FAT_EOF).set
      (Int.toNat 0) FAT_EOF).set (Int.toNat 2) FAT_EOF).set (Int.toNat 3) FAT_EOF).getD
        (Int.toNat 4) FAT_FREE = FAT_FREE := by
  decide

theorem nameTaken_skip (n : List Nat) (A B : List DirectoryEntry) (h : otherNames n A) :
    nameTaken n (A ++ B) = nameTaken n B := by
  induction A with
  | nil => rfl
  | cons a A ih =>
    obtain ⟨nm, hnm, hne⟩ := h a (List.mem_cons_self _ _)
    show nameTaken n (a :: (A ++ B)) = _
    rw [nameTaken]
    simp only [hnm, if_neg hne]
    exact ih (fun x hx => h x (List.mem_cons_of_mem _ hx))

/-- The duplicate check of `CreateFile` and `CreateDirectory` aborts when it comes to a listed
name without a zero byte before it has met the new name; the state is left as it was. -/
theorem create_aborts (s : FSState) (p : Int) (n : List Nat) (now t1 t2 t3 : Int)
    (entries l1 l2 : List DirectoryEntry) (x : DirectoryEntry) (hn0 : n.length ≠ 0)
    (hn1 : n.length ≤ MAX_FILENAME_LEN) (hl : ListEntries s p = .ok entries)
    (he : entries = l1 ++ x :: l2) (hl1 : otherNames n l1) (hx : nameOf x.Name = none) :
    CreateFile s p n now = (s, .panic) ∧ CreateDirectory s p n t1 t2 t3 = (s, .panic) := by
  have htk : nameTaken n entries = .panic := by
    rw [he, nameTaken_skip n l1 _ hl1, nameTaken, hx]
  constructor
  · unfold CreateFile
    rw [if_neg hn0, if_neg (by omega)]
    simp only [hl, htk]
  · unfold CreateDirectory
    rw [if_neg hn0, if_neg (by omega)]
    simp only [hl, htk]

/-- C11 (as amended). First part: in a directory whose chain ends in `FAT_EOF` and whose
slots are all taken, on a disk that still has a free block, `CreateFile` and `CreateDirectory`
with a name of 1 to 28 bytes fail with `directoryFull` when every listed name of the directory
has a zero byte and, read up to it, differs from the new name (the duplicate check runs to
its end without a match and without the abort on a name that fills all 28 bytes);
`CreateFile` leaves the whole state and `CreateDirectory` leaves the FAT exactly as before the
call, so no block is added to the directory. Second part: after `FormatDisk`, three creations
in the root, each of a file or of a directory, with pairwise distinct names of 1 to 27 non-zero
bytes other than "." and "..", all succeed; every creation attempted after them fails and
leaves the FAT as it is, with `directoryFull` when its name has 1 to 28 bytes and is none of
the five listed names. Third part, the states the first part leaves out: when an entry whose
name has no zero byte is listed before any entry with the new name, both calls abort in the
duplicate check and leave the state as it was. -/
theorem C11_directory_full :
    (∀ (s : FSState) (p : Int) (n : List Nat) (k : Nat) (now t1 t2 t3 : Int), s.WF →
      endsIn s (k + 1) p → nthBlock s (k + 1) p = FAT_EOF →
      (∀ y ∈ chainOf s (k + 1) p, ∀ o ∈ slotOffsets, (slotData (blockAt s y) o).getD 0 0 ≠ 0) →
      n.length ≠ 0 → n.length ≤ MAX_FILENAME_LEN →
      (∀ entries, ListEntries s p = .ok entries → otherNames n entries) →
      (∃ b : Int, 0 ≤ b ∧ b < (TOTAL_BLOCKS : Int) ∧ fatAt s b = FAT_FREE) →
      CreateFile s p n now = (s, .err .directoryFull) ∧
      ∃ s2, CreateDirectory s p n t1 t2 t3 = (s2, .err .directoryFull) ∧ s2.FAT = s.FAT) ∧
    (∀ (prior : FSState) (ta tb : Int) (d1 d2 d3 : Bool) (n1 n2 n3 : List Nat)
      (clock : Nat → Int),
      (∀ n ∈ [n1, n2, n3], n.length ≠ 0 ∧ n.length < MAX_FILENAME_LEN ∧ 0 ∉ n ∧
        n ≠ [46] ∧ n ≠ [46, 46]) →
      [n1, n2, n3].Nodup →
      ∃ s1 s2 s3,
        createInRoot (FormatDisk prior ta tb).1 d1 n1 (clock 0) (clock 1) (clock 2)
          = (s1, .ok ()) ∧
        createInRoot s1 d2 n2 (clock 3) (clock 4) (clock 5) = (s2, .ok ()) ∧
        createInRoot s2 d3 n3 (clock 6) (clock 7) (clock 8) = (s3, .ok ()) ∧
        ∀ (d4 : Bool) (n4 : List Nat) (t1 t2 t3 : Int),
          (∃ e, (createInRoot s3 d4 n4 t1 t2 t3).2 = .err e) ∧
          (createInRoot s3 d4 n4 t1 t2 t3).1.FAT = s3.FAT ∧
          (n4.length ≠ 0 → n4.length ≤ MAX_FILENAME_LEN →
            n4 ∉ [[46], [46, 46], n1, n2, n3] →
            (createInRoot s3 d4 n4 t1 t2 t3).2 = .err .directoryFull)) ∧
    (∀ (s : FSState) (p : Int) (n : List Nat) (now t1 t2 t3 : Int)
      (entries l1 l2 : List DirectoryEntry) (x : DirectoryEntry),
      n.length ≠ 0 → n.length ≤ MAX_FILENAME_LEN → ListEntries s p = .ok entries →
      entries = l1 ++ x :: l2 → otherNames n l1 → nameOf x.Name = none →
      CreateFile s p n now = (s, .panic) ∧ CreateDirectory s p n t1 t2 t3 = (s, .panic)) := by
  refine ⟨?_, ?_, fun s p n now t1 t2 t3 entries l1 l2 x hn0 hn1 hl he hl1 hx =>
    create_aborts s p n now t1 t2 t3 entries l1 l2 x hn0 hn1 hl he hl1 hx⟩
  · intro s p n k now t1 t2 t3 hwf hk hend hfull hn0 hn1 hfresh hfree
    exact create_in_full_directory s p n k hwf hk hend hfull hn0 hn1 hfresh hfree now t1 t2 t3
  · intro prior ta tb d1 d2 d3 n1 n2 n3 clock hvalid hnd
    obtain ⟨hF0, hF1, hF2, hF3⟩ := findFreeBlock_after_format
    obtain ⟨_, hfat0, _, _⟩ := format_facts prior ta tb
    have h0 := format_rootHolds prior ta tb
    have hv1 := hvalid n1 (by simp)
    have hv2 := hvalid n2 (by simp)
    have hv3 := hvalid n3 (by simp)
    simp only [List.nodup_cons, List.mem_cons, List.mem_singleton, List.not_mem_nil,
      not_or, or_false, not_false_eq_true, List.nodup_nil, and_true] at hnd
    obtain ⟨⟨h12, h13⟩, h23⟩ := hnd
    -- first creation
    have hfb0 : findFreeBlock (FormatDisk prior ta tb).1 = .ok 0 := by
      rw [findFreeBlock_congr _ ⟨[], (List.replicate TOTAL_BLOCKS FAT_FREE).set 1 FAT_EOF⟩ hfat0]
      exact hF0
    obtain ⟨s1, hc1, hr1, hfat1⟩ := rootHolds_step _ 0 [] d1 n1 (clock 0) (clock 1) (clock 2) 0
      h0 (by omega) hv1.1 hv1.2.1 hv1.2.2.1 (by
        simp only [List.mem_cons, List.mem_singleton, List.not_mem_nil, or_false, not_or]
        exact ⟨hv1.2.2.2.1, hv1.2.2.2.2⟩) hfb0
    rw [hfat0] at hfat1
    -- second creation
    have hfb1 : findFreeBlock s1 = .ok 2 := by
      rw [findFreeBlock_congr s1 ⟨[], _⟩ hfat1]
      exact hF1
    obtain ⟨s2, hc2, hr2, hfat2⟩ := rootHolds_step s1 1 [n1] d2 n2 (clock 3) (clock 4) (clock 5) 2
      hr1 (by omega) hv2.1 hv2.2.1 hv2.2.2.1 (by
        simp only [List.mem_cons, List.mem_singleton, List.not_mem_nil, or_false, not_or]
        exact ⟨hv2.2.2.2.1, hv2.2.2.2.2, fun e => h12 e.symm⟩) hfb1
    rw [hfat1] at hfat2
    -- third creation
    have hfb2 : findFreeBlock s2 = .ok 3 := by
      rw [findFreeBlock_congr s2 ⟨[], _⟩ hfat2]
      exact hF2
    obtain ⟨s3, hc3, hr3, hfat3⟩ := rootHolds_step s2 2 [n2, n1] d3 n3 (clock 6) (clock 7)
      (clock 8) 3 hr2 (by omega) hv3.1 hv3.2.1 hv3.2.2.1 (by
        simp only [List.mem_cons, List.mem_singleton, List.not_mem_nil, or_false, not_or]
        exact ⟨hv3.2.2.2.1, hv3.2.2.2.2, fun e => h23 e.symm, fun e => h13 e.symm⟩) hfb2
    rw [hfat2] at hfat3
    have hfree : ∃ b : Int, 0 ≤ b ∧ b < (TOTAL_BLOCKS : Int) ∧ fatAt s3 b = FAT_FREE := by
      refine ⟨4, by decide, by decide, ?_⟩
      unfold fatAt
      rw [hfat3]
      exact hF3
    refine ⟨s1, s2, s3, hc1, hc2, hc3, ?_⟩
    intro d4 n4 t1 t2 t3
    obtain ⟨a1, a2, a3⟩ := rootHolds_full s3 [n3, n2, n1] hr3 hfree d4 n4 t1 t2 t3
    refine ⟨a1, a2, ?_⟩
    intro hn0 hn1 hnew
    apply a3 hn0 hn1
    simp only [List.mem_cons, List.mem_singleton, List.not_mem_nil, or_false, not_or] at hnew ⊢
    exact ⟨hnew.1, hnew.2.1, hnew.2.2.2.2, hnew.2.2.2.1, hnew.2.2.1⟩

set_option maxRecDepth 1000000 in
/-- C11 as stated fails on a full disk: `findFreeBlock` runs before the entry is added. In
the state where the root lists ".", "..", "a", "b" and "c" (all five slots taken, chain ending
in `FAT_EOF`) and every FAT entry is `FAT_EOF`, as after a write that takes every free block,
creating "d" fails with `diskFull`, not with `directoryFull`. -/
theorem C11_counterexample :
    (⟨(CreateFile (CreateFile (CreateFile (FormatDisk ⟨[], []⟩ 0 0).1 1 [97] 0).1 1 [98] 0).1 1
        [99] 0).1.Disk, List.replicate 256 FAT_EOF⟩ : FSState).WF ∧
    ListEntries ⟨(CreateFile (CreateFile (CreateFile (FormatDisk ⟨[], []⟩ 0 0).1 1 [97] 0).1 1
        [98] 0).1 1 [99] 0).1.Disk, List.replicate 256 FAT_EOF⟩ 1
      = .ok [⟨mkName [46], 1, 1, 0, 0⟩, ⟨mkName [46, 46], 1, 1, 0, 0⟩,
          ⟨mkName [97], 0, 0, 0, 0⟩, ⟨mkName [98], 0, 2, 0, 0⟩, ⟨mkName [99], 0, 3, 0, 0⟩] ∧
    endsIn ⟨(CreateFile (CreateFile (CreateFile (FormatDisk ⟨[], []⟩ 0 0).1 1 [97] 0).1 1
        [98] 0).1 1 [99] 0).1.Disk, List.replicate 256 FAT_EOF⟩ 1 1 ∧
    nthBlock ⟨(CreateFile (CreateFile (CreateFile (FormatDisk ⟨[], []⟩ 0 0).1 1 [97] 0).1 1
        [98] 0).1 1 [99] 0).1.Disk, List.replicate 256 FAT_EOF⟩ 1 1 = FAT_EOF ∧
    (∀ o ∈ slotOffsets,
      (slotData (blockAt ⟨(CreateFile (CreateFile (CreateFile (FormatDisk ⟨[], []⟩ 0 0).1 1
        [97] 0).1 1 [98] 0).1 1 [99] 0).1.Disk, List.replicate 256 FAT_EOF⟩ 1) o).getD 0 0
        ≠ 0) ∧
    CreateFile ⟨(CreateFile (CreateFile (CreateFile (FormatDisk ⟨[], []⟩ 0 0).1 1 [97] 0).1 1
        [98] 0).1 1 [99] 0).1.Disk, List.replicate 256 FAT_EOF⟩ 1 [100] 0
      = (⟨(CreateFile (CreateFile (CreateFile (FormatDisk ⟨[], []⟩ 0 0).1 1 [97] 0).1 1
          [98] 0).1 1 [99] 0).1.Disk, List.replicate 256 FAT_EOF⟩, .err .diskFull) ∧
    CreateDirectory ⟨(CreateFile (CreateFile (CreateFile (FormatDisk ⟨[], []⟩ 0 0).1 1 [97]
        0).1 1 [98] 0).1 1 [99] 0).1.Disk, List.replicate 256 FAT_EOF⟩ 1 [100] 0 0 0
      = (⟨(CreateFile (CreateFile (CreateFile (FormatDisk ⟨[], []⟩ 0 0).1 1 [97] 0).1 1
          [98] 0).1 1 [99] 0).1.Disk, List.replicate 256 FAT_EOF⟩, .err .diskFull) := by
  decide

set_option maxRecDepth 1000000 in
/-- C11 (as amended) on the formatted disk: "a", "b", "c" are created in the root and "d" is
refused. -/
theorem C11_directory_full_witness :
    (CreateFile (CreateFile (CreateFile (CreateFile (FormatDisk ⟨[], []⟩ 0 0).1 1 [97] 0).1 1
        [98] 0).1 1 [99] 0).1 1 [100] 0
      = ((CreateFile (CreateFile (CreateFile (FormatDisk ⟨[], []⟩ 0 0).1 1 [97] 0).1 1
          [98] 0).1 1 [99] 0).1, .err .directoryFull)) ∧
    ∃ s1 s2 s3,
      createInRoot (FormatDisk ⟨[], []⟩ 0 0).1 false [97] 0 0 0 = (s1, .ok ()) ∧
      createInRoot s1 true [98] 0 0 0 = (s2, .ok ()) ∧
      createInRoot s2 false [99] 0 0 0 = (s3, .ok ()) ∧
      (createInRoot s3 false [100] 0 0 0).2 = .err .directoryFull ∧
      (createInRoot s3 false [100] 0 0 0).1.FAT = s3.FAT := by
  refine ⟨?_, ?_⟩
  · refine (C11_directory_full.1
      (CreateFile (CreateFile (CreateFile (FormatDisk ⟨[], []⟩ 0 0).1 1 [97] 0).1 1
        [98] 0).1 1 [99] 0).1 1 [100] 0 0 0 0 0 (by decide) (by decide) (by decide) (by decide)
      (by decide) (by decide) ?_ ⟨4, by decide, by decide, by decide⟩).1
    intro entries he
    have hl : ListEntries (CreateFile (CreateFile (CreateFile (FormatDisk ⟨[], []⟩ 0 0).1 1
        [97] 0).1 1 [98] 0).1 1 [99] 0).1 1
        = .ok [⟨mkName [46], 1, 1, 0, 0⟩, ⟨mkName [46, 46], 1, 1, 0, 0⟩,
            ⟨mkName [97], 0, 0, 0, 0⟩, ⟨mkName [98], 0, 2, 0, 0⟩,
            ⟨mkName [99], 0, 3, 0, 0⟩] := by decide
    rw [hl] at he
    injection he with he
    subst he
    intro x hx
    simp only [List.mem_cons, List.mem_singleton, List.not_mem_nil, or_false] at hx
    rcases hx with h | h | h | h | h
    · exact ⟨[46], by rw [h]; decide, by decide⟩
    · exact ⟨[46, 46], by rw [h]; decide, by decide⟩
    · exact ⟨[97], by rw [h]; decide, by decide⟩
    · exact ⟨[98], by rw [h]; decide, by decide⟩
    · exact ⟨[99], by rw [h]; decide, by decide⟩
  · obtain ⟨s1, s2, s3, h1, h2, h3, h4⟩ := C11_directory_full.2.1 ⟨[], []⟩ 0 0 false true false
      [97] [98] [99] (fun _ => 0) (by decide) (by decide)
    exact ⟨s1, s2, s3, h1, h2, h3,
      (h4 false [100] 0 0 0).2.2 (by decide) (by decide) (by decide),
      (h4 false [100] 0 0 0).2.1⟩

/-! ## C30: findFreeBlock; C22: format -/

theorem fatAt_eq_getElem (s : FSState) (i : Nat) (h : i < s.FAT.length) :
    fatAt s (i : Int) = s.FAT[i] := by
  unfold fatAt
  simp [List.getD, List.getElem?_eq_getElem h]

theorem findFreeBlock_full_iff (s : FSState) :
    findFreeBlock s = .err .diskFull ↔
      ∀ i : Nat, i < TOTAL_BLOCKS → fatAt s (i : Int) ≠ FAT_FREE := by
  unfold findFreeBlock
  constructor
  · intro h i hi
    cases hf : (List.range TOTAL_BLOCKS).find?
        (fun (i : Nat) => decide (fatAt s (i : Int) = FAT_FREE)) with
    | some j => rw [hf] at h; cases h
    | none =>
      have := find?_range_none _ _ hf i hi
      simpa using this
  · intro h
    cases hf : (List.range TOTAL_BLOCKS).find?
        (fun (i : Nat) => decide (fatAt s (i : Int) = FAT_FREE)) with
    | some j =>
      have := find?_range_some _ _ _ hf
      have h2 := h j this.1
      simp at this
      exact absurd this.2.1 h2
    | none => rfl

/-- C30: on a state with the dimensions set by format, `findFreeBlock` returns a block id
exactly when some FAT entry is FREE, and then it is the smallest index in `[0, TOTAL_BLOCKS)`
whose FAT entry is FREE (every smaller index is not FREE); it fails, with DiskFull, exactly
when no FAT entry is FREE. It is a function of the state and returns no new state: neither
the FAT nor the disk is modified. -/
theorem C30_find_free_block (s : FSState) (hwf : s.WF) :
    (∀ b : Int, findFreeBlock s = .ok b →
      0 ≤ b ∧ b < (TOTAL_BLOCKS : Int) ∧ fatAt s b = FAT_FREE ∧ s.FAT[b.toNat]? = some FAT_FREE ∧
      ∀ j : Int, 0 ≤ j → j < b → fatAt s j ≠ FAT_FREE) ∧
    (FAT_FREE ∈ s.FAT → ∃ b : Int, findFreeBlock s = .ok b) ∧
    (findFreeBlock s = .err .diskFull ↔ FAT_FREE ∉ s.FAT) ∧
    (∀ r, findFreeBlock s = r → (∃ b, r = .ok b) ∨ r = .err .diskFull) := by
  have hlen : s.FAT.length = TOTAL_BLOCKS := hwf.2.2
  have hfull : findFreeBlock s = .err .diskFull ↔ FAT_FREE ∉ s.FAT := by
    rw [findFreeBlock_full_iff]
    constructor
    · intro h hmem
      obtain ⟨i, hi, he⟩ := List.getElem_of_mem hmem
      have := h i (hlen ▸ hi)
      rw [fatAt_eq_getElem s i hi] at this
      exact this he
    · intro h i hi hf
      have hi2 : i < s.FAT.length := hlen ▸ hi
      rw [fatAt_eq_getElem s i hi2] at hf
      exact h (hf ▸ List.getElem_mem hi2)
  refine ⟨?_, ?_, hfull, ?_⟩
  · intro b hb
    obtain ⟨h0, h1, hf, hsm⟩ := findFreeBlock_ok s b hb
    refine ⟨h0, h1, hf, ?_, ?_⟩
    · have hb2 : b.toNat < s.FAT.length := by rw [hlen]; have : (b.toNat : Int) = b := Int.toNat_of_nonneg h0; unfold TOTAL_BLOCKS at *; omega
      rw [List.getElem?_eq_getElem hb2]
      have := fatAt_eq_getElem s b.toNat hb2
      rw [Int.toNat_of_nonneg h0] at this
      rw [← this, hf]
    · intro j hj0 hjb
      have := hsm j.toNat (by rw [Int.toNat_of_nonneg hj0]; exact hjb)
      rwa [Int.toNat_of_nonneg hj0] at this
  · intro hmem
    rcases findFreeBlock_cases s with h | h
    · exact h
    · exact absurd hmem (hfull.mp h)
  · intro r hr
    subst hr
    rcases findFreeBlock_cases s with ⟨b, h⟩ | h
    · exact Or.inl ⟨b, h⟩
    · exact Or.inr h

set_option maxRecDepth 1000000 in
theorem C30_find_free_block_witness :
    findFreeBlock (FormatDisk ⟨[], []⟩ 0 0).1 = .ok 0 ∧
    (findFreeBlock (FormatDisk ⟨[], []⟩ 0 0).1 = .err .diskFull ↔
      FAT_FREE ∉ (FormatDisk ⟨[], []⟩ 0 0).1.FAT) :=
  ⟨by decide, (C30_find_free_block (FormatDisk ⟨[], []⟩ 0 0).1 (by decide)).2.2.1⟩

/-- C22: `FormatDisk` does not depend on the prior contents of the disk and the FAT: from any
two prior states, with the same clock readings, it leaves the same disk and the same FAT and
returns the same result (success); a format that follows a format leaves the state a single
format leaves; and whatever the clock readings, the FAT and every block other than the root
block are the same. The same holds for `NewFileSystem`. -/
theorem C22_format_idempotent (p1 p2 : FSState) (t1 t2 a b : Int) :
    FormatDisk p1 t1 t2 = FormatDisk p2 t1 t2 ∧
    FormatDisk (FormatDisk p1 t1 t2).1 t1 t2 = FormatDisk p1 t1 t2 ∧
    FormatDisk (FormatDisk p1 a b).1 t1 t2 = FormatDisk p2 t1 t2 ∧
    (FormatDisk p1 t1 t2).2 = .ok () ∧
    NewFileSystem p1 t1 t2 = NewFileSystem p2 t1 t2 ∧
    NewFileSystem (NewFileSystem p1 a b).1 t1 t2 = NewFileSystem p2 t1 t2 ∧
    (FormatDisk p1 a b).1.FAT = (FormatDisk p2 t1 t2).1.FAT ∧
    (∀ q : Int, q ≠ ROOT_DIR_BLOCK → 0 ≤ q →
      blockAt (FormatDisk p1 a b).1 q = blockAt (FormatDisk p2 t1 t2).1 q) := by
  refine ⟨rfl, rfl, rfl, ?_, rfl, rfl, ?_, ?_⟩
  · rw [formatted_state]
  · rw [formatted_state, formatted_state]
  · intro q hq h0
    rw [formatted_state, formatted_state]
    unfold blockAt
    dsimp only
    have : q.toNat ≠ 1 := by
      intro h
      apply hq
      have : (q.toNat : Int) = q := Int.toNat_of_nonneg h0
      unfold ROOT_DIR_BLOCK; omega
    rw [getD_set_ne _ _ _ _ _ (Ne.symm this), getD_set_ne _ _ _ _ _ (Ne.symm this)]

/-! ## C21: ListEntries -/

theorem scanSlots_spec (blk : List Nat) (offs : List Nat)
    (h : ∀ o ∈ offs, o + DIRECTORY_ENTRY_SIZE ≤ blk.length) :
    (scanSlots blk offs).map Res.ok =
      (offs.filter (fun off => decide (blk.getD off 0 ≠ 0))).map
        (fun off => DeserializeEntry ((blk.drop off).take 49)) := by
  induction offs with
  | nil => rfl
  | cons o rest ih =>
    have ih2 := ih (fun x hx => h x (List.mem_cons_of_mem _ hx))
    have ho := h o (List.mem_cons_self _ _)
    rw [scanSlots]
    rw [slotData_getD_zero]
    by_cases h0 : blk.getD o 0 = 0
    · rw [if_pos h0, ih2, List.filter_cons_of_neg (by simpa using h0)]
    · rw [if_neg h0, List.filter_cons_of_pos (by simpa using h0)]
      have hlen : ¬ (slotData blk o).length < DIRECTORY_ENTRY_SIZE := by
        unfold slotData
        rw [List.length_take, List.length_drop]
        omega
      have hd : DeserializeEntry (slotData blk o) = .ok
          { Name := (slotData blk o).take MAX_FILENAME_LEN
            EntryType := getInt 1 (slotData blk o) 28
            StartBlock := getInt 4 (slotData blk o) 29
            Size := getInt 8 (slotData blk o) 33
            ModTime := getInt 8 (slotData blk o) 41 } := by
        unfold DeserializeEntry
        rw [if_neg hlen]
      rw [hd]
      dsimp only
      rw [List.map_cons, List.map_cons, ih2]
      congr 1
      exact hd.symm

theorem slotsListing_cons (s : FSState) (b : Int) (bs : List Int) :
    slotsListing s (b :: bs) =
      ([0, 49, 98, 147, 196].filter (fun off => decide ((blockAt s b).getD off 0 ≠ 0))).map
        (fun off => DeserializeEntry (((blockAt s b).drop off).take 49)) ++ slotsListing s bs := by
  unfold slotsListing
  rw [List.flatMap_cons]

theorem listLoop_spec (s : FSState) (hwf : s.WF) (k : Nat) :
    ∀ (cur : Int) (fuel : Nat), endsIn s k cur →
      (nthBlock s k cur = FAT_EOF ∨ nthBlock s k cur = FAT_FREE) → k < fuel →
      ∃ L, listLoop s fuel cur = .ok L ∧ L.map Res.ok = slotsListing s (chainOf s fuel cur) := by
  induction k with
  | zero =>
    intro cur fuel hk hend hf
    obtain ⟨f, rfl⟩ : ∃ f, fuel = f + 1 := ⟨fuel - 1, by omega⟩
    have hend2 : cur = FAT_EOF ∨ cur = FAT_FREE := hend
    refine ⟨[], ?_, ?_⟩
    · unfold listLoop
      rw [if_pos hend2]
    · have hw : endsWalk cur := hk
      unfold chainOf
      rw [if_pos hw]
      rfl
  | succ k ih =>
    intro cur fuel hk hend hf
    obtain ⟨f, rfl⟩ : ∃ f, fuel = f + 1 := ⟨fuel - 1, by omega⟩
    obtain ⟨hnw, hk2⟩ := hk
    obtain ⟨rest, hrest, hmap⟩ := ih (fatAt s cur) f hk2 hend (by omega)
    refine ⟨scanSlots (blockAt s cur) slotOffsets ++ rest, ?_, ?_⟩
    · rw [listLoop_step s f cur hnw, hrest]
    · have hc : chainOf s (f + 1) cur = cur :: chainOf s f (fatAt s cur) := by
        rw [chainOf, if_neg hnw]
      rw [hc, slotsListing_cons, List.map_append, hmap]
      congr 1
      have hr := not_endsWalk cur hnw
      have hbl := blockAt_length s hwf cur hr.2.2.1 hr.2.2.2
      have := scanSlots_spec (blockAt s cur) slotOffsets (by
        intro o ho
        have := (slotOffsets_sep o ho o ho).1
        rw [hbl]; exact this)
      rw [this, slotOffsets_eq]

theorem chainOf_eq_range (s : FSState) (k : Nat) :
    ∀ (cur : Int) (fuel : Nat), endsIn s k cur → k ≤ fuel →
      chainOf s fuel cur = (List.range k).map (fun j => nthBlock s j cur) := by
  induction k with
  | zero =>
    intro cur fuel hk _
    have hw : endsWalk cur := hk
    cases fuel with
    | zero => rfl
    | succ f => rw [chainOf, if_pos hw]; rfl
  | succ k ih =>
    intro cur fuel hk hf
    obtain ⟨f, rfl⟩ : ∃ f, fuel = f + 1 := ⟨fuel - 1, by omega⟩
    rw [chainOf, if_neg hk.1, ih (fatAt s cur) f hk.2 (by omega), List.range_succ_eq_map,
      List.map_cons, List.map_map]
    rfl

/-- C21: on a state with the dimensions set by format, for a start block `d` inside the disk
whose chain ends in EOF or FREE after `k` blocks, `ListEntries` returns the deserialized
contents of the slots whose first byte is non-zero, block after block in chain order
(`d`, `FAT[d]`, ...) and inside a block at the offsets 0, 49, 98, 147, 196 in increasing
order, the slots whose first byte is zero being skipped; for `d = FAT_FREE` it returns the
empty sequence; for every other `d` outside the disk it fails with InvalidBlock.
`ListEntries` is a function of the state and returns no new state. -/
theorem C21_list_entries (s : FSState) (hwf : s.WF) :
    (∀ (d : Int) (k : Nat), 0 ≤ d → d < (TOTAL_BLOCKS : Int) → endsIn s k d →
      (nthBlock s k d = FAT_EOF ∨ nthBlock s k d = FAT_FREE) →
      ∃ L, ListEntries s d = .ok L ∧
        L.map Res.ok = slotsListing s ((List.range k).map (fun j => nthBlock s j d))) ∧
    ListEntries s FAT_FREE = .ok [] ∧
    (∀ d : Int, d ≠ FAT_FREE → (d < 0 ∨ d ≥ (TOTAL_BLOCKS : Int)) →
      ListEntries s d = .err .invalidBlock) := by
  refine ⟨?_, ?_, ?_⟩
  · intro d k h0 h1 hk hend
    have hle := endsIn_le s k d hk
    have hkf : k < walkFuel := by rw [walkFuel_eq]; unfold TOTAL_BLOCKS at hle; omega
    obtain ⟨L, hL, hmap⟩ := listLoop_spec s hwf k d walkFuel hk hend hkf
    refine ⟨L, ?_, ?_⟩
    · rw [listEntries_inRange s d h0 h1, hL]
    · rw [hmap, chainOf_eq_range s k d walkFuel hk (by omega)]
  · unfold ListEntries
    rw [if_pos rfl]
  · intro d hd hr
    unfold ListEntries
    rw [if_neg hd, if_pos hr]

set_option maxRecDepth 1000000 in
theorem C21_list_entries_witness :
    endsIn (FormatDisk ⟨[], []⟩ 0 0).1 1 1 ∧
    ∃ L, ListEntries (FormatDisk ⟨[], []⟩ 0 0).1 1 = .ok L ∧
      L.map Res.ok = slotsListing (FormatDisk ⟨[], []⟩ 0 0).1
        ((List.range 1).map (fun j => nthBlock (FormatDisk ⟨[], []⟩ 0 0).1 j 1)) :=
  ⟨by decide, (C21_list_entries (FormatDisk ⟨[], []⟩ 0 0).1 (by decide)).1 1 1 (by decide)
    (by decide) (by decide) (by decide)⟩

/-! ## Slots: first free slot, first matching slot -/

theorem nthBlock_succ (s : FSState) (k : Nat) :
    ∀ cur : Int, nthBlock s (k + 1) cur = fatAt s (nthBlock s k cur) := by
  induction k with
  | zero => intro cur; rfl
  | succ k ih =>
    intro cur
    have h1 : nthBlock s (k + 1 + 1) cur = nthBlock s (k + 1) (fatAt s cur) := rfl
    have h2 : nthBlock s (k + 1) cur = nthBlock s k (fatAt s cur) := rfl
    rw [h1, ih (fatAt s cur), h2]

theorem nthBlock_add (s : FSState) (a : Nat) :
    ∀ (b : Nat) (cur : Int), nthBlock s (a + b) cur = nthBlock s b (nthBlock s a cur) := by
  induction a with
  | zero => intro b cur; rw [Nat.zero_add]; rfl
  | succ a ih =>
    intro b cur
    have h1 : a + 1 + b = (a + b) + 1 := by omega
    have h2 : nthBlock s (a + b + 1) cur = nthBlock s (a + b) (fatAt s cur) := rfl
    have h3 : nthBlock s (a + 1) cur = nthBlock s a (fatAt s cur) := rfl
    rw [h1, h2, ih b (fatAt s cur), h3]

/-- A walk whose first `k` blocks share a property that its block number `k` has not, has
visited `k + 1` different blocks: `k` is below the number of blocks of the disk. -/
theorem walk_prefix_short (s : FSState) (p : Int) (k : Nat) (P : Int → Prop)
    (hr : ∀ j, j ≤ k → ¬ endsWalk (nthBlock s j p))
    (hP : ∀ j, j < k → P (nthBlock s j p)) (hk : ¬ P (nthBlock s k p)) :
    k < TOTAL_BLOCKS := by
  have hinj : ∀ i j, i < j → j ≤ k → nthBlock s i p ≠ nthBlock s j p := by
    intro i j hij hjk he
    have h1 : nthBlock s (i + (k - j)) p = nthBlock s (j + (k - j)) p := by
      rw [nthBlock_add, nthBlock_add, he]
    have h2 : j + (k - j) = k := by omega
    rw [h2] at h1
    have := hP (i + (k - j)) (by omega)
    rw [h1] at this
    exact hk this
  have hnd : ((List.range (k + 1)).map (fun j => nthBlock s j p)).Nodup := by
    apply List.Nodup.map_on _ (List.nodup_range _)
    intro x hx y hy hxy
    rw [List.mem_range] at hx hy
    rcases Nat.lt_trichotomy x y with h | h | h
    · exact absurd hxy (hinj x y h (by omega))
    · exact h
    · exact absurd hxy.symm (hinj y x h (by omega))
  have hlen := nodup_inRange_length _ hnd (by
    intro b hb
    rw [List.mem_map] at hb
    obtain ⟨j, hj, rfl⟩ := hb
    rw [List.mem_range] at hj
    exact hr j (by omega))
  rw [List.length_map, List.length_range] at hlen
  omega

theorem firstFreeSlot_of (blk : List Nat) (off : Nat) :
    ∀ offs : List Nat, off ∈ offs → (slotData blk off).getD 0 0 = 0 →
      (∀ o ∈ offs, o < off → (slotData blk o).getD 0 0 ≠ 0) → offs.Pairwise (· < ·) →
      firstFreeSlot blk offs = some off := by
  intro offs
  induction offs with
  | nil => intro h; cases h
  | cons o rest ih =>
    intro hmem hz hb hs
    rw [firstFreeSlot]
    rw [List.pairwise_cons] at hs
    rcases List.mem_cons.mp hmem with h | h
    · subst h
      rw [if_pos hz]
    · have hlt := hs.1 off h
      rw [if_neg (hb o (List.mem_cons_self _ _) hlt)]
      exact ih h hz (fun x hx hxo => hb x (List.mem_cons_of_mem _ hx) hxo) hs.2

theorem slotOffsets_sorted : slotOffsets.Pairwise (· < ·) := by decide

theorem addLoop_first_slot (s : FSState) (e : DirectoryEntry) (bytes : List Nat) (off : Nat)
    (k : Nat) :
    ∀ (cur : Int) (fuel : Nat), k < fuel →
      (∀ j, j ≤ k → ¬ endsWalk (nthBlock s j cur)) →
      (∀ j, j < k → firstFreeSlot (blockAt s (nthBlock s j cur)) slotOffsets = none) →
      firstFreeSlot (blockAt s (nthBlock s k cur)) slotOffsets = some off →
      addLoop s e bytes fuel cur =
        (setBlock s (nthBlock s k cur) (copyAt (blockAt s (nthBlock s k cur)) off bytes),
          if 0 ∈ e.Name then .ok () else .panic) := by
  induction k with
  | zero =>
    intro cur fuel hf hr _ hslot
    obtain ⟨f, rfl⟩ : ∃ f, fuel = f + 1 := ⟨fuel - 1, by omega⟩
    have hnw : ¬ endsWalk cur := hr 0 (le_refl _)
    have hn := not_endsWalk cur hnw
    have hslot2 : firstFreeSlot (blockAt s cur) slotOffsets = some off := hslot
    have hb : nthBlock s 0 cur = cur := rfl
    rw [hb]
    unfold addLoop
    rw [if_neg hn.1, if_neg hn.2.1, hslot2]
    dsimp only
    unfold nameOf
    by_cases hz : 0 ∈ e.Name
    · rw [if_pos hz, if_pos hz]
    · rw [if_neg hz, if_neg hz]
  | succ k ih =>
    intro cur fuel hf hr hfull hslot
    obtain ⟨f, rfl⟩ : ∃ f, fuel = f + 1 := ⟨fuel - 1, by omega⟩
    have hnw : ¬ endsWalk cur := hr 0 (Nat.zero_le _)
    have hn := not_endsWalk cur hnw
    have h0 : firstFreeSlot (blockAt s cur) slotOffsets = none := hfull 0 (Nat.succ_pos _)
    have hnext : ¬ endsWalk (fatAt s cur) := hr 1 (by omega)
    have hne : fatAt s cur ≠ FAT_EOF := fun h => hnext (Or.inl h)
    have hsh : ∀ j, nthBlock s (j + 1) cur = nthBlock s j (fatAt s cur) := fun j => rfl
    rw [hsh k]
    rw [hsh k] at hslot
    rw [addLoop, if_neg hn.1, if_neg hn.2.1, h0]
    dsimp only
    rw [if_neg hne]
    exact ih (fatAt s cur) f (by omega)
      (fun j hj => by rw [← hsh j]; exact hr (j + 1) (by omega))
      (fun j hj => by rw [← hsh j]; exact hfull (j + 1) (by omega)) hslot

theorem copyAt_explicit (blk bytes : List Nat) (off : Nat) (h : off + bytes.length ≤ blk.length) :
    copyAt blk off bytes = blk.take off ++ bytes ++ blk.drop (off + bytes.length) := by
  unfold copyAt copy
  have h1 : bytes.take (blk.drop off).length = bytes :=
    List.take_of_length_le (by rw [List.length_drop]; omega)
  rw [h1, List.drop_drop, List.append_assoc]

theorem deserialize_slot (blk : List Nat) (off : Nat)
    (h : off + DIRECTORY_ENTRY_SIZE ≤ blk.length) :
    ∃ e, DeserializeEntry (slotData blk off) = .ok e ∧
      e.Name = (blk.drop off).take MAX_FILENAME_LEN := by
  have hlen : ¬ (slotData blk off).length < DIRECTORY_ENTRY_SIZE := by
    unfold slotData
    rw [List.length_take, List.length_drop]
    omega
  have hd : DeserializeEntry (slotData blk off) = .ok
      { Name := (slotData blk off).take MAX_FILENAME_LEN
        EntryType := getInt 1 (slotData blk off) 28
        StartBlock := getInt 4 (slotData blk off) 29
        Size := getInt 8 (slotData blk off) 33
        ModTime := getInt 8 (slotData blk off) 41 } := by
    unfold DeserializeEntry
    rw [if_neg hlen]
  refine ⟨_, hd, ?_⟩
  dsimp only
  unfold slotData
  rw [List.take_take]
  rfl

theorem invalidateScan_other (blk n : List Nat) (hlen : blk.length = BLOCK_SIZE) :
    ∀ offs : List Nat, (∀ o ∈ offs, o ∈ slotOffsets) → (∀ o ∈ offs, slotOther blk n o) →
      invalidateScan blk n offs = .notHere := by
  intro offs
  induction offs with
  | nil => intro _ _; rfl
  | cons o rest ih =>
    intro hin hoth
    have ih2 := ih (fun x hx => hin x (List.mem_cons_of_mem _ hx))
      (fun x hx => hoth x (List.mem_cons_of_mem _ hx))
    rw [invalidateScan, slotData_getD_zero]
    rcases hoth o (List.mem_cons_self _ _) with h0 | ⟨h0, nm, hnm, hne⟩
    · rw [if_pos h0]; exact ih2
    · rw [if_neg h0]
      have hsz := (slotOffsets_sep o (hin o (List.mem_cons_self _ _)) o
        (hin o (List.mem_cons_self _ _))).1
      obtain ⟨e, he, hname⟩ := deserialize_slot blk o (by rw [hlen]; exact hsz)
      rw [he]
      dsimp only
      have : nameOf e.Name = some nm := by rw [hname]; exact hnm
      rw [this]
      dsimp only
      rw [if_neg hne]
      exact ih2

theorem invalidateScan_hit_slot (blk n : List Nat) (hlen : blk.length = BLOCK_SIZE)
    (pre post : List Nat) (off : Nat) (hin : ∀ o ∈ pre ++ off :: post, o ∈ slotOffsets)
    (hpre : ∀ o ∈ pre, slotOther blk n o) (h0 : blk.getD off 0 ≠ 0) :
    (slotName blk off = some n → invalidateScan blk n (pre ++ off :: post) = .found off) ∧
    (slotName blk off = none → invalidateScan blk n (pre ++ off :: post) = .abort) := by
  induction pre with
  | nil =>
    have hsz := (slotOffsets_sep off (hin off (by simp)) off (hin off (by simp))).1
    obtain ⟨e, he, hname⟩ := deserialize_slot blk off (by rw [hlen]; exact hsz)
    constructor
    · intro hn
      rw [List.nil_append, invalidateScan, slotData_getD_zero, if_neg h0, he]
      dsimp only
      have : nameOf e.Name = some n := by rw [hname]; exact hn
      rw [this]
      dsimp only
      rw [if_pos rfl]
    · intro hn
      rw [List.nil_append, invalidateScan, slotData_getD_zero, if_neg h0, he]
      dsimp only
      have : nameOf e.Name = none := by rw [hname]; exact hn
      rw [this]
  | cons o rest ih =>
    have ih2 := ih (fun x hx => hin x (by
        rw [List.cons_append]; exact List.mem_cons_of_mem _ hx))
      (fun x hx => hpre x (List.mem_cons_of_mem _ hx))
    have hstep : invalidateScan blk n (o :: rest ++ off :: post)
        = invalidateScan blk n (rest ++ off :: post) := by
      rw [List.cons_append, invalidateScan, slotData_getD_zero]
      rcases hpre o (List.mem_cons_self _ _) with h1 | ⟨h1, nm, hnm, hne⟩
      · rw [if_pos h1]
      · rw [if_neg h1]
        have hsz := (slotOffsets_sep o (hin o (by simp)) o (hin o (by simp))).1
        obtain ⟨e, he, hname⟩ := deserialize_slot blk o (by rw [hlen]; exact hsz)
        rw [he]
        dsimp only
        have : nameOf e.Name = some nm := by rw [hname]; exact hnm
        rw [this]
        dsimp only
        rw [if_neg hne]
    rw [hstep]
    exact ih2

theorem updateScan_hit_slot (blk n : List Nat) (hlen : blk.length = BLOCK_SIZE)
    (pre post : List Nat) (off : Nat) (hin : ∀ o ∈ pre ++ off :: post, o ∈ slotOffsets)
    (hpre : ∀ o ∈ pre, slotLive blk n o) :
    (slotNamed blk n off → updateScan blk n (pre ++ off :: post) = .found off) ∧
    (slotOpen blk off → updateScan blk n (pre ++ off :: post) = .abort) ∧
    (blk.getD off 0 = 0 → updateScan blk n (pre ++ off :: post) = .notHere) := by
  induction pre with
  | nil =>
    have hsz := (slotOffsets_sep off (hin off (by simp)) off (hin off (by simp))).1
    obtain ⟨e, he, hname⟩ := deserialize_slot blk off (by rw [hlen]; exact hsz)
    refine ⟨?_, ?_, ?_⟩
    · intro hn
      rw [List.nil_append, updateScan, slotData_getD_zero, if_neg hn.1, he]
      dsimp only
      have : nameOf e.Name = some n := by rw [hname]; exact hn.2
      rw [this]
      dsimp only
      rw [if_pos rfl]
    · intro hn
      rw [List.nil_append, updateScan, slotData_getD_zero, if_neg hn.1, he]
      dsimp only
      have : nameOf e.Name = none := by rw [hname]; exact hn.2
      rw [this]
    · intro hz
      rw [List.nil_append, updateScan, slotData_getD_zero, if_pos hz]
  | cons o rest ih =>
    have ih2 := ih (fun x hx => hin x (by
        rw [List.cons_append]; exact List.mem_cons_of_mem _ hx))
      (fun x hx => hpre x (List.mem_cons_of_mem _ hx))
    have hstep : updateScan blk n (o :: rest ++ off :: post)
        = updateScan blk n (rest ++ off :: post) := by
      rw [List.cons_append, updateScan, slotData_getD_zero]
      obtain ⟨h1, nm, hnm, hne⟩ := hpre o (List.mem_cons_self _ _)
      rw [if_neg h1]
      have hsz := (slotOffsets_sep o (hin o (by simp)) o (hin o (by simp))).1
      obtain ⟨e, he, hname⟩ := deserialize_slot blk o (by rw [hlen]; exact hsz)
      rw [he]
      dsimp only
      have : nameOf e.Name = some nm := by rw [hname]; exact hnm
      rw [this]
      dsimp only
      rw [if_neg hne]
    rw [hstep]
    exact ih2

theorem updateScan_live (blk n : List Nat) (hlen : blk.length = BLOCK_SIZE) :
    ∀ offs : List Nat, (∀ o ∈ offs, o ∈ slotOffsets) → (∀ o ∈ offs, slotLive blk n o) →
      updateScan blk n offs = .notHere := by
  intro offs
  induction offs with
  | nil => intro _ _; rfl
  | cons o rest ih =>
    intro hin hoth
    have ih2 := ih (fun x hx => hin x (List.mem_cons_of_mem _ hx))
      (fun x hx => hoth x (List.mem_cons_of_mem _ hx))
    rw [updateScan, slotData_getD_zero]
    obtain ⟨h0, nm, hnm, hne⟩ := hoth o (List.mem_cons_self _ _)
    rw [if_neg h0]
    have hsz := (slotOffsets_sep o (hin o (List.mem_cons_self _ _)) o
      (hin o (List.mem_cons_self _ _))).1
    obtain ⟨e, he, hname⟩ := deserialize_slot blk o (by rw [hlen]; exact hsz)
    rw [he]
    dsimp only
    have : nameOf e.Name = some nm := by rw [hname]; exact hnm
    rw [this]
    dsimp only
    rw [if_neg hne]
    exact ih2

theorem slotOffsets_split (off : Nat) (h : off ∈ slotOffsets) :
    ∃ pre post, slotOffsets = pre ++ off :: post ∧ (∀ o ∈ pre, o ∈ slotOffsets ∧ o < off) ∧
      (∀ o ∈ post, o ∈ slotOffsets ∧ off < o) := by
  obtain ⟨pre, post, hsp⟩ := List.append_of_mem h
  refine ⟨pre, post, hsp, ?_, ?_⟩
  · intro o ho
    have hs := slotOffsets_sorted
    rw [hsp, List.pairwise_append] at hs
    exact ⟨by rw [hsp]; exact List.mem_append_left _ ho, hs.2.2 o ho off (List.mem_cons_self _ _)⟩
  · intro o ho
    have hs := slotOffsets_sorted
    rw [hsp, List.pairwise_append, List.pairwise_cons] at hs
    exact ⟨by rw [hsp]; exact List.mem_append_right _ (List.mem_cons_of_mem _ ho),
      hs.2.1.1 o ho⟩

theorem invalidateLoop_skip (s : FSState) (n : List Nat) (k : Nat) :
    ∀ (cur : Int) (fuel : Nat), (∀ j, j ≤ k → ¬ endsWalk (nthBlock s j cur)) →
      (∀ j, j < k → invalidateScan (blockAt s (nthBlock s j cur)) n slotOffsets = .notHere) →
      invalidateLoop s n (fuel + k + 1) cur = invalidateLoop s n (fuel + 1) (nthBlock s k cur) := by
  induction k with
  | zero => intro cur fuel _ _; rfl
  | succ k ih =>
    intro cur fuel hr hmiss
    have hn := not_endsWalk cur (hr 0 (Nat.zero_le _))
    have h0 : invalidateScan (blockAt s cur) n slotOffsets = .notHere := hmiss 0 (Nat.succ_pos _)
    have hsh : ∀ j, nthBlock s (j + 1) cur = nthBlock s j (fatAt s cur) := fun j => rfl
    have e1 : fuel + (k + 1) + 1 = (fuel + k + 1) + 1 := by omega
    rw [e1, invalidateLoop, if_neg hn.1, if_neg hn.2.1, h0]
    dsimp only
    rw [hsh k]
    exact ih (fatAt s cur) fuel (fun j hj => by rw [← hsh j]; exact hr (j + 1) (by omega))
      (fun j hj => by rw [← hsh j]; exact hmiss (j + 1) (by omega))

theorem updateLoop_skip (s : FSState) (bytes n : List Nat) (k : Nat) :
    ∀ (cur : Int) (fuel : Nat), (∀ j, j ≤ k → ¬ endsWalk (nthBlock s j cur)) →
      (∀ j, j < k → updateScan (blockAt s (nthBlock s j cur)) n slotOffsets = .notHere) →
      updateLoop s bytes n (fuel + k + 1) cur
        = updateLoop s bytes n (fuel + 1) (nthBlock s k cur) := by
  induction k with
  | zero => intro cur fuel _ _; rfl
  | succ k ih =>
    intro cur fuel hr hmiss
    have hn := not_endsWalk cur (hr 0 (Nat.zero_le _))
    have h0 : updateScan (blockAt s cur) n slotOffsets = .notHere := hmiss 0 (Nat.succ_pos _)
    have hsh : ∀ j, nthBlock s (j + 1) cur = nthBlock s j (fatAt s cur) := fun j => rfl
    have e1 : fuel + (k + 1) + 1 = (fuel + k + 1) + 1 := by omega
    rw [e1, updateLoop, if_neg hn.1, if_neg hn.2.1, h0]
    dsimp only
    rw [hsh k]
    exact ih (fatAt s cur) fuel (fun j hj => by rw [← hsh j]; exact hr (j + 1) (by omega))
      (fun j hj => by rw [← hsh j]; exact hmiss (j + 1) (by omega))

/-- A walk that ends after `k` blocks: the loops that follow it without finding anything. -/
theorem invalidateLoop_miss (s : FSState) (n : List Nat) (k : Nat) :
    ∀ (cur : Int) (fuel : Nat), endsIn s k cur →
      (nthBlock s k cur = FAT_EOF ∨ nthBlock s k cur = FAT_FREE) → k < fuel →
      (∀ j, j < k → invalidateScan (blockAt s (nthBlock s j cur)) n slotOffsets = .notHere) →
      invalidateLoop s n fuel cur = (s, .err .entryNotFound) := by
  induction k with
  | zero =>
    intro cur fuel _ hend hf _
    obtain ⟨f, rfl⟩ : ∃ f, fuel = f + 1 := ⟨fuel - 1, by omega⟩
    have hend2 : cur = FAT_EOF ∨ cur = FAT_FREE := hend
    rw [invalidateLoop, if_pos hend2]
  | succ k ih =>
    intro cur fuel hk hend hf hmiss
    obtain ⟨f, rfl⟩ : ∃ f, fuel = f + 1 := ⟨fuel - 1, by omega⟩
    have hn := not_endsWalk cur hk.1
    have h0 : invalidateScan (blockAt s cur) n slotOffsets = .notHere := hmiss 0 (Nat.succ_pos _)
    have hsh : ∀ j, nthBlock s (j + 1) cur = nthBlock s j (fatAt s cur) := fun j => rfl
    rw [invalidateLoop, if_neg hn.1, if_neg hn.2.1, h0]
    dsimp only
    exact ih (fatAt s cur) f hk.2 hend (by omega)
      (fun j hj => by rw [← hsh j]; exact hmiss (j + 1) (by omega))

theorem updateLoop_miss (s : FSState) (bytes n : List Nat) (k : Nat) :
    ∀ (cur : Int) (fuel : Nat), endsIn s k cur →
      (nthBlock s k cur = FAT_EOF ∨ nthBlock s k cur = FAT_FREE) → k < fuel →
      (∀ j, j < k → updateScan (blockAt s (nthBlock s j cur)) n slotOffsets = .notHere) →
      updateLoop s bytes n fuel cur = (s, .err .entryNotFound) := by
  induction k with
  | zero =>
    intro cur fuel _ hend hf _
    obtain ⟨f, rfl⟩ : ∃ f, fuel = f + 1 := ⟨fuel - 1, by omega⟩
    have hend2 : cur = FAT_EOF ∨ cur = FAT_FREE := hend
    rw [updateLoop, if_pos hend2]
  | succ k ih =>
    intro cur fuel hk hend hf hmiss
    obtain ⟨f, rfl⟩ : ∃ f, fuel = f + 1 := ⟨fuel - 1, by omega⟩
    have hn := not_endsWalk cur hk.1
    have h0 : updateScan (blockAt s cur) n slotOffsets = .notHere := hmiss 0 (Nat.succ_pos _)
    have hsh : ∀ j, nthBlock s (j + 1) cur = nthBlock s j (fatAt s cur) := fun j => rfl
    rw [updateLoop, if_neg hn.1, if_neg hn.2.1, h0]
    dsimp only
    exact ih (fatAt s cur) f hk.2 hend (by omega)
      (fun j hj => by rw [← hsh j]; exact hmiss (j + 1) (by omega))

theorem endsIn_before (s : FSState) (k : Nat) :
    ∀ cur : Int, endsIn s k cur → ∀ j, j < k → ¬ endsWalk (nthBlock s j cur) := by
  induction k with
  | zero => intro cur _ j hj; omega
  | succ k ih =>
    intro cur hk j hj
    cases j with
    | zero => exact hk.1
    | succ j => exact ih (fatAt s cur) hk.2 j (by omega)

/-! ## C29: invalidateEntryInParent -/

theorem split_before (pre post : List Nat) (off : Nat) (h : slotOffsets = pre ++ off :: post) :
    (∀ o ∈ slotOffsets, o < off → o ∈ pre) ∧ (∀ o ∈ pre, o ∈ slotOffsets ∧ o < off) ∧
      off ∈ slotOffsets := by
  have hs := slotOffsets_sorted
  rw [h, List.pairwise_append, List.pairwise_cons] at hs
  refine ⟨?_, ?_, ?_⟩
  · intro o ho hlt
    rw [h, List.mem_append, List.mem_cons] at ho
    rcases ho with ho | ho | ho
    · exact ho
    · omega
    · have := hs.2.1.1 o ho; omega
  · intro o ho
    exact ⟨by rw [h]; exact List.mem_append_left _ ho, hs.2.2 o ho off (List.mem_cons_self _ _)⟩
  · rw [h]; exact List.mem_append_right _ (List.mem_cons_self _ _)

theorem not_slotOther (blk n : List Nat) (o : Nat) (h : ¬ slotOther blk n o) :
    slotNamed blk n o ∨ slotOpen blk o := by
  unfold slotOther slotLive at h
  push_neg at h
  obtain ⟨h0, h1⟩ := h
  have h2 := h1 h0
  cases hn : slotName blk o with
  | none => exact Or.inr ⟨h0, hn⟩
  | some nm => exact Or.inl ⟨h0, by rw [h2 nm hn] at hn; exact hn⟩

theorem invalidateScan_class (blk n : List Nat) (hlen : blk.length = BLOCK_SIZE) :
    ∀ offs : List Nat, (∀ o ∈ offs, o ∈ slotOffsets) →
      (invalidateScan blk n offs = .notHere ∧ ∀ o ∈ offs, slotOther blk n o) ∨
      (∃ pre off post, offs = pre ++ off :: post ∧ (∀ o ∈ pre, slotOther blk n o) ∧
        ((slotNamed blk n off ∧ invalidateScan blk n offs = .found off) ∨
          (slotOpen blk off ∧ invalidateScan blk n offs = .abort))) := by
  intro offs
  induction offs with
  | nil =>
    intro _
    left
    refine ⟨rfl, ?_⟩
    intro o ho
    cases ho
  | cons o rest ih =>
    intro hin
    by_cases ho : slotOther blk n o
    · rcases ih (fun x hx => hin x (List.mem_cons_of_mem _ hx)) with ⟨_, hall⟩ |
        ⟨pre, off, post, hsp, hpre, hres⟩
      · have hall2 : ∀ x ∈ o :: rest, slotOther blk n x := by
          intro x hx
          rcases List.mem_cons.mp hx with h | h
          · rw [h]; exact ho
          · exact hall x h
        exact Or.inl ⟨invalidateScan_other blk n hlen _ hin hall2, hall2⟩
      · right
        have hsp2 : o :: rest = (o :: pre) ++ off :: post := by rw [hsp]; rfl
        have hpre2 : ∀ x ∈ o :: pre, slotOther blk n x := by
          intro x hx
          rcases List.mem_cons.mp hx with h | h
          · rw [h]; exact ho
          · exact hpre x h
        have hin2 : ∀ x ∈ (o :: pre) ++ off :: post, x ∈ slotOffsets := by
          rw [← hsp2]; exact hin
        refine ⟨o :: pre, off, post, hsp2, hpre2, ?_⟩
        rcases hres with ⟨hn, _⟩ | ⟨hn, _⟩
        · left
          refine ⟨hn, ?_⟩
          rw [hsp2]
          exact (invalidateScan_hit_slot blk n hlen _ post off hin2 hpre2 hn.1).1 hn.2
        · right
          refine ⟨hn, ?_⟩
          rw [hsp2]
          exact (invalidateScan_hit_slot blk n hlen _ post off hin2 hpre2 hn.1).2 hn.2
    · right
      have hnil : ∀ x ∈ ([] : List Nat), slotOther blk n x := by
        intro x hx; cases hx
      refine ⟨[], o, rest, rfl, hnil, ?_⟩
      have hin2 : ∀ x ∈ [] ++ o :: rest, x ∈ slotOffsets := hin
      rcases not_slotOther blk n o ho with hn | hn
      · exact Or.inl ⟨hn, (invalidateScan_hit_slot blk n hlen [] rest o hin2
          hnil hn.1).1 hn.2⟩
      · exact Or.inr ⟨hn, (invalidateScan_hit_slot blk n hlen [] rest o hin2
          hnil hn.1).2 hn.2⟩

theorem invalidateLoop_ok_first (s : FSState) (hwf : s.WF) (n : List Nat) (fuel : Nat) :
    ∀ (cur : Int) (s2 : FSState), invalidateLoop s n fuel cur = (s2, .ok ()) →
      ∃ (k off : Nat), k < fuel ∧ (∀ j, j ≤ k → ¬ endsWalk (nthBlock s j cur)) ∧
        (∀ j, j < k → ∀ o ∈ slotOffsets, slotOther (blockAt s (nthBlock s j cur)) n o) ∧
        off ∈ slotOffsets ∧
        (∀ o ∈ slotOffsets, o < off → slotOther (blockAt s (nthBlock s k cur)) n o) ∧
        slotNamed (blockAt s (nthBlock s k cur)) n off ∧
        s2 = setBlock s (nthBlock s k cur) ((blockAt s (nthBlock s k cur)).set off 0) := by
  induction fuel with
  | zero => intro cur s2 h; rw [invalidateLoop] at h; cases h
  | succ f ih =>
    intro cur s2 h
    rw [invalidateLoop] at h
    by_cases he : cur = FAT_EOF ∨ cur = FAT_FREE
    · rw [if_pos he] at h; cases h
    · rw [if_neg he] at h
      by_cases hr : cur < 0 ∨ cur ≥ (TOTAL_BLOCKS : Int)
      · rw [if_pos hr] at h; cases h
      · rw [if_neg hr] at h
        have hnw : ¬ endsWalk cur := by
          rw [endsWalk_iff]; exact fun hh => hh.elim he hr
        have hrn := not_endsWalk cur hnw
        have hbl := blockAt_length s hwf cur hrn.2.2.1 hrn.2.2.2
        rcases invalidateScan_class (blockAt s cur) n hbl slotOffsets (fun o ho => ho) with
          ⟨hres, hall⟩ | ⟨pre, off, post, hsp, hpre, ⟨hn, hres⟩ | ⟨hn, hres⟩⟩
        · rw [hres] at h
          dsimp only at h
          obtain ⟨k, off, hk, hchain, hmiss, hoff, hbefore, hnamed, hs2⟩ := ih (fatAt s cur) s2 h
          have hsh : ∀ j, nthBlock s (j + 1) cur = nthBlock s j (fatAt s cur) := fun j => rfl
          refine ⟨k + 1, off, by omega, ?_, ?_, hoff, ?_, ?_, ?_⟩
          · intro j hj
            cases j with
            | zero => exact hnw
            | succ j => rw [hsh]; exact hchain j (by omega)
          · intro j hj
            cases j with
            | zero => exact hall
            | succ j => rw [hsh]; exact hmiss j (by omega)
          · rw [hsh]; exact hbefore
          · rw [hsh]; exact hnamed
          · rw [hsh]; exact hs2
        · rw [hres] at h
          dsimp only at h
          have hsb := split_before pre post off hsp
          refine ⟨0, off, by omega, ?_, ?_, hsb.2.2, ?_, hn, ?_⟩
          · intro j hj
            have : j = 0 := by omega
            subst this; exact hnw
          · intro j hj; omega
          · intro o ho hlt
            exact hpre o (hsb.1 o ho hlt)
          · injection h with h1 _
            exact h1.symm
        · rw [hres] at h
          cases h

theorem invalidateLoop_first (s : FSState) (hwf : s.WF) (n : List Nat) (k off : Nat)
    (cur : Int) (fuel : Nat) (hf : k < fuel)
    (hchain : ∀ j, j ≤ k → ¬ endsWalk (nthBlock s j cur))
    (hmiss : ∀ j, j < k → ∀ o ∈ slotOffsets, slotOther (blockAt s (nthBlock s j cur)) n o)
    (hoff : off ∈ slotOffsets)
    (hbefore : ∀ o ∈ slotOffsets, o < off → slotOther (blockAt s (nthBlock s k cur)) n o) :
    (slotNamed (blockAt s (nthBlock s k cur)) n off →
      invalidateLoop s n fuel cur =
        (setBlock s (nthBlock s k cur) ((blockAt s (nthBlock s k cur)).set off 0), .ok ())) ∧
    (slotOpen (blockAt s (nthBlock s k cur)) off →
      invalidateLoop s n fuel cur = (s, .panic)) := by
  obtain ⟨f, rfl⟩ : ∃ f, fuel = f + k + 1 := ⟨fuel - k - 1, by omega⟩
  have hbl : ∀ j, j ≤ k → (blockAt s (nthBlock s j cur)).length = BLOCK_SIZE := by
    intro j hj
    have hr := not_endsWalk _ (hchain j hj)
    exact blockAt_length s hwf _ hr.2.2.1 hr.2.2.2
  have hskip := invalidateLoop_skip s n k cur f hchain (fun j hj =>
    invalidateScan_other _ n (hbl j (by omega)) slotOffsets (fun o ho => ho) (hmiss j hj))
  rw [hskip]
  obtain ⟨pre, post, hsp, hpre, _⟩ := slotOffsets_split off hoff
  have hrn := not_endsWalk _ (hchain k (le_refl _))
  have hin : ∀ o ∈ pre ++ off :: post, o ∈ slotOffsets := by rw [← hsp]; exact fun o ho => ho
  constructor
  · intro hn
    have := (invalidateScan_hit_slot _ n (hbl k (le_refl _)) pre post off hin
      (fun o ho => hbefore o (hpre o ho).1 (hpre o ho).2) hn.1).1 hn.2
    rw [← hsp] at this
    rw [invalidateLoop, if_neg hrn.1, if_neg hrn.2.1, this]
  · intro hn
    have := (invalidateScan_hit_slot _ n (hbl k (le_refl _)) pre post off hin
      (fun o ho => hbefore o (hpre o ho).1 (hpre o ho).2) hn.1).2 hn.2
    rw [← hsp] at this
    rw [invalidateLoop, if_neg hrn.1, if_neg hrn.2.1, this]

theorem slotNamed_not_other (blk n : List Nat) (off : Nat) (h : slotNamed blk n off) :
    ¬ slotOther blk n off := by
  rintro (h0 | ⟨_, nm, hnm, hne⟩)
  · exact h.1 h0
  · rw [h.2] at hnm
    injection hnm with hnm
    exact hne hnm.symm

theorem slotOpen_not_other (blk n : List Nat) (off : Nat) (h : slotOpen blk off) :
    ¬ slotOther blk n off := by
  rintro (h0 | ⟨_, nm, hnm, _⟩)
  · exact h.1 h0
  · rw [h.2] at hnm
    cases hnm

/-- What a successful search of `DeleteEntry` says of the listing: the entry found bears the
name, and every entry listed before it has a zero-terminated name other than the name. -/
theorem findEntry_some_inv (n : List Nat) (L : List DirectoryEntry) (e : DirectoryEntry)
    (h : findEntry n L = .ok (some e)) :
    ∃ l1 l2, L = l1 ++ e :: l2 ∧ otherNames n l1 ∧ nameOf e.Name = some n := by
  induction L with
  | nil => cases h
  | cons a L ih =>
    rw [findEntry] at h
    cases hn : nameOf a.Name with
    | none =>
      rw [hn] at h
      cases h
    | some nm =>
      rw [hn] at h
      dsimp only at h
      by_cases hnm : nm = n
      · rw [if_pos hnm] at h
        injection h with h
        injection h with h
        subst h
        exact ⟨[], L, rfl, fun x hx => (by cases hx), by rw [hn, hnm]⟩
      · rw [if_neg hnm] at h
        obtain ⟨l1, l2, hL, h1, h2⟩ := ih h
        refine ⟨a :: l1, l2, by rw [hL]; rfl, ?_, h2⟩
        intro x hx
        rcases List.mem_cons.mp hx with hx | hx
        · rw [hx]
          exact ⟨nm, hn, hnm⟩
        · exact h1 x hx

/-- The search of `invalidateEntryInParent` in a state that has the disk of `s` and a FAT in
which entries of `s` may have become `FAT_FREE`, after the search of `DeleteEntry` has found the
name in the listing of `s`: it takes the slots the listing took, in the same order, as far as its
chain goes, so it finds the slot or comes to the end of its chain; it passes no name without a
zero byte. -/
theorem invalidateLoop_after_find (s t : FSState) (n : List Nat)
    (hD : ∀ b, blockAt t b = blockAt s b)
    (hF : ∀ b, fatAt t b = fatAt s b ∨ fatAt t b = FAT_FREE) (fuel : Nat) :
    ∀ (cur : Int) (L : List DirectoryEntry) (e : DirectoryEntry),
      listLoop s fuel cur = .ok L → findEntry n L = .ok (some e) →
      (∃ q off, invalidateLoop t n fuel cur = (setBlock t q ((blockAt t q).set off 0), .ok ())) ∨
      invalidateLoop t n fuel cur = (t, .err .entryNotFound) := by
  induction fuel with
  | zero =>
    intro cur L e hl _
    simp [listLoop] at hl
  | succ fuel ih =>
    intro cur L e hl hf
    by_cases ht : endsWalk cur
    · exfalso
      rw [endsWalk_iff] at ht
      unfold listLoop at hl
      rcases ht with ht | ht
      · rw [if_pos ht] at hl
        injection hl with hl
        rw [← hl] at hf
        cases hf
      · by_cases h1 : cur = FAT_EOF ∨ cur = FAT_FREE
        · rw [if_pos h1] at hl
          injection hl with hl
          rw [← hl] at hf
          cases hf
        · rw [if_neg h1, if_pos ht] at hl
          cases hl
    · obtain ⟨rest, hr, hL⟩ := listLoop_step_ok s fuel cur ht L hl
      rw [invalidateLoop_step t n fuel cur ht, hD cur]
      rcases invalidateScan_spec (blockAt s cur) n slotOffsets with
        ⟨hnot, hother⟩ | ⟨off, pre, post, x, hsp, hpre, hz, hd, hcase⟩
      · rw [hnot]
        dsimp only
        rw [hL, findEntry_skip n _ rest hother] at hf
        rcases hF cur with h | h
        · rw [h]
          exact ih _ rest e hr hf
        · rw [h]
          right
          cases fuel with
          | zero => simp [listLoop] at hr
          | succ f =>
            rw [invalidateLoop, if_pos (Or.inr rfl)]
      · rcases hcase with ⟨hfound, _⟩ | ⟨_, hnone⟩
        · rw [hfound]
          dsimp only
          left
          refine ⟨cur, off, ?_⟩
          rw [hD cur]
        · exfalso
          have hscan : scanSlots (blockAt s cur) slotOffsets
              = scanSlots (blockAt s cur) pre ++ x :: scanSlots (blockAt s cur) post := by
            rw [hsp, scanSlots_append]
            congr 1
            rw [scanSlots, if_neg hz]
            simp only [hd]
          rw [hL, hscan, List.append_assoc, findEntry_skip n _ _ hpre] at hf
          rw [List.cons_append, findEntry, hnone] at hf
          cases hf

/-- The call of `invalidateEntryInParent` that `DeleteEntry` makes, after its search has found
the name and the chain of the entry has been released: it succeeds and tombstones a slot, or
returns `entryNotFound` or `invalidParent` with the state unchanged; it does not abort. -/
theorem invalidate_after_find (s : FSState) (p : Int) (n : List Nat)
    (L : List DirectoryEntry) (e : DirectoryEntry) (x : Int)
    (hl : ListEntries s p = .ok L) (hf : findEntry n L = .ok (some e)) :
    (∃ q off, invalidateEntryInParent (freeBlockChain s x).1 p n
        = (setBlock (freeBlockChain s x).1 q ((blockAt (freeBlockChain s x).1 q).set off 0),
            .ok ())) ∨
    invalidateEntryInParent (freeBlockChain s x).1 p n
      = ((freeBlockChain s x).1, .err .entryNotFound) ∨
    invalidateEntryInParent (freeBlockChain s x).1 p n
      = ((freeBlockChain s x).1, .err .invalidParent) := by
  have hLne : L ≠ [] := by
    intro h
    rw [h] at hf
    cases hf
  have hstart := listEntries_ok_start s p L hl hLne
  have hp0 : 0 ≤ p := by
    by_contra h
    exact hstart (Or.inr (Or.inr (Or.inl (by omega))))
  have hp1 : p < (TOTAL_BLOCKS : Int) := by
    by_contra h
    exact hstart (Or.inr (Or.inr (Or.inr (by omega))))
  rw [listEntries_inRange s p hp0 hp1] at hl
  unfold invalidateEntryInParent
  by_cases hfree : fatAt (freeBlockChain s x).1 p = FAT_FREE
  · right
    right
    rw [if_pos (Or.inr (Or.inr hfree))]
  · rw [if_neg (by
      rintro (h | h | h)
      · omega
      · omega
      · exact hfree h)]
    rcases invalidateLoop_after_find s (freeBlockChain s x).1 n
      (fun b => blockAt_congr _ _ (freeBlockChain_Disk s x) b)
      (fun b => freeBlockChain_free_or s x b) walkFuel p L e hl hf with h | h
    · exact Or.inl h
    · exact Or.inr (Or.inl h)

/-- C29: `invalidateEntryInParent` on a state with the dimensions set by format and a parent
block inside the disk and allocated. The slots are taken in chain order and, inside a block,
at increasing offsets; a slot is passed over when its first byte is zero or when its name
(the bytes before the first zero byte) differs from `n`.
(1) When the call succeeds, the first slot that is not passed over is in use and bears the
name `n`, the FAT is unchanged and the disk differs from the disk before in one byte only: the
first byte of that slot, which was not zero, is zero.
(2) When the first slot that is not passed over is in use and bears the name `n`, the call
succeeds with that state; when instead its name field holds no zero byte, the call aborts.
(3) When the chain ends and every slot of it is passed over, the call fails with
EntryNotFound and leaves the state as it was.
(4) The function has one caller, `DeleteEntry`, which calls it after its own search over the
listing of `p` has found the name and after the release of a chain: in the state
`freeBlockChain` returns (for any start block `x`; `DeleteEntry` passes the StartBlock of the
entry found), the call tombstones a slot and succeeds, or returns `entryNotFound` or
`invalidParent` with the state unchanged. It does not abort: the slots it takes are slots the
search of `DeleteEntry` has passed without abort, so the abort of (2) is met by no call the
program makes. -/
theorem C29_invalidate_entry (s : FSState) (hwf : s.WF) (p : Int) (n : List Nat)
    (hp : 0 ≤ p ∧ p < (TOTAL_BLOCKS : Int) ∧ fatAt s p ≠ FAT_FREE) :
    (∀ s2, invalidateEntryInParent s p n = (s2, .ok ()) →
      ∃ (k off : Nat), (∀ j, j ≤ k → ¬ endsWalk (nthBlock s j p)) ∧
        (∀ j, j < k → ∀ o ∈ slotOffsets, slotOther (blockAt s (nthBlock s j p)) n o) ∧
        off ∈ slotOffsets ∧
        (∀ o ∈ slotOffsets, o < off → slotOther (blockAt s (nthBlock s k p)) n o) ∧
        slotNamed (blockAt s (nthBlock s k p)) n off ∧
        s2.FAT = s.FAT ∧
        s2.Disk = s.Disk.set (nthBlock s k p).toNat ((blockAt s (nthBlock s k p)).set off 0)) ∧
    (∀ (k off : Nat), (∀ j, j ≤ k → ¬ endsWalk (nthBlock s j p)) →
      (∀ j, j < k → ∀ o ∈ slotOffsets, slotOther (blockAt s (nthBlock s j p)) n o) →
      off ∈ slotOffsets →
      (∀ o ∈ slotOffsets, o < off → slotOther (blockAt s (nthBlock s k p)) n o) →
      (slotNamed (blockAt s (nthBlock s k p)) n off →
        invalidateEntryInParent s p n =
          ({ Disk := s.Disk.set (nthBlock s k p).toNat ((blockAt s (nthBlock s k p)).set off 0)
             FAT := s.FAT }, .ok ())) ∧
      (slotOpen (blockAt s (nthBlock s k p)) off →
        invalidateEntryInParent s p n = (s, .panic))) ∧
    (∀ k : Nat, endsIn s k p → (nthBlock s k p = FAT_EOF ∨ nthBlock s k p = FAT_FREE) →
      (∀ j, j < k → ∀ o ∈ slotOffsets, slotOther (blockAt s (nthBlock s j p)) n o) →
      invalidateEntryInParent s p n = (s, .err .entryNotFound)) ∧
    (∀ (L : List DirectoryEntry) (e : DirectoryEntry) (x : Int),
      ListEntries s p = .ok L → findEntry n L = .ok (some e) →
      (∃ q off, invalidateEntryInParent (freeBlockChain s x).1 p n
          = (setBlock (freeBlockChain s x).1 q ((blockAt (freeBlockChain s x).1 q).set off 0),
              .ok ())) ∨
      invalidateEntryInParent (freeBlockChain s x).1 p n
        = ((freeBlockChain s x).1, .err .entryNotFound) ∨
      invalidateEntryInParent (freeBlockChain s x).1 p n
        = ((freeBlockChain s x).1, .err .invalidParent)) := by
  have hv : ¬ (p < 0 ∨ p ≥ (TOTAL_BLOCKS : Int) ∨ fatAt s p = FAT_FREE) := by
    rintro (h | h | h)
    · omega
    · omega
    · exact hp.2.2 h
  have hun : invalidateEntryInParent s p n = invalidateLoop s n walkFuel p := by
    unfold invalidateEntryInParent
    rw [if_neg hv]
  refine ⟨?_, ?_, ?_, fun L e x hl hf => invalidate_after_find s p n L e x hl hf⟩
  · intro s2 h
    rw [hun] at h
    obtain ⟨k, off, _, hchain, hmiss, hoff, hbefore, hnamed, hs2⟩ :=
      invalidateLoop_ok_first s hwf n walkFuel p s2 h
    refine ⟨k, off, hchain, hmiss, hoff, hbefore, hnamed, ?_, ?_⟩
    · rw [hs2]; rfl
    · rw [hs2]; rfl
  · intro k off hchain hmiss hoff hbefore
    have hshort : ∀ (hx : ¬ slotOther (blockAt s (nthBlock s k p)) n off), k < walkFuel := by
      intro hx
      have := walk_prefix_short s p k
        (fun b => ∀ o ∈ slotOffsets, slotOther (blockAt s b) n o) hchain hmiss
        (fun hall => hx (hall off hoff))
      rw [walkFuel_eq]; unfold TOTAL_BLOCKS at this; omega
    constructor
    · intro hn
      rw [hun, (invalidateLoop_first s hwf n k off p walkFuel
        (hshort (slotNamed_not_other _ n off hn)) hchain hmiss hoff hbefore).1 hn]
      rfl
    · intro hn
      rw [hun, (invalidateLoop_first s hwf n k off p walkFuel
        (hshort (slotOpen_not_other _ n off hn)) hchain hmiss hoff hbefore).2 hn]
  · intro k hk hend hmiss
    have hle := endsIn_le s k p hk
    rw [hun]
    apply invalidateLoop_miss s n k p walkFuel hk hend
      (by rw [walkFuel_eq]; unfold TOTAL_BLOCKS at hle; omega)
    intro j hj
    have hr := not_endsWalk _ (endsIn_before s k p hk j hj)
    exact invalidateScan_other _ n (blockAt_length s hwf _ hr.2.2.1 hr.2.2.2) slotOffsets
      (fun o ho => ho) (hmiss j hj)

/-! ## C27: updateEntryInDirectory -/

theorem updateScan_passes (blk n : List Nat) (hlen : blk.length = BLOCK_SIZE)
    (h : updatePasses blk n) : updateScan blk n slotOffsets = .notHere := by
  cases hf : firstFreeSlot blk slotOffsets with
  | none =>
    have hnz := firstFreeSlot_none blk slotOffsets hf
    apply updateScan_live blk n hlen slotOffsets (fun o ho => ho)
    intro o ho
    apply h o ho
    intro o2 ho2 _
    have := hnz o2 ho2
    rwa [slotData_getD_zero] at this
  | some off =>
    obtain ⟨pre, post, hsp, hz, _, hpre⟩ := firstFreeSlot_some blk slotOffsets off hf
    have hsb := split_before pre post off hsp
    have hin : ∀ o ∈ pre ++ off :: post, o ∈ slotOffsets := by
      rw [← hsp]; exact fun o ho => ho
    have hlive : ∀ o ∈ pre, slotLive blk n o := by
      intro o ho
      apply h o (hsb.2.1 o ho).1
      intro o2 ho2 hle
      have := hpre o2 (hsb.1 o2 ho2 (by have := (hsb.2.1 o ho).2; omega))
      rwa [slotData_getD_zero] at this
    rw [slotData_getD_zero] at hz
    have := (updateScan_hit_slot blk n hlen pre post off hin hlive).2.2 hz
    rw [← hsp] at this
    exact this

theorem updateLoop_first (s : FSState) (hwf : s.WF) (bytes n : List Nat) (k off : Nat)
    (cur : Int) (fuel : Nat) (hf : k < fuel)
    (hchain : ∀ j, j ≤ k → ¬ endsWalk (nthBlock s j cur))
    (hmiss : ∀ j, j < k → updatePasses (blockAt s (nthBlock s j cur)) n)
    (hoff : off ∈ slotOffsets)
    (hbefore : ∀ o ∈ slotOffsets, o < off → slotLive (blockAt s (nthBlock s k cur)) n o) :
    (slotNamed (blockAt s (nthBlock s k cur)) n off →
      updateLoop s bytes n fuel cur =
        (setBlock s (nthBlock s k cur) (copyAt (blockAt s (nthBlock s k cur)) off bytes),
          .ok ())) ∧
    (slotOpen (blockAt s (nthBlock s k cur)) off →
      updateLoop s bytes n fuel cur = (s, .panic)) := by
  obtain ⟨f, rfl⟩ : ∃ f, fuel = f + k + 1 := ⟨fuel - k - 1, by omega⟩
  have hbl : ∀ j, j ≤ k → (blockAt s (nthBlock s j cur)).length = BLOCK_SIZE := by
    intro j hj
    have hr := not_endsWalk _ (hchain j hj)
    exact blockAt_length s hwf _ hr.2.2.1 hr.2.2.2
  have hskip := updateLoop_skip s bytes n k cur f hchain (fun j hj =>
    updateScan_passes _ n (hbl j (by omega)) (hmiss j hj))
  rw [hskip]
  obtain ⟨pre, post, hsp, hpre, _⟩ := slotOffsets_split off hoff
  have hrn := not_endsWalk _ (hchain k (le_refl _))
  have hin : ∀ o ∈ pre ++ off :: post, o ∈ slotOffsets := by rw [← hsp]; exact fun o ho => ho
  have hsc := updateScan_hit_slot _ n (hbl k (le_refl _)) pre post off hin
      (fun o ho => hbefore o (hpre o ho).1 (hpre o ho).2)
  rw [← hsp] at hsc
  constructor
  · intro hn
    rw [updateLoop, if_neg hrn.1, if_neg hrn.2.1, hsc.1 hn]
  · intro hn
    rw [updateLoop, if_neg hrn.1, if_neg hrn.2.1, hsc.2.1 hn]

theorem slotNamed_not_passes (blk n : List Nat) (off : Nat) (hoff : off ∈ slotOffsets)
    (hbefore : ∀ o ∈ slotOffsets, o < off → slotLive blk n o)
    (h : slotNamed blk n off ∨ slotOpen blk off) : ¬ updatePasses blk n := by
  intro hp
  have hl := hp off hoff (by
    intro o2 ho2 hle
    rcases Nat.lt_or_ge o2 off with hlt | hge
    · exact (hbefore o2 ho2 hlt).1
    · have : o2 = off := by omega
      rw [this]
      rcases h with h | h
      · exact h.1
      · exact h.1)
  rcases h with h | h
  · exact slotNamed_not_other blk n off h (Or.inr hl)
  · exact slotOpen_not_other blk n off h (Or.inr hl)

/-- C27: `updateEntryInDirectory` for an entry `u` whose name reads `n`, on a state with the
dimensions set by format and a parent block inside the disk and allocated. In every block the
search stops at the first slot whose first byte is zero and goes on with the next block.
(1) When, in block number `k` of the chain, the slot at `off` is in use and bears the name `n`,
every slot before it in that block is in use and bears another name, and in the blocks before
it no slot in use that no tombstone precedes bears the name `n`: the call succeeds, the 49
bytes of that slot are the serialized `u`, and nothing else of the disk or the FAT changes.
If instead the name field of that slot holds no zero byte, the call aborts.
(2) When the chain ends and in each of its blocks every slot in use that no tombstone precedes
bears another name, the call fails with EntryNotFound and leaves the state as it was,
whatever the slots behind a tombstone hold: an entry named `n` behind a tombstone of its
block is not found. -/
theorem C27_update_entry (s : FSState) (hwf : s.WF) (p : Int) (u : DirectoryEntry)
    (n : List Nat) (hp : 0 ≤ p ∧ p < (TOTAL_BLOCKS : Int) ∧ fatAt s p ≠ FAT_FREE)
    (hlen : u.Name.length = MAX_FILENAME_LEN) (hname : nameOf u.Name = some n) :
    (∀ (k off : Nat), (∀ j, j ≤ k → ¬ endsWalk (nthBlock s j p)) →
      (∀ j, j < k → updatePasses (blockAt s (nthBlock s j p)) n) →
      off ∈ slotOffsets →
      (∀ o ∈ slotOffsets, o < off → slotLive (blockAt s (nthBlock s k p)) n o) →
      (slotNamed (blockAt s (nthBlock s k p)) n off →
        updateEntryInDirectory s p u =
          ({ Disk := s.Disk.set (nthBlock s k p).toNat
               ((blockAt s (nthBlock s k p)).take off ++ entryBytes u ++
                 (blockAt s (nthBlock s k p)).drop (off + 49))
             FAT := s.FAT }, .ok ())) ∧
      (slotOpen (blockAt s (nthBlock s k p)) off →
        updateEntryInDirectory s p u = (s, .panic))) ∧
    (∀ k : Nat, endsIn s k p → (nthBlock s k p = FAT_EOF ∨ nthBlock s k p = FAT_FREE) →
      (∀ j, j < k → updatePasses (blockAt s (nthBlock s j p)) n) →
      updateEntryInDirectory s p u = (s, .err .entryNotFound)) := by
  have hv : ¬ (p < 0 ∨ p ≥ (TOTAL_BLOCKS : Int) ∨ fatAt s p = FAT_FREE) := by
    rintro (h | h | h)
    · omega
    · omega
    · exact hp.2.2 h
  have hbytes : (entryBytes u).length = DIRECTORY_ENTRY_SIZE := entryBytes_length u hlen
  have hun : updateEntryInDirectory s p u = updateLoop s (entryBytes u) n walkFuel p := by
    unfold updateEntryInDirectory
    rw [if_neg hv]
    unfold DirectoryEntry.Serialize
    dsimp only
    rw [if_neg (not_not.mpr hbytes)]
    dsimp only
    rw [hname]
  refine ⟨?_, ?_⟩
  · intro k off hchain hmiss hoff hbefore
    have hshort : ∀ (hx : slotNamed (blockAt s (nthBlock s k p)) n off ∨
        slotOpen (blockAt s (nthBlock s k p)) off), k < walkFuel := by
      intro hx
      have := walk_prefix_short s p k (fun b => updatePasses (blockAt s b) n) hchain hmiss
        (slotNamed_not_passes _ n off hoff hbefore hx)
      rw [walkFuel_eq]; unfold TOTAL_BLOCKS at this; omega
    constructor
    · intro hn
      rw [hun, (updateLoop_first s hwf (entryBytes u) n k off p walkFuel
        (hshort (Or.inl hn)) hchain hmiss hoff hbefore).1 hn]
      have hr := not_endsWalk _ (hchain k (le_refl _))
      have hbl := blockAt_length s hwf _ hr.2.2.1 hr.2.2.2
      have hsz := (slotOffsets_sep off hoff off hoff).1
      rw [copyAt_explicit _ _ _ (by rw [hbytes, hbl]; exact hsz), hbytes]
      rfl
    · intro hn
      rw [hun, (updateLoop_first s hwf (entryBytes u) n k off p walkFuel
        (hshort (Or.inr hn)) hchain hmiss hoff hbefore).2 hn]
  · intro k hk hend hmiss
    have hle := endsIn_le s k p hk
    rw [hun]
    apply updateLoop_miss s (entryBytes u) n k p walkFuel hk hend
      (by rw [walkFuel_eq]; unfold TOTAL_BLOCKS at hle; omega)
    intro j hj
    have hr := not_endsWalk _ (endsIn_before s k p hk j hj)
    exact updateScan_passes _ n (blockAt_length s hwf _ hr.2.2.1 hr.2.2.2) (hmiss j hj)

set_option maxRecDepth 1000000 in
theorem C27_update_entry_witness :
    slotNamed (blockAt (DeleteEntry (CreateFile (CreateFile (FormatDisk ⟨[], []⟩ 0 0).1 1 [97] 0).1
      1 [98] 0).1 1 [97]).1 1) [98] 147 ∧
    (blockAt (DeleteEntry (CreateFile (CreateFile (FormatDisk ⟨[], []⟩ 0 0).1 1 [97] 0).1
      1 [98] 0).1 1 [97]).1 1).getD 98 0 = 0 ∧
    updateEntryInDirectory
      (DeleteEntry (CreateFile (CreateFile (FormatDisk ⟨[], []⟩ 0 0).1 1 [97] 0).1
        1 [98] 0).1 1 [97]).1 1 ⟨mkName [98], TYPE_FILE, 2, 1, 5⟩ =
      ((DeleteEntry (CreateFile (CreateFile (FormatDisk ⟨[], []⟩ 0 0).1 1 [97] 0).1
        1 [98] 0).1 1 [97]).1, .err .entryNotFound) :=
  ⟨⟨by decide, by decide⟩, by decide,
   (C27_update_entry
      (DeleteEntry (CreateFile (CreateFile (FormatDisk ⟨[], []⟩ 0 0).1 1 [97] 0).1
        1 [98] 0).1 1 [97]).1 (by decide) 1 ⟨mkName [98], TYPE_FILE, 2, 1, 5⟩ [98]
      (by decide) (by decide) (by decide)).2 1 (by decide) (by decide)
      (fun j hj => by
        have h0 : j = 0 := by omega
        subst h0
        intro o ho hall
        rw [slotOffsets_eq] at ho
        simp only [List.mem_cons, List.mem_singleton, List.not_mem_nil, or_false] at ho
        have h98 : (98 : Nat) ∈ slotOffsets := by decide
        rcases ho with h | h | h | h | h
        · subst h
          exact ⟨by decide, [46], by decide, by decide⟩
        · subst h
          exact ⟨by decide, [46, 46], by decide, by decide⟩
        · subst h
          exact absurd (show (blockAt (DeleteEntry (CreateFile (CreateFile
              (FormatDisk ⟨[], []⟩ 0 0).1 1 [97] 0).1 1 [98] 0).1 1 [97]).1
              (nthBlock (DeleteEntry (CreateFile (CreateFile
              (FormatDisk ⟨[], []⟩ 0 0).1 1 [97] 0).1 1 [98] 0).1 1 [97]).1 0 1)).getD 98 0 = 0
              by decide) (hall 98 h98 (by omega))
        · subst h
          exact absurd (show (blockAt (DeleteEntry (CreateFile (CreateFile
              (FormatDisk ⟨[], []⟩ 0 0).1 1 [97] 0).1 1 [98] 0).1 1 [97]).1
              (nthBlock (DeleteEntry (CreateFile (CreateFile
              (FormatDisk ⟨[], []⟩ 0 0).1 1 [97] 0).1 1 [98] 0).1 1 [97]).1 0 1)).getD 98 0 = 0
              by decide) (hall 98 h98 (by omega))
        · subst h
          exact absurd (show (blockAt (DeleteEntry (CreateFile (CreateFile
              (FormatDisk ⟨[], []⟩ 0 0).1 1 [97] 0).1 1 [98] 0).1 1 [97]).1
              (nthBlock (DeleteEntry (CreateFile (CreateFile
              (FormatDisk ⟨[], []⟩ 0 0).1 1 [97] 0).1 1 [98] 0).1 1 [97]).1 0 1)).getD 98 0 = 0
              by decide) (hall 98 h98 (by omega)))⟩

set_option maxRecDepth 1000000 in
theorem C29_invalidate_entry_witness :
    invalidateEntryInParent (CreateFile (FormatDisk ⟨[], []⟩ 0 0).1 1 [116] 0).1 1 [116] =
      ({ Disk := (CreateFile (FormatDisk ⟨[], []⟩ 0 0).1 1 [116] 0).1.Disk.set
            (nthBlock (CreateFile (FormatDisk ⟨[], []⟩ 0 0).1 1 [116] 0).1 0 1).toNat
            ((blockAt (CreateFile (FormatDisk ⟨[], []⟩ 0 0).1 1 [116] 0).1
              (nthBlock (CreateFile (FormatDisk ⟨[], []⟩ 0 0).1 1 [116] 0).1 0 1)).set 98 0)
         FAT := (CreateFile (FormatDisk ⟨[], []⟩ 0 0).1 1 [116] 0).1.FAT }, .ok ()) ∧
    ListEntries (CreateFile (FormatDisk ⟨[], []⟩ 0 0).1 1 [116] 0).1 1 = .ok
      [⟨mkName [46], 1, 1, 0, 0⟩, ⟨mkName [46, 46], 1, 1, 0, 0⟩, ⟨mkName [116], 0, 0, 0, 0⟩] ∧
    ((∃ q off, invalidateEntryInParent
          (freeBlockChain (CreateFile (FormatDisk ⟨[], []⟩ 0 0).1 1 [116] 0).1 0).1 1 [116]
        = (setBlock (freeBlockChain (CreateFile (FormatDisk ⟨[], []⟩ 0 0).1 1 [116] 0).1 0).1 q
            ((blockAt (freeBlockChain (CreateFile (FormatDisk ⟨[], []⟩ 0 0).1 1 [116] 0).1 0).1
              q).set off 0), .ok ())) ∨
      invalidateEntryInParent
          (freeBlockChain (CreateFile (FormatDisk ⟨[], []⟩ 0 0).1 1 [116] 0).1 0).1 1 [116]
        = ((freeBlockChain (CreateFile (FormatDisk ⟨[], []⟩ 0 0).1 1 [116] 0).1 0).1,
            .err .entryNotFound) ∨
      invalidateEntryInParent
          (freeBlockChain (CreateFile (FormatDisk ⟨[], []⟩ 0 0).1 1 [116] 0).1 0).1 1 [116]
        = ((freeBlockChain (CreateFile (FormatDisk ⟨[], []⟩ 0 0).1 1 [116] 0).1 0).1,
            .err .invalidParent)) ∧
    (invalidateEntryInParent
      (freeBlockChain (CreateFile (FormatDisk ⟨[], []⟩ 0 0).1 1 [116] 0).1 0).1 1 [116]).2
      = .ok () :=
  ⟨((C29_invalidate_entry (CreateFile (FormatDisk ⟨[], []⟩ 0 0).1 1 [116] 0).1 (by decide) 1
      [116] (by decide)).2.1 0 98
      (fun j hj => by
        have h0 : j = 0 := by omega
        subst h0
        decide)
      (fun j hj => by omega)
      (by decide)
      (fun o ho hlt => by
        rw [slotOffsets_eq] at ho
        have h2 : o = 0 ∨ o = 49 := by
          simp only [List.mem_cons, List.mem_singleton, List.not_mem_nil, or_false] at ho
          omega
        rcases h2 with h | h
        · subst h
          exact Or.inr ⟨by decide, [46], by decide, by decide⟩
        · subst h
          exact Or.inr ⟨by decide, [46, 46], by decide, by decide⟩)).1
      ⟨by decide, by decide⟩,
   by decide,
   (C29_invalidate_entry (CreateFile (FormatDisk ⟨[], []⟩ 0 0).1 1 [116] 0).1 (by decide) 1
      [116] (by decide)).2.2.2
      [⟨mkName [46], 1, 1, 0, 0⟩, ⟨mkName [46, 46], 1, 1, 0, 0⟩, ⟨mkName [116], 0, 0, 0, 0⟩]
      ⟨mkName [116], 0, 0, 0, 0⟩ 0 (by decide) (by decide),
   by decide⟩

/-! ## C28: addEntryToDirectory -/

theorem slotName_slotData (blk : List Nat) (off : Nat) :
    slotName blk off = nameOf ((slotData blk off).take MAX_FILENAME_LEN) := by
  unfold slotName slotData
  rw [List.take_take]
  rfl

theorem slot_congr (blk blk2 : List Nat) (off : Nat) (h : slotData blk2 off = slotData blk off) :
    blk2.getD off 0 = blk.getD off 0 ∧ slotName blk2 off = slotName blk off := by
  constructor
  · rw [← slotData_getD_zero blk2 off, ← slotData_getD_zero blk off, h]
  · rw [slotName_slotData, slotName_slotData, h]

theorem entryBytes_take_name (e : DirectoryEntry) (h : e.Name.length = MAX_FILENAME_LEN) :
    (entryBytes e).take MAX_FILENAME_LEN = e.Name := by
  unfold entryBytes
  rw [List.append_assoc, List.append_assoc, List.append_assoc, List.take_append_of_le_length
    (by rw [h]), List.take_of_length_le (by rw [h])]

theorem slot_of_entry (blk : List Nat) (off : Nat) (e : DirectoryEntry)
    (h : slotData blk off = entryBytes e) (hl : e.Name.length = MAX_FILENAME_LEN) :
    blk.getD off 0 = e.Name.getD 0 0 ∧ slotName blk off = nameOf e.Name := by
  constructor
  · rw [← slotData_getD_zero blk off, h]
    apply entryBytes_head
    intro hnil
    rw [hnil] at hl
    cases hl
  · rw [slotName_slotData, h, entryBytes_take_name e hl]

theorem otherNames_scanSlots (blk n : List Nat) (hlen : blk.length = BLOCK_SIZE)
    (offs : List Nat) (hin : ∀ o ∈ offs, o ∈ slotOffsets) (h : ∀ o ∈ offs, slotOther blk n o) :
    otherNames n (scanSlots blk offs) := by
  have h1 := invalidateScan_other blk n hlen offs hin h
  rcases invalidateScan_spec blk n offs with ⟨_, ho⟩ | ⟨off, pre, post, e, _, _, _, _, hr⟩
  · exact ho
  · rw [h1] at hr
    rcases hr with ⟨hr, _⟩ | ⟨hr, _⟩ <;> cases hr

theorem newFileSystem_state (prior : FSState) (t1 t2 : Int) :
    (NewFileSystem prior t1 t2).1 = (FormatDisk prior t1 t2).1 ∧
    (NewFileSystem prior t1 t2).2 = .ok { CurrentDirectoryBlock := ROOT_DIR_BLOCK } := by
  unfold NewFileSystem
  rw [formatted_state]
  exact ⟨rfl, rfl⟩

theorem findFreeBlock_zero (s : FSState) (h : fatAt s 0 = FAT_FREE) : findFreeBlock s = .ok 0 := by
  obtain ⟨b, hb⟩ := findFreeBlock_of_free s 0 (le_refl _) (by decide) h
  obtain ⟨h0, _, _, hsm⟩ := findFreeBlock_ok s b hb
  have : b = 0 := by
    by_contra hne
    have hpos : (0 : Int) < b := lt_of_le_of_ne h0 (Ne.symm hne)
    exact hsm 0 (by exact_mod_cast hpos) (by exact_mod_cast h)
  rw [hb, this]

/-- The root directory after format, then `create_file(1, "t")`, `delete_entry(1, "t")`,
`create_file(1, "u")`, for any clock readings: every call succeeds, the entry of "t" is
written at offset 98 of block 1, the delete zeroes the first byte of that slot, and the
entry of "u" is written at offset 98 again. -/
theorem root_slot_reuse (prior : FSState) (t1 t2 n1 n3 : Int) :
    ∃ s1 s2 s3 : FSState,
      CreateFile (NewFileSystem prior t1 t2).1 1 [116] n1 = (s1, .ok ()) ∧
      DeleteEntry s1 1 [116] = (s2, .ok ()) ∧
      CreateFile s2 1 [117] n3 = (s3, .ok ()) ∧
      slotData (blockAt s1 1) 98 = entryBytes ⟨mkName [116], TYPE_FILE, 0, 0, n1⟩ ∧
      (blockAt s2 1).getD 98 0 = 0 ∧
      slotData (blockAt s3 1) 98 = entryBytes ⟨mkName [117], TYPE_FILE, 0, 0, n3⟩ := by
  rw [(newFileSystem_state prior t1 t2).1]
  obtain ⟨hwf0, hfat0, hblk0, hlist0⟩ := format_facts prior t1 t2
  obtain ⟨_, hroot0, htaken0, _⟩ := format_rootHolds prior t1 t2
  generalize (FormatDisk prior t1 t2).1 = s0 at *
  have e256 : (TOTAL_BLOCKS : Int) = 256 := rfl
  have hR : ROOT_DIR_BLOCK = 1 := rfl
  rw [hR] at hblk0 hlist0 hroot0 htaken0
  -- block 0 is free, block 1 is the root
  have hf00 : fatAt s0 0 = FAT_FREE := by
    unfold fatAt; rw [hfat0]; decide
  have hfb0 : findFreeBlock s0 = .ok 0 := findFreeBlock_zero s0 hf00
  have hslot0 : firstFreeSlot (blockAt s0 1) slotOffsets = some 98 :=
    slotsTaken_first (blockAt s0 1) 2 htaken0 (by omega)
  have hbl0 : (blockAt s0 1).length = BLOCK_SIZE :=
    blockAt_length s0 hwf0 1 (by omega) (by rw [e256]; omega)
  -- the two entries of the formatted root
  have hdot : nameOf (mkName [46]) = some [46] := by decide
  have hdotdot : nameOf (mkName [46, 46]) = some [46, 46] := by decide
  have hscan0 : scanSlots (blockAt s0 1) slotOffsets =
      [{ Name := mkName [46], EntryType := TYPE_DIRECTORY, StartBlock := 1, Size := 0,
         ModTime := toSigned 8 (toUnsigned 8 t1) },
       { Name := mkName [46, 46], EntryType := TYPE_DIRECTORY, StartBlock := 1, Size := 0,
         ModTime := toSigned 8 (toUnsigned 8 t2) }] := by
    have h := hlist0
    rw [listEntries_inRange s0 1 (by omega) (by rw [e256]; omega), walkFuel_eq,
      listLoop_single s0 256 1 (by omega) (by rw [e256]; omega) (Or.inl hroot0)] at h
    injection h
  have hother0 : ∀ n : List Nat, n ≠ [46] → n ≠ [46, 46] →
      otherNames n (scanSlots (blockAt s0 1) slotOffsets) := by
    intro n h1 h2 e he
    rw [hscan0] at he
    simp only [List.mem_cons, List.mem_singleton, List.not_mem_nil, or_false] at he
    rcases he with rfl | rfl
    · exact ⟨[46], hdot, Ne.symm h1⟩
    · exact ⟨[46, 46], hdotdot, Ne.symm h2⟩
  -- create "t"
  have hc1 := createFile_succeeds s0 1 [116] n1 _ 0 98 (by decide) (by decide) hlist0
    (by rw [← hscan0]; exact hother0 [116] (by decide) (by decide)) hfb0 (by omega)
    (by rw [e256]; omega) (by rw [hroot0]; decide) hslot0
  generalize hB1 : copyAt (blockAt s0 1) 98 (entryBytes ⟨mkName [116], TYPE_FILE, 0, 0, n1⟩)
    = B1 at hc1
  have hbt : (entryBytes ⟨mkName [116], TYPE_FILE, 0, 0, n1⟩).length = DIRECTORY_ENTRY_SIZE :=
    entryBytes_length _ (mkName_length _)
  have hB1len : B1.length = BLOCK_SIZE := by rw [← hB1, copyAt_length, hbl0]
  have hwfA : (setFat s0 0 FAT_EOF).WF := WF_setFat s0 0 FAT_EOF hwf0
  have hwf1 : (setBlock (setFat s0 0 FAT_EOF) 1 B1).WF := WF_setBlock _ 1 B1 hwfA hB1len
  have hblk1 : blockAt (setBlock (setFat s0 0 FAT_EOF) 1 B1) 1 = B1 :=
    blockAt_setBlock_self _ 1 B1 (WF_blockAt_lt _ hwfA 1 (by rw [e256]; omega))
  have hfat10 : fatAt (setBlock (setFat s0 0 FAT_EOF) 1 B1) 0 = FAT_EOF :=
    fatAt_setFat_self s0 0 FAT_EOF (by rw [hwf0.2.2]; decide)
  have hfat11 : fatAt (setBlock (setFat s0 0 FAT_EOF) 1 B1) 1 = FAT_EOF := by
    have : fatAt (setFat s0 0 FAT_EOF) 1 = fatAt s0 1 := fatAt_setFat_ne s0 0 1 FAT_EOF (by decide)
    exact this.trans hroot0
  have hs98 : slotData B1 98 = entryBytes ⟨mkName [116], TYPE_FILE, 0, 0, n1⟩ := by
    rw [← hB1]
    exact slotData_copyAt_same _ 98 _ hbt (by rw [hbl0]; decide)
  have hs0 : slotData B1 0 = slotData (blockAt s0 1) 0 := by
    rw [← hB1]
    exact slotData_copyAt_other _ 98 0 _ hbt (by rw [hbl0]; decide) (Or.inl (by decide))
  have hs49 : slotData B1 49 = slotData (blockAt s0 1) 49 := by
    rw [← hB1]
    exact slotData_copyAt_other _ 98 49 _ hbt (by rw [hbl0]; decide) (Or.inl (by decide))
  have hs147 : slotData B1 147 = slotData (blockAt s0 1) 147 := by
    rw [← hB1]
    exact slotData_copyAt_other _ 98 147 _ hbt (by rw [hbl0]; decide) (Or.inr (by decide))
  have hs196 : slotData B1 196 = slotData (blockAt s0 1) 196 := by
    rw [← hB1]
    exact slotData_copyAt_other _ 98 196 _ hbt (by rw [hbl0]; decide) (Or.inr (by decide))
  -- the slots of the formatted root
  have hz0 : ∀ i, 98 ≤ i → i < 256 → (blockAt s0 1).getD i 0 = 0 := by
    intro i h1 h2
    rw [hblk0]
    exact format_root_block_tail _ _ (entryBytes_length _ (mkName_length _))
      (entryBytes_length _ (mkName_length _)) i h1 0 h2
  have hd0 : slotData (blockAt s0 1) 0 =
      entryBytes ⟨mkName [46], TYPE_DIRECTORY, ROOT_DIR_BLOCK, 0, t1⟩ := by
    rw [hblk0]
    have := slotData_append [] (entryBytes ⟨mkName [46], TYPE_DIRECTORY, ROOT_DIR_BLOCK, 0, t1⟩)
      (entryBytes ⟨mkName [46, 46], TYPE_DIRECTORY, ROOT_DIR_BLOCK, 0, t2⟩ ++
        List.replicate 158 0) (entryBytes_length _ (mkName_length _))
    rw [List.nil_append, List.length_nil, ← List.append_assoc] at this
    exact this
  have hd49 : slotData (blockAt s0 1) 49 =
      entryBytes ⟨mkName [46, 46], TYPE_DIRECTORY, ROOT_DIR_BLOCK, 0, t2⟩ := by
    rw [hblk0]
    have := slotData_append (entryBytes ⟨mkName [46], TYPE_DIRECTORY, ROOT_DIR_BLOCK, 0, t1⟩)
      (entryBytes ⟨mkName [46, 46], TYPE_DIRECTORY, ROOT_DIR_BLOCK, 0, t2⟩)
      (List.replicate 158 0) (entryBytes_length _ (mkName_length _))
    rw [entryBytes_length _ (mkName_length _)] at this
    exact this
  have hlive0 : ∀ (blk : List Nat) (n : List Nat), slotData blk 0 = slotData (blockAt s0 1) 0 →
      n ≠ [46] → slotLive blk n 0 := by
    intro blk n h hn
    have hc := slot_congr _ blk 0 h
    have hf := slot_of_entry _ 0 _ hd0 (mkName_length _)
    refine ⟨?_, [46], ?_, Ne.symm hn⟩
    · rw [hc.1, hf.1]; show (mkName [46]).getD 0 0 ≠ 0; decide
    · rw [hc.2, hf.2]; exact hdot
  have hlive49 : ∀ (blk : List Nat) (n : List Nat),
      slotData blk 49 = slotData (blockAt s0 1) 49 → n ≠ [46, 46] → slotLive blk n 49 := by
    intro blk n h hn
    have hc := slot_congr _ blk 49 h
    have hf := slot_of_entry _ 49 _ hd49 (mkName_length _)
    refine ⟨?_, [46, 46], ?_, Ne.symm hn⟩
    · rw [hc.1, hf.1]; show (mkName [46, 46]).getD 0 0 ≠ 0; decide
    · rw [hc.2, hf.2]; exact hdotdot
  -- the listing after the create, and the search of the delete
  obtain ⟨l1, l2, hl12, hscan1⟩ := scanSlots_insert (blockAt s0 1)
    (entryBytes ⟨mkName [116], TYPE_FILE, 0, 0, n1⟩) 98
    ⟨mkName [116], TYPE_FILE, 0, 0, toSigned 8 (toUnsigned 8 n1)⟩ hbl0 hbt
    (by
      rw [entryBytes_head _ (show mkName [116] ≠ [] by decide)]
      show (mkName [116]).getD 0 0 ≠ 0
      decide)
    (deserialize_new_entry (mkName [116]) TYPE_FILE 0 0 n1 (mkName_length _) (by decide)
      (by decide) (by decide)) hslot0
  rw [hB1] at hscan1
  have hlist1 : ListEntries (setBlock (setFat s0 0 FAT_EOF) 1 B1) 1 = .ok
      (l1 ++ ⟨mkName [116], TYPE_FILE, 0, 0, toSigned 8 (toUnsigned 8 n1)⟩ :: l2) := by
    rw [listEntries_inRange _ 1 (by omega) (by rw [e256]; omega), walkFuel_eq,
      listLoop_single _ 256 1 (by omega) (by rw [e256]; omega) (Or.inl hfat11), hblk1, hscan1]
  have hol1 : otherNames [116] l1 := by
    intro e he
    exact hother0 [116] (by decide) (by decide) e (by rw [hl12]; exact List.mem_append_left _ he)
  have hfind := findEntry_append [116] l1 l2
    ⟨mkName [116], TYPE_FILE, 0, 0, toSigned 8 (toUnsigned 8 n1)⟩ hol1
    (show nameOf (mkName [116]) = some [116] by decide)
  have hdel := deleteEntry_file (setBlock (setFat s0 0 FAT_EOF) 1 B1) _ 1 [116] _ _
    (by decide) (by decide) hlist1 hfind rfl
    (freeBlockChain_single _ 0 (le_refl _) (by rw [e256]; omega) (Or.inl hfat10))
  -- the tombstone
  generalize hs1 : setBlock (setFat s0 0 FAT_EOF) 1 B1 = s1 at *
  have hwf1f : (setFat s1 0 FAT_FREE).WF := WF_setFat s1 0 FAT_FREE hwf1
  have hblk1f : blockAt (setFat s1 0 FAT_FREE) 1 = B1 := hblk1
  have hfat1f1 : fatAt (setFat s1 0 FAT_FREE) 1 = FAT_EOF := by
    have : fatAt (setFat s1 0 FAT_FREE) 1 = fatAt s1 1 := fatAt_setFat_ne s1 0 1 FAT_FREE (by decide)
    exact this.trans hfat11
  have hfat1f0 : fatAt (setFat s1 0 FAT_FREE) 0 = FAT_FREE :=
    fatAt_setFat_self s1 0 FAT_FREE (by rw [hwf1.2.2]; decide)
  have hnamed : slotNamed B1 [116] 98 := by
    have hf := slot_of_entry B1 98 _ hs98 (mkName_length _)
    exact ⟨by rw [hf.1]; show (mkName [116]).getD 0 0 ≠ 0; decide,
      by rw [hf.2]; show nameOf (mkName [116]) = some [116]; decide⟩
  have hinv := (invalidateLoop_first (setFat s1 0 FAT_FREE) hwf1f [116] 0 98 1 walkFuel
    (by rw [walkFuel_eq]; omega)
    (fun j hj => by
      have h0 : j = 0 := by omega
      subst h0
      exact inRange_not_endsWalk 1 (by omega) (by rw [e256]; omega))
    (fun j hj => by omega) (by decide)
    (fun o ho hlt => by
      rw [slotOffsets_eq] at ho
      simp only [List.mem_cons, List.mem_singleton, List.not_mem_nil, or_false] at ho
      have hb : nthBlock (setFat s1 0 FAT_FREE) 0 1 = 1 := rfl
      rw [hb, hblk1f]
      have h2 : o = 0 ∨ o = 49 := by omega
      rcases h2 with h | h
      · subst h; exact Or.inr (hlive0 B1 [116] hs0 (by decide))
      · subst h; exact Or.inr (hlive49 B1 [116] hs49 (by decide)))).1
    (by
      have hb : nthBlock (setFat s1 0 FAT_FREE) 0 1 = 1 := rfl
      rw [hb, hblk1f]; exact hnamed)
  have hb1 : nthBlock (setFat s1 0 FAT_FREE) 0 1 = 1 := rfl
  rw [hb1, hblk1f] at hinv
  have hfin : finishDelete (setFat s1 0 FAT_FREE) 1 [116] =
      (setBlock (setFat s1 0 FAT_FREE) 1 (B1.set 98 0), .ok ()) := by
    unfold finishDelete invalidateEntryInParent
    rw [if_neg (by
      rintro (h | h | h)
      · omega
      · rw [e256] at h; omega
      · rw [hfat1f1] at h; cases h), hinv]
  rw [hfin] at hdel
  -- the state after the delete
  generalize hB2 : B1.set 98 0 = B2 at hdel
  have hB2len : B2.length = BLOCK_SIZE := by rw [← hB2, List.length_set, hB1len]
  have hwf2 : (setBlock (setFat s1 0 FAT_FREE) 1 B2).WF := WF_setBlock _ 1 B2 hwf1f hB2len
  have hblk2 : blockAt (setBlock (setFat s1 0 FAT_FREE) 1 B2) 1 = B2 :=
    blockAt_setBlock_self _ 1 B2 (WF_blockAt_lt _ hwf1f 1 (by rw [e256]; omega))
  have hfat21 : fatAt (setBlock (setFat s1 0 FAT_FREE) 1 B2) 1 = FAT_EOF := hfat1f1
  have hfat20 : fatAt (setBlock (setFat s1 0 FAT_FREE) 1 B2) 0 = FAT_FREE := hfat1f0
  have h2s : ∀ o, o + DIRECTORY_ENTRY_SIZE ≤ 98 ∨ 98 + DIRECTORY_ENTRY_SIZE ≤ o →
      slotData B2 o = slotData B1 o := by
    intro o ho
    rw [← hB2]
    exact slotData_set_other B1 98 o ho
  have h2z : B2.getD 98 0 = 0 := by
    rw [← slotData_getD_zero B2 98, ← hB2]
    exact slotData_set_head B1 98 (by rw [hB1len]; decide)
  have hslot2 : firstFreeSlot B2 slotOffsets = some 98 := by
    apply firstFreeSlot_of B2 98 slotOffsets (by decide)
      (by rw [slotData_getD_zero]; exact h2z) _ slotOffsets_sorted
    intro o ho hlt
    rw [slotOffsets_eq] at ho
    simp only [List.mem_cons, List.mem_singleton, List.not_mem_nil, or_false] at ho
    rw [slotData_getD_zero]
    have h2 : o = 0 ∨ o = 49 := by omega
    rcases h2 with h | h
    · subst h
      exact (hlive0 B2 [117] ((h2s 0 (Or.inl (by decide))).trans hs0) (by decide)).1
    · subst h
      exact (hlive49 B2 [117] ((h2s 49 (Or.inl (by decide))).trans hs49) (by decide)).1
  have hoth2 : otherNames [117] (scanSlots B2 slotOffsets) := by
    apply otherNames_scanSlots B2 [117] hB2len slotOffsets (fun o ho => ho)
    intro o ho
    rw [slotOffsets_eq] at ho
    simp only [List.mem_cons, List.mem_singleton, List.not_mem_nil, or_false] at ho
    rcases ho with h | h | h | h | h
    · subst h
      exact Or.inr (hlive0 B2 [117] ((h2s 0 (Or.inl (by decide))).trans hs0) (by decide))
    · subst h
      exact Or.inr (hlive49 B2 [117] ((h2s 49 (Or.inl (by decide))).trans hs49) (by decide))
    · subst h; exact Or.inl h2z
    · subst h
      left
      rw [(slot_congr _ B2 147 ((h2s 147 (Or.inr (by decide))).trans hs147)).1]
      exact hz0 147 (by omega) (by omega)
    · subst h
      left
      rw [(slot_congr _ B2 196 ((h2s 196 (Or.inr (by decide))).trans hs196)).1]
      exact hz0 196 (by omega) (by omega)
  have hlist2 : ListEntries (setBlock (setFat s1 0 FAT_FREE) 1 B2) 1 =
      .ok (scanSlots B2 slotOffsets) := by
    rw [listEntries_inRange _ 1 (by omega) (by rw [e256]; omega), walkFuel_eq,
      listLoop_single _ 256 1 (by omega) (by rw [e256]; omega) (Or.inl hfat21), hblk2]
  -- create "u"
  have hc3 := createFile_succeeds (setBlock (setFat s1 0 FAT_FREE) 1 B2) 1 [117] n3 _ 0 98
    (by decide) (by decide) hlist2 hoth2 (findFreeBlock_zero _ hfat20) (by omega)
    (by rw [e256]; omega) (by rw [hfat21]; decide) (by rw [hblk2]; exact hslot2)
  rw [hblk2] at hc3
  have hbu : (entryBytes ⟨mkName [117], TYPE_FILE, 0, 0, n3⟩).length = DIRECTORY_ENTRY_SIZE :=
    entryBytes_length _ (mkName_length _)
  refine ⟨_, _, _, hc1, hdel, hc3, ?_, ?_, ?_⟩
  · rw [hblk1]; exact hs98
  · rw [hblk2]; exact h2z
  · rw [blockAt_setBlock_self _ 1 _ (WF_blockAt_lt _ (WF_setFat _ 0 FAT_EOF hwf2) 1
      (by rw [e256]; omega))]
    exact slotData_copyAt_same B2 98 _ hbu (by rw [hB2len]; decide)

/-- C28: `addEntryToDirectory` on a state with the dimensions set by format, a parent block
inside the disk and allocated, and an entry with its 28 name bytes. When the slot at `off` of
block number `k` of the parent chain is the first slot, in chain order and then by
increasing offset, whose first byte is zero (tombstoned or never used), the call writes the
49 serialized bytes of the entry into that slot and changes no other byte of the disk and no
FAT entry; it returns success when the name has a zero byte and aborts after the write when
it has none. Hence after `new_filesystem`, `create_file(1, "t")`, `delete_entry(1, "t")`,
`create_file(1, "u")`, for any clock readings, all three calls succeed and the entry of "u"
occupies the slot at offset 98 of block 1 that the entry of "t" occupied. -/
theorem C28_add_entry :
    (∀ (s : FSState) (p : Int) (e : DirectoryEntry) (k off : Nat), s.WF →
      0 ≤ p → p < (TOTAL_BLOCKS : Int) → fatAt s p ≠ FAT_FREE →
      e.Name.length = MAX_FILENAME_LEN →
      (∀ j, j ≤ k → ¬ endsWalk (nthBlock s j p)) →
      (∀ j, j < k → ∀ o ∈ slotOffsets, (blockAt s (nthBlock s j p)).getD o 0 ≠ 0) →
      off ∈ slotOffsets →
      (∀ o ∈ slotOffsets, o < off → (blockAt s (nthBlock s k p)).getD o 0 ≠ 0) →
      (blockAt s (nthBlock s k p)).getD off 0 = 0 →
      addEntryToDirectory s p e =
        ({ Disk := s.Disk.set (nthBlock s k p).toNat
             ((blockAt s (nthBlock s k p)).take off ++ entryBytes e ++
               (blockAt s (nthBlock s k p)).drop (off + 49))
           FAT := s.FAT }, if 0 ∈ e.Name then .ok () else .panic)) ∧
    (∀ (prior : FSState) (t1 t2 n1 n3 : Int), ∃ s1 s2 s3 : FSState,
      CreateFile (NewFileSystem prior t1 t2).1 1 [116] n1 = (s1, .ok ()) ∧
      DeleteEntry s1 1 [116] = (s2, .ok ()) ∧
      CreateFile s2 1 [117] n3 = (s3, .ok ()) ∧
      slotData (blockAt s1 1) 98 = entryBytes ⟨mkName [116], TYPE_FILE, 0, 0, n1⟩ ∧
      (blockAt s2 1).getD 98 0 = 0 ∧
      slotData (blockAt s3 1) 98 = entryBytes ⟨mkName [117], TYPE_FILE, 0, 0, n3⟩) := by
  refine ⟨?_, root_slot_reuse⟩
  intro s p e k off hwf hp0 hp1 hpf hlen hchain hfull hoff hbefore hzero
  have hv : ¬ (p < 0 ∨ p ≥ (TOTAL_BLOCKS : Int) ∨ fatAt s p = FAT_FREE) := by
    rintro (h | h | h)
    · omega
    · omega
    · exact hpf h
  have hbytes : (entryBytes e).length = DIRECTORY_ENTRY_SIZE := entryBytes_length e hlen
  have hun : addEntryToDirectory s p e = addLoop s e (entryBytes e) walkFuel p := by
    unfold addEntryToDirectory
    rw [if_neg hv]
    unfold DirectoryEntry.Serialize
    dsimp only
    rw [if_neg (not_not.mpr hbytes)]
    dsimp only
    rw [if_neg (not_not.mpr hbytes)]
  have hshort := walk_prefix_short s p k
    (fun b => ∀ o ∈ slotOffsets, (blockAt s b).getD o 0 ≠ 0) hchain hfull
    (fun hall => hall off hoff hzero)
  have hslot : firstFreeSlot (blockAt s (nthBlock s k p)) slotOffsets = some off :=
    firstFreeSlot_of _ off slotOffsets hoff (by rw [slotData_getD_zero]; exact hzero)
      (fun o ho hlt => by rw [slotData_getD_zero]; exact hbefore o ho hlt) slotOffsets_sorted
  rw [hun, addLoop_first_slot s e (entryBytes e) off k p walkFuel
    (by rw [walkFuel_eq]; unfold TOTAL_BLOCKS at hshort; omega) hchain
    (fun j hj => firstFreeSlot_eq_none _ _ (fun o ho => by
      rw [slotData_getD_zero]; exact hfull j hj o ho)) hslot]
  have hr := not_endsWalk _ (hchain k (le_refl _))
  have hbl := blockAt_length s hwf _ hr.2.2.1 hr.2.2.2
  have hsz := (slotOffsets_sep off hoff off hoff).1
  rw [copyAt_explicit _ _ _ (by rw [hbytes, hbl]; exact hsz), hbytes]
  rfl

set_option maxRecDepth 1000000 in
theorem C28_add_entry_witness :
    addEntryToDirectory (FormatDisk ⟨[], []⟩ 0 0).1 1 ⟨mkName [116], TYPE_FILE, 7, 0, 3⟩ =
      ({ Disk := (FormatDisk ⟨[], []⟩ 0 0).1.Disk.set
           (nthBlock (FormatDisk ⟨[], []⟩ 0 0).1 0 1).toNat
           ((blockAt (FormatDisk ⟨[], []⟩ 0 0).1 (nthBlock (FormatDisk ⟨[], []⟩ 0 0).1 0 1)).take 98
             ++ entryBytes ⟨mkName [116], TYPE_FILE, 7, 0, 3⟩ ++
             (blockAt (FormatDisk ⟨[], []⟩ 0 0).1
               (nthBlock (FormatDisk ⟨[], []⟩ 0 0).1 0 1)).drop (98 + 49))
         FAT := (FormatDisk ⟨[], []⟩ 0 0).1.FAT },
        if 0 ∈ (⟨mkName [116], TYPE_FILE, 7, 0, 3⟩ : DirectoryEntry).Name then .ok ()
        else .panic) :=
  C28_add_entry.1 (FormatDisk ⟨[], []⟩ 0 0).1 1 ⟨mkName [116], TYPE_FILE, 7, 0, 3⟩ 0 98
    (by decide) (by decide) (by decide) (by decide) (by decide)
    (fun j hj => by
      have h0 : j = 0 := by omega
      subst h0
      decide)
    (fun j hj => by omega) (by decide)
    (fun o ho hlt => by
      rw [slotOffsets_eq] at ho
      simp only [List.mem_cons, List.mem_singleton, List.not_mem_nil, or_false] at ho
      have h2 : o = 0 ∨ o = 49 := by omega
      rcases h2 with h | h
      · subst h; decide
      · subst h; decide)
    (by decide)

/-! ## C25: the FAT has no cycle -/

theorem ends_sentinel (s : FSState) (v : Int) (h : v = FAT_EOF ∨ v = FAT_FREE) : Ends s v := by
  refine ⟨0, ?_, h⟩
  show endsWalk v
  rcases h with h | h
  · exact Or.inl h
  · exact Or.inr (Or.inl h)

theorem ends_step (s : FSState) (b : Int) (hb : ¬ endsWalk b) (h : Ends s (fatAt s b)) :
    Ends s b := by
  obtain ⟨k, hk, hend⟩ := h
  exact ⟨k + 1, ⟨hb, hk⟩, hend⟩

theorem ends_inv (s : FSState) (b : Int) (hb : ¬ endsWalk b) (h : Ends s b) :
    Ends s (fatAt s b) := by
  obtain ⟨k, hk, hend⟩ := h
  cases k with
  | zero => exact absurd hk hb
  | succ k => exact ⟨k, hk.2, hend⟩

theorem toNat_ne_of_ne (a b : Int) (ha : 0 ≤ a) (hb : 0 ≤ b) (h : a ≠ b) :
    a.toNat ≠ b.toNat := by
  intro he
  apply h
  have h1 := Int.toNat_of_nonneg ha
  have h2 := Int.toNat_of_nonneg hb
  omega

/-- A write `FAT[x] = v` keeps every walk finite when the walk from `v` is finite after the
write. -/
theorem fatOK_setFat (s : FSState) (x v : Int) (h : FatOK s)
    (hv : Ends (setFat s x v) v) : FatOK (setFat s x v) := by
  refine ⟨by show (s.FAT.set x.toNat v).length = TOTAL_BLOCKS; rw [List.length_set]; exact h.1,
    ?_⟩
  have key : ∀ (k : Nat) (b : Int), endsIn s k b →
      (nthBlock s k b = FAT_EOF ∨ nthBlock s k b = FAT_FREE) → Ends (setFat s x v) b := by
    intro k
    induction k with
    | zero =>
      intro b hk hend
      exact ends_sentinel _ b hend
    | succ k ih =>
      intro b hk hend
      have hr := not_endsWalk b hk.1
      by_cases hx : x.toNat = b.toNat
      · apply ends_step _ b hk.1
        have : fatAt (setFat s x v) b = v := by
          unfold fatAt setFat
          dsimp only
          rw [← hx]
          exact getD_set_self _ _ _ _ (by
            rw [h.1, hx]
            have := Int.toNat_of_nonneg hr.2.2.1
            have h2 := hr.2.2.2
            unfold TOTAL_BLOCKS at *
            omega)
        rw [this]
        exact hv
      · apply ends_step _ b hk.1
        rw [fatAt_setFat_ne s x b v hx]
        exact ih (fatAt s b) hk.2 hend
  intro b h0 h1
  obtain ⟨k, hk, hend⟩ := h.2 b h0 h1
  exact key k b hk hend

theorem fatOK_setFat_sentinel (s : FSState) (x v : Int) (h : FatOK s)
    (hv : v = FAT_EOF ∨ v = FAT_FREE) : FatOK (setFat s x v) :=
  fatOK_setFat s x v h (ends_sentinel _ v hv)

theorem endsIn_congr (s t : FSState) (h : t.FAT = s.FAT) (k : Nat) :
    ∀ b : Int, endsIn t k b ↔ endsIn s k b := by
  induction k with
  | zero => intro b; exact Iff.rfl
  | succ k ih =>
    intro b
    show (¬ endsWalk b ∧ endsIn t k (fatAt t b)) ↔ (¬ endsWalk b ∧ endsIn s k (fatAt s b))
    rw [fatAt_congr s t h b, ih]

theorem nthBlock_congr (s t : FSState) (h : t.FAT = s.FAT) (k : Nat) :
    ∀ b : Int, nthBlock t k b = nthBlock s k b := by
  induction k with
  | zero => intro b; rfl
  | succ k ih =>
    intro b
    show nthBlock t k (fatAt t b) = nthBlock s k (fatAt s b)
    rw [fatAt_congr s t h b, ih]

theorem fatOK_congr (s t : FSState) (h : t.FAT = s.FAT) (hs : FatOK s) : FatOK t := by
  refine ⟨by rw [h]; exact hs.1, ?_⟩
  intro b h0 h1
  obtain ⟨k, hk, hend⟩ := hs.2 b h0 h1
  exact ⟨k, (endsIn_congr s t h k b).mpr hk, by rw [nthBlock_congr s t h k b]; exact hend⟩

theorem fatOK_setBlock (s : FSState) (q : Int) (blk : List Nat) (h : FatOK s) :
    FatOK (setBlock s q blk) := fatOK_congr s _ rfl h

theorem addEntry_FAT (s : FSState) (p : Int) (e : DirectoryEntry) :
    (addEntryToDirectory s p e).1.FAT = s.FAT := by
  unfold addEntryToDirectory
  split
  · rfl
  · split
    · split
      · rfl
      · exact addLoop_FAT _ _ _ _ _
    · rfl

theorem fatOK_format (prior : FSState) (t1 t2 : Int) : FatOK (FormatDisk prior t1 t2).1 := by
  obtain ⟨hwf, hfat, _, _⟩ := format_facts prior t1 t2
  refine ⟨hwf.2.2, ?_⟩
  intro b h0 h1
  apply ends_step _ b (inRange_not_endsWalk b h0 h1)
  apply ends_sentinel
  unfold fatAt
  rw [hfat]
  by_cases hb : b.toNat = 1
  · left
    rw [hb]
    exact getD_set_self _ _ _ _ (by rw [List.length_replicate]; decide)
  · right
    rw [getD_set_ne _ _ _ _ _ (Ne.symm hb)]
    have hlt : b.toNat < TOTAL_BLOCKS := by
      have := Int.toNat_of_nonneg h0
      unfold TOTAL_BLOCKS at *
      omega
    rw [List.getD_eq_getElem?_getD, List.getElem?_replicate, if_pos hlt]
    rfl

/-- The FAT after `CreateFile`: the FAT before, or the FAT before with the entry of the block
found by `findFreeBlock` set to `FAT_EOF`, or that entry set back to `FAT_FREE`. -/
theorem createFile_FAT_cases (s : FSState) (p : Int) (n : List Nat) (now : Int) :
    (CreateFile s p n now).1.FAT = s.FAT ∨
    ∃ b, findFreeBlock s = .ok b ∧
      ((CreateFile s p n now).1.FAT = (setFat s b FAT_EOF).FAT ∨
        (CreateFile s p n now).1.FAT = (setFat (setFat s b FAT_EOF) b FAT_FREE).FAT) := by
  unfold CreateFile
  split
  · exact Or.inl rfl
  · split
    · exact Or.inl rfl
    · split
      · split
        · exact Or.inl rfl
        · split
          · rename_i b hb
            right
            refine ⟨b, hb, ?_⟩
            dsimp only
            have hfat := addEntry_FAT (setFat s b FAT_EOF) p
              ⟨mkName n, TYPE_FILE, b, 0, now⟩
            generalize addEntryToDirectory (setFat s b FAT_EOF) p
              ⟨mkName n, TYPE_FILE, b, 0, now⟩ = r at hfat
            obtain ⟨s2, res⟩ := r
            cases res with
            | ok u => exact Or.inl hfat
            | err e =>
              right
              show (s2.FAT.set b.toNat FAT_FREE) = ((s.FAT.set b.toNat FAT_EOF).set b.toNat FAT_FREE)
              have : s2.FAT = s.FAT.set b.toNat FAT_EOF := hfat
              rw [this]
            | panic => exact Or.inl hfat
            | diverge => exact Or.inl hfat
          · exact Or.inl rfl
        · exact Or.inl rfl
        · exact Or.inl rfl
        · exact Or.inl rfl
      · exact Or.inl rfl
      · exact Or.inl rfl
      · exact Or.inl rfl

theorem createDirectory_FAT_cases (s : FSState) (p : Int) (n : List Nat) (t1 t2 t3 : Int) :
    (CreateDirectory s p n t1 t2 t3).1.FAT = s.FAT ∨
    ∃ b, findFreeBlock s = .ok b ∧
      ((CreateDirectory s p n t1 t2 t3).1.FAT = (setFat s b FAT_EOF).FAT ∨
        (CreateDirectory s p n t1 t2 t3).1.FAT
          = (setFat (setFat s b FAT_EOF) b FAT_FREE).FAT) := by
  unfold CreateDirectory
  split
  · exact Or.inl rfl
  · split
    · exact Or.inl rfl
    · split
      · split
        · exact Or.inl rfl
        · split
          · rename_i b hb
            right
            refine ⟨b, hb, ?_⟩
            dsimp only
            generalize hs4 : (if 0 + (bytesOrNil _).length + (bytesOrNil _).length < BLOCK_SIZE
              then _ else _ : FSState) = s4
            have h4 : s4.FAT = (setFat s b FAT_EOF).FAT := by
              rw [← hs4]
              split <;> rfl
            generalize hde : (⟨mkName n, TYPE_DIRECTORY, b, 2 * DIRECTORY_ENTRY_SIZE, t3⟩ :
              DirectoryEntry) = de
            have hfat := addEntry_FAT s4 p de
            generalize addEntryToDirectory s4 p de = r at hfat
            obtain ⟨s5, res⟩ := r
            cases res with
            | ok u => exact Or.inl (hfat.trans h4)
            | err e =>
              right
              show (s5.FAT.set b.toNat FAT_FREE) = ((s.FAT.set b.toNat FAT_EOF).set b.toNat FAT_FREE)
              have : s5.FAT = s.FAT.set b.toNat FAT_EOF := hfat.trans h4
              rw [this]
            | panic => exact Or.inl (hfat.trans h4)
            | diverge => exact Or.inl (hfat.trans h4)
          · exact Or.inl rfl
        · exact Or.inl rfl
        · exact Or.inl rfl
        · exact Or.inl rfl
      · exact Or.inl rfl
      · exact Or.inl rfl
      · exact Or.inl rfl

theorem fatOK_create_cases (s t : FSState) (h : FatOK s)
    (hc : t.FAT = s.FAT ∨ ∃ b, findFreeBlock s = .ok b ∧
      (t.FAT = (setFat s b FAT_EOF).FAT ∨
        t.FAT = (setFat (setFat s b FAT_EOF) b FAT_FREE).FAT)) : FatOK t := by
  rcases hc with hc | ⟨b, _, hc | hc⟩
  · exact fatOK_congr s t hc h
  · exact fatOK_congr _ t hc (fatOK_setFat_sentinel s b FAT_EOF h (Or.inl rfl))
  · exact fatOK_congr _ t hc (fatOK_setFat_sentinel _ b FAT_FREE
      (fatOK_setFat_sentinel s b FAT_EOF h (Or.inl rfl)) (Or.inr rfl))

theorem fatOK_freeLoop (fuel : Nat) :
    ∀ (s : FSState) (cur : Int), FatOK s → FatOK (freeLoop fuel s cur).1 := by
  induction fuel with
  | zero => intro s cur h; exact h
  | succ f ih =>
    intro s cur h
    rw [freeLoop]
    split
    · exact h
    · split
      · exact h
      · exact ih _ _ (fatOK_setFat_sentinel s cur FAT_FREE h (Or.inr rfl))

theorem fatOK_freeBlockChain (s : FSState) (start : Int) (h : FatOK s) :
    FatOK (freeBlockChain s start).1 := by
  unfold freeBlockChain
  split
  · split <;> exact h
  · exact fatOK_freeLoop _ s start h

theorem fatOK_releasedOld (s : FSState) (f : DirectoryEntry) (h : FatOK s) :
    FatOK (releasedOld s f).1 := by
  unfold releasedOld
  split
  · exact fatOK_freeBlockChain s _ h
  · exact h

theorem fatOK_releaseBlocks (bs : List Int) :
    ∀ s : FSState, FatOK s → FatOK (releaseBlocks s bs) := by
  induction bs with
  | nil => intro s h; exact h
  | cons b rest ih =>
    intro s h
    exact ih _ (fatOK_setFat_sentinel s b FAT_FREE h (Or.inr rfl))

theorem fatOK_allocStep (s : FSState) (prev nb : Int) (chunk : List Nat) (h : FatOK s)
    (hnb0 : 0 ≤ nb) (hnb1 : nb < (TOTAL_BLOCKS : Int)) (hfree : fatAt s nb = FAT_FREE)
    (hprev : prev = FAT_EOF ∨ (0 ≤ prev ∧ fatAt s prev ≠ FAT_FREE)) :
    FatOK (allocStep s prev nb chunk) ∧ fatAt (allocStep s prev nb chunk) nb = FAT_EOF := by
  have hlt : nb.toNat < s.FAT.length := by
    rw [h.1]
    have := Int.toNat_of_nonneg hnb0
    unfold TOTAL_BLOCKS at *
    omega
  have h1 : FatOK (setFat s nb FAT_EOF) := fatOK_setFat_sentinel s nb FAT_EOF h (Or.inl rfl)
  have hf1 : fatAt (setFat s nb FAT_EOF) nb = FAT_EOF := fatAt_setFat_self s nb FAT_EOF hlt
  unfold allocStep
  dsimp only
  by_cases hp : prev ≠ FAT_EOF
  · rw [if_pos hp]
    have hpr : 0 ≤ prev ∧ fatAt s prev ≠ FAT_FREE := by
      rcases hprev with h | h
      · exact absurd h hp
      · exact h
    have hne : prev.toNat ≠ nb.toNat := by
      apply toNat_ne_of_ne prev nb hpr.1 hnb0
      intro he
      rw [he] at hpr
      exact hpr.2 hfree
    have hf2 : fatAt (setFat (setFat s nb FAT_EOF) prev nb) nb = FAT_EOF := by
      rw [fatAt_setFat_ne _ prev nb nb hne]
      exact hf1
    constructor
    · apply fatOK_setBlock
      apply fatOK_setFat _ prev nb h1
      apply ends_step _ nb (inRange_not_endsWalk nb hnb0 hnb1)
      rw [hf2]
      exact ends_sentinel _ _ (Or.inl rfl)
    · exact hf2
  · rw [if_neg hp]
    exact ⟨fatOK_setBlock _ _ _ h1, hf1⟩

theorem fatOK_allocLoop (data : List Nat) (todo : Nat) :
    ∀ (i : Nat) (s : FSState) (alloc : List Int) (first prev : Int), FatOK s →
      (prev = FAT_EOF ∨ (0 ≤ prev ∧ fatAt s prev ≠ FAT_FREE)) →
      FatOK (allocLoop data todo i s alloc first prev).1 := by
  induction todo with
  | zero => intro i s alloc first prev h _; exact h
  | succ todo ih =>
    intro i s alloc first prev h hprev
    rw [allocLoop]
    cases hf : findFreeBlock s with
    | ok nb =>
      dsimp only
      obtain ⟨h0, h1, hfree, _⟩ := findFreeBlock_ok s nb hf
      obtain ⟨hok, hnb⟩ := fatOK_allocStep s prev nb (dataChunk data i) h h0 h1 hfree hprev
      exact ih _ _ _ _ _ hok (Or.inr ⟨h0, by rw [hnb]; decide⟩)
    | err e => exact fatOK_releaseBlocks alloc s h
    | panic => exact fatOK_releaseBlocks alloc s h
    | diverge => exact fatOK_releaseBlocks alloc s h

theorem fatOK_update (s : FSState) (p : Int) (e : DirectoryEntry) (h : FatOK s) :
    FatOK (updateEntryInDirectory s p e).1 :=
  fatOK_congr s _ (updateEntry_FAT s p e) h

theorem fatOK_writeToFile (s : FSState) (f : DirectoryEntry) (p : Int) (data : List Nat)
    (now : Int) (h : FatOK s) : FatOK (WriteToFile s f p data now).1 := by
  unfold WriteToFile
  split
  · exact h
  · split
    · exact h
    · split
      · exact h
      · have hro := fatOK_releasedOld s f h
        generalize releasedOld s f = ro at hro
        obtain ⟨s1, r1⟩ := ro
        cases r1 with
        | ok u =>
          dsimp only
          split
          · exact fatOK_update s1 p _ hro
          · have hal := fatOK_allocLoop data ((data.length + BLOCK_SIZE - 1) / BLOCK_SIZE) 0 s1
              [] FAT_EOF FAT_EOF hro (Or.inl rfl)
            generalize allocLoop data ((data.length + BLOCK_SIZE - 1) / BLOCK_SIZE) 0 s1
              [] FAT_EOF FAT_EOF = al at hal
            obtain ⟨s2, r2⟩ := al
            cases r2 with
            | none => exact hal
            | some bf =>
              obtain ⟨blocks, first⟩ := bf
              dsimp only
              have hup := fatOK_update s2 p
                { Name := f.Name, EntryType := f.EntryType, StartBlock := first,
                  Size := data.length, ModTime := now } hal
              generalize updateEntryInDirectory s2 p
                { Name := f.Name, EntryType := f.EntryType, StartBlock := first,
                  Size := data.length, ModTime := now } = up at hup
              obtain ⟨s3, r3⟩ := up
              cases r3 with
              | ok u2 => exact hup
              | err e => exact fatOK_releaseBlocks blocks s3 hup
              | panic => exact hup
              | diverge => exact hup
        | err e => exact hro
        | panic => exact hro
        | diverge => exact hro

theorem finishDelete_FAT (s : FSState) (p : Int) (n : List Nat) :
    (finishDelete s p n).1.FAT = s.FAT := by
  unfold finishDelete
  have h := invalidateEntryInParent_FAT s p n
  generalize invalidateEntryInParent s p n = r at h
  obtain ⟨s1, res⟩ := r
  cases res <;> exact h

/-- The FAT after `DeleteEntry`: the FAT before, or the FAT as `freeBlockChain` leaves it when
called on the start block of the entry the search found. -/
theorem deleteEntry_FAT_cases (s : FSState) (p : Int) (n : List Nat) :
    (DeleteEntry s p n).1.FAT = s.FAT ∨
    ∃ L e, ListEntries s p = .ok L ∧ findEntry n L = .ok (some e) ∧
      (DeleteEntry s p n).1.FAT = (freeBlockChain s e.StartBlock).1.FAT := by
  unfold DeleteEntry
  split
  · exact Or.inl rfl
  · split
    · exact Or.inl rfl
    · split
      · rename_i L hL
        split
        · exact Or.inl rfl
        · rename_i e he
          have hfin : ∀ (r : FSState × Res Unit),
              (match r with
                | (s1, .ok _) => finishDelete s1 p n
                | (s1, r) => (s1, r)).1.FAT = r.1.FAT := by
            intro r
            obtain ⟨s1, res⟩ := r
            cases res with
            | ok u => exact finishDelete_FAT s1 p n
            | err e => rfl
            | panic => rfl
            | diverge => rfl
          split
          · exact Or.inr ⟨L, e, hL, he, hfin _⟩
          · split
            · dsimp only
              split
              · exact Or.inr ⟨L, e, hL, he, hfin _⟩
              · exact Or.inl rfl
            · exact Or.inl rfl
        · exact Or.inl rfl
        · exact Or.inl rfl
        · exact Or.inl rfl
      · exact Or.inl rfl
      · exact Or.inl rfl
      · exact Or.inl rfl

theorem fatOK_deleteEntry (s : FSState) (p : Int) (n : List Nat) (h : FatOK s) :
    FatOK (DeleteEntry s p n).1 := by
  rcases deleteEntry_FAT_cases s p n with hc | ⟨L, e, _, _, hc⟩
  · exact fatOK_congr s _ hc h
  · exact fatOK_congr _ _ hc (fatOK_freeBlockChain s e.StartBlock h)

theorem fatOK_applyOp (s : FSState) (op : Op) (h : FatOK s) : FatOK (applyOp s op) := by
  cases op with
  | newFileSystem t1 t2 =>
    show FatOK (NewFileSystem s t1 t2).1
    rw [(newFileSystem_state s t1 t2).1]
    exact fatOK_format s t1 t2
  | createFile p n now =>
    exact fatOK_create_cases s _ h (createFile_FAT_cases s p n now)
  | createDirectory p n t1 t2 t3 =>
    exact fatOK_create_cases s _ h (createDirectory_FAT_cases s p n t1 t2 t3)
  | writeFile f p data now => exact fatOK_writeToFile s f p data now h
  | deleteEntry p n => exact fatOK_deleteEntry s p n h
  | changeDirectory fs target =>
    show FatOK (ChangeDirectory s fs target).1
    rw [changeDirectory_state]
    exact h

theorem fatOK_runOps (ops : List Op) : ∀ s : FSState, FatOK s → FatOK (runOps s ops) := by
  induction ops with
  | nil => intro s h; exact h
  | cons op rest ih => intro s h; exact ih _ (fatOK_applyOp s op h)

theorem addLoop_returns (s : FSState) (e : DirectoryEntry) (bytes : List Nat) (k : Nat) :
    ∀ (cur : Int) (fuel : Nat), endsIn s k cur →
      (nthBlock s k cur = FAT_EOF ∨ nthBlock s k cur = FAT_FREE) → k < fuel →
      (addLoop s e bytes fuel cur).2 ≠ .diverge := by
  induction k with
  | zero =>
    intro cur fuel _ hend hf
    obtain ⟨f, rfl⟩ : ∃ f, fuel = f + 1 := ⟨fuel - 1, by omega⟩
    have hend2 : cur = FAT_EOF ∨ cur = FAT_FREE := hend
    rw [addLoop, if_pos hend2]
    intro h; cases h
  | succ k ih =>
    intro cur fuel hk hend hf
    obtain ⟨f, rfl⟩ : ∃ f, fuel = f + 1 := ⟨fuel - 1, by omega⟩
    have hn := not_endsWalk cur hk.1
    rw [addLoop, if_neg hn.1, if_neg hn.2.1]
    cases hs : firstFreeSlot (blockAt s cur) slotOffsets with
    | some off =>
      dsimp only
      cases nameOf e.Name <;> (intro h; cases h)
    | none =>
      dsimp only
      split
      · intro h; cases h
      · exact ih (fatAt s cur) f hk.2 hend (by omega)

theorem updateLoop_returns (s : FSState) (bytes n : List Nat) (k : Nat) :
    ∀ (cur : Int) (fuel : Nat), endsIn s k cur →
      (nthBlock s k cur = FAT_EOF ∨ nthBlock s k cur = FAT_FREE) → k < fuel →
      (updateLoop s bytes n fuel cur).2 ≠ .diverge := by
  induction k with
  | zero =>
    intro cur fuel _ hend hf
    obtain ⟨f, rfl⟩ : ∃ f, fuel = f + 1 := ⟨fuel - 1, by omega⟩
    have hend2 : cur = FAT_EOF ∨ cur = FAT_FREE := hend
    rw [updateLoop, if_pos hend2]
    intro h; cases h
  | succ k ih =>
    intro cur fuel hk hend hf
    obtain ⟨f, rfl⟩ : ∃ f, fuel = f + 1 := ⟨fuel - 1, by omega⟩
    have hn := not_endsWalk cur hk.1
    rw [updateLoop, if_neg hn.1, if_neg hn.2.1]
    cases hs : updateScan (blockAt s cur) n slotOffsets with
    | found off => dsimp only; intro h; cases h
    | abort => dsimp only; intro h; cases h
    | notHere => exact ih (fatAt s cur) f hk.2 hend (by omega)

theorem invalidateLoop_returns (s : FSState) (n : List Nat) (k : Nat) :
    ∀ (cur : Int) (fuel : Nat), endsIn s k cur →
      (nthBlock s k cur = FAT_EOF ∨ nthBlock s k cur = FAT_FREE) → k < fuel →
      (invalidateLoop s n fuel cur).2 ≠ .diverge := by
  induction k with
  | zero =>
    intro cur fuel _ hend hf
    obtain ⟨f, rfl⟩ : ∃ f, fuel = f + 1 := ⟨fuel - 1, by omega⟩
    have hend2 : cur = FAT_EOF ∨ cur = FAT_FREE := hend
    rw [invalidateLoop, if_pos hend2]
    intro h; cases h
  | succ k ih =>
    intro cur fuel hk hend hf
    obtain ⟨f, rfl⟩ : ∃ f, fuel = f + 1 := ⟨fuel - 1, by omega⟩
    have hn := not_endsWalk cur hk.1
    rw [invalidateLoop, if_neg hn.1, if_neg hn.2.1]
    cases hs : invalidateScan (blockAt s cur) n slotOffsets with
    | found off => dsimp only; intro h; cases h
    | abort => dsimp only; intro h; cases h
    | notHere => exact ih (fatAt s cur) f hk.2 hend (by omega)

theorem fatOK_walk (s : FSState) (h : FatOK s) (b : Int) (h0 : 0 ≤ b)
    (h1 : b < (TOTAL_BLOCKS : Int)) :
    ∃ k, k ≤ TOTAL_BLOCKS ∧ k < walkFuel ∧ endsIn s k b ∧
      (nthBlock s k b = FAT_EOF ∨ nthBlock s k b = FAT_FREE) := by
  obtain ⟨k, hk, hend⟩ := h.2 b h0 h1
  have hle := endsIn_le s k b hk
  exact ⟨k, hle, by rw [walkFuel_eq]; unfold TOTAL_BLOCKS at hle; omega, hk, hend⟩

/-- C25: in every state reached from a format by a sequence of public operations (any
arguments, calls that fail included), the walk along the FAT from any block of the disk comes
to `FAT_EOF` or `FAT_FREE` after at most `TOTAL_BLOCKS` blocks, all of them inside the disk;
hence the chain walks of `ListEntries`, `addEntryToDirectory`, `updateEntryInDirectory` and
`invalidateEntryInParent` all end: `ListEntries` returns a listing or refuses the start block,
and none of the other three runs forever. -/
theorem C25_fat_acyclic (prior : FSState) (t1 t2 : Int) (ops : List Op) :
    (∀ b : Int, 0 ≤ b → b < (TOTAL_BLOCKS : Int) →
      ∃ k, k ≤ TOTAL_BLOCKS ∧ endsIn (runOps (FormatDisk prior t1 t2).1 ops) k b ∧
        (nthBlock (runOps (FormatDisk prior t1 t2).1 ops) k b = FAT_EOF ∨
          nthBlock (runOps (FormatDisk prior t1 t2).1 ops) k b = FAT_FREE)) ∧
    (∀ d : Int, (∃ L, ListEntries (runOps (FormatDisk prior t1 t2).1 ops) d = .ok L) ∨
      ListEntries (runOps (FormatDisk prior t1 t2).1 ops) d = .err .invalidBlock) ∧
    (∀ (p : Int) (e : DirectoryEntry),
      (addEntryToDirectory (runOps (FormatDisk prior t1 t2).1 ops) p e).2 ≠ .diverge) ∧
    (∀ (p : Int) (e : DirectoryEntry),
      (updateEntryInDirectory (runOps (FormatDisk prior t1 t2).1 ops) p e).2 ≠ .diverge) ∧
    (∀ (p : Int) (n : List Nat),
      (invalidateEntryInParent (runOps (FormatDisk prior t1 t2).1 ops) p n).2 ≠ .diverge) := by
  have hok := fatOK_runOps ops _ (fatOK_format prior t1 t2)
  generalize runOps (FormatDisk prior t1 t2).1 ops = s at hok
  refine ⟨?_, ?_, ?_, ?_, ?_⟩
  · intro b h0 h1
    obtain ⟨k, hle, _, hk, hend⟩ := fatOK_walk s hok b h0 h1
    exact ⟨k, hle, hk, hend⟩
  · intro d
    unfold ListEntries
    split
    · exact Or.inl ⟨[], rfl⟩
    · split
      · exact Or.inr rfl
      · rename_i _ hr
        have hr2 : 0 ≤ d ∧ d < (TOTAL_BLOCKS : Int) := by omega
        obtain ⟨k, _, hf, hk, hend⟩ := fatOK_walk s hok d hr2.1 hr2.2
        exact Or.inl (listLoop_ok_of_endsIn s k d walkFuel hk hend hf)
  · intro p e
    unfold addEntryToDirectory
    split
    · intro h; cases h
    · rename_i hv
      have hr2 : 0 ≤ p ∧ p < (TOTAL_BLOCKS : Int) := by omega
      obtain ⟨k, _, hf, hk, hend⟩ := fatOK_walk s hok p hr2.1 hr2.2
      split
      · split
        · intro h; cases h
        · exact addLoop_returns s e _ k p walkFuel hk hend hf
      · intro h; cases h
  · intro p e
    unfold updateEntryInDirectory
    split
    · intro h; cases h
    · rename_i hv
      have hr2 : 0 ≤ p ∧ p < (TOTAL_BLOCKS : Int) := by omega
      obtain ⟨k, _, hf, hk, hend⟩ := fatOK_walk s hok p hr2.1 hr2.2
      split
      · split
        · intro h; cases h
        · exact updateLoop_returns s _ _ k p walkFuel hk hend hf
      · intro h; cases h
  · intro p n
    unfold invalidateEntryInParent
    split
    · intro h; cases h
    · rename_i hv
      have hr2 : 0 ≤ p ∧ p < (TOTAL_BLOCKS : Int) := by omega
      obtain ⟨k, _, hf, hk, hend⟩ := fatOK_walk s hok p hr2.1 hr2.2
      exact invalidateLoop_returns s n k p walkFuel hk hend hf

set_option maxRecDepth 1000000 in
theorem C25_fat_acyclic_witness :
    ∃ k, k ≤ TOTAL_BLOCKS ∧
      endsIn (runOps (FormatDisk ⟨[], []⟩ 0 0).1
        [.createFile 1 [97] 0, .writeFile ⟨mkName [97], TYPE_FILE, 0, 0, 0⟩ 1
          (List.replicate 300 7) 1, .deleteEntry 1 [98]]) k 0 ∧
      (nthBlock (runOps (FormatDisk ⟨[], []⟩ 0 0).1
        [.createFile 1 [97] 0, .writeFile ⟨mkName [97], TYPE_FILE, 0, 0, 0⟩ 1
          (List.replicate 300 7) 1, .deleteEntry 1 [98]]) k 0 = FAT_EOF ∨
       nthBlock (runOps (FormatDisk ⟨[], []⟩ 0 0).1
        [.createFile 1 [97] 0, .writeFile ⟨mkName [97], TYPE_FILE, 0, 0, 0⟩ 1
          (List.replicate 300 7) 1, .deleteEntry 1 [98]]) k 0 = FAT_FREE) :=
  (C25_fat_acyclic ⟨[], []⟩ 0 0
    [.createFile 1 [97] 0, .writeFile ⟨mkName [97], TYPE_FILE, 0, 0, 0⟩ 1
      (List.replicate 300 7) 1, .deleteEntry 1 [98]]).1 0 (by decide) (by decide)

/-! ## C23: the root block -/

theorem fatAt_setFat_keep (s : FSState) (b q v : Int) (hb : 0 ≤ b) (hq : 0 ≤ q) (h : b ≠ q) :
    fatAt (setFat s b v) q = fatAt s q :=
  fatAt_setFat_ne s b q v (toNat_ne_of_ne b q hb hq h)

theorem create_keeps (s t : FSState) (q : Int) (hq : 0 ≤ q) (hf : fatAt s q ≠ FAT_FREE)
    (hc : t.FAT = s.FAT ∨ ∃ b, findFreeBlock s = .ok b ∧
      (t.FAT = (setFat s b FAT_EOF).FAT ∨
        t.FAT = (setFat (setFat s b FAT_EOF) b FAT_FREE).FAT)) :
    fatAt t q = fatAt s q := by
  rcases hc with hc | ⟨b, hb, hc⟩
  · exact fatAt_congr s t hc q
  · obtain ⟨h0, _, hfree, _⟩ := findFreeBlock_ok s b hb
    have hne : b ≠ q := by
      intro he; rw [he] at hfree; exact hf hfree
    rcases hc with hc | hc
    · rw [fatAt_congr _ t hc q, fatAt_setFat_keep s b q _ h0 hq hne]
    · rw [fatAt_congr _ t hc q, fatAt_setFat_keep _ b q _ h0 hq hne,
        fatAt_setFat_keep s b q _ h0 hq hne]

theorem delete_keeps (s : FSState) (p : Int) (n : List Nat) (q : Int) (hq : 0 ≤ q)
    (hsp : ∀ L e, ListEntries s p = .ok L → findEntry n L = .ok (some e) →
      q ∉ chainOf s walkFuel e.StartBlock) :
    fatAt (DeleteEntry s p n).1 q = fatAt s q := by
  rcases deleteEntry_FAT_cases s p n with hc | ⟨L, e, hL, he, hc⟩
  · exact fatAt_congr s _ hc q
  · rw [fatAt_congr _ _ hc q]
    exact freeBlockChain_frame s e.StartBlock q hq (hsp L e hL he)

theorem releaseBlocks_keep (bs : List Int) :
    ∀ (s : FSState) (q : Int), 0 ≤ q → (∀ y ∈ bs, 0 ≤ y) → q ∉ bs →
      fatAt (releaseBlocks s bs) q = fatAt s q := by
  induction bs with
  | nil => intro s q _ _ _; rfl
  | cons b rest ih =>
    intro s q hq hnn hnot
    have hnot2 : b ≠ q ∧ q ∉ rest := by
      constructor
      · intro he; exact hnot (he ▸ List.mem_cons_self _ _)
      · intro hm; exact hnot (List.mem_cons_of_mem _ hm)
    have h1 : releaseBlocks s (b :: rest) = releaseBlocks (setFat s b FAT_FREE) rest := rfl
    rw [h1, ih (setFat s b FAT_FREE) q hq (fun y hy => hnn y (List.mem_cons_of_mem _ hy)) hnot2.2,
      fatAt_setFat_keep s b q _ (hnn b (List.mem_cons_self _ _)) hq hnot2.1]

theorem allocStep_keep (s : FSState) (prev nb q : Int) (chunk : List Nat) (hq : 0 ≤ q)
    (hnb : 0 ≤ nb) (hne : nb ≠ q) (hprev : prev = FAT_EOF ∨ (0 ≤ prev ∧ prev ≠ q)) :
    fatAt (allocStep s prev nb chunk) q = fatAt s q := by
  unfold allocStep
  dsimp only
  have h1 : fatAt (setFat s nb FAT_EOF) q = fatAt s q := fatAt_setFat_keep s nb q _ hnb hq hne
  by_cases hp : prev ≠ FAT_EOF
  · rw [if_pos hp]
    rcases hprev with h | h
    · exact absurd h hp
    · show fatAt (setFat (setFat s nb FAT_EOF) prev nb) q = fatAt s q
      rw [fatAt_setFat_keep _ prev q _ h.1 hq h.2, h1]
  · rw [if_neg hp]
    exact h1

theorem allocLoop_keep (data : List Nat) (q : Int) (hq : 0 ≤ q) (todo : Nat) :
    ∀ (i : Nat) (s : FSState) (alloc : List Int) (first prev : Int),
      fatAt s q ≠ FAT_FREE → (∀ y ∈ alloc, 0 ≤ y) → q ∉ alloc →
      (prev = FAT_EOF ∨ (0 ≤ prev ∧ prev ≠ q)) →
      fatAt (allocLoop data todo i s alloc first prev).1 q = fatAt s q ∧
      ∀ blocks f2, (allocLoop data todo i s alloc first prev).2 = some (blocks, f2) →
        (∀ y ∈ blocks, 0 ≤ y) ∧ q ∉ blocks := by
  induction todo with
  | zero =>
    intro i s alloc first prev _ hnn hnot _
    refine ⟨rfl, ?_⟩
    intro blocks f2 h
    have : (alloc, first) = (blocks, f2) := by
      have h2 : some (alloc, first) = some (blocks, f2) := h
      injection h2
    injection this with ha _
    rw [← ha]
    exact ⟨hnn, hnot⟩
  | succ todo ih =>
    intro i s alloc first prev hf hnn hnot hprev
    rw [allocLoop]
    cases hfb : findFreeBlock s with
    | ok nb =>
      dsimp only
      obtain ⟨h0, _, hfree, _⟩ := findFreeBlock_ok s nb hfb
      have hne : nb ≠ q := by
        intro he; rw [he] at hfree; exact hf hfree
      have hk := allocStep_keep s prev nb q (dataChunk data i) hq h0 hne hprev
      have := ih (i + 1) (allocStep s prev nb (dataChunk data i)) (alloc ++ [nb])
        (if i = 0 then nb else first) nb (by rw [hk]; exact hf)
        (by
          intro y hy
          rcases List.mem_append.mp hy with h | h
          · exact hnn y h
          · rw [List.mem_singleton] at h; rw [h]; exact h0)
        (by
          intro hm
          rcases List.mem_append.mp hm with h | h
          · exact hnot h
          · rw [List.mem_singleton] at h; exact hne h.symm)
        (Or.inr ⟨h0, hne⟩)
      exact ⟨by rw [this.1, hk], this.2⟩
    | err e =>
      dsimp only
      exact ⟨releaseBlocks_keep alloc s q hq hnn hnot, fun _ _ h => by cases h⟩
    | panic =>
      dsimp only
      exact ⟨releaseBlocks_keep alloc s q hq hnn hnot, fun _ _ h => by cases h⟩
    | diverge =>
      dsimp only
      exact ⟨releaseBlocks_keep alloc s q hq hnn hnot, fun _ _ h => by cases h⟩

/-- `WriteToFile` leaves the FAT entry of an allocated block that is not on the chain of the
entry as it was. -/
theorem write_keeps (s : FSState) (f : DirectoryEntry) (p : Int) (data : List Nat) (now : Int)
    (q : Int) (hq : 0 ≤ q) (hf : fatAt s q ≠ FAT_FREE)
    (hsp : q ∉ chainOf s walkFuel f.StartBlock) :
    fatAt (WriteToFile s f p data now).1 q = fatAt s q := by
  unfold WriteToFile
  split
  · rfl
  · split
    · rfl
    · split
      · rfl
      · have hro := releasedOld_frame s f q hq hsp
        generalize releasedOld s f = ro at hro
        obtain ⟨s1, r1⟩ := ro
        have hro2 : fatAt s1 q = fatAt s q := hro
        cases r1 with
        | ok u =>
          dsimp only
          split
          · rw [fatAt_congr _ _ (updateEntry_FAT s1 p _) q, hro2]
          · have hal := allocLoop_keep data q hq ((data.length + BLOCK_SIZE - 1) / BLOCK_SIZE)
              0 s1 [] FAT_EOF FAT_EOF (by rw [hro2]; exact hf) (fun y hy => by cases hy)
              (fun hm => by cases hm) (Or.inl rfl)
            generalize allocLoop data ((data.length + BLOCK_SIZE - 1) / BLOCK_SIZE) 0 s1
              [] FAT_EOF FAT_EOF = al at hal
            obtain ⟨s2, r2⟩ := al
            have hal1 : fatAt s2 q = fatAt s1 q := hal.1
            cases r2 with
            | none => exact hal1.trans hro2
            | some bf =>
              obtain ⟨blocks, first⟩ := bf
              dsimp only
              obtain ⟨hnn, hnot⟩ := hal.2 blocks first rfl
              have hup := updateEntry_FAT s2 p
                { Name := f.Name, EntryType := f.EntryType, StartBlock := first,
                  Size := data.length, ModTime := now }
              generalize updateEntryInDirectory s2 p
                { Name := f.Name, EntryType := f.EntryType, StartBlock := first,
                  Size := data.length, ModTime := now } = up at hup
              obtain ⟨s3, r3⟩ := up
              have hup2 : fatAt s3 q = fatAt s2 q := fatAt_congr s2 s3 hup q
              cases r3 with
              | ok u2 => exact hup2.trans (hal1.trans hro2)
              | err e =>
                show fatAt (releaseBlocks s3 blocks) q = fatAt s q
                rw [releaseBlocks_keep blocks s3 q hq hnn hnot]
                exact hup2.trans (hal1.trans hro2)
              | panic => exact hup2.trans (hal1.trans hro2)
              | diverge => exact hup2.trans (hal1.trans hro2)
        | err e => exact hro2
        | panic => exact hro2
        | diverge => exact hro2

theorem root_kept_applyOp (s : FSState) (op : Op) (h : fatAt s ROOT_DIR_BLOCK ≠ FAT_FREE)
    (hsp : sparesRoot s op) : fatAt (applyOp s op) ROOT_DIR_BLOCK ≠ FAT_FREE := by
  have hq : (0 : Int) ≤ ROOT_DIR_BLOCK := by decide
  cases op with
  | newFileSystem t1 t2 =>
    show fatAt (NewFileSystem s t1 t2).1 ROOT_DIR_BLOCK ≠ FAT_FREE
    rw [(newFileSystem_state s t1 t2).1, (format_rootHolds s t1 t2).2.1]
    decide
  | createFile p n now =>
    show fatAt (CreateFile s p n now).1 ROOT_DIR_BLOCK ≠ FAT_FREE
    rw [create_keeps s _ _ hq h (createFile_FAT_cases s p n now)]
    exact h
  | createDirectory p n t1 t2 t3 =>
    show fatAt (CreateDirectory s p n t1 t2 t3).1 ROOT_DIR_BLOCK ≠ FAT_FREE
    rw [create_keeps s _ _ hq h (createDirectory_FAT_cases s p n t1 t2 t3)]
    exact h
  | writeFile f p data now =>
    show fatAt (WriteToFile s f p data now).1 ROOT_DIR_BLOCK ≠ FAT_FREE
    rw [write_keeps s f p data now _ hq h hsp]
    exact h
  | deleteEntry p n =>
    show fatAt (DeleteEntry s p n).1 ROOT_DIR_BLOCK ≠ FAT_FREE
    rw [delete_keeps s p n _ hq (by
      intro L e hL he
      have := hsp
      simp only [sparesRoot, hL, he] at this
      exact this)]
    exact h
  | changeDirectory fs target =>
    show fatAt (ChangeDirectory s fs target).1 ROOT_DIR_BLOCK ≠ FAT_FREE
    rw [changeDirectory_state]
    exact h

/-- In every state reached from `new_filesystem` by a sequence of public operations (any
arguments, calls that fail included) in which no `write_file` is applied to an entry whose
chain holds `ROOT_DIR_BLOCK` and no `delete_entry` finds an entry whose chain holds
`ROOT_DIR_BLOCK`, the FAT entry of `ROOT_DIR_BLOCK` is not `FAT_FREE`. -/
theorem root_kept_runOps (prior : FSState) (t1 t2 : Int) (ops : List Op)
    (h : allSpareRoot (NewFileSystem prior t1 t2).1 ops) :
    fatAt (runOps (NewFileSystem prior t1 t2).1 ops) ROOT_DIR_BLOCK ≠ FAT_FREE := by
  have h0 : fatAt (NewFileSystem prior t1 t2).1 ROOT_DIR_BLOCK ≠ FAT_FREE := by
    rw [(newFileSystem_state prior t1 t2).1, (format_rootHolds prior t1 t2).2.1]
    decide
  generalize (NewFileSystem prior t1 t2).1 = s at h h0
  induction ops generalizing s with
  | nil => exact h0
  | cons op rest ih =>
    exact ih (applyOp s op) h.2 (root_kept_applyOp s op h0 h.1)

/-! ## C26: block 0 -/

theorem allocLoop_extends (data : List Nat) (todo : Nat) :
    ∀ (i : Nat) (s s2 : FSState) (alloc blocks : List Int) (first prev f2 : Int),
      allocLoop data todo i s alloc first prev = (s2, some (blocks, f2)) →
      ∃ new, blocks = alloc ++ new := by
  induction todo with
  | zero =>
    intro i s s2 alloc blocks first prev f2 h
    rw [allocLoop] at h
    injection h with _ h2
    injection h2 with h3
    injection h3 with h4 _
    exact ⟨[], by rw [← h4, List.append_nil]⟩
  | succ todo ih =>
    intro i s s2 alloc blocks first prev f2 h
    obtain ⟨nb, _, h2⟩ := allocLoop_step data todo i s alloc first prev blocks f2 s2 h
    obtain ⟨new, hnew⟩ := ih _ _ _ _ _ _ _ _ h2
    exact ⟨nb :: new, by rw [hnew, List.append_assoc]; rfl⟩

theorem storesData_first_allocated (s : FSState) (cur : Int) (data : List Nat) (bs : List Int)
    (h : storesData s cur data bs) : fatAt s cur ≠ FAT_FREE := by
  cases bs with
  | nil => exact absurd h (by unfold storesData; exact not_false)
  | cons b rest =>
    cases rest with
    | nil =>
      unfold storesData at h
      rw [h.1, h.2.2.2.2.2]
      decide
    | cons b2 rest2 =>
      unfold storesData at h
      obtain ⟨hc, _, _, _, hlink, hrest⟩ := h
      obtain ⟨_, _, hnw⟩ := storesData_head s _ b2 _ hrest
      rw [hc, hlink]
      intro he
      exact hnw (Or.inr (Or.inl he))

/-- C26 (amended): block 0 is an ordinary block. Its FAT entry is FREE after
`new_filesystem`, and `findFreeBlock` hands it out first: on a state with the dimensions set by
format in which `FAT[0]` is FREE, every `create_file` and `create_directory` that succeeds
leaves `FAT[0] = FAT_EOF`, and every `write_file` of non-empty data that succeeds makes block 0
the first block of the file and leaves `FAT[0]` allocated. -/
theorem C26_block_zero :
    (∀ (prior : FSState) (t1 t2 : Int), fatAt (NewFileSystem prior t1 t2).1 0 = FAT_FREE) ∧
    (∀ (s s2 : FSState) (p : Int) (n : List Nat) (now : Int), s.WF → fatAt s 0 = FAT_FREE →
      CreateFile s p n now = (s2, .ok ()) → fatAt s2 0 = FAT_EOF) ∧
    (∀ (s s2 : FSState) (p : Int) (n : List Nat) (t1 t2 t3 : Int), s.WF →
      fatAt s 0 = FAT_FREE → CreateDirectory s p n t1 t2 t3 = (s2, .ok ()) →
      fatAt s2 0 = FAT_EOF) ∧
    (∀ (s s3 : FSState) (f f2 : DirectoryEntry) (p : Int) (data : List Nat) (now : Int),
      s.WF → fatAt s 0 = FAT_FREE → 0 < data.length →
      WriteToFile s f p data now = (s3, f2, .ok ()) →
      f2.StartBlock = 0 ∧ fatAt s3 0 ≠ FAT_FREE) := by
  have hlt : ∀ s : FSState, s.WF → (0 : Int).toNat < s.FAT.length := by
    intro s hwf
    rw [hwf.2.2]
    decide
  refine ⟨?_, ?_, ?_, ?_⟩
  · intro prior t1 t2
    rw [(newFileSystem_state prior t1 t2).1]
    unfold fatAt
    rw [(format_facts prior t1 t2).2.1]
    decide
  · intro s s2 p n now hwf hf h
    obtain ⟨_, _, entries, b, _, _, hfb, hadd⟩ := createFile_ok_inv s s2 p n now h
    rw [findFreeBlock_zero s hf] at hfb
    injection hfb with hb
    subst hb
    have hfat := addEntry_FAT (setFat s 0 FAT_EOF) p ⟨mkName n, TYPE_FILE, 0, 0, now⟩
    rw [hadd] at hfat
    rw [fatAt_congr _ s2 hfat 0]
    exact fatAt_setFat_self s 0 FAT_EOF (hlt s hwf)
  · intro s s2 p n t1 t2 t3 hwf hf h
    obtain ⟨_, _, entries, b, _, _, hfb, hadd⟩ := createDirectory_ok_inv s s2 hwf p n t1 t2 t3 h
    rw [findFreeBlock_zero s hf] at hfb
    injection hfb with hb
    subst hb
    have hfat := addEntry_FAT (setBlock (setFat s 0 FAT_EOF) 0 (newDirBlock 0 p t1 t2)) p
      ⟨mkName n, TYPE_DIRECTORY, 0, 2 * DIRECTORY_ENTRY_SIZE, t3⟩
    rw [hadd] at hfat
    rw [fatAt_congr _ s2 hfat 0]
    exact fatAt_setFat_self s 0 FAT_EOF (hlt s hwf)
  · intro s s3 f f2 p data now hwf hf hpos h
    obtain ⟨_, _, _, _, hfull⟩ := writeToFile_ok_inv s s3 f f2 p data now h
    obtain ⟨s2, blocks, first, halloc, hf2, hup⟩ := hfull (by omega)
    have hwf1 := releasedOld_WF s f hwf
    have hf1 : fatAt (releasedOld s f).1 0 = FAT_FREE := by
      rcases releasedOld_free_or s f 0 with h1 | h1
      · rw [h1]; exact hf
      · exact h1
    have e256 : BLOCK_SIZE = 256 := rfl
    obtain ⟨nb, rest, hblocks, hstore, _, _, hfirst, _, _, _⟩ :=
      allocLoop_stores data _ 0 _ s2 [] blocks FAT_EOF FAT_EOF first hwf1 (Or.inl rfl)
        (by rw [e256]; omega) (by rw [e256]; omega) (by rw [e256]; omega) halloc
    rw [if_pos rfl] at hfirst
    rw [Nat.zero_mul, List.drop_zero] at hstore
    obtain ⟨t, ht⟩ : ∃ t, (data.length + BLOCK_SIZE - 1) / BLOCK_SIZE = t + 1 :=
      ⟨(data.length + BLOCK_SIZE - 1) / BLOCK_SIZE - 1, by rw [e256]; omega⟩
    rw [ht] at halloc
    obtain ⟨nb0, hfb, htail⟩ := allocLoop_step data t 0 _ [] FAT_EOF FAT_EOF blocks first s2 halloc
    rw [findFreeBlock_zero _ hf1] at hfb
    injection hfb with hb
    subst hb
    obtain ⟨new, hnew⟩ := allocLoop_extends data t 1 _ s2 _ blocks _ _ first htail
    have hnb : nb = 0 := by
      rw [hblocks] at hnew
      have h2 : nb :: rest = 0 :: new := hnew
      injection h2
    subst hnb
    refine ⟨by rw [hf2, hfirst], ?_⟩
    have hfat := updateEntry_FAT s2 p f2
    rw [hup] at hfat
    rw [fatAt_congr _ s3 hfat 0]
    exact storesData_first_allocated s2 0 data _ hstore

set_option maxRecDepth 1000000 in
/-- After `new_filesystem`, `create_file(1, "a")` succeeds and allocates block 0. -/
theorem C26_counterexample :
    (CreateFile (NewFileSystem ⟨[], []⟩ 0 0).1 1 [97] 0).2 = .ok () ∧
    fatAt (runOps (NewFileSystem ⟨[], []⟩ 0 0).1 [.createFile 1 [97] 0]) 0 = FAT_EOF ∧
    fatAt (runOps (NewFileSystem ⟨[], []⟩ 0 0).1 [.createFile 1 [97] 0]) 0 ≠ FAT_FREE := by
  decide

set_option maxRecDepth 1000000 in
theorem C26_block_zero_witness :
    fatAt (CreateDirectory (NewFileSystem ⟨[], []⟩ 0 0).1 1 [100] 1 2 3).1 0 = FAT_EOF ∧
    ((WriteToFile (WriteToFile (CreateFile (NewFileSystem ⟨[], []⟩ 0 0).1 1 [97] 0).1
        ⟨mkName [97], TYPE_FILE, 0, 0, 0⟩ 1 [] 0).1
        ⟨mkName [97], TYPE_FILE, FAT_EOF, 0, 0⟩ 1 [1, 2, 3] 0).2.1.StartBlock = 0 ∧
      fatAt (WriteToFile (WriteToFile (CreateFile (NewFileSystem ⟨[], []⟩ 0 0).1 1 [97] 0).1
        ⟨mkName [97], TYPE_FILE, 0, 0, 0⟩ 1 [] 0).1
        ⟨mkName [97], TYPE_FILE, FAT_EOF, 0, 0⟩ 1 [1, 2, 3] 0).1 0 ≠ FAT_FREE) :=
  ⟨C26_block_zero.2.2.1 (NewFileSystem ⟨[], []⟩ 0 0).1 _ 1 [100] 1 2 3 (by decide) (by decide)
      (Prod.ext rfl (by decide)),
   C26_block_zero.2.2.2 (WriteToFile (CreateFile (NewFileSystem ⟨[], []⟩ 0 0).1 1 [97] 0).1
        ⟨mkName [97], TYPE_FILE, 0, 0, 0⟩ 1 [] 0).1 _ ⟨mkName [97], TYPE_FILE, FAT_EOF, 0, 0⟩ _ 1
      [1, 2, 3] 0 (by decide) (by decide) (by decide)
      (Prod.ext rfl (Prod.ext rfl (by decide)))⟩

/-! ## C24: the allocated blocks and the blocks reachable from the root -/

theorem slotOffsets_own : slotOffsets = 0 :: 49 :: ownSlots := by decide

theorem ownSlots_sub (o : Nat) (h : o ∈ ownSlots) : o ∈ slotOffsets ∧ o ≠ 0 ∧ o ≠ 49 := by
  unfold ownSlots at h
  simp only [List.mem_cons, List.mem_singleton, List.not_mem_nil, or_false] at h
  rw [slotOffsets_eq]
  rcases h with h | h | h <;> subst h <;> decide

theorem slotOffsets_cases (o : Nat) (h : o ∈ slotOffsets) : o = 0 ∨ o = 49 ∨ o ∈ ownSlots := by
  rw [slotOffsets_own] at h
  simp only [List.mem_cons] at h
  exact h

theorem entryAt_some (s : FSState) (d : Int) (off : Nat) (e : DirectoryEntry) :
    entryAt s d off = some e ↔
      (blockAt s d).getD off 0 ≠ 0 ∧ DeserializeEntry (slotData (blockAt s d) off) = .ok e := by
  unfold entryAt
  by_cases h0 : (blockAt s d).getD off 0 = 0
  · rw [if_pos h0]
    constructor
    · intro h; cases h
    · intro h; exact absurd h0 h.1
  · rw [if_neg h0]
    cases hd : DeserializeEntry (slotData (blockAt s d) off) with
    | ok e2 =>
      constructor
      · intro h; injection h with h; exact ⟨h0, by rw [h]⟩
      · intro h; injection h.2 with h2; rw [h2]
    | err x =>
      constructor
      · intro h; cases h
      · intro h; cases h.2
    | panic =>
      constructor
      · intro h; cases h
      · intro h; cases h.2
    | diverge =>
      constructor
      · intro h; cases h
      · intro h; cases h.2

theorem entryAt_none (s : FSState) (d : Int) (off : Nat) (hwf : s.WF) (h0 : 0 ≤ d)
    (h1 : d < (TOTAL_BLOCKS : Int)) (hoff : off ∈ slotOffsets) :
    entryAt s d off = none ↔ (blockAt s d).getD off 0 = 0 := by
  unfold entryAt
  by_cases hz : (blockAt s d).getD off 0 = 0
  · rw [if_pos hz]; exact ⟨fun _ => hz, fun _ => rfl⟩
  · rw [if_neg hz]
    have hsz := (slotOffsets_sep off hoff off hoff).1
    obtain ⟨e, he, _⟩ := deserialize_slot (blockAt s d) off
      (by rw [blockAt_length s hwf d h0 h1]; exact hsz)
    rw [he]
    exact ⟨fun h => (by cases h), fun h => absurd h hz⟩

theorem entryAt_congr (s t : FSState) (d : Int) (h : blockAt t d = blockAt s d) (off : Nat) :
    entryAt t d off = entryAt s d off := by
  unfold entryAt
  rw [h]

theorem mem_scanSlots (blk : List Nat) (e : DirectoryEntry) (offs : List Nat) :
    e ∈ scanSlots blk offs ↔
      ∃ off ∈ offs, blk.getD off 0 ≠ 0 ∧ DeserializeEntry (slotData blk off) = .ok e := by
  induction offs with
  | nil => simp [scanSlots]
  | cons o rest ih =>
    rw [scanSlots, slotData_getD_zero]
    by_cases h0 : blk.getD o 0 = 0
    · rw [if_pos h0, ih]
      constructor
      · rintro ⟨off, ho, h⟩
        exact ⟨off, List.mem_cons_of_mem _ ho, h⟩
      · rintro ⟨off, ho, h⟩
        rcases List.mem_cons.mp ho with h2 | h2
        · rw [h2] at h; exact absurd h0 h.1
        · exact ⟨off, h2, h⟩
    · rw [if_neg h0]
      cases hd : DeserializeEntry (slotData blk o) with
      | ok e2 =>
        dsimp only
        rw [List.mem_cons, ih]
        constructor
        · rintro (h | ⟨off, ho, h⟩)
          · exact ⟨o, List.mem_cons_self _ _, h0, by rw [hd, h]⟩
          · exact ⟨off, List.mem_cons_of_mem _ ho, h⟩
        · rintro ⟨off, ho, h⟩
          rcases List.mem_cons.mp ho with h2 | h2
          · left
            rw [h2, hd] at h
            injection h.2 with h3
            exact h3.symm
          · exact Or.inr ⟨off, h2, h⟩
      | err x =>
        dsimp only
        rw [ih]
        constructor
        · rintro ⟨off, ho, h⟩
          exact ⟨off, List.mem_cons_of_mem _ ho, h⟩
        · rintro ⟨off, ho, h⟩
          rcases List.mem_cons.mp ho with h2 | h2
          · rw [h2, hd] at h; cases h.2
          · exact ⟨off, h2, h⟩
      | panic =>
        dsimp only
        rw [ih]
        constructor
        · rintro ⟨off, ho, h⟩
          exact ⟨off, List.mem_cons_of_mem _ ho, h⟩
        · rintro ⟨off, ho, h⟩
          rcases List.mem_cons.mp ho with h2 | h2
          · rw [h2, hd] at h; cases h.2
          · exact ⟨off, h2, h⟩
      | diverge =>
        dsimp only
        rw [ih]
        constructor
        · rintro ⟨off, ho, h⟩
          exact ⟨off, List.mem_cons_of_mem _ ho, h⟩
        · rintro ⟨off, ho, h⟩
          rcases List.mem_cons.mp ho with h2 | h2
          · rw [h2, hd] at h; cases h.2
          · exact ⟨off, h2, h⟩

theorem chainOf_single (s : FSState) (d : Int) (h0 : 0 ≤ d) (h1 : d < (TOTAL_BLOCKS : Int))
    (h : fatAt s d = FAT_EOF) : chainOf s walkFuel d = [d] := by
  rw [walkFuel_eq, chainOf, if_neg (inRange_not_endsWalk d h0 h1), h, chainOf,
    if_pos (show endsWalk FAT_EOF from Or.inl rfl)]

/-- The listing of a directory that is one block: the entries of its slots. -/
theorem listEntries_dir (s : FSState) (d : Int) (h0 : 0 ≤ d) (h1 : d < (TOTAL_BLOCKS : Int))
    (h : fatAt s d = FAT_EOF) :
    ListEntries s d = .ok (scanSlots (blockAt s d) slotOffsets) := by
  rw [listEntries_inRange s d h0 h1, walkFuel_eq, listLoop_single s 256 d h0 h1 (Or.inl h)]

theorem mem_listing (s : FSState) (d : Int) (e : DirectoryEntry) :
    e ∈ scanSlots (blockAt s d) slotOffsets ↔ ∃ off ∈ slotOffsets, entryAt s d off = some e := by
  rw [mem_scanSlots]
  constructor
  · rintro ⟨off, ho, h⟩
    exact ⟨off, ho, (entryAt_some s d off e).mpr h⟩
  · rintro ⟨off, ho, h⟩
    exact ⟨off, ho, (entryAt_some s d off e).mp h⟩

theorem rdir_cases (s : FSState) (d : Int) (h : RDir s d) :
    d = ROOT_DIR_BLOCK ∨
      ∃ p off e, Owned s p off e ∧ e.EntryType = TYPE_DIRECTORY ∧ e.StartBlock = d := by
  cases h with
  | root => exact Or.inl rfl
  | sub p off e hp ho he ht => exact Or.inr ⟨p, off, e, ⟨hp, ho, he⟩, ht, rfl⟩

theorem owned_rdir (s : FSState) (d : Int) (off : Nat) (e : DirectoryEntry)
    (h : Owned s d off e) (ht : e.EntryType = TYPE_DIRECTORY) : RDir s e.StartBlock :=
  RDir.sub d off e h.1 h.2.1 h.2.2 ht

theorem tree_dir_chain (s : FSState) (hT : Tree s) (d : Int) (hd : RDir s d) :
    chainOf s walkFuel d = [d] := by
  obtain ⟨h0, h1, hf, _⟩ := hT.dir d hd
  exact chainOf_single s d h0 h1 hf

theorem tree_listing (s : FSState) (hT : Tree s) (d : Int) (hd : RDir s d) :
    ListEntries s d = .ok (scanSlots (blockAt s d) slotOffsets) := by
  obtain ⟨h0, h1, hf, _⟩ := hT.dir d hd
  exact listEntries_dir s d h0 h1 hf

/-- An entry listed in a directory of the tree is ".", ".." or an entry of the tree. -/
theorem tree_listed (s : FSState) (hT : Tree s) (d : Int) (hd : RDir s d)
    (L : List DirectoryEntry) (hL : ListEntries s d = .ok L) (e : DirectoryEntry) (he : e ∈ L) :
    (entryAt s d 0 = some e ∧ nameOf e.Name = some [46] ∧ e.EntryType = TYPE_DIRECTORY ∧
      e.StartBlock = d) ∨
    (entryAt s d 49 = some e ∧ nameOf e.Name = some [46, 46] ∧ e.EntryType = TYPE_DIRECTORY ∧
      RDir s e.StartBlock) ∨
    ∃ off, Owned s d off e := by
  rw [tree_listing s hT d hd] at hL
  injection hL with hL
  subst hL
  obtain ⟨off, hoff, hs⟩ := (mem_listing s d e).mp he
  obtain ⟨_, _, _, ⟨e0, h0, hn0, ht0, hb0⟩, ⟨e1, h1, hn1, ht1, hb1⟩⟩ := hT.dir d hd
  rcases slotOffsets_cases off hoff with h | h | h
  · subst h
    rw [h0] at hs
    injection hs with hs
    subst hs
    exact Or.inl ⟨h0, hn0, ht0, hb0⟩
  · subst h
    rw [h1] at hs
    injection hs with hs
    subst hs
    refine Or.inr (Or.inl ⟨h1, hn1, ht1, ?_⟩)
    rcases hb1 with ⟨hr, hb⟩ | ⟨o2, e2, ho, _, _⟩
    · rw [hb]; exact RDir.root
    · exact ho.1
  · exact Or.inr (Or.inr ⟨off, hd, h, hs⟩)

theorem reach_rdir (s : FSState) (hT : Tree s) (d : Int) (h : Reach s d) : RDir s d := by
  induction h with
  | root => exact RDir.root
  | sub d L e _ hL he ht ih =>
    rcases tree_listed s hT d ih L hL e he with ⟨_, _, _, hb⟩ | ⟨_, _, _, hb⟩ | ⟨off, ho⟩
    · rw [hb]; exact ih
    · exact hb
    · exact owned_rdir s d off e ho ht

theorem rdir_reach (s : FSState) (hT : Tree s) (d : Int) (h : RDir s d) : Reach s d := by
  induction h with
  | root => exact Reach.root
  | sub d off e hd ho he ht ih =>
    exact Reach.sub d _ e ih (tree_listing s hT d hd)
      ((mem_listing s d e).mpr ⟨off, (ownSlots_sub off ho).1, he⟩) ht

/-- In a state with the shape `Tree` the allocated blocks are the reachable ones. -/
theorem tree_allocated_iff (s : FSState) (hT : Tree s) (b : Int) (h0 : 0 ≤ b)
    (h1 : b < (TOTAL_BLOCKS : Int)) : fatAt s b ≠ FAT_FREE ↔ Reachable s b := by
  have hEOF : FAT_EOF ≠ FAT_FREE := by decide
  constructor
  · intro hne
    rcases hT.owned b h0 h1 hne with hb | ⟨d, off, e, ho, hb⟩
    · left
      rw [hb, tree_dir_chain s hT _ RDir.root]
      exact List.mem_singleton.mpr rfl
    · right
      exact ⟨d, _, e, rdir_reach s hT d ho.1, tree_listing s hT d ho.1,
        (mem_listing s d e).mpr ⟨off, (ownSlots_sub off ho.2.1).1, ho.2.2⟩, hb⟩
  · rintro (h | ⟨d, L, e, hd, hL, he, hb⟩)
    · rw [tree_dir_chain s hT _ RDir.root] at h
      rw [List.mem_singleton.mp h, (hT.dir _ RDir.root).2.2.1]
      exact hEOF
    · have hd2 := reach_rdir s hT d hd
      rcases tree_listed s hT d hd2 L hL e he with ⟨_, _, _, hsb⟩ | ⟨_, _, _, hsb⟩ | ⟨off, ho⟩
      · rw [hsb, tree_dir_chain s hT d hd2] at hb
        rw [List.mem_singleton.mp hb, (hT.dir d hd2).2.2.1]
        exact hEOF
      · rw [tree_dir_chain s hT _ hsb] at hb
        rw [List.mem_singleton.mp hb, (hT.dir _ hsb).2.2.1]
        exact hEOF
      · exact hT.alloc d off e ho b hb

theorem option_cases {α : Type} (o : Option α) : o = none ∨ ∃ e, o = some e := by
  cases o with
  | none => exact Or.inl rfl
  | some e => exact Or.inr ⟨e, rfl⟩

/-- The shape `Tree` depends on the FAT and on the bytes of the allocated blocks only. -/
theorem tree_congr (s t : FSState) (hT : Tree s) (hwf : t.WF) (hfat : t.FAT = s.FAT)
    (hblk : ∀ d : Int, 0 ≤ d → fatAt s d ≠ FAT_FREE → blockAt t d = blockAt s d) : Tree t := by
  have hEF : FAT_EOF ≠ FAT_FREE := by decide
  have hF : ∀ b, fatAt t b = fatAt s b := fatAt_congr s t hfat
  have hE : ∀ d, RDir s d → ∀ o, entryAt t d o = entryAt s d o := by
    intro d hd o
    obtain ⟨h0, _, hf, _⟩ := hT.dir d hd
    exact entryAt_congr s t d (hblk d h0 (by rw [hf]; exact hEF)) o
  have hR1 : ∀ d, RDir s d → RDir t d := by
    intro d hd
    induction hd with
    | root => exact RDir.root
    | sub d o e hd ho he ht ih => exact RDir.sub d o e ih ho (by rw [hE d hd o]; exact he) ht
  have hR2 : ∀ d, RDir t d → RDir s d := by
    intro d hd
    induction hd with
    | root => exact RDir.root
    | sub d o e hd ho he ht ih => exact RDir.sub d o e ih ho (by rw [← hE d ih o]; exact he) ht
  have hO1 : ∀ d o e, Owned t d o e → Owned s d o e := by
    intro d o e ho
    exact ⟨hR2 d ho.1, ho.2.1, by rw [← hE d (hR2 d ho.1) o]; exact ho.2.2⟩
  have hO2 : ∀ d o e, Owned s d o e → Owned t d o e := by
    intro d o e ho
    exact ⟨hR1 d ho.1, ho.2.1, by rw [hE d ho.1 o]; exact ho.2.2⟩
  have hC : ∀ c, chainOf t walkFuel c = chainOf s walkFuel c :=
    fun c => chainOf_agree s t walkFuel c (fun y _ => hF y)
  refine ⟨hwf, fatOK_congr s t hfat hT.fat, ?_, ?_, ?_, ?_, ?_, ?_, ?_⟩
  · intro d hd
    have hds := hR2 d hd
    obtain ⟨h0, h1, hf, ⟨e0, he0, hr0⟩, ⟨e1, he1, hn1, ht1, hb1⟩⟩ := hT.dir d hds
    refine ⟨h0, h1, by rw [hF]; exact hf, ⟨e0, by rw [hE d hds]; exact he0, hr0⟩,
      ⟨e1, by rw [hE d hds]; exact he1, hn1, ht1, ?_⟩⟩
    rcases hb1 with h | ⟨o2, e2, ho2, hr2⟩
    · exact Or.inl h
    · exact Or.inr ⟨o2, e2, hO2 _ _ _ ho2, hr2⟩
  · intro d o e ho
    exact hT.entry d o e (hO1 d o e ho)
  · intro d o1 o2 e1 e2 h1 h2 hn
    exact hT.names d o1 o2 e1 e2 (hO1 _ _ _ h1) (hO1 _ _ _ h2) hn
  · intro d1 o1 e1 d2 o2 e2 b h1 h2 hb1 hb2
    rw [hC] at hb1 hb2
    exact hT.disjoint d1 o1 e1 d2 o2 e2 b (hO1 _ _ _ h1) (hO1 _ _ _ h2) hb1 hb2
  · intro d o e ho hr
    rw [hC] at hr
    exact hT.rootFree d o e (hO1 _ _ _ ho) hr
  · intro d o e ho b hb
    rw [hC] at hb
    rw [hF]
    exact hT.alloc d o e (hO1 _ _ _ ho) b hb
  · intro b h0 h1 hne
    rw [hF] at hne
    rcases hT.owned b h0 h1 hne with h | ⟨d, o, e, ho, hb⟩
    · exact Or.inl h
    · exact Or.inr ⟨d, o, e, hO2 _ _ _ ho, by rw [hC]; exact hb⟩

/-- One slot behind "." and ".." of a directory of the tree changes its content from `old` to
`new`, the chain of `old` is released and the chain of `new` is made of blocks that were free
or on the chain of `old`; a directory entry is removed or added with a block that holds "."
and ".." only. The shape `Tree` is kept. -/
theorem tree_replace (s t : FSState) (p : Int) (off : Nat) (old new : Option DirectoryEntry)
    (hT : Tree s) (hwf : t.WF) (hfat : FatOK t) (hp : RDir s p) (hoff : off ∈ ownSlots)
    (hold : entryAt s p off = old) (hnew : entryAt t p off = new)
    (hslots : ∀ d, RDir s d → ∀ o ∈ slotOffsets, (d ≠ p ∨ o ≠ off) →
      entryAt t d o = entryAt s d o)
    (hkeep : ∀ b : Int, 0 ≤ b → b ∉ slotChain s old → b ∉ slotChain t new →
      fatAt t b = fatAt s b)
    (hfree : ∀ b ∈ slotChain s old, b ∉ slotChain t new → fatAt t b = FAT_FREE)
    (halloc : ∀ b ∈ slotChain t new,
      fatAt t b ≠ FAT_FREE ∧ (fatAt s b = FAT_FREE ∨ b ∈ slotChain s old))
    (hname : ∀ e, new = some e → ∃ nm, nameOf e.Name = some nm ∧ nm ≠ [46] ∧ nm ≠ [46, 46] ∧
      ∀ o ∈ ownSlots, o ≠ off → ∀ e2, entryAt s p o = some e2 → nameOf e2.Name ≠ some nm)
    (holdleaf : ∀ e, old = some e → e.EntryType = TYPE_DIRECTORY →
      ∀ o ∈ ownSlots, entryAt s e.StartBlock o = none)
    (hnewleaf : ∀ e, new = some e → e.EntryType = TYPE_DIRECTORY →
      0 ≤ e.StartBlock ∧ e.StartBlock < (TOTAL_BLOCKS : Int) ∧
      fatAt t e.StartBlock = FAT_EOF ∧
      (∃ e0, entryAt t e.StartBlock 0 = some e0 ∧ nameOf e0.Name = some [46] ∧
        e0.EntryType = TYPE_DIRECTORY ∧ e0.StartBlock = e.StartBlock) ∧
      (∃ e1, entryAt t e.StartBlock 49 = some e1 ∧ nameOf e1.Name = some [46, 46] ∧
        e1.EntryType = TYPE_DIRECTORY ∧ e1.StartBlock = p) ∧
      ∀ o ∈ ownSlots, entryAt t e.StartBlock o = none) :
    Tree t := by
  have hEF : FAT_EOF ≠ FAT_FREE := by decide
  have hOld : ∀ e, old = some e → Owned s p off e :=
    fun e he => ⟨hp, hoff, by rw [hold, he]⟩
  have hdirchain : ∀ d, RDir s d → chainOf s walkFuel d = [d] := tree_dir_chain s hT
  have hcold : ∀ e, old = some e → e.EntryType = TYPE_DIRECTORY →
      ∀ d o e2, Owned s d o e2 → d ≠ e.StartBlock := by
    intro e he ht d o e2 ho hd
    have := holdleaf e he ht o ho.2.1
    rw [← hd, ho.2.2] at this
    cases this
  have hpne : ∀ e, old = some e → e.EntryType = TYPE_DIRECTORY → p ≠ e.StartBlock :=
    fun e he ht => hcold e he ht p off e (hOld e he)
  have hsame : ∀ d o e, Owned s d o e → ¬ (d ≠ p ∨ o ≠ off) → old = some e := by
    intro d o e ho hc
    push_neg at hc
    have h3 := ho.2.2
    rw [hc.1, hc.2, hold] at h3
    exact h3
  have hnotold : ∀ d o e, Owned s d o e → (d ≠ p ∨ o ≠ off) →
      ∀ b ∈ chainOf s walkFuel e.StartBlock, b ∉ slotChain s old := by
    intro d o e ho hne b hb hbo
    rcases option_cases old with hq | ⟨e0, hq⟩
    · rw [hq] at hbo
      exact absurd hbo (List.not_mem_nil _)
    · rw [hq] at hbo
      have := hT.disjoint d o e p off e0 b ho (hOld e0 hq) hb hbo
      rcases hne with h | h
      · exact h this.1
      · exact h this.2
  have hnotnew : ∀ b, fatAt s b ≠ FAT_FREE → b ∉ slotChain s old → b ∉ slotChain t new := by
    intro b hb hbo hbn
    rcases (halloc b hbn).2 with h | h
    · exact hb h
    · exact hbo h
  have hfatkeep : ∀ d o e, Owned s d o e → (d ≠ p ∨ o ≠ off) →
      ∀ b ∈ chainOf s walkFuel e.StartBlock, fatAt t b = fatAt s b := by
    intro d o e ho hne b hb
    have h1 := hnotold d o e ho hne b hb
    have h2 := hnotnew b (hT.alloc d o e ho b hb) h1
    have h0 := (not_endsWalk b (chainOf_mem_not_endsWalk s _ _ b hb)).2.2.1
    exact hkeep b h0 h1 h2
  have hchain : ∀ d o e, Owned s d o e → (d ≠ p ∨ o ≠ off) →
      chainOf t walkFuel e.StartBlock = chainOf s walkFuel e.StartBlock :=
    fun d o e ho hne => chainOf_agree s t walkFuel e.StartBlock (hfatkeep d o e ho hne)
  have hdirkeep : ∀ d, RDir s d →
      (∀ e, old = some e → e.EntryType = TYPE_DIRECTORY → d ≠ e.StartBlock) →
      fatAt t d = fatAt s d := by
    intro d hd hne
    obtain ⟨h0, h1, hf, _⟩ := hT.dir d hd
    have hbo : d ∉ slotChain s old := by
      intro hbo
      rcases option_cases old with hq | ⟨e0, hq⟩
      · rw [hq] at hbo
        exact absurd hbo (List.not_mem_nil _)
      · rw [hq] at hbo
        rcases rdir_cases s d hd with hr | ⟨d2, o2, e2, ho2, ht2, hb2⟩
        · rw [hr] at hbo
          exact hT.rootFree p off e0 (hOld e0 hq) hbo
        · have hmem : d ∈ chainOf s walkFuel e2.StartBlock := by
            rw [hb2, hdirchain d hd]
            exact List.mem_singleton.mpr rfl
          have hpo := hT.disjoint d2 o2 e2 p off e0 d ho2 (hOld e0 hq) hmem hbo
          have he := hsame d2 o2 e2 ho2 (by
            intro hc
            rcases hc with h | h
            · exact h hpo.1
            · exact h hpo.2)
          exact hne e2 he ht2 hb2.symm
    exact hkeep d h0 hbo (hnotnew d (by rw [hf]; exact hEF) hbo)
  have hA1 : ∀ d, RDir t d →
      (RDir s d ∧ ∀ e, old = some e → e.EntryType = TYPE_DIRECTORY → d ≠ e.StartBlock) ∨
      (∃ e, new = some e ∧ e.EntryType = TYPE_DIRECTORY ∧ e.StartBlock = d) := by
    intro d hd
    induction hd with
    | root =>
      left
      refine ⟨RDir.root, ?_⟩
      intro e he ht hr
      apply hT.rootFree p off e (hOld e he)
      rw [← hr, hdirchain _ RDir.root]
      exact List.mem_singleton.mpr rfl
    | sub d o e2 hd ho he ht ih =>
      rcases ih with ⟨hds, hdne⟩ | ⟨e, hne, hte, hbe⟩
      · by_cases hpo : d ≠ p ∨ o ≠ off
        · have hes : entryAt s d o = some e2 := by
            rw [← hslots d hds o (ownSlots_sub o ho).1 hpo]
            exact he
          left
          have hos : Owned s d o e2 := ⟨hds, ho, hes⟩
          refine ⟨owned_rdir s d o e2 hos ht, ?_⟩
          intro e he0 hte hbe
          have hm1 : e2.StartBlock ∈ chainOf s walkFuel e2.StartBlock := by
            rw [hdirchain _ (owned_rdir s d o e2 hos ht)]
            exact List.mem_singleton.mpr rfl
          have hm2 : e2.StartBlock ∈ chainOf s walkFuel e.StartBlock := by
            rw [← hbe]
            exact hm1
          have := hT.disjoint d o e2 p off e _ hos (hOld e he0) hm1 hm2
          rcases hpo with h | h
          · exact h this.1
          · exact h this.2
        · right
          push_neg at hpo
          refine ⟨e2, ?_, ht, rfl⟩
          rw [← hnew, ← hpo.1, ← hpo.2]
          exact he
      · exfalso
        have := (hnewleaf e hne hte).2.2.2.2.2 o ho
        rw [hbe, he] at this
        cases this
  have hA2 : ∀ d, RDir s d →
      (∀ e, old = some e → e.EntryType = TYPE_DIRECTORY → d ≠ e.StartBlock) → RDir t d := by
    intro d hd
    induction hd with
    | root =>
      intro _
      exact RDir.root
    | sub d o e2 hd ho he ht ih =>
      intro hne
      have hos : Owned s d o e2 := ⟨hd, ho, he⟩
      have hdt : RDir t d := ih (fun e he0 hte => hcold e he0 hte d o e2 hos)
      have hpo : d ≠ p ∨ o ≠ off := by
        by_contra hc
        exact hne e2 (hsame d o e2 hos hc) ht rfl
      exact RDir.sub d o e2 hdt ho (by
        rw [hslots d hd o (ownSlots_sub o ho).1 hpo]
        exact he) ht
  have hpt : RDir t p := hA2 p hp hpne
  have hB1 : ∀ d o e, Owned t d o e →
      (d = p ∧ o = off ∧ new = some e) ∨ ((d ≠ p ∨ o ≠ off) ∧ Owned s d o e) := by
    intro d o e ho
    rcases hA1 d ho.1 with ⟨hds, _⟩ | ⟨e0, hne, hte, hbe⟩
    · by_cases hpo : d ≠ p ∨ o ≠ off
      · right
        exact ⟨hpo, hds, ho.2.1, by
          rw [← hslots d hds o (ownSlots_sub o ho.2.1).1 hpo]
          exact ho.2.2⟩
      · left
        push_neg at hpo
        refine ⟨hpo.1, hpo.2, ?_⟩
        rw [← hnew, ← hpo.1, ← hpo.2]
        exact ho.2.2
    · exfalso
      have := (hnewleaf e0 hne hte).2.2.2.2.2 o ho.2.1
      rw [hbe, ho.2.2] at this
      cases this
  have hB2 : ∀ d o e, Owned s d o e → (d ≠ p ∨ o ≠ off) → Owned t d o e := by
    intro d o e ho hpo
    exact ⟨hA2 d ho.1 (fun e0 he0 hte => hcold e0 he0 hte d o e ho), ho.2.1, by
      rw [hslots d ho.1 o (ownSlots_sub o ho.2.1).1 hpo]
      exact ho.2.2⟩
  have hB3 : ∀ e, new = some e → Owned t p off e :=
    fun e he => ⟨hpt, hoff, by rw [hnew, he]⟩
  have ho0 : (0 : Nat) ∈ slotOffsets := by decide
  have ho49 : (49 : Nat) ∈ slotOffsets := by decide
  refine ⟨hwf, hfat, ?_, ?_, ?_, ?_, ?_, ?_, ?_⟩
  · intro d hd
    rcases hA1 d hd with ⟨hds, hdne⟩ | ⟨e, hne, hte, hbe⟩
    · obtain ⟨h0, h1, hf, ⟨e0, he0, hr0⟩, ⟨e1, he1, hn1, ht1, hb1⟩⟩ := hT.dir d hds
      have hne0 : d ≠ p ∨ 0 ≠ off := Or.inr (fun h => (ownSlots_sub off hoff).2.1 h.symm)
      have hne49 : d ≠ p ∨ 49 ≠ off := Or.inr (fun h => (ownSlots_sub off hoff).2.2 h.symm)
      refine ⟨h0, h1, by rw [hdirkeep d hds hdne]; exact hf,
        ⟨e0, by rw [hslots d hds 0 ho0 hne0]; exact he0, hr0⟩,
        ⟨e1, by rw [hslots d hds 49 ho49 hne49]; exact he1, hn1, ht1, ?_⟩⟩
      rcases hb1 with h | ⟨o2, e2, ho2, ht2, hb2⟩
      · exact Or.inl h
      · right
        refine ⟨o2, e2, hB2 _ o2 e2 ho2 ?_, ht2, hb2⟩
        by_contra hc
        exact hdne e2 (hsame _ o2 e2 ho2 hc) ht2 hb2.symm
    · obtain ⟨h0, h1, hf, h00, ⟨e1, he1, hn1, ht1, hb1⟩, _⟩ := hnewleaf e hne hte
      rw [← hbe]
      refine ⟨h0, h1, hf, h00, ⟨e1, he1, hn1, ht1, Or.inr ⟨off, e, ?_, hte, rfl⟩⟩⟩
      rw [hb1]
      exact hB3 e hne
  · intro d o e ho
    rcases hB1 d o e ho with ⟨_, _, hne⟩ | ⟨_, hos⟩
    · obtain ⟨nm, h1, h2, h3, _⟩ := hname e hne
      exact ⟨nm, h1, h2, h3⟩
    · exact hT.entry d o e hos
  · intro d o1 o2 e1 e2 h1 h2 hn
    have hmix : ∀ oa ob ea eb, d = p → oa = off → new = some ea → (d ≠ p ∨ ob ≠ off) →
        Owned s d ob eb → nameOf ea.Name = nameOf eb.Name → False := by
      intro oa ob ea eb hd1 _ hn1 hp2 hs2 hnn
      obtain ⟨nm, hnm, _, _, hother⟩ := hname ea hn1
      have ho2ne : ob ≠ off := by
        rcases hp2 with h | h
        · exact absurd hd1 h
        · exact h
      apply hother ob hs2.2.1 ho2ne eb (by rw [← hd1]; exact hs2.2.2)
      rw [← hnn, hnm]
    rcases hB1 d o1 e1 h1 with ⟨hd1, ho1, hn1⟩ | ⟨hp1, hs1⟩
    · rcases hB1 d o2 e2 h2 with ⟨hd2, ho2, hn2⟩ | ⟨hp2, hs2⟩
      · rw [ho1, ho2]
      · exact (hmix o1 o2 e1 e2 hd1 ho1 hn1 hp2 hs2 hn).elim
    · rcases hB1 d o2 e2 h2 with ⟨hd2, ho2, hn2⟩ | ⟨hp2, hs2⟩
      · exact (hmix o2 o1 e2 e1 hd2 ho2 hn2 hp1 hs1 hn.symm).elim
      · exact hT.names d o1 o2 e1 e2 hs1 hs2 hn
  · intro d1 o1 e1 d2 o2 e2 b h1 h2 hb1 hb2
    have hmix : ∀ d o e e2, (d ≠ p ∨ o ≠ off) → Owned s d o e → new = some e2 →
        b ∈ chainOf t walkFuel e.StartBlock → b ∈ chainOf t walkFuel e2.StartBlock → False := by
      intro d o e e2 hpo hos hn hbe hbn
      rw [hchain d o e hos hpo] at hbe
      have hbn2 : b ∈ slotChain t new := by
        rw [hn]
        exact hbn
      exact hnotnew b (hT.alloc d o e hos b hbe) (hnotold d o e hos hpo b hbe) hbn2
    rcases hB1 d1 o1 e1 h1 with ⟨hd1, ho1, hn1⟩ | ⟨hp1, hs1⟩
    · rcases hB1 d2 o2 e2 h2 with ⟨hd2, ho2, hn2⟩ | ⟨hp2, hs2⟩
      · exact ⟨by rw [hd1, hd2], by rw [ho1, ho2]⟩
      · exact (hmix d2 o2 e2 e1 hp2 hs2 hn1 hb2 hb1).elim
    · rcases hB1 d2 o2 e2 h2 with ⟨hd2, ho2, hn2⟩ | ⟨hp2, hs2⟩
      · exact (hmix d1 o1 e1 e2 hp1 hs1 hn2 hb1 hb2).elim
      · rw [hchain d1 o1 e1 hs1 hp1] at hb1
        rw [hchain d2 o2 e2 hs2 hp2] at hb2
        exact hT.disjoint d1 o1 e1 d2 o2 e2 b hs1 hs2 hb1 hb2
  · intro d o e ho hr
    rcases hB1 d o e ho with ⟨_, _, hne⟩ | ⟨hpo, hos⟩
    · have hrn : ROOT_DIR_BLOCK ∈ slotChain t new := by
        rw [hne]
        exact hr
      rcases (halloc _ hrn).2 with h | h
      · rw [(hT.dir _ RDir.root).2.2.1] at h
        exact hEF h
      · rcases option_cases old with hq | ⟨e0, hq⟩
        · rw [hq] at h
          exact absurd h (List.not_mem_nil _)
        · rw [hq] at h
          exact hT.rootFree p off e0 (hOld e0 hq) h
    · rw [hchain d o e hos hpo] at hr
      exact hT.rootFree d o e hos hr
  · intro d o e ho b hb
    rcases hB1 d o e ho with ⟨_, _, hne⟩ | ⟨hpo, hos⟩
    · exact (halloc b (by rw [hne]; exact hb)).1
    · rw [hchain d o e hos hpo] at hb
      rw [hfatkeep d o e hos hpo b hb]
      exact hT.alloc d o e hos b hb
  · intro b h0 h1 hne
    by_cases hbn : b ∈ slotChain t new
    · rcases option_cases new with hq | ⟨e, hq⟩
      · rw [hq] at hbn
        exact absurd hbn (List.not_mem_nil _)
      · rw [hq] at hbn
        exact Or.inr ⟨p, off, e, hB3 e hq, hbn⟩
    · by_cases hbo : b ∈ slotChain s old
      · exact absurd (hfree b hbo hbn) hne
      · rw [hkeep b h0 hbo hbn] at hne
        rcases hT.owned b h0 h1 hne with h | ⟨d, o, e, hos, hb⟩
        · exact Or.inl h
        · have hpo : d ≠ p ∨ o ≠ off := by
            by_contra hc
            apply hbo
            rw [hsame d o e hos hc]
            exact hb
          exact Or.inr ⟨d, o, e, hB2 d o e hos hpo, by rw [hchain d o e hos hpo]; exact hb⟩

theorem name_ne_nil (e : DirectoryEntry) (h : e.Name.length = MAX_FILENAME_LEN) :
    e.Name ≠ [] := by
  intro hnil
  rw [hnil] at h
  cases h

/-- The slots of a block that holds two entries and zeros behind them. -/
theorem dirBlock_entries (s : FSState) (d : Int) (e0 e1 r0 r1 : DirectoryEntry)
    (h0 : e0.Name.length = MAX_FILENAME_LEN) (h1 : e1.Name.length = MAX_FILENAME_LEN)
    (n0 : e0.Name.getD 0 0 ≠ 0) (n1 : e1.Name.getD 0 0 ≠ 0)
    (d0 : DeserializeEntry (entryBytes e0) = .ok r0)
    (d1 : DeserializeEntry (entryBytes e1) = .ok r1)
    (hblk : blockAt s d = entryBytes e0 ++ entryBytes e1 ++ List.replicate 158 0) :
    entryAt s d 0 = some r0 ∧ entryAt s d 49 = some r1 ∧
      ∀ o ∈ ownSlots, entryAt s d o = none := by
  have l0 := entryBytes_length e0 h0
  have l1 := entryBytes_length e1 h1
  have hs0 : slotData (blockAt s d) 0 = entryBytes e0 := by
    rw [hblk, List.append_assoc]
    have := slotData_append [] (entryBytes e0) (entryBytes e1 ++ List.replicate 158 0) l0
    simpa using this
  have hs1 : slotData (blockAt s d) 49 = entryBytes e1 := by
    rw [hblk]
    have := slotData_append (entryBytes e0) (entryBytes e1) (List.replicate 158 0) l1
    rw [l0] at this
    exact this
  refine ⟨?_, ?_, ?_⟩
  · rw [entryAt_some, ← slotData_getD_zero, hs0, entryBytes_head e0 (name_ne_nil e0 h0)]
    exact ⟨n0, d0⟩
  · rw [entryAt_some, ← slotData_getD_zero, hs1, entryBytes_head e1 (name_ne_nil e1 h1)]
    exact ⟨n1, d1⟩
  · intro o ho
    have hz : (blockAt s d).getD o 0 = 0 := by
      rw [hblk]
      unfold ownSlots at ho
      simp only [List.mem_cons, List.mem_singleton, List.not_mem_nil, or_false] at ho
      apply format_root_block_tail _ _ l0 l1 o _ 0 _
      · rcases ho with h | h | h <;> omega
      · rcases ho with h | h | h <;> omega
    unfold entryAt
    rw [if_pos hz]

theorem rdir_format (prior : FSState) (t1 t2 : Int) (d : Int)
    (h : RDir (FormatDisk prior t1 t2).1 d) : d = ROOT_DIR_BLOCK := by
  obtain ⟨_, _, hroot, _⟩ := format_facts prior t1 t2
  have hsl := (dirBlock_entries (FormatDisk prior t1 t2).1 ROOT_DIR_BLOCK _ _ _ _
    (mkName_length _) (mkName_length _)
    (show (mkName [46]).getD 0 0 ≠ 0 by decide) (show (mkName [46, 46]).getD 0 0 ≠ 0 by decide)
    (deserialize_entryBytes _ (mkName_length _)) (deserialize_entryBytes _ (mkName_length _))
    hroot).2.2
  induction h with
  | root => rfl
  | sub d o e _ ho he _ ih =>
    rw [ih, hsl o ho] at he
    cases he

/-- The state `FormatDisk` leaves has the shape `Tree`. -/
theorem tree_format (prior : FSState) (t1 t2 : Int) : Tree (FormatDisk prior t1 t2).1 := by
  obtain ⟨hwf, hfat, hroot, _⟩ := format_facts prior t1 t2
  obtain ⟨hs0, hs1, hsl⟩ := dirBlock_entries (FormatDisk prior t1 t2).1 ROOT_DIR_BLOCK _ _ _ _
    (mkName_length _) (mkName_length _)
    (show (mkName [46]).getD 0 0 ≠ 0 by decide) (show (mkName [46, 46]).getD 0 0 ≠ 0 by decide)
    (deserialize_entryBytes _ (mkName_length _)) (deserialize_entryBytes _ (mkName_length _))
    hroot
  have hno : ∀ d o e, ¬ Owned (FormatDisk prior t1 t2).1 d o e := by
    intro d o e ho
    have hd := rdir_format prior t1 t2 d ho.1
    have h3 := ho.2.2
    rw [hd, hsl o ho.2.1] at h3
    cases h3
  have hfroot : fatAt (FormatDisk prior t1 t2).1 ROOT_DIR_BLOCK = FAT_EOF := by
    unfold fatAt
    rw [hfat]
    exact getD_set_self _ _ _ _ (by rw [List.length_replicate]; decide)
  refine ⟨hwf, fatOK_format prior t1 t2, ?_, ?_, ?_, ?_, ?_, ?_, ?_⟩
  · intro d hd
    rw [rdir_format prior t1 t2 d hd]
    refine ⟨by decide, by decide, hfroot, ⟨_, hs0, ?_, ?_, ?_⟩, ⟨_, hs1, ?_, ?_, Or.inl ⟨rfl, ?_⟩⟩⟩
    · show nameOf (mkName [46]) = some [46]
      decide
    · rfl
    · rfl
    · show nameOf (mkName [46, 46]) = some [46, 46]
      decide
    · rfl
    · rfl
  · intro d o e ho
    exact absurd ho (hno d o e)
  · intro d o1 o2 e1 e2 h1
    exact absurd h1 (hno d o1 e1)
  · intro d1 o1 e1 d2 o2 e2 b h1
    exact absurd h1 (hno d1 o1 e1)
  · intro d o e ho
    exact absurd ho (hno d o e)
  · intro d o e ho
    exact absurd ho (hno d o e)
  · intro b h0 h1 hne
    left
    by_contra hb
    apply hne
    unfold fatAt
    rw [hfat, getD_set_ne _ _ _ _ _ (by
      intro h
      apply hb
      have : b.toNat = 1 := h.symm
      show b = 1
      omega)]
    rw [List.getD_eq_getElem?_getD, List.getElem?_replicate]
    split <;> rfl

theorem entryAt_slot_congr (s t : FSState) (d : Int) (o : Nat)
    (h : slotData (blockAt t d) o = slotData (blockAt s d) o) :
    entryAt t d o = entryAt s d o := by
  unfold entryAt
  rw [← slotData_getD_zero (blockAt t d) o, ← slotData_getD_zero (blockAt s d) o, h]

theorem deserialize_name (data : List Nat) (e : DirectoryEntry)
    (h : DeserializeEntry data = .ok e) : e.Name = data.take MAX_FILENAME_LEN := by
  unfold DeserializeEntry at h
  split at h
  · cases h
  · injection h with h
    rw [← h]

theorem entryAt_slotName (s : FSState) (d : Int) (o : Nat) (e : DirectoryEntry)
    (h : entryAt s d o = some e) :
    (blockAt s d).getD o 0 ≠ 0 ∧ slotName (blockAt s d) o = nameOf e.Name := by
  obtain ⟨h1, h2⟩ := (entryAt_some s d o e).mp h
  exact ⟨h1, by rw [slotName_slotData, deserialize_name _ e h2]⟩

theorem entryAt_name_length (s : FSState) (hwf : s.WF) (d : Int) (h0 : 0 ≤ d)
    (h1 : d < (TOTAL_BLOCKS : Int)) (o : Nat) (ho : o ∈ slotOffsets) (e : DirectoryEntry)
    (h : entryAt s d o = some e) : e.Name.length = MAX_FILENAME_LEN := by
  obtain ⟨_, h2⟩ := (entryAt_some s d o e).mp h
  rw [deserialize_name _ e h2]
  unfold slotData
  have hl := blockAt_length s hwf d h0 h1
  have hs := (slotOffsets_sep o ho o ho).1
  simp only [List.length_take, List.length_drop, hl]
  simp only [DIRECTORY_ENTRY_SIZE, BLOCK_SIZE, MAX_FILENAME_LEN] at hs ⊢
  omega

theorem tree_dir_block (s : FSState) (hT : Tree s) (d : Int) (hd : RDir s d) :
    0 ≤ d ∧ d < (TOTAL_BLOCKS : Int) ∧ fatAt s d = FAT_EOF ∧
      (blockAt s d).length = BLOCK_SIZE := by
  obtain ⟨h0, h1, hf, _⟩ := hT.dir d hd
  exact ⟨h0, h1, hf, blockAt_length s hT.wf d h0 h1⟩

/-- Every entry listed in a directory of the tree has a zero-terminated name. -/
theorem tree_listing_named (s : FSState) (hT : Tree s) (d : Int) (hd : RDir s d) :
    ∀ e ∈ scanSlots (blockAt s d) slotOffsets, ∃ nm, nameOf e.Name = some nm := by
  intro e he
  rcases tree_listed s hT d hd _ (tree_listing s hT d hd) e he with
    ⟨_, h, _⟩ | ⟨_, h, _⟩ | ⟨off, ho⟩
  · exact ⟨_, h⟩
  · exact ⟨_, h⟩
  · obtain ⟨nm, h, _⟩ := hT.entry d off e ho
    exact ⟨nm, h⟩

/-- A name that no listed entry of a directory of the tree bears is not "." or "..", and no
entry of the directory bears it. -/
theorem tree_fresh_name (s : FSState) (hT : Tree s) (d : Int) (hd : RDir s d) (n : List Nat)
    (h : otherNames n (scanSlots (blockAt s d) slotOffsets)) :
    n ≠ [46] ∧ n ≠ [46, 46] ∧
      ∀ o ∈ slotOffsets, ∀ e, entryAt s d o = some e → nameOf e.Name ≠ some n := by
  have hall : ∀ o ∈ slotOffsets, ∀ e, entryAt s d o = some e → nameOf e.Name ≠ some n := by
    intro o ho e he hn
    obtain ⟨nm, h1, h2⟩ := h e ((mem_listing s d e).mpr ⟨o, ho, he⟩)
    rw [h1] at hn
    injection hn with hn
    exact h2 hn
  obtain ⟨_, _, _, ⟨e0, he0, hn0, _⟩, ⟨e1, he1, hn1, _⟩⟩ := hT.dir d hd
  refine ⟨?_, ?_, hall⟩
  · intro hn
    exact hall 0 (by decide) e0 he0 (by rw [hn0, hn])
  · intro hn
    exact hall 49 (by decide) e1 he1 (by rw [hn1, hn])

/-- The first free slot of a directory of the tree lies behind "." and "..". -/
theorem tree_free_slot (s : FSState) (hT : Tree s) (d : Int) (hd : RDir s d) (off : Nat)
    (h : firstFreeSlot (blockAt s d) slotOffsets = some off) :
    off ∈ ownSlots ∧ entryAt s d off = none := by
  obtain ⟨pre, post, hsp, hz, _, _⟩ := firstFreeSlot_some _ _ _ h
  rw [slotData_getD_zero] at hz
  have hmem := firstFreeSlot_mem _ _ _ h
  obtain ⟨_, _, _, ⟨e0, he0, _⟩, ⟨e1, he1, _⟩⟩ := hT.dir d hd
  have hnone : entryAt s d off = none := by
    unfold entryAt
    rw [if_pos hz]
  refine ⟨?_, hnone⟩
  rcases slotOffsets_cases off hmem with h0 | h0 | h0
  · rw [h0, he0] at hnone
    cases hnone
  · rw [h0, he1] at hnone
    cases hnone
  · exact h0

/-- An entry is added, in the first free slot of a directory of the tree, with a free block as
its chain; when it is a directory entry the block holds "." and "..". -/
theorem tree_add (s t : FSState) (p b : Int) (off : Nat) (e r : DirectoryEntry) (n : List Nat)
    (t1 t2 : Int) (hT : Tree s) (hp : RDir s p) (hb0 : 0 ≤ b) (hb1 : b < (TOTAL_BLOCKS : Int))
    (hbf : fatAt s b = FAT_FREE)
    (hoff : firstFreeSlot (blockAt s p) slotOffsets = some off)
    (hn : otherNames n (scanSlots (blockAt s p) slotOffsets))
    (hlen : e.Name.length = MAX_FILENAME_LEN) (hname : nameOf e.Name = some n)
    (hhead : e.Name.getD 0 0 ≠ 0) (hde : DeserializeEntry (entryBytes e) = .ok r)
    (hrn : r.Name = e.Name) (hrb : r.StartBlock = b)
    (hwf : t.WF) (hfat : t.FAT = (setFat s b FAT_EOF).FAT)
    (hblkp : blockAt t p = copyAt (blockAt s p) off (entryBytes e))
    (hblk : ∀ d : Int, 0 ≤ d → d ≠ p → d ≠ b → blockAt t d = blockAt s d)
    (hdir : r.EntryType = TYPE_DIRECTORY → blockAt t b = newDirBlock b p t1 t2) :
    Tree t := by
  have hEF : FAT_EOF ≠ FAT_FREE := by decide
  obtain ⟨hp0, hp1, hpf, hpl⟩ := tree_dir_block s hT p hp
  obtain ⟨hown, hnone⟩ := tree_free_slot s hT p hp off hoff
  obtain ⟨hn1, hn2, hfresh⟩ := tree_fresh_name s hT p hp n hn
  have hoffs := (ownSlots_sub off hown).1
  have hbl := entryBytes_length e hlen
  have hsz := (slotOffsets_sep off hoffs off hoffs).1
  have hF : ∀ y, fatAt t y = fatAt (setFat s b FAT_EOF) y := fatAt_congr _ t hfat
  have hFb : fatAt t b = FAT_EOF := by
    rw [hF, fatAt_setFat_self s b FAT_EOF (WF_fatAt_lt s hT.wf b hb1)]
  have hFo : ∀ y : Int, 0 ≤ y → y ≠ b → fatAt t y = fatAt s y := by
    intro y hy hne
    rw [hF, fatAt_setFat_keep s b y FAT_EOF hb0 hy (fun h => hne h.symm)]
  have hnew : entryAt t p off = some r := by
    rw [entryAt_some, hblkp, ← slotData_getD_zero,
      slotData_copyAt_same _ _ _ hbl (by rw [hpl]; exact hsz),
      entryBytes_head e (name_ne_nil e hlen)]
    exact ⟨hhead, hde⟩
  have hchain : chainOf t walkFuel r.StartBlock = [b] := by
    rw [hrb]
    exact chainOf_single t b hb0 hb1 hFb
  apply tree_replace s t p off none (some r) hT hwf
    (fatOK_congr _ t hfat (fatOK_setFat_sentinel s b FAT_EOF hT.fat (Or.inl rfl))) hp hown hnone
    hnew
  · intro d hd o ho hne
    obtain ⟨hd0, hd1, hdf, hdl⟩ := tree_dir_block s hT d hd
    by_cases hdp : d = p
    · rcases hne with h | h
      · exact absurd hdp h
      · apply entryAt_slot_congr
        rw [hdp, hblkp]
        apply slotData_copyAt_other _ _ _ _ hbl (by rw [hpl]; exact hsz)
        rcases (slotOffsets_sep off hoffs o ho).2 with h2 | h2 | h2
        · exact absurd h2.symm h
        · exact Or.inr h2
        · exact Or.inl h2
    · have hdb : d ≠ b := by
        intro h
        rw [h, hbf] at hdf
        exact hEF hdf.symm
      exact entryAt_congr s t d (hblk d hd0 hdp hdb) o
  · intro y hy _ hyn
    apply hFo y hy
    intro h
    apply hyn
    show y ∈ chainOf t walkFuel r.StartBlock
    rw [hchain, h]
    exact List.mem_singleton.mpr rfl
  · intro y hy
    exact absurd hy (List.not_mem_nil _)
  · intro y hy
    have hy2 : y ∈ chainOf t walkFuel r.StartBlock := hy
    rw [hchain] at hy2
    rw [List.mem_singleton.mp hy2, hFb]
    exact ⟨hEF, Or.inl hbf⟩
  · intro e2 he2
    injection he2 with he2
    subst he2
    refine ⟨n, by rw [hrn]; exact hname, hn1, hn2, ?_⟩
    intro o ho _ e3 he3
    exact hfresh o (ownSlots_sub o ho).1 e3 he3
  · intro e2 he2
    cases he2
  · intro e2 he2 ht
    injection he2 with he2
    subst he2
    have hblkb := hdir ht
    obtain ⟨hs0, hs1, hsl⟩ := dirBlock_entries t b _ _ _ _
      (mkName_length _) (mkName_length _)
      (show (mkName [46]).getD 0 0 ≠ 0 by decide)
      (show (mkName [46, 46]).getD 0 0 ≠ 0 by decide)
      (deserialize_new_entry (mkName [46]) TYPE_DIRECTORY b (2 * DIRECTORY_ENTRY_SIZE) t1
        (mkName_length _) (by decide) ⟨hb0, hb1⟩ (by decide))
      (deserialize_new_entry (mkName [46, 46]) TYPE_DIRECTORY p 0 t2
        (mkName_length _) (by decide) ⟨hp0, hp1⟩ (by decide))
      hblkb
    rw [hrb]
    refine ⟨hb0, hb1, hFb, ⟨_, hs0, ?_, rfl, rfl⟩, ⟨_, hs1, ?_, rfl, rfl⟩, hsl⟩
    · show nameOf (mkName [46]) = some [46]
      decide
    · show nameOf (mkName [46, 46]) = some [46, 46]
      decide

/-- `CreateDirectory` in a one-block directory without a free slot: the block handed out by
`findFreeBlock` is filled and released again. -/
theorem createDirectory_full (s : FSState) (hwf : s.WF) (p b : Int) (n : List Nat)
    (t1 t2 t3 : Int) (L : List DirectoryEntry) (hp0 : 0 ≤ p) (hp1 : p < (TOTAL_BLOCKS : Int))
    (hpf : fatAt s p = FAT_EOF)
    (hslot : firstFreeSlot (blockAt s p) slotOffsets = none)
    (hn0 : n.length ≠ 0) (hn1 : n.length ≤ MAX_FILENAME_LEN)
    (hl : ListEntries s p = .ok L) (hfresh : otherNames n L)
    (hfb : findFreeBlock s = .ok b) :
    CreateDirectory s p n t1 t2 t3 =
      (setFat (setBlock (setFat s b FAT_EOF) b (newDirBlock b p t1 t2)) b FAT_FREE,
        .err .directoryFull) := by
  have hEF : FAT_EOF ≠ FAT_FREE := by decide
  obtain ⟨hb0, hb1, hbf, _⟩ := findFreeBlock_ok s b hfb
  have hne : b ≠ p := by
    intro h
    rw [h, hpf] at hbf
    exact hEF hbf
  have hnt := not_endsWalk p (inRange_not_endsWalk p hp0 hp1)
  have hprep := createDirectory_prepared s hwf b p t1 t2 hb0 hb1
  have hfp : fatAt (setBlock (setFat s b FAT_EOF) b (newDirBlock b p t1 t2)) p = FAT_EOF := by
    rw [fatAt_setBlock, fatAt_setFat_ne _ _ _ _ (toNat_ne hb0 hp0 hne)]
    exact hpf
  have hbp : blockAt (setBlock (setFat s b FAT_EOF) b (newDirBlock b p t1 t2)) p
      = blockAt s p := by
    rw [blockAt_setBlock_ne _ _ _ _ (toNat_ne hb0 hp0 hne)]
    rfl
  have hadd : addEntryToDirectory (setBlock (setFat s b FAT_EOF) b (newDirBlock b p t1 t2)) p
      ⟨mkName n, TYPE_DIRECTORY, b, 2 * DIRECTORY_ENTRY_SIZE, t3⟩
      = (setBlock (setFat s b FAT_EOF) b (newDirBlock b p t1 t2), .err .directoryFull) := by
    unfold addEntryToDirectory
    rw [if_neg (by
      rintro (h | h | h)
      · omega
      · omega
      · rw [hfp] at h
        exact hEF h), serialize_eq _ (mkName_length n)]
    dsimp only
    have hbl : (entryBytes
        ⟨mkName n, TYPE_DIRECTORY, b, 2 * DIRECTORY_ENTRY_SIZE, t3⟩).length
        = DIRECTORY_ENTRY_SIZE :=
      entryBytes_length ⟨mkName n, TYPE_DIRECTORY, b, 2 * DIRECTORY_ENTRY_SIZE, t3⟩
        (mkName_length n)
    rw [if_neg (not_not.mpr hbl), walkFuel_eq]
    unfold addLoop
    rw [if_neg hnt.1, if_neg hnt.2.1, hbp, hslot]
    dsimp only
    rw [if_pos hfp]
  unfold CreateDirectory
  rw [if_neg hn0, if_neg (by omega)]
  simp only [hl, nameTaken_of_other n L hfresh, hfb]
  rw [hprep, hadd]

/-- `CreateFile` on a directory of the tree keeps the shape `Tree`. -/
theorem tree_createFile (s : FSState) (p : Int) (n : List Nat) (now : Int) (hT : Tree s)
    (hp : RDir s p) (hn : nameOK n) : Tree (CreateFile s p n now).1 := by
  obtain ⟨hp0, hp1, hpf, hpl⟩ := tree_dir_block s hT p hp
  have hEF : FAT_EOF ≠ FAT_FREE := by decide
  by_cases hn0 : n.length = 0
  · unfold CreateFile
    rw [if_pos hn0]
    exact hT
  by_cases hn1 : n.length > MAX_FILENAME_LEN
  · unfold CreateFile
    rw [if_neg hn0, if_pos hn1]
    exact hT
  have hlt : n.length < MAX_FILENAME_LEN := by
    have := hn.2
    omega
  have hl := tree_listing s hT p hp
  rcases nameTaken_total n _ (tree_listing_named s hT p hp) with htaken | ⟨htaken, hother⟩
  · unfold CreateFile
    rw [if_neg hn0, if_neg hn1]
    simp only [hl, htaken]
    exact hT
  rcases findFreeBlock_cases s with ⟨b, hfb⟩ | hfb
  swap
  · unfold CreateFile
    rw [if_neg hn0, if_neg hn1]
    simp only [hl, htaken, hfb]
    exact hT
  obtain ⟨hb0, hb1, hbf, _⟩ := findFreeBlock_ok s b hfb
  have hne : b ≠ p := by
    intro h
    rw [h, hpf] at hbf
    exact hEF hbf
  rcases option_cases (firstFreeSlot (blockAt s p) slotOffsets) with hslot | ⟨off, hslot⟩
  · have hfull := (create_in_full_directory s p n 0 hT.wf
      ⟨inRange_not_endsWalk p hp0 hp1, by
        show endsWalk (fatAt s p)
        rw [hpf]
        exact Or.inl rfl⟩ hpf
      (by
        intro y hy
        rw [chainOf, if_neg (inRange_not_endsWalk p hp0 hp1)] at hy
        have hyp : y = p := by
          rcases List.mem_cons.mp hy with h | h
          · exact h
          · simp [chainOf] at h
        rw [hyp]
        exact firstFreeSlot_none _ _ hslot)
      hn0 (by omega)
      (by
        intro entries he
        rw [hl] at he
        injection he with he
        rw [← he]
        exact hother)
      ⟨b, hb0, hb1, hbf⟩ now 0 0 0).1
    rw [hfull]
    exact hT
  · rw [createFile_succeeds s p n now _ b off hn0 hlt hl hother hfb hp0 hp1
      (by rw [hpf]; exact hEF) hslot]
    apply tree_add s _ p b off ⟨mkName n, TYPE_FILE, b, 0, now⟩ _ n 0 0 hT hp hb0 hb1 hbf hslot
      hother (mkName_length n) (nameOf_mkName n hlt hn.1)
      (mkName_head n hn0 (by omega) hn.1)
      (deserialize_new_entry (mkName n) TYPE_FILE b 0 now (mkName_length n) (by decide)
        ⟨hb0, hb1⟩ (by decide)) rfl rfl
    · exact WF_setBlock _ _ _ (WF_setFat _ _ _ hT.wf) (by rw [copyAt_length, hpl])
    · rfl
    · exact blockAt_setBlock_self _ _ _ (WF_blockAt_lt _ (WF_setFat _ _ _ hT.wf) p hp1)
    · intro d hd hdp _
      rw [blockAt_setBlock_ne _ _ _ _ (toNat_ne hp0 hd (fun h => hdp h.symm))]
      rfl
    · intro h
      cases h

/-- `CreateDirectory` on a directory of the tree keeps the shape `Tree`. -/
theorem tree_createDirectory (s : FSState) (p : Int) (n : List Nat) (t1 t2 t3 : Int)
    (hT : Tree s) (hp : RDir s p) (hn : nameOK n) : Tree (CreateDirectory s p n t1 t2 t3).1 := by
  obtain ⟨hp0, hp1, hpf, hpl⟩ := tree_dir_block s hT p hp
  have hEF : FAT_EOF ≠ FAT_FREE := by decide
  by_cases hn0 : n.length = 0
  · unfold CreateDirectory
    rw [if_pos hn0]
    exact hT
  by_cases hn1 : n.length > MAX_FILENAME_LEN
  · unfold CreateDirectory
    rw [if_neg hn0, if_pos hn1]
    exact hT
  have hlt : n.length < MAX_FILENAME_LEN := by
    have := hn.2
    omega
  have hl := tree_listing s hT p hp
  rcases nameTaken_total n _ (tree_listing_named s hT p hp) with htaken | ⟨htaken, hother⟩
  · unfold CreateDirectory
    rw [if_neg hn0, if_neg hn1]
    simp only [hl, htaken]
    exact hT
  rcases findFreeBlock_cases s with ⟨b, hfb⟩ | hfb
  swap
  · unfold CreateDirectory
    rw [if_neg hn0, if_neg hn1]
    simp only [hl, htaken, hfb]
    exact hT
  obtain ⟨hb0, hb1, hbf, _⟩ := findFreeBlock_ok s b hfb
  have hne : b ≠ p := by
    intro h
    rw [h, hpf] at hbf
    exact hEF hbf
  have hwf2 : (setBlock (setFat s b FAT_EOF) b (newDirBlock b p t1 t2)).WF :=
    WF_setBlock _ _ _ (WF_setFat _ _ _ hT.wf) (newDirBlock_length b p t1 t2)
  rcases option_cases (firstFreeSlot (blockAt s p) slotOffsets) with hslot | ⟨off, hslot⟩
  · rw [createDirectory_full s hT.wf p b n t1 t2 t3 _ hp0 hp1 hpf hslot hn0 (by omega) hl hother
      hfb]
    apply tree_congr s _ hT (WF_setFat _ _ _ hwf2)
      (setFat_setFat_free s hT.wf b hb1 hbf FAT_EOF)
    intro d hd hdf
    have hdb : b ≠ d := by
      intro h
      rw [← h] at hdf
      exact hdf hbf
    show blockAt (setBlock (setFat s b FAT_EOF) b (newDirBlock b p t1 t2)) d = blockAt s d
    rw [blockAt_setBlock_ne _ _ _ _ (toNat_ne hb0 hd hdb)]
    rfl
  · rw [createDirectory_succeeds s hT.wf p n t1 t2 t3 _ b off hn0 hlt hl hother hfb hp0 hp1
      (by rw [hpf]; exact hEF) hslot]
    apply tree_add s _ p b off ⟨mkName n, TYPE_DIRECTORY, b, 2 * DIRECTORY_ENTRY_SIZE, t3⟩ _ n
      t1 t2 hT hp hb0 hb1 hbf hslot hother (mkName_length n) (nameOf_mkName n hlt hn.1)
      (mkName_head n hn0 (by omega) hn.1)
      (deserialize_new_entry (mkName n) TYPE_DIRECTORY b (2 * DIRECTORY_ENTRY_SIZE) t3
        (mkName_length n) (by decide) ⟨hb0, hb1⟩ (by decide)) rfl rfl
    · exact WF_setBlock _ _ _ hwf2 (by rw [copyAt_length, hpl])
    · rfl
    · exact blockAt_setBlock_self _ _ _ (WF_blockAt_lt _ hwf2 p hp1)
    · intro d hd hdp hdb
      rw [blockAt_setBlock_ne _ _ _ _ (toNat_ne hp0 hd (fun h => hdp h.symm)),
        blockAt_setBlock_ne _ _ _ _ (toNat_ne hb0 hd (fun h => hdb h.symm))]
      rfl
    · intro _
      rw [blockAt_setBlock_ne _ _ _ _ (toNat_ne hp0 hb0 (fun h => hne h.symm))]
      exact blockAt_setBlock_self _ _ _ (WF_blockAt_lt _ (WF_setFat _ _ _ hT.wf) b hb1)

theorem findEntry_total (n : List Nat) (L : List DirectoryEntry)
    (hall : ∀ e ∈ L, ∃ nm, nameOf e.Name = some nm) :
    findEntry n L = .ok none ∨
      ∃ e, e ∈ L ∧ nameOf e.Name = some n ∧ findEntry n L = .ok (some e) := by
  induction L with
  | nil => exact Or.inl rfl
  | cons x L ih =>
    obtain ⟨nm, hnm⟩ := hall x (List.mem_cons_self _ _)
    rw [findEntry, hnm]
    dsimp only
    by_cases h : nm = n
    · rw [if_pos h]
      exact Or.inr ⟨x, List.mem_cons_self _ _, by rw [hnm, h], rfl⟩
    · rw [if_neg h]
      rcases ih (fun e he => hall e (List.mem_cons_of_mem _ he)) with h1 | ⟨e, he, hn, hf⟩
      · exact Or.inl h1
      · exact Or.inr ⟨e, List.mem_cons_of_mem _ he, hn, hf⟩

/-- In a directory of the tree the slot of the entry named `n` is the only one that bears
the name: every other slot is free or holds an entry with another zero-terminated name. -/
theorem tree_slot_other (s : FSState) (hT : Tree s) (p : Int) (off : Nat) (e : DirectoryEntry)
    (n : List Nat) (ho : Owned s p off e) (hn : nameOf e.Name = some n) :
    slotNamed (blockAt s p) n off ∧
      ∀ o ∈ slotOffsets, o ≠ off → slotOther (blockAt s p) n o := by
  obtain ⟨hp0, hp1, _, _⟩ := tree_dir_block s hT p ho.1
  obtain ⟨_, _, _, ⟨e0, he0, hn0, _⟩, ⟨e1, he1, hn1, _⟩⟩ := hT.dir p ho.1
  obtain ⟨nm, hnm, hd1, hd2⟩ := hT.entry p off e ho
  have hnn : nm = n := by
    rw [hnm] at hn
    injection hn
  rw [hnn] at hd1 hd2
  have hs := entryAt_slotName s p off e ho.2.2
  refine ⟨⟨hs.1, by rw [hs.2, hn]⟩, ?_⟩
  intro o hoo hne
  have hlive : ∀ e2 nm2, entryAt s p o = some e2 → nameOf e2.Name = some nm2 → nm2 ≠ n →
      slotOther (blockAt s p) n o := by
    intro e2 nm2 he2 hn2 hne2
    have h2 := entryAt_slotName s p o e2 he2
    exact Or.inr ⟨h2.1, nm2, by rw [h2.2, hn2], hne2⟩
  rcases slotOffsets_cases o hoo with h | h | h
  · rw [h]
    rw [h] at hlive
    exact hlive e0 [46] he0 hn0 (fun h => hd1 h.symm)
  · rw [h]
    rw [h] at hlive
    exact hlive e1 [46, 46] he1 hn1 (fun h => hd2 h.symm)
  · rcases option_cases (entryAt s p o) with hq | ⟨e2, hq⟩
    · exact Or.inl ((entryAt_none s p o hT.wf hp0 hp1 hoo).mp hq)
    · obtain ⟨nm2, hnm2, _, _⟩ := hT.entry p o e2 ⟨ho.1, h, hq⟩
      apply hlive e2 nm2 hq hnm2
      intro h2
      apply hne
      exact hT.names p o off e2 e ⟨ho.1, h, hq⟩ ho (by rw [hnm2, hn, h2])

/-- In a state whose walks end, a `freeBlockChain` that does not succeed changes nothing. -/
theorem freeBlockChain_not_ok (s : FSState) (hfat : FatOK s) (start : Int)
    (h : (freeBlockChain s start).2 ≠ .ok ()) : (freeBlockChain s start).1 = s := by
  by_cases hr : start < 0 ∨ start ≥ (TOTAL_BLOCKS : Int)
  · unfold freeBlockChain
    rw [if_pos hr]
    split <;> rfl
  · exfalso
    apply h
    obtain ⟨k, hk, hend⟩ := hfat.2 start (by omega) (by omega)
    exact freeBlockChain_ok_of_endsIn s k start hk hend

/-- The entry in a slot of a directory of the tree is removed: its chain is released and the
first byte of the slot is set to zero, as `DeleteEntry` does after its checks. -/
theorem tree_remove (s s1 : FSState) (p : Int) (off : Nat) (e : DirectoryEntry) (n : List Nat)
    (hT : Tree s) (ho : Owned s p off e) (hn : nameOf e.Name = some n)
    (hf : freeBlockChain s e.StartBlock = (s1, .ok ()))
    (hleaf : e.EntryType = TYPE_DIRECTORY → ∀ o ∈ ownSlots, entryAt s e.StartBlock o = none)
    (hpc : p ∉ chainOf s walkFuel e.StartBlock) :
    finishDelete s1 p n = (setBlock s1 p ((blockAt s p).set off 0), .ok ()) ∧
      (FatOK (setBlock s1 p ((blockAt s p).set off 0)) →
        Tree (setBlock s1 p ((blockAt s p).set off 0))) := by
  have hEF : FAT_EOF ≠ FAT_FREE := by decide
  obtain ⟨hp0, hp1, hpf, hpl⟩ := tree_dir_block s hT p ho.1
  have hoffs := (ownSlots_sub off ho.2.1).1
  have hs1 : s1 = (freeBlockChain s e.StartBlock).1 := by rw [hf]
  have hwf1 : s1.WF := by
    rw [hs1]
    exact freeBlockChain_WF s _ hT.wf
  have hdisk : ∀ d, blockAt s1 d = blockAt s d := by
    intro d
    rw [hs1]
    exact blockAt_congr s _ (freeBlockChain_Disk s _) d
  have hframe : ∀ q : Int, 0 ≤ q → q ∉ chainOf s walkFuel e.StartBlock →
      fatAt s1 q = fatAt s q := by
    intro q hq hqc
    rw [hs1]
    exact freeBlockChain_frame s _ q hq hqc
  have hfreed := freeBlockChain_ok_freed s s1 e.StartBlock hT.wf hf
  obtain ⟨hnamed, hother⟩ := tree_slot_other s hT p off e n ho hn
  have hpf1 : fatAt s1 p = FAT_EOF := by
    rw [hframe p hp0 hpc]
    exact hpf
  have hnt := inRange_not_endsWalk p hp0 hp1
  have hinv : invalidateEntryInParent s1 p n
      = (setBlock s1 p ((blockAt s p).set off 0), .ok ()) := by
    unfold invalidateEntryInParent
    rw [if_neg (by
      rintro (h | h | h)
      · omega
      · omega
      · rw [hpf1] at h
        exact hEF h)]
    have := (invalidateLoop_first s1 hwf1 n 0 off p walkFuel (by decide)
      (by
        intro j hj
        have hj0 : j = 0 := by omega
        rw [hj0]
        exact hnt)
      (by
        intro j hj
        omega)
      hoffs
      (by
        intro o hoo hlt
        show slotOther (blockAt s1 p) n o
        rw [hdisk]
        exact hother o hoo (by omega))).1 (by
        show slotNamed (blockAt s1 p) n off
        rw [hdisk]
        exact hnamed)
    rw [this]
    show (setBlock s1 p ((blockAt s1 p).set off 0), Res.ok ()) = _
    rw [hdisk]
  refine ⟨by unfold finishDelete; rw [hinv], ?_⟩
  intro hfat
  have hwft : (setBlock s1 p ((blockAt s p).set off 0)).WF :=
    WF_setBlock _ _ _ hwf1 (by rw [List.length_set, hpl])
  have hbt : blockAt (setBlock s1 p ((blockAt s p).set off 0)) p = (blockAt s p).set off 0 :=
    blockAt_setBlock_self _ _ _ (WF_blockAt_lt _ hwf1 p hp1)
  have hlt : off < (blockAt s p).length := by
    have := (slotOffsets_sep off hoffs off hoffs).1
    rw [hpl]
    unfold DIRECTORY_ENTRY_SIZE at this
    omega
  apply tree_replace s _ p off (some e) none hT hwft hfat ho.1 ho.2.1 ho.2.2
  · unfold entryAt
    rw [hbt, if_pos (by
      rw [← slotData_getD_zero]
      exact slotData_set_head _ _ hlt)]
  · intro d hd o hoo hne
    obtain ⟨hd0, _, _, _⟩ := tree_dir_block s hT d hd
    by_cases hdp : d = p
    · rcases hne with h | h
      · exact absurd hdp h
      · apply entryAt_slot_congr
        rw [hdp, hbt]
        apply slotData_set_other
        rcases (slotOffsets_sep off hoffs o hoo).2 with h2 | h2 | h2
        · exact absurd h2.symm h
        · exact Or.inr h2
        · exact Or.inl h2
    · apply entryAt_congr
      rw [blockAt_setBlock_ne _ _ _ _ (toNat_ne hp0 hd0 (fun h => hdp h.symm))]
      exact hdisk d
  · intro b hb hbo _
    show fatAt s1 b = fatAt s b
    exact hframe b hb hbo
  · intro b hb _
    show fatAt s1 b = FAT_FREE
    exact hfreed b hb
  · intro b hb
    exact absurd hb (List.not_mem_nil _)
  · intro e2 he2
    cases he2
  · intro e2 he2 ht
    injection he2 with he2
    subst he2
    exact hleaf ht
  · intro e2 he2
    cases he2

/-- `DeleteEntry` on a directory of the tree keeps the shape `Tree`. -/
theorem tree_deleteEntry (s : FSState) (p : Int) (n : List Nat) (hT : Tree s)
    (hp : RDir s p) : Tree (DeleteEntry s p n).1 := by
  have hEF : FAT_EOF ≠ FAT_FREE := by decide
  have hfatT : FatOK (DeleteEntry s p n).1 := fatOK_deleteEntry s p n hT.fat
  obtain ⟨hp0, hp1, hpf, hpl⟩ := tree_dir_block s hT p hp
  by_cases hn0 : n.length = 0
  · unfold DeleteEntry
    rw [if_pos hn0]
    exact hT
  by_cases hdot : n = [46] ∨ n = [46, 46]
  · unfold DeleteEntry
    rw [if_neg hn0, if_pos hdot]
    exact hT
  have hdot2 : n ≠ [46] ∧ n ≠ [46, 46] := by tauto
  have hl := tree_listing s hT p hp
  rcases findEntry_total n _ (tree_listing_named s hT p hp) with hfe | ⟨e, he, hn, hfe⟩
  · unfold DeleteEntry
    rw [if_neg hn0, if_neg hdot]
    simp only [hl, hfe]
    exact hT
  have hown : ∃ off, Owned s p off e := by
    rcases tree_listed s hT p hp _ hl e he with ⟨_, h, _⟩ | ⟨_, h, _⟩ | h
    · rw [h] at hn
      injection hn with hn
      exact absurd hn.symm hdot2.1
    · rw [h] at hn
      injection hn with hn
      exact absurd hn.symm hdot2.2
    · exact h
  obtain ⟨off, ho⟩ := hown
  by_cases htf : e.EntryType = TYPE_FILE
  · by_cases hok : (freeBlockChain s e.StartBlock).2 = .ok ()
    · have hf : freeBlockChain s e.StartBlock = ((freeBlockChain s e.StartBlock).1, .ok ()) :=
        Prod.ext rfl hok
      have hpc : p ∉ chainOf s walkFuel e.StartBlock := by
        intro hpc
        rcases rdir_cases s p hp with hr | ⟨d2, o2, e2, ho2, ht2, hb2⟩
        · rw [hr] at hpc
          exact hT.rootFree p off e ho hpc
        · have hmem : p ∈ chainOf s walkFuel e2.StartBlock := by
            rw [hb2, tree_dir_chain s hT p hp]
            exact List.mem_singleton.mpr rfl
          have hsame := hT.disjoint d2 o2 e2 p off e p ho2 ho hmem hpc
          have h3 := ho2.2.2
          rw [hsame.1, hsame.2, ho.2.2] at h3
          injection h3 with h3
          rw [← h3, htf] at ht2
          cases ht2
      have hrem := tree_remove s _ p off e n hT ho hn hf
        (by
          intro ht
          rw [htf] at ht
          cases ht) hpc
      have hde := deleteEntry_file s _ p n _ e hn0 hdot2 hl hfe htf hf
      rw [hde, hrem.1] at hfatT ⊢
      exact hrem.2 hfatT
    · have hst := freeBlockChain_not_ok s hT.fat e.StartBlock hok
      have : (DeleteEntry s p n).1 = s := by
        unfold DeleteEntry
        rw [if_neg hn0, if_neg hdot]
        simp only [hl, hfe]
        rw [if_pos htf]
        generalize freeBlockChain s e.StartBlock = r at hok hst
        obtain ⟨s1, res⟩ := r
        cases res with
        | ok u => exact absurd rfl hok
        | err x => exact hst
        | panic => exact hst
        | diverge => exact hst
      rw [this]
      exact hT
  by_cases htd : e.EntryType = TYPE_DIRECTORY
  · have hc := owned_rdir s p off e ho htd
    obtain ⟨hc0, hc1, hcf, hcl⟩ := tree_dir_block s hT _ hc
    have hlc := tree_listing s hT _ hc
    have hnr : ¬ (e.StartBlock = FAT_FREE ∨ e.StartBlock = FAT_EOF ∨ e.StartBlock < 0
        ∨ e.StartBlock ≥ (TOTAL_BLOCKS : Int)) := by
      have hnt := not_endsWalk _ (inRange_not_endsWalk _ hc0 hc1)
      rintro (h | h | h | h)
      · exact hnt.1 (Or.inr h)
      · exact hnt.1 (Or.inl h)
      · omega
      · omega
    by_cases hcount : realEntryCount (scanSlots (blockAt s e.StartBlock) slotOffsets) > 0
    · have : (DeleteEntry s p n).1 = s := by
        unfold DeleteEntry
        rw [if_neg hn0, if_neg hdot]
        simp only [hl, hfe]
        rw [if_neg htf, if_pos htd, if_neg hnr]
        simp only [hlc]
        rw [if_pos hcount]
      rw [this]
      exact hT
    · have hleaf : ∀ o ∈ ownSlots, entryAt s e.StartBlock o = none := by
        intro o hoo
        rcases option_cases (entryAt s e.StartBlock o) with hq | ⟨e2, hq⟩
        · exact hq
        · exfalso
          apply hcount
          obtain ⟨nm2, hnm2, h1, h2⟩ := hT.entry _ o e2 ⟨hc, hoo, hq⟩
          apply realEntryCount_pos
          refine ⟨e2, (mem_listing s _ e2).mpr ⟨o, (ownSlots_sub o hoo).1, hq⟩, ?_, ?_⟩
          · unfold safeName
            rw [hnm2]
            exact h1
          · unfold safeName
            rw [hnm2]
            exact h2
      have hf := freeBlockChain_single s e.StartBlock hc0 hc1 (Or.inl hcf)
      have hpc : p ∉ chainOf s walkFuel e.StartBlock := by
        rw [tree_dir_chain s hT _ hc]
        intro hpc
        have hpe := List.mem_singleton.mp hpc
        have := hleaf off ho.2.1
        rw [← hpe, ho.2.2] at this
        cases this
      have hrem := tree_remove s _ p off e n hT ho hn hf (fun _ => hleaf) hpc
      have hde := deleteEntry_emptyDir s _ p n _ _ e hn0 hdot2 hl hfe htd hc0 hc1 hlc
        (by omega) hf
      rw [hde, hrem.1] at hfatT ⊢
      exact hrem.2 hfatT
  · have : (DeleteEntry s p n).1 = s := by
      unfold DeleteEntry
      rw [if_neg hn0, if_neg hdot]
      simp only [hl, hfe]
      rw [if_neg htf, if_neg htd]
    rw [this]
    exact hT

/-- No block of a directory of the tree lies on the chain of a file entry of the tree. -/
theorem tree_file_chain_dir (s : FSState) (hT : Tree s) (p : Int) (off : Nat)
    (f : DirectoryEntry) (ho : Owned s p off f) (hty : f.EntryType = TYPE_FILE) (d : Int)
    (hd : RDir s d) : d ∉ chainOf s walkFuel f.StartBlock := by
  intro hdc
  rcases rdir_cases s d hd with hr | ⟨d2, o2, e2, ho2, ht2, hb2⟩
  · rw [hr] at hdc
    exact hT.rootFree p off f ho hdc
  · have hmem : d ∈ chainOf s walkFuel e2.StartBlock := by
      rw [hb2, tree_dir_chain s hT d hd]
      exact List.mem_singleton.mpr rfl
    have hsame := hT.disjoint d2 o2 e2 p off f d ho2 ho hmem hdc
    have h3 := ho2.2.2
    rw [hsame.1, hsame.2, ho.2.2] at h3
    injection h3 with h3
    rw [← h3, hty] at ht2
    cases ht2

/-- The entry of a file of the tree is replaced, as `WriteToFile` does when it succeeds: the
old chain is released, the blocks `C` (free before, or of the old chain) make the new chain,
and `updateEntryInDirectory` stores the new entry. -/
theorem tree_rewrite (s s2 s3 : FSState) (p : Int) (off : Nat) (f f2 : DirectoryEntry)
    (C : List Int) (hT : Tree s) (ho : Owned s p off f) (hty : f.EntryType = TYPE_FILE)
    (hwf2 : s2.WF)
    (hdisk : ∀ d : Int, 0 ≤ d → fatAt s d ≠ FAT_FREE → d ∉ chainOf s walkFuel f.StartBlock →
      blockAt s2 d = blockAt s d)
    (hkeep : ∀ b : Int, 0 ≤ b → b ∉ chainOf s walkFuel f.StartBlock → b ∉ C →
      fatAt s2 b = fatAt s b)
    (hfree : ∀ b ∈ chainOf s walkFuel f.StartBlock, b ∉ C → fatAt s2 b = FAT_FREE)
    (hnew : ∀ b ∈ C, fatAt s2 b ≠ FAT_FREE ∧
      (fatAt s b = FAT_FREE ∨ b ∈ chainOf s walkFuel f.StartBlock))
    (hC : chainOf s2 walkFuel f2.StartBlock = C)
    (hf2n : f2.Name = f.Name) (hf2t : f2.EntryType = TYPE_FILE)
    (hf2b : f2.StartBlock = FAT_EOF ∨
      (0 ≤ f2.StartBlock ∧ f2.StartBlock < (TOTAL_BLOCKS : Int)))
    (hup : updateEntryInDirectory s2 p f2 = (s3, .ok ()))
    (hfat3 : FatOK s3) : Tree s3 := by
  have hEF : FAT_EOF ≠ FAT_FREE := by decide
  obtain ⟨hp0, hp1, hpf, hpl⟩ := tree_dir_block s hT p ho.1
  have hoffs := (ownSlots_sub off ho.2.1).1
  have hsz := (slotOffsets_sep off hoffs off hoffs).1
  have hdirc := tree_file_chain_dir s hT p off f ho hty
  have hnotC : ∀ d : Int, fatAt s d ≠ FAT_FREE → d ∉ chainOf s walkFuel f.StartBlock →
      d ∉ C := by
    intro d hd hdc hdC
    rcases (hnew d hdC).2 with h | h
    · exact hd h
    · exact hdc h
  have hdirkeep : ∀ d, RDir s d → fatAt s2 d = FAT_EOF ∧ blockAt s2 d = blockAt s d := by
    intro d hd
    obtain ⟨hd0, _, hdf, _⟩ := tree_dir_block s hT d hd
    have hne : fatAt s d ≠ FAT_FREE := by
      rw [hdf]
      exact hEF
    exact ⟨by rw [hkeep d hd0 (hdirc d hd) (hnotC d hne (hdirc d hd))]; exact hdf,
      hdisk d hd0 hne (hdirc d hd)⟩
  obtain ⟨hpf2, hpb2⟩ := hdirkeep p ho.1
  obtain ⟨hlen2, q, off2, nm, hnm, hq, hscan, hs3⟩ := updateEntry_ok_slot s2 s3 p f2 hup
  rw [chainOf_single s2 p hp0 hp1 hpf2] at hq
  have hqp := List.mem_singleton.mp hq
  rw [hqp, hpb2] at hscan hs3
  obtain ⟨hoff2, hz2, old, hdold, hnold⟩ := updateScan_found _ _ _ _ hscan
  rw [slotData_getD_zero] at hz2
  have hold2 : entryAt s p off2 = some old := (entryAt_some s p off2 old).mpr ⟨hz2, hdold⟩
  obtain ⟨nmf, hnmf, hd1, hd2⟩ := hT.entry p off f ho
  have hnn : nmf = nm := by
    rw [hf2n, hnmf] at hnm
    injection hnm
  rw [hnn] at hnmf hd1 hd2
  obtain ⟨_, _, _, ⟨e0, he0, hn0, _⟩, ⟨e1, he1, hn1, _⟩⟩ := hT.dir p ho.1
  have hown2 : off2 ∈ ownSlots := by
    rcases slotOffsets_cases off2 hoff2 with h | h | h
    · rw [h, he0] at hold2
      injection hold2 with hold2
      rw [← hold2, hn0] at hnold
      injection hnold with hnold
      exact absurd hnold.symm hd1
    · rw [h, he1] at hold2
      injection hold2 with hold2
      rw [← hold2, hn1] at hnold
      injection hnold with hnold
      exact absurd hnold.symm hd2
    · exact h
  have hoo : off2 = off :=
    hT.names p off2 off old f ⟨ho.1, hown2, hold2⟩ ho (by rw [hnold, hnmf])
  rw [hoo] at hs3
  have hbl := entryBytes_length f2 hlen2
  have hde := deserialize_entryBytes f2 hlen2
  have hsb : toSigned 4 (toUnsigned 4 f2.StartBlock) = f2.StartBlock := by
    apply toSigned_toUnsigned_4
    rcases hf2b with h | ⟨h0, h1⟩
    · rw [h]
      decide
    · unfold TOTAL_BLOCKS at h1
      omega
  have hwf3 : s3.WF := by
    rw [hs3]
    exact WF_setBlock _ _ _ hwf2 (by rw [copyAt_length, hpl])
  have hb3 : blockAt s3 p = copyAt (blockAt s p) off (entryBytes f2) := by
    rw [hs3]
    exact blockAt_setBlock_self _ _ _ (WF_blockAt_lt _ hwf2 p hp1)
  have hF3 : ∀ b, fatAt s3 b = fatAt s2 b := by
    intro b
    rw [hs3]
    rfl
  have hhead : f2.Name.getD 0 0 ≠ 0 := by
    have h1 := (entryAt_some s p off f).mp ho.2.2
    have h2 := deserialize_name _ f h1.2
    rw [hf2n, h2]
    have h3 : ((slotData (blockAt s p) off).take MAX_FILENAME_LEN).getD 0 0
        = (slotData (blockAt s p) off).getD 0 0 := by
      rw [List.getD_eq_getElem?_getD, List.getD_eq_getElem?_getD, List.getElem?_take]
      rfl
    rw [h3, slotData_getD_zero]
    exact h1.1
  have hnew3 : entryAt s3 p off = some
      { Name := f2.Name, EntryType := toSigned 1 (toUnsigned 1 f2.EntryType),
        StartBlock := toSigned 4 (toUnsigned 4 f2.StartBlock),
        Size := toSigned 8 (toUnsigned 8 f2.Size),
        ModTime := toSigned 8 (toUnsigned 8 f2.ModTime) } := by
    rw [entryAt_some, hb3, ← slotData_getD_zero,
      slotData_copyAt_same _ _ _ hbl (by rw [hpl]; exact hsz),
      entryBytes_head f2 (name_ne_nil f2 hlen2)]
    exact ⟨hhead, hde⟩
  have hC3 : chainOf s3 walkFuel (toSigned 4 (toUnsigned 4 f2.StartBlock)) = C := by
    rw [hsb, hs3, chainOf_setBlock]
    exact hC
  apply tree_replace s s3 p off (some f) _ hT hwf3 hfat3 ho.1 ho.2.1 ho.2.2 hnew3
  · intro d hd o hoo2 hne
    obtain ⟨hd0, _, _, _⟩ := tree_dir_block s hT d hd
    by_cases hdp : d = p
    · rcases hne with h | h
      · exact absurd hdp h
      · apply entryAt_slot_congr
        rw [hdp, hb3]
        apply slotData_copyAt_other _ _ _ _ hbl (by rw [hpl]; exact hsz)
        rcases (slotOffsets_sep off hoffs o hoo2).2 with h2 | h2 | h2
        · exact absurd h2.symm h
        · exact Or.inr h2
        · exact Or.inl h2
    · apply entryAt_congr
      rw [hs3, blockAt_setBlock_ne _ _ _ _ (toNat_ne hp0 hd0 (fun h => hdp h.symm))]
      exact (hdirkeep d hd).2
  · intro b hb hbo hbn
    rw [hF3]
    apply hkeep b hb hbo
    intro hbC
    apply hbn
    show b ∈ chainOf s3 walkFuel (toSigned 4 (toUnsigned 4 f2.StartBlock))
    rw [hC3]
    exact hbC
  · intro b hb hbn
    rw [hF3]
    apply hfree b hb
    intro hbC
    apply hbn
    show b ∈ chainOf s3 walkFuel (toSigned 4 (toUnsigned 4 f2.StartBlock))
    rw [hC3]
    exact hbC
  · intro b hb
    have hb2 : b ∈ chainOf s3 walkFuel (toSigned 4 (toUnsigned 4 f2.StartBlock)) := hb
    rw [hC3] at hb2
    rw [hF3]
    exact hnew b hb2
  · intro e2 he2
    injection he2 with he2
    subst he2
    refine ⟨nm, hnm, hd1, hd2, ?_⟩
    intro o hoo2 hne e3 he3 hn3
    exact hne (hT.names p o off e3 f ⟨ho.1, hoo2, he3⟩ ho (by rw [hn3, hnmf]))
  · intro e2 he2 ht
    injection he2 with he2
    rw [← he2, hty] at ht
    cases ht
  · intro e2 he2 ht
    injection he2 with he2
    subst he2
    have : toSigned 1 (toUnsigned 1 f2.EntryType) = TYPE_DIRECTORY := ht
    rw [hf2t] at this
    have hne : toSigned 1 (toUnsigned 1 TYPE_FILE) ≠ TYPE_DIRECTORY := by decide
    exact absurd this hne

/-- `WriteToFile`, given an entry listed in a directory of the tree and succeeding when that
entry is a file, keeps the shape `Tree`. -/
theorem tree_writeToFile (s : FSState) (f : DirectoryEntry) (p : Int) (data : List Nat)
    (now : Int) (hT : Tree s) (hp : RDir s p)
    (hf : f ∈ scanSlots (blockAt s p) slotOffsets)
    (hok : f.EntryType = TYPE_FILE → (WriteToFile s f p data now).2.2 = .ok ()) :
    Tree (WriteToFile s f p data now).1 := by
  by_cases hty : f.EntryType = TYPE_FILE
  swap
  · unfold WriteToFile
    rw [if_pos hty]
    exact hT
  have hfat3 := fatOK_writeToFile s f p data now hT.fat
  have h : WriteToFile s f p data now
      = ((WriteToFile s f p data now).1, (WriteToFile s f p data now).2.1, .ok ()) :=
    Prod.ext rfl (Prod.ext rfl (hok hty))
  generalize (WriteToFile s f p data now).1 = s3 at h hfat3 ⊢
  generalize (WriteToFile s f p data now).2.1 = f2 at h
  have hown : ∃ off, Owned s p off f := by
    rcases tree_listed s hT p hp _ (tree_listing s hT p hp) f hf with
      ⟨_, _, h1, _⟩ | ⟨_, _, h1, _⟩ | h1
    · rw [hty] at h1
      cases h1
    · rw [hty] at h1
      cases h1
    · exact h1
  obtain ⟨off, ho⟩ := hown
  obtain ⟨_, _, hrel, _, hfull⟩ := writeToFile_ok_inv s s3 f f2 p data now h
  have hwf1 := releasedOld_WF s f hT.wf
  have hdisk1 : ∀ d, blockAt (releasedOld s f).1 d = blockAt s d :=
    fun d => blockAt_congr s _ (releasedOld_Disk s f) d
  have hfreed1 := releasedOld_ok_freed s f hT.wf hrel
  by_cases hlen : data.length = 0
  · have hnil : data = [] := List.length_eq_zero.mp hlen
    subst hnil
    obtain ⟨_, _, hf2, hup⟩ := writeToFile_empty_inv s s3 f f2 p now h
    apply tree_rewrite s (releasedOld s f).1 s3 p off f f2 [] hT ho hty hwf1
      (fun d _ _ _ => hdisk1 d)
      (fun b hb hbo _ => releasedOld_frame s f b hb hbo)
      (fun b hb _ => hfreed1 b hb)
      (fun b hb => absurd hb (List.not_mem_nil _))
      _ (by rw [hf2]) (by rw [hf2]; exact hty) (Or.inl (by rw [hf2])) hup hfat3
    rw [hf2, walkFuel_eq, chainOf, if_pos (show endsWalk FAT_EOF from Or.inl rfl)]
  · obtain ⟨s2, blocks, first, halloc, hf2, hup⟩ := hfull hlen
    have e256 : BLOCK_SIZE = 256 := rfl
    obtain ⟨nb, rest, hblocks, hstore, hnodup, _, hfirst, hwf2, hnewfree, hframe⟩ :=
      allocLoop_stores data _ 0 _ s2 [] blocks FAT_EOF FAT_EOF first hwf1 (Or.inl rfl)
        (by rw [e256]; omega) (by rw [e256]; omega) (by rw [e256]; omega) halloc
    rw [if_pos rfl] at hfirst
    rw [Nat.zero_mul, List.drop_zero] at hstore
    rw [List.nil_append] at hblocks
    obtain ⟨_, _, _, hsome⟩ := allocLoop_FAT data _ 0 _ s2 [] FAT_EOF FAT_EOF
      (some (blocks, first)) hwf1 (fun y hy => absurd hy (List.not_mem_nil _)) (Or.inl rfl)
      halloc
    obtain ⟨new, hbn, _, hkeepF⟩ := hsome blocks first rfl
    rw [List.nil_append] at hbn
    rw [← hbn, hblocks] at hkeepF
    obtain ⟨_, hends, hnth, hwalk⟩ := storesData_walk s2 _ nb data hstore
    have hin : ∀ b ∈ nb :: rest, ¬ endsWalk b := by
      intro b hb
      rw [← hwalk (nb :: rest).length (le_refl _)] at hb
      exact chainOf_mem_not_endsWalk _ _ _ _ hb
    have hle : (nb :: rest).length ≤ walkFuel := by
      have := nodup_inRange_length _ hnodup hin
      unfold walkFuel
      omega
    have hstart : f2.StartBlock = nb := by rw [hf2, hfirst]
    have hnbr := not_endsWalk nb (hin nb (List.mem_cons_self _ _))
    apply tree_rewrite s s2 s3 p off f f2 (nb :: rest) hT ho hty hwf2
    · intro d hd hdf hdc
      rw [(hframe d hd (by rw [releasedOld_frame s f d hd hdc]; exact hdf)).1]
      exact hdisk1 d
    · intro b hb hbo hbC
      rw [hkeepF b hb (List.not_mem_nil _) hbC]
      exact releasedOld_frame s f b hb hbo
    · intro b hb hbC
      have hb0 := (not_endsWalk b (chainOf_mem_not_endsWalk s _ _ b hb)).2.2.1
      rw [hkeepF b hb0 (List.not_mem_nil _) hbC]
      exact hfreed1 b hb
    · intro b hb
      refine ⟨?_, ?_⟩
      · apply chain_allocated s2 rest.length nb hends hnth b
        rw [hwalk (rest.length + 1) (le_refl _)]
        exact hb
      · obtain ⟨hbf, hb0⟩ := hnewfree b hb
        by_cases hbc : b ∈ chainOf s walkFuel f.StartBlock
        · exact Or.inr hbc
        · left
          rw [← releasedOld_frame s f b hb0 hbc]
          exact hbf
    · rw [hstart]
      exact hwalk walkFuel hle
    · rw [hf2]
    · rw [hf2]
      exact hty
    · right
      rw [hstart]
      exact hnbr.2.2
    · exact hup
    · exact hfat3

/-- When every DIRECTORY entry that the root lists starts at the root block, the root is the
only directory reachable from the root. -/
theorem reach_root_only (s : FSState) (L : List DirectoryEntry)
    (hL : ListEntries s ROOT_DIR_BLOCK = .ok L)
    (hall : ∀ e ∈ L, e.StartBlock = ROOT_DIR_BLOCK) (d : Int) (h : Reach s d) :
    d = ROOT_DIR_BLOCK := by
  induction h with
  | root => rfl
  | sub d L2 e _ hL2 he _ ih =>
    subst ih
    rw [hL] at hL2
    injection hL2 with hL2
    subst hL2
    exact hall e he

/-- When the root block is not block 0 and every entry that the root lists starts at the root
block, block 0 is not reachable. -/
theorem unreachable_zero (s : FSState) (L : List DirectoryEntry)
    (hL : ListEntries s ROOT_DIR_BLOCK = .ok L)
    (hall : ∀ e ∈ L, e.StartBlock = ROOT_DIR_BLOCK)
    (hroot : (0 : Int) ∉ chainOf s walkFuel ROOT_DIR_BLOCK) : ¬ Reachable s 0 := by
  rintro (h | ⟨d, L2, e, hd, hL2, he, hb⟩)
  · exact hroot h
  · have hd1 := reach_root_only s L hL hall d hd
    subst hd1
    rw [hL] at hL2
    injection hL2 with hL2
    subst hL2
    rw [hall e he] at hb
    exact hroot hb

set_option maxRecDepth 1000000 in
/-- Four runs from `new_filesystem`. (1) After `create_file(0, "x")` (success) block 0 is
allocated and lies on no chain reachable from the root. (2) After `create_file(1, n)` with the
one-byte name `n` = [0] (success) block 0 is allocated and the root lists "." and ".." only.
(3) After `create_file(1, "a")`, `create_directory(1, "d")` and `write_file` of the listed
entry of "a" with the parent block of "d" (EntryNotFound), the root lists "a" with StartBlock
0 and FAT[0] is FREE. (4) After `create_file(1, "a")`, `create_file(1, "b")`,
`delete_entry(1, "a")` and `write_file` of the listed entry of "b" with its parent block 1
(EntryNotFound), the root lists "b" with StartBlock 2 and FAT[2] is FREE. -/
theorem C24_counterexample :
    ((CreateFile (NewFileSystem ⟨[], []⟩ 0 0).1 0 [120] 0).2 = .ok () ∧
      fatAt (runOps (NewFileSystem ⟨[], []⟩ 0 0).1 [.createFile 0 [120] 0]) 0 ≠ FAT_FREE ∧
      ¬ Reachable (runOps (NewFileSystem ⟨[], []⟩ 0 0).1 [.createFile 0 [120] 0]) 0) ∧
    ((CreateFile (NewFileSystem ⟨[], []⟩ 0 0).1 1 [0] 0).2 = .ok () ∧
      fatAt (runOps (NewFileSystem ⟨[], []⟩ 0 0).1 [.createFile 1 [0] 0]) 0 ≠ FAT_FREE ∧
      ¬ Reachable (runOps (NewFileSystem ⟨[], []⟩ 0 0).1 [.createFile 1 [0] 0]) 0) ∧
    (ListEntries (runOps (NewFileSystem ⟨[], []⟩ 0 0).1
        [.createFile 1 [97] 0, .createDirectory 1 [100] 0 0 0]) 1 = .ok
        [⟨mkName [46], TYPE_DIRECTORY, 1, 0, 0⟩, ⟨mkName [46, 46], TYPE_DIRECTORY, 1, 0, 0⟩,
         ⟨mkName [97], TYPE_FILE, 0, 0, 0⟩, ⟨mkName [100], TYPE_DIRECTORY, 2, 98, 0⟩] ∧
      (WriteToFile (runOps (NewFileSystem ⟨[], []⟩ 0 0).1
        [.createFile 1 [97] 0, .createDirectory 1 [100] 0 0 0])
        ⟨mkName [97], TYPE_FILE, 0, 0, 0⟩ 2 [7] 0).2.2 = .err .entryNotFound ∧
      Reachable (runOps (NewFileSystem ⟨[], []⟩ 0 0).1
        [.createFile 1 [97] 0, .createDirectory 1 [100] 0 0 0,
         .writeFile ⟨mkName [97], TYPE_FILE, 0, 0, 0⟩ 2 [7] 0]) 0 ∧
      fatAt (runOps (NewFileSystem ⟨[], []⟩ 0 0).1
        [.createFile 1 [97] 0, .createDirectory 1 [100] 0 0 0,
         .writeFile ⟨mkName [97], TYPE_FILE, 0, 0, 0⟩ 2 [7] 0]) 0 = FAT_FREE) ∧
    (ListEntries (runOps (NewFileSystem ⟨[], []⟩ 0 0).1
        [.createFile 1 [97] 0, .createFile 1 [98] 0, .deleteEntry 1 [97]]) 1 = .ok
        [⟨mkName [46], TYPE_DIRECTORY, 1, 0, 0⟩, ⟨mkName [46, 46], TYPE_DIRECTORY, 1, 0, 0⟩,
         ⟨mkName [98], TYPE_FILE, 2, 0, 0⟩] ∧
      (WriteToFile (runOps (NewFileSystem ⟨[], []⟩ 0 0).1
        [.createFile 1 [97] 0, .createFile 1 [98] 0, .deleteEntry 1 [97]])
        ⟨mkName [98], TYPE_FILE, 2, 0, 0⟩ 1 [7] 0).2.2 = .err .entryNotFound ∧
      Reachable (runOps (NewFileSystem ⟨[], []⟩ 0 0).1
        [.createFile 1 [97] 0, .createFile 1 [98] 0, .deleteEntry 1 [97],
         .writeFile ⟨mkName [98], TYPE_FILE, 2, 0, 0⟩ 1 [7] 0]) 2 ∧
      fatAt (runOps (NewFileSystem ⟨[], []⟩ 0 0).1
        [.createFile 1 [97] 0, .createFile 1 [98] 0, .deleteEntry 1 [97],
         .writeFile ⟨mkName [98], TYPE_FILE, 2, 0, 0⟩ 1 [7] 0]) 2 = FAT_FREE) := by
  refine ⟨⟨by decide, by decide, ?_⟩, ⟨by decide, by decide, ?_⟩,
    ⟨by decide, by decide, ?_, by decide⟩, ⟨by decide, by decide, ?_, by decide⟩⟩
  · exact unreachable_zero _ [⟨mkName [46], TYPE_DIRECTORY, 1, 0, 0⟩,
      ⟨mkName [46, 46], TYPE_DIRECTORY, 1, 0, 0⟩] (by decide) (by decide) (by decide)
  · exact unreachable_zero _ [⟨mkName [46], TYPE_DIRECTORY, 1, 0, 0⟩,
      ⟨mkName [46, 46], TYPE_DIRECTORY, 1, 0, 0⟩] (by decide) (by decide) (by decide)
  · exact Or.inr ⟨ROOT_DIR_BLOCK, [⟨mkName [46], TYPE_DIRECTORY, 1, 0, 0⟩,
        ⟨mkName [46, 46], TYPE_DIRECTORY, 1, 0, 0⟩,
        ⟨mkName [97], TYPE_FILE, 0, 0, 0⟩, ⟨mkName [100], TYPE_DIRECTORY, 2, 98, 0⟩],
      ⟨mkName [97], TYPE_FILE, 0, 0, 0⟩, Reach.root, by decide, by decide, by decide⟩
  · exact Or.inr ⟨ROOT_DIR_BLOCK, [⟨mkName [46], TYPE_DIRECTORY, 1, 0, 0⟩,
        ⟨mkName [46, 46], TYPE_DIRECTORY, 1, 0, 0⟩, ⟨mkName [98], TYPE_FILE, 2, 0, 0⟩],
      ⟨mkName [98], TYPE_FILE, 2, 0, 0⟩, Reach.root, by decide, by decide, by decide⟩

/-- A call made on the tree keeps the shape `Tree`. -/
theorem tree_applyOp (s : FSState) (op : Op) (hT : Tree s) (hon : onTree s op) :
    Tree (applyOp s op) := by
  cases op with
  | newFileSystem t1 t2 =>
    show Tree (NewFileSystem s t1 t2).1
    rw [(newFileSystem_state s t1 t2).1]
    exact tree_format s t1 t2
  | createFile p n now =>
    exact tree_createFile s p n now hT (reach_rdir s hT p hon.1) hon.2
  | createDirectory p n t1 t2 t3 =>
    exact tree_createDirectory s p n t1 t2 t3 hT (reach_rdir s hT p hon.1) hon.2
  | writeFile f p data now =>
    obtain ⟨hp, ⟨L, hL, hf⟩, hok⟩ := hon
    have hp2 := reach_rdir s hT p hp
    rw [tree_listing s hT p hp2] at hL
    injection hL with hL
    rw [← hL] at hf
    exact tree_writeToFile s f p data now hT hp2 hf hok
  | deleteEntry p n =>
    exact tree_deleteEntry s p n hT (reach_rdir s hT p hon)
  | changeDirectory fs target =>
    show Tree (ChangeDirectory s fs target).1
    rw [changeDirectory_state]
    exact hT

theorem tree_runOps (ops : List Op) :
    ∀ s : FSState, Tree s → allOnTree s ops → Tree (runOps s ops) := by
  induction ops with
  | nil =>
    intro s hT _
    exact hT
  | cons op rest ih =>
    intro s hT hon
    exact ih (applyOp s op) (tree_applyOp s op hT hon.1) hon.2

/-- C24 (as amended): after `new_filesystem` and any sequence of calls made on the tree (the
parent block of every call is the start block of a directory reachable from the root; created
names have no zero byte and not the full 28 bytes; `write_file` is given an entry that
`list_entries` returns for the parent and, when that entry is a file, succeeds; creations and
deletions may fail), a block of the disk is allocated exactly when it lies on the chain of the
root directory or on the chain of an entry listed in a directory reachable from the root. -/
theorem C24_allocated_reachable (prior : FSState) (t1 t2 : Int) (ops : List Op)
    (h : allOnTree (NewFileSystem prior t1 t2).1 ops) (b : Int) (h0 : 0 ≤ b)
    (h1 : b < (TOTAL_BLOCKS : Int)) :
    fatAt (runOps (NewFileSystem prior t1 t2).1 ops) b ≠ FAT_FREE ↔
      Reachable (runOps (NewFileSystem prior t1 t2).1 ops) b := by
  have hT0 : Tree (NewFileSystem prior t1 t2).1 := by
    rw [(newFileSystem_state prior t1 t2).1]
    exact tree_format prior t1 t2
  exact tree_allocated_iff _ (tree_runOps ops _ hT0 h) b h0 h1

set_option maxRecDepth 1000000 in
theorem C24_allocated_reachable_witness :
    allOnTree (NewFileSystem ⟨[], []⟩ 0 0).1
      [.createFile 1 [97] 0, .createDirectory 1 [100] 1 2 3, .createFile 2 [98] 4,
       .writeFile ⟨mkName [97], TYPE_FILE, 0, 0, 0⟩ 1 (List.replicate 300 7) 5,
       .deleteEntry 1 [100], .deleteEntry 2 [98], .createFile 1 [97] 6] ∧
    (fatAt (runOps (NewFileSystem ⟨[], []⟩ 0 0).1
      [.createFile 1 [97] 0, .createDirectory 1 [100] 1 2 3, .createFile 2 [98] 4,
       .writeFile ⟨mkName [97], TYPE_FILE, 0, 0, 0⟩ 1 (List.replicate 300 7) 5,
       .deleteEntry 1 [100], .deleteEntry 2 [98], .createFile 1 [97] 6]) 4 ≠ FAT_FREE ↔
     Reachable (runOps (NewFileSystem ⟨[], []⟩ 0 0).1
      [.createFile 1 [97] 0, .createDirectory 1 [100] 1 2 3, .createFile 2 [98] 4,
       .writeFile ⟨mkName [97], TYPE_FILE, 0, 0, 0⟩ 1 (List.replicate 300 7) 5,
       .deleteEntry 1 [100], .deleteEntry 2 [98], .createFile 1 [97] 6]) 4) ∧
    fatAt (runOps (NewFileSystem ⟨[], []⟩ 0 0).1
      [.createFile 1 [97] 0, .createDirectory 1 [100] 1 2 3, .createFile 2 [98] 4,
       .writeFile ⟨mkName [97], TYPE_FILE, 0, 0, 0⟩ 1 (List.replicate 300 7) 5,
       .deleteEntry 1 [100], .deleteEntry 2 [98], .createFile 1 [97] 6]) 4 = FAT_EOF := by
  have hon : allOnTree (NewFileSystem ⟨[], []⟩ 0 0).1
      [.createFile 1 [97] 0, .createDirectory 1 [100] 1 2 3, .createFile 2 [98] 4,
       .writeFile ⟨mkName [97], TYPE_FILE, 0, 0, 0⟩ 1 (List.replicate 300 7) 5,
       .deleteEntry 1 [100], .deleteEntry 2 [98], .createFile 1 [97] 6] := by
    refine ⟨⟨Reach.root, by decide, by decide⟩, ⟨Reach.root, by decide, by decide⟩,
      ⟨?_, by decide, by decide⟩,
      ⟨Reach.root, ⟨[⟨mkName [46], TYPE_DIRECTORY, 1, 0, 0⟩,
          ⟨mkName [46, 46], TYPE_DIRECTORY, 1, 0, 0⟩, ⟨mkName [97], TYPE_FILE, 0, 0, 0⟩,
          ⟨mkName [100], TYPE_DIRECTORY, 2, 98, 3⟩], by decide, by decide⟩,
        fun _ => by decide⟩,
      Reach.root, ?_, ⟨Reach.root, by decide, by decide⟩, trivial⟩
    · exact Reach.sub 1 [⟨mkName [46], TYPE_DIRECTORY, 1, 0, 0⟩,
          ⟨mkName [46, 46], TYPE_DIRECTORY, 1, 0, 0⟩, ⟨mkName [97], TYPE_FILE, 0, 0, 0⟩,
          ⟨mkName [100], TYPE_DIRECTORY, 2, 98, 3⟩] ⟨mkName [100], TYPE_DIRECTORY, 2, 98, 3⟩
        Reach.root (by decide) (by decide) rfl
    · exact Reach.sub 1 [⟨mkName [46], TYPE_DIRECTORY, 1, 0, 0⟩,
          ⟨mkName [46, 46], TYPE_DIRECTORY, 1, 0, 0⟩, ⟨mkName [97], TYPE_FILE, 0, 300, 5⟩,
          ⟨mkName [100], TYPE_DIRECTORY, 2, 98, 3⟩] ⟨mkName [100], TYPE_DIRECTORY, 2, 98, 3⟩
        Reach.root (by decide) (by decide) rfl
  exact ⟨hon, C24_allocated_reachable ⟨[], []⟩ 0 0 _ hon 4 (by decide) (by decide), by decide⟩

/-! ## C31, C32, C33: freeBlockChain -/

theorem fatAt_setFat_free_self (s : FSState) (cur : Int) :
    fatAt (setFat s cur FAT_FREE) cur = FAT_FREE := by
  by_cases hl : cur.toNat < s.FAT.length
  · exact fatAt_setFat_self s cur FAT_FREE hl
  · unfold fatAt setFat
    dsimp only
    rw [List.set_eq_of_length_le (by omega)]
    exact List.getD_eq_default _ _ (by omega)

theorem allocSet_setFat (s : FSState) (cur : Int) (h0 : 0 ≤ cur) :
    allocSet (setFat s cur FAT_FREE) = (allocSet s).erase cur.toNat := by
  ext i
  unfold allocSet
  simp only [Finset.mem_filter, Finset.mem_range, Finset.mem_erase]
  by_cases hi : i = cur.toNat
  · have hc : (i : Int) = cur := by
      rw [hi]
      exact Int.toNat_of_nonneg h0
    rw [hc, fatAt_setFat_free_self]
    constructor
    · intro h
      exact absurd rfl h.2
    · intro h
      exact absurd hi h.1
  · rw [fatAt_setFat_ne s cur (i : Int) FAT_FREE (by
      intro h
      apply hi
      rw [h]
      rfl)]
    constructor
    · intro h
      exact ⟨hi, h⟩
    · intro h
      exact h.2

theorem allocSet_card_le (s : FSState) : (allocSet s).card ≤ TOTAL_BLOCKS := by
  unfold allocSet
  exact le_of_le_of_eq (Finset.card_filter_le _ _) (Finset.card_range TOTAL_BLOCKS)

/-- An iteration on a block whose entry is not FREE lowers the number of entries that are not
FREE. -/
theorem allocSet_card_step (s : FSState) (cur : Int) (h0 : 0 ≤ cur)
    (h1 : cur < (TOTAL_BLOCKS : Int)) (hf : fatAt s cur ≠ FAT_FREE) :
    (allocSet (setFat s cur FAT_FREE)).card + 1 = (allocSet s).card := by
  have hmem : cur.toNat ∈ allocSet s := by
    unfold allocSet
    simp only [Finset.mem_filter, Finset.mem_range]
    refine ⟨by unfold TOTAL_BLOCKS at h1 ⊢; omega, ?_⟩
    rw [Int.toNat_of_nonneg h0]
    exact hf
  rw [allocSet_setFat s cur h0, Finset.card_erase_of_mem hmem]
  have := Finset.card_pos.mpr ⟨_, hmem⟩
  omega

theorem freeLoop_sentinel (fuel : Nat) (s : FSState) (cur : Int)
    (h : cur = FAT_EOF ∨ cur = FAT_FREE) : freeLoop (fuel + 1) s cur = (s, .ok ()) := by
  rw [freeLoop, if_pos h]

theorem freeTrace_sentinel (fuel : Nat) (s : FSState) (cur : Int)
    (h : cur = FAT_EOF ∨ cur = FAT_FREE) : freeTrace (fuel + 1) s cur = [cur] := by
  rw [freeTrace, if_pos h]

/-- With `m` entries that are not FREE, `m + 2` loop tests are enough: more fuel gives the
same result, never `.diverge`. -/
theorem freeLoop_enough (m : Nat) :
    ∀ (s : FSState) (cur : Int) (fuel : Nat), (allocSet s).card ≤ m → m + 2 ≤ fuel →
      freeLoop fuel s cur = freeLoop (m + 2) s cur ∧
      ((freeLoop (m + 2) s cur).2 = .ok () ∨ (freeLoop (m + 2) s cur).2 = .err .corruptChain) := by
  induction m with
  | zero =>
    intro s cur fuel hc hf
    obtain ⟨f, rfl⟩ : ∃ f, fuel = f + 2 := ⟨fuel - 2, by omega⟩
    by_cases h1 : cur = FAT_EOF ∨ cur = FAT_FREE
    · rw [freeLoop_sentinel _ s cur h1, freeLoop_sentinel _ s cur h1]
      exact ⟨rfl, Or.inl rfl⟩
    by_cases h2 : cur < 0 ∨ cur ≥ (TOTAL_BLOCKS : Int)
    · rw [freeLoop, if_neg h1, if_pos h2, freeLoop, if_neg h1, if_pos h2]
      exact ⟨rfl, Or.inr rfl⟩
    have hfree : fatAt s cur = FAT_FREE := by
      by_contra hne
      have := allocSet_card_step s cur (by omega) (by omega) hne
      omega
    rw [freeLoop, if_neg h1, if_neg h2, hfree, freeLoop_sentinel _ _ _ (Or.inr rfl),
      freeLoop, if_neg h1, if_neg h2, hfree, freeLoop_sentinel _ _ _ (Or.inr rfl)]
    exact ⟨rfl, Or.inl rfl⟩
  | succ m ih =>
    intro s cur fuel hc hf
    obtain ⟨f, rfl⟩ : ∃ f, fuel = f + 1 := ⟨fuel - 1, by omega⟩
    by_cases h1 : cur = FAT_EOF ∨ cur = FAT_FREE
    · rw [freeLoop_sentinel _ s cur h1, freeLoop_sentinel _ s cur h1]
      exact ⟨rfl, Or.inl rfl⟩
    by_cases h2 : cur < 0 ∨ cur ≥ (TOTAL_BLOCKS : Int)
    · rw [freeLoop, if_neg h1, if_pos h2, freeLoop, if_neg h1, if_pos h2]
      exact ⟨rfl, Or.inr rfl⟩
    by_cases hfree : fatAt s cur = FAT_FREE
    · obtain ⟨f2, rfl⟩ : ∃ f2, f = f2 + 1 := ⟨f - 1, by omega⟩
      rw [freeLoop, if_neg h1, if_neg h2, hfree, freeLoop_sentinel _ _ _ (Or.inr rfl),
        freeLoop, if_neg h1, if_neg h2, hfree, freeLoop_sentinel _ _ _ (Or.inr rfl)]
      exact ⟨rfl, Or.inl rfl⟩
    · have hstep := allocSet_card_step s cur (by omega) (by omega) hfree
      have := ih (setFat s cur FAT_FREE) (fatAt s cur) f (by omega) (by omega)
      rw [freeLoop, if_neg h1, if_neg h2, this.1]
      have h3 : freeLoop (m + 1 + 2) s cur
          = freeLoop (m + 2) (setFat s cur FAT_FREE) (fatAt s cur) := by
        rw [freeLoop, if_neg h1, if_neg h2]
      rw [h3]
      exact ⟨rfl, this.2⟩

/-- With `m` entries that are not FREE the loop is tested at most `m + 2` times and its body
entered at most `m + 1` times, whatever the fuel. -/
theorem freeTrace_short (m : Nat) :
    ∀ (s : FSState) (cur : Int) (fuel : Nat), (allocSet s).card ≤ m →
      (freeTrace fuel s cur).length ≤ m + 2 ∧ freeIterations fuel s cur ≤ m + 1 := by
  have hsent : ∀ (s : FSState) (f : Nat) (k : Nat),
      (freeTrace f s FAT_FREE).length ≤ k + 1 ∧ freeIterations f s FAT_FREE ≤ k := by
    intro s f k
    cases f with
    | zero =>
      unfold freeIterations
      rw [freeTrace]
      exact ⟨Nat.zero_le _, Nat.zero_le _⟩
    | succ f =>
      unfold freeIterations
      rw [freeTrace_sentinel _ _ _ (Or.inr rfl)]
      exact ⟨by simp, by simp⟩
  have hcons : ∀ (cur : Int) (l : List Int), ¬ (cur = FAT_EOF ∨ cur = FAT_FREE) →
      ((cur :: l).filter (fun y => decide (¬ (y = FAT_EOF ∨ y = FAT_FREE)))).length
        = (l.filter (fun y => decide (¬ (y = FAT_EOF ∨ y = FAT_FREE)))).length + 1 := by
    intro cur l h
    rw [List.filter_cons_of_pos (by rw [decide_eq_true_eq]; exact h)]
    rfl
  induction m with
  | zero =>
    intro s cur fuel hc
    cases fuel with
    | zero =>
      unfold freeIterations
      rw [freeTrace]
      exact ⟨Nat.zero_le _, Nat.zero_le _⟩
    | succ f =>
      by_cases h1 : cur = FAT_EOF ∨ cur = FAT_FREE
      · unfold freeIterations
        rw [freeTrace_sentinel _ s cur h1]
        refine ⟨by simp, ?_⟩
        rw [List.filter_cons_of_neg (by rw [decide_eq_true_eq]; exact not_not.mpr h1)]
        simp
      by_cases h2 : cur < 0 ∨ cur ≥ (TOTAL_BLOCKS : Int)
      · unfold freeIterations
        rw [freeTrace, if_neg h1, if_pos h2]
        refine ⟨by simp, ?_⟩
        rw [hcons cur [] h1]
        simp
      have hfree : fatAt s cur = FAT_FREE := by
        by_contra hne
        have := allocSet_card_step s cur (by omega) (by omega) hne
        omega
      have hs := hsent (setFat s cur FAT_FREE) f 0
      unfold freeIterations at hs ⊢
      rw [freeTrace, if_neg h1, if_neg h2, hfree, hcons cur _ h1, List.length_cons]
      omega
  | succ m ih =>
    intro s cur fuel hc
    cases fuel with
    | zero =>
      unfold freeIterations
      rw [freeTrace]
      exact ⟨Nat.zero_le _, Nat.zero_le _⟩
    | succ f =>
      by_cases h1 : cur = FAT_EOF ∨ cur = FAT_FREE
      · unfold freeIterations
        rw [freeTrace_sentinel _ s cur h1]
        refine ⟨by simp, ?_⟩
        rw [List.filter_cons_of_neg (by rw [decide_eq_true_eq]; exact not_not.mpr h1)]
        simp
      by_cases h2 : cur < 0 ∨ cur ≥ (TOTAL_BLOCKS : Int)
      · unfold freeIterations
        rw [freeTrace, if_neg h1, if_pos h2]
        refine ⟨by simp, ?_⟩
        rw [hcons cur [] h1]
        simp
      by_cases hfree : fatAt s cur = FAT_FREE
      · have hs := hsent (setFat s cur FAT_FREE) f 0
        unfold freeIterations at hs ⊢
        rw [freeTrace, if_neg h1, if_neg h2, hfree, hcons cur _ h1, List.length_cons]
        omega
      · have hstep := allocSet_card_step s cur (by omega) (by omega) hfree
        have := ih (setFat s cur FAT_FREE) (fatAt s cur) f (by omega)
        unfold freeIterations at this ⊢
        rw [freeTrace, if_neg h1, if_neg h2, hcons cur _ h1, List.length_cons]
        omega

theorem freeLoop_err_iff (fuel : Nat) :
    ∀ (s : FSState) (cur : Int), (freeLoop fuel s cur).2 = .err .corruptChain ↔
      ∃ y ∈ freeTrace fuel s cur,
        (y < 0 ∨ y ≥ (TOTAL_BLOCKS : Int)) ∧ y ≠ FAT_EOF ∧ y ≠ FAT_FREE := by
  induction fuel with
  | zero =>
    intro s cur
    rw [freeLoop, freeTrace]
    constructor
    · intro h
      cases h
    · rintro ⟨y, hy, _⟩
      cases hy
  | succ fuel ih =>
    intro s cur
    by_cases h1 : cur = FAT_EOF ∨ cur = FAT_FREE
    · rw [freeLoop_sentinel _ s cur h1, freeTrace_sentinel _ s cur h1]
      constructor
      · intro h
        cases h
      · rintro ⟨y, hy, _, h3, h4⟩
        rw [List.mem_singleton.mp hy] at h3 h4
        rcases h1 with h | h
        · exact absurd h h3
        · exact absurd h h4
    by_cases h2 : cur < 0 ∨ cur ≥ (TOTAL_BLOCKS : Int)
    · rw [freeLoop, if_neg h1, if_pos h2, freeTrace, if_neg h1, if_pos h2]
      constructor
      · intro _
        exact ⟨cur, List.mem_singleton.mpr rfl, h2, fun h => h1 (Or.inl h),
          fun h => h1 (Or.inr h)⟩
      · intro _
        rfl
    · rw [freeLoop, if_neg h1, if_neg h2, freeTrace, if_neg h1, if_neg h2, ih]
      constructor
      · rintro ⟨y, hy, h3⟩
        exact ⟨y, List.mem_cons_of_mem _ hy, h3⟩
      · rintro ⟨y, hy, h3⟩
        rcases List.mem_cons.mp hy with h | h
        · rw [h] at h3
          exact absurd h3.1 h2
        · exact ⟨y, h, h3⟩

/-- The values of a walk of `freeBlockChain`, in a state `s2` that arose from `s` by setting
entries to FREE, are the ids of the walk along the FAT of `s`, up to the first FREE. -/
theorem freeTrace_nth (s : FSState) (fuel : Nat) :
    ∀ (s2 : FSState) (cur : Int),
      (∀ i : Int, fatAt s2 i = fatAt s i ∨ fatAt s2 i = FAT_FREE) →
      ∀ (j : Nat) (y : Int), (freeTrace fuel s2 cur)[j]? = some y → y ≠ FAT_FREE →
        y = nthBlock s j cur ∧ ∀ i, i < j → ¬ endsWalk (nthBlock s i cur) := by
  induction fuel with
  | zero =>
    intro s2 cur _ j y h
    rw [freeTrace] at h
    cases h
  | succ fuel ih =>
    intro s2 cur hrel j y h hy
    have hsingle : freeTrace (fuel + 1) s2 cur = [cur] →
        y = nthBlock s j cur ∧ ∀ i, i < j → ¬ endsWalk (nthBlock s i cur) := by
      intro ht
      rw [ht] at h
      cases j with
      | zero =>
        injection h with h
        exact ⟨h.symm, fun i hi => absurd hi (Nat.not_lt_zero i)⟩
      | succ j => cases h
    by_cases h1 : cur = FAT_EOF ∨ cur = FAT_FREE
    · exact hsingle (freeTrace_sentinel _ s2 cur h1)
    by_cases h2 : cur < 0 ∨ cur ≥ (TOTAL_BLOCKS : Int)
    · exact hsingle (by rw [freeTrace, if_neg h1, if_pos h2])
    rw [freeTrace, if_neg h1, if_neg h2] at h
    have hnw : ¬ endsWalk cur := by
      rw [endsWalk_iff]
      rintro (h3 | h3)
      · exact h1 h3
      · exact h2 h3
    cases j with
    | zero =>
      rw [List.getElem?_cons_zero] at h
      injection h with h
      exact ⟨h.symm, fun i hi => absurd hi (Nat.not_lt_zero i)⟩
    | succ j =>
      have h' : (freeTrace fuel (setFat s2 cur FAT_FREE) (fatAt s2 cur))[j]? = some y := by
        rw [List.getElem?_cons_succ] at h
        exact h
      rcases hrel cur with hc | hc
      · rw [hc] at h'
        obtain ⟨e1, e2⟩ := ih (setFat s2 cur FAT_FREE) (fatAt s cur) (by
          intro i
          rcases fatAt_setFat_free_or s2 cur i with h3 | h3
          · rw [h3]
            exact hrel i
          · exact Or.inr h3) j y h' hy
        refine ⟨e1, ?_⟩
        intro i hi
        cases i with
        | zero => exact hnw
        | succ i => exact e2 i (by omega)
      · exfalso
        rw [hc] at h'
        cases fuel with
        | zero =>
          rw [freeTrace] at h'
          cases h'
        | succ f =>
          rw [freeTrace_sentinel _ _ _ (Or.inr rfl)] at h'
          cases j with
          | zero =>
            injection h' with h'
            exact hy h'.symm
          | succ j => cases h'

theorem endsIn_of_nth (s : FSState) (k : Nat) :
    ∀ cur : Int, (∀ i, i < k → ¬ endsWalk (nthBlock s i cur)) → endsWalk (nthBlock s k cur) →
      endsIn s k cur := by
  induction k with
  | zero =>
    intro cur _ h
    exact h
  | succ k ih =>
    intro cur hb h
    exact ⟨hb 0 (by omega), ih (fatAt s cur) (fun i hi => hb (i + 1) (by omega)) h⟩

theorem freeLoop_corrupt_of_endsIn (s : FSState) (k : Nat) :
    ∀ (s2 : FSState) (cur : Int) (fuel : Nat), endsIn s k cur →
      nthBlock s k cur ≠ FAT_EOF → nthBlock s k cur ≠ FAT_FREE → k < fuel →
      (∀ y ∈ chainOf s k cur, fatAt s2 y = fatAt s y) →
      (freeLoop fuel s2 cur).2 = .err .corruptChain := by
  induction k with
  | zero =>
    intro s2 cur fuel hk h1 h2 hf _
    obtain ⟨fuel, rfl⟩ : ∃ f, fuel = f + 1 := ⟨fuel - 1, by omega⟩
    have hw : endsWalk cur := hk
    have h3 : ¬ (cur = FAT_EOF ∨ cur = FAT_FREE) := by
      rintro (h | h)
      · exact h1 h
      · exact h2 h
    have h4 : cur < 0 ∨ cur ≥ (TOTAL_BLOCKS : Int) := by
      rcases (endsWalk_iff cur).mp hw with h | h
      · exact absurd h h3
      · exact h
    rw [freeLoop, if_neg h3, if_pos h4]
  | succ k ih =>
    intro s2 cur fuel hk h1 h2 hf hag
    obtain ⟨fuel, rfl⟩ : ∃ f, fuel = f + 1 := ⟨fuel - 1, by omega⟩
    obtain ⟨hn1, hn2, hc0, _⟩ := not_endsWalk cur hk.1
    have hch : chainOf s (k + 1) cur = cur :: chainOf s k (fatAt s cur) := by
      rw [chainOf, if_neg hk.1]
    have hcur : fatAt s2 cur = fatAt s cur := hag cur (by rw [hch]; exact List.mem_cons_self _ _)
    rw [freeLoop, if_neg hn1, if_neg hn2, hcur]
    apply ih (setFat s2 cur FAT_FREE) (fatAt s cur) fuel hk.2 h1 h2 (by omega)
    intro y hy
    have hy0 := (not_endsWalk y (chainOf_mem_not_endsWalk s _ _ y hy)).2.2.1
    have hne : cur ≠ y := by
      intro h
      rw [← h] at hy
      exact not_mem_chainOf_next s k k cur hk hy
    rw [fatAt_setFat_ne _ _ _ _ (toNat_ne hc0 hy0 hne)]
    exact hag y (by rw [hch]; exact List.mem_cons_of_mem _ hy)

/-- C32: `freeBlockChain` fails, with the error that reports an invalid block, exactly when
the start block or one of the values its loop variable takes lies outside the disk and is
neither `FAT_EOF` nor `FAT_FREE`; in terms of the FAT before the call: exactly when the walk
from the start block comes, through blocks of the disk, to an id outside the disk that is
neither `FAT_EOF` nor `FAT_FREE`. -/
theorem C32_free_chain_corrupt (s : FSState) (start : Int) :
    ((freeBlockChain s start).2 = .err .corruptChain ↔
      ∃ y ∈ start :: freeTrace walkFuel s start,
        (y < 0 ∨ y ≥ (TOTAL_BLOCKS : Int)) ∧ y ≠ FAT_EOF ∧ y ≠ FAT_FREE) ∧
    ((freeBlockChain s start).2 = .err .corruptChain ↔
      ∃ k, (∀ i, i < k → 0 ≤ nthBlock s i start ∧ nthBlock s i start < (TOTAL_BLOCKS : Int)) ∧
        (nthBlock s k start < 0 ∨ nthBlock s k start ≥ (TOTAL_BLOCKS : Int)) ∧
        nthBlock s k start ≠ FAT_EOF ∧ nthBlock s k start ≠ FAT_FREE) := by
  have hA : (freeBlockChain s start).2 = .err .corruptChain ↔
      ∃ y ∈ start :: freeTrace walkFuel s start,
        (y < 0 ∨ y ≥ (TOTAL_BLOCKS : Int)) ∧ y ≠ FAT_EOF ∧ y ≠ FAT_FREE := by
    unfold freeBlockChain
    by_cases hr : start < 0 ∨ start ≥ (TOTAL_BLOCKS : Int)
    · rw [if_pos hr]
      by_cases h1 : start = FAT_EOF ∨ start = FAT_FREE
      · rw [if_pos h1, walkFuel_eq, freeTrace_sentinel _ s start h1]
        constructor
        · intro h
          cases h
        · rintro ⟨y, hy, _, h3, h4⟩
          have hys : y = start := by
            rcases List.mem_cons.mp hy with h | h
            · exact h
            · exact List.mem_singleton.mp h
          rw [hys] at h3 h4
          rcases h1 with h | h
          · exact absurd h h3
          · exact absurd h h4
      · rw [if_neg h1]
        constructor
        · intro _
          exact ⟨start, List.mem_cons_self _ _, hr, fun h => h1 (Or.inl h),
            fun h => h1 (Or.inr h)⟩
        · intro _
          rfl
    · rw [if_neg hr, freeLoop_err_iff]
      constructor
      · rintro ⟨y, hy, h3⟩
        exact ⟨y, List.mem_cons_of_mem _ hy, h3⟩
      · rintro ⟨y, hy, h3⟩
        rcases List.mem_cons.mp hy with h | h
        · rw [h] at h3
          exact absurd h3.1 hr
        · exact ⟨y, h, h3⟩
  refine ⟨hA, ?_⟩
  constructor
  · intro h
    obtain ⟨y, hy, h3, h4, h5⟩ := hA.mp h
    rcases List.mem_cons.mp hy with hys | hyt
    · refine ⟨0, fun i hi => absurd hi (Nat.not_lt_zero i), ?_, ?_, ?_⟩
      · show start < 0 ∨ start ≥ (TOTAL_BLOCKS : Int)
        rw [← hys]
        exact h3
      · show start ≠ FAT_EOF
        rw [← hys]
        exact h4
      · show start ≠ FAT_FREE
        rw [← hys]
        exact h5
    · obtain ⟨j, hj⟩ := List.getElem?_of_mem hyt
      obtain ⟨e1, e2⟩ := freeTrace_nth s walkFuel s start (fun _ => Or.inl rfl) j y hj h5
      refine ⟨j, ?_, by rw [← e1]; exact h3, by rw [← e1]; exact h4, by rw [← e1]; exact h5⟩
      intro i hi
      exact (not_endsWalk _ (e2 i hi)).2.2
  · rintro ⟨k, hb, h3, h4, h5⟩
    have hk : endsIn s k start := endsIn_of_nth s k start
      (fun i hi => inRange_not_endsWalk _ (hb i hi).1 (hb i hi).2)
      ((endsWalk_iff _).mpr (Or.inr h3))
    have hle := endsIn_le s k start hk
    unfold freeBlockChain
    by_cases hr : start < 0 ∨ start ≥ (TOTAL_BLOCKS : Int)
    · rw [if_pos hr]
      cases k with
      | zero =>
        rw [if_neg (by
          rintro (h | h)
          · exact h4 h
          · exact h5 h)]
      | succ k =>
        exact absurd hr (not_endsWalk start hk.1).2.1
    · rw [if_neg hr]
      exact freeLoop_corrupt_of_endsIn s k s start walkFuel hk h4 h5
        (by unfold walkFuel; omega) (fun _ _ => rfl)

/-- C31: on a chain of `k` blocks of the disk that ends in `FAT_EOF` or `FAT_FREE`,
`freeBlockChain` returns success; the disk is unchanged, the FAT keeps its length, and the FAT
entry of a block of the disk is `FAT_FREE` when the block is one of the `k` blocks of the chain
and is unchanged otherwise. Called with `FAT_EOF` or `FAT_FREE` it returns success and the
state is unchanged. -/
theorem C31_free_chain (s : FSState) (hwf : s.WF) (start : Int) (k : Nat)
    (hk : endsIn s k start)
    (hend : nthBlock s k start = FAT_EOF ∨ nthBlock s k start = FAT_FREE) :
    (freeBlockChain s start).2 = .ok () ∧
    (freeBlockChain s start).1.Disk = s.Disk ∧
    (freeBlockChain s start).1.FAT.length = s.FAT.length ∧
    chainOf s walkFuel start = (List.range k).map (fun j => nthBlock s j start) ∧
    (∀ b : Int, 0 ≤ b → b < (TOTAL_BLOCKS : Int) →
      fatAt (freeBlockChain s start).1 b
        = if b ∈ chainOf s walkFuel start then FAT_FREE else fatAt s b) ∧
    ((start = FAT_EOF ∨ start = FAT_FREE) → freeBlockChain s start = (s, .ok ())) := by
  have hok := freeBlockChain_ok_of_endsIn s k start hk hend
  have hle := endsIn_le s k start hk
  refine ⟨hok, freeBlockChain_Disk s start, ?_,
    chainOf_eq_range s k start walkFuel hk (by unfold walkFuel; omega), ?_, ?_⟩
  · rw [(freeBlockChain_WF s start hwf).2.2, hwf.2.2]
  · intro b h0 _
    by_cases hb : b ∈ chainOf s walkFuel start
    · rw [if_pos hb]
      exact freeBlockChain_ok_freed s _ start hwf (Prod.ext rfl hok) b hb
    · rw [if_neg hb]
      exact freeBlockChain_frame s start b h0 hb
  · intro h
    unfold freeBlockChain
    have hr : start < 0 ∨ start ≥ (TOTAL_BLOCKS : Int) := by
      rcases h with h | h <;> rw [h] <;> left <;> decide
    rw [if_pos hr, if_pos h]

set_option maxRecDepth 1000000 in
theorem C31_free_chain_witness :
    (WriteToFile (CreateFile (FormatDisk ⟨[], []⟩ 0 0).1 1 [97] 0).1
      ⟨mkName [97], TYPE_FILE, 0, 0, 0⟩ 1 (List.replicate 300 7) 0).1.WF ∧
    endsIn (WriteToFile (CreateFile (FormatDisk ⟨[], []⟩ 0 0).1 1 [97] 0).1
      ⟨mkName [97], TYPE_FILE, 0, 0, 0⟩ 1 (List.replicate 300 7) 0).1 2 0 ∧
    chainOf (WriteToFile (CreateFile (FormatDisk ⟨[], []⟩ 0 0).1 1 [97] 0).1
      ⟨mkName [97], TYPE_FILE, 0, 0, 0⟩ 1 (List.replicate 300 7) 0).1 walkFuel 0 = [0, 2] ∧
    (freeBlockChain (WriteToFile (CreateFile (FormatDisk ⟨[], []⟩ 0 0).1 1 [97] 0).1
      ⟨mkName [97], TYPE_FILE, 0, 0, 0⟩ 1 (List.replicate 300 7) 0).1 0).2 = .ok () ∧
    fatAt (freeBlockChain (WriteToFile (CreateFile (FormatDisk ⟨[], []⟩ 0 0).1 1 [97] 0).1
      ⟨mkName [97], TYPE_FILE, 0, 0, 0⟩ 1 (List.replicate 300 7) 0).1 0).1 2
      = (if (2 : Int) ∈ chainOf (WriteToFile (CreateFile (FormatDisk ⟨[], []⟩ 0 0).1 1 [97] 0).1
          ⟨mkName [97], TYPE_FILE, 0, 0, 0⟩ 1 (List.replicate 300 7) 0).1 walkFuel 0
        then FAT_FREE
        else fatAt (WriteToFile (CreateFile (FormatDisk ⟨[], []⟩ 0 0).1 1 [97] 0).1
          ⟨mkName [97], TYPE_FILE, 0, 0, 0⟩ 1 (List.replicate 300 7) 0).1 2) :=
  ⟨by decide, by decide, by decide,
    (C31_free_chain _ (by decide) 0 2 (by decide) (by decide)).1,
    (C31_free_chain (WriteToFile (CreateFile (FormatDisk ⟨[], []⟩ 0 0).1 1 [97] 0).1
      ⟨mkName [97], TYPE_FILE, 0, 0, 0⟩ 1 (List.replicate 300 7) 0).1 (by decide) 0 2
      (by decide) (by decide)).2.2.2.2.1 2 (by decide) (by decide)⟩

set_option maxRecDepth 1000000 in
theorem C32_free_chain_corrupt_witness :
    (freeBlockChain ⟨[], ((List.replicate 256 FAT_FREE).set 0 5).set 5 300⟩ 0).2
      = .err .corruptChain ∧
    (freeBlockChain ⟨[], ((List.replicate 256 FAT_FREE).set 0 5).set 5 300⟩ 0).1.FAT
      = List.replicate 256 FAT_FREE ∧
    ∃ k, (∀ i, i < k →
        0 ≤ nthBlock ⟨[], ((List.replicate 256 FAT_FREE).set 0 5).set 5 300⟩ i 0 ∧
        nthBlock ⟨[], ((List.replicate 256 FAT_FREE).set 0 5).set 5 300⟩ i 0
          < (TOTAL_BLOCKS : Int)) ∧
      (nthBlock ⟨[], ((List.replicate 256 FAT_FREE).set 0 5).set 5 300⟩ k 0 < 0 ∨
        nthBlock ⟨[], ((List.replicate 256 FAT_FREE).set 0 5).set 5 300⟩ k 0
          ≥ (TOTAL_BLOCKS : Int)) ∧
      nthBlock ⟨[], ((List.replicate 256 FAT_FREE).set 0 5).set 5 300⟩ k 0 ≠ FAT_EOF ∧
      nthBlock ⟨[], ((List.replicate 256 FAT_FREE).set 0 5).set 5 300⟩ k 0 ≠ FAT_FREE :=
  ⟨by decide, by decide,
    (C32_free_chain_corrupt ⟨[], ((List.replicate 256 FAT_FREE).set 0 5).set 5 300⟩ 0).2.mp
      (by decide)⟩

/-- C33: `freeBlockChain` returns, with success or with the error for an invalid block, for
every state and every start block: `TOTAL_BLOCKS + 2` loop tests are enough and more fuel
changes nothing. Whatever the fuel, the loop is tested at most `TOTAL_BLOCKS + 2` times and its
body entered at most `TOTAL_BLOCKS + 1` times: an iteration on a block whose FAT entry is not
FREE lowers the number of such entries by one, and an iteration on a block whose entry is FREE
is the last one. -/
theorem C33_free_chain_terminates (s : FSState) (start : Int) :
    ((freeBlockChain s start).2 = .ok () ∨ (freeBlockChain s start).2 = .err .corruptChain) ∧
    (∀ fuel, walkFuel ≤ fuel →
      freeLoop fuel s start = freeLoop walkFuel s start ∧
      ((freeLoop fuel s start).2 = .ok () ∨ (freeLoop fuel s start).2 = .err .corruptChain)) ∧
    (∀ fuel, (freeTrace fuel s start).length ≤ TOTAL_BLOCKS + 2 ∧
      freeIterations fuel s start ≤ TOTAL_BLOCKS + 1) ∧
    (∀ cur : Int, 0 ≤ cur → cur < (TOTAL_BLOCKS : Int) →
      (fatAt s cur ≠ FAT_FREE →
        (allocSet (setFat s cur FAT_FREE)).card + 1 = (allocSet s).card) ∧
      (fatAt s cur = FAT_FREE → ∀ fuel,
        freeTrace (fuel + 2) s cur = [cur, FAT_FREE] ∧
        freeLoop (fuel + 2) s cur = (setFat s cur FAT_FREE, .ok ()))) := by
  have hc := allocSet_card_le s
  have hen : ∀ fuel, walkFuel ≤ fuel →
      freeLoop fuel s start = freeLoop walkFuel s start ∧
      ((freeLoop fuel s start).2 = .ok () ∨ (freeLoop fuel s start).2 = .err .corruptChain) := by
    intro fuel hf
    have h1 := freeLoop_enough TOTAL_BLOCKS s start fuel hc hf
    refine ⟨h1.1, ?_⟩
    rw [h1.1]
    exact h1.2
  refine ⟨?_, hen, fun fuel => freeTrace_short TOTAL_BLOCKS s start fuel hc, ?_⟩
  · unfold freeBlockChain
    split
    · split
      · exact Or.inl rfl
      · exact Or.inr rfl
    · exact (hen walkFuel (le_refl _)).2
  · intro cur h0 h1
    have hn1 : ¬ (cur = FAT_EOF ∨ cur = FAT_FREE) := by
      rintro (h | h) <;> rw [h] at h0 <;> revert h0 <;> decide
    have hn2 : ¬ (cur < 0 ∨ cur ≥ (TOTAL_BLOCKS : Int)) := by omega
    refine ⟨allocSet_card_step s cur h0 h1, ?_⟩
    intro hf fuel
    constructor
    · rw [freeTrace, if_neg hn1, if_neg hn2, hf, freeTrace_sentinel _ _ _ (Or.inr rfl)]
    · rw [freeLoop, if_neg hn1, if_neg hn2, hf, freeLoop_sentinel _ _ _ (Or.inr rfl)]

set_option maxRecDepth 1000000 in
/-- The bound of C33 is reached: when the FAT is one cycle through all blocks
(`FAT[i] = i + 1`, `FAT[255] = 0`) the body of the loop is entered `TOTAL_BLOCKS + 1` times,
the call returns success with `TOTAL_BLOCKS + 2` loop tests, and one test less is not enough. -/
theorem C33_free_chain_terminates_witness :
    ((freeBlockChain ⟨[], (List.range 256).map (fun (i : Nat) => (((i + 1) % 256 : Nat) : Int))⟩
        0).2 = .ok () ∨
      (freeBlockChain ⟨[], (List.range 256).map (fun (i : Nat) => (((i + 1) % 256 : Nat) : Int))⟩
        0).2 = .err .corruptChain) ∧
    (freeBlockChain ⟨[], (List.range 256).map (fun (i : Nat) => (((i + 1) % 256 : Nat) : Int))⟩
      0).2 = .ok () ∧
    freeIterations 300
      ⟨[], (List.range 256).map (fun (i : Nat) => (((i + 1) % 256 : Nat) : Int))⟩ 0
      = TOTAL_BLOCKS + 1 ∧
    (freeLoop (TOTAL_BLOCKS + 1)
      ⟨[], (List.range 256).map (fun (i : Nat) => (((i + 1) % 256 : Nat) : Int))⟩ 0).2
      = .diverge :=
  ⟨(C33_free_chain_terminates _ 0).1, by decide, by decide, by decide⟩

/-! ## C37: DeserializeEntry checks the length only -/

theorem getInt_take (w off n : Nat) (data : List Nat) (h : off + w ≤ n) :
    getInt w (data.take n) off = getInt w data off := by
  unfold getInt
  rw [List.drop_take, List.take_take, Nat.min_eq_left (by omega)]

theorem deserialize_ok (data : List Nat) (h : DIRECTORY_ENTRY_SIZE ≤ data.length) :
    DeserializeEntry data = .ok
      { Name := data.take MAX_FILENAME_LEN, EntryType := getInt 1 data 28,
        StartBlock := getInt 4 data 29, Size := getInt 8 data 33, ModTime := getInt 8 data 41 } := by
  unfold DeserializeEntry
  rw [if_neg (by omega)]

theorem deserialize_take (data : List Nat) (h : DIRECTORY_ENTRY_SIZE ≤ data.length) :
    DeserializeEntry (data.take DIRECTORY_ENTRY_SIZE) = DeserializeEntry data := by
  have h49 : DIRECTORY_ENTRY_SIZE = 49 := rfl
  have h28 : MAX_FILENAME_LEN = 28 := rfl
  rw [deserialize_ok data h, deserialize_ok (data.take DIRECTORY_ENTRY_SIZE) (by
    rw [List.length_take]
    omega)]
  rw [h49, getInt_take 1 28 49 data (by omega), getInt_take 4 29 49 data (by omega),
    getInt_take 8 33 49 data (by omega), getInt_take 8 41 49 data (by omega), List.take_take,
    h28]
  rfl

/-- C37: `DeserializeEntry` returns InsufficientData exactly when the input has fewer than 49
bytes. On an input of at least 49 bytes it returns an entry, the same entry as on the first 49
bytes alone and as on any other input with the same first 49 bytes; and nothing is checked:
for every entry whose fields fit their machine types (any Type in int8, any StartBlock in
int32, any name bytes), the 49 bytes of its serialization, followed by any bytes, are
deserialized to that entry. -/
theorem C37_deserialize_checks (data : List Nat) :
    (DeserializeEntry data = .err .insufficientData ↔ data.length < DIRECTORY_ENTRY_SIZE) ∧
    (DIRECTORY_ENTRY_SIZE ≤ data.length →
      (∃ e, DeserializeEntry data = .ok e) ∧
      DeserializeEntry (data.take DIRECTORY_ENTRY_SIZE) = DeserializeEntry data ∧
      ∀ data2 : List Nat, data2.take DIRECTORY_ENTRY_SIZE = data.take DIRECTORY_ENTRY_SIZE →
        DeserializeEntry data2 = DeserializeEntry data) ∧
    (∀ (e : DirectoryEntry) (rest : List Nat), e.WF →
      DeserializeEntry (entryBytes e ++ rest) = .ok e) := by
  refine ⟨?_, ?_, ?_⟩
  · constructor
    · intro h
      by_contra hc
      rw [deserialize_ok data (by omega)] at h
      cases h
    · intro h
      unfold DeserializeEntry
      rw [if_pos h]
  · intro h
    refine ⟨⟨_, deserialize_ok data h⟩, deserialize_take data h, ?_⟩
    intro data2 h2
    have hl2 : DIRECTORY_ENTRY_SIZE ≤ data2.length := by
      have h3 := congrArg List.length h2
      rw [List.length_take, List.length_take] at h3
      omega
    rw [← deserialize_take data2 hl2, h2, deserialize_take data h]
  · intro e rest he
    have hl := entryBytes_length e he.1
    have h49 : DIRECTORY_ENTRY_SIZE = 49 := rfl
    rw [← deserialize_take (entryBytes e ++ rest) (by
      rw [List.length_append, hl, h49]
      omega), h49, ← hl, List.take_left']
    · exact deserialize_serialize e he
    · rfl

theorem C37_deserialize_checks_witness :
    (DeserializeEntry (List.replicate 48 1) = .err .insufficientData ↔
      (List.replicate 48 1).length < DIRECTORY_ENTRY_SIZE) ∧
    DeserializeEntry (List.replicate 48 1) = .err .insufficientData ∧
    DeserializeEntry (entryBytes ⟨mkName [97], 77, -5, 3, 4⟩ ++ [9, 9]) =
      .ok ⟨mkName [97], 77, -5, 3, 4⟩ :=
  ⟨(C37_deserialize_checks (List.replicate 48 1)).1, by decide,
    (C37_deserialize_checks []).2.2 ⟨mkName [97], 77, -5, 3, 4⟩ [9, 9] (by decide)⟩

/-! ## C34: creation in a parent block that is not allocated -/

theorem addEntry_free_parent (t : FSState) (p : Int) (e : DirectoryEntry)
    (h : fatAt t p = FAT_FREE) : addEntryToDirectory t p e = (t, .err .invalidParent) := by
  unfold addEntryToDirectory
  rw [if_pos (Or.inr (Or.inr h))]

theorem listEntries_free (s : FSState) (p : Int) (hp0 : 0 ≤ p) (hp1 : p < (TOTAL_BLOCKS : Int))
    (hpf : fatAt s p = FAT_FREE) :
    ListEntries s p = .ok (scanSlots (blockAt s p) slotOffsets) := by
  rw [listEntries_inRange s p hp0 hp1, walkFuel_eq, listLoop_single s 256 p hp0 hp1 (Or.inr hpf)]

/-- `CreateFile` in a free parent block that is not the block `findFreeBlock` hands out. -/
theorem createFile_free_parent (s : FSState) (hwf : s.WF) (p : Int) (n : List Nat) (now : Int)
    (hp0 : 0 ≤ p) (hp1 : p < (TOTAL_BLOCKS : Int)) (hpf : fatAt s p = FAT_FREE)
    (hne : findFreeBlock s ≠ .ok p) :
    (CreateFile s p n now).2 ≠ .ok () ∧ (CreateFile s p n now).1.FAT = s.FAT ∧
    (n.length ≠ 0 → n.length ≤ MAX_FILENAME_LEN →
      nameTaken n (scanSlots (blockAt s p) slotOffsets) = .ok false →
      (CreateFile s p n now).2 = .err .invalidParent) := by
  have hl := listEntries_free s p hp0 hp1 hpf
  unfold CreateFile
  by_cases hn0 : n.length = 0
  · rw [if_pos hn0]
    exact ⟨(fun h => by cases h), rfl, fun h => absurd hn0 h⟩
  by_cases hn1 : n.length > MAX_FILENAME_LEN
  · rw [if_neg hn0, if_pos hn1]
    exact ⟨(fun h => by cases h), rfl, fun _ h => absurd hn1 (by omega)⟩
  rw [if_neg hn0, if_neg hn1]
  simp only [hl]
  cases htk : nameTaken n (scanSlots (blockAt s p) slotOffsets) with
  | ok taken =>
    cases taken with
    | true => exact ⟨(fun h => by cases h), rfl, fun _ _ h => by cases h⟩
    | false =>
      rcases findFreeBlock_cases s with ⟨b, hfb⟩ | hfb
      · obtain ⟨hb0, hb1, hbf, _⟩ := findFreeBlock_ok s b hfb
        have hbp : b ≠ p := by
          intro h
          rw [h] at hfb
          exact hne hfb
        have hadd := addEntry_free_parent (setFat s b FAT_EOF) p
          ⟨mkName n, TYPE_FILE, b, 0, now⟩
          (by rw [fatAt_setFat_ne _ _ _ _ (toNat_ne hb0 hp0 hbp)]; exact hpf)
        simp only [hfb, hadd]
        exact ⟨(fun h => by cases h), setFat_setFat_free s hwf b hb1 hbf FAT_EOF, fun _ _ _ => trivial⟩
      · exfalso
        obtain ⟨b2, hb2⟩ := findFreeBlock_of_free s p hp0 hp1 hpf
        rw [hfb] at hb2
        cases hb2
  | err x => exact ⟨(fun h => by cases h), rfl, fun _ _ h => by cases h⟩
  | panic => exact ⟨(fun h => by cases h), rfl, fun _ _ h => by cases h⟩
  | diverge => exact ⟨(fun h => by cases h), rfl, fun _ _ h => by cases h⟩

/-- `CreateDirectory` in a free parent block that is not the block `findFreeBlock` hands
out. -/
theorem createDirectory_free_parent (s : FSState) (hwf : s.WF) (p : Int) (n : List Nat)
    (t1 t2 t3 : Int) (hp0 : 0 ≤ p) (hp1 : p < (TOTAL_BLOCKS : Int))
    (hpf : fatAt s p = FAT_FREE) (hne : findFreeBlock s ≠ .ok p) :
    (CreateDirectory s p n t1 t2 t3).2 ≠ .ok () ∧ (CreateDirectory s p n t1 t2 t3).1.FAT = s.FAT ∧
    (n.length ≠ 0 → n.length ≤ MAX_FILENAME_LEN →
      nameTaken n (scanSlots (blockAt s p) slotOffsets) = .ok false →
      (CreateDirectory s p n t1 t2 t3).2 = .err .invalidParent) := by
  have hl := listEntries_free s p hp0 hp1 hpf
  unfold CreateDirectory
  by_cases hn0 : n.length = 0
  · rw [if_pos hn0]
    exact ⟨(fun h => by cases h), rfl, fun h => absurd hn0 h⟩
  by_cases hn1 : n.length > MAX_FILENAME_LEN
  · rw [if_neg hn0, if_pos hn1]
    exact ⟨(fun h => by cases h), rfl, fun _ h => absurd hn1 (by omega)⟩
  rw [if_neg hn0, if_neg hn1]
  simp only [hl]
  cases htk : nameTaken n (scanSlots (blockAt s p) slotOffsets) with
  | ok taken =>
    cases taken with
    | true => exact ⟨(fun h => by cases h), rfl, fun _ _ h => by cases h⟩
    | false =>
      rcases findFreeBlock_cases s with ⟨b, hfb⟩ | hfb
      · obtain ⟨hb0, hb1, hbf, _⟩ := findFreeBlock_ok s b hfb
        have hbp : b ≠ p := by
          intro h
          rw [h] at hfb
          exact hne hfb
        have hadd := addEntry_free_parent
          (setBlock (setFat s b FAT_EOF) b (newDirBlock b p t1 t2)) p
          ⟨mkName n, TYPE_DIRECTORY, b, 2 * DIRECTORY_ENTRY_SIZE, t3⟩
          (by
            rw [fatAt_setBlock, fatAt_setFat_ne _ _ _ _ (toNat_ne hb0 hp0 hbp)]
            exact hpf)
        simp only [hfb]
        rw [createDirectory_prepared s hwf b p t1 t2 hb0 hb1, hadd]
        exact ⟨(fun h => by cases h), setFat_setFat_free s hwf b hb1 hbf FAT_EOF, fun _ _ _ => rfl⟩
      · exfalso
        obtain ⟨b2, hb2⟩ := findFreeBlock_of_free s p hp0 hp1 hpf
        rw [hfb] at hb2
        cases hb2
  | err x => exact ⟨(fun h => by cases h), rfl, fun _ _ h => by cases h⟩
  | panic => exact ⟨(fun h => by cases h), rfl, fun _ _ h => by cases h⟩
  | diverge => exact ⟨(fun h => by cases h), rfl, fun _ _ h => by cases h⟩

/-- `CreateFile` in a free parent block that is the block `findFreeBlock` hands out: the block
is allocated before the parent is checked, and the entry is written into it. -/
theorem createFile_own_block (s : FSState) (p : Int) (n : List Nat) (now : Int) (off : Nat)
    (hp0 : 0 ≤ p) (hp1 : p < (TOTAL_BLOCKS : Int)) (hpf : fatAt s p = FAT_FREE)
    (hfb : findFreeBlock s = .ok p) (hwf : s.WF)
    (hn0 : n.length ≠ 0) (hn1 : n.length < MAX_FILENAME_LEN)
    (hfresh : otherNames n (scanSlots (blockAt s p) slotOffsets))
    (hslot : firstFreeSlot (blockAt s p) slotOffsets = some off) :
    CreateFile s p n now
      = (setBlock (setFat s p FAT_EOF) p
          (copyAt (blockAt s p) off (entryBytes ⟨mkName n, TYPE_FILE, p, 0, now⟩)), .ok ()) := by
  have hl := listEntries_free s p hp0 hp1 hpf
  have hadd := addEntry_first_block (setFat s p FAT_EOF) p ⟨mkName n, TYPE_FILE, p, 0, now⟩ off
    hp0 hp1 (by
      rw [fatAt_setFat_self s p FAT_EOF (WF_fatAt_lt s hwf p hp1)]
      decide)
    (mkName_length n) (nameOf_mkName_some n hn1) hslot
  unfold CreateFile
  rw [if_neg hn0, if_neg (by omega)]
  simp only [hl, nameTaken_of_other n _ hfresh, hfb, hadd]
  rfl

/-- C34: `CreateFile(p, n)` and `CreateDirectory(p, n)` with `FAT[p] = FAT_FREE`.
(1) When `p` is not the block that `findFreeBlock` hands out (a block with a smaller index is
free), neither call returns success and both leave the FAT as it was; with a name of valid
length that no entry read from block `p` bears, both fail with the error of
`addEntryToDirectory` for a parent that is not allocated.
(2) When `p` is the block that `findFreeBlock` hands out, the block is marked `FAT_EOF`
before `addEntryToDirectory` looks at `FAT[p]`: with a name of 1 to 27 bytes that no entry
read from block `p` bears and a free slot in block `p`, `CreateFile` returns success and has
written, into block `p`, an entry whose StartBlock is `p`. -/
theorem C34_create_in_free_parent (s : FSState) (hwf : s.WF) (p : Int) (n : List Nat)
    (now t1 t2 t3 : Int) (hp0 : 0 ≤ p) (hp1 : p < (TOTAL_BLOCKS : Int))
    (hpf : fatAt s p = FAT_FREE) :
    (findFreeBlock s ≠ .ok p →
      ((CreateFile s p n now).2 ≠ .ok () ∧ (CreateFile s p n now).1.FAT = s.FAT ∧
        (CreateDirectory s p n t1 t2 t3).2 ≠ .ok () ∧
        (CreateDirectory s p n t1 t2 t3).1.FAT = s.FAT) ∧
      (n.length ≠ 0 → n.length ≤ MAX_FILENAME_LEN →
        nameTaken n (scanSlots (blockAt s p) slotOffsets) = .ok false →
        (CreateFile s p n now).2 = .err .invalidParent ∧
        (CreateDirectory s p n t1 t2 t3).2 = .err .invalidParent)) ∧
    (findFreeBlock s = .ok p → n.length ≠ 0 → n.length < MAX_FILENAME_LEN →
      otherNames n (scanSlots (blockAt s p) slotOffsets) →
      ∀ off, firstFreeSlot (blockAt s p) slotOffsets = some off →
        CreateFile s p n now
          = (setBlock (setFat s p FAT_EOF) p
              (copyAt (blockAt s p) off (entryBytes ⟨mkName n, TYPE_FILE, p, 0, now⟩)),
            .ok ())) := by
  refine ⟨?_, ?_⟩
  · intro hne
    obtain ⟨a1, a2, a3⟩ := createFile_free_parent s hwf p n now hp0 hp1 hpf hne
    obtain ⟨b1, b2, b3⟩ := createDirectory_free_parent s hwf p n t1 t2 t3 hp0 hp1 hpf hne
    exact ⟨⟨a1, a2, b1, b2⟩, fun h0 h1 h2 => ⟨a3 h0 h1 h2, b3 h0 h1 h2⟩⟩
  · intro hfb hn0 hn1 hfresh off hslot
    exact createFile_own_block s p n now off hp0 hp1 hpf hfb hwf hn0 hn1 hfresh hslot

set_option maxRecDepth 1000000 in
theorem C34_create_in_free_parent_witness :
    (FormatDisk ⟨[], []⟩ 0 0).1.WF ∧
    fatAt (FormatDisk ⟨[], []⟩ 0 0).1 5 = FAT_FREE ∧
    findFreeBlock (FormatDisk ⟨[], []⟩ 0 0).1 ≠ .ok 5 ∧
    (CreateFile (FormatDisk ⟨[], []⟩ 0 0).1 5 [120] 0).2 = .err .invalidParent ∧
    (CreateDirectory (FormatDisk ⟨[], []⟩ 0 0).1 5 [120] 0 0 0).2 = .err .invalidParent ∧
    (CreateFile (FormatDisk ⟨[], []⟩ 0 0).1 5 [120] 0).1.FAT = (FormatDisk ⟨[], []⟩ 0 0).1.FAT ∧
    fatAt (FormatDisk ⟨[], []⟩ 0 0).1 0 = FAT_FREE ∧
    findFreeBlock (FormatDisk ⟨[], []⟩ 0 0).1 = .ok 0 ∧
    CreateFile (FormatDisk ⟨[], []⟩ 0 0).1 0 [120] 0
      = (setBlock (setFat (FormatDisk ⟨[], []⟩ 0 0).1 0 FAT_EOF) 0
          (copyAt (blockAt (FormatDisk ⟨[], []⟩ 0 0).1 0) 0
            (entryBytes ⟨mkName [120], TYPE_FILE, 0, 0, 0⟩)), .ok ()) ∧
    (CreateDirectory (FormatDisk ⟨[], []⟩ 0 0).1 0 [120] 0 0 0).2 = .ok () ∧
    ListEntries (CreateFile (FormatDisk ⟨[], []⟩ 0 0).1 0 [120] 0).1 0
      = .ok [⟨mkName [120], TYPE_FILE, 0, 0, 0⟩] :=
  ⟨by decide, by decide, by decide,
    (((C34_create_in_free_parent (FormatDisk ⟨[], []⟩ 0 0).1 (by decide) 5 [120] 0 0 0 0
      (by decide) (by decide) (by decide)).1 (by decide)).2 (by decide) (by decide)
      (by decide)).1,
    by decide, by decide, by decide, by decide,
    (C34_create_in_free_parent (FormatDisk ⟨[], []⟩ 0 0).1 (by decide) 0 [120] 0 0 0 0
      (by decide) (by decide) (by decide)).2 (by decide) (by decide) (by decide)
      (by
        intro e he
        revert he
        have : scanSlots (blockAt (FormatDisk ⟨[], []⟩ 0 0).1 0) slotOffsets = [] := by decide
        rw [this]
        intro he
        cases he) 0 (by decide),
    by decide, by decide⟩

/-! ## C35: the created file in the listing -/

theorem takeWhile_zeros (a : List Nat) (k : Nat) :
    (a ++ List.replicate k 0).takeWhile (fun b => b ≠ 0) = a.takeWhile (fun b => b ≠ 0) := by
  induction a with
  | nil =>
    cases k with
    | zero => rfl
    | succ k =>
      rw [List.nil_append, List.replicate_succ, List.takeWhile_cons]
      simp
  | cons x a ih =>
    rw [List.cons_append, List.takeWhile_cons, List.takeWhile_cons, ih]

/-- The name a stored name field reads as: the bytes of `n` before its first zero byte. -/
theorem nameOf_mkName_any (n : List Nat) (h : n.length ≤ MAX_FILENAME_LEN)
    (hs : nameOf (mkName n) ≠ none) :
    nameOf (mkName n) = some (n.takeWhile (fun b => b ≠ 0)) := by
  unfold nameOf at hs ⊢
  by_cases hz : 0 ∈ mkName n
  · rw [if_pos hz, mkName_eq n h, takeWhile_zeros]
  · rw [if_neg hz] at hs
    exact absurd rfl hs

theorem takeWhile_all (n : List Nat) (hz : 0 ∉ n) : n.takeWhile (fun b => b ≠ 0) = n := by
  rw [List.takeWhile_eq_self_iff]
  intro x hx
  rw [decide_eq_true_eq]
  intro h
  exact hz (h ▸ hx)

/-- The listing of the parent after a `CreateFile` that succeeded with a name whose first byte
is not zero: the listing before, with the new entry put in. -/
theorem createFile_listed (s s2 : FSState) (p : Int) (n : List Nat) (now : Int)
    (hwf : s.WF) (hhead : n.getD 0 0 ≠ 0) (h : CreateFile s p n now = (s2, .ok ())) :
    ∃ b : Int, findFreeBlock s = .ok b ∧ s2.FAT = s.FAT.set b.toNat FAT_EOF ∧
      nameOf (mkName n) = some (n.takeWhile (fun b => b ≠ 0)) ∧
      ∃ l1 l2, ListEntries s p = .ok (l1 ++ l2) ∧
        ListEntries s2 p = .ok (l1 ++
          { Name := mkName n, EntryType := TYPE_FILE, StartBlock := b, Size := 0,
            ModTime := toSigned 8 (toUnsigned 8 now) } :: l2) := by
  obtain ⟨h0, h1, entries, b, hle, _, hfb, hadd⟩ := createFile_ok_inv s s2 p n now h
  obtain ⟨hb0, hb1, hbfree, _⟩ := findFreeBlock_ok s b hfb
  obtain ⟨hp0, hp1, _, hloop⟩ := addEntry_ok_inv _ s2 p _ (mkName_length n) hadd
  have hwf1 : (setFat s b FAT_EOF).WF := WF_setFat s b FAT_EOF hwf
  have hbl : b.toNat < s.FAT.length := by rw [hwf.2.2]; omega
  have hfat : s2.FAT = s.FAT.set b.toNat FAT_EOF := by
    have := addLoop_FAT (setFat s b FAT_EOF) ⟨mkName n, TYPE_FILE, b, 0, now⟩
      (entryBytes ⟨mkName n, TYPE_FILE, b, 0, now⟩) walkFuel p
    rw [hloop] at this
    exact this
  have hname : nameOf (mkName n) ≠ none := by
    intro hnone
    exact addLoop_not_ok (setFat s b FAT_EOF) ⟨mkName n, TYPE_FILE, b, 0, now⟩ _ hnone
      walkFuel p (by rw [hloop])
  rw [listEntries_inRange s p hp0 hp1] at hle
  have hl1 : listLoop (setFat s b FAT_EOF) walkFuel p = .ok entries := by
    rw [listLoop_setFat_alloc s b walkFuel p hb0 hbl hbfree]
    exact hle
  have hmk : (mkName n).getD 0 0 = n.getD 0 0 := by
    rw [mkName_eq n h1]
    cases n with
    | nil => exact absurd rfl h0
    | cons x n => rfl
  have hhead2 : (entryBytes ⟨mkName n, TYPE_FILE, b, 0, now⟩).getD 0 0 ≠ 0 := by
    rw [entryBytes_head _ (name_ne_nil _ (mkName_length n))]
    show (mkName n).getD 0 0 ≠ 0
    rw [hmk]
    exact hhead
  obtain ⟨_, l1, l2, hold, hnew⟩ := listLoop_after_add (setFat s b FAT_EOF) hwf1
    ⟨mkName n, TYPE_FILE, b, 0, now⟩ _ _ (entryBytes_length _ (mkName_length n)) hhead2
    (deserialize_new_entry (mkName n) TYPE_FILE b 0 now (mkName_length n) (by decide)
      ⟨hb0, hb1⟩ (by decide)) walkFuel p entries s2 hl1 hloop
  refine ⟨b, hfb, hfat, nameOf_mkName_any n h1 hname, l1, l2, ?_, ?_⟩
  · rw [listEntries_inRange s p hp0 hp1, hle, hold]
  · rw [listEntries_inRange s2 p hp0 hp1, hnew]

/-- C35 (as amended): for every name `n` without a zero byte, when `CreateFile(p, n)` returns
success the listing of `p` afterwards contains an entry of type FILE whose name reads `n` and
whose StartBlock is the block `findFreeBlock` handed out to the call (free before, `FAT_EOF`
after). For a name whose first byte is not zero the same holds with the name read as the
bytes of `n` before its first zero byte. -/
theorem C35_created_file_listed (s s2 : FSState) (p : Int) (n : List Nat) (now : Int)
    (hwf : s.WF) (hhead : n.getD 0 0 ≠ 0) (h : CreateFile s p n now = (s2, .ok ())) :
    1 ≤ n.length ∧ n.length ≤ MAX_FILENAME_LEN ∧
    ∃ b : Int, findFreeBlock s = .ok b ∧ fatAt s b = FAT_FREE ∧ fatAt s2 b = FAT_EOF ∧
      ∃ L e, ListEntries s2 p = .ok L ∧ e ∈ L ∧ e.EntryType = TYPE_FILE ∧ e.StartBlock = b ∧
        nameOf e.Name = some (n.takeWhile (fun b => b ≠ 0)) ∧
        (0 ∉ n → nameOf e.Name = some n) := by
  obtain ⟨h0, h1, _⟩ := createFile_ok_inv s s2 p n now h
  obtain ⟨b, hfb, hfat, hname, l1, l2, _, hnew⟩ := createFile_listed s s2 p n now hwf hhead h
  obtain ⟨hb0, hb1, hbfree, _⟩ := findFreeBlock_ok s b hfb
  refine ⟨by omega, h1, b, hfb, hbfree, ?_, _, _, hnew,
    List.mem_append_right _ (List.mem_cons_self _ _), rfl, rfl, hname, ?_⟩
  · unfold fatAt
    rw [hfat]
    exact getD_set_self _ _ _ _ (by rw [hwf.2.2]; omega)
  · intro hz
    show nameOf (mkName n) = some n
    rw [hname, takeWhile_all n hz]

set_option maxRecDepth 1000000 in
/-- C35 as stated fails for names with a zero byte. After `new_filesystem`,
`create_file(1, n)` with `n` = "a", 0, "b" succeeds and the root lists the new entry under the
name "a": no listed entry has the name `n`. With `n` = [0] the call succeeds, allocates block
0, and the root lists "." and ".." only. -/
theorem C35_counterexample :
    ((CreateFile (NewFileSystem ⟨[], []⟩ 0 0).1 1 [97, 0, 98] 0).2 = .ok () ∧
      ListEntries (CreateFile (NewFileSystem ⟨[], []⟩ 0 0).1 1 [97, 0, 98] 0).1 1 = .ok
        [⟨mkName [46], TYPE_DIRECTORY, 1, 0, 0⟩, ⟨mkName [46, 46], TYPE_DIRECTORY, 1, 0, 0⟩,
         ⟨mkName [97, 0, 98], TYPE_FILE, 0, 0, 0⟩] ∧
      nameOf (mkName [97, 0, 98]) = some [97] ∧
      ∀ e ∈ [(⟨mkName [46], TYPE_DIRECTORY, 1, 0, 0⟩ : DirectoryEntry),
          ⟨mkName [46, 46], TYPE_DIRECTORY, 1, 0, 0⟩, ⟨mkName [97, 0, 98], TYPE_FILE, 0, 0, 0⟩],
        nameOf e.Name ≠ some [97, 0, 98]) ∧
    ((CreateFile (NewFileSystem ⟨[], []⟩ 0 0).1 1 [0] 0).2 = .ok () ∧
      fatAt (CreateFile (NewFileSystem ⟨[], []⟩ 0 0).1 1 [0] 0).1 0 = FAT_EOF ∧
      ListEntries (CreateFile (NewFileSystem ⟨[], []⟩ 0 0).1 1 [0] 0).1 1 = .ok
        [⟨mkName [46], TYPE_DIRECTORY, 1, 0, 0⟩, ⟨mkName [46, 46], TYPE_DIRECTORY, 1, 0, 0⟩]) := by
  decide

set_option maxRecDepth 1000000 in
theorem C35_created_file_listed_witness :
    (NewFileSystem ⟨[], []⟩ 0 0).1.WF ∧ ([97, 98].getD 0 0 ≠ 0) ∧
    (CreateFile (NewFileSystem ⟨[], []⟩ 0 0).1 1 [97, 98] 0).2 = .ok () ∧
    1 ≤ [97, 98].length ∧ [97, 98].length ≤ MAX_FILENAME_LEN ∧
    ∃ b : Int, findFreeBlock (NewFileSystem ⟨[], []⟩ 0 0).1 = .ok b ∧
      fatAt (NewFileSystem ⟨[], []⟩ 0 0).1 b = FAT_FREE ∧
      fatAt (CreateFile (NewFileSystem ⟨[], []⟩ 0 0).1 1 [97, 98] 0).1 b = FAT_EOF ∧
      ∃ L e, ListEntries (CreateFile (NewFileSystem ⟨[], []⟩ 0 0).1 1 [97, 98] 0).1 1 = .ok L ∧
        e ∈ L ∧ e.EntryType = TYPE_FILE ∧ e.StartBlock = b ∧
        nameOf e.Name = some ([97, 98].takeWhile (fun b => b ≠ 0)) ∧
        (0 ∉ [97, 98] → nameOf e.Name = some [97, 98]) :=
  ⟨by decide, by decide, by decide,
    C35_created_file_listed _ _ 1 [97, 98] 0 (by decide) (by decide)
      (Prod.ext rfl (by decide))⟩

/-! ## C36: entering a new directory and coming back -/

theorem blockAt_setBlock_cases (s : FSState) (q c : Int) (blk : List Nat) :
    blockAt (setBlock s q blk) c = blk ∨ blockAt (setBlock s q blk) c = blockAt s c := by
  by_cases h : q.toNat = c.toNat
  · by_cases hlt : q.toNat < s.Disk.length
    · left
      unfold blockAt setBlock
      rw [← h]
      exact getD_set_self _ _ _ _ hlt
    · right
      unfold blockAt setBlock
      simp only
      rw [List.set_eq_of_length_le (by omega)]
  · right
    exact blockAt_setBlock_ne s q c blk h

/-- After one block is overwritten a listing still succeeds, and every entry it returns was
listed before or is read from the new bytes of that block. -/
theorem listLoop_setBlock_any (s : FSState) (q : Int) (blk : List Nat) (fuel : Nat) :
    ∀ (cur : Int) (L : List DirectoryEntry), listLoop s fuel cur = .ok L →
      ∃ L2, listLoop (setBlock s q blk) fuel cur = .ok L2 ∧
        ∀ x ∈ L2, x ∈ L ∨ x ∈ scanSlots blk slotOffsets := by
  induction fuel with
  | zero =>
    intro cur L h
    simp [listLoop] at h
  | succ fuel ih =>
    intro cur L h
    by_cases ht : endsWalk cur
    · have hsame : listLoop (setBlock s q blk) (fuel + 1) cur = listLoop s (fuel + 1) cur := by
        rw [endsWalk_iff] at ht
        unfold listLoop
        rcases ht with ht | ht
        · rw [if_pos ht, if_pos ht]
        · by_cases h1 : cur = FAT_EOF ∨ cur = FAT_FREE
          · rw [if_pos h1, if_pos h1]
          · rw [if_neg h1, if_neg h1, if_pos ht, if_pos ht]
      exact ⟨L, by rw [hsame, h], fun x hx => Or.inl hx⟩
    · obtain ⟨rest, hr, hL⟩ := listLoop_step_ok s fuel cur ht L h
      obtain ⟨R2, hR2, hsub⟩ := ih (fatAt s cur) rest hr
      refine ⟨scanSlots (blockAt (setBlock s q blk) cur) slotOffsets ++ R2, ?_, ?_⟩
      · rw [listLoop_step _ _ _ ht, fatAt_setBlock, hR2]
      · intro x hx
        rcases List.mem_append.mp hx with hx | hx
        · rcases blockAt_setBlock_cases s q cur blk with hb | hb
          · rw [hb] at hx
            exact Or.inr hx
          · rw [hb] at hx
            rw [hL]
            exact Or.inl (List.mem_append_left _ hx)
        · rcases hsub x hx with h2 | h2
          · rw [hL]
            exact Or.inl (List.mem_append_right _ h2)
          · exact Or.inr h2

/-- When every listed name is zero-terminated, the entries named `target` are directories and
one of them is listed, the search of `ChangeDirectory` returns an entry named `target`. -/
theorem cdSearch_dir (target : List Nat) (L : List DirectoryEntry)
    (hall : ∀ x ∈ L, ∃ nm, nameOf x.Name = some nm ∧
      (nm = target → x.EntryType = TYPE_DIRECTORY))
    (hex : ∃ x ∈ L, nameOf x.Name = some target) :
    ∃ y ∈ L, cdSearch target L = .ok (some y) ∧ nameOf y.Name = some target := by
  induction L with
  | nil =>
    obtain ⟨x, hx, _⟩ := hex
    cases hx
  | cons a L ih =>
    obtain ⟨nm, hnm, hdir⟩ := hall a (List.mem_cons_self _ _)
    by_cases hn : nm = target
    · refine ⟨a, List.mem_cons_self _ _, ?_, by rw [hnm, hn]⟩
      rw [cdSearch]
      simp only [hnm, if_pos hn, if_pos (hdir hn)]
    · have hex2 : ∃ x ∈ L, nameOf x.Name = some target := by
        obtain ⟨x, hx, hxn⟩ := hex
        rcases List.mem_cons.mp hx with h | h
        · rw [h, hnm] at hxn
          injection hxn with hxn
          exact absurd hxn hn
        · exact ⟨x, h, hxn⟩
      obtain ⟨y, hy, hs, hyn⟩ := ih (fun x hx => hall x (List.mem_cons_of_mem _ hx)) hex2
      refine ⟨y, List.mem_cons_of_mem _ hy, ?_, hyn⟩
      rw [cdSearch]
      simp only [hnm, if_neg hn]
      exact hs

theorem changeDirectory_found (s : FSState) (d : Int) (target : List Nat)
    (entries : List DirectoryEntry) (e : DirectoryEntry) (h1 : target ≠ [47])
    (h2 : target ≠ [46]) (hl : ListEntries s d = .ok entries)
    (hs : cdSearch target entries = .ok (some e))
    (hb0 : 0 ≤ e.StartBlock) (hb1 : e.StartBlock < (TOTAL_BLOCKS : Int))
    (hbf : fatAt s e.StartBlock ≠ FAT_FREE) :
    ChangeDirectory s (some ⟨d⟩) target = (s, some ⟨e.StartBlock⟩, .ok ()) := by
  have hv : ¬ (e.StartBlock < 0 ∨ e.StartBlock ≥ (TOTAL_BLOCKS : Int)
      ∨ fatAt s e.StartBlock = FAT_FREE) := by
    rintro (h | h | h)
    · omega
    · omega
    · exact hbf h
  unfold ChangeDirectory
  simp only [if_neg h1, if_neg h2, hl, hs, if_neg hv]

theorem scan_two (s : FSState) (d : Int) (r0 r1 : DirectoryEntry)
    (h0 : entryAt s d 0 = some r0) (h1 : entryAt s d 49 = some r1) :
    scanSlots (blockAt s d) slotOffsets = r0 :: r1 :: scanSlots (blockAt s d) ownSlots := by
  obtain ⟨a0, b0⟩ := (entryAt_some s d 0 r0).mp h0
  obtain ⟨a1, b1⟩ := (entryAt_some s d 49 r1).mp h1
  rw [slotOffsets_own, scanSlots, slotData_getD_zero, if_neg a0]
  simp only [b0]
  rw [scanSlots, slotData_getD_zero, if_neg a1]
  simp only [b1]

/-- In a one-block directory whose first two slots hold "." and "..", the latter a directory
entry with an allocated start block, `ChangeDirectory` to ".." goes to that block. -/
theorem cd_dotdot (s : FSState) (d : Int) (r0 r1 : DirectoryEntry) (hd0 : 0 ≤ d)
    (hd1 : d < (TOTAL_BLOCKS : Int)) (hf : fatAt s d = FAT_EOF)
    (h0 : entryAt s d 0 = some r0) (hn0 : nameOf r0.Name = some [46])
    (h1 : entryAt s d 49 = some r1) (hn1 : nameOf r1.Name = some [46, 46])
    (ht : r1.EntryType = TYPE_DIRECTORY)
    (hb0 : 0 ≤ r1.StartBlock) (hb1 : r1.StartBlock < (TOTAL_BLOCKS : Int))
    (hbf : fatAt s r1.StartBlock ≠ FAT_FREE) :
    ChangeDirectory s (some ⟨d⟩) [46, 46] = (s, some ⟨r1.StartBlock⟩, .ok ()) := by
  apply changeDirectory_found s d [46, 46] _ r1 (by decide) (by decide)
    (listEntries_dir s d hd0 hd1 hf) _ hb0 hb1 hbf
  rw [scan_two s d r0 r1 h0 h1, cdSearch]
  simp only [hn0]
  rw [if_neg (by decide), cdSearch]
  simp only [hn1, if_pos, if_pos ht]

/-- At the root of a state with the shape `Tree`, `ChangeDirectory` to ".." succeeds and
stays at the root. -/
theorem tree_cd_root (s : FSState) (hT : Tree s) :
    ChangeDirectory s (some ⟨ROOT_DIR_BLOCK⟩) [46, 46]
      = (s, some ⟨ROOT_DIR_BLOCK⟩, .ok ()) := by
  obtain ⟨h0, h1, hf, ⟨e0, he0, hn0, _, _⟩, ⟨e1, he1, hn1, ht1, hs1⟩⟩ :=
    hT.dir ROOT_DIR_BLOCK RDir.root
  have hsb : e1.StartBlock = ROOT_DIR_BLOCK := by
    rcases hs1 with ⟨_, h⟩ | ⟨off, e, ho, _, hse⟩
    · exact h
    · exfalso
      have := hT.rootFree _ off e ho
      rw [hse, tree_dir_chain s hT ROOT_DIR_BLOCK RDir.root] at this
      exact this (List.mem_singleton.mpr rfl)
  have := cd_dotdot s ROOT_DIR_BLOCK e0 e1 h0 h1 hf he0 hn0 he1 hn1 ht1
    (by rw [hsb]; exact h0) (by rw [hsb]; exact h1)
    (by rw [hsb, hf]; decide)
  rw [hsb] at this
  exact this

/-- An entry written into the first free slot of a block leaves the entries of all slots in
use where they are. -/
theorem entryAt_add_other (s : FSState) (hwf : s.WF) (q d : Int) (off o : Nat)
    (bytes : List Nat) (hq : ¬ endsWalk q) (hd0 : 0 ≤ d)
    (hb : bytes.length = DIRECTORY_ENTRY_SIZE)
    (hslot : firstFreeSlot (blockAt s q) slotOffsets = some off) (ho : o ∈ slotOffsets)
    (r : DirectoryEntry) (hr : entryAt s d o = some r) :
    entryAt (setBlock s q (copyAt (blockAt s q) off bytes)) d o = some r := by
  obtain ⟨_, _, hq0, hq1⟩ := not_endsWalk q hq
  by_cases hqd : q = d
  · subst hqd
    obtain ⟨pre, post, _, hz, _, _⟩ := firstFreeSlot_some _ _ _ hslot
    rw [slotData_getD_zero] at hz
    have hmem := firstFreeSlot_mem _ _ _ hslot
    have hne : o ≠ off := by
      intro h
      rw [h] at hr
      unfold entryAt at hr
      rw [if_pos hz] at hr
      cases hr
    have hsep := slotOffsets_sep off hmem o ho
    rw [← hr]
    apply entryAt_slot_congr
    rw [blockAt_setBlock_self s q _ (WF_blockAt_lt s hwf q hq1)]
    apply slotData_copyAt_other _ _ _ _ hb
    · rw [blockAt_length s hwf q hq0 hq1]
      exact hsep.1
    · rcases hsep.2 with h | h | h
      · exact absurd h.symm hne
      · exact Or.inr h
      · exact Or.inl h
  · rw [← hr]
    exact entryAt_congr s _ d (blockAt_setBlock_ne s q d _ (toNat_ne hq0 hd0 hqd)) o

/-- After a successful `CreateDirectory(p, n)` with a name without zero byte other than "/" and
".": `ChangeDirectory` to `n` from `p` succeeds, and `ChangeDirectory` to ".." from the block
it reaches succeeds and leads back to `p`. The block reached is the new directory block,
unless `n` is ".." and the ".." of the new block is listed in `p` itself. -/
theorem createDirectory_cd (s s2 : FSState) (hwf : s.WF) (p : Int) (n : List Nat)
    (t1 t2 t3 : Int) (hz : 0 ∉ n) (hs : n ≠ [47]) (hd : n ≠ [46])
    (h : CreateDirectory s p n t1 t2 t3 = (s2, .ok ())) :
    ∃ c, ChangeDirectory s2 (some ⟨p⟩) n = (s2, some ⟨c⟩, .ok ()) ∧
      ChangeDirectory s2 (some ⟨c⟩) [46, 46] = (s2, some ⟨p⟩, .ok ()) ∧
      (n ≠ [46, 46] → findFreeBlock s = .ok c) := by
  obtain ⟨hn0, hn1, entries, b, hle, htk, hfb, hadd⟩ :=
    createDirectory_ok_inv s s2 hwf p n t1 t2 t3 h
  obtain ⟨hb0, hb1, hbfree, _⟩ := findFreeBlock_ok s b hfb
  obtain ⟨hp0, hp1, hpf, hloop⟩ := addEntry_ok_inv _ s2 p _ (mkName_length n) hadd
  have hlt : n.length < MAX_FILENAME_LEN :=
    name_short_of_add_ok _ s2 _ _ walkFuel p n rfl hn1 hz hloop
  have hname : nameOf (mkName n) = some n := nameOf_mkName n hlt hz
  have hwf1 := WF_setFat s b FAT_EOF hwf
  have hwf4 : (setBlock (setFat s b FAT_EOF) b (newDirBlock b p t1 t2)).WF :=
    WF_setBlock _ b _ hwf1 (newDirBlock_length b p t1 t2)
  have hbl : b.toNat < s.FAT.length := WF_fatAt_lt s hwf b hb1
  have hother := nameTaken_false n entries htk
  rw [listEntries_inRange s p hp0 hp1] at hle
  have hl1 : listLoop (setFat s b FAT_EOF) walkFuel p = .ok entries := by
    rw [listLoop_setFat_alloc s b walkFuel p hb0 hbl hbfree]
    exact hle
  obtain ⟨old4, hl4, hsub⟩ := listLoop_setBlock_any (setFat s b FAT_EOF) b
    (newDirBlock b p t1 t2) walkFuel p entries hl1
  have hdot := deserialize_new_entry (mkName [46]) TYPE_DIRECTORY b (2 * DIRECTORY_ENTRY_SIZE)
    t1 (mkName_length _) (by decide) ⟨hb0, hb1⟩ (by decide)
  have hdotdot := deserialize_new_entry (mkName [46, 46]) TYPE_DIRECTORY p 0 t2
    (mkName_length _) (by decide) ⟨hp0, hp1⟩ (by decide)
  have hscan : scanSlots (newDirBlock b p t1 t2) slotOffsets
      = [⟨mkName [46], TYPE_DIRECTORY, b, 2 * DIRECTORY_ENTRY_SIZE, toSigned 8 (toUnsigned 8 t1)⟩,
         ⟨mkName [46, 46], TYPE_DIRECTORY, p, 0, toSigned 8 (toUnsigned 8 t2)⟩] :=
    format_root_scan _ _ (mkName_length _) (mkName_length _)
      (show (mkName [46]).getD 0 0 ≠ 0 by decide)
      (show (mkName [46, 46]).getD 0 0 ≠ 0 by decide) _ _ hdot hdotdot
  have hde := deserialize_new_entry (mkName n) TYPE_DIRECTORY b (2 * DIRECTORY_ENTRY_SIZE) t3
    (mkName_length n) (by decide) ⟨hb0, hb1⟩ (by decide)
  have hhead : (entryBytes ⟨mkName n, TYPE_DIRECTORY, b, 2 * DIRECTORY_ENTRY_SIZE, t3⟩).getD 0 0
      ≠ 0 := by
    rw [entryBytes_head _ (by
      intro hnil
      have := mkName_length n
      rw [show (DirectoryEntry.mk (mkName n) TYPE_DIRECTORY b (2 * DIRECTORY_ENTRY_SIZE) t3).Name
        = mkName n from rfl] at hnil
      rw [hnil] at this
      exact absurd this (by decide))]
    exact mkName_head n hn0 hn1 hz
  obtain ⟨⟨q, off, hqe, _, hslot, hs2⟩, l1, l2, hold, hnew⟩ := listLoop_after_add _ hwf4
    ⟨mkName n, TYPE_DIRECTORY, b, 2 * DIRECTORY_ENTRY_SIZE, t3⟩ _ _
    (entryBytes_length _ (mkName_length n)) hhead hde walkFuel p old4 s2 hl4 hloop
  have hfat : ∀ x, fatAt s2 x = fatAt (setFat s b FAT_EOF) x := by
    intro x
    rw [hs2]
    rfl
  have hfb2 : fatAt s2 b = FAT_EOF := by
    rw [hfat, fatAt_setFat_self s b FAT_EOF hbl]
  have hfp2 : fatAt s2 p ≠ FAT_FREE := by
    rw [hfat]
    exact hpf
  have hEF : FAT_EOF ≠ FAT_FREE := by decide
  have hlist : ListEntries s2 p = .ok (l1 ++
      ⟨mkName n, TYPE_DIRECTORY, b, 2 * DIRECTORY_ENTRY_SIZE, toSigned 8 (toUnsigned 8 t3)⟩
        :: l2) := by
    rw [listEntries_inRange s2 p hp0 hp1, hnew]
  -- every listed entry is the new entry, an entry listed before, or "." / ".." of the block
  have hmem : ∀ x ∈ l1 ++
      (⟨mkName n, TYPE_DIRECTORY, b, 2 * DIRECTORY_ENTRY_SIZE, toSigned 8 (toUnsigned 8 t3)⟩
        : DirectoryEntry) :: l2,
      x = ⟨mkName n, TYPE_DIRECTORY, b, 2 * DIRECTORY_ENTRY_SIZE, toSigned 8 (toUnsigned 8 t3)⟩ ∨
      x ∈ entries ∨
      x = ⟨mkName [46], TYPE_DIRECTORY, b, 2 * DIRECTORY_ENTRY_SIZE, toSigned 8 (toUnsigned 8 t1)⟩ ∨
      x = ⟨mkName [46, 46], TYPE_DIRECTORY, p, 0, toSigned 8 (toUnsigned 8 t2)⟩ := by
    intro x hx
    have hx2 : x = ⟨mkName n, TYPE_DIRECTORY, b, 2 * DIRECTORY_ENTRY_SIZE,
        toSigned 8 (toUnsigned 8 t3)⟩ ∨ x ∈ old4 := by
      rw [hold]
      rcases List.mem_append.mp hx with h1 | h1
      · exact Or.inr (List.mem_append_left _ h1)
      · rcases List.mem_cons.mp h1 with h2 | h2
        · exact Or.inl h2
        · exact Or.inr (List.mem_append_right _ h2)
    rcases hx2 with h1 | h1
    · exact Or.inl h1
    · rcases hsub x h1 with h2 | h2
      · exact Or.inr (Or.inl h2)
      · rw [hscan] at h2
        simp only [List.mem_cons, List.mem_singleton, List.not_mem_nil, or_false] at h2
        exact Or.inr (Or.inr h2)
  have hd1 : nameOf (mkName [46]) = some [46] := by decide
  have hd2 : nameOf (mkName [46, 46]) = some [46, 46] := by decide
  obtain ⟨y, hy, hsearch, hyn⟩ := cdSearch_dir n _
    (fun x hx => by
      rcases hmem x hx with h1 | h1 | h1 | h1
      · rw [h1]
        exact ⟨n, hname, fun _ => rfl⟩
      · obtain ⟨nm, h2, h3⟩ := hother x h1
        exact ⟨nm, h2, fun h4 => absurd h4 h3⟩
      · rw [h1]
        exact ⟨[46], hd1, fun _ => rfl⟩
      · rw [h1]
        exact ⟨[46, 46], hd2, fun _ => rfl⟩)
    ⟨_, List.mem_append_right _ (List.mem_cons_self _ _), hname⟩
  -- the way back from the new block
  have hblk4 : blockAt (setBlock (setFat s b FAT_EOF) b (newDirBlock b p t1 t2)) b
      = newDirBlock b p t1 t2 :=
    blockAt_setBlock_self _ b _ (WF_blockAt_lt _ hwf1 b hb1)
  obtain ⟨he0, he1, _⟩ := dirBlock_entries
    (setBlock (setFat s b FAT_EOF) b (newDirBlock b p t1 t2)) b _ _ _ _
    (mkName_length [46]) (mkName_length [46, 46])
    (show (mkName [46]).getD 0 0 ≠ 0 by decide) (show (mkName [46, 46]).getD 0 0 ≠ 0 by decide)
    hdot hdotdot hblk4
  have hoffs0 : 0 ∈ slotOffsets := by decide
  have hoffs1 : 49 ∈ slotOffsets := by decide
  have hback : ChangeDirectory s2 (some ⟨b⟩) [46, 46] = (s2, some ⟨p⟩, .ok ()) := by
    have hbytes := entryBytes_length
      ⟨mkName n, TYPE_DIRECTORY, b, 2 * DIRECTORY_ENTRY_SIZE, t3⟩ (mkName_length n)
    have h0 := entryAt_add_other _ hwf4 q b off 0 _ hqe hb0 hbytes hslot hoffs0 _ he0
    have h1 := entryAt_add_other _ hwf4 q b off 49 _ hqe hb0 hbytes hslot hoffs1 _ he1
    rw [← hs2] at h0 h1
    exact cd_dotdot s2 b _ _ hb0 hb1 hfb2 h0 hd1 h1 hd2 rfl hp0 hp1 hfp2
  rcases hmem y hy with h1 | h1 | h1 | h1
  · have hc := changeDirectory_found s2 p n _ y hs hd hlist hsearch
      (by rw [h1]; exact hb0) (by rw [h1]; exact hb1) (by rw [h1, hfb2]; exact hEF)
    rw [h1] at hc
    exact ⟨b, hc, hback, fun _ => hfb⟩
  · exfalso
    obtain ⟨nm, h2, h3⟩ := hother y h1
    rw [h2] at hyn
    injection hyn with hyn
    exact h3 hyn
  · exfalso
    rw [h1] at hyn
    rw [show (DirectoryEntry.mk (mkName [46]) TYPE_DIRECTORY b (2 * DIRECTORY_ENTRY_SIZE)
      (toSigned 8 (toUnsigned 8 t1))).Name = mkName [46] from rfl, hd1] at hyn
    injection hyn with hyn
    exact hd hyn.symm
  · have hc := changeDirectory_found s2 p n _ y hs hd hlist hsearch
      (by rw [h1]; exact hp0) (by rw [h1]; exact hp1) (by rw [h1]; exact hfp2)
    rw [h1] at hc hyn
    rw [show (DirectoryEntry.mk (mkName [46, 46]) TYPE_DIRECTORY p 0
      (toSigned 8 (toUnsigned 8 t2))).Name = mkName [46, 46] from rfl, hd2] at hyn
    injection hyn with hyn
    refine ⟨p, hc, ?_, fun h => absurd hyn.symm h⟩
    rw [hyn]
    exact hc

/-- C36 (as amended). (1) In every state with the disk and FAT dimensions set by format, for
every name `n` without a zero byte other than "/" and ".": when `CreateDirectory(p, n)`
succeeds, `ChangeDirectory` to `n` in a session whose current block is `p` succeeds, and
`ChangeDirectory` to ".." from there succeeds and leaves the session at `p`; for `n` other than
".." the first call leads to the block the creation allocated.
(2) After `NewFileSystem` and any sequence of calls made on the tree, `ChangeDirectory` to ".."
in a session at the root succeeds and stays at `ROOT_DIR_BLOCK`.
(3) In such a state the name "/" is no exception when the parent is the root: after a
successful `CreateDirectory(ROOT_DIR_BLOCK, "/")`, `ChangeDirectory` to "/" and then to ".."
both succeed and leave the session at the root. -/
theorem C36_cd_round_trip (s s2 : FSState) (p : Int) (n : List Nat) (t1 t2 t3 : Int)
    (prior : FSState) (u1 u2 : Int) (ops : List Op) (hwf : s.WF)
    (hon : allOnTree (NewFileSystem prior u1 u2).1 ops) :
    (0 ∉ n → n ≠ [47] → n ≠ [46] → CreateDirectory s p n t1 t2 t3 = (s2, .ok ()) →
      ∃ c, ChangeDirectory s2 (some ⟨p⟩) n = (s2, some ⟨c⟩, .ok ()) ∧
        ChangeDirectory s2 (some ⟨c⟩) [46, 46] = (s2, some ⟨p⟩, .ok ()) ∧
        (n ≠ [46, 46] → findFreeBlock s = .ok c)) ∧
    ChangeDirectory (runOps (NewFileSystem prior u1 u2).1 ops) (some ⟨ROOT_DIR_BLOCK⟩) [46, 46]
      = (runOps (NewFileSystem prior u1 u2).1 ops, some ⟨ROOT_DIR_BLOCK⟩, .ok ()) ∧
    (∀ r2, CreateDirectory (runOps (NewFileSystem prior u1 u2).1 ops) ROOT_DIR_BLOCK [47]
        t1 t2 t3 = (r2, .ok ()) →
      ChangeDirectory r2 (some ⟨ROOT_DIR_BLOCK⟩) [47] = (r2, some ⟨ROOT_DIR_BLOCK⟩, .ok ()) ∧
      ChangeDirectory r2 (some ⟨ROOT_DIR_BLOCK⟩) [46, 46]
        = (r2, some ⟨ROOT_DIR_BLOCK⟩, .ok ())) := by
  have hT0 : Tree (NewFileSystem prior u1 u2).1 := by
    rw [(newFileSystem_state prior u1 u2).1]
    exact tree_format prior u1 u2
  have hT := tree_runOps ops _ hT0 hon
  refine ⟨fun hz hs hd h => createDirectory_cd s s2 hwf p n t1 t2 t3 hz hs hd h,
    tree_cd_root _ hT, ?_⟩
  intro r2 h
  have hT2 := tree_createDirectory _ ROOT_DIR_BLOCK [47] t1 t2 t3 hT RDir.root
    ⟨by decide, by decide⟩
  rw [h] at hT2
  exact ⟨rfl, tree_cd_root r2 hT2⟩

set_option maxRecDepth 1000000 in
theorem C36_cd_round_trip_witness :
    (NewFileSystem ⟨[], []⟩ 0 0).1.WF ∧
    allOnTree (NewFileSystem ⟨[], []⟩ 0 0).1 [.createDirectory 1 [100] 0 0 0] ∧
    (CreateDirectory (NewFileSystem ⟨[], []⟩ 0 0).1 1 [100] 0 0 0).2 = .ok () ∧
    (∃ c, ChangeDirectory (CreateDirectory (NewFileSystem ⟨[], []⟩ 0 0).1 1 [100] 0 0 0).1
          (some ⟨1⟩) [100]
        = ((CreateDirectory (NewFileSystem ⟨[], []⟩ 0 0).1 1 [100] 0 0 0).1, some ⟨c⟩, .ok ()) ∧
      ChangeDirectory (CreateDirectory (NewFileSystem ⟨[], []⟩ 0 0).1 1 [100] 0 0 0).1
          (some ⟨c⟩) [46, 46]
        = ((CreateDirectory (NewFileSystem ⟨[], []⟩ 0 0).1 1 [100] 0 0 0).1, some ⟨1⟩, .ok ()) ∧
      ([100] ≠ [46, 46] → findFreeBlock (NewFileSystem ⟨[], []⟩ 0 0).1 = .ok c)) ∧
    ChangeDirectory (runOps (NewFileSystem ⟨[], []⟩ 0 0).1 [.createDirectory 1 [100] 0 0 0])
        (some ⟨ROOT_DIR_BLOCK⟩) [46, 46]
      = (runOps (NewFileSystem ⟨[], []⟩ 0 0).1 [.createDirectory 1 [100] 0 0 0],
          some ⟨ROOT_DIR_BLOCK⟩, .ok ()) :=
  ⟨by decide, ⟨⟨Reach.root, by decide, by decide⟩, trivial⟩, by decide,
    (C36_cd_round_trip (NewFileSystem ⟨[], []⟩ 0 0).1 _ 1 [100] 0 0 0 ⟨[], []⟩ 0 0
      [.createDirectory 1 [100] 0 0 0] (by decide)
      ⟨⟨Reach.root, by decide, by decide⟩, trivial⟩).1 (by decide) (by decide) (by decide)
      (Prod.ext rfl (by decide)),
    (C36_cd_round_trip (NewFileSystem ⟨[], []⟩ 0 0).1
      (CreateDirectory (NewFileSystem ⟨[], []⟩ 0 0).1 1 [100] 0 0 0).1 1 [100] 0 0 0 ⟨[], []⟩ 0 0
      [.createDirectory 1 [100] 0 0 0] (by decide)
      ⟨⟨Reach.root, by decide, by decide⟩, trivial⟩).2.1⟩

set_option maxRecDepth 1000000 in
/-- C36, counterexamples to the claim as written, each run from `new_filesystem`.
(1) The name "/": after `create_directory(1, "d")` (block 0), `create_directory(0, "/")`
succeeds, `change_directory("/")` from block 0 goes to the root and `change_directory("..")`
stays there: both succeed and the session ends at block 1, not at block 0.
(2) A name with a zero byte: `create_directory(1, "a\x00b")` succeeds and
`change_directory("a\x00b")` fails with `entryNotFound`.
(3) The name ".": after `create_file(1, "a")` (block 0), `create_directory(0, ".")` succeeds,
`change_directory(".")` leaves the session at block 0 and `change_directory("..")` fails with
`entryNotFound`.
(4) At the root: after `create_file(1, "a")`, `write_file` of the listed entry of "a" with the
49 bytes of an entry named "r" (FILE, StartBlock 1) and `delete_entry(0, "r")`, all three
successful, `change_directory("..")` at the root fails with `invalidTarget`. -/
theorem C36_counterexample :
    ((CreateDirectory (NewFileSystem ⟨[], []⟩ 0 0).1 1 [100] 0 0 0).2 = .ok () ∧
      (CreateDirectory (CreateDirectory (NewFileSystem ⟨[], []⟩ 0 0).1 1 [100] 0 0 0).1
        0 [47] 0 0 0).2 = .ok () ∧
      (ChangeDirectory (runOps (NewFileSystem ⟨[], []⟩ 0 0).1
          [.createDirectory 1 [100] 0 0 0, .createDirectory 0 [47] 0 0 0])
        (some ⟨0⟩) [47]).2 = (some ⟨1⟩, .ok ()) ∧
      (ChangeDirectory (runOps (NewFileSystem ⟨[], []⟩ 0 0).1
          [.createDirectory 1 [100] 0 0 0, .createDirectory 0 [47] 0 0 0])
        (some ⟨1⟩) [46, 46]).2 = (some ⟨1⟩, .ok ())) ∧
    ((CreateDirectory (NewFileSystem ⟨[], []⟩ 0 0).1 1 [97, 0, 98] 0 0 0).2 = .ok () ∧
      (ChangeDirectory (CreateDirectory (NewFileSystem ⟨[], []⟩ 0 0).1 1 [97, 0, 98] 0 0 0).1
        (some ⟨1⟩) [97, 0, 98]).2 = (some ⟨1⟩, .err .entryNotFound)) ∧
    ((CreateFile (NewFileSystem ⟨[], []⟩ 0 0).1 1 [97] 0).2 = .ok () ∧
      (CreateDirectory (CreateFile (NewFileSystem ⟨[], []⟩ 0 0).1 1 [97] 0).1
        0 [46] 0 0 0).2 = .ok () ∧
      (ChangeDirectory (runOps (NewFileSystem ⟨[], []⟩ 0 0).1
          [.createFile 1 [97] 0, .createDirectory 0 [46] 0 0 0])
        (some ⟨0⟩) [46]).2 = (some ⟨0⟩, .ok ()) ∧
      (ChangeDirectory (runOps (NewFileSystem ⟨[], []⟩ 0 0).1
          [.createFile 1 [97] 0, .createDirectory 0 [46] 0 0 0])
        (some ⟨0⟩) [46, 46]).2 = (some ⟨0⟩, .err .entryNotFound)) ∧
    ((CreateFile (NewFileSystem ⟨[], []⟩ 0 0).1 1 [97] 0).2 = .ok () ∧
      (WriteToFile (CreateFile (NewFileSystem ⟨[], []⟩ 0 0).1 1 [97] 0).1
        ⟨mkName [97], TYPE_FILE, 0, 0, 0⟩ 1
        (entryBytes ⟨mkName [114], TYPE_FILE, 1, 0, 0⟩) 0).2.2 = .ok () ∧
      (DeleteEntry (WriteToFile (CreateFile (NewFileSystem ⟨[], []⟩ 0 0).1 1 [97] 0).1
        ⟨mkName [97], TYPE_FILE, 0, 0, 0⟩ 1
        (entryBytes ⟨mkName [114], TYPE_FILE, 1, 0, 0⟩) 0).1 0 [114]).2 = .ok () ∧
      (ChangeDirectory (runOps (NewFileSystem ⟨[], []⟩ 0 0).1
          [.createFile 1 [97] 0,
           .writeFile ⟨mkName [97], TYPE_FILE, 0, 0, 0⟩ 1
             (entryBytes ⟨mkName [114], TYPE_FILE, 1, 0, 0⟩) 0,
           .deleteEntry 0 [114]])
        (some ⟨ROOT_DIR_BLOCK⟩) [46, 46]).2 = (some ⟨ROOT_DIR_BLOCK⟩, .err .invalidTarget)) := by
  decide

/-! ## C17, C14: calls that meet a listed name without a zero byte -/

set_option maxRecDepth 1000000 in
/-- The five calls of `rewriteRoot` all return success, and with the bytes `openNameBlock`
they leave a root that lists ".", "..", a file whose name has no zero byte, the file "b" and
the directory "d", whose block 0 lists the file "q". -/
theorem rewriteRoot_run :
    runResults (NewFileSystem ⟨[], []⟩ 0 0).1 (rewriteRoot openNameBlock)
      = [.ok (), .ok (), .ok (), .ok (), .ok ()] ∧
    (runOps (NewFileSystem ⟨[], []⟩ 0 0).1 (rewriteRoot openNameBlock)).WF ∧
    ListEntries (runOps (NewFileSystem ⟨[], []⟩ 0 0).1 (rewriteRoot openNameBlock)) 1
      = .ok [⟨mkName [46], TYPE_DIRECTORY, 1, 0, 0⟩, ⟨mkName [46, 46], TYPE_DIRECTORY, 1, 0, 0⟩,
          ⟨List.replicate 28 120, TYPE_FILE, FAT_EOF, 0, 0⟩,
          ⟨mkName [98], TYPE_FILE, FAT_EOF, 0, 0⟩, ⟨mkName [100], TYPE_DIRECTORY, 0, 0, 0⟩] ∧
    ListEntries (runOps (NewFileSystem ⟨[], []⟩ 0 0).1 (rewriteRoot openNameBlock)) 0
      = .ok [⟨mkName [113], TYPE_FILE, 1, 245, 0⟩] := by
  decide

/-- C17: `DeleteEntry` returns an error and leaves the disk and the FAT as they were (1) when
the name is empty, (2) when it is "." or ".." (error `reservedName`), and (3) when the entry
the name denotes (the one the search of the parent listing returns) is a directory whose own
listing holds an entry other than "." and ".." (error `directoryNotEmpty`). (4) The search of
the parent listing reads every name up to its first zero byte: when an entry whose name has no
zero byte is listed before the first entry with the name, the call aborts there, with the state
unchanged, whatever the name denotes; in particular it does not return `directoryNotEmpty` for
a directory that is not empty. -/
theorem C17_delete_refusals (s : FSState) (p : Int) (name : List Nat) :
    (name = [] → DeleteEntry s p name = (s, .err .nameEmpty)) ∧
    (name = [46] ∨ name = [46, 46] → DeleteEntry s p name = (s, .err .reservedName)) ∧
    (∀ (entries : List DirectoryEntry) (e : DirectoryEntry) (subs : List DirectoryEntry),
      name ≠ [] → name ≠ [46] → name ≠ [46, 46] →
      ListEntries s p = .ok entries → findEntry name entries = .ok (some e) →
      e.EntryType = TYPE_DIRECTORY → ListEntries s e.StartBlock = .ok subs →
      (∃ x ∈ subs, safeName x.Name ≠ [46] ∧ safeName x.Name ≠ [46, 46]) →
      DeleteEntry s p name = (s, .err .directoryNotEmpty)) ∧
    (∀ (entries l1 l2 : List DirectoryEntry) (x : DirectoryEntry),
      name ≠ [] → name ≠ [46] → name ≠ [46, 46] →
      ListEntries s p = .ok entries → entries = l1 ++ x :: l2 → otherNames name l1 →
      nameOf x.Name = none →
      DeleteEntry s p name = (s, .panic)) := by
  obtain ⟨a, b, c⟩ := delete_refusals s p name
  exact ⟨a, b, c, fun entries l1 l2 x h0 h1 h2 hl he hl1 hx =>
    deleteEntry_aborts s p name entries l1 l2 x h0 h1 h2 hl he hl1 hx⟩

set_option maxRecDepth 1000000 in
/-- C17 at two inputs. After `create_directory(1, "d")` and `create_file(0, "f")`,
`delete_entry(1, "d")` returns `directoryNotEmpty`. In the state the five successful calls of
`rewriteRoot openNameBlock` leave, the directory "d" is listed after a name without zero byte
and its block lists "q": `delete_entry(1, "d")` aborts. -/
theorem C17_delete_refusals_witness :
    ListEntries
      (CreateFile (CreateDirectory (FormatDisk ⟨[], []⟩ 0 0).1 1 [100] 0 0 0).1 0 [102] 0).1 0
      = .ok [⟨mkName [46], 1, 0, 98, 0⟩, ⟨mkName [46, 46], 1, 1, 0, 0⟩,
          ⟨mkName [102], 0, 2, 0, 0⟩] ∧
    DeleteEntry
      (CreateFile (CreateDirectory (FormatDisk ⟨[], []⟩ 0 0).1 1 [100] 0 0 0).1 0 [102] 0).1 1 [100]
      = ((CreateFile (CreateDirectory (FormatDisk ⟨[], []⟩ 0 0).1 1 [100] 0 0 0).1 0 [102] 0).1,
          .err .directoryNotEmpty) ∧
    runResults (NewFileSystem ⟨[], []⟩ 0 0).1 (rewriteRoot openNameBlock)
      = [.ok (), .ok (), .ok (), .ok (), .ok ()] ∧
    ListEntries (runOps (NewFileSystem ⟨[], []⟩ 0 0).1 (rewriteRoot openNameBlock)) 0
      = .ok [⟨mkName [113], TYPE_FILE, 1, 245, 0⟩] ∧
    DeleteEntry (runOps (NewFileSystem ⟨[], []⟩ 0 0).1 (rewriteRoot openNameBlock)) 1 [100]
      = (runOps (NewFileSystem ⟨[], []⟩ 0 0).1 (rewriteRoot openNameBlock), .panic) :=
  ⟨by decide, (C17_delete_refusals
    (CreateFile (CreateDirectory (FormatDisk ⟨[], []⟩ 0 0).1 1 [100] 0 0 0).1 0 [102] 0).1 1
    [100]).2.2.1
    [⟨mkName [46], 1, 1, 0, 0⟩, ⟨mkName [46, 46], 1, 1, 0, 0⟩, ⟨mkName [100], 1, 0, 98, 0⟩]
    ⟨mkName [100], 1, 0, 98, 0⟩
    [⟨mkName [46], 1, 0, 98, 0⟩, ⟨mkName [46, 46], 1, 1, 0, 0⟩, ⟨mkName [102], 0, 2, 0, 0⟩]
    (by decide) (by decide) (by decide) (by decide) (by decide) (by decide) (by decide)
    ⟨⟨mkName [102], 0, 2, 0, 0⟩, by decide, by decide, by decide⟩,
   by decide, by decide,
   (C17_delete_refusals (runOps (NewFileSystem ⟨[], []⟩ 0 0).1 (rewriteRoot openNameBlock)) 1
    [100]).2.2.2
    [⟨mkName [46], TYPE_DIRECTORY, 1, 0, 0⟩, ⟨mkName [46, 46], TYPE_DIRECTORY, 1, 0, 0⟩,
      ⟨List.replicate 28 120, TYPE_FILE, FAT_EOF, 0, 0⟩,
      ⟨mkName [98], TYPE_FILE, FAT_EOF, 0, 0⟩, ⟨mkName [100], TYPE_DIRECTORY, 0, 0, 0⟩]
    [⟨mkName [46], TYPE_DIRECTORY, 1, 0, 0⟩, ⟨mkName [46, 46], TYPE_DIRECTORY, 1, 0, 0⟩]
    [⟨mkName [98], TYPE_FILE, FAT_EOF, 0, 0⟩, ⟨mkName [100], TYPE_DIRECTORY, 0, 0, 0⟩]
    ⟨List.replicate 28 120, TYPE_FILE, FAT_EOF, 0, 0⟩
    (by decide) (by decide) (by decide) (by decide) rfl
    (fun e he => by
      simp only [List.mem_cons, List.mem_singleton, List.not_mem_nil, or_false] at he
      rcases he with h | h
      · rw [h]
        exact ⟨[46], by decide, by decide⟩
      · rw [h]
        exact ⟨[46, 46], by decide, by decide⟩)
    (by decide)⟩

theorem freeLoop_no_abort (fuel : Nat) : ∀ (s : FSState) (cur : Int),
    (freeLoop fuel s cur).2 ≠ .panic := by
  induction fuel with
  | zero =>
    intro s cur h
    cases h
  | succ fuel ih =>
    intro s cur
    unfold freeLoop
    split
    · intro h; cases h
    · split
      · intro h; cases h
      · exact ih _ _

theorem releasedOld_no_abort (s : FSState) (f : DirectoryEntry) :
    (releasedOld s f).2 ≠ .panic := by
  unfold releasedOld
  split
  · unfold freeBlockChain
    split
    · split
      · intro h; cases h
      · intro h; cases h
    · exact freeLoop_no_abort _ _ _
  · intro h; cases h

/-- When `WriteToFile` aborts on non-empty data for an entry whose own name is zero-terminated,
the abort is that of the final `updateEntryInDirectory`: the roll-back is not reached and the
first block the call allocated, free after the release of the old chain, stays allocated. -/
theorem write_abort_keeps (s s3 : FSState) (f f2 : DirectoryEntry) (p : Int)
    (data : List Nat) (now : Int) (hwf : s.WF) (hnm : ∃ nm, nameOf f.Name = some nm)
    (hd : data.length ≠ 0) (h : WriteToFile s f p data now = (s3, f2, .panic)) :
    ∃ b, findFreeBlock (releasedOld s f).1 = .ok b ∧ fatAt (releasedOld s f).1 b = FAT_FREE ∧
      fatAt s3 b ≠ FAT_FREE := by
  obtain ⟨nm, hnm⟩ := hnm
  have hwf1 := releasedOld_WF s f hwf
  have hna := releasedOld_no_abort s f
  unfold WriteToFile at h
  split at h
  · simp at h
  split at h
  · simp at h
  rw [hnm] at h
  dsimp only at h
  generalize hro : releasedOld s f = ro at h hwf1 hna ⊢
  obtain ⟨s1, r1⟩ := ro
  dsimp only at hwf1 hna ⊢
  cases r1 with
  | err e1 => simp at h
  | panic => exact absurd rfl hna
  | diverge => simp at h
  | ok u =>
    dsimp only at h
    try rw [if_neg hd] at h
    generalize hal : allocLoop data ((data.length + BLOCK_SIZE - 1) / BLOCK_SIZE) 0 s1 []
      FAT_EOF FAT_EOF = al at h
    obtain ⟨s2, r2⟩ := al
    cases r2 with
    | none => simp at h
    | some bf =>
      obtain ⟨blocks, first⟩ := bf
      dsimp only at h
      generalize hup : updateEntryInDirectory s2 p
        { Name := f.Name, EntryType := f.EntryType, StartBlock := first,
          Size := (data.length : Int), ModTime := now } = up at h
      obtain ⟨s4, r4⟩ := up
      have hfat := updateEntry_FAT s2 p
        { Name := f.Name, EntryType := f.EntryType, StartBlock := first,
          Size := (data.length : Int), ModTime := now }
      rw [hup] at hfat
      have hs3 : s3 = s4 := by
        cases r4 with
        | ok u2 => simp at h
        | err e4 => simp at h
        | panic =>
          simp only [Prod.mk.injEq] at h
          exact h.1.symm
        | diverge => simp at h
      have e256 : BLOCK_SIZE = 256 := rfl
      obtain ⟨nb, rest, hblocks, hstore, _, _, _, _, _, _⟩ :=
        allocLoop_stores data _ 0 _ s2 [] blocks FAT_EOF FAT_EOF first hwf1 (Or.inl rfl)
          (by rw [e256]; omega) (by rw [e256]; omega) (by rw [e256]; omega) hal
      rw [Nat.zero_mul, List.drop_zero] at hstore
      obtain ⟨t, ht⟩ : ∃ t, (data.length + BLOCK_SIZE - 1) / BLOCK_SIZE = t + 1 :=
        ⟨(data.length + BLOCK_SIZE - 1) / BLOCK_SIZE - 1, by rw [e256]; omega⟩
      rw [ht] at hal
      obtain ⟨nb0, hfb, htail⟩ :=
        allocLoop_step data t 0 _ [] FAT_EOF FAT_EOF blocks first s2 hal
      obtain ⟨new, hnew⟩ := allocLoop_extends data t 1 _ s2 _ blocks _ _ first htail
      have hnb : nb = nb0 := by
        rw [hblocks] at hnew
        have h2 : nb :: rest = nb0 :: new := hnew
        injection h2
      subst hnb
      refine ⟨nb, hfb, (findFreeBlock_ok _ nb hfb).2.2.1, ?_⟩
      rw [hs3, fatAt_congr _ s4 hfat nb]
      exact storesData_first_allocated s2 nb data (nb :: rest) hstore

/-- C14: `WriteToFile` after its validation (the entry is a file, the parent block is inside
the disk and allocated). (1) When it returns an error, in particular when `findFreeBlock`
failed during the allocation or the final `updateEntryInDirectory` returned an error: the FAT
is the FAT as the release of the old chain left it. It differs from the FAT before the call
only at blocks of the old chain of the file; no block that was free before the call is left
allocated; and when the release of the old chain succeeded, every block of the old chain is
free. (2) When the final `updateEntryInDirectory` aborts instead (non-empty data, the name of
the entry itself zero-terminated, a name without zero byte met in the parent before the entry),
the roll-back is not reached: the first block the call allocated, free after the release of
the old chain, is left allocated. -/
theorem C14_write_failure_releases (s s3 : FSState) (f f2 : DirectoryEntry) (p : Int)
    (data : List Nat) (now : Int) (hwf : s.WF)
    (ht : f.EntryType = TYPE_FILE)
    (hp : 0 ≤ p ∧ p < (TOTAL_BLOCKS : Int) ∧ fatAt s p ≠ FAT_FREE) :
    (∀ e : FsError, WriteToFile s f p data now = (s3, f2, .err e) →
      s3.FAT = (releasedOld s f).1.FAT ∧
      (∀ y : Int, 0 ≤ y → y ∉ chainOf s walkFuel f.StartBlock → fatAt s3 y = fatAt s y) ∧
      (∀ y : Int, fatAt s y = FAT_FREE → fatAt s3 y = FAT_FREE) ∧
      ((releasedOld s f).2 = .ok () →
        ∀ y ∈ chainOf s walkFuel f.StartBlock, fatAt s3 y = FAT_FREE)) ∧
    ((∃ nm, nameOf f.Name = some nm) → data.length ≠ 0 →
      WriteToFile s f p data now = (s3, f2, .panic) →
      ∃ b, findFreeBlock (releasedOld s f).1 = .ok b ∧
        fatAt (releasedOld s f).1 b = FAT_FREE ∧ fatAt s3 b ≠ FAT_FREE) :=
  ⟨fun e h => write_failure_releases s s3 f f2 p data now e hwf ht hp h,
    fun hnm hd h => write_abort_keeps s s3 f f2 p data now hwf hnm hd h⟩

set_option maxRecDepth 1000000 in
/-- C14 at two inputs. On a disk without a free block the write of 257 bytes returns `diskFull`
and the FAT is the FAT the release of the old chain left. In the state the five successful
calls of `rewriteRoot openNameBlock` leave, the file "b" is listed in the root after a name
without zero byte: `write_file` of the listed entry of "b" with one byte aborts, and block 2,
free before the call, is left allocated. -/
theorem C14_write_failure_releases_witness :
    (WriteToFile
      ⟨(CreateFile (FormatDisk ⟨[], []⟩ 0 0).1 1 [97] 0).1.Disk, List.replicate 256 FAT_EOF⟩
      ⟨mkName [97], TYPE_FILE, 0, 0, 0⟩ 1 (List.replicate 257 7) 9).2.2 = .err .diskFull ∧
    (WriteToFile
      ⟨(CreateFile (FormatDisk ⟨[], []⟩ 0 0).1 1 [97] 0).1.Disk, List.replicate 256 FAT_EOF⟩
      ⟨mkName [97], TYPE_FILE, 0, 0, 0⟩ 1 (List.replicate 257 7) 9).1.FAT
      = (releasedOld
          ⟨(CreateFile (FormatDisk ⟨[], []⟩ 0 0).1 1 [97] 0).1.Disk, List.replicate 256 FAT_EOF⟩
          ⟨mkName [97], TYPE_FILE, 0, 0, 0⟩).1.FAT ∧
    runResults (NewFileSystem ⟨[], []⟩ 0 0).1 (rewriteRoot openNameBlock)
      = [.ok (), .ok (), .ok (), .ok (), .ok ()] ∧
    (WriteToFile (runOps (NewFileSystem ⟨[], []⟩ 0 0).1 (rewriteRoot openNameBlock))
      ⟨mkName [98], TYPE_FILE, FAT_EOF, 0, 0⟩ 1 [7] 5).2.2 = .panic ∧
    fatAt (runOps (NewFileSystem ⟨[], []⟩ 0 0).1 (rewriteRoot openNameBlock)) 2 = FAT_FREE ∧
    fatAt (WriteToFile (runOps (NewFileSystem ⟨[], []⟩ 0 0).1 (rewriteRoot openNameBlock))
      ⟨mkName [98], TYPE_FILE, FAT_EOF, 0, 0⟩ 1 [7] 5).1 2 = FAT_EOF ∧
    ∃ b, findFreeBlock (releasedOld
          (runOps (NewFileSystem ⟨[], []⟩ 0 0).1 (rewriteRoot openNameBlock))
          ⟨mkName [98], TYPE_FILE, FAT_EOF, 0, 0⟩).1 = .ok b ∧
      fatAt (releasedOld (runOps (NewFileSystem ⟨[], []⟩ 0 0).1 (rewriteRoot openNameBlock))
          ⟨mkName [98], TYPE_FILE, FAT_EOF, 0, 0⟩).1 b = FAT_FREE ∧
      fatAt (WriteToFile (runOps (NewFileSystem ⟨[], []⟩ 0 0).1 (rewriteRoot openNameBlock))
        ⟨mkName [98], TYPE_FILE, FAT_EOF, 0, 0⟩ 1 [7] 5).1 b ≠ FAT_FREE :=
  ⟨by decide,
    ((C14_write_failure_releases
      ⟨(CreateFile (FormatDisk ⟨[], []⟩ 0 0).1 1 [97] 0).1.Disk, List.replicate 256 FAT_EOF⟩ _
      ⟨mkName [97], TYPE_FILE, 0, 0, 0⟩ _ 1 (List.replicate 257 7) 9
      (by decide) (by decide) (by decide)).1 .diskFull
      (Prod.ext rfl (Prod.ext rfl (by decide)))).1,
    by decide, by decide, by decide, by decide,
    (C14_write_failure_releases
      (runOps (NewFileSystem ⟨[], []⟩ 0 0).1 (rewriteRoot openNameBlock)) _
      ⟨mkName [98], TYPE_FILE, FAT_EOF, 0, 0⟩ _ 1 [7] 5
      (by decide) (by decide) (by decide)).2 ⟨[98], by decide⟩ (by decide)
      (Prod.ext rfl (Prod.ext rfl (by decide)))⟩

/-! ## C23: the root block stays allocated -/

theorem allOnTree_take (ops : List Op) :
    ∀ (s : FSState) (k : Nat), allOnTree s ops → allOnTree s (ops.take k) := by
  induction ops with
  | nil =>
    intro s k h
    rw [List.take_nil]
    exact h
  | cons op rest ih =>
    intro s k h
    cases k with
    | zero => exact trivial
    | succ k => exact ⟨h.1, ih (applyOp s op) k h.2⟩

/-- C23 (as amended): after `new_filesystem` and any sequence of calls made on the tree (the
parent block of every `create_file`, `create_directory`, `write_file` and `delete_entry` is the
start block of a directory reachable from the root; created names have no zero byte and not
the full 28 bytes; `write_file` is given an entry that `list_entries` returns for the parent
and, when that entry is a file, succeeds; creations and deletions may fail, `delete_entry` may
be given any name, "." and ".." included), the FAT entry of `ROOT_DIR_BLOCK` is not `FAT_FREE`,
in the state the sequence leaves and in the state every call of it leaves. -/
theorem C23_root_allocated (prior : FSState) (t1 t2 : Int) (ops : List Op)
    (h : allOnTree (NewFileSystem prior t1 t2).1 ops) :
    fatAt (runOps (NewFileSystem prior t1 t2).1 ops) ROOT_DIR_BLOCK ≠ FAT_FREE ∧
    ∀ k, fatAt (runOps (NewFileSystem prior t1 t2).1 (ops.take k)) ROOT_DIR_BLOCK ≠ FAT_FREE := by
  have hT0 : Tree (NewFileSystem prior t1 t2).1 := by
    rw [(newFileSystem_state prior t1 t2).1]
    exact tree_format prior t1 t2
  have hEF : FAT_EOF ≠ FAT_FREE := by decide
  have key : ∀ l, allOnTree (NewFileSystem prior t1 t2).1 l →
      fatAt (runOps (NewFileSystem prior t1 t2).1 l) ROOT_DIR_BLOCK ≠ FAT_FREE := by
    intro l hl
    have hT := tree_runOps l _ hT0 hl
    rw [(hT.dir ROOT_DIR_BLOCK RDir.root).2.2.1]
    exact hEF
  exact ⟨key ops h, fun k => key _ (allOnTree_take ops _ k h)⟩

set_option maxRecDepth 1000000 in
/-- C23 as stated fails, and each condition of the amended statement is needed. Four runs from
`new_filesystem`, each with the results of its calls, end with `FAT[ROOT_DIR_BLOCK]` free.
(1) A parent that is no directory: `create_file(1, "a")` (block 0); `write_file` of the listed
entry of "a" with the 49 bytes of an entry "r" (FILE, StartBlock 1); `delete_entry(0, "r")`
reads block 0 as a directory and releases the chain of "r". All three calls succeed.
(2) An entry that the parent does not list: `create_file(1, "a")`, `delete_entry(1, "a")`,
`create_directory(1, "e")` (block 0), then `write_file` of the entry of "a" read before the
deletion: it releases block 0, stores the bytes of "r" in it and fails; `delete_entry(0, "r")`
in the directory "e" releases the root block.
(3) A name with a zero byte: `create_file(1, "a")`, `create_file(1, "a\x00b")`, listed as "a"
too; `write_file` of the second entry rewrites the slot of the first; `delete_entry(1, "a")`
releases the block both slots name; `create_directory(1, "e")` is given that block;
`write_file` of the listed second entry stores the bytes of "r" in the block of "e";
`delete_entry(2, "r")` releases the root block. All seven calls succeed.
(4) A `write_file` that fails: `create_file` "a" and "b", `delete_entry(1, "a")`, `write_file`
of the listed entry of "b" fails behind the tombstone after it has released block 2;
`create_file(1, "c")`, `create_directory(1, "e")` (block 2); `write_file` of the listed entry of
"b" stores the bytes of "r" in the block of "e"; `delete_entry(2, "r")` releases the root
block. -/
theorem C23_counterexample :
    (runResults (NewFileSystem ⟨[], []⟩ 0 0).1
        [.createFile 1 [97] 0,
         .writeFile ⟨mkName [97], TYPE_FILE, 0, 0, 0⟩ 1
           (entryBytes ⟨mkName [114], TYPE_FILE, 1, 0, 0⟩) 0,
         .deleteEntry 0 [114]]
        = [.ok (), .ok (), .ok ()] ∧
      ListEntries (CreateFile (NewFileSystem ⟨[], []⟩ 0 0).1 1 [97] 0).1 1 = .ok
        [⟨mkName [46], TYPE_DIRECTORY, 1, 0, 0⟩, ⟨mkName [46, 46], TYPE_DIRECTORY, 1, 0, 0⟩,
         ⟨mkName [97], TYPE_FILE, 0, 0, 0⟩] ∧
      fatAt (runOps (NewFileSystem ⟨[], []⟩ 0 0).1
        [.createFile 1 [97] 0,
         .writeFile ⟨mkName [97], TYPE_FILE, 0, 0, 0⟩ 1
           (entryBytes ⟨mkName [114], TYPE_FILE, 1, 0, 0⟩) 0,
         .deleteEntry 0 [114]]) ROOT_DIR_BLOCK = FAT_FREE) ∧
    (runResults (NewFileSystem ⟨[], []⟩ 0 0).1
        [.createFile 1 [97] 0, .deleteEntry 1 [97], .createDirectory 1 [101] 0 0 0,
         .writeFile ⟨mkName [97], TYPE_FILE, 0, 0, 0⟩ 1
           (entryBytes ⟨mkName [114], TYPE_FILE, 1, 0, 0⟩) 0,
         .deleteEntry 0 [114]]
        = [.ok (), .ok (), .ok (), .err .entryNotFound,
           .err (.invalidateFailed .invalidParent)] ∧
      fatAt (runOps (NewFileSystem ⟨[], []⟩ 0 0).1
        [.createFile 1 [97] 0, .deleteEntry 1 [97], .createDirectory 1 [101] 0 0 0,
         .writeFile ⟨mkName [97], TYPE_FILE, 0, 0, 0⟩ 1
           (entryBytes ⟨mkName [114], TYPE_FILE, 1, 0, 0⟩) 0,
         .deleteEntry 0 [114]]) ROOT_DIR_BLOCK = FAT_FREE) ∧
    (runResults (NewFileSystem ⟨[], []⟩ 0 0).1
        [.createFile 1 [97] 0, .createFile 1 [97, 0, 98] 0,
         .writeFile ⟨mkName [97, 0, 98], TYPE_FILE, 2, 0, 0⟩ 1 [7] 0,
         .deleteEntry 1 [97], .createDirectory 1 [101] 0 0 0,
         .writeFile ⟨mkName [97, 0, 98], TYPE_FILE, 2, 0, 0⟩ 1
           (entryBytes ⟨mkName [114], TYPE_FILE, 1, 0, 0⟩) 0,
         .deleteEntry 2 [114]]
        = [.ok (), .ok (), .ok (), .ok (), .ok (), .ok (), .ok ()] ∧
      ListEntries (runOps (NewFileSystem ⟨[], []⟩ 0 0).1
        [.createFile 1 [97] 0, .createFile 1 [97, 0, 98] 0,
         .writeFile ⟨mkName [97, 0, 98], TYPE_FILE, 2, 0, 0⟩ 1 [7] 0,
         .deleteEntry 1 [97], .createDirectory 1 [101] 0 0 0]) 1 = .ok
        [⟨mkName [46], TYPE_DIRECTORY, 1, 0, 0⟩, ⟨mkName [46, 46], TYPE_DIRECTORY, 1, 0, 0⟩,
         ⟨mkName [101], TYPE_DIRECTORY, 2, 98, 0⟩, ⟨mkName [97, 0, 98], TYPE_FILE, 2, 0, 0⟩] ∧
      fatAt (runOps (NewFileSystem ⟨[], []⟩ 0 0).1
        [.createFile 1 [97] 0, .createFile 1 [97, 0, 98] 0,
         .writeFile ⟨mkName [97, 0, 98], TYPE_FILE, 2, 0, 0⟩ 1 [7] 0,
         .deleteEntry 1 [97], .createDirectory 1 [101] 0 0 0,
         .writeFile ⟨mkName [97, 0, 98], TYPE_FILE, 2, 0, 0⟩ 1
           (entryBytes ⟨mkName [114], TYPE_FILE, 1, 0, 0⟩) 0,
         .deleteEntry 2 [114]]) ROOT_DIR_BLOCK = FAT_FREE) ∧
    (runResults (NewFileSystem ⟨[], []⟩ 0 0).1
        [.createFile 1 [97] 0, .createFile 1 [98] 0, .deleteEntry 1 [97],
         .writeFile ⟨mkName [98], TYPE_FILE, 2, 0, 0⟩ 1 [7] 0,
         .createFile 1 [99] 0, .createDirectory 1 [101] 0 0 0,
         .writeFile ⟨mkName [98], TYPE_FILE, 2, 0, 0⟩ 1
           (entryBytes ⟨mkName [114], TYPE_FILE, 1, 0, 0⟩) 0,
         .deleteEntry 2 [114]]
        = [.ok (), .ok (), .ok (), .err .entryNotFound, .ok (), .ok (), .ok (), .ok ()] ∧
      ListEntries (runOps (NewFileSystem ⟨[], []⟩ 0 0).1
        [.createFile 1 [97] 0, .createFile 1 [98] 0, .deleteEntry 1 [97],
         .writeFile ⟨mkName [98], TYPE_FILE, 2, 0, 0⟩ 1 [7] 0,
         .createFile 1 [99] 0, .createDirectory 1 [101] 0 0 0]) 1 = .ok
        [⟨mkName [46], TYPE_DIRECTORY, 1, 0, 0⟩, ⟨mkName [46, 46], TYPE_DIRECTORY, 1, 0, 0⟩,
         ⟨mkName [99], TYPE_FILE, 0, 0, 0⟩, ⟨mkName [98], TYPE_FILE, 2, 0, 0⟩,
         ⟨mkName [101], TYPE_DIRECTORY, 2, 98, 0⟩] ∧
      fatAt (runOps (NewFileSystem ⟨[], []⟩ 0 0).1
        [.createFile 1 [97] 0, .createFile 1 [98] 0, .deleteEntry 1 [97],
         .writeFile ⟨mkName [98], TYPE_FILE, 2, 0, 0⟩ 1 [7] 0,
         .createFile 1 [99] 0, .createDirectory 1 [101] 0 0 0,
         .writeFile ⟨mkName [98], TYPE_FILE, 2, 0, 0⟩ 1
           (entryBytes ⟨mkName [114], TYPE_FILE, 1, 0, 0⟩) 0,
         .deleteEntry 2 [114]]) ROOT_DIR_BLOCK = FAT_FREE) := by
  decide

set_option maxRecDepth 1000000 in
/-- C23 on a sequence that tries the guarded calls: `delete_entry(1, ".")`,
`delete_entry(1, "..")`, `write_file` of the listed entry ".", and `delete_entry(2, "..")` in a
subdirectory are all refused, the other calls succeed, and the root block stays allocated. -/
theorem C23_root_allocated_witness :
    allOnTree (NewFileSystem ⟨[], []⟩ 0 0).1
      [.createFile 1 [97] 0, .deleteEntry 1 [46], .deleteEntry 1 [46, 46],
       .writeFile ⟨mkName [46], TYPE_DIRECTORY, 1, 0, 0⟩ 1 [7] 0,
       .createDirectory 1 [100] 1 2 3, .deleteEntry 2 [46, 46],
       .writeFile ⟨mkName [97], TYPE_FILE, 0, 0, 0⟩ 1 (List.replicate 300 7) 5,
       .deleteEntry 1 [97]] ∧
    runResults (NewFileSystem ⟨[], []⟩ 0 0).1
      [.createFile 1 [97] 0, .deleteEntry 1 [46], .deleteEntry 1 [46, 46],
       .writeFile ⟨mkName [46], TYPE_DIRECTORY, 1, 0, 0⟩ 1 [7] 0,
       .createDirectory 1 [100] 1 2 3, .deleteEntry 2 [46, 46],
       .writeFile ⟨mkName [97], TYPE_FILE, 0, 0, 0⟩ 1 (List.replicate 300 7) 5,
       .deleteEntry 1 [97]]
      = [.ok (), .err .reservedName, .err .reservedName, .err .notAFile, .ok (),
         .err .reservedName, .ok (), .ok ()] ∧
    fatAt (runOps (NewFileSystem ⟨[], []⟩ 0 0).1
      [.createFile 1 [97] 0, .deleteEntry 1 [46], .deleteEntry 1 [46, 46],
       .writeFile ⟨mkName [46], TYPE_DIRECTORY, 1, 0, 0⟩ 1 [7] 0,
       .createDirectory 1 [100] 1 2 3, .deleteEntry 2 [46, 46],
       .writeFile ⟨mkName [97], TYPE_FILE, 0, 0, 0⟩ 1 (List.replicate 300 7) 5,
       .deleteEntry 1 [97]]) ROOT_DIR_BLOCK ≠ FAT_FREE := by
  have hon : allOnTree (NewFileSystem ⟨[], []⟩ 0 0).1
      [.createFile 1 [97] 0, .deleteEntry 1 [46], .deleteEntry 1 [46, 46],
       .writeFile ⟨mkName [46], TYPE_DIRECTORY, 1, 0, 0⟩ 1 [7] 0,
       .createDirectory 1 [100] 1 2 3, .deleteEntry 2 [46, 46],
       .writeFile ⟨mkName [97], TYPE_FILE, 0, 0, 0⟩ 1 (List.replicate 300 7) 5,
       .deleteEntry 1 [97]] := by
    refine ⟨⟨Reach.root, by decide, by decide⟩, Reach.root, Reach.root,
      ⟨Reach.root, ⟨[⟨mkName [46], TYPE_DIRECTORY, 1, 0, 0⟩,
          ⟨mkName [46, 46], TYPE_DIRECTORY, 1, 0, 0⟩, ⟨mkName [97], TYPE_FILE, 0, 0, 0⟩],
          by decide, by decide⟩, fun hf => absurd hf (by decide)⟩,
      ⟨Reach.root, by decide, by decide⟩, ?_,
      ⟨Reach.root, ⟨[⟨mkName [46], TYPE_DIRECTORY, 1, 0, 0⟩,
          ⟨mkName [46, 46], TYPE_DIRECTORY, 1, 0, 0⟩, ⟨mkName [97], TYPE_FILE, 0, 0, 0⟩,
          ⟨mkName [100], TYPE_DIRECTORY, 2, 98, 3⟩], by decide, by decide⟩,
        fun _ => by decide⟩,
      Reach.root, trivial⟩
    exact Reach.sub 1 [⟨mkName [46], TYPE_DIRECTORY, 1, 0, 0⟩,
        ⟨mkName [46, 46], TYPE_DIRECTORY, 1, 0, 0⟩, ⟨mkName [97], TYPE_FILE, 0, 0, 0⟩,
        ⟨mkName [100], TYPE_DIRECTORY, 2, 98, 3⟩] ⟨mkName [100], TYPE_DIRECTORY, 2, 98, 3⟩
      Reach.root (by decide) (by decide) rfl
  exact ⟨hon, by decide, (C23_root_allocated ⟨[], []⟩ 0 0 _ hon).1⟩

end FS
